import Mathlib

/-!
# AJ-BSP node builder (eureka-editor, `src/bsp_node.cc`, `src/bsp.h`)

A shallow embedding of the node builder and proofs about it.

Modelling conventions.

* `double` values are exact rationals (`ℚ`); `int` values are unbounded integers.
* Pointers to heap objects (`vertex_t *`, `seg_t *`, `intersection_t *`, `node_t *`,
  `subsec_t *`) are indices into the level arrays, in allocation order; a nullable
  pointer is an `Option`.
* `BugError` aborts the build: a function that can reach it returns `Option`, and
  `none` is the abort (or a loop that ran out of fuel).
* Declarations that the sources at hand use but do not contain (`DIST_EPSILON`, `hypot`,
  `VertexCheckOpen`, the `LineDefs` table) are parameters of the definitions using them.
-/

namespace ajbsp

/-! ## Basic types (`bsp.h`, `e_basis.h`) -/

/-- `IFFY_LEN` of `bsp.h`. -/
def IFFY_LEN : ℚ := 4

/-- `enum class Side` of `e_basis.h`.  `bsp_node.cc` spells the values `SIDE_RIGHT`,
`SIDE_LEFT` and `0`. -/
inductive Side where
  | right
  | left
  | neither
deriving DecidableEq, Repr

/-- `SIDE_RIGHT` as used in `bsp_node.cc`. -/
abbrev SIDE_RIGHT : Side := Side.right

/-- `SIDE_LEFT` as used in `bsp_node.cc`. -/
abbrev SIDE_LEFT : Side := Side.left

/-- Unary minus on sides (`operator -` of `e_basis.h`). -/
def Side.neg : Side → Side
  | Side.right => Side.left
  | Side.left => Side.right
  | Side.neither => Side.neither

/-- `vertex_t` of `bsp.h` (the wall-tip set is queried through `VertexCheckOpen` only). -/
structure vertex_t where
  x : ℚ
  y : ℚ
  index : Int
  is_new : Bool
  overlap : Option Nat
deriving DecidableEq, Repr

/-- `seg_t` of `bsp.h`.  `next`, `partner` are seg pointers, `start`, `end_` vertex
pointers, `quad` identifies the quadtree cell holding the seg by its path from the root. -/
structure seg_t where
  next : Option Nat
  start : Nat
  end_ : Nat
  linedef : Int
  side : Int
  partner : Option Nat
  index : Int
  is_degenerate : Bool
  quad : Option (List Bool)
  psx : ℚ
  psy : ℚ
  pex : ℚ
  pey : ℚ
  pdx : ℚ
  pdy : ℚ
  p_length : ℚ
  p_para : ℚ
  p_perp : ℚ
  source_line : Int
  cmp_angle : ℚ
deriving DecidableEq, Repr

/-- `seg_t::ParallelDist`. -/
def seg_t.ParallelDist (s : seg_t) (x y : ℚ) : ℚ :=
  (x * s.pdx + y * s.pdy + s.p_para) / s.p_length

/-- `seg_t::PerpDist`. -/
def seg_t.PerpDist (s : seg_t) (x y : ℚ) : ℚ :=
  (x * s.pdy - y * s.pdx + s.p_perp) / s.p_length

/-- `seg_t::PointOnLineSide`. -/
def seg_t.PointOnLineSide (DIST_EPSILON : ℚ) (s : seg_t) (x y : ℚ) : Side :=
  let perp := s.PerpDist x y
  if |perp| ≤ DIST_EPSILON then Side.neither
  else if perp < 0 then SIDE_LEFT else SIDE_RIGHT

/-- The precomputed fields of a seg are what `RecomputeSeg` leaves for a seg of non-zero
length when the arithmetic is exact: `p_length` is the positive root of
`pdx² + pdy²`. -/
def seg_t.Exact (s : seg_t) : Prop :=
  s.pdx = s.pex - s.psx ∧ s.pdy = s.pey - s.psy ∧
  0 < s.p_length ∧ s.p_length ^ 2 = s.pdx ^ 2 + s.pdy ^ 2 ∧
  s.p_perp = s.psy * s.pdx - s.psx * s.pdy ∧
  s.p_para = -s.psx * s.pdx - s.psy * s.pdy

instance (s : seg_t) : Decidable s.Exact := by
  unfold seg_t.Exact; infer_instance

/-! ## Quadtree (`quadtree_c`) -/

/-- `quadtree_c` of `bsp.h`: a leaf has `subs[0] = subs[1] = NULL`, an inner cell owns
both sub-cells.  `list` is the head of the cell's own seg list. -/
inductive quadtree_c where
  | leaf (x1 y1 x2 y2 : Int) (real_num mini_num : Int) (list : Option Nat)
  | node (x1 y1 x2 y2 : Int) (real_num mini_num : Int) (list : Option Nat)
      (sub0 sub1 : quadtree_c)
deriving Repr

namespace quadtree_c

def x1 : quadtree_c → Int
  | leaf a _ _ _ _ _ _ => a
  | node a _ _ _ _ _ _ _ _ => a

def y1 : quadtree_c → Int
  | leaf _ a _ _ _ _ _ => a
  | node _ a _ _ _ _ _ _ _ => a

def x2 : quadtree_c → Int
  | leaf _ _ a _ _ _ _ => a
  | node _ _ a _ _ _ _ _ _ => a

def y2 : quadtree_c → Int
  | leaf _ _ _ a _ _ _ => a
  | node _ _ _ a _ _ _ _ _ => a

def real_num : quadtree_c → Int
  | leaf _ _ _ _ a _ _ => a
  | node _ _ _ _ a _ _ _ _ => a

def mini_num : quadtree_c → Int
  | leaf _ _ _ _ _ a _ => a
  | node _ _ _ _ _ a _ _ _ => a

def list : quadtree_c → Option Nat
  | leaf _ _ _ _ _ _ a => a
  | node _ _ _ _ _ _ a _ _ => a

/-- `quadtree_c::Empty`. -/
def Empty (t : quadtree_c) : Bool := t.real_num + t.mini_num == 0

/-- The two corner tests of `quadtree_c::OnLineSide`, before they are compared. -/
def OnLineSideCorners (DIST_EPSILON : ℚ) (t : quadtree_c) (part : seg_t) : Side × Side :=
  let tx1 : ℚ := (t.x1 : ℚ) - IFFY_LEN
  let ty1 : ℚ := (t.y1 : ℚ) - IFFY_LEN
  let tx2 : ℚ := (t.x2 : ℚ) + IFFY_LEN
  let ty2 : ℚ := (t.y2 : ℚ) + IFFY_LEN
  if part.pdx = 0 then
    let p1 := if tx1 > part.psx then SIDE_RIGHT else SIDE_LEFT
    let p2 := if tx2 > part.psx then SIDE_RIGHT else SIDE_LEFT
    if part.pdy < 0 then (p1.neg, p2.neg) else (p1, p2)
  else if part.pdy = 0 then
    let p1 := if ty1 < part.psy then SIDE_RIGHT else SIDE_LEFT
    let p2 := if ty2 < part.psy then SIDE_RIGHT else SIDE_LEFT
    if part.pdx < 0 then (p1.neg, p2.neg) else (p1, p2)
  else if part.pdx * part.pdy > 0 then
    (part.PointOnLineSide DIST_EPSILON tx1 ty2, part.PointOnLineSide DIST_EPSILON tx2 ty1)
  else
    (part.PointOnLineSide DIST_EPSILON tx1 ty1, part.PointOnLineSide DIST_EPSILON tx2 ty2)

/-- `quadtree_c::OnLineSide`. -/
def OnLineSide (DIST_EPSILON : ℚ) (t : quadtree_c) (part : seg_t) : Side :=
  let p := OnLineSideCorners DIST_EPSILON t part
  if p.1 ≠ p.2 then Side.neither else p.1

end quadtree_c

/-! ## Level arrays and allocation (`bsp.h`) -/

/-- `intersection_t` of `bsp.h`; `next`, `prev` are intersection pointers. -/
structure intersection_t where
  next : Option Nat
  prev : Option Nat
  vertex : Nat
  along_dist : ℚ
  self_ref : Bool
  open_before : Bool
  open_after : Bool
deriving DecidableEq, Repr

/-- `subsec_t` of `bsp.h`. -/
structure subsec_t where
  seg_list : Option Nat
  seg_count : Int
  index : Int
  mid_x : ℚ
  mid_y : ℚ
deriving DecidableEq, Repr

/-- `bbox_t` of `bsp.h`. -/
structure bbox_t where
  minx : Int
  miny : Int
  maxx : Int
  maxy : Int
deriving DecidableEq, Repr

/-- `child_t` of `bsp.h`. -/
structure child_t where
  node : Option Nat
  subsec : Option Nat
  bounds : bbox_t
deriving DecidableEq, Repr

/-- `node_t` of `bsp.h` (with the `too_long` flag that `SetPartition` writes). -/
structure node_t where
  x : ℚ
  y : ℚ
  dx : ℚ
  dy : ℚ
  r : child_t
  l : child_t
  index : Int
  too_long : Int
deriving DecidableEq, Repr

/-- What `UtilCalloc` returns for a `seg_t`: all fields zero. -/
def seg_t.zero : seg_t :=
  { next := none, start := 0, end_ := 0, linedef := 0, side := 0, partner := none, index := 0,
    is_degenerate := false, quad := none, psx := 0, psy := 0, pex := 0, pey := 0, pdx := 0,
    pdy := 0, p_length := 0, p_para := 0, p_perp := 0, source_line := 0, cmp_angle := 0 }

def vertex_t.zero : vertex_t :=
  { x := 0, y := 0, index := 0, is_new := false, overlap := none }

def intersection_t.zero : intersection_t :=
  { next := none, prev := none, vertex := 0, along_dist := 0, self_ref := false,
    open_before := false, open_after := false }

def bbox_t.zero : bbox_t := { minx := 0, miny := 0, maxx := 0, maxy := 0 }

def child_t.zero : child_t := { node := none, subsec := none, bounds := bbox_t.zero }

def node_t.zero : node_t :=
  { x := 0, y := 0, dx := 0, dy := 0, r := child_t.zero, l := child_t.zero, index := 0,
    too_long := 0 }

def subsec_t.zero : subsec_t :=
  { seg_list := none, seg_count := 0, index := 0, mid_x := 0, mid_y := 0 }

/-- The mutable state of a build: the level arrays `lev_vertices`, `lev_segs`,
`lev_subsecs`, `lev_nodes` (object `i` is the `i`-th one allocated), the intersection
records handed out by `NewIntersection`, and the static `quick_alloc_cuts` free list. -/
structure Level where
  lev_vertices : Nat → vertex_t
  num_vertices : Nat
  lev_segs : Nat → seg_t
  num_segs : Nat
  lev_subsecs : Nat → subsec_t
  num_subsecs : Nat
  lev_nodes : Nat → node_t
  num_nodes : Nat
  cuts : Nat → intersection_t
  num_cuts : Nat
  quick_alloc_cuts : Option Nat

/-- A level with nothing allocated. -/
def Level.empty : Level :=
  { lev_vertices := fun _ => vertex_t.zero, num_vertices := 0,
    lev_segs := fun _ => seg_t.zero, num_segs := 0,
    lev_subsecs := fun _ => subsec_t.zero, num_subsecs := 0,
    lev_nodes := fun _ => node_t.zero, num_nodes := 0,
    cuts := fun _ => intersection_t.zero, num_cuts := 0,
    quick_alloc_cuts := none }

/-- Write through a seg pointer. -/
def Level.setSeg (L : Level) (i : Nat) (s : seg_t) : Level :=
  { L with lev_segs := Function.update L.lev_segs i s }

/-- Assign to fields of the seg behind a pointer. -/
def Level.modSeg (L : Level) (i : Nat) (f : seg_t → seg_t) : Level :=
  L.setSeg i (f (L.lev_segs i))

/-- Write through an intersection pointer. -/
def Level.setCut (L : Level) (i : Nat) (c : intersection_t) : Level :=
  { L with cuts := Function.update L.cuts i c }

/-- `NewSeg`: a zeroed seg appended to `lev_segs`. -/
def NewSeg (L : Level) : Level × Nat :=
  ({ L with lev_segs := Function.update L.lev_segs L.num_segs seg_t.zero,
            num_segs := L.num_segs + 1 }, L.num_segs)

/-- `NewVertex`: a zeroed vertex appended to `lev_vertices`. -/
def NewVertex (L : Level) : Level × Nat :=
  ({ L with lev_vertices := Function.update L.lev_vertices L.num_vertices vertex_t.zero,
            num_vertices := L.num_vertices + 1 }, L.num_vertices)

/-- `NewSubsec`. -/
def NewSubsec (L : Level) : Level × Nat :=
  ({ L with lev_subsecs := Function.update L.lev_subsecs L.num_subsecs subsec_t.zero,
            num_subsecs := L.num_subsecs + 1 }, L.num_subsecs)

/-- `NewNode`. -/
def NewNode (L : Level) : Level × Nat :=
  ({ L with lev_nodes := Function.update L.lev_nodes L.num_nodes node_t.zero,
            num_nodes := L.num_nodes + 1 }, L.num_nodes)

/-- Modelled from the spec: `NewVertexFromSplitSeg` is declared in `bsp.h` but defined
outside the sources at hand.  It allocates the new end vertex at `(x, y)` and flags it
as newly created; the wall-tips it wires at the vertex are seen through
`VertexCheckOpen` only. -/
def NewVertexFromSplitSeg (L : Level) (_seg : Nat) (x y : ℚ) : Level × Nat :=
  let r := NewVertex L
  ({ r.1 with lev_vertices :=
      Function.update r.1.lev_vertices r.2 { r.1.lev_vertices r.2 with x := x, y := y, is_new := true } },
   r.2)

/-- `ListAddSeg` of `bsp.h`: returns the new head. -/
def ListAddSeg (L : Level) (list_ptr : Option Nat) (seg : Nat) : Level × Option Nat :=
  (L.modSeg seg fun s => { s with next := list_ptr }, some seg)

/-! ## Segs: `RecomputeSeg`, `SplitSeg`, `CreateSegs` -/

/-- The assignments of `RecomputeSeg` ("fill in the fields `pdx`, `pdy`, etc"). -/
def RecomputeFields (hypot : ℚ → ℚ → ℚ) (L : Level) (s : seg_t) : seg_t :=
  let psx := (L.lev_vertices s.start).x
  let psy := (L.lev_vertices s.start).y
  let pex := (L.lev_vertices s.end_).x
  let pey := (L.lev_vertices s.end_).y
  let pdx := pex - psx
  let pdy := pey - psy
  { s with
    psx := psx, psy := psy, pex := pex, pey := pey,
    pdx := pdx, pdy := pdy, p_length := hypot pdx pdy,
    p_perp := psy * pdx - psx * pdy, p_para := -psx * pdx - psy * pdy }

/-- `RecomputeSeg`; `none` is the `BugError` for a zero `p_length`. -/
def RecomputeSeg (hypot : ℚ → ℚ → ℚ) (L : Level) (seg : Nat) : Option Level :=
  let s := RecomputeFields hypot L (L.lev_segs seg)
  if s.p_length ≤ 0 then none else some (L.setSeg seg s)

/-- The "handle partners" block of `SplitSeg`, entered when `old_seg->partner` is not
null.  Every `new_seg->partner` and `old_seg->partner` is read from memory where the
source reads it. -/
def SplitSegPartner (hypot : ℚ → ℚ → ℚ) (L : Level) (old_seg new_seg new_vert : Nat) :
    Option Level :=
  let r := NewSeg L
  let L1 := r.1.modSeg new_seg fun s => { s with partner := some r.2 }
  -- copy seg info [ including the "next" field ]
  let np1 := ((L1.lev_segs new_seg).partner).getD 0
  let op1 := ((L1.lev_segs old_seg).partner).getD 0
  let L2 := L1.setSeg np1 (L1.lev_segs op1)
  -- IMPORTANT: keep partner relationship valid.
  let np2 := ((L2.lev_segs new_seg).partner).getD 0
  let L3 := L2.modSeg np2 fun s => { s with partner := some new_seg }
  let op3 := ((L3.lev_segs old_seg).partner).getD 0
  let L4 := L3.modSeg op3 fun s => { s with start := new_vert }
  let op4 := ((L4.lev_segs old_seg).partner).getD 0
  (RecomputeSeg hypot L4 op4).bind fun L5 =>
  let np5 := ((L5.lev_segs new_seg).partner).getD 0
  let L6 := L5.modSeg np5 fun s => { s with end_ := new_vert }
  let np6 := ((L6.lev_segs new_seg).partner).getD 0
  (RecomputeSeg hypot L6 np6).bind fun L7 =>
  -- link it into list
  let op7 := ((L7.lev_segs old_seg).partner).getD 0
  let np7 := (L7.lev_segs new_seg).partner
  some (L7.modSeg op7 fun s => { s with next := np7 })

/-- `SplitSeg`: returns the new state and the new seg (the cut-off tail). -/
def SplitSeg (hypot : ℚ → ℚ → ℚ) (L : Level) (old_seg : Nat) (x y : ℚ) :
    Option (Level × Nat) :=
  let r1 := NewVertexFromSplitSeg L old_seg x y
  let new_vert := r1.2
  let r2 := NewSeg r1.1
  let new_seg := r2.2
  -- copy seg info
  let L1 := r2.1.setSeg new_seg (r2.1.lev_segs old_seg)
  let L2 := L1.modSeg new_seg fun s => { s with next := none }
  let L3 := L2.modSeg old_seg fun s => { s with end_ := new_vert }
  (RecomputeSeg hypot L3 old_seg).bind fun L4 =>
  let L5 := L4.modSeg new_seg fun s => { s with start := new_vert }
  (RecomputeSeg hypot L5 new_seg).bind fun L6 =>
  -- handle partners
  match (L6.lev_segs old_seg).partner with
  | none => some (L6, new_seg)
  | some _ => (SplitSegPartner hypot L6 old_seg new_seg new_vert).map fun L7 => (L7, new_seg)

/-- `Vertex` of `e_basis.h` (raw fixed-point coordinates). -/
structure Vertex where
  raw_x : Int
  raw_y : Int
deriving DecidableEq, Repr

/-- `LineDef` of `e_basis.h`. -/
structure LineDef where
  start : Int
  end_ : Int
  right : Int
  left : Int
  flags : Int
  type : Int
  tag : Int
  arg2 : Int := 0
  arg3 : Int := 0
  arg4 : Int := 0
  arg5 : Int := 0
deriving DecidableEq, Repr

/-- `SideDef` of `e_basis.h`. -/
structure SideDef where
  x_offset : Int
  y_offset : Int
  upper_tex : Int
  mid_tex : Int
  lower_tex : Int
  sector : Int
deriving DecidableEq, Repr

/-- `Sector` of `e_basis.h`. -/
structure Sector where
  floorh : Int
  ceilh : Int
  floor_tex : Int
  ceil_tex : Int
  light : Int
  type : Int
  tag : Int
deriving DecidableEq, Repr

/-- `Thing` of `e_basis.h`. -/
structure Thing where
  raw_x : Int
  raw_y : Int
  angle : Int
  type : Int
  options : Int
  raw_h : Int := 0
  tid : Int := 0
  special : Int := 0
  arg1 : Int := 0
  arg2 : Int := 0
  arg3 : Int := 0
  arg4 : Int := 0
  arg5 : Int := 0
deriving DecidableEq, Repr

/-- `MLF_IS_PRECIOUS` of `bsp.h`. -/
def MLF_IS_PRECIOUS : Int := 0x40000000

/-- `MLF_IS_OVERLAP` of `bsp.h`. -/
def MLF_IS_OVERLAP : Int := 0x20000000

/-- `Document` of `e_basis.h`: the object arrays of the map. -/
structure Document where
  Vertices : List Vertex
  LineDefs : List LineDef
  SideDefs : List SideDef := []
  Sectors : List Sector := []
  Things : List Thing := []
deriving DecidableEq, Repr

def Vertex.zero : Vertex := { raw_x := 0, raw_y := 0 }

/-- What the constructor of `LineDef` leaves. -/
def LineDef.zero : LineDef :=
  { start := 0, end_ := 0, right := -1, left := -1, flags := 0, type := 0, tag := 0 }

/-- What the constructor of `SideDef` leaves. -/
def SideDef.zero : SideDef :=
  { x_offset := 0, y_offset := 0, upper_tex := 0, mid_tex := 0, lower_tex := 0, sector := 0 }

/-- `LineDef::IsSelfRef`. -/
def LineDef.IsSelfRef (doc : Document) (l : LineDef) : Bool :=
  decide (l.left ≥ 0) && decide (l.right ≥ 0) &&
    ((doc.SideDefs.getD l.left.toNat SideDef.zero).sector ==
      (doc.SideDefs.getD l.right.toNat SideDef.zero).sector)

/-- `LineDef::Start`. -/
def LineDef.Start (doc : Document) (l : LineDef) : Vertex :=
  doc.Vertices.getD l.start.toNat Vertex.zero

/-- `LineDef::End`. -/
def LineDef.End (doc : Document) (l : LineDef) : Vertex :=
  doc.Vertices.getD l.end_.toNat Vertex.zero

/-- `LineDef::IsZeroLength`. -/
def LineDef.IsZeroLength (doc : Document) (l : LineDef) : Bool :=
  (l.Start doc).raw_x == (l.End doc).raw_x && (l.Start doc).raw_y == (l.End doc).raw_y

/-- `CreateOneSeg` (the warning about a bad sidedef has no effect on the build state). -/
def CreateOneSeg (hypot : ℚ → ℚ → ℚ) (L : Level) (line : Int) (start end_ : Nat)
    (_sidedef : Int) (what_side : Int) : Option (Level × Nat) :=
  let r := NewSeg L
  let seg := r.2
  let L1 := r.1.modSeg seg fun s => { s with
    start := start, end_ := end_, linedef := line, side := what_side, partner := none }
  let L2 := L1.modSeg seg fun s => { s with source_line := s.linedef, index := -1 }
  (RecomputeSeg hypot L2 seg).map fun L3 => (L3, seg)

/-- The body of the loop of `CreateSegs` for linedef number `i`. -/
def CreateSegsStep (hypot : ℚ → ℚ → ℚ) (doc : Document) (L : Level) (list : Option Nat)
    (i : Nat) (line : LineDef) : Option (Level × Option Nat) :=
  -- ignore zero-length lines
  if line.IsZeroLength doc then some (L, list)
  -- ignore overlapping lines
  else if Int.land line.flags MLF_IS_OVERLAP ≠ 0 then some (L, list)
  else
    let afterRight : Option (Level × Option Nat × Option Nat) :=
      if line.right ≥ 0 then
        (CreateOneSeg hypot L i line.start.toNat line.end_.toNat line.right 0).map fun r =>
          let a := ListAddSeg r.1 list r.2
          (a.1, a.2, some r.2)
      else some (L, list, none)
    afterRight.bind fun st =>
      let L1 := st.1
      let list1 := st.2.1
      let right := st.2.2
      if line.left ≥ 0 then
        (CreateOneSeg hypot L1 i line.end_.toNat line.start.toNat line.left 1).map fun r =>
          let left := r.2
          let a := ListAddSeg r.1 list1 left
          match right with
          | some rt =>
            let L2 := a.1.modSeg left fun s => { s with partner := some rt }
            let L3 := L2.modSeg rt fun s => { s with partner := some left }
            (L3, a.2)
          | none => a
      else some (L1, list1)

/-- The loop of `CreateSegs` over the linedefs `i, i+1, ...`. -/
def CreateSegsLoop (hypot : ℚ → ℚ → ℚ) (doc : Document) :
    List LineDef → Nat → Level → Option Nat → Option (Level × Option Nat)
  | [], _, L, list => some (L, list)
  | line :: rest, i, L, list =>
    (CreateSegsStep hypot doc L list i line).bind fun st =>
      CreateSegsLoop hypot doc rest (i + 1) st.1 st.2

/-- `CreateSegs`: returns the list of segs. -/
def CreateSegs (hypot : ℚ → ℚ → ℚ) (doc : Document) (L : Level) :
    Option (Level × Option Nat) :=
  CreateSegsLoop hypot doc doc.LineDefs 0 L none

/-! ## Intersections: `AddIntersection`, `AddMinisegs` -/

/-- Assign to fields of the intersection behind a pointer. -/
def Level.modCut (L : Level) (i : Nat) (f : intersection_t → intersection_t) : Level :=
  L.setCut i (f (L.cuts i))

/-- `NewIntersection`: the head of the `quick_alloc_cuts` free list if there is one, else
a zeroed record from `UtilCalloc`. -/
def NewIntersection (L : Level) : Level × Nat :=
  match L.quick_alloc_cuts with
  | some cut => ({ L with quick_alloc_cuts := (L.cuts cut).next }, cut)
  | none =>
    ({ L with cuts := Function.update L.cuts L.num_cuts intersection_t.zero,
              num_cuts := L.num_cuts + 1 }, L.num_cuts)

/-- The two `force_closed` assignments on an existing record. -/
def forceClosed (L : Level) (cut : Nat) (force_closed : Int) : Level :=
  let L1 := if force_closed = 1 then L.modCut cut fun c => { c with open_before := false } else L
  if force_closed = 2 then L1.modCut cut fun c => { c with open_after := false } else L1

/-- The "merge with any existing vertex?" loop of `AddIntersection`, from `cut` on.
`some (some L')`: merged, the function returns; `some none`: end of list, no merge;
`none`: out of fuel. -/
def AddIntersectionMerge (DIST_EPSILON : ℚ) (vert : Nat) (along_dist : ℚ)
    (open_before open_after : Bool) (force_closed : Int) :
    Nat → Level → Option Nat → Option (Option Level)
  | 0, _, _ => none
  | _ + 1, _, none => some none
  | fuel + 1, L, some cut =>
    if vert = (L.cuts cut).vertex then
      some (some (forceClosed L cut force_closed))
    else if |along_dist - (L.cuts cut).along_dist| < DIST_EPSILON then
      -- an OPEN aspect always overrides a CLOSED one.
      let L1 := if open_before then L.modCut cut fun c => { c with open_before := true } else L
      let L2 := if open_after then L1.modCut cut fun c => { c with open_after := true } else L1
      some (some (forceClosed L2 cut force_closed))
    else
      AddIntersectionMerge DIST_EPSILON vert along_dist open_before open_after force_closed
        fuel L (L.cuts cut).next

/-- The loop `for (after = *cut_list; after && after->next; after = after->next) { }`. -/
def AddIntersectionLast : Nat → Level → Option Nat → Option (Option Nat)
  | 0, _, _ => none
  | _ + 1, _, none => some none
  | fuel + 1, L, some after =>
    match (L.cuts after).next with
    | none => some (some after)
    | some n => AddIntersectionLast fuel L (some n)

/-- The loop `while (after && cut->along_dist < after->along_dist) after = after->prev`. -/
def AddIntersectionBack (along_dist : ℚ) : Nat → Level → Option Nat → Option (Option Nat)
  | 0, _, _ => none
  | _ + 1, _, none => some none
  | fuel + 1, L, some after =>
    if along_dist < (L.cuts after).along_dist then
      AddIntersectionBack along_dist fuel L (L.cuts after).prev
    else some (some after)

/-- The "link it in" part of `AddIntersection`; returns the new head of the list. -/
def AddIntersectionLink (L : Level) (cut_list : Option Nat) (cut : Nat) (after : Option Nat) :
    Level × Option Nat :=
  let nxt := match after with
    | some a => (L.cuts a).next
    | none => cut_list
  let L1 := L.modCut cut fun c => { c with next := nxt }
  let L2 := L1.modCut cut fun c => { c with prev := after }
  match after with
  | some a =>
    let L3 := match (L2.cuts a).next with
      | some n => L2.modCut n fun c => { c with prev := some cut }
      | none => L2
    (L3.modCut a fun c => { c with next := some cut }, cut_list)
  | none =>
    let L3 := match cut_list with
      | some h => L2.modCut h fun c => { c with prev := some cut }
      | none => L2
    (L3, some cut)

/-- `AddIntersection`: returns the new state and the new value of `*cut_list`.
`VertexCheckOpen` is declared in `bsp.h` and defined outside the sources at hand: it is a
parameter, a function of the vertex pointer and the direction.  Each loop may take as
many steps as there are intersection records, plus one. -/
def AddIntersection (DIST_EPSILON : ℚ) (VertexCheckOpen : Nat → ℚ → ℚ → Bool) (L : Level)
    (cut_list : Option Nat) (vert : Nat) (part : seg_t) (self_ref : Bool)
    (force_closed : Int) : Option (Level × Option Nat) :=
  let open_before0 := VertexCheckOpen vert (-part.pdx) (-part.pdy)
  let open_after0 := VertexCheckOpen vert part.pdx part.pdy
  let open_before := if force_closed = 1 then false else open_before0
  let open_after := if force_closed = 2 then false else open_after0
  let along_dist := part.ParallelDist (L.lev_vertices vert).x (L.lev_vertices vert).y
  /- merge with any existing vertex? -/
  (AddIntersectionMerge DIST_EPSILON vert along_dist open_before open_after force_closed
    (L.num_cuts + 1) L cut_list).bind fun merged =>
  match merged with
  | some L' => some (L', cut_list)
  | none =>
    /- create new intersection -/
    let r := NewIntersection L
    let cut := r.2
    let L1 := r.1.modCut cut fun c => { c with
      vertex := vert, along_dist := along_dist, self_ref := self_ref,
      open_before := open_before, open_after := open_after }
    /- insert the new intersection into the list -/
    (AddIntersectionLast (L1.num_cuts + 1) L1 cut_list).bind fun last =>
    (AddIntersectionBack (L1.cuts cut).along_dist (L1.num_cuts + 1) L1 last).bind fun after =>
    /- link it in -/
    some (AddIntersectionLink L1 cut_list cut after)

/-- The miniseg pair that `AddMinisegs` creates between the intersections `cur` and
`next`, added to the two lists.  Returns the state and the new `left_list`, `right_list`. -/
def AddMinisegPair (hypot : ℚ → ℚ → ℚ) (L : Level) (part cur next : Nat)
    (left_list right_list : Option Nat) : Option (Level × Option Nat × Option Nat) :=
  let r1 := NewSeg L
  let seg := r1.2
  let r2 := NewSeg r1.1
  let buddy := r2.2
  let L1 := r2.1.modSeg seg fun s => { s with partner := some buddy }
  let L2 := L1.modSeg buddy fun s => { s with partner := some seg }
  let L3 := L2.modSeg seg fun s => { s with start := (L2.cuts cur).vertex,
                                            end_ := (L2.cuts next).vertex }
  let L4 := L3.modSeg buddy fun s => { s with start := (L3.cuts next).vertex,
                                              end_ := (L3.cuts cur).vertex }
  -- leave 'side' as zero too (not needed for minisegs).
  let L5 := (L4.modSeg buddy fun s => { s with index := -1 }).modSeg seg
    fun s => { s with index := -1 }
  let L6 := (L5.modSeg buddy fun s => { s with linedef := -1 }).modSeg seg
    fun s => { s with linedef := -1 }
  let L7 := (L6.modSeg buddy fun s => { s with source_line := (L6.lev_segs part).linedef }).modSeg
    seg fun s => { s with source_line := (L6.lev_segs part).linedef }
  (RecomputeSeg hypot L7 seg).bind fun L8 =>
  (RecomputeSeg hypot L8 buddy).bind fun L9 =>
  -- add the new segs to the appropriate lists
  let a := ListAddSeg L9 right_list seg
  let b := ListAddSeg a.1 left_list buddy
  some (b.1, b.2, a.2)

/-- The loop of `AddMinisegs` that finds open gaps in the intersection list, from `cur`
on.  The first `none` is the `BugError` "Bad order in intersect list". -/
def AddMinisegsLoop (hypot : ℚ → ℚ → ℚ) (part : Nat) :
    Nat → Level → Option Nat → Option Nat → Option Nat →
      Option (Level × Option Nat × Option Nat)
  | 0, _, _, _, _ => none
  | _ + 1, L, none, left_list, right_list => some (L, left_list, right_list)
  | fuel + 1, L, some cur, left_list, right_list =>
    match (L.cuts cur).next with
    | none => some (L, left_list, right_list)
    | some next =>
      -- sanity check
      let len := (L.cuts next).along_dist - (L.cuts cur).along_dist
      if len < -(1 / 100) then none
      else
        let A := (L.cuts cur).open_after
        let B := (L.cuts next).open_before
        -- nothing possible is both ends are CLOSED
        if ¬ (A || B) then
          AddMinisegsLoop hypot part fuel L (L.cuts cur).next left_list right_list
        else if A ≠ B then
          AddMinisegsLoop hypot part fuel L (L.cuts cur).next left_list right_list
        else
          -- righteo, here we have definite open space.
          (AddMinisegPair hypot L part cur next left_list right_list).bind fun st =>
            AddMinisegsLoop hypot part fuel st.1 (st.1.cuts cur).next st.2.1 st.2.2

/-- The loop of `AddMinisegs` that frees the intersection structures into the quick-alloc
list. -/
def AddMinisegsFree : Nat → Level → Option Nat → Option Level
  | 0, _, _ => none
  | _ + 1, L, none => some L
  | fuel + 1, L, some cur =>
    let cut_list := (L.cuts cur).next
    let L1 := L.modCut cur fun c => { c with next := L.quick_alloc_cuts }
    AddMinisegsFree fuel { L1 with quick_alloc_cuts := some cur } cut_list

/-- `AddMinisegs`: returns the state and the new `left_list`, `right_list`. -/
def AddMinisegs (hypot : ℚ → ℚ → ℚ) (L : Level) (cut_list : Option Nat) (part : Nat)
    (left_list right_list : Option Nat) : Option (Level × Option Nat × Option Nat) :=
  match cut_list with
  | none => some (L, left_list, right_list)
  | some _ =>
    (AddMinisegsLoop hypot part (L.num_cuts + 1) L cut_list left_list right_list).bind fun st =>
    (AddMinisegsFree (st.1.num_cuts + 1) st.1 cut_list).map fun L' => (L', st.2.1, st.2.2)

/-! ## A concrete `hypot` for worked examples -/

/-- Newton iteration for the integer square root. -/
def isqrtAux : Nat → Nat → Nat → Nat
  | 0, _, g => g
  | fuel + 1, n, g =>
    let g' := (g + n / g) / 2
    if g' < g then isqrtAux fuel n g' else g

/-- Integer square root (rounded down). -/
def isqrt (n : Nat) : Nat := if n ≤ 1 then n else isqrtAux n n n

/-- A rational `hypot`: exact whenever `a² + b²` is the square of a rational, as it is in
every worked example of this file; a rounding otherwise. -/
def hypotQ (a b : ℚ) : ℚ :=
  let s := a * a + b * b
  (isqrt s.num.toNat : ℚ) / (isqrt s.den : ℚ)

/-! ## Well-formedness of the seg heap -/

/-- Every partner pointer of an allocated seg points to an allocated seg. -/
def Level.PartnersExist (L : Level) : Prop :=
  ∀ s, s < L.num_segs → ∀ p ∈ (L.lev_segs s).partner, p < L.num_segs

/-- Partner symmetry: for every seg `S` with partner `P ≠ null`: `P.partner == S`,
`S.linedef == P.linedef`, `S.start == P.end` and `S.end == P.start`. -/
def Level.PartnerSym (L : Level) : Prop :=
  ∀ s, s < L.num_segs → ∀ p ∈ (L.lev_segs s).partner,
    (L.lev_segs p).partner = some s ∧ (L.lev_segs s).linedef = (L.lev_segs p).linedef ∧
    (L.lev_segs s).start = (L.lev_segs p).end_ ∧ (L.lev_segs s).end_ = (L.lev_segs p).start

instance (L : Level) : Decidable L.PartnersExist := by
  unfold Level.PartnersExist; infer_instance

instance (L : Level) : Decidable L.PartnerSym := by
  unfold Level.PartnerSym; infer_instance

/-! ## Linked lists in the heap -/

/-- `l` is the list segment that starts at the pointer `h`, follows the link `nxt` and
ends at the pointer `t`. -/
def IsSeg (nxt : Nat → Option Nat) : Option Nat → List Nat → Option Nat → Prop
  | h, [], t => h = t
  | h, a :: l, t => h = some a ∧ IsSeg nxt (nxt a) l t

/-- `l` is the null-terminated list with head `h` and link `nxt`. -/
def IsLinked (nxt : Nat → Option Nat) (h : Option Nat) (l : List Nat) : Prop :=
  IsSeg nxt h l none

instance IsSeg.instDecidable (nxt : Nat → Option Nat) :
    (h : Option Nat) → (l : List Nat) → (t : Option Nat) → Decidable (IsSeg nxt h l t)
  | h, [], t => inferInstanceAs (Decidable (h = t))
  | h, a :: l, t =>
    have := IsSeg.instDecidable nxt (nxt a) l t
    inferInstanceAs (Decidable (h = some a ∧ IsSeg nxt (nxt a) l t))

instance (nxt : Nat → Option Nat) (h : Option Nat) (l : List Nat) :
    Decidable (IsLinked nxt h l) := by
  unfold IsLinked; infer_instance

/-- The intersection list with head `cut_list` consists of the records `l`, in this
order: `l` is what the `next` links give from the head and, read backwards, what the
`prev` links give from the last record; the records are distinct and allocated. -/
def Level.CutList (L : Level) (cut_list : Option Nat) (l : List Nat) : Prop :=
  IsLinked (fun i => (L.cuts i).next) cut_list l ∧
  IsLinked (fun i => (L.cuts i).prev) l.getLast? l.reverse ∧
  l.Nodup ∧ ∀ c ∈ l, c < L.num_cuts

/-- The records `l` are in ascending `along_dist` order. -/
def Level.CutsSorted (L : Level) (l : List Nat) : Prop :=
  l.Pairwise fun a b => (L.cuts a).along_dist ≤ (L.cuts b).along_dist

/-- The `quick_alloc_cuts` free list consists of the records `fl`: distinct, allocated. -/
def Level.FreeCuts (L : Level) (fl : List Nat) : Prop :=
  IsLinked (fun i => (L.cuts i).next) L.quick_alloc_cuts fl ∧
  fl.Nodup ∧ ∀ c ∈ fl, c < L.num_cuts

instance (L : Level) (h : Option Nat) (l : List Nat) : Decidable (L.CutList h l) := by
  unfold Level.CutList; infer_instance

instance (L : Level) (l : List Nat) : Decidable (L.CutsSorted l) := by
  unfold Level.CutsSorted; infer_instance

instance (L : Level) (l : List Nat) : Decidable (L.FreeCuts l) := by
  unfold Level.FreeCuts; infer_instance

/-- `L'` differs from `L` at most in the open/closed flags of intersection records. -/
def Level.SameCutsUpToFlags (L L' : Level) : Prop :=
  L'.num_cuts = L.num_cuts ∧ L'.quick_alloc_cuts = L.quick_alloc_cuts ∧
  ∀ i, (L'.cuts i).next = (L.cuts i).next ∧ (L'.cuts i).prev = (L.cuts i).prev ∧
    (L'.cuts i).along_dist = (L.cuts i).along_dist ∧ (L'.cuts i).vertex = (L.cuts i).vertex

/-- The invariant of the intersection list while a partition is applied: the list with
head `cut_list` is the well-linked, ascending list `l`, the free list is `fl`, and no
record is on both. -/
def Level.CutInv (L : Level) (cut_list : Option Nat) (l fl : List Nat) : Prop :=
  L.CutList cut_list l ∧ L.CutsSorted l ∧ L.FreeCuts fl ∧ ∀ c ∈ l, c ∉ fl

instance (L : Level) (h : Option Nat) (l fl : List Nat) : Decidable (L.CutInv h l fl) := by
  unfold Level.CutInv; infer_instance

/-- A sequence of `AddIntersection` calls for one partition: each call gives the vertex,
`self_ref` and `force_closed`. -/
def AddIntersections (DIST_EPSILON : ℚ) (VertexCheckOpen : Nat → ℚ → ℚ → Bool)
    (part : seg_t) : List (Nat × Bool × Int) → Level → Option Nat →
      Option (Level × Option Nat)
  | [], L, cut_list => some (L, cut_list)
  | call :: rest, L, cut_list =>
    (AddIntersection DIST_EPSILON VertexCheckOpen L cut_list call.1 part call.2.1
      call.2.2).bind fun st =>
      AddIntersections DIST_EPSILON VertexCheckOpen part rest st.1 st.2

/-! ## Worked example: one two-sided linedef -/

/-- Two vertices, `(0, 0)` and `(8, 0)`. -/
def demoVertices : Level :=
  { Level.empty with
    lev_vertices := fun i =>
      if i = 0 then { vertex_t.zero with x := 0, y := 0, index := 0 }
      else if i = 1 then { vertex_t.zero with x := 8, y := 0, index := 1 }
      else vertex_t.zero
    num_vertices := 2 }

/-- One two-sided linedef from vertex 0 to vertex 1. -/
def demoDoc : Document :=
  { Vertices := [{ raw_x := 0, raw_y := 0 }, { raw_x := 32768, raw_y := 0 }]
    LineDefs := [{ start := 0, end_ := 1, right := 0, left := 1, flags := 0, type := 0, tag := 0 }] }

/-- The level after `CreateSegs`: seg 0 (right side) and seg 1 (left side), partners. -/
def demoCreated : Level × Option Nat :=
  (CreateSegs hypotQ demoDoc demoVertices).getD (Level.empty, none)

/-- Seg 0 of `demoCreated` split at `(4, 0)`. -/
def demoSplit : Level × Nat :=
  (SplitSeg hypotQ demoCreated.1 0 4 0).getD (Level.empty, 0)

/-- The seg used in the worked example of the box test: from `(0, 0)` to `(3, 4)`. -/
def c4_part : seg_t :=
  { next := none, start := 0, end_ := 1, linedef := 0, side := 0, partner := none, index := -1,
    is_degenerate := false, quad := none, psx := 0, psy := 0, pex := 3, pey := 4, pdx := 3,
    pdy := 4, p_length := 5, p_para := 0, p_perp := 0, source_line := 0, cmp_angle := 0 }

/-! ## Post-passes: `ComputeBspHeight`, `RoundOffVertices` -/

/-- Assign to fields of the subsector behind a pointer. -/
def Level.modSubsec (L : Level) (i : Nat) (f : subsec_t → subsec_t) : Level :=
  { L with lev_subsecs := Function.update L.lev_subsecs i (f (L.lev_subsecs i)) }

/-- Assign to fields of the vertex behind a pointer. -/
def Level.modVertex (L : Level) (i : Nat) (f : vertex_t → vertex_t) : Level :=
  { L with lev_vertices := Function.update L.lev_vertices i (f (L.lev_vertices i)) }

/-- `ComputeBspHeight`.  The recursion follows node pointers; `fuel` bounds its depth and
`none` is a recursion that ran out of fuel. -/
def ComputeBspHeight (L : Level) : Nat → Option Nat → Option Int
  | 0, _ => none
  | _ + 1, none => some 1
  | fuel + 1, some node =>
    (ComputeBspHeight L fuel (L.lev_nodes node).r.node).bind fun right =>
    (ComputeBspHeight L fuel (L.lev_nodes node).l.node).bind fun left =>
    some (max left right + 1)

/-- A downward path in the node tree: `path` starts at the node `p` points to and each
further node is the `r.node` or the `l.node` of the one before. -/
def IsNodePath (L : Level) : Option Nat → List Nat → Prop
  | _, [] => True
  | p, n :: rest =>
    p = some n ∧ (IsNodePath L (L.lev_nodes n).r.node rest ∨
      IsNodePath L (L.lev_nodes n).l.node rest)

instance IsNodePath.instDecidable (L : Level) :
    (p : Option Nat) → (path : List Nat) → Decidable (IsNodePath L p path)
  | _, [] => inferInstanceAs (Decidable True)
  | p, n :: rest =>
    have := IsNodePath.instDecidable L (L.lev_nodes n).r.node rest
    have := IsNodePath.instDecidable L (L.lev_nodes n).l.node rest
    inferInstanceAs (Decidable (p = some n ∧ (IsNodePath L (L.lev_nodes n).r.node rest ∨
      IsNodePath L (L.lev_nodes n).l.node rest)))

/-- The body of the loop of `RoundOffVertices` for vertex number `i`; the state is the
level and the global `num_old_vert`. -/
def RoundOffVerticesStep (st : Level × Int) (i : Nat) : Level × Int :=
  if (st.1.lev_vertices i).is_new then
    let L1 := st.1.modVertex i fun v => { v with is_new := false }
    (L1.modVertex i fun v => { v with index := st.2 }, st.2 + 1)
  else st

/-- `RoundOffVertices`: returns the level and the new `num_old_vert`. -/
def RoundOffVertices (L : Level) (num_old_vert : Int) : Level × Int :=
  (List.range L.num_vertices).foldl RoundOffVerticesStep (L, num_old_vert)

/-- The number of vertices flagged `is_new` among the first `i` of `lev_vertices`. -/
def Level.countNew (L : Level) (i : Nat) : Nat :=
  ((List.range i).filter fun j => (L.lev_vertices j).is_new).length

/-- A level with three nodes: node 0 has node 1 on the right and node 2 on the left, and
node 2 has a subsector on both sides. -/
def demoNodes : Level :=
  { Level.empty with
    lev_nodes := fun i =>
      if i = 0 then
        { node_t.zero with r := { child_t.zero with node := some 1 },
                           l := { child_t.zero with node := some 2 } }
      else node_t.zero
    num_nodes := 3 }

/-- A level with four vertices, the second and the fourth created by splits. -/
def demoNewVertices : Level :=
  { Level.empty with
    lev_vertices := fun i =>
      if i = 0 then { vertex_t.zero with index := 1 }
      else if i = 1 then { vertex_t.zero with index := 7, is_new := true }
      else if i = 2 then { vertex_t.zero with index := 0 }
      else if i = 3 then { vertex_t.zero with index := 9, is_new := true }
      else vertex_t.zero
    num_vertices := 4 }

/-! ## Post-passes on subsectors -/

/-- `RenumberSubsecSegs`, the loop over the seg list from `seg` on; the state is the level
and the global `num_complete_seg`. -/
def RenumberSubsecSegsLoop (sub : Nat) : Nat → Level → Int → Option Nat → Option (Level × Int)
  | 0, _, _, _ => none
  | _ + 1, L, num_complete_seg, none => some (L, num_complete_seg)
  | fuel + 1, L, num_complete_seg, some seg =>
    let L1 := L.modSeg seg fun s => { s with index := num_complete_seg }
    let L2 := L1.modSubsec sub fun s => { s with seg_count := s.seg_count + 1 }
    RenumberSubsecSegsLoop sub fuel L2 (num_complete_seg + 1) (L2.lev_segs seg).next

/-- `RenumberSubsecSegs`: returns the level and the new `num_complete_seg`. -/
def RenumberSubsecSegs (L : Level) (num_complete_seg : Int) (sub : Nat) :
    Option (Level × Int) :=
  let L1 := L.modSubsec sub fun s => { s with seg_count := 0 }
  RenumberSubsecSegsLoop sub (L1.num_segs + 1) L1 num_complete_seg (L1.lev_subsecs sub).seg_list

/-- The loop of `NormaliseSubsector`; the state is the level, `new_head` and `new_tail`. -/
def NormaliseSubsectorLoop (sub : Nat) :
    Nat → Level → Option Nat → Option Nat → Option (Level × Option Nat × Option Nat)
  | 0, _, _, _ => none
  | fuel + 1, L, new_head, new_tail =>
    match (L.lev_subsecs sub).seg_list with
    | none => some (L, new_head, new_tail)
    | some seg =>
      -- remove head
      let L1 := L.modSubsec sub fun s => { s with seg_list := (L.lev_segs seg).next }
      -- only add non-minisegs to new list
      if (L1.lev_segs seg).linedef ≥ 0 then
        let L2 := L1.modSeg seg fun s => { s with next := none }
        let st : Level × Option Nat := match new_tail with
          | some t => (L2.modSeg t fun s => { s with next := some seg }, new_head)
          | none => (L2, some seg)
        -- this updated later
        let L4 := st.1.modSeg seg fun s => { s with index := -1 }
        NormaliseSubsectorLoop sub fuel L4 st.2 (some seg)
      else
        let L2 := L1.modSeg seg fun s => { s with index := 1 <<< 24 }
        NormaliseSubsectorLoop sub fuel L2 new_head new_tail

/-- `NormaliseSubsector`; `none` is the `BugError` "normalised to being EMPTY" (or a loop
out of fuel). -/
def NormaliseSubsector (L : Level) (sub : Nat) : Option Level :=
  (NormaliseSubsectorLoop sub (L.num_segs + 1) L none none).bind fun st =>
    match st.2.1 with
    | none => none
    | some new_head => some (st.1.modSubsec sub fun s => { s with seg_list := some new_head })

/-- `NormaliseBspTree`: returns the level and `num_complete_seg`. -/
def NormaliseBspTree (L : Level) : Option (Level × Int) :=
  (List.range L.num_subsecs).foldlM
    (fun (st : Level × Int) (i : Nat) =>
      (NormaliseSubsector st.1 i).bind fun L1 => RenumberSubsecSegs L1 st.2 i)
    (L, 0)

/-- Modelled from the spec: `NewVertexDegenerate` is declared in `bsp.h` but defined
outside the sources at hand.  It allocates the substitute end vertex for a degenerate seg;
where the vertex lies is the parameter `place`, a function of the two end points. -/
def NewVertexDegenerate (place : vertex_t → vertex_t → ℚ × ℚ) (L : Level) (start end_ : Nat) :
    Level × Nat :=
  let r := NewVertex L
  let xy := place (L.lev_vertices start) (L.lev_vertices end_)
  (r.1.modVertex r.2 fun v => { v with x := xy.1, y := xy.2 }, r.2)

/-- The test "is the seg degenerate ?" of `RoundOffSubsector`: the rounded end points
coincide.  `I_ROUND` is a macro from outside the sources at hand, a parameter here. -/
def seg_t.RoundsToPoint (I_ROUND : ℚ → Int) (L : Level) (s : seg_t) : Bool :=
  I_ROUND (L.lev_vertices s.start).x == I_ROUND (L.lev_vertices s.end_).x &&
  I_ROUND (L.lev_vertices s.start).y == I_ROUND (L.lev_vertices s.end_).y

/-- The state of the first pass of `RoundOffSubsector`. -/
structure roundoff_t where
  last_real_degen : Option Nat
  real_total : Int
  degen_total : Int
deriving DecidableEq, Repr

/-- The first pass of `RoundOffSubsector`, "just counting the degenerates", from `seg` on. -/
def RoundOffCount (I_ROUND : ℚ → Int) :
    Nat → Level → Option Nat → roundoff_t → Option (Level × roundoff_t)
  | 0, _, _, _ => none
  | _ + 1, L, none, st => some (L, st)
  | fuel + 1, L, some seg, st =>
    -- is the seg degenerate ?
    if (L.lev_segs seg).RoundsToPoint I_ROUND L then
      let L1 := L.modSeg seg fun s => { s with is_degenerate := true }
      let st1 := if (L1.lev_segs seg).linedef ≥ 0 then { st with last_real_degen := some seg }
        else st
      RoundOffCount I_ROUND fuel L1 (L1.lev_segs seg).next
        { st1 with degen_total := st1.degen_total + 1 }
    else
      let st1 := if (L.lev_segs seg).linedef ≥ 0 then { st with real_total := st.real_total + 1 }
        else st
      RoundOffCount I_ROUND fuel L (L.lev_segs seg).next st1

/-- The second pass of `RoundOffSubsector`, "remove the blighters". -/
def RoundOffRemove (sub : Nat) :
    Nat → Level → Option Nat → Option Nat → Option (Level × Option Nat × Option Nat)
  | 0, _, _, _ => none
  | fuel + 1, L, new_head, new_tail =>
    match (L.lev_subsecs sub).seg_list with
    | none => some (L, new_head, new_tail)
    | some seg =>
      -- remove head
      let L1 := L.modSubsec sub fun s => { s with seg_list := (L.lev_segs seg).next }
      if ¬ (L1.lev_segs seg).is_degenerate then
        let L2 := L1.modSeg seg fun s => { s with next := none }
        let st : Level × Option Nat := match new_tail with
          | some t => (L2.modSeg t fun s => { s with next := some seg }, new_head)
          | none => (L2, some seg)
        -- this updated later
        let L4 := st.1.modSeg seg fun s => { s with index := -1 }
        RoundOffRemove sub fuel L4 st.2 (some seg)
      else
        let L2 := L1.modSeg seg fun s => { s with index := 1 <<< 24 }
        RoundOffRemove sub fuel L2 new_head new_tail

/-- The block of `RoundOffSubsector` that handles "the case where all of the real segs
became degenerate"; `none` is the `BugError` "rounded off with NO real segs". -/
def RoundOffRescue (place : vertex_t → vertex_t → ℚ × ℚ) (L : Level) (st : roundoff_t) :
    Option Level :=
  if st.real_total = 0 then
    match st.last_real_degen with
    | none => none
    | some last_real_degen =>
      -- create a new vertex for this baby
      let r := NewVertexDegenerate place L (L.lev_segs last_real_degen).start
        (L.lev_segs last_real_degen).end_
      let L1 := r.1.modSeg last_real_degen fun s => { s with end_ := r.2 }
      some (L1.modSeg last_real_degen fun s => { s with is_degenerate := false })
  else some L

/-- `RoundOffSubsector`; `none` is one of its two `BugError`s (or a loop out of fuel). -/
def RoundOffSubsector (I_ROUND : ℚ → Int) (place : vertex_t → vertex_t → ℚ × ℚ) (L : Level)
    (sub : Nat) : Option Level :=
  (RoundOffCount I_ROUND (L.num_segs + 1) L (L.lev_subsecs sub).seg_list
    { last_real_degen := none, real_total := 0, degen_total := 0 }).bind fun c =>
  (RoundOffRescue place c.1 c.2).bind fun L1 =>
  (RoundOffRemove sub (L1.num_segs + 1) L1 none none).bind fun st =>
    match st.2.1 with
    | none => none
    | some new_head => some (st.1.modSubsec sub fun s => { s with seg_list := some new_head })

/-- `RoundOffBspTree`: the state is the level, `num_old_vert` and `num_complete_seg`. -/
def RoundOffBspTree (I_ROUND : ℚ → Int) (place : vertex_t → vertex_t → ℚ × ℚ) (L : Level)
    (num_old_vert : Int) : Option (Level × Int × Int) :=
  let r := RoundOffVertices L num_old_vert
  ((List.range r.1.num_subsecs).foldlM
    (fun (st : Level × Int) (i : Nat) =>
      (RoundOffSubsector I_ROUND place st.1 i).bind fun L1 => RenumberSubsecSegs L1 st.2 i)
    (r.1, 0)).map fun st => (st.1, r.2, st.2)

/-- The common shape of the second loops of `NormaliseSubsector` and `RoundOffSubsector`:
the head of the subsector's list is removed until the list is empty, a seg satisfying
`keep` is appended to the new list and gets index -1, any other seg gets index `1 << 24`. -/
def UnlinkLoop (keep : seg_t → Bool) (sub : Nat) :
    Nat → Level → Option Nat → Option Nat → Option (Level × Option Nat × Option Nat)
  | 0, _, _, _ => none
  | fuel + 1, L, new_head, new_tail =>
    match (L.lev_subsecs sub).seg_list with
    | none => some (L, new_head, new_tail)
    | some seg =>
      let L1 := L.modSubsec sub fun s => { s with seg_list := (L.lev_segs seg).next }
      if keep (L1.lev_segs seg) then
        let L2 := L1.modSeg seg fun s => { s with next := none }
        let st : Level × Option Nat := match new_tail with
          | some t => (L2.modSeg t fun s => { s with next := some seg }, new_head)
          | none => (L2, some seg)
        let L4 := st.1.modSeg seg fun s => { s with index := -1 }
        UnlinkLoop keep sub fuel L4 st.2 (some seg)
      else
        let L2 := L1.modSeg seg fun s => { s with index := 1 <<< 24 }
        UnlinkLoop keep sub fuel L2 new_head new_tail

/-- A seg with its `next` and `index` fields blanked: what the list manipulations of the
post-passes leave alone. -/
def seg_t.sansLinks (s : seg_t) : seg_t := { s with next := none, index := 0 }

/-- The `next` link of the seg heap. -/
def Level.segNext (L : Level) (i : Nat) : Option Nat := (L.lev_segs i).next

/-- The seg list of subsector `sub` consists of the segs `l`, in this order. -/
def Level.SubsecList (L : Level) (sub : Nat) (l : List Nat) : Prop :=
  IsLinked L.segNext (L.lev_subsecs sub).seg_list l

instance (L : Level) (sub : Nat) (l : List Nat) : Decidable (L.SubsecList sub l) := by
  unfold Level.SubsecList; infer_instance

/-- `L'` differs from `L` at most in the segs and in the seg list and the seg count of
subsector `sub`. -/
def Level.SameButSegsOf (L L' : Level) (sub : Nat) : Prop :=
  L'.num_segs = L.num_segs ∧ L'.num_subsecs = L.num_subsecs ∧
  L'.lev_vertices = L.lev_vertices ∧ L'.num_vertices = L.num_vertices ∧
  (∀ j, j ≠ sub → L'.lev_subsecs j = L.lev_subsecs j) ∧
  (L'.lev_subsecs sub).index = (L.lev_subsecs sub).index ∧
  (L'.lev_subsecs sub).mid_x = (L.lev_subsecs sub).mid_x ∧
  (L'.lev_subsecs sub).mid_y = (L.lev_subsecs sub).mid_y

/-- A level with one subsector holding the segs 0, 1, 2 in this order: a square corner
`(0,0) → (64,0) → (64,64)` closed by the miniseg 1 in between; seg 1 is short enough to
round to a point. -/
def demoSubsec : Level :=
  { Level.empty with
    lev_vertices := fun i =>
      if i = 0 then { vertex_t.zero with x := 0, y := 0 }
      else if i = 1 then { vertex_t.zero with x := 64, y := 0 }
      else if i = 2 then { vertex_t.zero with x := 64, y := 1 / 4 }
      else if i = 3 then { vertex_t.zero with x := 64, y := 64 }
      else vertex_t.zero
    num_vertices := 4
    lev_segs := fun i =>
      if i = 0 then { seg_t.zero with next := some 1, start := 0, end_ := 1, linedef := 0 }
      else if i = 1 then
        { seg_t.zero with next := some 2, start := 1, end_ := 2, linedef := -1, index := -1 }
      else if i = 2 then { seg_t.zero with next := none, start := 2, end_ := 3, linedef := 3 }
      else seg_t.zero
    num_segs := 3
    lev_subsecs := fun i =>
      if i = 0 then { subsec_t.zero with seg_list := some 0, mid_x := 48, mid_y := 16 }
      else subsec_t.zero
    num_subsecs := 1 }

/-- The seg behind the pointer `s` is a real seg (`linedef >= 0`). -/
def Level.segReal (L : Level) (s : Nat) : Bool := decide (0 ≤ (L.lev_segs s).linedef)

/-- The seg behind the pointer `s` rounds to a point. -/
def Level.segRounds (I_ROUND : ℚ → Int) (L : Level) (s : Nat) : Bool :=
  (L.lev_segs s).RoundsToPoint I_ROUND L

/-- Rounding to the nearest integer, halves away from zero: the usual reading of the
`I_ROUND` macro, used in the worked examples. -/
def roundQ (q : ℚ) : Int := if q < 0 then -⌊-q + 1 / 2⌋ else ⌊q + 1 / 2⌋

/-! ## `ClockwiseOrder` and the tree passes -/

/-- The angle that `ClockwiseOrder` computes for a seg: from the middle point of the
subsector to the start vertex.  `UtilComputeAngle` is declared in `bsp.h` and defined
outside the sources at hand: a parameter. -/
def ClockwiseAngle (UtilComputeAngle : ℚ → ℚ → ℚ) (L : Level) (sub seg : Nat) : ℚ :=
  UtilComputeAngle
    ((L.lev_vertices (L.lev_segs seg).start).x - (L.lev_subsecs sub).mid_x)
    ((L.lev_vertices (L.lev_segs seg).start).y - (L.lev_subsecs sub).mid_y)

/-- The loop of `ClockwiseOrder` that counts the segs. -/
def ClockwiseCount : Nat → Level → Option Nat → Nat → Option Nat
  | 0, _, _, _ => none
  | _ + 1, _, none, total => some total
  | fuel + 1, L, some seg, total => ClockwiseCount fuel L (L.lev_segs seg).next (total + 1)

/-- The loop of `ClockwiseOrder` that copies the seg pointers into `array`. -/
def ClockwiseFill : Nat → Level → Option Nat → List Nat → Option (List Nat)
  | 0, _, _, _ => none
  | _ + 1, _, none, array => some array
  | fuel + 1, L, some seg, array => ClockwiseFill fuel L (L.lev_segs seg).next (array ++ [seg])

/-- The sorting loop of `ClockwiseOrder` ("double bubble"), at position `i`. -/
def ClockwiseSort (angle : Nat → ℚ) (ANG_EPSILON : ℚ) (total : Nat) :
    Nat → Nat → List Nat → Option (List Nat)
  | 0, _, _ => none
  | fuel + 1, i, array =>
    if i + 1 < total then
      let A := array.getD i 0
      let B := array.getD (i + 1) 0
      if angle A + ANG_EPSILON < angle B then
        -- swap 'em
        let array1 := (array.set i B).set (i + 1) A
        -- bubble down
        ClockwiseSort angle ANG_EPSILON total fuel (if i > 0 then i - 1 else i) array1
      else
        -- bubble up
        ClockwiseSort angle ANG_EPSILON total fuel (i + 1) array
    else some array

/-- The score `cur_score` that `ClockwiseOrder` gives a seg when choosing the first one. -/
def ClockwiseScore (doc : Document) (L : Level) (seg : Nat) : Int :=
  if (L.lev_segs seg).linedef < 0 then 0
  else if (doc.LineDefs.getD (L.lev_segs seg).linedef.toNat LineDef.zero).IsSelfRef doc then 2
  else 3

/-- The loop of `ClockwiseOrder` that chooses the seg that will be first: the state is
`(first, score)`. -/
def ClockwiseFirst (doc : Document) (L : Level) (array : List Nat) (total : Nat) : Nat × Int :=
  (List.range total).foldl
    (fun (st : Nat × Int) (i : Nat) =>
      let cur_score := ClockwiseScore doc L (array.getD i 0)
      if cur_score > st.2 then (i, cur_score) else st)
    (0, -1)

/-- The loop of `ClockwiseOrder` that transfers the sorted array back into `sub`, for
`i` below the first argument, downwards. -/
def ClockwiseTransfer (array : List Nat) (first total sub : Nat) : Nat → Level → Level
  | 0, L => L
  | i + 1, L =>
    let j := (i + first) % total
    let r := ListAddSeg L (L.lev_subsecs sub).seg_list (array.getD j 0)
    ClockwiseTransfer array first total sub i
      (r.1.modSubsec sub fun s => { s with seg_list := r.2 })

/-- `ClockwiseOrder`; `none` is the `BugError` "ClockwiseOrder miscounted" (or a loop out
of fuel).  The sorting loop may take `total * total` steps. -/
def ClockwiseOrder (UtilComputeAngle : ℚ → ℚ → ℚ) (ANG_EPSILON : ℚ) (doc : Document)
    (L : Level) (sub : Nat) : Option Level :=
  (ClockwiseCount (L.num_segs + 1) L (L.lev_subsecs sub).seg_list 0).bind fun total =>
  (ClockwiseFill (L.num_segs + 1) L (L.lev_subsecs sub).seg_list []).bind fun array =>
  if array.length ≠ total then none
  else
    (ClockwiseSort (ClockwiseAngle UtilComputeAngle L sub) ANG_EPSILON total
      (total * total + 1) 0 array).bind fun sorted =>
    let first := (ClockwiseFirst doc L sorted total).1
    let L1 := L.modSubsec sub fun s => { s with seg_list := none }
    some (ClockwiseTransfer sorted first total sub total L1)

/-- `SanityCheckHasRealSeg`; `none` is the `BugError` "has no real seg" (or out of fuel). -/
def SanityCheckHasRealSeg : Nat → Level → Option Nat → Option Unit
  | 0, _, _ => none
  | _ + 1, _, none => none
  | fuel + 1, L, some seg =>
    if (L.lev_segs seg).linedef ≥ 0 then some ()
    else SanityCheckHasRealSeg fuel L (L.lev_segs seg).next

/-- `ClockwiseBspTree`: returns the level and `num_complete_seg`.  (`SanityCheckClosed`
only prints.) -/
def ClockwiseBspTree (UtilComputeAngle : ℚ → ℚ → ℚ) (ANG_EPSILON : ℚ) (doc : Document)
    (L : Level) : Option (Level × Int) :=
  (List.range L.num_subsecs).foldlM
    (fun (st : Level × Int) (i : Nat) =>
      (ClockwiseOrder UtilComputeAngle ANG_EPSILON doc st.1 i).bind fun L1 =>
      (RenumberSubsecSegs L1 st.2 i).bind fun r =>
      (SanityCheckHasRealSeg (r.1.num_segs + 1) r.1 (r.1.lev_subsecs i).seg_list).bind fun _ =>
        some r)
    (L, 0)

/-- The loop of `quadtree_c::ConvertToList` over the cell's own list. -/
def ConvertToListLoop : Nat → Level → Option Nat → Option Nat → Option (Level × Option Nat)
  | 0, _, _, _ => none
  | _ + 1, L, none, list_ptr => some (L, list_ptr)
  | fuel + 1, L, some seg, list_ptr =>
    let list1 := (L.lev_segs seg).next
    let r := ListAddSeg L list_ptr seg
    ConvertToListLoop fuel r.1 list1 r.2

/-- `quadtree_c::ConvertToList`: returns the level and the new value of `*_list`. -/
def quadtree_c.ConvertToList : quadtree_c → Level → Option Nat → Option (Level × Option Nat)
  | quadtree_c.leaf _ _ _ _ _ _ list, L, list_ptr =>
    ConvertToListLoop (L.num_segs + 1) L list list_ptr
  | quadtree_c.node _ _ _ _ _ _ list sub0 sub1, L, list_ptr =>
    (ConvertToListLoop (L.num_segs + 1) L list list_ptr).bind fun r =>
    (sub0.ConvertToList r.1 r.2).bind fun r0 => sub1.ConvertToList r0.1 r0.2

/-- The loop of `DetermineMiddle`: the state is `mid_x`, `mid_y`, `total`. -/
def DetermineMiddleLoop : Nat → Level → Option Nat → ℚ × ℚ × Int → Option (ℚ × ℚ × Int)
  | 0, _, _, _ => none
  | _ + 1, _, none, st => some st
  | fuel + 1, L, some seg, st =>
    DetermineMiddleLoop fuel L (L.lev_segs seg).next
      (st.1 + ((L.lev_vertices (L.lev_segs seg).start).x + (L.lev_vertices (L.lev_segs seg).end_).x),
       st.2.1 + ((L.lev_vertices (L.lev_segs seg).start).y + (L.lev_vertices (L.lev_segs seg).end_).y),
       st.2.2 + 2)

/-- `DetermineMiddle`. -/
def DetermineMiddle (L : Level) (sub : Nat) : Option Level :=
  (DetermineMiddleLoop (L.num_segs + 1) L (L.lev_subsecs sub).seg_list (0, 0, 0)).map fun st =>
    (L.modSubsec sub fun s => { s with mid_x := st.1 / st.2.2 }).modSubsec sub
      fun s => { s with mid_y := st.2.1 / st.2.2 }

/-- `CreateSubsector`: returns the level and the new subsector. -/
def CreateSubsector (L : Level) (tree : quadtree_c) : Option (Level × Nat) :=
  let r := NewSubsec L
  let sub := r.2
  -- compute subsector's index
  let L1 := r.1.modSubsec sub fun s => { s with index := (r.1.num_subsecs : Int) - 1 }
  -- copy segs into subsector
  (tree.ConvertToList L1 (L1.lev_subsecs sub).seg_list).bind fun c =>
  let L2 := c.1.modSubsec sub fun s => { s with seg_list := c.2 }
  (DetermineMiddle L2 sub).map fun L3 => (L3, sub)

/-- The number of pairs of the array that stand in ascending order of angle: what the
sorting loop of `ClockwiseOrder` has left to undo. -/
def ascendingPairs (angle : Nat → ℚ) : List Nat → Nat
  | [] => 0
  | a :: l => (l.filter fun b => decide (angle a < angle b)).length + ascendingPairs angle l

/-- A rational stand-in for `UtilComputeAngle` in the worked examples: the "diamond
angle" of `(dx, dy)` scaled to `[0, 360)`, which grows with the true angle. -/
def diamondAngle (dx dy : ℚ) : ℚ :=
  90 * (if 0 ≤ dy then
      (if 0 ≤ dx then dy / (dx + dy) else 1 + (-dx) / (-dx + dy))
    else
      (if dx < 0 then 2 + (-dy) / (-dx - dy) else 3 + dx / (dx - dy)))

/-! ## Quadtree construction and filling -/

/-- `quadtree_c::quadtree_c`: the cell for the box `(x1, y1) - (x2, y2)` with its
sub-cells.  `dx/2` is the integer division of C.  The recursion halves the longer side;
`fuel` bounds its depth and `none` is a recursion that ran out of fuel. -/
def quadtree_c.new : Nat → Int → Int → Int → Int → Option quadtree_c
  | 0, _, _, _, _ => none
  | fuel + 1, x1, y1, x2, y2 =>
    let dx := x2 - x1
    let dy := y2 - y1
    if dx ≤ 320 ∧ dy ≤ 320 then
      -- leaf node
      some (quadtree_c.leaf x1 y1 x2 y2 0 0 none)
    else if dx ≥ dy then
      (quadtree_c.new fuel x1 y1 (x1 + Int.tdiv dx 2) y2).bind fun s0 =>
      (quadtree_c.new fuel (x1 + Int.tdiv dx 2) y1 x2 y2).bind fun s1 =>
      some (quadtree_c.node x1 y1 x2 y2 0 0 none s0 s1)
    else
      (quadtree_c.new fuel x1 y1 x2 (y1 + Int.tdiv dy 2)).bind fun s0 =>
      (quadtree_c.new fuel x1 (y1 + Int.tdiv dy 2) x2 y2).bind fun s1 =>
      some (quadtree_c.node x1 y1 x2 y2 0 0 none s0 s1)

/-- The cell with the counter for the seg's kind incremented ("update seg counts"). -/
def quadtree_c.bump (linedef : Int) : quadtree_c → quadtree_c
  | quadtree_c.leaf x1 y1 x2 y2 rn mn list =>
    if linedef ≥ 0 then quadtree_c.leaf x1 y1 x2 y2 (rn + 1) mn list
    else quadtree_c.leaf x1 y1 x2 y2 rn (mn + 1) list
  | quadtree_c.node x1 y1 x2 y2 rn mn list s0 s1 =>
    if linedef ≥ 0 then quadtree_c.node x1 y1 x2 y2 (rn + 1) mn list s0 s1
    else quadtree_c.node x1 y1 x2 y2 rn (mn + 1) list s0 s1

/-- The cell with a new head of its own list. -/
def quadtree_c.setList (list : Option Nat) : quadtree_c → quadtree_c
  | quadtree_c.leaf x1 y1 x2 y2 rn mn _ => quadtree_c.leaf x1 y1 x2 y2 rn mn list
  | quadtree_c.node x1 y1 x2 y2 rn mn _ s0 s1 => quadtree_c.node x1 y1 x2 y2 rn mn list s0 s1

/-- Which way `quadtree_c::AddSeg` sends a seg at an inner cell: `some true` into
`subs[1]`, `some false` into `subs[0]`, `none` when it is linked into the cell itself. -/
def quadtree_c.AddSegWay (x1 y1 x2 y2 : Int) (sub0 sub1 : quadtree_c) (L : Level) (seg : Nat) :
    Option Bool :=
  let sx := (L.lev_vertices (L.lev_segs seg).start).x
  let sy := (L.lev_vertices (L.lev_segs seg).start).y
  let ex := (L.lev_vertices (L.lev_segs seg).end_).x
  let ey := (L.lev_vertices (L.lev_segs seg).end_).y
  let x_min := min sx ex
  let y_min := min sy ey
  let x_max := max sx ex
  let y_max := max sy ey
  if (x2 - x1) ≥ (y2 - y1) then
    if x_min > (sub1.x1 : ℚ) then some true
    else if x_max < (sub0.x2 : ℚ) then some false
    else none
  else
    if y_min > (sub1.y1 : ℚ) then some true
    else if y_max < (sub0.y2 : ℚ) then some false
    else none

/-- `quadtree_c::AddSeg`.  `this` is the pointer to the cell, its path from the root
(`false` for `subs[0]`, `true` for `subs[1]`).  Returns the cell and the level. -/
def quadtree_c.AddSeg : quadtree_c → List Bool → Level → Nat → quadtree_c × Level
  | quadtree_c.leaf x1 y1 x2 y2 rn mn list, this, L, seg =>
    -- update seg counts, then link into this node
    let t := (quadtree_c.leaf x1 y1 x2 y2 rn mn list).bump (L.lev_segs seg).linedef
    let r := ListAddSeg L t.list seg
    (t.setList r.2, r.1.modSeg seg fun s => { s with quad := some this })
  | quadtree_c.node x1 y1 x2 y2 rn mn list sub0 sub1, this, L, seg =>
    let rn1 := if (L.lev_segs seg).linedef ≥ 0 then rn + 1 else rn
    let mn1 := if (L.lev_segs seg).linedef ≥ 0 then mn else mn + 1
    match quadtree_c.AddSegWay x1 y1 x2 y2 sub0 sub1 L seg with
    | some true =>
      let r := sub1.AddSeg (this ++ [true]) L seg
      (quadtree_c.node x1 y1 x2 y2 rn1 mn1 list sub0 r.1, r.2)
    | some false =>
      let r := sub0.AddSeg (this ++ [false]) L seg
      (quadtree_c.node x1 y1 x2 y2 rn1 mn1 list r.1 sub1, r.2)
    | none =>
      -- link into this node
      let r := ListAddSeg L list seg
      (quadtree_c.node x1 y1 x2 y2 rn1 mn1 r.2 sub0 sub1,
       r.1.modSeg seg fun s => { s with quad := some this })

/-- `quadtree_c::AddList`, from `list` on. -/
def quadtree_c.AddList (this : List Bool) :
    Nat → quadtree_c → Level → Option Nat → Option (quadtree_c × Level)
  | 0, _, _, _ => none
  | _ + 1, t, L, none => some (t, L)
  | fuel + 1, t, L, some seg =>
    let list1 := (L.lev_segs seg).next
    let r := t.AddSeg this L seg
    quadtree_c.AddList this fuel r.1 r.2 list1

/-- `SHRT_MAX` and `SHRT_MIN` of `<limits.h>`. -/
def SHRT_MAX : Int := 32767

def SHRT_MIN : Int := -32768

/-- `INT_MAX` of `<limits.h>`. -/
def INT_MAX : Int := 2147483647

/-- The four updates of the body of the loop of `FindLimits2`. -/
def bbox_t.stretch (bbox : bbox_t) (lx ly hx hy : Int) : bbox_t :=
  let b1 := if lx < bbox.minx then { bbox with minx := lx } else bbox
  let b2 := if ly < b1.miny then { b1 with miny := ly } else b1
  let b3 := if hx > b2.maxx then { b2 with maxx := hx } else b2
  if hy > b3.maxy then { b3 with maxy := hy } else b3

/-- The loop of `FindLimits2`, from `list` on. -/
def FindLimits2Loop : Nat → Level → Option Nat → bbox_t → Option bbox_t
  | 0, _, _, _ => none
  | _ + 1, _, none, bbox => some bbox
  | fuel + 1, L, some list, bbox =>
    let x1 := (L.lev_vertices (L.lev_segs list).start).x
    let y1 := (L.lev_vertices (L.lev_segs list).start).y
    let x2 := (L.lev_vertices (L.lev_segs list).end_).x
    let y2 := (L.lev_vertices (L.lev_segs list).end_).y
    let lx : Int := ⌊min x1 x2 - 1 / 5⌋
    let ly : Int := ⌊min y1 y2 - 1 / 5⌋
    let hx : Int := ⌈max x1 x2 + 1 / 5⌉
    let hy : Int := ⌈max y1 y2 + 1 / 5⌉
    FindLimits2Loop fuel L (L.lev_segs list).next (bbox.stretch lx ly hx hy)

/-- `FindLimits2`: returns the box written to `*bbox`. -/
def FindLimits2 (L : Level) (list : Option Nat) : Option bbox_t :=
  match list with
  | none => some { minx := 0, miny := 0, maxx := 2, maxy := 2 }
  | some _ =>
    FindLimits2Loop (L.num_segs + 1) L list
      { minx := SHRT_MAX, miny := SHRT_MAX, maxx := SHRT_MIN, maxy := SHRT_MIN }

/-- `TreeFromSegList`: returns the tree and the level. -/
def TreeFromSegList (L : Level) (list : Option Nat) (bounds : bbox_t) :
    Option (quadtree_c × Level) :=
  (quadtree_c.new ((bounds.maxx - bounds.minx).toNat + (bounds.maxy - bounds.miny).toNat + 1)
    bounds.minx bounds.miny bounds.maxx bounds.maxy).bind fun tree =>
  quadtree_c.AddList [] (L.num_segs + 1) tree L list

/-- The sub-cell pointer `subs[c]` of a cell (`false` for 0, `true` for 1). -/
def quadtree_c.subs : quadtree_c → Bool → Option quadtree_c
  | quadtree_c.leaf _ _ _ _ _ _ _, _ => none
  | quadtree_c.node _ _ _ _ _ _ _ s0 s1, c => some (if c then s1 else s0)

/-- The point `(x, y)` lies in the inclusive box of the cell. -/
def quadtree_c.Inside (t : quadtree_c) (x y : ℚ) : Prop :=
  (t.x1 : ℚ) ≤ x ∧ x ≤ (t.x2 : ℚ) ∧ (t.y1 : ℚ) ≤ y ∧ y ≤ (t.y2 : ℚ)

instance (t : quadtree_c) (x y : ℚ) : Decidable (t.Inside x y) := by
  unfold quadtree_c.Inside; infer_instance

/-- The level `demoSubsec` after `RoundOffSubsector` on its subsector, with the usual
rounding and the substitute vertex one unit to the right of the start. -/
def demoRounded : Level :=
  (RoundOffSubsector roundQ (fun a _ => (a.x + 1, a.y)) demoSubsec 0).getD Level.empty

end ajbsp

namespace ajbsp

/-! ## Worked example: round-off of a split vertex -/

/-- The level `demoSubsec` with vertex 2, at `(64, 1/4)`, flagged as born from a split. -/
def demoSplitVertex : Level := demoSubsec.modVertex 2 fun v => { v with is_new := true }

/-- The result of `RoundOffBspTree` on `demoSplitVertex`, three vertices being old. -/
def demoRoundedTree : Level × Int × Int :=
  (RoundOffBspTree roundQ (fun a _ => (a.x + 1, a.y)) demoSplitVertex 3).getD (Level.empty, 0, 0)

/-- The vertices allocated in `L` are untouched in `L'`, which may have more. -/
def VerticesKept (L L' : Level) : Prop :=
  L.num_vertices ≤ L'.num_vertices ∧ ∀ v, v < L.num_vertices → L'.lev_vertices v = L.lev_vertices v

end ajbsp

namespace ajbsp

/-! ## Worked example: a quadtree poured into a subsector -/

/-- The quadtree that `TreeFromSegList` builds for the two segs of `demoCreated`, with the
bounds from `FindLimits2`. -/
def demoTree : quadtree_c × Level :=
  ((FindLimits2 demoCreated.1 demoCreated.2).bind fun bounds =>
    TreeFromSegList demoCreated.1 demoCreated.2 bounds).getD
    (quadtree_c.leaf 0 0 0 0 0 0 none, Level.empty)

/-- The level and the subsector after `CreateSubsector` on `demoTree`. -/
def demoPoured : Level × Nat :=
  (CreateSubsector demoTree.2 demoTree.1).getD (Level.empty, 0)

end ajbsp

namespace ajbsp

/-! ## Choosing the partition: `EvalPartition`, `FindFastSeg`, `PickNode` -/

/-- `PRECIOUS_MULTIPLY` of `bsp_node.cc`. -/
def PRECIOUS_MULTIPLY : Int := 100

/-- `SEG_FAST_THRESHHOLD` of `bsp_node.cc`. -/
def SEG_FAST_THRESHHOLD : Int := 200

/-- `eval_info_t` of `bsp_node.cc`. -/
structure eval_info_t where
  cost : Int
  splits : Int
  iffy : Int
  near_miss : Int
  real_left : Int
  real_right : Int
  mini_left : Int
  mini_right : Int
deriving DecidableEq, Repr

/-- `eval_info_t::BumpLeft`. -/
def eval_info_t.BumpLeft (info : eval_info_t) (linedef : Int) : eval_info_t :=
  if linedef ≥ 0 then { info with real_left := info.real_left + 1 }
  else { info with mini_left := info.mini_left + 1 }

/-- `eval_info_t::BumpRight`. -/
def eval_info_t.BumpRight (info : eval_info_t) (linedef : Int) : eval_info_t :=
  if linedef ≥ 0 then { info with real_right := info.real_right + 1 }
  else { info with mini_right := info.mini_right + 1 }

/-- The cast `(int)` of a `double`: truncation toward zero. -/
def truncQ (q : ℚ) : Int := if 0 ≤ q then ⌊q⌋ else ⌈q⌉

/-- The test `linedef >= 0 && (LineDefs[linedef]->flags & MLF_IS_PRECIOUS)`. -/
def IsPrecious (doc : Document) (linedef : Int) : Bool :=
  decide (linedef ≥ 0) &&
    decide (Int.land (doc.LineDefs.getD linedef.toNat LineDef.zero).flags MLF_IS_PRECIOUS ≠ 0)

/-- The body of the loop of `EvalPartitionWorker` for the seg `check`, after the early-out
test: "check partition against" one seg.  `factor` is `cur_info->factor`. -/
def EvalPartitionSeg (DIST_EPSILON : ℚ) (factor : Int) (doc : Document) (part check : seg_t)
    (info : eval_info_t) : eval_info_t :=
  /- get state of lines' relation to each other -/
  let same : Bool := decide (check.source_line = part.source_line)
  let a : ℚ := if same then 0 else part.PerpDist check.psx check.psy
  let b : ℚ := if same then 0 else part.PerpDist check.pex check.pey
  let fa : ℚ := if same then 0 else |a|
  let fb : ℚ := if same then 0 else |b|
  /- check for being on the same line -/
  if fa ≤ DIST_EPSILON ∧ fb ≤ DIST_EPSILON then
    if check.pdx * part.pdx + check.pdy * part.pdy < 0 then info.BumpLeft check.linedef
    else info.BumpRight check.linedef
  else
    /- check for passing through a vertex -/
    let info1 : eval_info_t :=
      if fa ≤ DIST_EPSILON ∨ fb ≤ DIST_EPSILON then
        if IsPrecious doc check.linedef then
          { info with cost := info.cost + 40 * factor * PRECIOUS_MULTIPLY }
        else info
      else info
    /- check for right side -/
    if a > -DIST_EPSILON ∧ b > -DIST_EPSILON then
      let info2 := info1.BumpRight check.linedef
      /- check for a near miss -/
      if (a ≥ IFFY_LEN ∧ b ≥ IFFY_LEN) ∨ (a ≤ DIST_EPSILON ∧ b ≥ IFFY_LEN) ∨
          (b ≤ DIST_EPSILON ∧ a ≥ IFFY_LEN) then info2
      else
        let qnty : ℚ :=
          if a ≤ DIST_EPSILON ∨ b ≤ DIST_EPSILON then IFFY_LEN / max a b
          else IFFY_LEN / min a b
        { info2 with
          near_miss := info2.near_miss + 1
          cost := info2.cost + truncQ (((100 * factor : Int) : ℚ) * (qnty * qnty - 1)) }
    /- check for left side -/
    else if a < DIST_EPSILON ∧ b < DIST_EPSILON then
      let info2 := info1.BumpLeft check.linedef
      /- check for a near miss -/
      if (a ≤ -IFFY_LEN ∧ b ≤ -IFFY_LEN) ∨ (a ≥ -DIST_EPSILON ∧ b ≤ -IFFY_LEN) ∨
          (b ≥ -DIST_EPSILON ∧ a ≤ -IFFY_LEN) then info2
      else
        let qnty : ℚ :=
          if a ≥ -DIST_EPSILON ∨ b ≥ -DIST_EPSILON then IFFY_LEN / -(min a b)
          else IFFY_LEN / -(max a b)
        { info2 with
          near_miss := info2.near_miss + 1
          cost := info2.cost + truncQ (((70 * factor : Int) : ℚ) * (qnty * qnty - 1)) }
    else
      /- a and b non-zero and opposite sign: this seg will be split -/
      let info2 : eval_info_t := { info1 with splits := info1.splits + 1 }
      let info3 : eval_info_t :=
        if IsPrecious doc check.linedef then
          { info2 with cost := info2.cost + 100 * factor * PRECIOUS_MULTIPLY }
        else { info2 with cost := info2.cost + 100 * factor }
      /- check if the split point is very close to one end -/
      if fa < IFFY_LEN ∨ fb < IFFY_LEN then
        let qnty : ℚ := IFFY_LEN / min fa fb
        { info3 with
          iffy := info3.iffy + 1
          cost := info3.cost + truncQ (((140 * factor : Int) : ℚ) * (qnty * qnty - 1)) }
      else info3

/-- The loop of `EvalPartitionWorker` over the cell's own list, from `check` on.  The
result is `true` when a "bad seg" was found early. -/
def EvalPartitionLoop (DIST_EPSILON : ℚ) (factor : Int) (doc : Document) (L : Level)
    (part : seg_t) (best_cost : Int) :
    Nat → Option Nat → eval_info_t → Option (Bool × eval_info_t)
  | 0, _, _ => none
  | _ + 1, none, info => some (false, info)
  | fuel + 1, some check, info =>
    if info.cost > best_cost then some (true, info)
    else
      EvalPartitionLoop DIST_EPSILON factor doc L part best_cost fuel (L.lev_segs check).next
        (EvalPartitionSeg DIST_EPSILON factor doc part (L.lev_segs check) info)

/-- `EvalPartitionWorker`: returns `true` if a "bad seg" was found early, and the tally. -/
def EvalPartitionWorker (DIST_EPSILON : ℚ) (factor : Int) (doc : Document) (L : Level)
    (part : seg_t) (best_cost : Int) : quadtree_c → eval_info_t → Option (Bool × eval_info_t)
  | quadtree_c.leaf x1 y1 x2 y2 rn mn list, info =>
    match (quadtree_c.leaf x1 y1 x2 y2 rn mn list).OnLineSide DIST_EPSILON part with
    | Side.left =>
      some (false, { info with real_left := info.real_left + rn, mini_left := info.mini_left + mn })
    | Side.right =>
      some (false, { info with real_right := info.real_right + rn,
                               mini_right := info.mini_right + mn })
    | Side.neither =>
      /- check partition against all Segs -/
      EvalPartitionLoop DIST_EPSILON factor doc L part best_cost (L.num_segs + 1) list info
  | quadtree_c.node x1 y1 x2 y2 rn mn list sub0 sub1, info =>
    match (quadtree_c.node x1 y1 x2 y2 rn mn list sub0 sub1).OnLineSide DIST_EPSILON part with
    | Side.left =>
      some (false, { info with real_left := info.real_left + rn, mini_left := info.mini_left + mn })
    | Side.right =>
      some (false, { info with real_right := info.real_right + rn,
                               mini_right := info.mini_right + mn })
    | Side.neither =>
      /- check partition against all Segs -/
      (EvalPartitionLoop DIST_EPSILON factor doc L part best_cost (L.num_segs + 1) list info).bind
      fun r =>
      if r.1 then some (true, r.2)
      else
        /- handle sub-blocks recursively -/
        (if ¬ sub0.Empty then EvalPartitionWorker DIST_EPSILON factor doc L part best_cost sub0 r.2
          else some (false, r.2)).bind fun r0 =>
        if r0.1 then some (true, r0.2)
        else if ¬ sub1.Empty then
          EvalPartitionWorker DIST_EPSILON factor doc L part best_cost sub1 r0.2
        else some (false, r0.2)

/-- The zeroed `eval_info_t` of `EvalPartition`. -/
def eval_info_t.zero : eval_info_t :=
  { cost := 0, splits := 0, iffy := 0, near_miss := 0,
    real_left := 0, real_right := 0, mini_left := 0, mini_right := 0 }

/-- `EvalPartition`: the computed cost, or a negative value if the seg should be skipped. -/
def EvalPartition (DIST_EPSILON : ℚ) (factor : Int) (doc : Document) (L : Level)
    (tree : quadtree_c) (part : seg_t) (best_cost : Int) : Option Int :=
  (EvalPartitionWorker DIST_EPSILON factor doc L part best_cost tree eval_info_t.zero).map fun r =>
    if r.1 then -1
    /- make sure there is at least one real seg on each side -/
    else if r.2.real_left = 0 ∨ r.2.real_right = 0 then -1
    else
      /- increase cost by the difference between left & right -/
      let cost1 := r.2.cost + 100 * |r.2.real_left - r.2.real_right|
      let cost2 := cost1 + 50 * |r.2.mini_left - r.2.mini_right|
      if part.pdx ≠ 0 ∧ part.pdy ≠ 0 then cost2 + 25 else cost2

/-- The loop of `EvaluateFastWorker` over the cell's own list; the state is `best_H`,
`best_V`. -/
def EvaluateFastLoop (L : Level) (mid_x mid_y : Int) :
    Nat → Option Nat → Option Nat × Option Nat → Option (Option Nat × Option Nat)
  | 0, _, _ => none
  | _ + 1, none, st => some st
  | fuel + 1, some part, st =>
    let next := (L.lev_segs part).next
    /- ignore minisegs as partition candidates -/
    if (L.lev_segs part).linedef < 0 then EvaluateFastLoop L mid_x mid_y fuel next st
    else if (L.lev_segs part).pdy = 0 then
      -- horizontal seg
      match st.1 with
      | none => EvaluateFastLoop L mid_x mid_y fuel next (some part, st.2)
      | some best_H =>
        let old_dist := |truncQ (L.lev_segs best_H).psy - mid_y|
        let new_dist := |truncQ (L.lev_segs part).psy - mid_y|
        if new_dist < old_dist then EvaluateFastLoop L mid_x mid_y fuel next (some part, st.2)
        else EvaluateFastLoop L mid_x mid_y fuel next st
    else if (L.lev_segs part).pdx = 0 then
      -- vertical seg
      match st.2 with
      | none => EvaluateFastLoop L mid_x mid_y fuel next (st.1, some part)
      | some best_V =>
        let old_dist := |truncQ (L.lev_segs best_V).psx - mid_x|
        let new_dist := |truncQ (L.lev_segs part).psx - mid_x|
        if new_dist < old_dist then EvaluateFastLoop L mid_x mid_y fuel next (st.1, some part)
        else EvaluateFastLoop L mid_x mid_y fuel next st
    else EvaluateFastLoop L mid_x mid_y fuel next st

/-- `EvaluateFastWorker`. -/
def EvaluateFastWorker (L : Level) (mid_x mid_y : Int) :
    quadtree_c → Option Nat × Option Nat → Option (Option Nat × Option Nat)
  | quadtree_c.leaf _ _ _ _ _ _ list, st => EvaluateFastLoop L mid_x mid_y (L.num_segs + 1) list st
  | quadtree_c.node _ _ _ _ _ _ list sub0 sub1, st =>
    (EvaluateFastLoop L mid_x mid_y (L.num_segs + 1) list st).bind fun r =>
    /- handle sub-blocks recursively -/
    (if ¬ sub0.Empty then EvaluateFastWorker L mid_x mid_y sub0 r else some r).bind fun r0 =>
    if ¬ sub1.Empty then EvaluateFastWorker L mid_x mid_y sub1 r0 else some r0

/-- `FindFastSeg`. -/
def FindFastSeg (DIST_EPSILON : ℚ) (factor : Int) (doc : Document) (L : Level)
    (tree : quadtree_c) : Option (Option Nat) :=
  let mid_x := Int.tdiv (tree.x1 + tree.x2) 2
  let mid_y := Int.tdiv (tree.y1 + tree.y2) 2
  (EvaluateFastWorker L mid_x mid_y tree (none, none)).bind fun best =>
  (match best.1 with
    | some best_H => EvalPartition DIST_EPSILON factor doc L tree (L.lev_segs best_H) 99999999
    | none => some (-1)).bind fun H_cost =>
  (match best.2 with
    | some best_V => EvalPartition DIST_EPSILON factor doc L tree (L.lev_segs best_V) 99999999
    | none => some (-1)).bind fun V_cost =>
  if H_cost < 0 ∧ V_cost < 0 then some none
  else if H_cost < 0 then some best.2
  else if V_cost < 0 then some best.1
  else some (if V_cost < H_cost then best.2 else best.1)

/-- The loop of `PickNodeWorker` that tries each partition of the cell's own list, from
`part` on; the state is `*best`, `*best_cost`.  `cancelled` is `cur_info->cancelled`.  The
result is `false` when the loop left the function with `return false`. -/
def PickNodeLoop (DIST_EPSILON : ℚ) (factor : Int) (cancelled : Bool) (doc : Document)
    (L : Level) (tree : quadtree_c) :
    Nat → Option Nat → Option Nat × Int → Option (Bool × Option Nat × Int)
  | 0, _, _ => none
  | _ + 1, none, st => some (true, st)
  | fuel + 1, some part, st =>
    if cancelled then some (false, st)
    /- ignore minisegs as partition candidates -/
    else if (L.lev_segs part).linedef < 0 then
      PickNodeLoop DIST_EPSILON factor cancelled doc L tree fuel (L.lev_segs part).next st
    else
      (EvalPartition DIST_EPSILON factor doc L tree (L.lev_segs part) st.2).bind fun cost =>
      /- seg unsuitable or too costly ? -/
      if cost < 0 ∨ cost ≥ st.2 then
        PickNodeLoop DIST_EPSILON factor cancelled doc L tree fuel (L.lev_segs part).next st
      else
        /- we have a new better choice -/
        PickNodeLoop DIST_EPSILON factor cancelled doc L tree fuel (L.lev_segs part).next
          (some part, cost)

/-- `PickNodeWorker`: returns its `bool` result and the new `*best`, `*best_cost`.  The
value returned by the recursive calls is dropped, as in the source. -/
def PickNodeWorker (DIST_EPSILON : ℚ) (factor : Int) (cancelled : Bool) (doc : Document)
    (L : Level) (tree : quadtree_c) :
    quadtree_c → Option Nat × Int → Option (Bool × Option Nat × Int)
  | quadtree_c.leaf _ _ _ _ _ _ list, st =>
    PickNodeLoop DIST_EPSILON factor cancelled doc L tree (L.num_segs + 1) list st
  | quadtree_c.node _ _ _ _ _ _ list sub0 sub1, st =>
    (PickNodeLoop DIST_EPSILON factor cancelled doc L tree (L.num_segs + 1) list st).bind fun r =>
    if ¬ r.1 then some (false, r.2)
    else
      /- recursively handle sub-blocks -/
      (if ¬ sub0.Empty then
          (PickNodeWorker DIST_EPSILON factor cancelled doc L tree sub0 r.2).map fun r0 => r0.2
        else some r.2).bind fun st0 =>
      (if ¬ sub1.Empty then
          (PickNodeWorker DIST_EPSILON factor cancelled doc L tree sub1 st0).map fun r1 => r1.2
        else some st0).map fun st1 => (true, st1)

/-- `PickNode`: "find the best seg in the seg_list to use as a partition line".  `fast` is
`cur_info->fast`. -/
def PickNode (DIST_EPSILON : ℚ) (factor : Int) (fast cancelled : Bool) (doc : Document)
    (L : Level) (tree : quadtree_c) : Option (Option Nat) :=
  (if fast ∧ tree.real_num ≥ SEG_FAST_THRESHHOLD then FindFastSeg DIST_EPSILON factor doc L tree
    else some none).bind fun best =>
  match best with
  | some b => some (some b)
  | none =>
    (PickNodeWorker DIST_EPSILON factor cancelled doc L tree tree (none, INT_MAX)).map fun r =>
      if ¬ r.1 then none else r.2.1

end ajbsp

namespace ajbsp

/-! ## Worked example: a seg in a sub-block of the quadtree -/

/-- One real seg from `(10, 10)` to `(20, 10)`. -/
def demoWide : Level :=
  { Level.empty with
    lev_vertices := fun i =>
      if i = 0 then { vertex_t.zero with x := 10, y := 10 }
      else if i = 1 then { vertex_t.zero with x := 20, y := 10, index := 1 }
      else vertex_t.zero
    num_vertices := 2
    lev_segs := fun i =>
      if i = 0 then
        { seg_t.zero with next := none, start := 0, end_ := 1, linedef := 0, source_line := 0,
                          psx := 10, psy := 10, pex := 20, pey := 10, pdx := 10, pdy := 0,
                          p_length := 10, p_para := -100, p_perp := 100 }
      else seg_t.zero
    num_segs := 1 }

/-- The quadtree for the box `(0, 0) - (640, 100)` holding the seg of `demoWide`: the root
has two leaves, and the seg lies in `subs[0]`. -/
def demoWideTree : quadtree_c × Level :=
  (TreeFromSegList demoWide (some 0) { minx := 0, miny := 0, maxx := 640, maxy := 100 }).getD
    (quadtree_c.leaf 0 0 0 0 0 0 none, Level.empty)

end ajbsp

namespace ajbsp

/-! ## Well-formed quadtrees -/

/-- The segs of the `next`-chain that starts at `list`, if it ends in `NULL` within `fuel`
steps. -/
def Level.segChain (L : Level) : Nat → Option Nat → Option (List Nat)
  | 0, _ => none
  | _ + 1, none => some []
  | fuel + 1, some s => (L.segChain fuel (L.lev_segs s).next).map fun l => s :: l

/-- The list is a `next`-chain of allocated segs that ends in `NULL`. -/
def Level.ListOk (L : Level) (list : Option Nat) : Bool :=
  match L.segChain (L.num_segs + 1) list with
  | some l => l.all fun s => decide (s < L.num_segs)
  | none => false

/-- Every cell of the tree has non-negative counters and a proper list of its own. -/
def quadtree_c.Proper (L : Level) : quadtree_c → Bool
  | quadtree_c.leaf _ _ _ _ rn mn list => decide (0 ≤ rn) && decide (0 ≤ mn) && L.ListOk list
  | quadtree_c.node _ _ _ _ rn mn list sub0 sub1 =>
    decide (0 ≤ rn) && decide (0 ≤ mn) && L.ListOk list && sub0.Proper L && sub1.Proper L

/-! ## Worked example: three parallel walls -/

/-- A seg with its precomputed fields, for the worked examples. -/
def demoSeg (next : Option Nat) (start end_ : Nat) (linedef : Int) (sx sy ex ey len : ℚ) :
    seg_t :=
  { seg_t.zero with
    next := next, start := start, end_ := end_, linedef := linedef, source_line := linedef,
    psx := sx, psy := sy, pex := ex, pey := ey, pdx := ex - sx, pdy := ey - sy, p_length := len,
    p_para := -sx * (ex - sx) - sy * (ey - sy), p_perp := sy * (ex - sx) - sx * (ey - sy) }

/-- Three vertical real segs, all pointing up: seg 0 at `x = 100`, seg 1 at `x = 150` and
seg 2 at `x = 50`, linked `0 → 1 → 2`. -/
def demoThree : Level :=
  { Level.empty with
    lev_vertices := fun i =>
      if i = 0 then { vertex_t.zero with x := 100, y := 0 }
      else if i = 1 then { vertex_t.zero with x := 100, y := 50, index := 1 }
      else if i = 2 then { vertex_t.zero with x := 150, y := 0, index := 2 }
      else if i = 3 then { vertex_t.zero with x := 150, y := 50, index := 3 }
      else if i = 4 then { vertex_t.zero with x := 50, y := 0, index := 4 }
      else if i = 5 then { vertex_t.zero with x := 50, y := 50, index := 5 }
      else vertex_t.zero
    num_vertices := 6
    lev_segs := fun i =>
      if i = 0 then demoSeg (some 1) 0 1 0 100 0 100 50 50
      else if i = 1 then demoSeg (some 2) 2 3 1 150 0 150 50 50
      else if i = 2 then demoSeg none 4 5 2 50 0 50 50 50
      else seg_t.zero
    num_segs := 3 }

/-- The document behind `demoThree`: three one-sided linedefs. -/
def demoThreeDoc : Document :=
  { Vertices := [{ raw_x := 409600, raw_y := 0 }, { raw_x := 409600, raw_y := 204800 },
                 { raw_x := 614400, raw_y := 0 }, { raw_x := 614400, raw_y := 204800 },
                 { raw_x := 204800, raw_y := 0 }, { raw_x := 204800, raw_y := 204800 }]
    LineDefs := [{ start := 0, end_ := 1, right := 0, left := -1, flags := 0, type := 0, tag := 0 },
                 { start := 2, end_ := 3, right := 1, left := -1, flags := 0, type := 0, tag := 0 },
                 { start := 4, end_ := 5, right := 2, left := -1, flags := 0, type := 0, tag := 0 }] }

/-- The quadtree for the box `(0, 0) - (200, 100)` holding the segs of `demoThree`: one
leaf whose list is `2 → 1 → 0`. -/
def demoThreeTree : quadtree_c × Level :=
  (TreeFromSegList demoThree (some 0) { minx := 0, miny := 0, maxx := 200, maxy := 100 }).getD
    (quadtree_c.leaf 0 0 0 0 0 0 none, Level.empty)

end ajbsp

namespace ajbsp

/-- The segs stored in the tree, in traversal order: a cell's own list, then `subs[0]`,
then `subs[1]`. -/
def quadtree_c.Segs (L : Level) : quadtree_c → List Nat
  | quadtree_c.leaf _ _ _ _ _ _ list => (L.segChain (L.num_segs + 1) list).getD []
  | quadtree_c.node _ _ _ _ _ _ list sub0 sub1 =>
    (L.segChain (L.num_segs + 1) list).getD [] ++ sub0.Segs L ++ sub1.Segs L

end ajbsp

namespace ajbsp

/-! ## Dividing the segs: `ComputeIntersection`, `DivideOneSeg`, `SeparateSegs` -/

/-- `ComputeIntersection`: the point `(*x, *y)`. -/
def ComputeIntersection (seg part : seg_t) (perp_c perp_d : ℚ) : ℚ × ℚ :=
  -- horizontal partition against vertical seg
  if part.pdy = 0 ∧ seg.pdx = 0 then (seg.psx, part.psy)
  -- vertical partition against horizontal seg
  else if part.pdx = 0 ∧ seg.pdy = 0 then (part.psx, seg.psy)
  else
    -- 0 = start, 1 = end
    let ds := perp_c / (perp_c - perp_d)
    (if seg.pdx = 0 then seg.psx else seg.psx + seg.pdx * ds,
     if seg.pdy = 0 then seg.psy else seg.psy + seg.pdy * ds)

/-- `DivideOneSeg`: returns the level and the new values of `*left_list`, `*right_list`
and `*cut_list`. -/
def DivideOneSeg (DIST_EPSILON : ℚ) (hypot : ℚ → ℚ → ℚ) (VertexCheckOpen : Nat → ℚ → ℚ → Bool)
    (doc : Document) (L : Level) (seg part : Nat) (left_list right_list cut_list : Option Nat) :
    Option (Level × Option Nat × Option Nat × Option Nat) :=
  /- get state of lines' relation to each other -/
  let a0 := (L.lev_segs part).PerpDist (L.lev_segs seg).psx (L.lev_segs seg).psy
  let b0 := (L.lev_segs part).PerpDist (L.lev_segs seg).pex (L.lev_segs seg).pey
  let self_ref : Bool :=
    if (L.lev_segs seg).linedef ≥ 0 then
      (doc.LineDefs.getD (L.lev_segs seg).linedef.toNat LineDef.zero).IsSelfRef doc
    else false
  let a : ℚ := if (L.lev_segs seg).source_line = (L.lev_segs part).source_line then 0 else a0
  let b : ℚ := if (L.lev_segs seg).source_line = (L.lev_segs part).source_line then 0 else b0
  /- check for being on the same line -/
  if |a| ≤ DIST_EPSILON ∧ |b| ≤ DIST_EPSILON then
    (AddIntersection DIST_EPSILON VertexCheckOpen L cut_list (L.lev_segs seg).start
      (L.lev_segs part) self_ref 2).bind fun r1 =>
    (AddIntersection DIST_EPSILON VertexCheckOpen r1.1 r1.2 (r1.1.lev_segs seg).end_
      (r1.1.lev_segs part) self_ref 1).bind fun r2 =>
    -- this seg runs along the same line as the partition
    if (r2.1.lev_segs seg).pdx * (r2.1.lev_segs part).pdx +
        (r2.1.lev_segs seg).pdy * (r2.1.lev_segs part).pdy < 0 then
      let r := ListAddSeg r2.1 left_list seg
      some (r.1, r.2, right_list, r2.2)
    else
      let r := ListAddSeg r2.1 right_list seg
      some (r.1, left_list, r.2, r2.2)
  /- check for right side -/
  else if a > -DIST_EPSILON ∧ b > -DIST_EPSILON then
    (if a < DIST_EPSILON then
        AddIntersection DIST_EPSILON VertexCheckOpen L cut_list (L.lev_segs seg).start
          (L.lev_segs part) self_ref 0
      else if b < DIST_EPSILON then
        AddIntersection DIST_EPSILON VertexCheckOpen L cut_list (L.lev_segs seg).end_
          (L.lev_segs part) self_ref 0
      else some (L, cut_list)).bind fun r1 =>
    let r := ListAddSeg r1.1 right_list seg
    some (r.1, left_list, r.2, r1.2)
  /- check for left side -/
  else if a < DIST_EPSILON ∧ b < DIST_EPSILON then
    (if a > -DIST_EPSILON then
        AddIntersection DIST_EPSILON VertexCheckOpen L cut_list (L.lev_segs seg).start
          (L.lev_segs part) self_ref 0
      else if b > -DIST_EPSILON then
        AddIntersection DIST_EPSILON VertexCheckOpen L cut_list (L.lev_segs seg).end_
          (L.lev_segs part) self_ref 0
      else some (L, cut_list)).bind fun r1 =>
    let r := ListAddSeg r1.1 left_list seg
    some (r.1, r.2, right_list, r1.2)
  else
    -- a and b non-zero and opposite sign: this seg will be split by the partition line
    let xy := ComputeIntersection (L.lev_segs seg) (L.lev_segs part) a b
    (SplitSeg hypot L seg xy.1 xy.2).bind fun sp =>
    let new_seg := sp.2
    (AddIntersection DIST_EPSILON VertexCheckOpen sp.1 cut_list (sp.1.lev_segs seg).end_
      (sp.1.lev_segs part) self_ref 0).bind fun r1 =>
    if a < 0 then
      let ra := ListAddSeg r1.1 left_list seg
      let rb := ListAddSeg ra.1 right_list new_seg
      some (rb.1, ra.2, rb.2, r1.2)
    else
      let ra := ListAddSeg r1.1 right_list seg
      let rb := ListAddSeg ra.1 left_list new_seg
      some (rb.1, rb.2, ra.2, r1.2)

/-- The loop of `SeparateSegs` over the cell's own list, from `seg` on; the state is the
level and `*left_list`, `*right_list`, `*cut_list`.  `SplitSeg` links the new piece of the
partner behind the partner, which may stand in the list that is being walked, so the list
can grow during the walk: `fuel` bounds the number of steps, and `none` is a `BugError` or
a walk out of fuel. -/
def SeparateSegsLoop (DIST_EPSILON : ℚ) (hypot : ℚ → ℚ → ℚ)
    (VertexCheckOpen : Nat → ℚ → ℚ → Bool) (doc : Document) (part : Nat) :
    Nat → Level → Option Nat → Option Nat × Option Nat × Option Nat →
      Option (Level × Option Nat × Option Nat × Option Nat)
  | 0, _, _, _ => none
  | _ + 1, L, none, st => some (L, st)
  | fuel + 1, L, some seg, st =>
    let list1 := (L.lev_segs seg).next
    let L1 := L.modSeg seg fun s => { s with quad := none }
    (DivideOneSeg DIST_EPSILON hypot VertexCheckOpen doc L1 seg part st.1 st.2.1 st.2.2).bind
      fun r => SeparateSegsLoop DIST_EPSILON hypot VertexCheckOpen doc part fuel r.1 list1 r.2

/-- `SeparateSegs`.  `fuel` bounds the number of steps of the walk over each cell's list
(see `SeparateSegsLoop`). -/
def SeparateSegs (DIST_EPSILON : ℚ) (hypot : ℚ → ℚ → ℚ) (VertexCheckOpen : Nat → ℚ → ℚ → Bool)
    (doc : Document) (part : Nat) (fuel : Nat) :
    quadtree_c → Level → Option Nat × Option Nat × Option Nat →
      Option (Level × Option Nat × Option Nat × Option Nat)
  | quadtree_c.leaf _ _ _ _ _ _ list, L, st =>
    SeparateSegsLoop DIST_EPSILON hypot VertexCheckOpen doc part fuel L list st
  | quadtree_c.node _ _ _ _ _ _ list sub0 sub1, L, st =>
    (SeparateSegsLoop DIST_EPSILON hypot VertexCheckOpen doc part fuel L list st).bind
      fun r =>
    -- recursively handle sub-blocks
    (SeparateSegs DIST_EPSILON hypot VertexCheckOpen doc part fuel sub0 r.1 r.2).bind fun r0 =>
    SeparateSegs DIST_EPSILON hypot VertexCheckOpen doc part fuel sub1 r0.1 r0.2

end ajbsp

namespace ajbsp

/-! ## Worked example: a seg that crosses the partition -/

/-- The level `demoThree` with one more real seg, seg 3 from `(50, 25)` to `(150, 25)`,
which crosses the line of seg 0. -/
def demoCross : Level :=
  { demoThree with
    lev_vertices := fun i =>
      if i = 6 then { vertex_t.zero with x := 50, y := 25, index := 6 }
      else if i = 7 then { vertex_t.zero with x := 150, y := 25, index := 7 }
      else demoThree.lev_vertices i
    num_vertices := 8
    lev_segs := fun i =>
      if i = 3 then demoSeg none 6 7 3 50 25 150 25 100
      else demoThree.lev_segs i
    num_segs := 4 }

/-- The document behind `demoCross`. -/
def demoCrossDoc : Document :=
  { demoThreeDoc with
    Vertices := demoThreeDoc.Vertices ++
      [{ raw_x := 204800, raw_y := 102400 }, { raw_x := 614400, raw_y := 102400 }]
    LineDefs := demoThreeDoc.LineDefs ++
      [{ start := 6, end_ := 7, right := 3, left := -1, flags := 0, type := 0, tag := 0 }] }

/-- The result of `DivideOneSeg` for seg 3 of `demoCross` against the partition seg 0, with
empty lists and every vertex closed. -/
def demoDivided : Level × Option Nat × Option Nat × Option Nat :=
  (DivideOneSeg (1 / 128) hypotQ (fun _ _ _ => false) demoCrossDoc demoCross 3 0 none none
    none).getD (Level.empty, none, none, none)

end ajbsp

namespace ajbsp

/-! ## Worked example: two intersections at one vertex -/

/-- The level and the list after `AddIntersection` for vertex 0 of `demoThree` on the
partition seg 0, every direction open, with `force_closed = 2`: one record, closed after. -/
def demoCutA : Level × Option Nat :=
  (AddIntersection (1 / 128) (fun _ _ _ => true) demoThree none 0 (demoThree.lev_segs 0)
    false 2).getD (Level.empty, none)

/-- The level and the list after a second `AddIntersection` for the same vertex, with
`force_closed = 0`. -/
def demoCutB : Level × Option Nat :=
  (AddIntersection (1 / 128) (fun _ _ _ => true) demoCutA.1 demoCutA.2 0
    (demoCutA.1.lev_segs 0) false 0).getD (Level.empty, none)

end ajbsp

namespace ajbsp

/-! ## Cells of a quadtree -/

/-- The cell behind a cell pointer, given as the path from the root (`false` for
`subs[0]`, `true` for `subs[1]`). -/
def quadtree_c.cellAt : quadtree_c → List Bool → Option quadtree_c
  | t, [] => some t
  | quadtree_c.leaf _ _ _ _ _ _ _, _ :: _ => none
  | quadtree_c.node _ _ _ _ _ _ _ sub0 sub1, c :: rest =>
    (if c then sub1 else sub0).cellAt rest

/-- The two tests of `quadtree_c::AddSeg` at this cell: `none` for a leaf
(`subs[0] == NULL`) and when neither test holds, so that the seg is linked into the cell
itself. -/
def quadtree_c.AddSegStep (L : Level) (seg : Nat) : quadtree_c → Option Bool
  | quadtree_c.leaf _ _ _ _ _ _ _ => none
  | quadtree_c.node x1 y1 x2 y2 _ _ _ sub0 sub1 =>
    quadtree_c.AddSegWay x1 y1 x2 y2 sub0 sub1 L seg

/-- The number of real segs (`linedef >= 0`) among the segs `l`. -/
def Level.countReal (L : Level) (l : List Nat) : Int :=
  ((l.filter fun s => decide ((L.lev_segs s).linedef ≥ 0)).length : Int)

/-- The number of minisegs (`linedef < 0`) among the segs `l`. -/
def Level.countMini (L : Level) (l : List Nat) : Int :=
  ((l.filter fun s => decide ((L.lev_segs s).linedef < 0)).length : Int)

/-- Count consistency: every cell's `real_num` is the number of real segs in its own list
plus the `real_num` of its two children, and `mini_num` likewise for minisegs. -/
def quadtree_c.Counted (L : Level) : quadtree_c → Bool
  | quadtree_c.leaf _ _ _ _ rn mn list =>
    decide (rn = L.countReal ((L.segChain (L.num_segs + 1) list).getD [])) &&
    decide (mn = L.countMini ((L.segChain (L.num_segs + 1) list).getD []))
  | quadtree_c.node _ _ _ _ rn mn list sub0 sub1 =>
    decide (rn = L.countReal ((L.segChain (L.num_segs + 1) list).getD []) +
      sub0.real_num + sub1.real_num) &&
    decide (mn = L.countMini ((L.segChain (L.num_segs + 1) list).getD []) +
      sub0.mini_num + sub1.mini_num) &&
    sub0.Counted L && sub1.Counted L

/-- The boxes of the two sub-cells are the two halves of the cell's box, as the
constructor makes them. -/
def quadtree_c.Boxed : quadtree_c → Bool
  | quadtree_c.leaf _ _ _ _ _ _ _ => true
  | quadtree_c.node x1 y1 x2 y2 _ _ _ sub0 sub1 =>
    decide (sub0.x1 = x1) && decide (sub0.y1 = y1) && decide (sub1.x2 = x2) &&
    decide (sub1.y2 = y2) &&
    (if x2 - x1 ≥ y2 - y1 then
      decide (sub0.y2 = y2) && decide (sub1.y1 = y1) && decide (sub0.x2 = sub1.x1)
    else decide (sub0.x2 = x2) && decide (sub1.x1 = x1) && decide (sub0.y2 = sub1.y1)) &&
    sub0.Boxed && sub1.Boxed

/-! ## Worked example: a seg that touches the split line -/

/-- One real seg from `(320, 10)` to `(400, 10)`. -/
def demoTouch : Level :=
  { Level.empty with
    lev_vertices := fun i =>
      if i = 0 then { vertex_t.zero with x := 320, y := 10 }
      else if i = 1 then { vertex_t.zero with x := 400, y := 10, index := 1 }
      else vertex_t.zero
    num_vertices := 2
    lev_segs := fun i =>
      if i = 0 then demoSeg none 0 1 0 320 10 400 10 80
      else seg_t.zero
    num_segs := 1 }

/-- The empty quadtree for the box `(0, 0) - (640, 100)`: a root with the two leaves
`(0, 0) - (320, 100)` and `(320, 0) - (640, 100)`. -/
def demoTouchRoot : quadtree_c :=
  (quadtree_c.new 741 0 0 640 100).getD (quadtree_c.leaf 0 0 0 0 0 0 none)

/-- The tree and the level after `AddSeg` of the seg of `demoTouch` at the root. -/
def demoTouchAdded : quadtree_c × Level := demoTouchRoot.AddSeg [] demoTouch 0

end ajbsp

namespace ajbsp

/-! ## The editing basis (`e_basis.cc`): raw operations -/

/-- The object types that `e_basis.cc` switches over (`ObjType::things`, ...). -/
inductive ObjType where
  | things
  | linedefs
  | sidedefs
  | vertices
  | sectors
deriving DecidableEq, Repr

/-- What the constructor of `Thing` leaves. -/
def Thing.zero : Thing := { raw_x := 0, raw_y := 0, angle := 0, type := 0, options := 0 }

/-- What the constructor of `Sector` leaves. -/
def Sector.zero : Sector :=
  { floorh := 0, ceilh := 0, floor_tex := 0, ceil_tex := 0, light := 0, type := 0, tag := 0 }

/-- An object behind an `int *ptr` of an edit operation. -/
inductive Obj where
  | thing (t : Thing)
  | vertex (v : Vertex)
  | sector (s : Sector)
  | sidedef (s : SideDef)
  | linedef (l : LineDef)
deriving DecidableEq, Repr

/-- The fix-up of a reference by the raw insert functions: `if (ref >= objnum) ref++`. -/
def refUp (objnum ref : Int) : Int := if ref ≥ objnum then ref + 1 else ref

/-- The fix-up of a reference by the raw delete functions: `if (ref > objnum) ref--`. -/
def refDown (objnum ref : Int) : Int := if ref > objnum then ref - 1 else ref

/-- `RawInsertThing`; `none` is a failed `SYS_ASSERT`. -/
def RawInsertThing (doc : Document) (objnum : Int) (ptr : Thing) : Option Document :=
  if 0 ≤ objnum ∧ objnum ≤ (doc.Things.length : Int) then
    some { doc with Things := doc.Things.insertIdx objnum.toNat ptr }
  else none

/-- `RawInsertLineDef`. -/
def RawInsertLineDef (doc : Document) (objnum : Int) (ptr : LineDef) : Option Document :=
  if 0 ≤ objnum ∧ objnum ≤ (doc.LineDefs.length : Int) then
    some { doc with LineDefs := doc.LineDefs.insertIdx objnum.toNat ptr }
  else none

/-- `RawInsertVertex`. -/
def RawInsertVertex (doc : Document) (objnum : Int) (ptr : Vertex) : Option Document :=
  if 0 ≤ objnum ∧ objnum ≤ (doc.Vertices.length : Int) then
    let vertices := doc.Vertices.insertIdx objnum.toNat ptr
    -- fix references in linedefs
    let linedefs :=
      if objnum + 1 < (vertices.length : Int) then
        doc.LineDefs.map fun L =>
          { L with start := refUp objnum L.start, end_ := refUp objnum L.end_ }
      else doc.LineDefs
    some { doc with Vertices := vertices, LineDefs := linedefs }
  else none

/-- `RawInsertSideDef`. -/
def RawInsertSideDef (doc : Document) (objnum : Int) (ptr : SideDef) : Option Document :=
  if 0 ≤ objnum ∧ objnum ≤ (doc.SideDefs.length : Int) then
    let sidedefs := doc.SideDefs.insertIdx objnum.toNat ptr
    -- fix the linedefs references
    let linedefs :=
      if objnum + 1 < (sidedefs.length : Int) then
        doc.LineDefs.map fun L =>
          { L with right := refUp objnum L.right, left := refUp objnum L.left }
      else doc.LineDefs
    some { doc with SideDefs := sidedefs, LineDefs := linedefs }
  else none

/-- `RawInsertSector`. -/
def RawInsertSector (doc : Document) (objnum : Int) (ptr : Sector) : Option Document :=
  if 0 ≤ objnum ∧ objnum ≤ (doc.Sectors.length : Int) then
    let sectors := doc.Sectors.insertIdx objnum.toNat ptr
    -- fix all sidedef references
    let sidedefs :=
      if objnum + 1 < (sectors.length : Int) then
        doc.SideDefs.map fun S => { S with sector := refUp objnum S.sector }
      else doc.SideDefs
    some { doc with Sectors := sectors, SideDefs := sidedefs }
  else none

/-- `RawDeleteThing`: returns the document and the object taken out. -/
def RawDeleteThing (doc : Document) (objnum : Int) : Option (Document × Thing) :=
  if 0 ≤ objnum ∧ objnum < (doc.Things.length : Int) then
    some ({ doc with Things := doc.Things.eraseIdx objnum.toNat },
      doc.Things.getD objnum.toNat Thing.zero)
  else none

/-- `RawDeleteLineDef`. -/
def RawDeleteLineDef (doc : Document) (objnum : Int) : Option (Document × LineDef) :=
  if 0 ≤ objnum ∧ objnum < (doc.LineDefs.length : Int) then
    some ({ doc with LineDefs := doc.LineDefs.eraseIdx objnum.toNat },
      doc.LineDefs.getD objnum.toNat LineDef.zero)
  else none

/-- `RawDeleteVertex`. -/
def RawDeleteVertex (doc : Document) (objnum : Int) : Option (Document × Vertex) :=
  if 0 ≤ objnum ∧ objnum < (doc.Vertices.length : Int) then
    let vertices := doc.Vertices.eraseIdx objnum.toNat
    -- fix the linedef references
    let linedefs :=
      if objnum < (vertices.length : Int) then
        doc.LineDefs.map fun L =>
          { L with start := refDown objnum L.start, end_ := refDown objnum L.end_ }
      else doc.LineDefs
    some ({ doc with Vertices := vertices, LineDefs := linedefs },
      doc.Vertices.getD objnum.toNat Vertex.zero)
  else none

/-- `RawDeleteSideDef`. -/
def RawDeleteSideDef (doc : Document) (objnum : Int) : Option (Document × SideDef) :=
  if 0 ≤ objnum ∧ objnum < (doc.SideDefs.length : Int) then
    let sidedefs := doc.SideDefs.eraseIdx objnum.toNat
    -- fix the linedefs references
    let linedefs :=
      if objnum < (sidedefs.length : Int) then
        doc.LineDefs.map fun L =>
          { L with right := refDown objnum L.right, left := refDown objnum L.left }
      else doc.LineDefs
    some ({ doc with SideDefs := sidedefs, LineDefs := linedefs },
      doc.SideDefs.getD objnum.toNat SideDef.zero)
  else none

/-- `RawDeleteSector`. -/
def RawDeleteSector (doc : Document) (objnum : Int) : Option (Document × Sector) :=
  if 0 ≤ objnum ∧ objnum < (doc.Sectors.length : Int) then
    let sectors := doc.Sectors.eraseIdx objnum.toNat
    -- fix sidedef references
    let sidedefs :=
      if objnum < (sectors.length : Int) then
        doc.SideDefs.map fun S => { S with sector := refDown objnum S.sector }
      else doc.SideDefs
    some ({ doc with Sectors := sectors, SideDefs := sidedefs },
      doc.Sectors.getD objnum.toNat Sector.zero)
  else none

/-- `RawInsert`; an object of another type than `objtype` stands for a bad pointer. -/
def RawInsert (doc : Document) (objtype : ObjType) (objnum : Int) (ptr : Obj) :
    Option Document :=
  match objtype, ptr with
  | ObjType.things, Obj.thing t => RawInsertThing doc objnum t
  | ObjType.vertices, Obj.vertex v => RawInsertVertex doc objnum v
  | ObjType.sidedefs, Obj.sidedef s => RawInsertSideDef doc objnum s
  | ObjType.sectors, Obj.sector s => RawInsertSector doc objnum s
  | ObjType.linedefs, Obj.linedef l => RawInsertLineDef doc objnum l
  | _, _ => none

/-- `RawDelete`. -/
def RawDelete (doc : Document) (objtype : ObjType) (objnum : Int) : Option (Document × Obj) :=
  match objtype with
  | ObjType.things => (RawDeleteThing doc objnum).map fun r => (r.1, Obj.thing r.2)
  | ObjType.vertices => (RawDeleteVertex doc objnum).map fun r => (r.1, Obj.vertex r.2)
  | ObjType.sectors => (RawDeleteSector doc objnum).map fun r => (r.1, Obj.sector r.2)
  | ObjType.sidedefs => (RawDeleteSideDef doc objnum).map fun r => (r.1, Obj.sidedef r.2)
  | ObjType.linedefs => (RawDeleteLineDef doc objnum).map fun r => (r.1, Obj.linedef r.2)

/-! ### Objects as arrays of `int` -/

/-- The `int` at index `field` of a `Thing`. -/
def Thing.getField (t : Thing) : Nat → Option Int
  | 0 => some t.raw_x
  | 1 => some t.raw_y
  | 2 => some t.angle
  | 3 => some t.type
  | 4 => some t.options
  | 5 => some t.raw_h
  | 6 => some t.tid
  | 7 => some t.special
  | 8 => some t.arg1
  | 9 => some t.arg2
  | 10 => some t.arg3
  | 11 => some t.arg4
  | 12 => some t.arg5
  | _ => none

/-- Assign to the `int` at index `field` of a `Thing`. -/
def Thing.setField (t : Thing) (field : Nat) (v : Int) : Thing :=
  match field with
  | 0 => { t with raw_x := v }
  | 1 => { t with raw_y := v }
  | 2 => { t with angle := v }
  | 3 => { t with type := v }
  | 4 => { t with options := v }
  | 5 => { t with raw_h := v }
  | 6 => { t with tid := v }
  | 7 => { t with special := v }
  | 8 => { t with arg1 := v }
  | 9 => { t with arg2 := v }
  | 10 => { t with arg3 := v }
  | 11 => { t with arg4 := v }
  | 12 => { t with arg5 := v }
  | _ => t

/-- The `int` at index `field` of a `Vertex`. -/
def Vertex.getField (x : Vertex) : Nat → Option Int
  | 0 => some x.raw_x
  | 1 => some x.raw_y
  | _ => none

/-- Assign to the `int` at index `field` of a `Vertex`. -/
def Vertex.setField (x : Vertex) (field : Nat) (v : Int) : Vertex :=
  match field with
  | 0 => { x with raw_x := v }
  | 1 => { x with raw_y := v }
  | _ => x

/-- The `int` at index `field` of a `Sector`. -/
def Sector.getField (s : Sector) : Nat → Option Int
  | 0 => some s.floorh
  | 1 => some s.ceilh
  | 2 => some s.floor_tex
  | 3 => some s.ceil_tex
  | 4 => some s.light
  | 5 => some s.type
  | 6 => some s.tag
  | _ => none

/-- Assign to the `int` at index `field` of a `Sector`. -/
def Sector.setField (s : Sector) (field : Nat) (v : Int) : Sector :=
  match field with
  | 0 => { s with floorh := v }
  | 1 => { s with ceilh := v }
  | 2 => { s with floor_tex := v }
  | 3 => { s with ceil_tex := v }
  | 4 => { s with light := v }
  | 5 => { s with type := v }
  | 6 => { s with tag := v }
  | _ => s

/-- The `int` at index `field` of a `SideDef`. -/
def SideDef.getField (s : SideDef) : Nat → Option Int
  | 0 => some s.x_offset
  | 1 => some s.y_offset
  | 2 => some s.upper_tex
  | 3 => some s.mid_tex
  | 4 => some s.lower_tex
  | 5 => some s.sector
  | _ => none

/-- Assign to the `int` at index `field` of a `SideDef`. -/
def SideDef.setField (s : SideDef) (field : Nat) (v : Int) : SideDef :=
  match field with
  | 0 => { s with x_offset := v }
  | 1 => { s with y_offset := v }
  | 2 => { s with upper_tex := v }
  | 3 => { s with mid_tex := v }
  | 4 => { s with lower_tex := v }
  | 5 => { s with sector := v }
  | _ => s

/-- The `int` at index `field` of a `LineDef`. -/
def LineDef.getField (l : LineDef) : Nat → Option Int
  | 0 => some l.start
  | 1 => some l.end_
  | 2 => some l.right
  | 3 => some l.left
  | 4 => some l.flags
  | 5 => some l.type
  | 6 => some l.tag
  | 7 => some l.arg2
  | 8 => some l.arg3
  | 9 => some l.arg4
  | 10 => some l.arg5
  | _ => none

/-- Assign to the `int` at index `field` of a `LineDef`. -/
def LineDef.setField (l : LineDef) (field : Nat) (v : Int) : LineDef :=
  match field with
  | 0 => { l with start := v }
  | 1 => { l with end_ := v }
  | 2 => { l with right := v }
  | 3 => { l with left := v }
  | 4 => { l with flags := v }
  | 5 => { l with type := v }
  | 6 => { l with tag := v }
  | 7 => { l with arg2 := v }
  | 8 => { l with arg3 := v }
  | 9 => { l with arg4 := v }
  | 10 => { l with arg5 := v }
  | _ => l

/-- `LineDef::F_RIGHT` and `LineDef::F_LEFT`. -/
def LineDef.F_RIGHT : Nat := 2

def LineDef.F_LEFT : Nat := 3

/-- `LineDef::F_ARG5`. -/
def LineDef.F_ARG5 : Nat := 10

/-- `RawChange`: `std::swap(pos[field], *value)`; returns the document and the new
`*value`.  `none` is a failed `SYS_ASSERT` or a `field` outside the object. -/
def RawChange (doc : Document) (objtype : ObjType) (objnum : Int) (field : Nat) (value : Int) :
    Option (Document × Int) :=
  match objtype with
  | ObjType.things =>
    if 0 ≤ objnum ∧ objnum < (doc.Things.length : Int) then
      let pos := doc.Things.getD objnum.toNat Thing.zero
      (pos.getField field).map fun old =>
        ({ doc with Things := doc.Things.set objnum.toNat (pos.setField field value) }, old)
    else none
  | ObjType.vertices =>
    if 0 ≤ objnum ∧ objnum < (doc.Vertices.length : Int) then
      let pos := doc.Vertices.getD objnum.toNat Vertex.zero
      (pos.getField field).map fun old =>
        ({ doc with Vertices := doc.Vertices.set objnum.toNat (pos.setField field value) }, old)
    else none
  | ObjType.sectors =>
    if 0 ≤ objnum ∧ objnum < (doc.Sectors.length : Int) then
      let pos := doc.Sectors.getD objnum.toNat Sector.zero
      (pos.getField field).map fun old =>
        ({ doc with Sectors := doc.Sectors.set objnum.toNat (pos.setField field value) }, old)
    else none
  | ObjType.sidedefs =>
    if 0 ≤ objnum ∧ objnum < (doc.SideDefs.length : Int) then
      let pos := doc.SideDefs.getD objnum.toNat SideDef.zero
      (pos.getField field).map fun old =>
        ({ doc with SideDefs := doc.SideDefs.set objnum.toNat (pos.setField field value) }, old)
    else none
  | ObjType.linedefs =>
    if 0 ≤ objnum ∧ objnum < (doc.LineDefs.length : Int) then
      let pos := doc.LineDefs.getD objnum.toNat LineDef.zero
      (pos.getField field).map fun old =>
        ({ doc with LineDefs := doc.LineDefs.set objnum.toNat (pos.setField field value) }, old)
    else none

/-! ## The editing basis: edit operations and undo groups -/

/-- `OP_CHANGE`, `OP_INSERT`, `OP_DELETE`. -/
inductive OpAction where
  | OP_CHANGE
  | OP_INSERT
  | OP_DELETE
deriving DecidableEq, Repr

/-- `edit_op_c`. -/
structure edit_op_c where
  action : OpAction
  objtype : ObjType
  field : Nat
  objnum : Int
  ptr : Option Obj
  value : Int
deriving DecidableEq, Repr

/-- `edit_op_c::Apply`: returns the operation (reversed) and the document. -/
def edit_op_c.Apply (op : edit_op_c) (doc : Document) : Option (edit_op_c × Document) :=
  match op.action with
  | OpAction.OP_CHANGE =>
    (RawChange doc op.objtype op.objnum op.field op.value).map fun r =>
      ({ op with value := r.2 }, r.1)
  | OpAction.OP_DELETE =>
    (RawDelete doc op.objtype op.objnum).map fun r =>
      -- reverse the operation
      ({ op with ptr := some r.2, action := OpAction.OP_INSERT }, r.1)
  | OpAction.OP_INSERT =>
    match op.ptr with
    | none => none
    | some p =>
      (RawInsert doc op.objtype op.objnum p).map fun d =>
        -- reverse the operation
        ({ op with ptr := none, action := OpAction.OP_DELETE }, d)

/-- `undo_group_c` (without the message). -/
structure undo_group_c where
  ops : List edit_op_c
  dir : Int
deriving DecidableEq, Repr

/-- The loop `for (i = 0; i < total; i++) ops[i].Apply()`. -/
def ApplyForward : List edit_op_c → Document → Option (List edit_op_c × Document)
  | [], doc => some ([], doc)
  | op :: rest, doc =>
    (op.Apply doc).bind fun r =>
    (ApplyForward rest r.2).map fun q => (r.1 :: q.1, q.2)

/-- The loop `for (i = total-1; i >= 0; i--) ops[i].Apply()`. -/
def ApplyBackward : List edit_op_c → Document → Option (List edit_op_c × Document)
  | [], doc => some ([], doc)
  | op :: rest, doc =>
    (ApplyBackward rest doc).bind fun q =>
    (op.Apply q.2).map fun r => (r.1 :: q.1, r.2)

/-- `undo_group_c::ReApply`. -/
def undo_group_c.ReApply (grp : undo_group_c) (doc : Document) :
    Option (undo_group_c × Document) :=
  (if grp.dir > 0 then ApplyForward grp.ops doc else ApplyBackward grp.ops doc).map fun r =>
    -- reverse the order for next time
    ({ ops := r.1, dir := -grp.dir }, r.2)

/-- The state of the basis: the document, `cur_group`, `undo_history`, `redo_future`. -/
structure Basis where
  doc : Document
  cur_group : Option undo_group_c
  undo_history : List undo_group_c
  redo_future : List undo_group_c
deriving DecidableEq, Repr

/-- `undo_group_c::Add_Apply` on `cur_group`; `none` also stands for `SYS_ASSERT(cur_group)`. -/
def Basis.Add_Apply (st : Basis) (op : edit_op_c) : Option Basis :=
  match st.cur_group with
  | none => none
  | some grp =>
    (op.Apply st.doc).map fun r =>
      { st with doc := r.2, cur_group := some { grp with ops := grp.ops ++ [r.1] } }

/-- `BA_Begin`. -/
def BA_Begin (st : Basis) : Option Basis :=
  match st.cur_group with
  | some _ => none
  | none => some { st with redo_future := [], cur_group := some { ops := [], dir := 1 } }

/-- `BA_End`. -/
def BA_End (st : Basis) : Option Basis :=
  match st.cur_group with
  | none => none
  | some grp =>
    if grp.ops.isEmpty then some { st with cur_group := none }
    else some { st with undo_history := { grp with dir := -1 } :: st.undo_history,
                        cur_group := none }

/-- The new object of `BA_New` for the type. -/
def Obj.new : ObjType → Obj
  | ObjType.things => Obj.thing Thing.zero
  | ObjType.vertices => Obj.vertex Vertex.zero
  | ObjType.sidedefs => Obj.sidedef SideDef.zero
  | ObjType.linedefs => Obj.linedef LineDef.zero
  | ObjType.sectors => Obj.sector Sector.zero

/-- The number of objects of the type (`NumThings`, `NumVertices`, ...). -/
def Document.NumObjects (doc : Document) : ObjType → Int
  | ObjType.things => doc.Things.length
  | ObjType.vertices => doc.Vertices.length
  | ObjType.sidedefs => doc.SideDefs.length
  | ObjType.linedefs => doc.LineDefs.length
  | ObjType.sectors => doc.Sectors.length

/-- `BA_New`: returns the state and the number of the new object. -/
def BA_New (st : Basis) (type : ObjType) : Option (Basis × Int) :=
  (st.Add_Apply { action := OpAction.OP_INSERT, objtype := type, field := 0,
                  objnum := st.doc.NumObjects type, ptr := some (Obj.new type),
                  value := 0 }).map fun st1 =>
    (st1, st.doc.NumObjects type)

/-- `BA_Change`. -/
def BA_Change (st : Basis) (type : ObjType) (objnum : Int) (field : Nat) (value : Int) :
    Option Basis :=
  st.Add_Apply { action := OpAction.OP_CHANGE, objtype := type, field := field,
                 objnum := objnum, ptr := none, value := value }

/-- `BA_ChangeLD`. -/
def BA_ChangeLD (st : Basis) (line : Int) (field : Nat) (value : Int) : Option Basis :=
  if ¬ (line ≥ 0 ∧ line < (st.doc.LineDefs.length : Int)) then none
  else if ¬ field ≤ LineDef.F_ARG5 then none
  else BA_Change st ObjType.linedefs line field value

/-- The loop of `BA_Delete` that unbinds a sidedef from the linedefs using it, for the
linedefs `n - 1` down to 0. -/
def BA_DeleteUnbind (objnum : Int) : Nat → Basis → Option Basis
  | 0, st => some st
  | n + 1, st =>
    (if (st.doc.LineDefs.getD n LineDef.zero).right = objnum then
        BA_ChangeLD st n LineDef.F_RIGHT (-1)
      else some st).bind fun st1 =>
    (if (st1.doc.LineDefs.getD n LineDef.zero).left = objnum then
        BA_ChangeLD st1 n LineDef.F_LEFT (-1)
      else some st1).bind fun st2 =>
    BA_DeleteUnbind objnum n st2

/-- The loop of `BA_Delete` that deletes the linedefs bound to a vertex, for the linedefs
`n - 1` down to 0; `del` is the recursive call of `BA_Delete`. -/
def BA_DeleteLines (del : Basis → ObjType → Int → Option Basis) (objnum : Int) :
    Nat → Basis → Option Basis
  | 0, st => some st
  | n + 1, st =>
    (if (st.doc.LineDefs.getD n LineDef.zero).start = objnum ∨
        (st.doc.LineDefs.getD n LineDef.zero).end_ = objnum then
        del st ObjType.linedefs n
      else some st).bind fun st1 =>
    BA_DeleteLines del objnum n st1

/-- The loop of `BA_Delete` that deletes the sidedefs bound to a sector, for the sidedefs
`n - 1` down to 0; `del` is the recursive call of `BA_Delete`. -/
def BA_DeleteSides (del : Basis → ObjType → Int → Option Basis) (objnum : Int) :
    Nat → Basis → Option Basis
  | 0, st => some st
  | n + 1, st =>
    (if (st.doc.SideDefs.getD n SideDef.zero).sector = objnum then
        del st ObjType.sidedefs n
      else some st).bind fun st1 =>
    BA_DeleteSides del objnum n st1

/-- `BA_Delete`.  `fuel` bounds the depth of the recursion (a sector deletes sidedefs,
a vertex deletes linedefs); `none` is a failed assertion or a recursion out of fuel. -/
def BA_Delete : Nat → Basis → ObjType → Int → Option Basis
  | 0, _, _, _ => none
  | fuel + 1, st, type, objnum =>
    if st.cur_group.isNone then none
    else
      (match type with
        | ObjType.sidedefs =>
          -- unbind sidedef from any linedefs using it
          BA_DeleteUnbind objnum st.doc.LineDefs.length st
        | ObjType.vertices =>
          -- delete any linedefs bound to this vertex
          BA_DeleteLines (BA_Delete fuel) objnum st.doc.LineDefs.length st
        | ObjType.sectors =>
          -- delete the sidedefs bound to this sector
          BA_DeleteSides (BA_Delete fuel) objnum st.doc.SideDefs.length st
        | _ => some st).bind fun st1 =>
      st1.Add_Apply { action := OpAction.OP_DELETE, objtype := type, field := 0,
                      objnum := objnum, ptr := none, value := 0 }

/-- `BA_Undo`: returns the `bool` result and the state. -/
def BA_Undo (st : Basis) : Option (Bool × Basis) :=
  match st.undo_history with
  | [] => some (false, st)
  | grp :: rest =>
    (grp.ReApply st.doc).map fun r =>
      (true, { st with doc := r.2, undo_history := rest, redo_future := r.1 :: st.redo_future })

/-- `BA_Redo`: returns the `bool` result and the state. -/
def BA_Redo (st : Basis) : Option (Bool × Basis) :=
  match st.redo_future with
  | [] => some (false, st)
  | grp :: rest =>
    (grp.ReApply st.doc).map fun r =>
      (true, { st with doc := r.2, redo_future := rest, undo_history := r.1 :: st.undo_history })

/-- A small document: three vertices, sidedefs and sectors, one linedef from vertex 0 to
vertex 2 with sidedefs 0 and 2; vertex 1, sidedef 1 and sector 1 are not referenced. -/
def demoBasisDoc : Document :=
  { Vertices := [{ raw_x := 0, raw_y := 0 }, { raw_x := 64, raw_y := 0 },
                 { raw_x := 128, raw_y := 64 }],
    LineDefs := [{ start := 0, end_ := 2, right := 0, left := 2, flags := 4, type := 0,
                   tag := 0 }],
    SideDefs := [{ SideDef.zero with sector := 0 }, { SideDef.zero with sector := 0 },
                 { SideDef.zero with sector := 2 }],
    Sectors := [{ Sector.zero with floorh := 0 }, { Sector.zero with floorh := 8 },
                { Sector.zero with floorh := 16 }],
    Things := [{ Thing.zero with type := 1 }] }

end ajbsp

namespace ajbsp

/-- No object of the document refers to object `n` of the type: no linedef has vertex `n`
as start or end, no linedef has sidedef `n` as right or left, no sidedef has sector `n`. -/
def Document.Unreferenced (doc : Document) : ObjType → Int → Prop
  | ObjType.vertices, n => ∀ L ∈ doc.LineDefs, L.start ≠ n ∧ L.end_ ≠ n
  | ObjType.sidedefs, n => ∀ L ∈ doc.LineDefs, L.right ≠ n ∧ L.left ≠ n
  | ObjType.sectors, n => ∀ S ∈ doc.SideDefs, S.sector ≠ n
  | _, _ => True

/-- A call of the editing API made between `BA_Begin` and `BA_End`. -/
inductive BA_Call where
  | new (type : ObjType)
  | delete (type : ObjType) (objnum : Int)
  | change (type : ObjType) (objnum : Int) (field : Nat) (value : Int)
deriving DecidableEq, Repr

/-- Make one call; `fuel` is the recursion bound of `BA_Delete`. -/
def BA_Call.run (fuel : Nat) (st : Basis) : BA_Call → Option Basis
  | BA_Call.new type => (BA_New st type).map fun r => r.1
  | BA_Call.delete type objnum => BA_Delete fuel st type objnum
  | BA_Call.change type objnum field value => BA_Change st type objnum field value

/-- Make the calls one after the other. -/
def BA_Call.runAll (fuel : Nat) : List BA_Call → Basis → Option Basis
  | [], st => some st
  | c :: cs, st => (c.run fuel st).bind fun st1 => BA_Call.runAll fuel cs st1

/-- The operations of the current group undo to `doc0`, and redo from there to the
present document. -/
def Basis.Recorded (doc0 : Document) (st : Basis) : Prop :=
  ∃ grp ops0, st.cur_group = some grp ∧
    ApplyBackward grp.ops st.doc = some (ops0, doc0) ∧
    ApplyForward ops0 doc0 = some (grp.ops, st.doc)

end ajbsp

namespace ajbsp

/-- The basis holding the demo document, with no group open and no history. -/
def demoBasis0 : Basis :=
  { doc := demoBasisDoc, cur_group := none, undo_history := [], redo_future := [] }

/-- Calls of one group: a new vertex, a change of its x coordinate, the deletion of
sector 0 (which deletes sidedefs 1 and 0 and unbinds sidedef 0 from the linedef) and the
deletion of vertex 2 (which deletes the linedef). -/
def demoCalls : List BA_Call :=
  [BA_Call.new ObjType.vertices,
   BA_Call.change ObjType.vertices 3 0 500,
   BA_Call.delete ObjType.sectors 0,
   BA_Call.delete ObjType.vertices 2]

/-- The demo basis after `BA_Begin`. -/
def demoBasis1 : Basis := (BA_Begin demoBasis0).getD demoBasis0

/-- The demo basis after the calls. -/
def demoBasis2 : Basis := (BA_Call.runAll 3 demoCalls demoBasis1).getD demoBasis0

/-- The demo basis after `BA_End`. -/
def demoBasis3 : Basis := (BA_End demoBasis2).getD demoBasis0

end ajbsp

namespace ajbsp

/-- The references of the document are valid: every linedef's start and end is a valid
vertex index, its right and left are -1 or a valid sidedef index, and every sidedef's
sector is a valid sector index. -/
def Document.RefsValid (doc : Document) : Prop :=
  (∀ L ∈ doc.LineDefs,
    (0 ≤ L.start ∧ L.start < (doc.Vertices.length : Int)) ∧
    (0 ≤ L.end_ ∧ L.end_ < (doc.Vertices.length : Int)) ∧
    (L.right = -1 ∨ (0 ≤ L.right ∧ L.right < (doc.SideDefs.length : Int))) ∧
    (L.left = -1 ∨ (0 ≤ L.left ∧ L.left < (doc.SideDefs.length : Int)))) ∧
  (∀ S ∈ doc.SideDefs, 0 ≤ S.sector ∧ S.sector < (doc.Sectors.length : Int))

end ajbsp

namespace ajbsp

/-- The records `l` are separated: no two share a vertex and any two differ in
`along_dist` by at least `eps`. -/
def Level.CutsApart (L : Level) (eps : ℚ) (l : List Nat) : Prop :=
  l.Pairwise fun a b => (L.cuts a).vertex ≠ (L.cuts b).vertex ∧
    eps ≤ |(L.cuts a).along_dist - (L.cuts b).along_dist|

/-- The `along_dist` of each record of `l` is the distance of its vertex along `part`. -/
def Level.CutsAlong (L : Level) (part : seg_t) (l : List Nat) : Prop :=
  ∀ c ∈ l, (L.cuts c).along_dist =
    part.ParallelDist (L.lev_vertices (L.cuts c).vertex).x (L.lev_vertices (L.cuts c).vertex).y

instance (L : Level) (eps : ℚ) (l : List Nat) : Decidable (L.CutsApart eps l) := by
  unfold Level.CutsApart; infer_instance

instance (L : Level) (part : seg_t) (l : List Nat) : Decidable (L.CutsAlong part l) := by
  unfold Level.CutsAlong; infer_instance

end ajbsp

namespace ajbsp

/-- The adjacent pairs `(C, N)` of the intersection list `l` for which `C.open_after` and
`N.open_before` are both true. -/
def Level.openPairs (L : Level) : List Nat → List (Nat × Nat)
  | [] => []
  | [_] => []
  | c :: n :: rest =>
    if (L.cuts c).open_after = true ∧ (L.cuts n).open_before = true then
      (c, n) :: Level.openPairs L (n :: rest)
    else Level.openPairs L (n :: rest)

/-- The segs `sb.1` and `sb.2` of `L` are the miniseg pair for the gap from vertex `v.1`
to vertex `v.2` on the partition `part`: seg from `v.1` to `v.2`, buddy back, partners of
each other, both with `linedef = -1`, `index = -1` and the partition's linedef as
`source_line`. -/
def Level.MinisegPair (L : Level) (part : Nat) (sb : Nat × Nat) (v : Nat × Nat) : Prop :=
  (L.lev_segs sb.1).start = v.1 ∧ (L.lev_segs sb.1).end_ = v.2 ∧
  (L.lev_segs sb.2).start = v.2 ∧ (L.lev_segs sb.2).end_ = v.1 ∧
  (L.lev_segs sb.1).partner = some sb.2 ∧ (L.lev_segs sb.2).partner = some sb.1 ∧
  (L.lev_segs sb.1).linedef = -1 ∧ (L.lev_segs sb.2).linedef = -1 ∧
  (L.lev_segs sb.1).index = -1 ∧ (L.lev_segs sb.2).index = -1 ∧
  (L.lev_segs sb.1).source_line = (L.lev_segs part).linedef ∧
  (L.lev_segs sb.2).source_line = seg_t.linedef (L.lev_segs part)

/-- The vertices of the two records of a pair differ in position. -/
def Level.PairApart (L : Level) (cn : Nat × Nat) : Prop :=
  (L.lev_vertices (L.cuts cn.1).vertex).x ≠ (L.lev_vertices (L.cuts cn.2).vertex).x ∨
  (L.lev_vertices (L.cuts cn.1).vertex).y ≠ (L.lev_vertices (L.cuts cn.2).vertex).y

instance (L : Level) (part : Nat) (sb v : Nat × Nat) : Decidable (L.MinisegPair part sb v) := by
  unfold Level.MinisegPair; infer_instance

instance (L : Level) (cn : Nat × Nat) : Decidable (L.PairApart cn) := by
  unfold Level.PairApart; infer_instance

/-- The level of three vertical segs after two `AddIntersection` calls for the partition
seg 0, at the vertices 1 and 0, with every vertex open on both sides: the list holds the
record of vertex 0 and then the record of vertex 1. -/
def demoCuts : Level × Option Nat :=
  (AddIntersections (1 / 128) (fun _ _ _ => true) (demoThree.lev_segs 0)
    [(1, false, 0), (0, false, 0)] demoThree none).getD (demoThree, none)

/-- A stand-in for `hypot` in worked examples where only its sign matters. -/
def demoHypot (dx dy : ℚ) : ℚ := |dx| + |dy|

end ajbsp

namespace ajbsp

/-! ## `BuildNodes` -/

/-- The values of `build_result_e` that `BuildNodes` returns. -/
inductive build_result_e where
  | BUILD_OK
  | BUILD_Cancelled
deriving DecidableEq, Repr

/-- `Vertex::x()` and `Vertex::y()`: `FROM_COORD` of the raw coordinate. -/
def Vertex.x (v : Vertex) : ℚ := (v.raw_x : ℚ) / 4096

def Vertex.y (v : Vertex) : ℚ := (v.raw_y : ℚ) / 4096

/-- Write through a node pointer. -/
def Level.setNode (L : Level) (i : Nat) (n : node_t) : Level :=
  { L with lev_nodes := Function.update L.lev_nodes i n }

/-- Assign to fields of the node behind a pointer. -/
def Level.modNode (L : Level) (i : Nat) (f : node_t → node_t) : Level :=
  L.setNode i (f (L.lev_nodes i))

/-- `node_t::SetPartition`; `none` is the failed `SYS_ASSERT(part->linedef >= 0)`. -/
def node_t.SetPartition (doc : Document) (n : node_t) (part : seg_t) : Option node_t :=
  if ¬ part.linedef ≥ 0 then none
  else
    let part_L := doc.LineDefs.getD part.linedef.toNat LineDef.zero
    let n1 : node_t :=
      if part.side = 0 then
        { n with x := (part_L.Start doc).x, y := (part_L.Start doc).y,
                 dx := (part_L.End doc).x - (part_L.Start doc).x,
                 dy := (part_L.End doc).y - (part_L.Start doc).y }
      else
        { n with x := (part_L.End doc).x, y := (part_L.End doc).y,
                 dx := (part_L.Start doc).x - (part_L.End doc).x,
                 dy := (part_L.Start doc).y - (part_L.End doc).y }
    -- check for really long partition (overflows dx,dy in NODES)
    some (if part.p_length ≥ 30000 then { n1 with too_long := 1 } else n1)

/-- What a call of `BuildNodes` leaves: the return value, the level, the clock of the
cancellation flag, the box written to `*bounds` (if it was written), `*N` and `*S`. -/
structure BuildOut where
  ret : build_result_e
  L : Level
  clock : Nat
  bounds : Option bbox_t
  N : Option Nat
  S : Option Nat

/-- The end of `BuildNodes`, from "Going LEFT" on: the two recursive calls, which write
the children of `node`.  `rec` is `BuildNodes` itself. -/
def BuildNodesChildren (rec : Level → Nat → Option Nat → Int → Option BuildOut)
    (L : Level) (clock : Nat) (node : Nat) (lefts rights : Option Nat) (depth : Int)
    (bounds : bbox_t) : Option BuildOut :=
  (rec L clock lefts (depth + 1)).bind fun lo =>
  let L1 := lo.L.modNode node fun n =>
    { n with l := { bounds := lo.bounds.getD n.l.bounds, node := lo.N, subsec := lo.S } }
  if lo.ret ≠ build_result_e.BUILD_OK then
    some { ret := lo.ret, L := L1, clock := lo.clock, bounds := some bounds,
           N := some node, S := none }
  else
    (rec L1 lo.clock rights (depth + 1)).map fun ro =>
      { ret := ro.ret,
        L := ro.L.modNode node fun n =>
          { n with r := { bounds := ro.bounds.getD n.r.bounds, node := ro.N, subsec := ro.S } },
        clock := ro.clock, bounds := some bounds, N := some node, S := none }

/-- `BuildNodes`.  The flag `cur_info->cancelled` is set from outside while the builder
runs: it is a function of a clock that ticks at the entry of `BuildNodes`, at the
`PickNode` call (the flag is taken as constant during one call) and at the test after
`CreateSubsector`.  `fuel` bounds the depth of the recursion and the number of steps of
each list walk of `SeparateSegs` (a list that can grow while it is walked); `none` is a
`BugError`, a failed assertion or a recursion or walk out of fuel. -/
def BuildNodes (DIST_EPSILON : ℚ) (factor : Int) (fast : Bool) (hypot : ℚ → ℚ → ℚ)
    (VertexCheckOpen : Nat → ℚ → ℚ → Bool) (doc : Document) (cancelled : Nat → Bool) :
    Nat → Level → Nat → Option Nat → Int → Option BuildOut
  | 0, _, _, _, _ => none
  | fuel + 1, L, clock, list, depth =>
    -- *N = NULL; *S = NULL
    if cancelled clock then
      some { ret := build_result_e.BUILD_Cancelled, L := L, clock := clock + 1,
             bounds := none, N := none, S := none }
    else
      -- determine bounds of segs
      (FindLimits2 L list).bind fun bounds =>
      (TreeFromSegList L list bounds).bind fun tl =>
      /- pick partition line  None indicates convexicity -/
      (PickNode DIST_EPSILON factor fast (cancelled (clock + 1)) doc tl.2 tl.1).bind fun part =>
      match part with
      | none =>
        (CreateSubsector tl.2 tl.1).map fun r =>
          { ret := if cancelled (clock + 2) then build_result_e.BUILD_Cancelled
                   else build_result_e.BUILD_OK,
            L := r.1, clock := clock + 3, bounds := some bounds, N := none, S := some r.2 }
      | some part =>
        let rn := NewNode tl.2
        let node := rn.2
        /- divide the segs into two lists: left & right -/
        (SeparateSegs DIST_EPSILON hypot VertexCheckOpen doc part (fuel + 1) tl.1 rn.1
          (none, none, none)).bind fun s =>
        /- sanity checks... -/
        if s.2.2.1 = none then none
        else if s.2.1 = none then none
        else
          (AddMinisegs hypot s.1 s.2.2.2 part s.2.1 s.2.2.1).bind fun m =>
          (node_t.SetPartition doc (m.1.lev_nodes node) (m.1.lev_segs part)).bind fun nd =>
          BuildNodesChildren
            (BuildNodes DIST_EPSILON factor fast hypot VertexCheckOpen doc cancelled fuel)
            (m.1.setNode node nd) (clock + 2) node m.2.1 m.2.2 depth bounds

end ajbsp

namespace ajbsp

/-- The level `L'` has the nodes of `L`: the same node array and node count. -/
def Level.SameNodes (L L' : Level) : Prop :=
  L'.lev_nodes = L.lev_nodes ∧ L'.num_nodes = L.num_nodes

/-- Exactly one of the two pointers of a child is non-null. -/
def child_t.OneOf (c : child_t) : Prop :=
  (c.node.isSome = true ∧ c.subsec = none) ∨ (c.node = none ∧ c.subsec.isSome = true)

/-- Exactly one of `*N` and `*S` is non-null after the call. -/
def BuildOut.OneOf (o : BuildOut) : Prop :=
  (o.N.isSome = true ∧ o.S = none) ∨ (o.N = none ∧ o.S.isSome = true)

/-- The nodes of `L` are still nodes of `L'`, with the same contents. -/
def Level.NodesKept (L L' : Level) : Prop :=
  L.num_nodes ≤ L'.num_nodes ∧ ∀ i, i < L.num_nodes → L'.lev_nodes i = L.lev_nodes i

/-- The level `L'` differs from `L` in the contents of the segs at most. -/
def Level.SameButSegs (L L' : Level) : Prop :=
  L' = { L with lev_segs := L'.lev_segs }

/-- What `BuildNodes` leaves for the three walls of `demoThree`, with the flag clear:
node 0 with the children node 1 and subsector 2, node 1 with the subsectors 0 and 1. -/
def demoBuilt : BuildOut :=
  (BuildNodes (1 / 128) 11 false demoHypot (fun _ _ _ => false) demoThreeDoc (fun _ => false)
    5 demoThree 0 (some 0) 0).getD
    { ret := build_result_e.BUILD_Cancelled, L := Level.empty, clock := 0, bounds := none,
      N := none, S := none }

/-- What `BuildNodes` leaves for the list of the single seg 2 of `demoThree`: subsector 0
holding that seg. -/
def demoBuiltLeaf : BuildOut :=
  (BuildNodes (1 / 128) 11 false demoHypot (fun _ _ _ => false) demoThreeDoc (fun _ => false)
    5 demoThree 0 (some 2) 0).getD
    { ret := build_result_e.BUILD_Cancelled, L := Level.empty, clock := 0, bounds := none,
      N := none, S := none }

end ajbsp

namespace ajbsp

/-! ## Index density of subsectors and segs -/

/-- Every subsector's `index` is its position in `lev_subsecs`. -/
def Level.SubsecIndexed (L : Level) : Prop :=
  ∀ j, j < L.num_subsecs → (L.lev_subsecs j).index = (j : Int)

/-- The level `L'` has the subsectors of `L`: the same subsector array and count. -/
def Level.SameSubsecs (L L' : Level) : Prop :=
  L'.lev_subsecs = L.lev_subsecs ∧ L'.num_subsecs = L.num_subsecs

/-- The seg list of subsector `j` is `ls j`, for every subsector of the level. -/
def Level.SubsecLists (L : Level) (ls : Nat → List Nat) : Prop :=
  ∀ j, j < L.num_subsecs → L.SubsecList j (ls j)

/-- The segs met when walking the first `i` subsectors in `lev_subsecs` order and each
seg list `ls j` in order. -/
def subsecWalk (ls : Nat → List Nat) : Nat → List Nat
  | 0 => []
  | i + 1 => subsecWalk ls i ++ ls i

/-- The subsector lists `ls` are lists of allocated segs, and no seg stands in two. -/
def Level.SubsecsApart (L : Level) (ls : Nat → List Nat) : Prop :=
  (∀ j, j < L.num_subsecs → ∀ s ∈ ls j, s < L.num_segs) ∧
  ∀ j1 j2, j1 < L.num_subsecs → j2 < L.num_subsecs → j1 ≠ j2 → ∀ s ∈ ls j1, s ∉ ls j2

/-- Index density of the first `i` subsectors: the `k`-th seg of the walk has index `k`,
each of these subsectors has the length of its list as `seg_count`, and
`num_complete_seg` is the number of segs of the walk. -/
def Level.DenseUpTo (L : Level) (ls : Nat → List Nat) (i : Nat) (num_complete_seg : Int) :
    Prop :=
  (∀ k, k < (subsecWalk ls i).length →
    (L.lev_segs ((subsecWalk ls i).getD k 0)).index = (k : Int)) ∧
  (∀ j, j < i → (L.lev_subsecs j).seg_count = ((ls j).length : Int)) ∧
  num_complete_seg = ((subsecWalk ls i).length : Int)

/-- Index density: walking the subsectors in `lev_subsecs` order and each seg list in
order, the `k`-th seg visited has index `k`, every subsector's `seg_count` is the length
of its seg list, and `num_complete_seg` is the number of segs visited. -/
def Level.Dense (L : Level) (ls : Nat → List Nat) (num_complete_seg : Int) : Prop :=
  L.SubsecLists ls ∧ L.DenseUpTo ls L.num_subsecs num_complete_seg

/-- The seg lists of the three subsectors that `BuildNodes` made of `demoThree`. -/
def demoLists (j : Nat) : List Nat :=
  if j = 0 then [2] else if j = 1 then [0] else if j = 2 then [1] else []

/-- The result of `ClockwiseBspTree` on the level that `BuildNodes` made of `demoThree`. -/
def demoClockwise : Level × Int :=
  (ClockwiseBspTree diamondAngle (1 / 1024) demoThreeDoc demoBuilt.L).getD (Level.empty, 0)

end ajbsp

namespace ajbsp

/-! ## The choice of `PickNode` -/

/-- The cost of the seg `s` as a partition "under `EvalPartition` without early-out":
with `best_cost = INT_MAX` (-1 stands for a call that does not return). -/
def fullCost (DIST_EPSILON : ℚ) (factor : Int) (doc : Document) (L : Level)
    (tree : quadtree_c) (s : Nat) : Int :=
  (EvalPartition DIST_EPSILON factor doc L tree (L.lev_segs s) INT_MAX).getD (-1)

/-- The real segs of the tree in traversal order: a cell's list, then `subs[0]`, then
`subs[1]`. -/
def quadtree_c.RealSegs (L : Level) (tree : quadtree_c) : List Nat :=
  (tree.Segs L).filter fun s => decide ((L.lev_segs s).linedef ≥ 0)

/-- What `PickNode` knows after the real segs `done` have been tried, in terms of a cost
function `fc`: `*best` is the first seg of `done` with the least non-negative cost, which
is `*best_cost`; or `*best` is null, `*best_cost` is `INT_MAX` and no seg of `done` has a
cost from 0 up to `INT_MAX - 1`. -/
def PickBest (fc : Nat → Int) (done : List Nat) (st : Option Nat × Int) : Prop :=
  st.2 ≤ INT_MAX ∧
  (st.1 = none → st.2 = INT_MAX ∧ ∀ s ∈ done, fc s < 0 ∨ INT_MAX ≤ fc s) ∧
  (∀ b, st.1 = some b → st.2 = fc b ∧ 0 ≤ fc b ∧ fc b < INT_MAX ∧
    ∃ pre post, done = pre ++ b :: post ∧
    (∀ s ∈ pre, fc s < 0 ∨ fc b < fc s) ∧ (∀ s ∈ post, fc s < 0 ∨ fc b ≤ fc s))

end ajbsp

namespace ajbsp

/-! ## Both sides of a partition -/

/-- The seg `s'` is the seg `s` up to the links `next` and `quad`. -/
def seg_t.SameGeom (s s' : seg_t) : Prop :=
  { s' with next := s.next, quad := s.quad } = s

/-- Every seg of `L'` is the seg of `L` up to the links `next` and `quad`. -/
def Level.SameGeom (L L' : Level) : Prop :=
  ∀ i, (L.lev_segs i).SameGeom (L'.lev_segs i)

/-- The distance `a` of `DivideOneSeg` and `EvalPartitionWorker`: of the start of the seg
from the partition line, 0 for a seg of the partition's linedef. -/
def Level.perpA (L : Level) (part seg : Nat) : ℚ :=
  if (L.lev_segs seg).source_line = (L.lev_segs part).source_line then 0
  else (L.lev_segs part).PerpDist (L.lev_segs seg).psx (L.lev_segs seg).psy

/-- The distance `b` of `DivideOneSeg` and `EvalPartitionWorker`, of the end of the seg. -/
def Level.perpB (L : Level) (part seg : Nat) : ℚ :=
  if (L.lev_segs seg).source_line = (L.lev_segs part).source_line then 0
  else (L.lev_segs part).PerpDist (L.lev_segs seg).pex (L.lev_segs seg).pey

/-- The tests of `DivideOneSeg` send the seg to the left list: it runs along the
partition line in the opposite direction, or it fails the test for the right side and
passes the test for the left side. -/
def Level.GoesLeft (DIST_EPSILON : ℚ) (L : Level) (part seg : Nat) : Prop :=
  (|L.perpA part seg| ≤ DIST_EPSILON ∧ |L.perpB part seg| ≤ DIST_EPSILON ∧
    (L.lev_segs seg).pdx * (L.lev_segs part).pdx +
      (L.lev_segs seg).pdy * (L.lev_segs part).pdy < 0) ∨
  (¬ (|L.perpA part seg| ≤ DIST_EPSILON ∧ |L.perpB part seg| ≤ DIST_EPSILON) ∧
    ¬ (L.perpA part seg > -DIST_EPSILON ∧ L.perpB part seg > -DIST_EPSILON) ∧
    (L.perpA part seg < DIST_EPSILON ∧ L.perpB part seg < DIST_EPSILON))

/-- The tests of `DivideOneSeg` send the seg to the right list: it runs along the
partition line in the same direction, or it passes the test for the right side. -/
def Level.GoesRight (DIST_EPSILON : ℚ) (L : Level) (part seg : Nat) : Prop :=
  (|L.perpA part seg| ≤ DIST_EPSILON ∧ |L.perpB part seg| ≤ DIST_EPSILON ∧
    ¬ (L.lev_segs seg).pdx * (L.lev_segs part).pdx +
      (L.lev_segs seg).pdy * (L.lev_segs part).pdy < 0) ∨
  (¬ (|L.perpA part seg| ≤ DIST_EPSILON ∧ |L.perpB part seg| ≤ DIST_EPSILON) ∧
    (L.perpA part seg > -DIST_EPSILON ∧ L.perpB part seg > -DIST_EPSILON))

/-- The outcome of a walk of `SeparateSegs` over the segs `S`, from the level `L`: both
lists hold a seg; or no seg was split, so that only links of segs of `S` were written, and
a list holds a seg as soon as a seg of `S` goes to it by the tests of `DivideOneSeg`. -/
def SidesKept (DIST_EPSILON : ℚ) (part : Nat) (S : List Nat) (L : Level)
    (r : Level × Option Nat × Option Nat × Option Nat) : Prop :=
  (r.2.1 ≠ none ∧ r.2.2.1 ≠ none) ∨
  ((∀ x, x ∉ S → r.1.lev_segs x = L.lev_segs x) ∧ L.SameGeom r.1 ∧
    r.1.num_segs = L.num_segs ∧
    ((∃ x ∈ S, L.GoesLeft DIST_EPSILON part x) → r.2.1 ≠ none) ∧
    ((∃ x ∈ S, L.GoesRight DIST_EPSILON part x) → r.2.2.1 ≠ none))

/-- Both end points of the seg lie in the inclusive box of the cell. -/
def quadtree_c.InsideSeg (t : quadtree_c) (L : Level) (s : Nat) : Prop :=
  t.Inside (L.lev_vertices (L.lev_segs s).start).x (L.lev_vertices (L.lev_segs s).start).y ∧
  t.Inside (L.lev_vertices (L.lev_segs s).end_).x (L.lev_vertices (L.lev_segs s).end_).y

/-- Containment: the box of every cell holds the end points of every seg that is stored in
the cell or below it. -/
def quadtree_c.Holds (L : Level) : quadtree_c → Prop
  | quadtree_c.leaf x1 y1 x2 y2 rn mn list =>
    ∀ s ∈ (quadtree_c.leaf x1 y1 x2 y2 rn mn list).Segs L,
      (quadtree_c.leaf x1 y1 x2 y2 rn mn list).InsideSeg L s
  | quadtree_c.node x1 y1 x2 y2 rn mn list sub0 sub1 =>
    (∀ s ∈ (quadtree_c.node x1 y1 x2 y2 rn mn list sub0 sub1).Segs L,
      (quadtree_c.node x1 y1 x2 y2 rn mn list sub0 sub1).InsideSeg L s) ∧
    sub0.Holds L ∧ sub1.Holds L

/-- The cached fields of the seg are what `RecomputeSeg` leaves for a seg of non-zero
length when the arithmetic is exact: the end points are those of the two vertices, and
the rest is as `seg_t.Exact` says. -/
def Level.Recomputed (L : Level) (s : Nat) : Prop :=
  (L.lev_segs s).psx = (L.lev_vertices (L.lev_segs s).start).x ∧
  (L.lev_segs s).psy = (L.lev_vertices (L.lev_segs s).start).y ∧
  (L.lev_segs s).pex = (L.lev_vertices (L.lev_segs s).end_).x ∧
  (L.lev_segs s).pey = (L.lev_vertices (L.lev_segs s).end_).y ∧
  (L.lev_segs s).Exact

instance (L : Level) (s : Nat) : Decidable (L.Recomputed s) := by
  unfold Level.Recomputed; infer_instance

/-- If the segs `s` and `part` have one `source_line`, then both end points of `s` lie on
the line of `part`: the pieces of one linedef are collinear. -/
def Level.OneLine (L : Level) (s part : Nat) : Prop :=
  (L.lev_segs s).source_line = (L.lev_segs part).source_line →
    (L.lev_segs part).PerpDist (L.lev_segs s).psx (L.lev_segs s).psy = 0 ∧
    (L.lev_segs part).PerpDist (L.lev_segs s).pex (L.lev_segs s).pey = 0

instance (L : Level) (s part : Nat) : Decidable (L.OneLine s part) := by
  unfold Level.OneLine; infer_instance

/-- The candidate `p` passes `EvalPartition` for some `best_cost`: the result is not
negative. -/
def Accepted (DIST_EPSILON : ℚ) (factor : Int) (doc : Document) (L : Level)
    (tree : quadtree_c) (p : Nat) : Prop :=
  ∃ best_cost c, EvalPartition DIST_EPSILON factor doc L tree (L.lev_segs p) best_cost = some c ∧
    0 ≤ c

/-! ## Worked example: two segs of one linedef that are far apart -/

/-- Two vertical real segs that both carry linedef 0 and point up: seg 0 from `(0, 0)` to
`(0, 100)` and seg 1 from `(-1000, 0)` to `(-1000, 100)`, linked `0 → 1`. -/
def demoApart : Level :=
  { Level.empty with
    lev_vertices := fun i =>
      if i = 0 then { vertex_t.zero with x := 0, y := 0 }
      else if i = 1 then { vertex_t.zero with x := 0, y := 100, index := 1 }
      else if i = 2 then { vertex_t.zero with x := -1000, y := 0, index := 2 }
      else if i = 3 then { vertex_t.zero with x := -1000, y := 100, index := 3 }
      else vertex_t.zero
    num_vertices := 4
    lev_segs := fun i =>
      if i = 0 then demoSeg (some 1) 0 1 0 0 0 0 100 100
      else if i = 1 then demoSeg none 2 3 0 (-1000) 0 (-1000) 100 100
      else seg_t.zero
    num_segs := 2 }

/-- The document behind `demoApart`: one one-sided linedef. -/
def demoApartDoc : Document :=
  { Vertices := [{ raw_x := 0, raw_y := 0 }, { raw_x := 0, raw_y := 409600 }]
    LineDefs := [{ start := 0, end_ := 1, right := 0, left := -1, flags := 0, type := 0, tag := 0 }] }

/-- The box of `FindLimits2` for `demoApart`. -/
def demoApartBounds : bbox_t := { minx := -1001, miny := -1, maxx := 1, maxy := 101 }

/-- The quadtree of `demoApart`: seg 1 in the leftmost leaf, seg 0 in the rightmost. -/
def demoApartTree : quadtree_c × Level :=
  (TreeFromSegList demoApart (some 0) demoApartBounds).getD
    (quadtree_c.leaf 0 0 0 0 0 0 none, demoApart)

/-- What `SeparateSegs` returns for `demoApart` and the partition seg 0, with five steps
for each walk. -/
def demoApartSides : Level × Option Nat × Option Nat × Option Nat :=
  (SeparateSegs (1 / 128) demoHypot (fun _ _ _ => false) demoApartDoc 0 5 demoApartTree.1
    (NewNode demoApartTree.2).1 (none, none, none)).getD (demoApart, none, none, none)

/-! ## Worked example: the three walls, from the seg list to the two lists -/

/-- The box of `FindLimits2` for the three walls of `demoThree`. -/
def demoWallsBounds : bbox_t := { minx := 49, miny := -1, maxx := 151, maxy := 51 }

/-- The quadtree of `TreeFromSegList` for the three walls and that box. -/
def demoWallsTree : quadtree_c × Level :=
  (TreeFromSegList demoThree (some 0) demoWallsBounds).getD
    (quadtree_c.leaf 0 0 0 0 0 0 none, demoThree)

/-- What `SeparateSegs` returns for the three walls and the partition seg 1, with five
steps for each walk. -/
def demoWallsSides : Level × Option Nat × Option Nat × Option Nat :=
  (SeparateSegs (1 / 128) demoHypot (fun _ _ _ => false) demoThreeDoc 1 5 demoWallsTree.1
    (NewNode demoWallsTree.2).1 (none, none, none)).getD (demoThree, none, none, none)

end ajbsp

/-! # Theorems -/

open ajbsp ajbsp.quadtree_c

theorem abs_sum_ge_len {a b l : ℚ} (hl : 0 < l) (h : l ^ 2 = a ^ 2 + b ^ 2) :
    l ≤ |a| + |b| := by
  have h1 : 0 ≤ |a| := abs_nonneg a
  have h2 : 0 ≤ |b| := abs_nonneg b
  have h3 : |a| ^ 2 = a ^ 2 := sq_abs a
  have h4 : |b| ^ 2 = b ^ 2 := sq_abs b
  by_contra hc
  push_neg at hc
  nlinarith [mul_nonneg h1 h2]

theorem PointOnLineSide_right {eps : ℚ} {s : seg_t} {x y : ℚ}
    (h : s.PointOnLineSide eps x y = Side.right) : eps < s.PerpDist x y := by
  unfold seg_t.PointOnLineSide at h
  simp only at h
  split_ifs at h with h1 h2
  have := le_abs_self (s.PerpDist x y)
  have h3 : |s.PerpDist x y| = s.PerpDist x y := abs_of_nonneg (not_lt.mp h2)
  rw [h3] at h1
  exact not_le.mp h1

theorem PointOnLineSide_left {eps : ℚ} {s : seg_t} {x y : ℚ}
    (h : s.PointOnLineSide eps x y = Side.left) : s.PerpDist x y < -eps := by
  unfold seg_t.PointOnLineSide at h
  simp only at h
  split_ifs at h with h1 h2
  have h3 : |s.PerpDist x y| = -s.PerpDist x y := abs_of_neg h2
  rw [h3] at h1
  linarith [not_le.mp h1]

theorem Side_neg_eq_right {p : Side} : p.neg = Side.right ↔ p = Side.left := by
  cases p <;> simp [Side.neg]

theorem Side_neg_eq_left {p : Side} : p.neg = Side.left ↔ p = Side.right := by
  cases p <;> simp [Side.neg]

theorem OnLineSide_eq_iff {eps : ℚ} {t : quadtree_c} {part : seg_t} {sd : Side}
    (hsd : sd ≠ Side.neither) :
    t.OnLineSide eps part = sd ↔
      (t.OnLineSideCorners eps part).1 = sd ∧ (t.OnLineSideCorners eps part).2 = sd := by
  unfold OnLineSide
  simp only
  split_ifs with h
  · constructor
    · intro h'; exact absurd h'.symm hsd
    · rintro ⟨h1, h2⟩; exact absurd (h1.trans h2.symm) h
  · push_neg at h
    constructor
    · intro h'; exact ⟨h', h ▸ h'⟩
    · rintro ⟨h1, _⟩; exact h1

theorem OnLineSide_right_sound (eps : ℚ) (heps : 0 ≤ eps) (t : quadtree_c) (part : seg_t)
    (hpart : part.Exact) (h : t.OnLineSide eps part = Side.right)
    (x y : ℚ) (hx1 : (t.x1 : ℚ) ≤ x) (hx2 : x ≤ t.x2) (hy1 : (t.y1 : ℚ) ≤ y) (hy2 : y ≤ t.y2) :
    IFFY_LEN ≤ part.PerpDist x y := by
  obtain ⟨-, -, hlen, hsq, hperp, -⟩ := hpart
  rw [OnLineSide_eq_iff (by decide)] at h
  obtain ⟨h1, h2⟩ := h
  have hL := abs_sum_ge_len hlen hsq
  unfold seg_t.PerpDist
  rw [le_div_iff₀ hlen]
  unfold OnLineSideCorners at h1 h2
  simp only [IFFY_LEN] at h1 h2 ⊢
  by_cases hdx : part.pdx = 0
  · simp only [hdx, if_true] at h1 h2
    have hdy2 : part.p_length ^ 2 = part.pdy ^ 2 := by rw [hsq, hdx]; ring
    by_cases hneg : part.pdy < 0
    · simp only [hneg, if_true, Side_neg_eq_right] at h1 h2
      have hl : part.p_length = -part.pdy := by nlinarith
      split_ifs at h2 with h3
      rw [hperp, hdx, hl]
      push_neg at h3
      nlinarith
    · simp only [hneg, if_false] at h1 h2
      have hl : part.p_length = part.pdy := by
        push_neg at hneg; nlinarith
      split_ifs at h1 with h3
      rw [hperp, hdx, hl]
      nlinarith
  · simp only [hdx, if_false] at h1 h2
    by_cases hdy : part.pdy = 0
    · simp only [hdy, if_true] at h1 h2
      have hdx2 : part.p_length ^ 2 = part.pdx ^ 2 := by rw [hsq, hdy]; ring
      by_cases hneg : part.pdx < 0
      · simp only [hneg, if_true, Side_neg_eq_right] at h1 h2
        have hl : part.p_length = -part.pdx := by nlinarith
        split_ifs at h1 with h3
        rw [hperp, hdy, hl]
        push_neg at h3
        nlinarith
      · simp only [hneg, if_false] at h1 h2
        have hl : part.p_length = part.pdx := by
          push_neg at hneg; nlinarith
        split_ifs at h2 with h3
        rw [hperp, hdy, hl]
        nlinarith
    · simp only [hdy, if_false] at h1 h2
      by_cases hpos : part.pdx * part.pdy > 0
      · simp only [hpos, if_true] at h1 h2
        have c1 := PointOnLineSide_right h1
        have c2 := PointOnLineSide_right h2
        unfold seg_t.PerpDist at c1 c2
        rw [lt_div_iff₀ hlen] at c1 c2
        have e1 : 0 ≤ eps * part.p_length := mul_nonneg heps hlen.le
        rcases lt_or_gt_of_ne hdx with hx | hx
        · have hy : part.pdy < 0 := by
            rcases lt_or_gt_of_ne hdy with hy | hy
            · exact hy
            · exact absurd hpos (not_lt.mpr (mul_nonpos_of_nonpos_of_nonneg hx.le hy.le))
          rw [abs_of_neg hx, abs_of_neg hy] at hL
          have m1 := mul_nonneg (sub_nonneg.mpr hx2) (neg_nonneg.mpr hy.le)
          have m2 := mul_nonneg (sub_nonneg.mpr hy1) (neg_nonneg.mpr hx.le)
          linarith
        · have hy : 0 < part.pdy := by
            rcases lt_or_gt_of_ne hdy with hy | hy
            · exact absurd hpos (not_lt.mpr (mul_nonpos_of_nonneg_of_nonpos hx.le hy.le))
            · exact hy
          rw [abs_of_pos hx, abs_of_pos hy] at hL
          have m1 := mul_nonneg (sub_nonneg.mpr hx1) hy.le
          have m2 := mul_nonneg (sub_nonneg.mpr hy2) hx.le
          linarith
      · simp only [hpos, if_false] at h1 h2
        have c1 := PointOnLineSide_right h1
        have c2 := PointOnLineSide_right h2
        unfold seg_t.PerpDist at c1 c2
        rw [lt_div_iff₀ hlen] at c1 c2
        have e1 : 0 ≤ eps * part.p_length := mul_nonneg heps hlen.le
        rcases lt_or_gt_of_ne hdx with hx | hx
        · have hy : 0 < part.pdy := by
            rcases lt_or_gt_of_ne hdy with hy | hy
            · exact absurd (mul_pos_of_neg_of_neg hx hy) hpos
            · exact hy
          rw [abs_of_neg hx, abs_of_pos hy] at hL
          have m1 := mul_nonneg (sub_nonneg.mpr hx1) hy.le
          have m2 := mul_nonneg (sub_nonneg.mpr hy1) (neg_nonneg.mpr hx.le)
          linarith
        · have hy : part.pdy < 0 := by
            rcases lt_or_gt_of_ne hdy with hy | hy
            · exact hy
            · exact absurd (mul_pos hx hy) hpos
          rw [abs_of_pos hx, abs_of_neg hy] at hL
          have m1 := mul_nonneg (sub_nonneg.mpr hx2) (neg_nonneg.mpr hy.le)
          have m2 := mul_nonneg (sub_nonneg.mpr hy2) hx.le
          linarith

theorem OnLineSide_left_sound (eps : ℚ) (heps : 0 ≤ eps) (t : quadtree_c) (part : seg_t)
    (hpart : part.Exact) (h : t.OnLineSide eps part = Side.left)
    (x y : ℚ) (hx1 : (t.x1 : ℚ) ≤ x) (hx2 : x ≤ t.x2) (hy1 : (t.y1 : ℚ) ≤ y) (hy2 : y ≤ t.y2) :
    part.PerpDist x y ≤ -IFFY_LEN := by
  obtain ⟨-, -, hlen, hsq, hperp, -⟩ := hpart
  rw [OnLineSide_eq_iff (by decide)] at h
  obtain ⟨h1, h2⟩ := h
  have hL := abs_sum_ge_len hlen hsq
  unfold seg_t.PerpDist
  rw [div_le_iff₀ hlen]
  unfold OnLineSideCorners at h1 h2
  simp only [IFFY_LEN] at h1 h2 ⊢
  by_cases hdx : part.pdx = 0
  · simp only [hdx, if_true] at h1 h2
    have hdy2 : part.p_length ^ 2 = part.pdy ^ 2 := by rw [hsq, hdx]; ring
    by_cases hneg : part.pdy < 0
    · simp only [hneg, if_true, Side_neg_eq_left] at h1 h2
      have hl : part.p_length = -part.pdy := by nlinarith
      split_ifs at h1 with h3
      rw [hperp, hdx, hl]
      nlinarith
    · simp only [hneg, if_false] at h1 h2
      have hl : part.p_length = part.pdy := by
        push_neg at hneg; nlinarith
      split_ifs at h2 with h3
      rw [hperp, hdx, hl]
      push_neg at h3
      nlinarith
  · simp only [hdx, if_false] at h1 h2
    by_cases hdy : part.pdy = 0
    · simp only [hdy, if_true] at h1 h2
      have hdx2 : part.p_length ^ 2 = part.pdx ^ 2 := by rw [hsq, hdy]; ring
      by_cases hneg : part.pdx < 0
      · simp only [hneg, if_true, Side_neg_eq_left] at h1 h2
        have hl : part.p_length = -part.pdx := by nlinarith
        split_ifs at h2 with h3
        rw [hperp, hdy, hl]
        nlinarith
      · simp only [hneg, if_false] at h1 h2
        have hl : part.p_length = part.pdx := by
          push_neg at hneg; nlinarith
        split_ifs at h1 with h3
        rw [hperp, hdy, hl]
        push_neg at h3
        nlinarith
    · simp only [hdy, if_false] at h1 h2
      by_cases hpos : part.pdx * part.pdy > 0
      · simp only [hpos, if_true] at h1 h2
        have c1 := PointOnLineSide_left h1
        have c2 := PointOnLineSide_left h2
        unfold seg_t.PerpDist at c1 c2
        rw [div_lt_iff₀ hlen] at c1 c2
        have e1 : 0 ≤ eps * part.p_length := mul_nonneg heps hlen.le
        rcases lt_or_gt_of_ne hdx with hx | hx
        · have hy : part.pdy < 0 := by
            rcases lt_or_gt_of_ne hdy with hy | hy
            · exact hy
            · exact absurd hpos (not_lt.mpr (mul_nonpos_of_nonpos_of_nonneg hx.le hy.le))
          rw [abs_of_neg hx, abs_of_neg hy] at hL
          have m1 := mul_nonneg (sub_nonneg.mpr hx1) (neg_nonneg.mpr hy.le)
          have m2 := mul_nonneg (sub_nonneg.mpr hy2) (neg_nonneg.mpr hx.le)
          linarith
        · have hy : 0 < part.pdy := by
            rcases lt_or_gt_of_ne hdy with hy | hy
            · exact absurd hpos (not_lt.mpr (mul_nonpos_of_nonneg_of_nonpos hx.le hy.le))
            · exact hy
          rw [abs_of_pos hx, abs_of_pos hy] at hL
          have m1 := mul_nonneg (sub_nonneg.mpr hx2) hy.le
          have m2 := mul_nonneg (sub_nonneg.mpr hy1) hx.le
          linarith
      · simp only [hpos, if_false] at h1 h2
        have c1 := PointOnLineSide_left h1
        have c2 := PointOnLineSide_left h2
        unfold seg_t.PerpDist at c1 c2
        rw [div_lt_iff₀ hlen] at c1 c2
        have e1 : 0 ≤ eps * part.p_length := mul_nonneg heps hlen.le
        rcases lt_or_gt_of_ne hdx with hx | hx
        · have hy : 0 < part.pdy := by
            rcases lt_or_gt_of_ne hdy with hy | hy
            · exact absurd (mul_pos_of_neg_of_neg hx hy) hpos
            · exact hy
          rw [abs_of_neg hx, abs_of_pos hy] at hL
          have m1 := mul_nonneg (sub_nonneg.mpr hx2) hy.le
          have m2 := mul_nonneg (sub_nonneg.mpr hy2) (neg_nonneg.mpr hx.le)
          linarith
        · have hy : part.pdy < 0 := by
            rcases lt_or_gt_of_ne hdy with hy | hy
            · exact hy
            · exact absurd (mul_pos hx hy) hpos
          rw [abs_of_pos hx, abs_of_neg hy] at hL
          have m1 := mul_nonneg (sub_nonneg.mpr hx1) (neg_nonneg.mpr hy.le)
          have m2 := mul_nonneg (sub_nonneg.mpr hy1) hx.le
          linarith

theorem OnLineSide_cases (eps : ℚ) (t : quadtree_c) (part : seg_t) :
    t.OnLineSide eps part = Side.right ∨ t.OnLineSide eps part = Side.left ∨
      t.OnLineSide eps part = Side.neither := by
  cases h : t.OnLineSide eps part <;> simp

theorem RecomputeSeg_eq_some {hypot : ℚ → ℚ → ℚ} {L L' : Level} {seg : Nat}
    (h : RecomputeSeg hypot L seg = some L') :
    L' = L.setSeg seg (RecomputeFields hypot L (L.lev_segs seg)) ∧
    0 < (RecomputeFields hypot L (L.lev_segs seg)).p_length := by
  unfold RecomputeSeg at h
  simp only at h
  split_ifs at h with h1
  simp only [Option.some.injEq] at h
  exact ⟨h.symm, not_le.mp h1⟩

theorem RecomputeSeg_of_pos {hypot : ℚ → ℚ → ℚ} {L : Level} {seg : Nat}
    (h : 0 < (RecomputeFields hypot L (L.lev_segs seg)).p_length) :
    RecomputeSeg hypot L seg = some (L.setSeg seg (RecomputeFields hypot L (L.lev_segs seg))) := by
  unfold RecomputeSeg
  simp only
  rw [if_neg (not_le.mpr h)]

@[simp] theorem setSeg_lev_segs (L : Level) (i : Nat) (s : seg_t) :
    (L.setSeg i s).lev_segs = Function.update L.lev_segs i s := rfl
@[simp] theorem setSeg_lev_vertices (L : Level) (i : Nat) (s : seg_t) :
    (L.setSeg i s).lev_vertices = L.lev_vertices := rfl
@[simp] theorem setSeg_num_segs (L : Level) (i : Nat) (s : seg_t) :
    (L.setSeg i s).num_segs = L.num_segs := rfl
@[simp] theorem setSeg_num_vertices (L : Level) (i : Nat) (s : seg_t) :
    (L.setSeg i s).num_vertices = L.num_vertices := rfl
@[simp] theorem RecomputeFields_next (hypot : ℚ → ℚ → ℚ) (L : Level) (s : seg_t) :
    (RecomputeFields hypot L s).next = s.next := rfl
@[simp] theorem RecomputeFields_start (hypot : ℚ → ℚ → ℚ) (L : Level) (s : seg_t) :
    (RecomputeFields hypot L s).start = s.start := rfl
@[simp] theorem RecomputeFields_end (hypot : ℚ → ℚ → ℚ) (L : Level) (s : seg_t) :
    (RecomputeFields hypot L s).end_ = s.end_ := rfl
@[simp] theorem RecomputeFields_linedef (hypot : ℚ → ℚ → ℚ) (L : Level) (s : seg_t) :
    (RecomputeFields hypot L s).linedef = s.linedef := rfl
@[simp] theorem RecomputeFields_side (hypot : ℚ → ℚ → ℚ) (L : Level) (s : seg_t) :
    (RecomputeFields hypot L s).side = s.side := rfl
@[simp] theorem RecomputeFields_partner (hypot : ℚ → ℚ → ℚ) (L : Level) (s : seg_t) :
    (RecomputeFields hypot L s).partner = s.partner := rfl
@[simp] theorem RecomputeFields_source_line (hypot : ℚ → ℚ → ℚ) (L : Level) (s : seg_t) :
    (RecomputeFields hypot L s).source_line = s.source_line := rfl
@[simp] theorem RecomputeFields_index (hypot : ℚ → ℚ → ℚ) (L : Level) (s : seg_t) :
    (RecomputeFields hypot L s).index = s.index := rfl
@[simp] theorem RecomputeFields_quad (hypot : ℚ → ℚ → ℚ) (L : Level) (s : seg_t) :
    (RecomputeFields hypot L s).quad = s.quad := rfl

@[simp] theorem NewSeg_fst_lev_segs (L : Level) :
    (NewSeg L).1.lev_segs = Function.update L.lev_segs L.num_segs seg_t.zero := rfl
@[simp] theorem NewSeg_fst_num_segs (L : Level) : (NewSeg L).1.num_segs = L.num_segs + 1 := rfl
@[simp] theorem NewSeg_fst_lev_vertices (L : Level) :
    (NewSeg L).1.lev_vertices = L.lev_vertices := rfl
@[simp] theorem NewSeg_fst_num_vertices (L : Level) :
    (NewSeg L).1.num_vertices = L.num_vertices := rfl
@[simp] theorem NewSeg_snd (L : Level) : (NewSeg L).2 = L.num_segs := rfl
@[simp] theorem NewVertexFromSplitSeg_snd (L : Level) (s : Nat) (x y : ℚ) :
    (NewVertexFromSplitSeg L s x y).2 = L.num_vertices := rfl
@[simp] theorem NewVertexFromSplitSeg_lev_segs (L : Level) (s : Nat) (x y : ℚ) :
    (NewVertexFromSplitSeg L s x y).1.lev_segs = L.lev_segs := rfl
@[simp] theorem NewVertexFromSplitSeg_num_segs (L : Level) (s : Nat) (x y : ℚ) :
    (NewVertexFromSplitSeg L s x y).1.num_segs = L.num_segs := rfl
@[simp] theorem NewVertexFromSplitSeg_num_vertices (L : Level) (s : Nat) (x y : ℚ) :
    (NewVertexFromSplitSeg L s x y).1.num_vertices = L.num_vertices + 1 := rfl
theorem NewVertexFromSplitSeg_vertex_new (L : Level) (s : Nat) (x y : ℚ) :
    ((NewVertexFromSplitSeg L s x y).1.lev_vertices L.num_vertices).x = x ∧
    ((NewVertexFromSplitSeg L s x y).1.lev_vertices L.num_vertices).y = y ∧
    ((NewVertexFromSplitSeg L s x y).1.lev_vertices L.num_vertices).is_new = true := by
  simp [NewVertexFromSplitSeg, NewVertex]
theorem NewVertexFromSplitSeg_vertex_old (L : Level) (s : Nat) (x y : ℚ) (v : Nat)
    (hv : v ≠ L.num_vertices) :
    (NewVertexFromSplitSeg L s x y).1.lev_vertices v = L.lev_vertices v := by
  simp [NewVertexFromSplitSeg, NewVertex, Function.update_noteq hv]

theorem setSeg_apply (L : Level) (i j : Nat) (s : seg_t) :
    (L.setSeg i s).lev_segs j = if j = i then s else L.lev_segs j := by
  simp [Level.setSeg, Function.update_apply]

theorem modSeg_apply (L : Level) (i j : Nat) (f : seg_t → seg_t) :
    (L.modSeg i f).lev_segs j = if j = i then f (L.lev_segs i) else L.lev_segs j := by
  simp [Level.modSeg, Level.setSeg, Function.update_apply]

@[simp] theorem modSeg_lev_vertices (L : Level) (i : Nat) (f : seg_t → seg_t) :
    (L.modSeg i f).lev_vertices = L.lev_vertices := rfl
@[simp] theorem modSeg_num_segs (L : Level) (i : Nat) (f : seg_t → seg_t) :
    (L.modSeg i f).num_segs = L.num_segs := rfl
@[simp] theorem modSeg_num_vertices (L : Level) (i : Nat) (f : seg_t → seg_t) :
    (L.modSeg i f).num_vertices = L.num_vertices := rfl

theorem RecomputeSeg_apply {hypot : ℚ → ℚ → ℚ} {L L' : Level} {seg : Nat}
    (h : RecomputeSeg hypot L seg = some L') (j : Nat) :
    L'.lev_segs j = if j = seg then RecomputeFields hypot L (L.lev_segs seg) else L.lev_segs j := by
  rw [(RecomputeSeg_eq_some h).1, setSeg_apply]

theorem RecomputeSeg_frame {hypot : ℚ → ℚ → ℚ} {L L' : Level} {seg : Nat}
    (h : RecomputeSeg hypot L seg = some L') :
    L'.lev_vertices = L.lev_vertices ∧ L'.num_vertices = L.num_vertices ∧
    L'.num_segs = L.num_segs := by
  rw [(RecomputeSeg_eq_some h).1]
  exact ⟨rfl, rfl, rfl⟩

theorem RecomputeFields_congr (hypot : ℚ → ℚ → ℚ) {L L' : Level}
    (h : L'.lev_vertices = L.lev_vertices) (s : seg_t) :
    RecomputeFields hypot L' s = RecomputeFields hypot L s := by
  simp [RecomputeFields, h]

theorem SplitSegPartner_post {hypot : ℚ → ℚ → ℚ} {L L' : Level} {S T B V : Nat}
    (hS : S < L.num_segs) (hT : T < L.num_segs) (hB : B < L.num_segs) (hST : S ≠ T)
    (hBT : B ≠ T)
    (hp : (L.lev_segs S).partner = some B)
    (h : SplitSegPartner hypot L S T V = some L') :
    L'.num_segs = L.num_segs + 1 ∧
    L'.lev_vertices = L.lev_vertices ∧
    L'.num_vertices = L.num_vertices ∧
    (∀ i, i ≠ T → i ≠ B → i ≠ L.num_segs → L'.lev_segs i = L.lev_segs i) ∧
    L'.lev_segs T = { L.lev_segs T with partner := some L.num_segs } ∧
    L'.lev_segs B = RecomputeFields hypot L
      { L.lev_segs B with start := V, next := some L.num_segs } ∧
    L'.lev_segs L.num_segs = RecomputeFields hypot L
      { L.lev_segs B with partner := some T, end_ := V } := by
  have hSn : S ≠ L.num_segs := Nat.ne_of_lt hS
  have hTn : T ≠ L.num_segs := Nat.ne_of_lt hT
  have hBn : B ≠ L.num_segs := Nat.ne_of_lt hB
  unfold SplitSegPartner at h
  lift_lets at h
  extract_lets r L1 np1 op1 L2 np2 L3 op3 L4 op4 at h
  have hr2 : r.2 = L.num_segs := rfl
  have hr1 : ∀ j, r.1.lev_segs j = if j = L.num_segs then seg_t.zero else L.lev_segs j := by
    intro j; simp [r, Function.update_apply]
  have h1 : ∀ j, L1.lev_segs j =
      if j = T then { L.lev_segs T with partner := some L.num_segs }
      else if j = L.num_segs then seg_t.zero else L.lev_segs j := by
    intro j
    simp only [L1, modSeg_apply, hr1, hr2, if_neg hTn]
  have hnp1 : np1 = L.num_segs := by simp [np1, h1]
  have hop1 : op1 = B := by simp [op1, h1, hST, hSn, hp]
  have h2 : ∀ j, L2.lev_segs j =
      if j = L.num_segs then L.lev_segs B
      else if j = T then { L.lev_segs T with partner := some L.num_segs }
      else L.lev_segs j := by
    intro j
    simp only [L2, setSeg_apply, h1, hnp1, hop1, if_neg hBT, if_neg hBn]
    split_ifs <;> rfl
  have hnp2 : np2 = L.num_segs := by simp [np2, h2, hTn]
  have h3 : ∀ j, L3.lev_segs j =
      if j = L.num_segs then { L.lev_segs B with partner := some T }
      else if j = T then { L.lev_segs T with partner := some L.num_segs }
      else L.lev_segs j := by
    intro j
    simp only [L3, modSeg_apply, h2, hnp2, if_true]
    split_ifs <;> rfl
  have hop3 : op3 = B := by simp [op3, h3, hST, hSn, hp]
  have h4 : ∀ j, L4.lev_segs j =
      if j = B then { L.lev_segs B with start := V }
      else if j = L.num_segs then { L.lev_segs B with partner := some T }
      else if j = T then { L.lev_segs T with partner := some L.num_segs }
      else L.lev_segs j := by
    intro j
    simp only [L4, modSeg_apply, h3, hop3, if_neg hBn, if_neg hBT]
  have hop4 : op4 = B := by
    rcases eq_or_ne S B with e | e
    · subst e; simp [op4, h4, hp]
    · simp [op4, h4, hST, hSn, e, hp]
  have hv4 : L4.lev_vertices = L.lev_vertices := rfl
  have hn4 : L4.num_segs = L.num_segs + 1 := rfl
  have hnv4 : L4.num_vertices = L.num_vertices := rfl
  rw [Option.bind_eq_some] at h
  obtain ⟨L5, e5, h⟩ := h
  lift_lets at h
  extract_lets np5 L6 np6 at h
  rw [Option.bind_eq_some] at h
  obtain ⟨L7, e7, h⟩ := h
  lift_lets at h
  extract_lets op7 np7 at h
  rw [hop4] at e5
  have h5 : ∀ j, L5.lev_segs j =
      if j = B then RecomputeFields hypot L { L.lev_segs B with start := V }
      else if j = L.num_segs then { L.lev_segs B with partner := some T }
      else if j = T then { L.lev_segs T with partner := some L.num_segs }
      else L.lev_segs j := by
    intro j
    rw [RecomputeSeg_apply e5, h4, h4, if_pos rfl, RecomputeFields_congr hypot hv4]
    split_ifs <;> rfl
  obtain ⟨hv5, hnv5, hn5⟩ := RecomputeSeg_frame e5
  have hnp5 : np5 = L.num_segs := by simp [np5, h5, hBT.symm, hTn]
  have h6 : ∀ j, L6.lev_segs j =
      if j = L.num_segs then { L.lev_segs B with partner := some T, end_ := V }
      else if j = B then RecomputeFields hypot L { L.lev_segs B with start := V }
      else if j = T then { L.lev_segs T with partner := some L.num_segs }
      else L.lev_segs j := by
    intro j
    simp only [L6, modSeg_apply, h5, hnp5, if_neg hBn.symm, if_true]
    split_ifs <;> rfl
  have hv6 : L6.lev_vertices = L.lev_vertices := by simp [L6, hv5, hv4]
  have hnp6 : np6 = L.num_segs := by simp [np6, h6, hBT.symm, hTn]
  rw [hnp6] at e7
  have h7 : ∀ j, L7.lev_segs j =
      if j = L.num_segs then
        RecomputeFields hypot L { L.lev_segs B with partner := some T, end_ := V }
      else if j = B then RecomputeFields hypot L { L.lev_segs B with start := V }
      else if j = T then { L.lev_segs T with partner := some L.num_segs }
      else L.lev_segs j := by
    intro j
    rw [RecomputeSeg_apply e7, h6, h6, if_pos rfl, RecomputeFields_congr hypot hv6]
    split_ifs <;> rfl
  obtain ⟨hv7, hnv7, hn7⟩ := RecomputeSeg_frame e7
  have hop7 : op7 = B := by
    rcases eq_or_ne S B with e | e
    · subst e; simp [op7, h7, hSn, hp, RecomputeFields]
    · simp [op7, h7, hST, hSn, e, hp]
  have hnp7 : np7 = some L.num_segs := by simp [np7, h7, hBT.symm, hTn]
  simp only [Option.some.injEq] at h
  subst h
  refine ⟨?_, ?_, ?_, ?_, ?_, ?_, ?_⟩
  · simp only [modSeg_num_segs, hn7]; simp [L6, hn5, hn4]
  · simp only [modSeg_lev_vertices, hv7, hv6]
  · simp only [modSeg_num_vertices, hnv7]; simp [L6, hnv5, hnv4]
  · intro i i1 i2 i3
    simp only [modSeg_apply, hop7, h7, if_neg i1, if_neg i2, if_neg i3]
  · simp only [modSeg_apply, hop7, h7, if_neg hBT.symm, if_neg hTn, if_true]
  · simp only [modSeg_apply, hop7, hnp7, h7, if_true, if_neg hBn, if_neg hTn, RecomputeFields]
  · simp only [modSeg_apply, hop7, h7, if_true, if_neg hBn.symm]

/-- The state of `SplitSeg` just before the partners are handled. -/
theorem SplitSeg_first_half {hypot : ℚ → ℚ → ℚ} {L L' : Level} {S T : Nat} {x y : ℚ}
    (hS : S < L.num_segs) (h : SplitSeg hypot L S x y = some (L', T)) :
    T = L.num_segs ∧
    ∃ L6 : Level,
      L6.num_segs = L.num_segs + 1 ∧
      L6.lev_vertices = (NewVertexFromSplitSeg L S x y).1.lev_vertices ∧
      L6.num_vertices = L.num_vertices + 1 ∧
      (∀ i, i ≠ S → i ≠ L.num_segs → L6.lev_segs i = L.lev_segs i) ∧
      L6.lev_segs S = RecomputeFields hypot L6 { L.lev_segs S with end_ := L.num_vertices } ∧
      L6.lev_segs L.num_segs = RecomputeFields hypot L6
        { L.lev_segs S with next := none, start := L.num_vertices } ∧
      (match (L.lev_segs S).partner with
       | none => L' = L6
       | some _ => SplitSegPartner hypot L6 S L.num_segs L.num_vertices = some L') := by
  have hne : S ≠ L.num_segs := Nat.ne_of_lt hS
  unfold SplitSeg at h
  lift_lets at h
  extract_lets r1 new_vert r2 new_seg L1 L2 L3 at h
  have hnv : new_vert = L.num_vertices := rfl
  have hns : new_seg = L.num_segs := rfl
  have hr2 : ∀ j, r2.1.lev_segs j = if j = L.num_segs then seg_t.zero else L.lev_segs j := by
    intro j; simp [r2, r1, Function.update_apply]
  have h3 : ∀ j, L3.lev_segs j =
      if j = S then { L.lev_segs S with end_ := L.num_vertices }
      else if j = L.num_segs then { L.lev_segs S with next := none }
      else L.lev_segs j := by
    intro j
    simp only [L3, L2, L1, modSeg_apply, setSeg_apply, hr2, hns, hnv, if_neg hne, if_true]
    split_ifs <;> rfl
  have hv3 : L3.lev_vertices = r1.1.lev_vertices := rfl
  rw [Option.bind_eq_some] at h
  obtain ⟨L4, e4, h⟩ := h
  lift_lets at h
  extract_lets L5 at h
  rw [Option.bind_eq_some] at h
  obtain ⟨L6, e6, h⟩ := h
  obtain ⟨hv4, hnv4, hn4⟩ := RecomputeSeg_frame e4
  have h5 : ∀ j, L5.lev_segs j =
      if j = L.num_segs then { L.lev_segs S with next := none, start := L.num_vertices }
      else if j = S then RecomputeFields hypot L3 { L.lev_segs S with end_ := L.num_vertices }
      else L.lev_segs j := by
    intro j
    simp only [L5, modSeg_apply, RecomputeSeg_apply e4, h3, hns, hnv, if_neg hne.symm, if_true]
    split_ifs <;> rfl
  have hv5 : L5.lev_vertices = r1.1.lev_vertices := by simp [L5, hv4, hv3]
  obtain ⟨hv6, hnv6, hn6⟩ := RecomputeSeg_frame e6
  have hv6' : L6.lev_vertices = r1.1.lev_vertices := by rw [hv6, hv5]
  have h6 : ∀ j, L6.lev_segs j =
      if j = L.num_segs then
        RecomputeFields hypot L6 { L.lev_segs S with next := none, start := L.num_vertices }
      else if j = S then RecomputeFields hypot L6 { L.lev_segs S with end_ := L.num_vertices }
      else L.lev_segs j := by
    intro j
    rw [RecomputeSeg_apply e6, h5, h5, hns, if_pos rfl]
    split_ifs
    · exact RecomputeFields_congr hypot (hv5.trans hv6'.symm) _
    · exact RecomputeFields_congr hypot (hv3.trans hv6'.symm) _
    · rfl
  have hp6 : (L6.lev_segs S).partner = (L.lev_segs S).partner := by
    rw [h6, if_neg hne, if_pos rfl]; rfl
  rw [hp6] at h
  refine ⟨?_, L6, ?_, hv6', ?_, ?_, ?_, ?_, ?_⟩
  · cases hp : (L.lev_segs S).partner with
    | none => rw [hp] at h; simp only [Option.some.injEq, Prod.mk.injEq] at h; rw [← h.2, hns]
    | some B =>
      rw [hp] at h; simp only [Option.map_eq_some', Prod.mk.injEq] at h
      obtain ⟨a, -, -, h2⟩ := h
      rw [← h2, hns]
  · rw [hn6]; simp [L5, hn4, L3, L2, L1, r2, r1]
  · rw [hnv6]; simp [L5, hnv4, L3, L2, L1, r2, r1]
  · intro i i1 i2
    rw [h6, if_neg i2, if_neg i1]
  · rw [h6, if_neg hne, if_pos rfl]
  · rw [h6, if_pos rfl]
  · cases hp : (L.lev_segs S).partner with
    | none => rw [hp] at h; simp only [Option.some.injEq, Prod.mk.injEq] at h; exact h.1.symm
    | some B =>
      rw [hp] at h; simp only [Option.map_eq_some', Prod.mk.injEq] at h
      obtain ⟨a, h1, h2, -⟩ := h
      rw [← h2]; exact h1

theorem PartnerSym_def {L : Level} (h : L.PartnerSym) {s p : Nat} (hs : s < L.num_segs)
    (hp : (L.lev_segs s).partner = some p) :
    (L.lev_segs p).partner = some s ∧ (L.lev_segs s).linedef = (L.lev_segs p).linedef ∧
    (L.lev_segs s).start = (L.lev_segs p).end_ ∧ (L.lev_segs s).end_ = (L.lev_segs p).start :=
  h s hs p hp

theorem PartnersExist_def {L : Level} (h : L.PartnersExist) {s p : Nat} (hs : s < L.num_segs)
    (hp : (L.lev_segs s).partner = some p) : p < L.num_segs :=
  h s hs p hp

/-- `SplitSeg` of a seg without partner keeps partner symmetry. -/
theorem SplitSeg_sym_nopartner {hypot : ℚ → ℚ → ℚ} {L L' : Level} {S T : Nat} {x y : ℚ}
    (hv : L.PartnersExist) (hsym : L.PartnerSym) (hS : S < L.num_segs)
    (hp : (L.lev_segs S).partner = none)
    (h : SplitSeg hypot L S x y = some (L', T)) :
    L'.PartnersExist ∧ L'.PartnerSym := by
  obtain ⟨-, L6, hn6, -, -, ho6, hS6, hT6, hm⟩ := SplitSeg_first_half hS h
  rw [hp] at hm
  simp only at hm
  subst hm
  have hne : S ≠ L.num_segs := Nat.ne_of_lt hS
  have key : ∀ s, s < L'.num_segs → ∀ p, (L'.lev_segs s).partner = some p →
      s < L.num_segs ∧ p < L.num_segs ∧ s ≠ S ∧ p ≠ S ∧ (L.lev_segs s).partner = some p := by
    intro s hs p hps
    rw [hn6] at hs
    by_cases e1 : s = S
    · subst e1; rw [hS6] at hps; simp [hp] at hps
    by_cases e2 : s = L.num_segs
    · subst e2; rw [hT6] at hps; simp [hp] at hps
    rw [ho6 s e1 e2] at hps
    have hs' : s < L.num_segs := by omega
    have hp' := PartnersExist_def hv hs' hps
    refine ⟨hs', hp', e1, ?_, hps⟩
    intro e3
    subst e3
    have := (PartnerSym_def hsym hs' hps).1
    rw [hp] at this
    exact Option.noConfusion this
  constructor
  · intro s hs p hps
    obtain ⟨-, h2, -⟩ := key s hs p hps
    rw [hn6]; omega
  · intro s hs p hps
    obtain ⟨h1, h2, h3, h4, h5⟩ := key s hs p hps
    rw [ho6 s h3 (Nat.ne_of_lt h1), ho6 p h4 (Nat.ne_of_lt h2)]
    exact PartnerSym_def hsym h1 h5

/-- The four fields that partner symmetry looks at. -/
theorem RecomputeFields_ptrs (hypot : ℚ → ℚ → ℚ) (L : Level) (s : seg_t) :
    (RecomputeFields hypot L s).partner = s.partner ∧
    (RecomputeFields hypot L s).linedef = s.linedef ∧
    (RecomputeFields hypot L s).start = s.start ∧
    (RecomputeFields hypot L s).end_ = s.end_ := ⟨rfl, rfl, rfl, rfl⟩

/-- `SplitSeg` of a seg with a partner keeps partner symmetry. -/
theorem SplitSeg_sym_partner {hypot : ℚ → ℚ → ℚ} {L L' : Level} {S T B : Nat} {x y : ℚ}
    (hv : L.PartnersExist) (hsym : L.PartnerSym) (hS : S < L.num_segs)
    (hp : (L.lev_segs S).partner = some B)
    (h : SplitSeg hypot L S x y = some (L', T)) :
    L'.PartnersExist ∧ L'.PartnerSym := by
  obtain ⟨-, L6, hn6, -, -, ho6, hS6, hT6, hm⟩ := SplitSeg_first_half hS h
  rw [hp] at hm
  simp only at hm
  have hB : B < L.num_segs := PartnersExist_def hv hS hp
  have hSn : S ≠ L.num_segs := Nat.ne_of_lt hS
  have hSn' : S ≠ L.num_segs + 1 := by omega
  have hBn : B ≠ L.num_segs := Nat.ne_of_lt hB
  have hBn' : B ≠ L.num_segs + 1 := by omega
  have hp6 : (L6.lev_segs S).partner = some B := by rw [hS6]; exact hp
  obtain ⟨hn', -, -, ho', hT', hB', hN'⟩ :=
    SplitSegPartner_post (by omega) (by omega) (by omega) hSn hBn hp6 hm
  rw [hn6] at hn' ho' hT' hN'
  obtain ⟨sBS, sLD, sST, sEN⟩ := PartnerSym_def hsym hS hp
  -- pointer fields of the four segs involved
  have fT : (L'.lev_segs L.num_segs).partner = some (L.num_segs + 1) ∧
      (L'.lev_segs L.num_segs).linedef = (L.lev_segs S).linedef ∧
      (L'.lev_segs L.num_segs).start = L.num_vertices ∧
      (L'.lev_segs L.num_segs).end_ = (L.lev_segs S).end_ := by
    rw [hT', hT6]; exact ⟨rfl, rfl, rfl, rfl⟩
  have f6B : (L6.lev_segs B).partner = some S ∧
      (L6.lev_segs B).linedef = (L.lev_segs S).linedef ∧
      (L6.lev_segs B).start = (L.lev_segs S).end_ ∧
      ((L6.lev_segs B).end_ = (L.lev_segs S).start ∨ B = S) := by
    rcases eq_or_ne B S with e | e
    · subst e
      rw [hS6]
      refine ⟨sBS, rfl, ?_, Or.inr rfl⟩
      show (L.lev_segs B).start = (L.lev_segs B).end_
      exact sST
    · rw [ho6 B e hBn]
      exact ⟨sBS, sLD.symm, sEN.symm, Or.inl sST.symm⟩
  have fB : (L'.lev_segs B).partner = some S ∧
      (L'.lev_segs B).linedef = (L.lev_segs S).linedef ∧
      (L'.lev_segs B).start = L.num_vertices ∧
      (L'.lev_segs B).end_ = (L6.lev_segs B).end_ := by
    rw [hB']; exact ⟨f6B.1, f6B.2.1, rfl, rfl⟩
  have fN : (L'.lev_segs (L.num_segs + 1)).partner = some L.num_segs ∧
      (L'.lev_segs (L.num_segs + 1)).linedef = (L.lev_segs S).linedef ∧
      (L'.lev_segs (L.num_segs + 1)).start = (L.lev_segs S).end_ ∧
      (L'.lev_segs (L.num_segs + 1)).end_ = L.num_vertices := by
    rw [hN']; exact ⟨rfl, f6B.2.1, f6B.2.2.1, rfl⟩
  have fS : B ≠ S → (L'.lev_segs S).partner = some B ∧
      (L'.lev_segs S).linedef = (L.lev_segs S).linedef ∧
      (L'.lev_segs S).start = (L.lev_segs S).start ∧
      (L'.lev_segs S).end_ = L.num_vertices := by
    intro e
    rw [ho' S hSn e.symm hSn', hS6]; exact ⟨hp, rfl, rfl, rfl⟩
  have fO : ∀ i, i ≠ S → i ≠ B → i ≠ L.num_segs → i ≠ L.num_segs + 1 →
      L'.lev_segs i = L.lev_segs i := by
    intro i i1 i2 i3 i4
    rw [ho' i i3 i2 i4, ho6 i i1 i3]
  -- an old seg other than S and B has its partner among those
  have key : ∀ s, s < L'.num_segs → s ≠ S → s ≠ B → s ≠ L.num_segs → s ≠ L.num_segs + 1 →
      ∀ p, (L'.lev_segs s).partner = some p →
      s < L.num_segs ∧ p < L.num_segs ∧ p ≠ S ∧ p ≠ B ∧ (L.lev_segs s).partner = some p := by
    intro s hs s1 s2 s3 s4 p hps
    rw [fO s s1 s2 s3 s4] at hps
    have hs' : s < L.num_segs := by omega
    have hp' := PartnersExist_def hv hs' hps
    have hps' := (PartnerSym_def hsym hs' hps).1
    refine ⟨hs', hp', ?_, ?_, hps⟩
    · intro e; subst e; rw [hp] at hps'; simp only [Option.some.injEq] at hps'; exact s2 hps'.symm
    · intro e; subst e; rw [sBS] at hps'; simp only [Option.some.injEq] at hps'; exact s1 hps'.symm
  constructor
  · intro s hs p hps
    simp only [Option.mem_def] at hps
    rw [hn']
    by_cases s3 : s = L.num_segs
    · rw [s3, fT.1] at hps; simp only [Option.some.injEq] at hps; omega
    by_cases s4 : s = L.num_segs + 1
    · rw [s4, fN.1] at hps; simp only [Option.some.injEq] at hps; omega
    by_cases s2 : s = B
    · rw [s2, fB.1] at hps; simp only [Option.some.injEq] at hps; omega
    by_cases s1 : s = S
    · rw [s1, (fS (fun q => s2 (s1.trans q.symm))).1] at hps
      simp only [Option.some.injEq] at hps; omega
    obtain ⟨-, h2, -⟩ := key s hs s1 s2 s3 s4 p hps
    omega
  · intro s hs p hps
    simp only [Option.mem_def] at hps
    by_cases s3 : s = L.num_segs
    · rw [s3] at hps ⊢
      rw [fT.1] at hps; simp only [Option.some.injEq] at hps; rw [← hps]
      exact ⟨fN.1, fT.2.1.trans fN.2.1.symm, fT.2.2.1.trans fN.2.2.2.symm,
        fT.2.2.2.trans fN.2.2.1.symm⟩
    by_cases s4 : s = L.num_segs + 1
    · rw [s4] at hps ⊢
      rw [fN.1] at hps; simp only [Option.some.injEq] at hps; rw [← hps]
      exact ⟨fT.1, fN.2.1.trans fT.2.1.symm, fN.2.2.1.trans fT.2.2.2.symm,
        fN.2.2.2.trans fT.2.2.1.symm⟩
    by_cases s2 : s = B
    · rw [s2] at hps ⊢
      rw [fB.1] at hps; simp only [Option.some.injEq] at hps; rw [← hps]
      rcases eq_or_ne B S with e | e
      · rw [← e]
        refine ⟨e ▸ fB.1, rfl, ?_, ?_⟩
        · rw [fB.2.2.1, fB.2.2.2, e, hS6]; rfl
        · rw [fB.2.2.1, fB.2.2.2, e, hS6]; rfl
      · obtain ⟨g1, g2, g3, g4⟩ := fS e
        refine ⟨g1, fB.2.1.trans g2.symm, fB.2.2.1.trans g4.symm, ?_⟩
        rw [fB.2.2.2, g3]
        rcases f6B.2.2.2 with q | q
        · exact q
        · exact absurd q e
    by_cases s1 : s = S
    · rw [s1] at hps ⊢
      have e : B ≠ S := fun q => s2 (s1.trans q.symm)
      obtain ⟨g1, g2, g3, g4⟩ := fS e
      rw [g1] at hps; simp only [Option.some.injEq] at hps; rw [← hps]
      refine ⟨fB.1, g2.trans fB.2.1.symm, ?_, g4.trans fB.2.2.1.symm⟩
      rw [g3, fB.2.2.2]
      rcases f6B.2.2.2 with q | q
      · exact q.symm
      · exact absurd q e
    obtain ⟨h1, h2, h3, h4, h5⟩ := key s hs s1 s2 s3 s4 p hps
    rw [fO s s1 s2 s3 s4, fO p h3 h4 (Nat.ne_of_lt h2) (by omega)]
    exact PartnerSym_def hsym h1 h5

/-- `SplitSeg` keeps partner symmetry. -/
theorem SplitSeg_PartnerSym {hypot : ℚ → ℚ → ℚ} {L L' : Level} {S T : Nat} {x y : ℚ}
    (hv : L.PartnersExist) (hsym : L.PartnerSym) (hS : S < L.num_segs)
    (h : SplitSeg hypot L S x y = some (L', T)) :
    L'.PartnersExist ∧ L'.PartnerSym := by
  cases hp : (L.lev_segs S).partner with
  | none => exact SplitSeg_sym_nopartner hv hsym hS hp h
  | some B => exact SplitSeg_sym_partner hv hsym hS hp h

/-- What `SplitSeg` leaves behind: the shortened seg, the new tail and, if there is a
partner, the two halves of the partner. -/
theorem SplitSeg_post (hypot : ℚ → ℚ → ℚ) (L L' : Level) (S T : Nat)
    (x y : ℚ) (hS : S < L.num_segs)
    (hB : ∀ B ∈ (L.lev_segs S).partner, B < L.num_segs ∧ B ≠ S)
    (h : SplitSeg hypot L S x y = some (L', T)) :
    (L'.lev_vertices L.num_vertices).x = x ∧ (L'.lev_vertices L.num_vertices).y = y ∧
    L'.num_vertices = L.num_vertices + 1 ∧
    T = L.num_segs ∧
    (L'.lev_segs S).start = (L.lev_segs S).start ∧
    (L'.lev_segs S).end_ = L.num_vertices ∧
    (L'.lev_segs T).start = L.num_vertices ∧
    (L'.lev_segs T).end_ = (L.lev_segs S).end_ ∧
    (L'.lev_segs T).linedef = (L.lev_segs S).linedef ∧
    (L'.lev_segs T).side = (L.lev_segs S).side ∧
    (L'.lev_segs T).source_line = (L.lev_segs S).source_line ∧
    ∀ B ∈ (L.lev_segs S).partner,
      (L'.lev_segs T).partner = some (L.num_segs + 1) ∧
      L'.num_segs = L.num_segs + 2 ∧
      (L'.lev_segs B).start = L.num_vertices ∧
      (L'.lev_segs B).end_ = (L.lev_segs B).end_ ∧
      (L'.lev_segs (L.num_segs + 1)).start = (L.lev_segs B).start ∧
      (L'.lev_segs (L.num_segs + 1)).end_ = L.num_vertices ∧
      (L'.lev_segs B).next = some (L.num_segs + 1) ∧
      (L'.lev_segs (L.num_segs + 1)).next = (L.lev_segs B).next := by
  obtain ⟨hT, L6, hn6, hv6, hnv6, ho6, hS6, hT6, hm⟩ := SplitSeg_first_half hS h
  have hSn : S ≠ L.num_segs := Nat.ne_of_lt hS
  have hSn' : S ≠ L.num_segs + 1 := by omega
  obtain ⟨vx, vy, -⟩ := NewVertexFromSplitSeg_vertex_new L S x y
  cases hp : (L.lev_segs S).partner with
  | none =>
    rw [hp] at hm
    simp only at hm
    subst hm
    rw [hT, hS6, hT6, hv6]
    refine ⟨vx, vy, hnv6, rfl, rfl, rfl, rfl, rfl, rfl, rfl, rfl, ?_⟩
    intro B hB'
    exact Option.noConfusion hB'
  | some B =>
    rw [hp] at hm
    simp only at hm
    obtain ⟨hBn, hBS⟩ := hB B hp
    have hBn1 : B ≠ L.num_segs := Nat.ne_of_lt hBn
    have hp6 : (L6.lev_segs S).partner = some B := by rw [hS6]; exact hp
    obtain ⟨hn', hv', hnv', ho', hT', hB', hN'⟩ :=
      SplitSegPartner_post (by omega) (by omega) (by omega) hSn hBn1 hp6 hm
    rw [hn6] at hn' ho' hT' hN' hB'
    have h6B : L6.lev_segs B = L.lev_segs B := ho6 B hBS hBn1
    rw [hT, ho' S hSn hBS.symm hSn', hS6, hT', hT6, hv', hv6, hnv', hnv6]
    refine ⟨vx, vy, rfl, rfl, rfl, rfl, rfl, rfl, rfl, rfl, rfl, ?_⟩
    intro B' hB''
    simp only [Option.mem_def, Option.some.injEq] at hB''
    subst hB''
    rw [hB', hN', h6B]
    exact ⟨rfl, hn', rfl, rfl, rfl, rfl, rfl, rfl⟩

/-- C2. `SplitSeg(S, x, y)` only shortens `S` and creates a tail `T`: the new vertex `V'`
sits at `(x, y)`; afterwards `S.start` is unchanged and `S.end` is `V'`; `T` is a new seg
with `T.start = V'`, `T.end` the original end of `S`, and the linedef, side and source
line of `S`.  When `S` had a partner `B` (another allocated seg), `B` is split at the same
`V'`: `B.start = V'`, `B.end` is unchanged, `T.partner` is a new seg running from the
original start of `B` to `V'`, and it is linked right after `B` (`B.next = T.partner`,
`T.partner.next` = the old `B.next`). -/
theorem SplitSeg_shortens_and_creates_tail (hypot : ℚ → ℚ → ℚ) (L L' : Level) (S T : Nat)
    (x y : ℚ) (hS : S < L.num_segs)
    (hB : ∀ B ∈ (L.lev_segs S).partner, B < L.num_segs ∧ B ≠ S)
    (h : SplitSeg hypot L S x y = some (L', T)) :
    (L'.lev_vertices L.num_vertices).x = x ∧ (L'.lev_vertices L.num_vertices).y = y ∧
    L'.num_vertices = L.num_vertices + 1 ∧
    T = L.num_segs ∧
    (L'.lev_segs S).start = (L.lev_segs S).start ∧
    (L'.lev_segs S).end_ = L.num_vertices ∧
    (L'.lev_segs T).start = L.num_vertices ∧
    (L'.lev_segs T).end_ = (L.lev_segs S).end_ ∧
    (L'.lev_segs T).linedef = (L.lev_segs S).linedef ∧
    (L'.lev_segs T).side = (L.lev_segs S).side ∧
    (L'.lev_segs T).source_line = (L.lev_segs S).source_line ∧
    ∀ B ∈ (L.lev_segs S).partner,
      (L'.lev_segs T).partner = some (L.num_segs + 1) ∧
      L'.num_segs = L.num_segs + 2 ∧
      (L'.lev_segs B).start = L.num_vertices ∧
      (L'.lev_segs B).end_ = (L.lev_segs B).end_ ∧
      (L'.lev_segs (L.num_segs + 1)).start = (L.lev_segs B).start ∧
      (L'.lev_segs (L.num_segs + 1)).end_ = L.num_vertices ∧
      (L'.lev_segs B).next = some (L.num_segs + 1) ∧
      (L'.lev_segs (L.num_segs + 1)).next = (L.lev_segs B).next :=
  SplitSeg_post hypot L L' S T x y hS hB h

/-- Appending segs whose partners are among the appended ones keeps partner symmetry. -/
theorem PartnerSym_extend {L L' : Level} (hle : L.num_segs ≤ L'.num_segs)
    (hold : ∀ i, i < L.num_segs → L'.lev_segs i = L.lev_segs i)
    (hnew : ∀ s, L.num_segs ≤ s → s < L'.num_segs → ∀ p ∈ (L'.lev_segs s).partner,
      L.num_segs ≤ p ∧ p < L'.num_segs ∧
      (L'.lev_segs p).partner = some s ∧ (L'.lev_segs s).linedef = (L'.lev_segs p).linedef ∧
      (L'.lev_segs s).start = (L'.lev_segs p).end_ ∧
      (L'.lev_segs s).end_ = (L'.lev_segs p).start)
    (h : L.PartnersExist ∧ L.PartnerSym) : L'.PartnersExist ∧ L'.PartnerSym := by
  obtain ⟨hv, hsym⟩ := h
  constructor
  · intro s hs p hp
    by_cases h1 : s < L.num_segs
    · rw [hold s h1] at hp
      exact lt_of_lt_of_le (hv s h1 p hp) hle
    · exact (hnew s (not_lt.mp h1) hs p hp).2.1
  · intro s hs p hp
    by_cases h1 : s < L.num_segs
    · rw [hold s h1] at hp ⊢
      have h2 := hv s h1 p hp
      rw [hold p h2]
      exact hsym s h1 p hp
    · exact (hnew s (not_lt.mp h1) hs p hp).2.2

theorem ListAddSeg_apply (L : Level) (list : Option Nat) (seg j : Nat) :
    (ListAddSeg L list seg).1.lev_segs j =
      if j = seg then { L.lev_segs seg with next := list } else L.lev_segs j := by
  simp only [ListAddSeg, modSeg_apply]

@[simp] theorem ListAddSeg_num_segs (L : Level) (list : Option Nat) (seg : Nat) :
    (ListAddSeg L list seg).1.num_segs = L.num_segs := rfl
@[simp] theorem ListAddSeg_snd (L : Level) (list : Option Nat) (seg : Nat) :
    (ListAddSeg L list seg).2 = some seg := rfl
@[simp] theorem ListAddSeg_lev_vertices (L : Level) (list : Option Nat) (seg : Nat) :
    (ListAddSeg L list seg).1.lev_vertices = L.lev_vertices := rfl
@[simp] theorem ListAddSeg_cuts (L : Level) (list : Option Nat) (seg : Nat) :
    (ListAddSeg L list seg).1.cuts = L.cuts := rfl

theorem CreateOneSeg_post {hypot : ℚ → ℚ → ℚ} {L L' : Level} {line : Int} {st en : Nat}
    {sd side : Int} {seg : Nat} (h : CreateOneSeg hypot L line st en sd side = some (L', seg)) :
    seg = L.num_segs ∧ L'.num_segs = L.num_segs + 1 ∧
    (∀ i, i ≠ L.num_segs → L'.lev_segs i = L.lev_segs i) ∧
    (L'.lev_segs L.num_segs).partner = none ∧
    (L'.lev_segs L.num_segs).linedef = line ∧
    (L'.lev_segs L.num_segs).start = st ∧
    (L'.lev_segs L.num_segs).end_ = en := by
  unfold CreateOneSeg at h
  lift_lets at h
  extract_lets r sg L1 L2 at h
  rw [Option.map_eq_some'] at h
  obtain ⟨L3, e3, h⟩ := h
  simp only [Prod.mk.injEq] at h
  obtain ⟨rfl, rfl⟩ := h
  have hsg : sg = L.num_segs := rfl
  have h2 : ∀ j, L2.lev_segs j = if j = L.num_segs then
      { seg_t.zero with start := st, end_ := en, linedef := line, side := side,
                        partner := none, source_line := line, index := -1 }
      else L.lev_segs j := by
    intro j
    simp only [L2, L1, modSeg_apply, hsg, r, NewSeg, Function.update_apply]
    split_ifs <;> rfl
  have h3 := RecomputeSeg_apply e3
  obtain ⟨-, -, hn3⟩ := RecomputeSeg_frame e3
  refine ⟨rfl, ?_, ?_, ?_, ?_, ?_, ?_⟩
  · rw [hn3]; rfl
  · intro i hi
    rw [h3, hsg, if_neg hi, h2, if_neg hi]
  all_goals
    rw [h3, hsg, if_pos rfl, h2, if_pos rfl]; rfl

theorem CreateSegsStep_sym {hypot : ℚ → ℚ → ℚ} {doc : Document} {L L' : Level}
    {list list' : Option Nat} {i : Nat} {line : LineDef}
    (h : CreateSegsStep hypot doc L list i line = some (L', list'))
    (hL : L.PartnersExist ∧ L.PartnerSym) : L'.PartnersExist ∧ L'.PartnerSym := by
  unfold CreateSegsStep at h
  by_cases hz : line.IsZeroLength doc = true
  · rw [if_pos hz] at h
    simp only [Option.some.injEq, Prod.mk.injEq] at h; rw [← h.1]; exact hL
  rw [if_neg hz] at h
  by_cases ho : Int.land line.flags MLF_IS_OVERLAP ≠ 0
  · rw [if_pos ho] at h
    simp only [Option.some.injEq, Prod.mk.injEq] at h; rw [← h.1]; exact hL
  rw [if_neg ho] at h
  · lift_lets at h
    extract_lets afterRight at h
    rw [Option.bind_eq_some] at h
    obtain ⟨st, hst, h⟩ := h
    lift_lets at h
    extract_lets L1 list1 right at h
    by_cases hr : line.right ≥ 0
    · -- a right seg is created
      simp only [afterRight, if_pos hr, Option.map_eq_some'] at hst
      obtain ⟨r, hr1, hst⟩ := hst
      obtain ⟨r1, r2⟩ := r
      obtain ⟨e2, en, eo, ep, el, es, ee⟩ := CreateOneSeg_post hr1
      simp only at hst e2
      have hL1 : L1 = (ListAddSeg r1 list r2).1 := by simp only [L1, ← hst]
      have hright : right = some L.num_segs := by simp only [right, ← hst, e2]
      have hn1 : L1.num_segs = L.num_segs + 1 := by rw [hL1]; exact en
      have h1 : ∀ j, L1.lev_segs j =
          if j = L.num_segs then { r1.lev_segs L.num_segs with next := list }
          else L.lev_segs j := by
        intro j
        rw [hL1, ListAddSeg_apply, e2]
        split_ifs with hj
        · rfl
        · exact eo j hj
      by_cases hl : line.left ≥ 0
      · rw [if_pos hl, Option.map_eq_some'] at h
        obtain ⟨q, hq1, h⟩ := h
        obtain ⟨q1, q2⟩ := q
        obtain ⟨f2, fn, fo, fp, fl, fs, fe⟩ := CreateOneSeg_post hq1
        rw [hn1] at f2 fn fo fp fl fs fe
        rw [hright] at h
        simp only [Prod.mk.injEq] at h
        obtain ⟨h, -⟩ := h
        have hne : L.num_segs ≠ L.num_segs + 1 := by omega
        have h' : ∀ j, L'.lev_segs j =
            if j = L.num_segs then
              { r1.lev_segs L.num_segs with next := list, partner := some (L.num_segs + 1) }
            else if j = L.num_segs + 1 then
              { q1.lev_segs (L.num_segs + 1) with next := list1, partner := some L.num_segs }
            else L.lev_segs j := by
          intro j
          rw [← h]
          simp only [modSeg_apply, ListAddSeg_apply, f2, if_neg hne, if_true]
          split_ifs with j1 j2
          · rw [fo _ hne, h1, if_pos rfl]
          · rfl
          · rw [fo j j2, h1, if_neg j1]
        have hn' : L'.num_segs = L.num_segs + 2 := by
          rw [← h]; simp only [modSeg_num_segs, ListAddSeg_num_segs, fn]
        refine PartnerSym_extend (by omega) ?_ ?_ hL
        · intro j hj
          rw [h', if_neg (by omega), if_neg (by omega)]
        · intro s s1 s2 p hp
          rw [hn'] at s2
          simp only [Option.mem_def] at hp
          have hs : s = L.num_segs ∨ s = L.num_segs + 1 := by omega
          rcases hs with hs | hs
          · rw [hs] at hp ⊢
            rw [h', if_pos rfl] at hp
            simp only [Option.some.injEq] at hp
            rw [← hp, hn', h', h', if_pos rfl, if_neg hne.symm, if_pos rfl]
            refine ⟨by omega, by omega, rfl, ?_, ?_, ?_⟩
            · show (r1.lev_segs L.num_segs).linedef = (q1.lev_segs (L.num_segs + 1)).linedef
              rw [el, fl]
            · show (r1.lev_segs L.num_segs).start = (q1.lev_segs (L.num_segs + 1)).end_
              rw [es, fe]
            · show (r1.lev_segs L.num_segs).end_ = (q1.lev_segs (L.num_segs + 1)).start
              rw [ee, fs]
          · rw [hs] at hp ⊢
            rw [h', if_neg hne.symm, if_pos rfl] at hp
            simp only [Option.some.injEq] at hp
            rw [← hp, hn', h', h', if_pos rfl, if_neg hne.symm, if_pos rfl]
            refine ⟨by omega, by omega, rfl, ?_, ?_, ?_⟩
            · show (q1.lev_segs (L.num_segs + 1)).linedef = (r1.lev_segs L.num_segs).linedef
              rw [el, fl]
            · show (q1.lev_segs (L.num_segs + 1)).start = (r1.lev_segs L.num_segs).end_
              rw [ee, fs]
            · show (q1.lev_segs (L.num_segs + 1)).end_ = (r1.lev_segs L.num_segs).start
              rw [es, fe]
      · rw [if_neg hl] at h
        simp only [Option.some.injEq, Prod.mk.injEq] at h
        obtain ⟨h, -⟩ := h
        rw [← h]
        refine PartnerSym_extend (by omega) ?_ ?_ hL
        · intro j hj
          rw [h1, if_neg (by omega)]
        · intro s s1 s2 p hp
          have hs : s = L.num_segs := by omega
          rw [hs, h1, if_pos rfl] at hp
          simp only [Option.mem_def] at hp
          rw [show ({ r1.lev_segs L.num_segs with next := list } : seg_t).partner =
            (r1.lev_segs L.num_segs).partner from rfl, ep] at hp
          exact Option.noConfusion hp
    · -- no right seg
      simp only [afterRight, if_neg hr, Option.some.injEq] at hst
      have hL1 : L1 = L := by simp only [L1, ← hst]
      have hright : right = none := by simp only [right, ← hst]
      by_cases hl : line.left ≥ 0
      · rw [if_pos hl, Option.map_eq_some'] at h
        obtain ⟨q, hq1, h⟩ := h
        obtain ⟨q1, q2⟩ := q
        rw [hL1] at hq1
        obtain ⟨f2, fn, fo, fp, fl, fs, fe⟩ := CreateOneSeg_post hq1
        rw [hright] at h
        have hL' : (ListAddSeg q1 list1 q2).1 = L' := congrArg Prod.fst h
        have h' : ∀ j, L'.lev_segs j =
            if j = L.num_segs then { q1.lev_segs L.num_segs with next := list1 }
            else L.lev_segs j := by
          intro j
          rw [← hL', ListAddSeg_apply, f2]
          split_ifs with j1
          · rfl
          · exact fo j j1
        have hn' : L'.num_segs = L.num_segs + 1 := by
          rw [← hL']; exact fn
        refine PartnerSym_extend (by omega) ?_ ?_ hL
        · intro j hj
          rw [h', if_neg (by omega)]
        · intro s s1 s2 p hp
          have hs : s = L.num_segs := by omega
          rw [hs, h', if_pos rfl] at hp
          simp only [Option.mem_def] at hp
          rw [show ({ q1.lev_segs L.num_segs with next := list1 } : seg_t).partner =
            (q1.lev_segs L.num_segs).partner from rfl, fp] at hp
          exact Option.noConfusion hp
      · rw [if_neg hl] at h
        simp only [Option.some.injEq, Prod.mk.injEq] at h
        rw [← h.1, hL1]; exact hL

theorem CreateSegsLoop_sym {hypot : ℚ → ℚ → ℚ} {doc : Document} (lines : List LineDef) :
    ∀ (i : Nat) (L L' : Level) (list list' : Option Nat),
      CreateSegsLoop hypot doc lines i L list = some (L', list') →
      L.PartnersExist ∧ L.PartnerSym → L'.PartnersExist ∧ L'.PartnerSym := by
  induction lines with
  | nil =>
    intro i L L' list list' h hL
    simp only [CreateSegsLoop, Option.some.injEq, Prod.mk.injEq] at h
    rw [← h.1]; exact hL
  | cons line rest ih =>
    intro i L L' list list' h hL
    simp only [CreateSegsLoop, Option.bind_eq_some] at h
    obtain ⟨st, h1, h2⟩ := h
    obtain ⟨s1, s2⟩ := st
    exact ih _ _ _ _ _ h2 (CreateSegsStep_sym h1 hL)

/-- `CreateSegs` keeps partner symmetry. -/
theorem CreateSegs_PartnerSym {hypot : ℚ → ℚ → ℚ} {doc : Document} {L L' : Level}
    {list : Option Nat} (h : CreateSegs hypot doc L = some (L', list))
    (hL : L.PartnersExist ∧ L.PartnerSym) : L'.PartnersExist ∧ L'.PartnerSym :=
  CreateSegsLoop_sym _ _ _ _ _ _ h hL

@[simp] theorem setSeg_cuts (L : Level) (i : Nat) (s : seg_t) : (L.setSeg i s).cuts = L.cuts := rfl
@[simp] theorem modSeg_cuts (L : Level) (i : Nat) (f : seg_t → seg_t) :
    (L.modSeg i f).cuts = L.cuts := rfl
@[simp] theorem NewSeg_cuts (L : Level) : (NewSeg L).1.cuts = L.cuts := rfl
@[simp] theorem setSeg_num_cuts (L : Level) (i : Nat) (s : seg_t) :
    (L.setSeg i s).num_cuts = L.num_cuts := rfl
@[simp] theorem modSeg_num_cuts (L : Level) (i : Nat) (f : seg_t → seg_t) :
    (L.modSeg i f).num_cuts = L.num_cuts := rfl
@[simp] theorem NewSeg_num_cuts (L : Level) : (NewSeg L).1.num_cuts = L.num_cuts := rfl
@[simp] theorem setSeg_quick (L : Level) (i : Nat) (s : seg_t) :
    (L.setSeg i s).quick_alloc_cuts = L.quick_alloc_cuts := rfl
@[simp] theorem modSeg_quick (L : Level) (i : Nat) (f : seg_t → seg_t) :
    (L.modSeg i f).quick_alloc_cuts = L.quick_alloc_cuts := rfl
@[simp] theorem NewSeg_quick (L : Level) :
    (NewSeg L).1.quick_alloc_cuts = L.quick_alloc_cuts := rfl

theorem RecomputeSeg_frame_cuts {hypot : ℚ → ℚ → ℚ} {L L' : Level} {seg : Nat}
    (h : RecomputeSeg hypot L seg = some L') :
    L'.cuts = L.cuts ∧ L'.num_cuts = L.num_cuts ∧ L'.quick_alloc_cuts = L.quick_alloc_cuts := by
  rw [(RecomputeSeg_eq_some h).1]
  exact ⟨rfl, rfl, rfl⟩

/-- The two segs that `AddMinisegPair` creates. -/
theorem AddMinisegPair_post {hypot : ℚ → ℚ → ℚ} {L L' : Level} {part cur next : Nat}
    {left_list right_list left' right' : Option Nat} (hpart : part < L.num_segs)
    (h : AddMinisegPair hypot L part cur next left_list right_list = some (L', left', right')) :
    left' = some (L.num_segs + 1) ∧ right' = some L.num_segs ∧
    L'.num_segs = L.num_segs + 2 ∧
    L'.cuts = L.cuts ∧ L'.num_cuts = L.num_cuts ∧ L'.quick_alloc_cuts = L.quick_alloc_cuts ∧
    L'.lev_vertices = L.lev_vertices ∧
    (∀ i, i ≠ L.num_segs → i ≠ L.num_segs + 1 → L'.lev_segs i = L.lev_segs i) ∧
    L'.lev_segs L.num_segs = RecomputeFields hypot L
      { seg_t.zero with next := right_list, partner := some (L.num_segs + 1),
                        start := (L.cuts cur).vertex, end_ := (L.cuts next).vertex,
                        index := -1, linedef := -1,
                        source_line := (L.lev_segs part).linedef } ∧
    L'.lev_segs (L.num_segs + 1) = RecomputeFields hypot L
      { seg_t.zero with next := left_list, partner := some L.num_segs,
                        start := (L.cuts next).vertex, end_ := (L.cuts cur).vertex,
                        index := -1, linedef := -1,
                        source_line := (L.lev_segs part).linedef } := by
  have hne : L.num_segs ≠ L.num_segs + 1 := by omega
  have hp1 : part ≠ L.num_segs := Nat.ne_of_lt hpart
  have hp2 : part ≠ L.num_segs + 1 := by omega
  unfold AddMinisegPair at h
  lift_lets at h
  extract_lets r1 seg r2 buddy L1 L2 L3 L4 L5 L6 L7 at h
  have hseg : seg = L.num_segs := rfl
  have hbud : buddy = L.num_segs + 1 := rfl
  have h2 : ∀ j, r2.1.lev_segs j = if j = L.num_segs + 1 then seg_t.zero
      else if j = L.num_segs then seg_t.zero else L.lev_segs j := by
    intro j; simp [r2, r1, Function.update_apply]
  have h6 : ∀ j, L6.lev_segs j =
      if j = L.num_segs then
        { seg_t.zero with partner := some (L.num_segs + 1),
                          start := (L.cuts cur).vertex, end_ := (L.cuts next).vertex,
                          index := -1, linedef := -1 }
      else if j = L.num_segs + 1 then
        { seg_t.zero with partner := some L.num_segs,
                          start := (L.cuts next).vertex, end_ := (L.cuts cur).vertex,
                          index := -1, linedef := -1 }
      else L.lev_segs j := by
    intro j
    simp only [L6, L5, L4, L3, L2, L1, modSeg_apply, modSeg_cuts, h2, hseg, hbud,
      if_neg hne, if_neg hne.symm, if_true]
    split_ifs <;> rfl
  have h7 : ∀ j, L7.lev_segs j =
      if j = L.num_segs then
        { seg_t.zero with partner := some (L.num_segs + 1),
                          start := (L.cuts cur).vertex, end_ := (L.cuts next).vertex,
                          index := -1, linedef := -1,
                          source_line := (L.lev_segs part).linedef }
      else if j = L.num_segs + 1 then
        { seg_t.zero with partner := some L.num_segs,
                          start := (L.cuts next).vertex, end_ := (L.cuts cur).vertex,
                          index := -1, linedef := -1,
                          source_line := (L.lev_segs part).linedef }
      else L.lev_segs j := by
    intro j
    simp only [L7, modSeg_apply, h6, hseg, hbud, if_neg hne, if_neg hne.symm, if_true,
      if_neg hp1, if_neg hp2]
    split_ifs <;> rfl
  have hv7 : L7.lev_vertices = L.lev_vertices := by
    simp only [L7, L6, L5, L4, L3, L2, L1, modSeg_lev_vertices, r2, NewSeg_fst_lev_vertices, r1]
  have hc7 : L7.cuts = L.cuts := by
    simp only [L7, L6, L5, L4, L3, L2, L1, modSeg_cuts, r2, NewSeg_cuts, r1]
  have hnc7 : L7.num_cuts = L.num_cuts := by
    simp only [L7, L6, L5, L4, L3, L2, L1, modSeg_num_cuts, r2, NewSeg_num_cuts, r1]
  have hq7 : L7.quick_alloc_cuts = L.quick_alloc_cuts := by
    simp only [L7, L6, L5, L4, L3, L2, L1, modSeg_quick, r2, NewSeg_quick, r1]
  have hn7 : L7.num_segs = L.num_segs + 2 := by
    simp only [L7, L6, L5, L4, L3, L2, L1, modSeg_num_segs, r2, NewSeg_fst_num_segs, r1]
  rw [Option.bind_eq_some] at h
  obtain ⟨L8, e8, h⟩ := h
  rw [Option.bind_eq_some] at h
  obtain ⟨L9, e9, h⟩ := h
  lift_lets at h
  extract_lets a b at h
  simp only [Option.some.injEq, Prod.mk.injEq] at h
  obtain ⟨hL', hl', hr'⟩ := h
  obtain ⟨hv8, hnv8, hn8⟩ := RecomputeSeg_frame e8
  obtain ⟨hv9, hnv9, hn9⟩ := RecomputeSeg_frame e9
  obtain ⟨hc8, hnc8, hq8⟩ := RecomputeSeg_frame_cuts e8
  obtain ⟨hc9, hnc9, hq9⟩ := RecomputeSeg_frame_cuts e9
  have h9 : ∀ j, L9.lev_segs j =
      if j = L.num_segs + 1 then RecomputeFields hypot L (L7.lev_segs (L.num_segs + 1))
      else if j = L.num_segs then RecomputeFields hypot L (L7.lev_segs L.num_segs)
      else L.lev_segs j := by
    intro j
    rw [RecomputeSeg_apply e9, RecomputeSeg_apply e8, RecomputeSeg_apply e8, hseg, hbud,
      if_neg hne.symm, RecomputeFields_congr hypot (hv8.trans hv7),
      RecomputeFields_congr hypot hv7]
    split_ifs with j1 j2
    · rfl
    · rfl
    · rw [h7, if_neg j2, if_neg j1]
  refine ⟨?_, ?_, ?_, ?_, ?_, ?_, ?_, ?_, ?_, ?_⟩
  · rw [← hl']; simp only [b, ListAddSeg_snd, hbud]
  · rw [← hr']; simp only [a, ListAddSeg_snd, hseg]
  · rw [← hL']; simp only [b, a, ListAddSeg_num_segs, hn9, hn8, hn7]
  · rw [← hL']; simp only [b, a, ListAddSeg_cuts, hc9, hc8, hc7]
  · rw [← hL']; simp only [b, a, ListAddSeg, modSeg_num_cuts, hnc9, hnc8, hnc7]
  · rw [← hL']; simp only [b, a, ListAddSeg, modSeg_quick, hq9, hq8, hq7]
  · rw [← hL']; simp only [b, a, ListAddSeg_lev_vertices, hv9, hv8, hv7]
  · intro i i1 i2
    rw [← hL']
    simp only [b, a, ListAddSeg_apply, hseg, hbud, if_neg i1, if_neg i2, h9]
  · rw [← hL']
    simp only [b, a, ListAddSeg_apply, hseg, hbud, if_neg hne, if_true, h9, h7,
      if_neg hne.symm]
    rfl
  · rw [← hL']
    simp only [b, a, ListAddSeg_apply, hseg, hbud, if_neg hne, if_true, h9, h7,
      if_neg hne.symm]
    rfl

theorem PartnerSym_congr {L L' : Level} (h1 : L'.lev_segs = L.lev_segs)
    (h2 : L'.num_segs = L.num_segs) (h : L.PartnersExist ∧ L.PartnerSym) :
    L'.PartnersExist ∧ L'.PartnerSym := by
  unfold Level.PartnersExist Level.PartnerSym at *
  rw [h1, h2]
  exact h

theorem AddMinisegPair_sym {hypot : ℚ → ℚ → ℚ} {L L' : Level} {part cur next : Nat}
    {left_list right_list left' right' : Option Nat} (hpart : part < L.num_segs)
    (h : AddMinisegPair hypot L part cur next left_list right_list = some (L', left', right'))
    (hL : L.PartnersExist ∧ L.PartnerSym) : L'.PartnersExist ∧ L'.PartnerSym := by
  obtain ⟨-, -, hn, -, -, -, -, ho, hs, hb⟩ := AddMinisegPair_post hpart h
  have hne : L.num_segs ≠ L.num_segs + 1 := by omega
  refine PartnerSym_extend (by omega) ?_ ?_ hL
  · intro i hi
    exact ho i (by omega) (by omega)
  · intro s s1 s2 p hp
    simp only [Option.mem_def] at hp
    rw [hn] at s2 ⊢
    have hs' : s = L.num_segs ∨ s = L.num_segs + 1 := by omega
    rcases hs' with e | e
    · rw [e] at hp ⊢
      rw [hs] at hp
      simp only [RecomputeFields_partner, Option.some.injEq] at hp
      rw [← hp, hs, hb]
      exact ⟨by omega, by omega, rfl, rfl, rfl, rfl⟩
    · rw [e] at hp ⊢
      rw [hb] at hp
      simp only [RecomputeFields_partner, Option.some.injEq] at hp
      rw [← hp, hs, hb]
      exact ⟨by omega, by omega, rfl, rfl, rfl, rfl⟩

theorem AddMinisegsLoop_sym {hypot : ℚ → ℚ → ℚ} {part : Nat} (fuel : Nat) :
    ∀ (L L' : Level) (cur left_list right_list left' right' : Option Nat),
      part < L.num_segs →
      AddMinisegsLoop hypot part fuel L cur left_list right_list = some (L', left', right') →
      L.PartnersExist ∧ L.PartnerSym → L'.PartnersExist ∧ L'.PartnerSym := by
  induction fuel with
  | zero =>
    intro L L' cur ll rl l' r' _ h _
    simp [AddMinisegsLoop] at h
  | succ fuel ih =>
    intro L L' cur ll rl l' r' hpart h hL
    cases cur with
    | none =>
      simp only [AddMinisegsLoop, Option.some.injEq, Prod.mk.injEq] at h
      rw [← h.1]; exact hL
    | some c =>
      simp only [AddMinisegsLoop] at h
      cases hnx : (L.cuts c).next with
      | none =>
        rw [hnx] at h
        simp only [Option.some.injEq, Prod.mk.injEq] at h
        rw [← h.1]; exact hL
      | some n =>
        rw [hnx] at h
        simp only at h
        split_ifs at h
        all_goals first
          | exact ih _ _ _ _ _ _ _ hpart h hL
          | (rw [Option.bind_eq_some] at h
             obtain ⟨st, hst, h⟩ := h
             obtain ⟨s1, s2, s3⟩ := st
             have hn := (AddMinisegPair_post hpart hst).2.2.1
             exact ih _ _ _ _ _ _ _ (by simp only [hn]; omega) h
               (AddMinisegPair_sym hpart hst hL))

theorem AddMinisegsFree_segs (fuel : Nat) :
    ∀ (L L' : Level) (cut_list : Option Nat), AddMinisegsFree fuel L cut_list = some L' →
      L'.lev_segs = L.lev_segs ∧ L'.num_segs = L.num_segs ∧
      L'.lev_vertices = L.lev_vertices := by
  induction fuel with
  | zero => intro L L' c h; simp [AddMinisegsFree] at h
  | succ fuel ih =>
    intro L L' c h
    cases c with
    | none =>
      simp only [AddMinisegsFree, Option.some.injEq] at h
      rw [← h]; exact ⟨rfl, rfl, rfl⟩
    | some cur =>
      simp only [AddMinisegsFree] at h
      obtain ⟨a, b, c⟩ := ih _ _ _ h
      exact ⟨a, b, c⟩

/-- `AddMinisegs` keeps partner symmetry. -/
theorem AddMinisegs_PartnerSym {hypot : ℚ → ℚ → ℚ} {L L' : Level} {cut_list : Option Nat}
    {part : Nat} {left_list right_list left' right' : Option Nat} (hpart : part < L.num_segs)
    (h : AddMinisegs hypot L cut_list part left_list right_list = some (L', left', right'))
    (hL : L.PartnersExist ∧ L.PartnerSym) : L'.PartnersExist ∧ L'.PartnerSym := by
  unfold AddMinisegs at h
  cases cut_list with
  | none =>
    simp only [Option.some.injEq, Prod.mk.injEq] at h
    rw [← h.1]; exact hL
  | some c =>
    simp only [Option.bind_eq_some, Option.map_eq_some'] at h
    obtain ⟨st, hst, Lf, hf, h⟩ := h
    obtain ⟨s1, s2, s3⟩ := st
    simp only [Prod.mk.injEq] at h
    obtain ⟨rfl, -, -⟩ := h
    obtain ⟨a, b, -⟩ := AddMinisegsFree_segs _ _ _ _ hf
    exact PartnerSym_congr a b (AddMinisegsLoop_sym _ _ _ _ _ _ _ _ hpart hst hL)

theorem Option_eq_some_getD {α : Type} {o : Option α} (d : α) (h : o.isSome = true) :
    o = some (o.getD d) := by
  cases o with
  | none => exact absurd h (by simp)
  | some a => rfl

/-- C1. Partner symmetry is an invariant of seg creation: in a level whose partner
pointers point to allocated segs and which satisfies partner symmetry, the level left by
`CreateSegs`, by `SplitSeg(S, x, y)` and by `AddMinisegs` satisfies partner symmetry
again (and its partner pointers still point to allocated segs). -/
theorem partner_symmetry_invariant (hypot : ℚ → ℚ → ℚ) (L : Level)
    (hv : L.PartnersExist) (hsym : L.PartnerSym) :
    (∀ (doc : Document) (L' : Level) (list : Option Nat),
      CreateSegs hypot doc L = some (L', list) → L'.PartnersExist ∧ L'.PartnerSym) ∧
    (∀ (S : Nat) (x y : ℚ) (L' : Level) (T : Nat), S < L.num_segs →
      SplitSeg hypot L S x y = some (L', T) → L'.PartnersExist ∧ L'.PartnerSym) ∧
    (∀ (cut_list : Option Nat) (part : Nat) (left_list right_list : Option Nat) (L' : Level)
      (left' right' : Option Nat), part < L.num_segs →
      AddMinisegs hypot L cut_list part left_list right_list = some (L', left', right') →
      L'.PartnersExist ∧ L'.PartnerSym) :=
  ⟨fun _ _ _ h => CreateSegs_PartnerSym h ⟨hv, hsym⟩,
   fun _ _ _ _ _ hS h => SplitSeg_PartnerSym hv hsym hS h,
   fun _ _ _ _ _ _ _ hp h => AddMinisegs_PartnerSym hp h ⟨hv, hsym⟩⟩

theorem demoSplit_eq : SplitSeg hypotQ demoCreated.1 0 4 0 = some (demoSplit.1, demoSplit.2) :=
  Option_eq_some_getD _ (by decide!)

theorem partner_symmetry_invariant_witness :
    demoCreated.1.PartnersExist ∧ demoCreated.1.PartnerSym ∧ demoCreated.1.num_segs = 2 ∧
    (demoCreated.1.lev_segs 0).partner = some 1 ∧
    demoSplit.1.num_segs = 4 ∧ demoSplit.1.PartnersExist ∧ demoSplit.1.PartnerSym :=
  ⟨by decide!, by decide!, by decide!, by decide!, by decide!,
   (partner_symmetry_invariant hypotQ demoCreated.1 (by decide!) (by decide!)).2.1
     0 4 0 demoSplit.1 demoSplit.2 (by decide!) demoSplit_eq⟩

theorem SplitSeg_shortens_and_creates_tail_witness :
    (0 < demoCreated.1.num_segs ∧
     ∀ B ∈ (demoCreated.1.lev_segs 0).partner, B < demoCreated.1.num_segs ∧ B ≠ 0) ∧
    demoCreated.1.num_vertices = 2 ∧
    (demoSplit.1.lev_segs 0).end_ = demoCreated.1.num_vertices ∧
    (demoSplit.1.lev_segs demoSplit.2).start = demoCreated.1.num_vertices ∧
    (demoSplit.1.lev_vertices demoCreated.1.num_vertices).x = 4 :=
  have h := SplitSeg_shortens_and_creates_tail hypotQ demoCreated.1 demoSplit.1 0 demoSplit.2
    4 0 (by decide!) (by decide!) demoSplit_eq
  ⟨⟨by decide!, by decide!⟩, by decide!, h.2.2.2.2.2.1, h.2.2.2.2.2.2.1, h.1⟩

/-! ### List segments -/

theorem IsSeg_append {nxt : Nat → Option Nat} {l1 l2 : List Nat} {h t : Option Nat} :
    IsSeg nxt h (l1 ++ l2) t ↔ ∃ m, IsSeg nxt h l1 m ∧ IsSeg nxt m l2 t := by
  induction l1 generalizing h with
  | nil =>
    simp only [List.nil_append, IsSeg]
    constructor
    · intro hh; exact ⟨h, rfl, hh⟩
    · rintro ⟨m, rfl, hh⟩; exact hh
  | cons a l ih =>
    show (h = some a ∧ IsSeg nxt (nxt a) (l ++ l2) t) ↔
      ∃ m, (h = some a ∧ IsSeg nxt (nxt a) l m) ∧ IsSeg nxt m l2 t
    rw [ih]
    constructor
    · rintro ⟨h1, m, h2, h3⟩; exact ⟨m, ⟨h1, h2⟩, h3⟩
    · rintro ⟨m, ⟨h1, h2⟩, h3⟩; exact ⟨h1, m, h2, h3⟩

theorem IsSeg_congr {nxt nxt' : Nat → Option Nat} {l : List Nat} {h t : Option Nat}
    (hc : ∀ a ∈ l, nxt' a = nxt a) : IsSeg nxt' h l t ↔ IsSeg nxt h l t := by
  induction l generalizing h with
  | nil => simp only [IsSeg]
  | cons a l ih =>
    simp only [IsSeg]
    rw [hc a (List.mem_cons_self a l), ih (fun b hb => hc b (List.mem_cons_of_mem a hb))]

theorem IsSeg_snoc {nxt : Nat → Option Nat} {l : List Nat} {a : Nat} {h t : Option Nat} :
    IsSeg nxt h (l ++ [a]) t ↔ IsSeg nxt h l (some a) ∧ nxt a = t := by
  rw [IsSeg_append]
  simp only [IsSeg]
  constructor
  · rintro ⟨m, h1, rfl, h2⟩; exact ⟨h1, h2⟩
  · rintro ⟨h1, h2⟩; exact ⟨some a, h1, rfl, h2⟩

theorem IsSeg_head {nxt : Nat → Option Nat} {l : List Nat} {h : Option Nat}
    (hl : IsSeg nxt h l none) : h = l.head? := by
  cases l with
  | nil => exact hl
  | cons a l => exact hl.1

theorem IsSeg_head_of_ne {nxt : Nat → Option Nat} {a : Nat} {l : List Nat} {h t : Option Nat}
    (hl : IsSeg nxt h (a :: l) t) : h = some a := hl.1

/-- A list of distinct numbers below `n` has at most `n` elements. -/
theorem length_le_of_nodup_lt {l : List Nat} {n : Nat} (hd : l.Nodup) (hlt : ∀ c ∈ l, c < n) :
    l.length ≤ n := by
  have hsub : l ⊆ List.range n := fun c hc => List.mem_range.mpr (hlt c hc)
  have := (List.subperm_of_subset hd hsub).length_le
  simpa using this

/-! ### `PointOnLineSide` -/

/-- C19: `seg_t::PointOnLineSide(x, y)` returns `SIDE_RIGHT` if `PerpDist(x, y)` is greater
than `DIST_EPSILON`, `SIDE_LEFT` if it is less than `-DIST_EPSILON`, and 0 (on the line) if
`|PerpDist(x, y)| ≤ DIST_EPSILON`, for every point and every seg, `DIST_EPSILON` being
non-negative. -/
theorem PointOnLineSide_by_PerpDist (DIST_EPSILON : ℚ) (heps : 0 ≤ DIST_EPSILON) (s : seg_t)
    (x y : ℚ) :
    (DIST_EPSILON < s.PerpDist x y → s.PointOnLineSide DIST_EPSILON x y = SIDE_RIGHT) ∧
    (s.PerpDist x y < -DIST_EPSILON → s.PointOnLineSide DIST_EPSILON x y = SIDE_LEFT) ∧
    (|s.PerpDist x y| ≤ DIST_EPSILON → s.PointOnLineSide DIST_EPSILON x y = Side.neither) := by
  refine ⟨?_, ?_, ?_⟩
  · intro h
    have h1 : ¬ |s.PerpDist x y| ≤ DIST_EPSILON := by
      rw [abs_le]; intro hh; linarith [hh.2]
    have h2 : ¬ s.PerpDist x y < 0 := by linarith
    simp only [seg_t.PointOnLineSide, if_neg h1, if_neg h2]
  · intro h
    have h1 : ¬ |s.PerpDist x y| ≤ DIST_EPSILON := by
      rw [abs_le]; intro hh; linarith [hh.1]
    have h2 : s.PerpDist x y < 0 := by linarith
    simp only [seg_t.PointOnLineSide, if_neg h1, if_pos h2]
  · intro h
    simp only [seg_t.PointOnLineSide, if_pos h]

theorem PointOnLineSide_by_PerpDist_witness :
    c4_part.PointOnLineSide (1 / 50) 20 0 = SIDE_RIGHT ∧
    c4_part.PointOnLineSide (1 / 50) 0 20 = SIDE_LEFT ∧
    c4_part.PointOnLineSide (1 / 50) 6 8 = Side.neither :=
  ⟨(PointOnLineSide_by_PerpDist (1 / 50) (by decide!) c4_part 20 0).1 (by decide!),
   (PointOnLineSide_by_PerpDist (1 / 50) (by decide!) c4_part 0 20).2.1 (by decide!),
   (PointOnLineSide_by_PerpDist (1 / 50) (by decide!) c4_part 6 8).2.2 (by decide!)⟩

/-! ### `ComputeBspHeight` -/

theorem IsNodePath_nil (L : Level) (p : Option Nat) : IsNodePath L p [] := trivial

theorem IsNodePath_cons {L : Level} {p : Option Nat} {n : Nat} {rest : List Nat} :
    IsNodePath L p (n :: rest) ↔
      p = some n ∧ (IsNodePath L (L.lev_nodes n).r.node rest ∨
        IsNodePath L (L.lev_nodes n).l.node rest) := Iff.rfl

theorem IsNodePath_none {L : Level} {path : List Nat} (h : IsNodePath L none path) :
    path = [] := by
  cases path with
  | nil => rfl
  | cons n rest => exact absurd h.1 (by simp)

/-- C18: `ComputeBspHeight(node)` equals 1 plus the maximum number of internal nodes on any
path from `node` down through `r.node` / `l.node` links: it is 1 for a null node,
`MAX(height(l.node), height(r.node)) + 1` otherwise, and always at least 1.  The node tree
has no path longer than `d` and the recursion may go deeper than `d`. -/
theorem ComputeBspHeight_is_one_plus_longest_path (L : Level) (fuel : Nat) :
    ∀ (d : Nat) (p : Option Nat), (∀ path, IsNodePath L p path → path.length ≤ d) → d < fuel →
    ∃ h : Int, ComputeBspHeight L fuel p = some h ∧ 1 ≤ h ∧
      (∃ path, IsNodePath L p path ∧ h = 1 + (path.length : Int)) ∧
      (∀ path, IsNodePath L p path → 1 + (path.length : Int) ≤ h) ∧
      (p = none → h = 1) ∧
      (∀ n, p = some n → ∃ hl hr : Int,
        ComputeBspHeight L (fuel - 1) (L.lev_nodes n).l.node = some hl ∧
        ComputeBspHeight L (fuel - 1) (L.lev_nodes n).r.node = some hr ∧
        h = max hl hr + 1) := by
  induction fuel with
  | zero => intro d p _ hf; exact absurd hf (Nat.not_lt_zero d)
  | succ fuel ih =>
    intro d p hd hf
    cases p with
    | none =>
      refine ⟨1, rfl, le_refl 1, ⟨[], trivial, by simp⟩, ?_, fun _ => rfl, ?_⟩
      · intro path hp
        rw [IsNodePath_none hp]; simp
      · intro n hn; exact absurd hn (by simp)
    | some n =>
      have hd1 : 1 ≤ d := by
        have := hd [n] ⟨rfl, Or.inl trivial⟩
        simpa using this
      have hr : ∀ path, IsNodePath L (L.lev_nodes n).r.node path → path.length ≤ d - 1 := by
        intro path hp
        have := hd (n :: path) ⟨rfl, Or.inl hp⟩
        simp only [List.length_cons] at this
        omega
      have hl : ∀ path, IsNodePath L (L.lev_nodes n).l.node path → path.length ≤ d - 1 := by
        intro path hp
        have := hd (n :: path) ⟨rfl, Or.inr hp⟩
        simp only [List.length_cons] at this
        omega
      obtain ⟨a, ea, a1, ⟨pa, hpa, epa⟩, ma, -, -⟩ := ih (d - 1) _ hr (by omega)
      obtain ⟨b, eb, b1, ⟨pb, hpb, epb⟩, mb, -, -⟩ := ih (d - 1) _ hl (by omega)
      refine ⟨max b a + 1, ?_, ?_, ?_, ?_, ?_, ?_⟩
      · simp only [ComputeBspHeight, ea, eb, Option.some_bind]
      · have := le_max_left b a; omega
      · rcases le_total b a with hba | hab
        · refine ⟨n :: pa, ⟨rfl, Or.inl hpa⟩, ?_⟩
          rw [max_eq_right hba, epa]; simp only [List.length_cons]; push_cast; ring
        · refine ⟨n :: pb, ⟨rfl, Or.inr hpb⟩, ?_⟩
          rw [max_eq_left hab, epb]; simp only [List.length_cons]; push_cast; ring
      · intro path hp
        cases path with
        | nil =>
          have := le_max_left b a
          simp only [List.length_nil]; push_cast; omega
        | cons m rest =>
          obtain ⟨hm, hrest⟩ := hp
          have hm' : n = m := Option.some.inj hm
          subst hm'
          simp only [List.length_cons]; push_cast
          rcases hrest with h1 | h1
          · have := ma rest h1
            have := le_max_right b a
            omega
          · have := mb rest h1
            have := le_max_left b a
            omega
      · intro hn; exact absurd hn (by simp)
      · intro m hm
        have hm' : n = m := Option.some.inj hm
        subst hm'
        exact ⟨b, a, by simpa using eb, by simpa using ea, rfl⟩

theorem ComputeBspHeight_is_one_plus_longest_path_witness :
    ∃ h : Int, ComputeBspHeight demoNodes 3 (some 0) = some h ∧ 1 ≤ h ∧
      (∃ path, IsNodePath demoNodes (some 0) path ∧ h = 1 + (path.length : Int)) ∧
      (∀ path, IsNodePath demoNodes (some 0) path → 1 + (path.length : Int) ≤ h) ∧
      ((some 0 : Option Nat) = none → h = 1) ∧
      (∀ n, (some 0 : Option Nat) = some n → ∃ hl hr : Int,
        ComputeBspHeight demoNodes (3 - 1) (demoNodes.lev_nodes n).l.node = some hl ∧
        ComputeBspHeight demoNodes (3 - 1) (demoNodes.lev_nodes n).r.node = some hr ∧
        h = max hl hr + 1) :=
  ComputeBspHeight_is_one_plus_longest_path demoNodes 3 2 (some 0)
    (by
      intro path hp
      match path, hp with
      | [], _ => simp
      | [_], _ => simp
      | [_, _], _ => simp
      | a :: b :: c :: rest, hp =>
        exfalso
        obtain ⟨ha, hp⟩ := hp
        have ha' : 0 = a := Option.some.inj ha
        subst ha'
        rcases hp with hp | hp
        · obtain ⟨hb, hp⟩ := hp
          have hb' : 1 = b := Option.some.inj hb
          subst hb'
          rcases hp with hp | hp
          · exact Option.noConfusion (hp.1 : (none : Option Nat) = some c)
          · exact Option.noConfusion (hp.1 : (none : Option Nat) = some c)
        · obtain ⟨hb, hp⟩ := hp
          have hb' : 2 = b := Option.some.inj hb
          subst hb'
          rcases hp with hp | hp
          · exact Option.noConfusion (hp.1 : (none : Option Nat) = some c)
          · exact Option.noConfusion (hp.1 : (none : Option Nat) = some c))
    (by decide)

/-! ### `RoundOffVertices` -/

theorem countNew_succ (L : Level) (i : Nat) :
    L.countNew (i + 1) = L.countNew i + if (L.lev_vertices i).is_new then 1 else 0 := by
  unfold Level.countNew
  rw [List.range_succ, List.filter_append, List.length_append]
  by_cases h : (L.lev_vertices i).is_new = true
  · simp [h]
  · simp [h]

theorem countNew_mono (L : Level) {i j : Nat} (h : i ≤ j) : L.countNew i ≤ L.countNew j := by
  induction j with
  | zero =>
    have : i = 0 := Nat.le_zero.mp h
    subst this; exact le_refl _
  | succ j ih =>
    rcases Nat.lt_or_ge i (j + 1) with h1 | h1
    · have := ih (Nat.lt_succ_iff.mp h1)
      rw [countNew_succ]; omega
    · have : i = j + 1 := le_antisymm h h1
      subst this; exact le_refl _

theorem countNew_lt (L : Level) {i j : Nat} (h : i < j) (hn : (L.lev_vertices i).is_new = true) :
    L.countNew i < L.countNew j := by
  have h1 := countNew_mono L (Nat.succ_le_of_lt h)
  rw [countNew_succ, if_pos hn] at h1
  omega

theorem countNew_le (L : Level) (i : Nat) : L.countNew i ≤ i := by
  unfold Level.countNew
  have := List.length_filter_le (fun j => (L.lev_vertices j).is_new) (List.range i)
  simpa using this

theorem modVertex_apply (L : Level) (i j : Nat) (f : vertex_t → vertex_t) :
    (L.modVertex i f).lev_vertices j = if j = i then f (L.lev_vertices i) else L.lev_vertices j := by
  simp only [Level.modVertex, Function.update_apply]

@[simp] theorem modVertex_num_vertices (L : Level) (i : Nat) (f : vertex_t → vertex_t) :
    (L.modVertex i f).num_vertices = L.num_vertices := rfl

/-- The state of the loop of `RoundOffVertices` after the first `m` vertices. -/
theorem RoundOffVertices_loop (L : Level) (n0 : Int) (m : Nat) :
    ((List.range m).foldl RoundOffVerticesStep (L, n0)).2 = n0 + L.countNew m ∧
    ((List.range m).foldl RoundOffVerticesStep (L, n0)).1.num_vertices = L.num_vertices ∧
    ∀ i, ((List.range m).foldl RoundOffVerticesStep (L, n0)).1.lev_vertices i =
      if i < m ∧ (L.lev_vertices i).is_new = true then
        { L.lev_vertices i with is_new := false, index := n0 + L.countNew i }
      else L.lev_vertices i := by
  induction m with
  | zero =>
    refine ⟨by simp [Level.countNew], rfl, ?_⟩
    intro i; simp
  | succ m ih =>
    obtain ⟨e2, en, ev⟩ := ih
    rw [List.range_succ, List.foldl_append]
    simp only [List.foldl_cons, List.foldl_nil]
    generalize (List.range m).foldl RoundOffVerticesStep (L, n0) = st at e2 en ev
    have hm : st.1.lev_vertices m = L.lev_vertices m := by
      rw [ev m, if_neg (fun h => Nat.lt_irrefl m h.1)]
    by_cases hnew : (L.lev_vertices m).is_new = true
    · have hs : (st.1.lev_vertices m).is_new = true := by rw [hm]; exact hnew
      simp only [RoundOffVerticesStep, if_pos hs]
      refine ⟨?_, ?_, ?_⟩
      · rw [e2, countNew_succ, if_pos hnew]; push_cast; ring
      · simpa using en
      · intro i
        simp only [modVertex_apply]
        by_cases him : i = m
        · subst him
          simp only [if_true, if_pos (And.intro (Nat.lt_succ_self i) hnew), hm, e2]
        · simp only [if_neg him]
          rw [ev i]
          have : (i < m + 1 ∧ (L.lev_vertices i).is_new = true) ↔
              (i < m ∧ (L.lev_vertices i).is_new = true) := by
            constructor
            · rintro ⟨h1, h2⟩; exact ⟨by omega, h2⟩
            · rintro ⟨h1, h2⟩; exact ⟨by omega, h2⟩
          simp only [this]
    · have hs : ¬ (st.1.lev_vertices m).is_new = true := by rw [hm]; exact hnew
      simp only [RoundOffVerticesStep, if_neg hs]
      refine ⟨?_, en, ?_⟩
      · rw [e2, countNew_succ, if_neg hnew]; simp
      · intro i
        rw [ev i]
        have : (i < m + 1 ∧ (L.lev_vertices i).is_new = true) ↔
            (i < m ∧ (L.lev_vertices i).is_new = true) := by
          constructor
          · rintro ⟨h1, h2⟩
            refine ⟨?_, h2⟩
            rcases Nat.lt_succ_iff_lt_or_eq.mp h1 with h | h
            · exact h
            · subst h; exact absurd h2 hnew
          · rintro ⟨h1, h2⟩; exact ⟨by omega, h2⟩
        simp only [this]

/-- The number of old vertices, when their indices are exactly `0 .. n0 - 1`. -/
theorem old_count (L : Level) (n0 : Int) (hn0 : 0 ≤ n0)
    (hrange : ∀ i, i < L.num_vertices → (L.lev_vertices i).is_new = false →
      0 ≤ (L.lev_vertices i).index ∧ (L.lev_vertices i).index < n0)
    (hinj : ∀ i j, i < L.num_vertices → j < L.num_vertices →
      (L.lev_vertices i).is_new = false → (L.lev_vertices j).is_new = false →
      (L.lev_vertices i).index = (L.lev_vertices j).index → i = j)
    (hsurj : ∀ k : Int, 0 ≤ k → k < n0 → ∃ i, i < L.num_vertices ∧
      (L.lev_vertices i).is_new = false ∧ (L.lev_vertices i).index = k) :
    n0 + L.countNew L.num_vertices = L.num_vertices := by
  -- the set of old vertices
  set N := L.num_vertices with hN
  set O : Finset Nat := (Finset.range N).filter fun i => (L.lev_vertices i).is_new = false with hO
  set Nw : Finset Nat := (Finset.range N).filter fun i => (L.lev_vertices i).is_new = true
    with hNw
  have hcn : L.countNew N = Nw.card := by
    unfold Level.countNew
    rw [hNw, Finset.card_def]
    simp only [Finset.filter_val, Finset.range_val, Multiset.range, Multiset.filter_coe,
      Multiset.coe_card]
    congr 1
    apply List.filter_congr
    intro x _
    simp
  have hsum : O.card + Nw.card = N := by
    have := Finset.filter_card_add_filter_neg_card_eq_card (s := Finset.range N)
      (fun i => (L.lev_vertices i).is_new = false)
    rw [Finset.card_range] at this
    rw [← this]
    congr 2
    ext i
    simp only [hNw, Finset.mem_filter, Finset.mem_range, Bool.not_eq_false]
  have hcard : O.card = n0.toNat := by
    have : O.card = (Finset.range n0.toNat).card := by
      apply Finset.card_bij (fun i _ => ((L.lev_vertices i).index).toNat)
      · intro i hi
        simp only [hO, Finset.mem_filter, Finset.mem_range] at hi
        have := hrange i hi.1 hi.2
        simp only [Finset.mem_range]
        omega
      · intro i hi j hj hij
        simp only [hO, Finset.mem_filter, Finset.mem_range] at hi hj
        have h1 := hrange i hi.1 hi.2
        have h2 := hrange j hj.1 hj.2
        apply hinj i j hi.1 hj.1 hi.2 hj.2
        omega
      · intro k hk
        simp only [Finset.mem_range] at hk
        obtain ⟨i, hi, hio, hik⟩ := hsurj k (by omega) (by omega)
        refine ⟨i, ?_, ?_⟩
        · simp only [hO, Finset.mem_filter, Finset.mem_range]; exact ⟨hi, hio⟩
        · rw [hik]; simp
    rw [this, Finset.card_range]
  rw [hcn]
  omega

/-- C17: `RoundOffVertices` renumbers only new vertices: vertices with `is_new = false` keep
their index, the new vertices receive the consecutive indices `num_old_vert`,
`num_old_vert + 1`, ... in `lev_vertices` order, every vertex ends with `is_new = false`,
and `num_old_vert` grows by the number of new vertices; so if the old vertices had the
distinct indices `0 .. num_old_vert - 1`, afterwards the indices of all vertices are
exactly `0 .. num_vertices - 1` without gaps or duplicates. -/
theorem RoundOffVertices_renumbers_new_vertices (L : Level) (num_old_vert : Int) :
    (∀ i, i < L.num_vertices → (L.lev_vertices i).is_new = false →
      (RoundOffVertices L num_old_vert).1.lev_vertices i = L.lev_vertices i) ∧
    (∀ i, i < L.num_vertices → (L.lev_vertices i).is_new = true →
      ((RoundOffVertices L num_old_vert).1.lev_vertices i).index =
        num_old_vert + L.countNew i) ∧
    (∀ i, i < L.num_vertices →
      ((RoundOffVertices L num_old_vert).1.lev_vertices i).is_new = false) ∧
    (RoundOffVertices L num_old_vert).2 = num_old_vert + L.countNew L.num_vertices ∧
    (RoundOffVertices L num_old_vert).1.num_vertices = L.num_vertices ∧
    (0 ≤ num_old_vert →
      (∀ i, i < L.num_vertices → (L.lev_vertices i).is_new = false →
        0 ≤ (L.lev_vertices i).index ∧ (L.lev_vertices i).index < num_old_vert) →
      (∀ i, i < L.num_vertices → ∀ j, j < L.num_vertices →
        (L.lev_vertices i).is_new = false → (L.lev_vertices j).is_new = false →
        (L.lev_vertices i).index = (L.lev_vertices j).index → i = j) →
      (∀ k : Int, 0 ≤ k → k < num_old_vert → ∃ i, i < L.num_vertices ∧
        (L.lev_vertices i).is_new = false ∧ (L.lev_vertices i).index = k) →
      ∀ k : Int, 0 ≤ k → k < L.num_vertices →
        ∃! i, i < L.num_vertices ∧
          ((RoundOffVertices L num_old_vert).1.lev_vertices i).index = k) := by
  obtain ⟨e2, en, ev⟩ := RoundOffVertices_loop L num_old_vert L.num_vertices
  have hold : ∀ i, i < L.num_vertices → (L.lev_vertices i).is_new = false →
      (RoundOffVertices L num_old_vert).1.lev_vertices i = L.lev_vertices i := by
    intro i _ ho
    show ((List.range L.num_vertices).foldl RoundOffVerticesStep (L, num_old_vert)).1.lev_vertices i
      = _
    rw [ev i, if_neg]
    rintro ⟨_, h⟩; rw [ho] at h; exact Bool.noConfusion h
  have hnew : ∀ i, i < L.num_vertices → (L.lev_vertices i).is_new = true →
      ((RoundOffVertices L num_old_vert).1.lev_vertices i).index =
        num_old_vert + L.countNew i := by
    intro i hi hn
    show (((List.range L.num_vertices).foldl RoundOffVerticesStep
      (L, num_old_vert)).1.lev_vertices i).index = _
    rw [ev i, if_pos ⟨hi, hn⟩]
  refine ⟨hold, hnew, ?_, e2, en, ?_⟩
  · intro i hi
    show (((List.range L.num_vertices).foldl RoundOffVerticesStep
      (L, num_old_vert)).1.lev_vertices i).is_new = false
    rw [ev i]
    by_cases hn : (L.lev_vertices i).is_new = true
    · rw [if_pos ⟨hi, hn⟩]
    · rw [if_neg (fun h => hn h.2)]
      simpa using hn
  · intro hn0 hrange hinj0 hsurj
    have hinj : ∀ i j, i < L.num_vertices → j < L.num_vertices →
        (L.lev_vertices i).is_new = false → (L.lev_vertices j).is_new = false →
        (L.lev_vertices i).index = (L.lev_vertices j).index → i = j :=
      fun i j hi hj => hinj0 i hi j hj
    have htot := old_count L num_old_vert hn0 hrange hinj hsurj
    set N := L.num_vertices with hN
    set f : Nat → Int := fun i => ((RoundOffVertices L num_old_vert).1.lev_vertices i).index
      with hf
    have hfold : ∀ i, i < N → (L.lev_vertices i).is_new = false →
        f i = (L.lev_vertices i).index := by
      intro i hi ho; simp only [hf]; rw [hold i hi ho]
    have hfnew : ∀ i, i < N → (L.lev_vertices i).is_new = true →
        f i = num_old_vert + L.countNew i := hnew
    have hcases : ∀ i, (L.lev_vertices i).is_new = false ∨ (L.lev_vertices i).is_new = true := by
      intro i; cases (L.lev_vertices i).is_new <;> simp
    have hbound : ∀ i, i < N → 0 ≤ f i ∧ f i < N := by
      intro i hi
      rcases hcases i with ho | hn
      · rw [hfold i hi ho]
        have := hrange i hi ho
        have : (0 : Int) ≤ L.countNew N := Int.natCast_nonneg _
        omega
      · rw [hfnew i hi hn]
        have h1 := countNew_lt L hi hn
        have : (0 : Int) ≤ L.countNew i := Int.natCast_nonneg _
        omega
    have hinj' : ∀ i j, i < N → j < N → f i = f j → i = j := by
      intro i j hi hj hij
      rcases hcases i with hio | hin <;> rcases hcases j with hjo | hjn
      · rw [hfold i hi hio, hfold j hj hjo] at hij
        exact hinj i j hi hj hio hjo hij
      · rw [hfold i hi hio, hfnew j hj hjn] at hij
        have := hrange i hi hio
        have : (0 : Int) ≤ L.countNew j := Int.natCast_nonneg _
        omega
      · rw [hfnew i hi hin, hfold j hj hjo] at hij
        have := hrange j hj hjo
        have : (0 : Int) ≤ L.countNew i := Int.natCast_nonneg _
        omega
      · rw [hfnew i hi hin, hfnew j hj hjn] at hij
        rcases Nat.lt_trichotomy i j with h | h | h
        · have := countNew_lt L h hin; omega
        · exact h
        · have := countNew_lt L h hjn; omega
    have himg : (Finset.range N).image (fun i => (f i).toNat) = Finset.range N := by
      apply Finset.eq_of_subset_of_card_le
      · intro k hk
        simp only [Finset.mem_image, Finset.mem_range] at hk ⊢
        obtain ⟨i, hi, rfl⟩ := hk
        have := hbound i hi
        omega
      · rw [Finset.card_image_of_injOn]
        intro i hi j hj hij
        simp only [Finset.coe_range, Set.mem_Iio] at hi hj
        apply hinj' i j hi hj
        have h1 := hbound i hi
        have h2 := hbound j hj
        simp only at hij
        omega
    intro k hk0 hkN
    have hmem : k.toNat ∈ (Finset.range N).image (fun i => (f i).toNat) := by
      rw [himg]; simp only [Finset.mem_range]; omega
    simp only [Finset.mem_image, Finset.mem_range] at hmem
    obtain ⟨i, hi, hik⟩ := hmem
    have hfi : f i = k := by
      have := hbound i hi
      omega
    refine ⟨i, ⟨hi, hfi⟩, ?_⟩
    rintro j ⟨hj, hjk⟩
    exact hinj' j i hj hi (by rw [hfi]; exact hjk)

theorem RoundOffVertices_renumbers_new_vertices_witness :
    ∀ k : Int, 0 ≤ k → k < demoNewVertices.num_vertices →
      ∃! i, i < demoNewVertices.num_vertices ∧
        ((RoundOffVertices demoNewVertices 2).1.lev_vertices i).index = k :=
  (RoundOffVertices_renumbers_new_vertices demoNewVertices 2).2.2.2.2.2 (by decide)
    (by decide) (by decide)
    (by
      intro k h0 h2
      have hk : k = 0 ∨ k = 1 := by omega
      rcases hk with rfl | rfl
      · exact ⟨2, by decide, by decide, by decide⟩
      · exact ⟨0, by decide, by decide, by decide⟩)

/-! ### Null-terminated lists -/

theorem IsLinked_unique {nxt : Nat → Option Nat} {l l' : List Nat} {h : Option Nat}
    (h1 : IsLinked nxt h l) (h2 : IsLinked nxt h l') : l = l' := by
  unfold IsLinked at h1 h2
  induction l generalizing h l' with
  | nil =>
    cases l' with
    | nil => rfl
    | cons b l' =>
      have e1 : h = none := h1
      have e2 : h = some b := h2.1
      rw [e1] at e2; exact Option.noConfusion e2
  | cons a l ih =>
    cases l' with
    | nil =>
      have e1 : h = some a := h1.1
      have e2 : h = none := h2
      rw [e1] at e2; exact Option.noConfusion e2
    | cons b l' =>
      have e1 : h = some a := h1.1
      have e2 : h = some b := h2.1
      rw [e1] at e2
      have e3 : a = b := Option.some.inj e2
      subst e3
      rw [ih h1.2 h2.2]

theorem IsLinked_nodup {nxt : Nat → Option Nat} {l : List Nat} {h : Option Nat}
    (h1 : IsLinked nxt h l) : l.Nodup := by
  unfold IsLinked at h1
  induction l generalizing h with
  | nil => exact List.nodup_nil
  | cons a l ih =>
    refine List.nodup_cons.mpr ⟨?_, ih h1.2⟩
    intro ha
    obtain ⟨l1, l2, e⟩ := List.append_of_mem ha
    have h2 : IsSeg nxt (nxt a) (l1 ++ a :: l2) none := by rw [← e]; exact h1.2
    rw [IsSeg_append] at h2
    obtain ⟨m, _, h3⟩ := h2
    have h4 : IsLinked nxt (nxt a) l2 := h3.2
    have h5 : IsLinked nxt (nxt a) l := h1.2
    have := IsLinked_unique h4 h5
    have hlen := congrArg List.length e
    rw [← this] at hlen
    simp only [List.length_append, List.length_cons] at hlen
    omega

theorem IsLinked_nil {nxt : Nat → Option Nat} {h : Option Nat} :
    IsLinked nxt h [] ↔ h = none := Iff.rfl

theorem IsLinked_cons {nxt : Nat → Option Nat} {h : Option Nat} {a : Nat} {l : List Nat} :
    IsLinked nxt h (a :: l) ↔ h = some a ∧ IsLinked nxt (nxt a) l := Iff.rfl

theorem IsLinked_none {nxt : Nat → Option Nat} {l : List Nat} (h : IsLinked nxt none l) :
    l = [] := IsLinked_unique h (IsLinked_nil.mpr rfl)

theorem IsLinked_some {nxt : Nat → Option Nat} {l : List Nat} {a : Nat}
    (h : IsLinked nxt (some a) l) : ∃ l', l = a :: l' ∧ IsLinked nxt (nxt a) l' := by
  cases l with
  | nil => exact Option.noConfusion (h : some a = none)
  | cons b l' =>
    have e : a = b := Option.some.inj h.1
    subst e
    exact ⟨l', rfl, h.2⟩

theorem IsLinked_congr {nxt nxt' : Nat → Option Nat} {l : List Nat} {h : Option Nat}
    (hc : ∀ a ∈ l, nxt' a = nxt a) : IsLinked nxt' h l ↔ IsLinked nxt h l :=
  IsSeg_congr hc

theorem IsLinked_snoc {nxt : Nat → Option Nat} {l : List Nat} {a : Nat} {h : Option Nat} :
    IsLinked nxt h (l ++ [a]) ↔ IsSeg nxt h l (some a) ∧ nxt a = none := IsSeg_snoc

/-! ### Frame facts for subsectors -/

@[simp] theorem modSubsec_lev_segs (L : Level) (i : Nat) (f : subsec_t → subsec_t) :
    (L.modSubsec i f).lev_segs = L.lev_segs := rfl
@[simp] theorem modSubsec_num_segs (L : Level) (i : Nat) (f : subsec_t → subsec_t) :
    (L.modSubsec i f).num_segs = L.num_segs := rfl
@[simp] theorem modSubsec_num_subsecs (L : Level) (i : Nat) (f : subsec_t → subsec_t) :
    (L.modSubsec i f).num_subsecs = L.num_subsecs := rfl
@[simp] theorem modSubsec_lev_vertices (L : Level) (i : Nat) (f : subsec_t → subsec_t) :
    (L.modSubsec i f).lev_vertices = L.lev_vertices := rfl
@[simp] theorem modSubsec_num_vertices (L : Level) (i : Nat) (f : subsec_t → subsec_t) :
    (L.modSubsec i f).num_vertices = L.num_vertices := rfl
@[simp] theorem modSeg_lev_subsecs (L : Level) (i : Nat) (f : seg_t → seg_t) :
    (L.modSeg i f).lev_subsecs = L.lev_subsecs := rfl
@[simp] theorem modSeg_num_subsecs (L : Level) (i : Nat) (f : seg_t → seg_t) :
    (L.modSeg i f).num_subsecs = L.num_subsecs := rfl
@[simp] theorem modSubsec_segNext (L : Level) (i : Nat) (f : subsec_t → subsec_t) :
    (L.modSubsec i f).segNext = L.segNext := rfl

theorem modSubsec_apply (L : Level) (i j : Nat) (f : subsec_t → subsec_t) :
    (L.modSubsec i f).lev_subsecs j = if j = i then f (L.lev_subsecs i) else L.lev_subsecs j := by
  simp only [Level.modSubsec, Function.update_apply]

theorem segNext_modSeg (L : Level) (i j : Nat) (f : seg_t → seg_t) :
    (L.modSeg i f).segNext j = if j = i then (f (L.lev_segs i)).next else L.segNext j := by
  unfold Level.segNext
  rw [modSeg_apply]
  split_ifs <;> rfl

theorem SameButSegsOf_refl (L : Level) (sub : Nat) : L.SameButSegsOf L sub :=
  ⟨rfl, rfl, rfl, rfl, fun _ _ => rfl, rfl, rfl, rfl⟩

theorem SameButSegsOf_trans {L L' L'' : Level} {sub : Nat} (h1 : L.SameButSegsOf L' sub)
    (h2 : L'.SameButSegsOf L'' sub) : L.SameButSegsOf L'' sub := by
  obtain ⟨a1, a2, a3, a4, a5, a6, a7, a8⟩ := h1
  obtain ⟨b1, b2, b3, b4, b5, b6, b7, b8⟩ := h2
  exact ⟨b1.trans a1, b2.trans a2, b3.trans a3, b4.trans a4,
    fun j hj => (b5 j hj).trans (a5 j hj), b6.trans a6, b7.trans a7, b8.trans a8⟩

theorem SameButSegsOf_modSeg (L : Level) (sub i : Nat) (f : seg_t → seg_t) :
    L.SameButSegsOf (L.modSeg i f) sub :=
  ⟨rfl, rfl, rfl, rfl, fun _ _ => rfl, rfl, rfl, rfl⟩

theorem SameButSegsOf_seg_list (L : Level) (sub : Nat) (v : Option Nat) :
    L.SameButSegsOf (L.modSubsec sub fun s => { s with seg_list := v }) sub := by
  refine ⟨rfl, rfl, rfl, rfl, ?_, ?_, ?_, ?_⟩
  · intro j hj; rw [modSubsec_apply, if_neg hj]
  · rw [modSubsec_apply, if_pos rfl]
  · rw [modSubsec_apply, if_pos rfl]
  · rw [modSubsec_apply, if_pos rfl]

theorem sansLinks_next (s : seg_t) (v : Option Nat) :
    ({ s with next := v } : seg_t).sansLinks = s.sansLinks := rfl

theorem sansLinks_index (s : seg_t) (v : Int) :
    ({ s with index := v } : seg_t).sansLinks = s.sansLinks := rfl

theorem sansLinks_linedef {s s' : seg_t} (h : s.sansLinks = s'.sansLinks) :
    s.linedef = s'.linedef := by
  show s.sansLinks.linedef = s'.sansLinks.linedef
  rw [h]

theorem sansLinks_is_degenerate {s s' : seg_t} (h : s.sansLinks = s'.sansLinks) :
    s.is_degenerate = s'.is_degenerate := by
  show s.sansLinks.is_degenerate = s'.sansLinks.is_degenerate
  rw [h]

/-! ### The unlinking loop -/

theorem UnlinkLoop_spec (keep : seg_t → Bool) (sub : Nat)
    (fuel : Nat) : ∀ (L : Level) (acc rest : List Nat) (new_head new_tail : Option Nat),
    L.SubsecList sub rest → IsLinked L.segNext new_head acc → new_tail = acc.getLast? →
    (acc ++ rest).Nodup → rest.length < fuel →
    ∃ L' nh nt, UnlinkLoop keep sub fuel L new_head new_tail = some (L', nh, nt) ∧
      IsLinked L'.segNext nh (acc ++ rest.filter fun s => keep (L.lev_segs s)) ∧
      L.SameButSegsOf L' sub ∧
      (∀ s, (L'.lev_segs s).sansLinks = (L.lev_segs s).sansLinks) ∧
      (∀ s ∈ rest, keep (L.lev_segs s) = true → (L'.lev_segs s).index = -1) ∧
      (∀ s ∈ rest, keep (L.lev_segs s) = false →
        (L'.lev_segs s).index = 1 <<< 24 ∧ (L'.lev_segs s).next = (L.lev_segs s).next) ∧
      (∀ s, s ∉ rest → (L'.lev_segs s).index = (L.lev_segs s).index) ∧
      (∀ s, s ∉ acc → s ∉ rest → L'.lev_segs s = L.lev_segs s) := by
  induction fuel with
  | zero => intro L acc rest nh nt _ _ _ _ hf; exact absurd hf (Nat.not_lt_zero _)
  | succ fuel ih =>
    intro L acc rest new_head new_tail hrest hacc htail hnd hf
    cases rest with
    | nil =>
      have e : (L.lev_subsecs sub).seg_list = none := hrest
      refine ⟨L, new_head, new_tail, ?_, ?_, SameButSegsOf_refl L sub, fun _ => rfl, ?_, ?_,
        fun _ _ => rfl, fun _ _ _ => rfl⟩
      · simp only [UnlinkLoop, e]
      · simpa using hacc
      · intro s hs; exact absurd hs (List.not_mem_nil s)
      · intro s hs; exact absurd hs (List.not_mem_nil s)
    | cons seg rest =>
      obtain ⟨e, hrest'⟩ := hrest
      have hrest'' : IsLinked L.segNext (L.lev_segs seg).next rest := hrest'
      have hnd' := List.nodup_append.mp hnd
      have hsegacc : seg ∉ acc := fun h => hnd'.2.2 h (List.mem_cons_self seg rest)
      have hsegrest : seg ∉ rest := (List.nodup_cons.mp hnd'.2.1).1
      have hlen : rest.length < fuel := by simp only [List.length_cons] at hf; omega
      by_cases hk : keep (L.lev_segs seg) = true
      · -- the seg is kept
        rcases List.eq_nil_or_concat acc with hacc0 | ⟨acc0, t, hacc0⟩
        · -- the new list is empty
          have hseg3 : ∀ j, (((L.modSubsec sub fun s =>
                { s with seg_list := (L.lev_segs seg).next }).modSeg seg
                fun s => { s with next := none }).modSeg seg
                fun s => { s with index := -1 }).lev_segs j =
              if j = seg then { L.lev_segs seg with next := none, index := -1 }
              else L.lev_segs j := by
            intro j
            simp only [modSeg_apply, modSubsec_lev_segs, eq_self_iff_true, if_true]
            split_ifs <;> rfl
          have hnx3 : ∀ j, (((L.modSubsec sub fun s =>
                { s with seg_list := (L.lev_segs seg).next }).modSeg seg
                fun s => { s with next := none }).modSeg seg
                fun s => { s with index := -1 }).segNext j =
              if j = seg then none else L.segNext j := by
            intro j
            unfold Level.segNext
            rw [hseg3 j]
            split_ifs <;> rfl
          subst hacc0
          have hnh : new_head = none := hacc
          have hnt : new_tail = none := htail
          subst hnh; subst hnt
          obtain ⟨L', nh, nt, hrun, hlist, hsame, hsl, hk1, hk2, hk3, hk4⟩ :=
            ih (((L.modSubsec sub fun s => { s with seg_list := (L.lev_segs seg).next }).modSeg seg
                fun s => { s with next := none }).modSeg seg fun s => { s with index := -1 })
              [seg] rest (some seg) (some seg)
              (by
                show IsLinked _ _ rest
                simp only [modSeg_lev_subsecs, modSubsec_apply, eq_self_iff_true, if_true]
                refine (IsLinked_congr ?_).mpr hrest''
                intro a ha
                have : a ≠ seg := fun h => hsegrest (h ▸ ha)
                rw [hnx3 a, if_neg this])
              (by
                refine ⟨rfl, ?_⟩
                show IsLinked _ _ []
                rw [hnx3 seg, if_pos rfl]
                exact IsLinked_nil.mpr rfl)
              rfl (by simpa using hnd) hlen
          refine ⟨L', nh, nt, ?_, ?_, ?_, ?_, ?_, ?_, ?_, ?_⟩
          · simp only [UnlinkLoop, e, modSubsec_lev_segs, hk, if_true]
            exact hrun
          · simp only [List.filter_cons, hk, if_true, List.nil_append]
            have hfl : rest.filter (fun s => keep ((((L.modSubsec sub fun s =>
                { s with seg_list := (L.lev_segs seg).next }).modSeg seg
                fun s => { s with next := none }).modSeg seg
                fun s => { s with index := -1 }).lev_segs s)) =
                rest.filter (fun s => keep (L.lev_segs s)) := by
              apply List.filter_congr
              intro a ha
              have : a ≠ seg := fun h => hsegrest (h ▸ ha)
              rw [hseg3 a, if_neg this]
            rw [hfl] at hlist
            exact hlist
          · refine SameButSegsOf_trans ?_ hsame
            refine SameButSegsOf_trans ?_ (SameButSegsOf_modSeg _ sub seg _)
            refine SameButSegsOf_trans ?_ (SameButSegsOf_modSeg _ sub seg _)
            exact SameButSegsOf_seg_list L sub (L.lev_segs seg).next
          · intro s
            rw [hsl s, hseg3 s]
            split_ifs with h1
            · subst h1; rfl
            · rfl
          · intro s hs hks
            rcases List.mem_cons.mp hs with h | h
            · subst h
              rw [hk3 s hsegrest, hseg3 s, if_pos rfl]
            · have hne : s ≠ seg := fun h' => hsegrest (h' ▸ h)
              apply hk1 s h
              rw [hseg3 s, if_neg hne]; exact hks
          · intro s hs hks
            rcases List.mem_cons.mp hs with h | h
            · subst h; rw [hk] at hks; exact Bool.noConfusion hks
            · have hne : s ≠ seg := fun h' => hsegrest (h' ▸ h)
              have := hk2 s h (by rw [hseg3 s, if_neg hne]; exact hks)
              rw [hseg3 s, if_neg hne] at this
              exact this
          · intro s hs
            have hne : s ≠ seg := fun h' => hs (h' ▸ List.mem_cons_self seg rest)
            have hs' : s ∉ rest := fun h' => hs (List.mem_cons_of_mem seg h')
            rw [hk3 s hs', hseg3 s, if_neg hne]
          · intro s _ hs
            have hne : s ≠ seg := fun h' => hs (h' ▸ List.mem_cons_self seg rest)
            have hs' : s ∉ rest := fun h' => hs (List.mem_cons_of_mem seg h')
            rw [hk4 s (by simpa using hne) hs', hseg3 s, if_neg hne]
        · -- the new list ends in `t`
          rw [List.concat_eq_append] at hacc0
          subst hacc0
          have hnt : new_tail = some t := by rw [htail]; simp
          subst hnt
          have ht : t ∈ acc0 ++ [t] := by simp
          have hts : t ≠ seg := fun h => hsegacc (h ▸ ht)
          have htr : t ∉ rest := fun h => hnd'.2.2 ht (List.mem_cons_of_mem seg h)
          have hacc1 := IsLinked_snoc.mp hacc
          have hnd0 : (acc0 ++ [t]).Nodup := hnd'.1
          have ht0 : t ∉ acc0 := by
            have := List.nodup_append.mp hnd0
            intro h; exact this.2.2 h (List.mem_singleton_self t)
          obtain ⟨L', nh, nt, hrun, hlist, hsame, hsl, hk1, hk2, hk3, hk4⟩ :=
            ih ((((L.modSubsec sub fun s => { s with seg_list := (L.lev_segs seg).next }).modSeg seg
                fun s => { s with next := none }).modSeg t
                fun s => { s with next := some seg }).modSeg seg fun s => { s with index := -1 })
              (acc0 ++ [t] ++ [seg]) rest new_head (some seg)
              (by
                show IsLinked _ _ rest
                simp only [modSeg_lev_subsecs, modSubsec_apply, eq_self_iff_true, if_true]
                refine (IsLinked_congr ?_).mpr hrest''
                intro a ha
                have h1 : a ≠ seg := fun h => hsegrest (h ▸ ha)
                have h2 : a ≠ t := fun h => htr (h ▸ ha)
                simp only [segNext_modSeg, if_neg h1, if_neg h2, modSubsec_segNext])
              (by
                rw [IsLinked_snoc, IsSeg_snoc]
                refine ⟨⟨?_, ?_⟩, ?_⟩
                · refine (IsSeg_congr ?_).mpr hacc1.1
                  intro a ha
                  have h1 : a ≠ seg := fun h => hsegacc (h ▸ List.mem_append_left _ ha)
                  have h2 : a ≠ t := fun h => ht0 (h ▸ ha)
                  simp only [segNext_modSeg, if_neg h1, if_neg h2, modSubsec_segNext]
                · simp only [segNext_modSeg, if_neg hts, eq_self_iff_true, if_true]
                · simp only [segNext_modSeg, eq_self_iff_true, if_true, modSeg_apply,
                    if_neg hts.symm])
              (by simp) (by simpa using hnd) hlen
          have hseg4 : ∀ j, ((((L.modSubsec sub fun s =>
                { s with seg_list := (L.lev_segs seg).next }).modSeg seg
                fun s => { s with next := none }).modSeg t
                fun s => { s with next := some seg }).modSeg seg
                fun s => { s with index := -1 }).lev_segs j =
              if j = seg then { L.lev_segs seg with next := none, index := -1 }
              else if j = t then { L.lev_segs t with next := some seg }
              else L.lev_segs j := by
            intro j
            simp only [modSeg_apply, modSubsec_lev_segs, if_neg hts, if_neg hts.symm,
              eq_self_iff_true, if_true]
            split_ifs <;> rfl
          refine ⟨L', nh, nt, ?_, ?_, ?_, ?_, ?_, ?_, ?_, ?_⟩
          · simp only [UnlinkLoop, e, modSubsec_lev_segs, hk, if_true]
            exact hrun
          · simp only [List.filter_cons, hk, if_true]
            rw [List.append_assoc] at hlist
            have hfl : rest.filter (fun s => keep (((((L.modSubsec sub fun s =>
                { s with seg_list := (L.lev_segs seg).next }).modSeg seg
                fun s => { s with next := none }).modSeg t
                fun s => { s with next := some seg }).modSeg seg
                fun s => { s with index := -1 }).lev_segs s)) =
                rest.filter (fun s => keep (L.lev_segs s)) := by
              apply List.filter_congr
              intro a ha
              have h1 : a ≠ seg := fun h => hsegrest (h ▸ ha)
              have h2 : a ≠ t := fun h => htr (h ▸ ha)
              rw [hseg4 a, if_neg h1, if_neg h2]
            rw [hfl] at hlist
            exact hlist
          · refine SameButSegsOf_trans ?_ hsame
            refine SameButSegsOf_trans ?_ (SameButSegsOf_modSeg _ sub seg _)
            refine SameButSegsOf_trans ?_ (SameButSegsOf_modSeg _ sub t _)
            refine SameButSegsOf_trans ?_ (SameButSegsOf_modSeg _ sub seg _)
            exact SameButSegsOf_seg_list L sub (L.lev_segs seg).next
          · intro s
            rw [hsl s, hseg4 s]
            split_ifs with h1 h2
            · subst h1; rfl
            · subst h2; rfl
            · rfl
          · intro s hs hks
            rcases List.mem_cons.mp hs with h | h
            · subst h
              rw [hk3 s hsegrest, hseg4 s, if_pos rfl]
            · have h1 : s ≠ seg := fun h' => hsegrest (h' ▸ h)
              have h2 : s ≠ t := fun h' => htr (h' ▸ h)
              apply hk1 s h
              rw [hseg4 s, if_neg h1, if_neg h2]; exact hks
          · intro s hs hks
            rcases List.mem_cons.mp hs with h | h
            · subst h; rw [hk] at hks; exact Bool.noConfusion hks
            · have h1 : s ≠ seg := fun h' => hsegrest (h' ▸ h)
              have h2 : s ≠ t := fun h' => htr (h' ▸ h)
              have := hk2 s h (by rw [hseg4 s, if_neg h1, if_neg h2]; exact hks)
              rw [hseg4 s, if_neg h1, if_neg h2] at this
              exact this
          · intro s hs
            have hne : s ≠ seg := fun h' => hs (h' ▸ List.mem_cons_self seg rest)
            have hs' : s ∉ rest := fun h' => hs (List.mem_cons_of_mem seg h')
            rw [hk3 s hs', hseg4 s, if_neg hne]
            split_ifs with h2
            · subst h2; rfl
            · rfl
          · intro s hsa hs
            have hne : s ≠ seg := fun h' => hs (h' ▸ List.mem_cons_self seg rest)
            have hs' : s ∉ rest := fun h' => hs (List.mem_cons_of_mem seg h')
            have h2 : s ≠ t := fun h' => hsa (h' ▸ ht)
            rw [hk4 s (by
              intro hm
              rcases List.mem_append.mp hm with hm | hm
              · exact hsa hm
              · exact hne (List.mem_singleton.mp hm)) hs', hseg4 s, if_neg hne, if_neg h2]
      · -- the seg is dropped
        have hk' : keep (L.lev_segs seg) = false := by
          cases h : keep (L.lev_segs seg)
          · rfl
          · exact absurd h hk
        have hseg2 : ∀ j, ((L.modSubsec sub fun s =>
              { s with seg_list := (L.lev_segs seg).next }).modSeg seg
              fun s => { s with index := 1 <<< 24 }).lev_segs j =
            if j = seg then { L.lev_segs seg with index := 1 <<< 24 } else L.lev_segs j := by
          intro j
          simp only [modSeg_apply, modSubsec_lev_segs]
        have hnx : ∀ j, ((L.modSubsec sub fun s =>
              { s with seg_list := (L.lev_segs seg).next }).modSeg seg
              fun s => { s with index := 1 <<< 24 }).segNext j = L.segNext j := by
          intro j
          unfold Level.segNext
          rw [hseg2 j]
          split_ifs with h
          · subst h; rfl
          · rfl
        obtain ⟨L', nh, nt, hrun, hlist, hsame, hsl, hk1, hk2, hk3, hk4⟩ :=
          ih ((L.modSubsec sub fun s => { s with seg_list := (L.lev_segs seg).next }).modSeg seg
              fun s => { s with index := 1 <<< 24 })
            acc rest new_head new_tail
            (by
              show IsLinked _ _ rest
              simp only [modSeg_lev_subsecs, modSubsec_apply, eq_self_iff_true, if_true]
              exact (IsLinked_congr (fun a _ => hnx a)).mpr hrest'')
            ((IsLinked_congr (fun a _ => hnx a)).mpr hacc) htail
            (by
              refine List.nodup_append.mpr ⟨hnd'.1, (List.nodup_cons.mp hnd'.2.1).2, ?_⟩
              intro a ha hb; exact hnd'.2.2 ha (List.mem_cons_of_mem seg hb)) hlen
        refine ⟨L', nh, nt, ?_, ?_, ?_, ?_, ?_, ?_, ?_, ?_⟩
        · simp only [UnlinkLoop, e, modSubsec_lev_segs, hk', Bool.false_eq_true, if_false]
          exact hrun
        · simp only [List.filter_cons, hk', Bool.false_eq_true, if_false]
          have hfl : rest.filter (fun s => keep (((L.modSubsec sub fun s =>
              { s with seg_list := (L.lev_segs seg).next }).modSeg seg
              fun s => { s with index := 1 <<< 24 }).lev_segs s)) =
              rest.filter (fun s => keep (L.lev_segs s)) := by
            apply List.filter_congr
            intro a ha
            have h1 : a ≠ seg := fun h => hsegrest (h ▸ ha)
            rw [hseg2 a, if_neg h1]
          rw [hfl] at hlist
          exact hlist
        · refine SameButSegsOf_trans ?_ hsame
          refine SameButSegsOf_trans ?_ (SameButSegsOf_modSeg _ sub seg _)
          exact SameButSegsOf_seg_list L sub (L.lev_segs seg).next
        · intro s
          rw [hsl s, hseg2 s]
          split_ifs with h1
          · subst h1; rfl
          · rfl
        · intro s hs hks
          rcases List.mem_cons.mp hs with h | h
          · subst h; rw [hk'] at hks; exact Bool.noConfusion hks
          · have h1 : s ≠ seg := fun h' => hsegrest (h' ▸ h)
            apply hk1 s h
            rw [hseg2 s, if_neg h1]; exact hks
        · intro s hs hks
          rcases List.mem_cons.mp hs with h | h
          · subst h
            rw [hk4 s hsegacc hsegrest, hseg2 s, if_pos rfl]
            exact ⟨rfl, rfl⟩
          · have h1 : s ≠ seg := fun h' => hsegrest (h' ▸ h)
            have := hk2 s h (by rw [hseg2 s, if_neg h1]; exact hks)
            rw [hseg2 s, if_neg h1] at this
            exact this
        · intro s hs
          have hne : s ≠ seg := fun h' => hs (h' ▸ List.mem_cons_self seg rest)
          have hs' : s ∉ rest := fun h' => hs (List.mem_cons_of_mem seg h')
          rw [hk3 s hs', hseg2 s, if_neg hne]
        · intro s hsa hs
          have hne : s ≠ seg := fun h' => hs (h' ▸ List.mem_cons_self seg rest)
          have hs' : s ∉ rest := fun h' => hs (List.mem_cons_of_mem seg h')
          rw [hk4 s hsa hs', hseg2 s, if_neg hne]

/-! ### `NormaliseSubsector` -/

theorem NormaliseSubsectorLoop_eq (sub : Nat) (fuel : Nat) :
    ∀ (L : Level) (h t : Option Nat), NormaliseSubsectorLoop sub fuel L h t =
      UnlinkLoop (fun s => decide (s.linedef ≥ 0)) sub fuel L h t := by
  induction fuel with
  | zero => intro L h t; rfl
  | succ fuel ih =>
    intro L h t
    unfold NormaliseSubsectorLoop UnlinkLoop
    cases (L.lev_subsecs sub).seg_list with
    | none => rfl
    | some seg =>
      simp only [ih, decide_eq_true_eq]

theorem filter_eq_nil_iff_forall {l : List Nat} {p : Nat → Bool} :
    l.filter p = [] ↔ ∀ s ∈ l, p s = false := by
  rw [List.filter_eq_nil_iff]
  constructor
  · intro h s hs
    cases hp : p s
    · rfl
    · exact absurd hp (h s hs)
  · intro h s hs hp
    rw [h s hs] at hp; exact Bool.noConfusion hp

/-- C15: `NormaliseSubsector` strips minisegs and nothing else: the resulting seg list is
exactly the sub-list of segs with `linedef >= 0` in their original relative order, every
removed miniseg gets index `1 << 24`, and the call fails with "normalised to being EMPTY"
if and only if the subsector contains no real seg. -/
theorem NormaliseSubsector_strips_minisegs (L : Level) (sub : Nat) (l : List Nat)
    (hl : L.SubsecList sub l) (hlt : ∀ s ∈ l, s < L.num_segs) :
    (NormaliseSubsector L sub = none ↔ ∀ s ∈ l, (L.lev_segs s).linedef < 0) ∧
    (∀ L', NormaliseSubsector L sub = some L' →
      L'.SubsecList sub (l.filter fun s => decide (0 ≤ (L.lev_segs s).linedef)) ∧
      (∀ s ∈ l, (L.lev_segs s).linedef < 0 → (L'.lev_segs s).index = 1 <<< 24) ∧
      (∀ s ∈ l, 0 ≤ (L.lev_segs s).linedef → (L'.lev_segs s).index = -1) ∧
      (∀ s, (L'.lev_segs s).sansLinks = (L.lev_segs s).sansLinks) ∧
      (∀ s, s ∉ l → L'.lev_segs s = L.lev_segs s) ∧
      L.SameButSegsOf L' sub) := by
  have hnd : l.Nodup := IsLinked_nodup hl
  have hlen : l.length < L.num_segs + 1 := Nat.lt_succ_of_le (length_le_of_nodup_lt hnd hlt)
  obtain ⟨L1, nh, nt, hrun, hlist, hsame, hsl, hk1, hk2, hk3, hk4⟩ :=
    UnlinkLoop_spec (fun s => decide (s.linedef ≥ 0)) sub (L.num_segs + 1) L [] l none none
      hl (IsLinked_nil.mpr rfl) rfl (by simpa using hnd) hlen
  simp only [List.nil_append] at hlist
  have hrun' : NormaliseSubsectorLoop sub (L.num_segs + 1) L none none = some (L1, nh, nt) := by
    rw [NormaliseSubsectorLoop_eq]; exact hrun
  have hhead := IsSeg_head hlist
  cases hnh : nh with
  | none =>
    have hnil : l.filter (fun s => decide ((L.lev_segs s).linedef ≥ 0)) = [] := by
      rw [hnh] at hlist; exact IsLinked_none hlist
    have hres : NormaliseSubsector L sub = none := by
      simp only [NormaliseSubsector, hrun', Option.some_bind, hnh]
    refine ⟨?_, ?_⟩
    · refine ⟨fun _ => ?_, fun _ => hres⟩
      intro s hs
      have := filter_eq_nil_iff_forall.mp hnil s hs
      simpa using this
    · intro L' hL'; rw [hres] at hL'; exact Option.noConfusion hL'
  | some head =>
    have hres : NormaliseSubsector L sub =
        some (L1.modSubsec sub fun s => { s with seg_list := some head }) := by
      simp only [NormaliseSubsector, hrun', Option.some_bind, hnh]
    refine ⟨?_, ?_⟩
    · constructor
      · intro h; rw [hres] at h; exact Option.noConfusion h
      · intro hall
        exfalso
        have hnil : l.filter (fun s => decide ((L.lev_segs s).linedef ≥ 0)) = [] := by
          rw [filter_eq_nil_iff_forall]
          intro s hs
          have := hall s hs
          simp only [ge_iff_le, decide_eq_false_iff_not, not_le]; exact this
        rw [hnil, hnh] at hlist
        exact Option.noConfusion (hlist : some head = none)
    · intro L' hL'
      rw [hres] at hL'
      have hL'' := Option.some.inj hL'
      subst hL''
      refine ⟨?_, ?_, ?_, hsl, ?_, ?_⟩
      · show IsLinked _ _ _
        simp only [modSubsec_apply, eq_self_iff_true, if_true, modSubsec_segNext]
        rw [hnh] at hlist
        exact hlist
      · intro s hs hneg
        exact (hk2 s hs (by simpa using hneg)).1
      · intro s hs hpos
        exact hk1 s hs (by simpa using hpos)
      · intro s hs
        exact hk4 s (List.not_mem_nil s) hs
      · exact SameButSegsOf_trans hsame (SameButSegsOf_seg_list L1 sub (some head))

theorem NormaliseSubsector_strips_minisegs_witness :
    (NormaliseSubsector demoSubsec 0 = none ↔
      ∀ s ∈ [0, 1, 2], (demoSubsec.lev_segs s).linedef < 0) ∧
    (∀ L', NormaliseSubsector demoSubsec 0 = some L' →
      L'.SubsecList 0 ([0, 1, 2].filter fun s => decide (0 ≤ (demoSubsec.lev_segs s).linedef)) ∧
      (∀ s ∈ [0, 1, 2], (demoSubsec.lev_segs s).linedef < 0 →
        (L'.lev_segs s).index = 1 <<< 24) ∧
      (∀ s ∈ [0, 1, 2], 0 ≤ (demoSubsec.lev_segs s).linedef → (L'.lev_segs s).index = -1) ∧
      (∀ s, (L'.lev_segs s).sansLinks = (demoSubsec.lev_segs s).sansLinks) ∧
      (∀ s, s ∉ [0, 1, 2] → L'.lev_segs s = demoSubsec.lev_segs s) ∧
      demoSubsec.SameButSegsOf L' 0) :=
  NormaliseSubsector_strips_minisegs demoSubsec 0 [0, 1, 2] (by decide) (by decide)

/-! ### `RoundOffSubsector` -/

theorem getLast?_filter_snoc (p : Nat → Bool) (pre : List Nat) (a : Nat) :
    ((pre ++ [a]).filter p).getLast? = if p a then some a else (pre.filter p).getLast? := by
  rw [List.filter_append]
  by_cases h : p a = true
  · simp [h]
  · simp [h]

theorem length_filter_snoc (p : Nat → Bool) (pre : List Nat) (a : Nat) :
    ((pre ++ [a]).filter p).length = (pre.filter p).length + if p a then 1 else 0 := by
  rw [List.filter_append, List.length_append]
  by_cases h : p a = true
  · simp [h]
  · simp [h]

theorem RoundOffCount_spec (I_ROUND : ℚ → Int) (fuel : Nat) :
    ∀ (L : Level) (pre rest : List Nat) (cur : Option Nat) (st : roundoff_t)
      (dg rl : Nat → Bool),
    IsLinked L.segNext cur rest → rest.length < fuel →
    (∀ s ∈ rest, (L.lev_segs s).RoundsToPoint I_ROUND L = dg s) →
    (∀ s ∈ rest, decide (0 ≤ (L.lev_segs s).linedef) = rl s) →
    st.last_real_degen = (pre.filter fun s => dg s && rl s).getLast? →
    st.real_total = ((pre.filter fun s => !dg s && rl s).length : Int) →
    ∃ L' st', RoundOffCount I_ROUND fuel L cur st = some (L', st') ∧
      st'.last_real_degen = ((pre ++ rest).filter fun s => dg s && rl s).getLast? ∧
      st'.real_total = (((pre ++ rest).filter fun s => !dg s && rl s).length : Int) ∧
      (∀ s, L'.lev_segs s = if s ∈ rest ∧ dg s = true then
          { L.lev_segs s with is_degenerate := true } else L.lev_segs s) ∧
      L'.lev_subsecs = L.lev_subsecs ∧ L'.lev_vertices = L.lev_vertices ∧
      L'.num_segs = L.num_segs ∧ L'.num_vertices = L.num_vertices ∧
      L'.num_subsecs = L.num_subsecs := by
  induction fuel with
  | zero => intro L pre rest cur st dg rl _ hf; exact absurd hf (Nat.not_lt_zero _)
  | succ fuel ih =>
    intro L pre rest cur st dg rl hl hf hdg hrl hlast htot
    cases rest with
    | nil =>
      have e : cur = none := hl
      subst e
      refine ⟨L, st, rfl, ?_, ?_, ?_, rfl, rfl, rfl, rfl, rfl⟩
      · simpa using hlast
      · simpa using htot
      · intro s; simp
    | cons seg rest =>
      have hnd := IsLinked_nodup hl
      obtain ⟨e, hl'⟩ := hl
      subst e
      have hl'' : IsLinked L.segNext (L.lev_segs seg).next rest := hl'
      have hsegrest : seg ∉ rest := (List.nodup_cons.mp hnd).1
      have hlen : rest.length < fuel := by simp only [List.length_cons] at hf; omega
      have hdgs := hdg seg (List.mem_cons_self seg rest)
      have hrls := hrl seg (List.mem_cons_self seg rest)
      by_cases hd : dg seg = true
      · -- degenerate
        have hseg1 : ∀ j, (L.modSeg seg fun s => { s with is_degenerate := true }).lev_segs j =
            if j = seg then { L.lev_segs seg with is_degenerate := true } else L.lev_segs j := by
          intro j; rw [modSeg_apply]
        have hnx1 : ∀ j, (L.modSeg seg fun s => { s with is_degenerate := true }).segNext j =
            L.segNext j := by
          intro j
          unfold Level.segNext
          rw [hseg1 j]
          split_ifs with h
          · subst h; rfl
          · rfl
        obtain ⟨L', st', hrun, h1, h2, h3, h4, h5, h6, h7, h8⟩ :=
          ih (L.modSeg seg fun s => { s with is_degenerate := true }) (pre ++ [seg]) rest
            (L.lev_segs seg).next
            { (if rl seg = true then { st with last_real_degen := some seg } else st) with
              degen_total := (if rl seg = true then { st with last_real_degen := some seg }
                else st).degen_total + 1 } dg rl
            ((IsLinked_congr (fun a _ => hnx1 a)).mpr hl'') hlen
            (by
              intro s hs
              have hne : s ≠ seg := fun h => hsegrest (h ▸ hs)
              rw [hseg1 s, if_neg hne]
              exact hdg s (List.mem_cons_of_mem seg hs))
            (by
              intro s hs
              have hne : s ≠ seg := fun h => hsegrest (h ▸ hs)
              rw [hseg1 s, if_neg hne]
              exact hrl s (List.mem_cons_of_mem seg hs))
            (by
              rw [getLast?_filter_snoc]
              by_cases hr : rl seg = true
              · simp only [hr, hd, if_true, Bool.and_self]
              · have hr' : rl seg = false := by
                  cases h : rl seg
                  · rfl
                  · exact absurd h hr
                simp only [hr', Bool.and_false, Bool.false_eq_true, if_false]
                exact hlast)
            (by
              rw [length_filter_snoc]
              simp only [hd, Bool.not_true, Bool.false_and, Bool.false_eq_true, if_false,
                add_zero]
              by_cases hr : rl seg = true
              · simp only [hr, if_true]; exact htot
              · simp only [hr, if_false]; exact htot)
        refine ⟨L', st', ?_, ?_, ?_, ?_, h4, h5, h6, h7, h8⟩
        · have hc : (L.lev_segs seg).RoundsToPoint I_ROUND L = true := by rw [hdgs]; exact hd
          have hrl' : decide ((L.lev_segs seg).linedef ≥ 0) = rl seg := hrls
          simp only [RoundOffCount, hc, if_true, modSeg_apply, eq_self_iff_true]
          simp only [ge_iff_le] at hrl'
          by_cases hr : rl seg = true
          · have : 0 ≤ (L.lev_segs seg).linedef := by
              rw [hr] at hrl'; exact of_decide_eq_true hrl'
            simp only [ge_iff_le, this, if_true]
            simp only [hr, if_true] at hrun
            exact hrun
          · have : ¬ 0 ≤ (L.lev_segs seg).linedef := by
              intro h; apply hr; rw [← hrl']; exact decide_eq_true h
            simp only [ge_iff_le, this, if_false]
            simp only [hr, if_false] at hrun
            exact hrun
        · rw [h1, List.append_assoc]; rfl
        · rw [h2, List.append_assoc]; rfl
        · intro s
          rw [h3 s, hseg1 s]
          by_cases hs : s = seg
          · subst hs
            rw [if_neg (fun h => hsegrest h.1), if_pos rfl,
              if_pos ⟨List.mem_cons_self s rest, hd⟩]
          · rw [if_neg hs]
            have : (s ∈ seg :: rest ∧ dg s = true) ↔ (s ∈ rest ∧ dg s = true) := by
              simp only [List.mem_cons, hs, false_or]
            simp only [this]
      · -- not degenerate
        obtain ⟨L', st', hrun, h1, h2, h3, h4, h5, h6, h7, h8⟩ :=
          ih L (pre ++ [seg]) rest (L.lev_segs seg).next
            (if rl seg = true then { st with real_total := st.real_total + 1 } else st) dg rl
            hl'' hlen
            (fun s hs => hdg s (List.mem_cons_of_mem seg hs))
            (fun s hs => hrl s (List.mem_cons_of_mem seg hs))
            (by
              rw [getLast?_filter_snoc]
              simp only [hd, Bool.false_and, Bool.false_eq_true, if_false]
              by_cases hr : rl seg = true
              · simp only [hr, if_true]; exact hlast
              · simp only [hr, if_false]; exact hlast)
            (by
              rw [length_filter_snoc]
              have hd' : dg seg = false := by
                cases h : dg seg
                · rfl
                · exact absurd h hd
              by_cases hr : rl seg = true
              · simp only [hr, hd', if_true, Bool.not_false, Bool.and_self]
                rw [htot]; push_cast; ring
              · have hr' : rl seg = false := by
                  cases h : rl seg
                  · rfl
                  · exact absurd h hr
                simp only [hr', Bool.and_false, Bool.false_eq_true, if_false, add_zero]
                exact htot)
        refine ⟨L', st', ?_, ?_, ?_, ?_, h4, h5, h6, h7, h8⟩
        · have hc : ¬ (L.lev_segs seg).RoundsToPoint I_ROUND L = true := by rw [hdgs]; exact hd
          have hrl' : decide ((L.lev_segs seg).linedef ≥ 0) = rl seg := hrls
          simp only [RoundOffCount, hc, if_false]
          simp only [ge_iff_le] at hrl'
          by_cases hr : rl seg = true
          · have : 0 ≤ (L.lev_segs seg).linedef := by
              rw [hr] at hrl'; exact of_decide_eq_true hrl'
            simp only [ge_iff_le, this, if_true]
            simp only [hr, if_true] at hrun
            exact hrun
          · have : ¬ 0 ≤ (L.lev_segs seg).linedef := by
              intro h; apply hr; rw [← hrl']; exact decide_eq_true h
            simp only [ge_iff_le, this, if_false]
            simp only [hr, if_false] at hrun
            exact hrun
        · rw [h1, List.append_assoc]; rfl
        · rw [h2, List.append_assoc]; rfl
        · intro s
          rw [h3 s]
          by_cases hs : s = seg
          · subst hs
            rw [if_neg (fun h => hsegrest h.1), if_neg (fun h => hd h.2)]
          · have : (s ∈ seg :: rest ∧ dg s = true) ↔ (s ∈ rest ∧ dg s = true) := by
              simp only [List.mem_cons, hs, false_or]
            simp only [this]

theorem RoundOffRemove_eq (sub : Nat) (fuel : Nat) :
    ∀ (L : Level) (h t : Option Nat), RoundOffRemove sub fuel L h t =
      UnlinkLoop (fun s => !s.is_degenerate) sub fuel L h t := by
  induction fuel with
  | zero => intro L h t; rfl
  | succ fuel ih =>
    intro L h t
    unfold RoundOffRemove UnlinkLoop
    cases (L.lev_subsecs sub).seg_list with
    | none => rfl
    | some seg =>
      simp only [ih, Bool.not_eq_true, Bool.not_eq_true']

theorem RoundOffRemove_phase (sub : Nat) (L2 : Level) (l : List Nat) (kp : Nat → Bool)
    (hl : L2.SubsecList sub l) (hlt : ∀ s ∈ l, s < L2.num_segs)
    (hkp : ∀ s ∈ l, (!(L2.lev_segs s).is_degenerate) = kp s) :
    ∃ L1 nh nt, RoundOffRemove sub (L2.num_segs + 1) L2 none none = some (L1, nh, nt) ∧
      IsLinked L1.segNext nh (l.filter kp) ∧ L2.SameButSegsOf L1 sub ∧
      (∀ s, (L1.lev_segs s).sansLinks = (L2.lev_segs s).sansLinks) := by
  have hnd : l.Nodup := IsLinked_nodup hl
  have hlen : l.length < L2.num_segs + 1 := Nat.lt_succ_of_le (length_le_of_nodup_lt hnd hlt)
  obtain ⟨L1, nh, nt, hrun, hlist, hsame, hsl, -, -, -, -⟩ :=
    UnlinkLoop_spec (fun s => !s.is_degenerate) sub (L2.num_segs + 1) L2 [] l
      none none hl (IsLinked_nil.mpr rfl) rfl (by simpa using hnd) hlen
  refine ⟨L1, nh, nt, ?_, ?_, hsame, hsl⟩
  · rw [RoundOffRemove_eq]; exact hrun
  · simp only [List.nil_append] at hlist
    have : l.filter (fun s => !(L2.lev_segs s).is_degenerate) = l.filter kp :=
      List.filter_congr hkp
    rw [← this]; exact hlist

theorem RoundOffSubsector_of_phase (I_ROUND : ℚ → Int) (place : vertex_t → vertex_t → ℚ × ℚ)
    (L Lc L2 : Level) (stc : roundoff_t) (sub : Nat) (l : List Nat) (kp : Nat → Bool)
    (hcount : RoundOffCount I_ROUND (L.num_segs + 1) L (L.lev_subsecs sub).seg_list
      { last_real_degen := none, real_total := 0, degen_total := 0 } = some (Lc, stc))
    (hresc : RoundOffRescue place Lc stc = some L2)
    (hl : L2.SubsecList sub l) (hlt : ∀ s ∈ l, s < L2.num_segs)
    (hkp : ∀ s ∈ l, (!(L2.lev_segs s).is_degenerate) = kp s)
    (hne : l.filter kp ≠ []) :
    ∃ L', RoundOffSubsector I_ROUND place L sub = some L' ∧
      L'.SubsecList sub (l.filter kp) ∧ L2.SameButSegsOf L' sub ∧
      (∀ s, (L'.lev_segs s).sansLinks = (L2.lev_segs s).sansLinks) := by
  obtain ⟨L1, nh, nt, hrun, hlist, hsame, hsl⟩ := RoundOffRemove_phase sub L2 l kp hl hlt hkp
  cases hnh : nh with
  | none =>
    rw [hnh] at hlist
    exact absurd (IsLinked_none hlist) hne
  | some head =>
    refine ⟨L1.modSubsec sub fun s => { s with seg_list := some head }, ?_, ?_, ?_, hsl⟩
    · simp only [RoundOffSubsector, hcount, Option.some_bind, hresc, hrun, hnh]
    · show IsLinked _ _ _
      simp only [modSubsec_apply, eq_self_iff_true, if_true, modSubsec_segNext]
      rw [hnh] at hlist
      exact hlist
    · exact SameButSegsOf_trans hsame (SameButSegsOf_seg_list L1 sub (some head))

theorem sansLinks_end {s s' : seg_t} (h : s.sansLinks = s'.sansLinks) : s.end_ = s'.end_ := by
  show s.sansLinks.end_ = s'.sansLinks.end_
  rw [h]

theorem NewVertexDegenerate_lev_segs (place : vertex_t → vertex_t → ℚ × ℚ) (L : Level)
    (a b : Nat) : (NewVertexDegenerate place L a b).1.lev_segs = L.lev_segs := rfl

theorem NewVertexDegenerate_lev_subsecs (place : vertex_t → vertex_t → ℚ × ℚ) (L : Level)
    (a b : Nat) : (NewVertexDegenerate place L a b).1.lev_subsecs = L.lev_subsecs := rfl

theorem NewVertexDegenerate_num_segs (place : vertex_t → vertex_t → ℚ × ℚ) (L : Level)
    (a b : Nat) : (NewVertexDegenerate place L a b).1.num_segs = L.num_segs := rfl

theorem NewVertexDegenerate_snd (place : vertex_t → vertex_t → ℚ × ℚ) (L : Level)
    (a b : Nat) : (NewVertexDegenerate place L a b).2 = L.num_vertices := rfl

/-- C16: `RoundOffSubsector` keeps a real seg alive: for every subsector containing at
least one real seg (and whose segs all start with `is_degenerate = false`), the call does
not fail and the resulting list contains at least one real, non-degenerate seg; when all
real segs round to zero length, exactly one of them (the last real degenerate in list
order) is rescued by replacing its end with `NewVertexDegenerate(start, end)`; the call
fails if and only if the subsector has no real seg at all. -/
theorem RoundOffSubsector_keeps_a_real_seg (I_ROUND : ℚ → Int)
    (place : vertex_t → vertex_t → ℚ × ℚ) (L : Level) (sub : Nat) (l : List Nat)
    (hl : L.SubsecList sub l) (hlt : ∀ s ∈ l, s < L.num_segs)
    (hflag : ∀ s ∈ l, (L.lev_segs s).is_degenerate = false) :
    (RoundOffSubsector I_ROUND place L sub = none ↔ ∀ s ∈ l, (L.lev_segs s).linedef < 0) ∧
    (∀ L', RoundOffSubsector I_ROUND place L sub = some L' →
      ∃ l', L'.SubsecList sub l' ∧
        (∃ s ∈ l', 0 ≤ (L'.lev_segs s).linedef ∧ (L'.lev_segs s).is_degenerate = false) ∧
        ((∃ s ∈ l, L.segReal s = true ∧ L.segRounds I_ROUND s = false) →
          l' = l.filter (fun s => !L.segRounds I_ROUND s) ∧
          (∀ s, (L'.lev_segs s).end_ = (L.lev_segs s).end_)) ∧
        ((∀ s ∈ l, L.segReal s = true → L.segRounds I_ROUND s = true) →
          ∃ r, (l.filter fun s => L.segRounds I_ROUND s && L.segReal s).getLast? = some r ∧
            l' = l.filter (fun s => !L.segRounds I_ROUND s || decide (s = r)) ∧
            (L'.lev_segs r).end_ =
              (NewVertexDegenerate place L (L.lev_segs r).start (L.lev_segs r).end_).2 ∧
            (∀ s, s ≠ r → (L'.lev_segs s).end_ = (L.lev_segs s).end_) ∧
            (∀ s ∈ l', 0 ≤ (L'.lev_segs s).linedef → s = r))) := by
  have hnd : l.Nodup := IsLinked_nodup hl
  have hlen : l.length < L.num_segs + 1 := Nat.lt_succ_of_le (length_le_of_nodup_lt hnd hlt)
  obtain ⟨Lc, stc, hcount, hlast, htot, hcseg, hcsub, hcv, hcn, hcnv, hcns⟩ :=
    RoundOffCount_spec I_ROUND (L.num_segs + 1) L [] l (L.lev_subsecs sub).seg_list
      { last_real_degen := none, real_total := 0, degen_total := 0 }
      (L.segRounds I_ROUND) L.segReal hl hlen (fun s _ => rfl) (fun s _ => rfl) rfl rfl
  simp only [List.nil_append] at hlast htot
  have hcnx : ∀ s, Lc.segNext s = L.segNext s := by
    intro s
    unfold Level.segNext
    rw [hcseg s]
    split_ifs <;> rfl
  have hcl : Lc.SubsecList sub l := by
    show IsLinked _ _ _
    rw [hcsub]
    exact (IsLinked_congr (fun a _ => hcnx a)).mpr hl
  have hcld : ∀ s, (Lc.lev_segs s).linedef = (L.lev_segs s).linedef := by
    intro s; rw [hcseg s]; split_ifs <;> rfl
  have hcend : ∀ s, (Lc.lev_segs s).end_ = (L.lev_segs s).end_ := by
    intro s; rw [hcseg s]; split_ifs <;> rfl
  have hcstart : ∀ s, (Lc.lev_segs s).start = (L.lev_segs s).start := by
    intro s; rw [hcseg s]; split_ifs <;> rfl
  have hcdeg : ∀ s ∈ l, (Lc.lev_segs s).is_degenerate = L.segRounds I_ROUND s := by
    intro s hs
    rw [hcseg s]
    by_cases hd : L.segRounds I_ROUND s = true
    · rw [if_pos ⟨hs, hd⟩, hd]
    · rw [if_neg (fun h => hd h.2), hflag s hs]
      cases h : L.segRounds I_ROUND s
      · rfl
      · exact absurd h hd
  have hreal_iff : ∀ s, L.segReal s = true ↔ 0 ≤ (L.lev_segs s).linedef := by
    intro s; unfold Level.segReal; exact decide_eq_true_iff
  by_cases hex : ∃ s ∈ l, L.segReal s = true ∧ L.segRounds I_ROUND s = false
  · -- some real seg does not round to a point
    obtain ⟨s0, hs0, hs0r, hs0d⟩ := hex
    have hmem : s0 ∈ l.filter (fun s => !L.segRounds I_ROUND s && L.segReal s) := by
      rw [List.mem_filter]; exact ⟨hs0, by rw [hs0r, hs0d]; rfl⟩
    have htot0 : stc.real_total ≠ 0 := by
      rw [htot]
      have := List.length_pos_of_mem hmem
      omega
    have hresc : RoundOffRescue place Lc stc = some Lc := by
      simp only [RoundOffRescue, if_neg htot0]
    obtain ⟨L', hres, hlist, hsame, hsl⟩ :=
      RoundOffSubsector_of_phase I_ROUND place L Lc Lc stc sub l
        (fun s => !L.segRounds I_ROUND s) hcount hresc hcl (by rw [hcn]; exact hlt)
        (fun s hs => by rw [hcdeg s hs])
        (by
          intro h
          have : s0 ∈ l.filter (fun s => !L.segRounds I_ROUND s) := by
            rw [List.mem_filter]; exact ⟨hs0, by rw [hs0d]; rfl⟩
          rw [h] at this; exact absurd this (List.not_mem_nil s0))
    refine ⟨?_, ?_⟩
    · constructor
      · intro h; rw [hres] at h; exact Option.noConfusion h
      · intro hall
        have := hall s0 hs0
        have := (hreal_iff s0).mp hs0r
        omega
    · intro L'' hL''
      rw [hres] at hL''
      have := Option.some.inj hL''
      subst this
      refine ⟨_, hlist, ⟨s0, ?_, ?_, ?_⟩, ?_, ?_⟩
      · rw [List.mem_filter]; exact ⟨hs0, by rw [hs0d]; rfl⟩
      · rw [sansLinks_linedef (hsl s0), hcld s0]; exact (hreal_iff s0).mp hs0r
      · rw [sansLinks_is_degenerate (hsl s0), hcdeg s0 hs0, hs0d]
      · intro _
        exact ⟨rfl, fun s => by rw [sansLinks_end (hsl s), hcend s]⟩
      · intro hall
        have := hall s0 hs0 hs0r
        rw [hs0d] at this; exact Bool.noConfusion this
  · -- every real seg rounds to a point
    have hall : ∀ s ∈ l, L.segReal s = true → L.segRounds I_ROUND s = true := by
      intro s hs hr
      by_contra hd
      apply hex
      refine ⟨s, hs, hr, ?_⟩
      cases h : L.segRounds I_ROUND s
      · rfl
      · exact absurd h hd
    have hnil : l.filter (fun s => !L.segRounds I_ROUND s && L.segReal s) = [] := by
      rw [filter_eq_nil_iff_forall]
      intro s hs
      cases hr : L.segReal s
      · simp
      · rw [hall s hs hr]; rfl
    have htot0 : stc.real_total = 0 := by rw [htot, hnil]; rfl
    cases hlr : (l.filter fun s => L.segRounds I_ROUND s && L.segReal s).getLast? with
    | none =>
      have hnil2 : l.filter (fun s => L.segRounds I_ROUND s && L.segReal s) = [] :=
        List.getLast?_eq_none_iff.mp hlr
      have hresc : RoundOffRescue place Lc stc = none := by
        simp only [RoundOffRescue, htot0, if_true, hlast, hlr]
      have hres : RoundOffSubsector I_ROUND place L sub = none := by
        simp only [RoundOffSubsector, hcount, Option.some_bind, hresc, Option.none_bind]
      refine ⟨⟨fun _ => ?_, fun _ => hres⟩, ?_⟩
      · intro s hs
        by_contra hge
        have hr : L.segReal s = true := (hreal_iff s).mpr (by omega)
        have := filter_eq_nil_iff_forall.mp hnil2 s hs
        rw [hall s hs hr, hr] at this
        exact Bool.noConfusion this
      · intro L' hL'; rw [hres] at hL'; exact Option.noConfusion hL'
    | some r =>
      have hrmem : r ∈ l.filter (fun s => L.segRounds I_ROUND s && L.segReal s) :=
        List.mem_of_getLast?_eq_some hlr
      rw [List.mem_filter] at hrmem
      obtain ⟨hrl, hrp⟩ := hrmem
      have hrd : L.segRounds I_ROUND r = true := by
        cases h : L.segRounds I_ROUND r
        · rw [h] at hrp; exact Bool.noConfusion hrp
        · rfl
      have hrr : L.segReal r = true := by
        rw [hrd] at hrp; simpa using hrp
      have hresc : RoundOffRescue place Lc stc = some
          (((NewVertexDegenerate place Lc (Lc.lev_segs r).start (Lc.lev_segs r).end_).1.modSeg r
            fun s => { s with end_ := (NewVertexDegenerate place Lc (Lc.lev_segs r).start
              (Lc.lev_segs r).end_).2 }).modSeg r fun s => { s with is_degenerate := false }) := by
        simp only [RoundOffRescue, htot0, if_true, hlast, hlr]
      have h2seg : ∀ s, ((((NewVertexDegenerate place Lc (Lc.lev_segs r).start
            (Lc.lev_segs r).end_).1.modSeg r
            fun s => { s with end_ := (NewVertexDegenerate place Lc (Lc.lev_segs r).start
              (Lc.lev_segs r).end_).2 }).modSeg r
              fun s => { s with is_degenerate := false }).lev_segs s) =
          if s = r then { Lc.lev_segs r with end_ := Lc.num_vertices, is_degenerate := false }
          else Lc.lev_segs s := by
        intro s
        simp only [modSeg_apply, NewVertexDegenerate_lev_segs, NewVertexDegenerate_snd,
          eq_self_iff_true, if_true]
        split_ifs <;> rfl
      obtain ⟨L', hres, hlist, hsame, hsl⟩ :=
        RoundOffSubsector_of_phase I_ROUND place L Lc _ stc sub l
          (fun s => !L.segRounds I_ROUND s || decide (s = r)) hcount hresc
          (by
            show IsLinked _ _ _
            simp only [modSeg_lev_subsecs, NewVertexDegenerate_lev_subsecs]
            refine (IsLinked_congr ?_).mpr hcl
            intro a _
            unfold Level.segNext
            rw [h2seg a]
            split_ifs with h
            · subst h; rfl
            · rfl)
          (by
            simp only [modSeg_num_segs, NewVertexDegenerate_num_segs]
            rw [hcn]; exact hlt)
          (by
            intro s hs
            rw [h2seg s]
            by_cases h : s = r
            · subst h
              rw [if_pos rfl]
              simp
            · rw [if_neg h, hcdeg s hs]
              simp [h])
          (by
            intro h
            have : r ∈ l.filter (fun s => !L.segRounds I_ROUND s || decide (s = r)) := by
              rw [List.mem_filter]; exact ⟨hrl, by simp⟩
            rw [h] at this; exact absurd this (List.not_mem_nil r))
      refine ⟨?_, ?_⟩
      · constructor
        · intro h; rw [hres] at h; exact Option.noConfusion h
        · intro hallneg
          have := hallneg r hrl
          have := (hreal_iff r).mp hrr
          omega
      · intro L'' hL''
        rw [hres] at hL''
        have := Option.some.inj hL''
        subst this
        have hld : ∀ s, (L'.lev_segs s).linedef = (L.lev_segs s).linedef := by
          intro s
          rw [sansLinks_linedef (hsl s), h2seg s, ← hcld s]
          split_ifs with h
          · subst h; rfl
          · rfl
        refine ⟨_, hlist, ⟨r, ?_, ?_, ?_⟩, ?_, ?_⟩
        · rw [List.mem_filter]; exact ⟨hrl, by simp⟩
        · rw [hld r]; exact (hreal_iff r).mp hrr
        · rw [sansLinks_is_degenerate (hsl r), h2seg r, if_pos rfl]
        · rintro ⟨s, hs, hsr, hsd⟩
          exact absurd ⟨s, hs, hsr, hsd⟩ hex
        · intro _
          refine ⟨r, rfl, rfl, ?_, ?_, ?_⟩
          · rw [sansLinks_end (hsl r), h2seg r, if_pos rfl, NewVertexDegenerate_snd, hcnv]
          · intro s hs
            rw [sansLinks_end (hsl s), h2seg s, if_neg hs, hcend s]
          · intro s hs hge
            rw [List.mem_filter] at hs
            obtain ⟨hsl', hkp⟩ := hs
            by_contra hne
            rw [hld s] at hge
            have hr : L.segReal s = true := (hreal_iff s).mpr hge
            have hd := hall s hsl' hr
            rw [hd] at hkp
            simp [hne] at hkp

theorem RoundOffSubsector_keeps_a_real_seg_witness :
    (RoundOffSubsector roundQ (fun a _ => (a.x + 1, a.y)) demoSubsec 0 = none ↔
      ∀ s ∈ [0, 1, 2], (demoSubsec.lev_segs s).linedef < 0) ∧
    (∀ L', RoundOffSubsector roundQ (fun a _ => (a.x + 1, a.y)) demoSubsec 0 = some L' →
      ∃ l', L'.SubsecList 0 l' ∧
        (∃ s ∈ l', 0 ≤ (L'.lev_segs s).linedef ∧ (L'.lev_segs s).is_degenerate = false) ∧
        ((∃ s ∈ [0, 1, 2], demoSubsec.segReal s = true ∧ demoSubsec.segRounds roundQ s = false) →
          l' = [0, 1, 2].filter (fun s => !demoSubsec.segRounds roundQ s) ∧
          (∀ s, (L'.lev_segs s).end_ = (demoSubsec.lev_segs s).end_)) ∧
        ((∀ s ∈ [0, 1, 2], demoSubsec.segReal s = true → demoSubsec.segRounds roundQ s = true) →
          ∃ r, ([0, 1, 2].filter fun s =>
              demoSubsec.segRounds roundQ s && demoSubsec.segReal s).getLast? = some r ∧
            l' = [0, 1, 2].filter (fun s => !demoSubsec.segRounds roundQ s || decide (s = r)) ∧
            (L'.lev_segs r).end_ =
              (NewVertexDegenerate (fun a _ => (a.x + 1, a.y)) demoSubsec
                (demoSubsec.lev_segs r).start (demoSubsec.lev_segs r).end_).2 ∧
            (∀ s, s ≠ r → (L'.lev_segs s).end_ = (demoSubsec.lev_segs s).end_) ∧
            (∀ s ∈ l', 0 ≤ (L'.lev_segs s).linedef → s = r))) :=
  RoundOffSubsector_keeps_a_real_seg roundQ (fun a _ => (a.x + 1, a.y)) demoSubsec 0 [0, 1, 2]
    (by decide) (by decide) (by decide)

/-! ### `ClockwiseOrder`: counting and copying -/

theorem ClockwiseCount_spec (fuel : Nat) : ∀ (L : Level) (cur : Option Nat) (rest : List Nat)
    (total : Nat), IsLinked L.segNext cur rest → rest.length < fuel →
    ClockwiseCount fuel L cur total = some (total + rest.length) := by
  induction fuel with
  | zero => intro L cur rest total _ hf; exact absurd hf (Nat.not_lt_zero _)
  | succ fuel ih =>
    intro L cur rest total hl hf
    cases rest with
    | nil =>
      have e : cur = none := hl
      subst e; rfl
    | cons seg rest =>
      obtain ⟨e, hl'⟩ := hl
      subst e
      have := ih L (L.lev_segs seg).next rest (total + 1) hl'
        (by simp only [List.length_cons] at hf; omega)
      simp only [ClockwiseCount, this, List.length_cons]
      congr 1; omega

theorem ClockwiseFill_spec (fuel : Nat) : ∀ (L : Level) (cur : Option Nat) (rest : List Nat)
    (array : List Nat), IsLinked L.segNext cur rest → rest.length < fuel →
    ClockwiseFill fuel L cur array = some (array ++ rest) := by
  induction fuel with
  | zero => intro L cur rest array _ hf; exact absurd hf (Nat.not_lt_zero _)
  | succ fuel ih =>
    intro L cur rest array hl hf
    cases rest with
    | nil =>
      have e : cur = none := hl
      subst e; simp [ClockwiseFill]
    | cons seg rest =>
      obtain ⟨e, hl'⟩ := hl
      subst e
      have := ih L (L.lev_segs seg).next rest (array ++ [seg]) hl'
        (by simp only [List.length_cons] at hf; omega)
      simp only [ClockwiseFill, this, List.append_assoc, List.singleton_append]

/-! ### `ClockwiseOrder`: the sorting loop -/

theorem getD_mid (pre : List Nat) (A : Nat) (post : List Nat) (d : Nat) :
    (pre ++ A :: post).getD pre.length d = A := by
  induction pre with
  | nil => rfl
  | cons p pre ih => simpa using ih

theorem getD_mid1 (pre : List Nat) (A B : Nat) (post : List Nat) (d : Nat) :
    (pre ++ A :: B :: post).getD (pre.length + 1) d = B := by
  induction pre with
  | nil => rfl
  | cons p pre ih => simpa using ih

theorem set_mid (pre : List Nat) (A X : Nat) (post : List Nat) :
    (pre ++ A :: post).set pre.length X = pre ++ X :: post := by
  induction pre with
  | nil => rfl
  | cons p pre ih => simpa using ih

theorem set_mid1 (pre : List Nat) (A B X : Nat) (post : List Nat) :
    (pre ++ A :: B :: post).set (pre.length + 1) X = pre ++ A :: X :: post := by
  induction pre with
  | nil => rfl
  | cons p pre ih => simpa using ih

theorem swap_perm (pre : List Nat) (A B : Nat) (post : List Nat) :
    (pre ++ B :: A :: post).Perm (pre ++ A :: B :: post) :=
  List.Perm.append_left pre (List.Perm.swap A B post)

theorem ascendingPairs_append (angle : Nat → ℚ) (pre X : List Nat) :
    ascendingPairs angle (pre ++ X) =
      ascendingPairs angle pre + ascendingPairs angle X +
        (pre.map fun p => (X.filter fun b => decide (angle p < angle b)).length).sum := by
  induction pre with
  | nil => simp [ascendingPairs]
  | cons p pre ih =>
    show (List.filter (fun b => decide (angle p < angle b)) (pre ++ X)).length +
        ascendingPairs angle (pre ++ X) =
      ((List.filter (fun b => decide (angle p < angle b)) pre).length +
        ascendingPairs angle pre) + ascendingPairs angle X +
        ((p :: pre).map fun p => (X.filter fun b => decide (angle p < angle b)).length).sum
    rw [ih, List.filter_append, List.length_append, List.map_cons, List.sum_cons]
    omega

theorem ascendingPairs_swap (angle : Nat → ℚ) (pre : List Nat) (A B : Nat) (post : List Nat)
    (h : angle A < angle B) :
    ascendingPairs angle (pre ++ B :: A :: post) + 1 =
      ascendingPairs angle (pre ++ A :: B :: post) := by
  rw [ascendingPairs_append, ascendingPairs_append]
  have h1 : (pre.map fun p => ((B :: A :: post).filter fun b =>
      decide (angle p < angle b)).length).sum =
      (pre.map fun p => ((A :: B :: post).filter fun b =>
        decide (angle p < angle b)).length).sum := by
    congr 1
    apply List.map_congr_left
    intro p _
    exact ((List.Perm.swap A B post).filter _).length_eq
  have h2 : ascendingPairs angle (B :: A :: post) + 1 = ascendingPairs angle (A :: B :: post) := by
    simp only [ascendingPairs, List.filter_cons]
    have hAB : decide (angle A < angle B) = true := decide_eq_true h
    have hBA : decide (angle B < angle A) = false := decide_eq_false (not_lt.mpr (le_of_lt h))
    simp only [hAB, hBA, if_true, Bool.false_eq_true, if_false, List.length_cons]
    omega
  rw [h1]
  omega

theorem ascendingPairs_le (angle : Nat → ℚ) (l : List Nat) :
    2 * ascendingPairs angle l + l.length ≤ l.length * l.length := by
  induction l with
  | nil => simp [ascendingPairs]
  | cons a l ih =>
    simp only [ascendingPairs, List.length_cons]
    have := List.length_filter_le (fun b => decide (angle a < angle b)) l
    nlinarith

/-- The sorting loop of `ClockwiseOrder` at position `i`, the array being
`pre ++ A :: post` with `i` elements in `pre` and the part up to `A` in order: it ends,
with a permutation of the array in which every angle is not smaller than the next one by
more than `ANG_EPSILON`. -/
theorem ClockwiseSort_spec (angle : Nat → ℚ) (eps : ℚ) (heps : 0 ≤ eps) (fuel : Nat) :
    ∀ (pre : List Nat) (A : Nat) (post : List Nat),
    List.Chain' (fun a b => ¬ (angle a + eps < angle b)) (pre ++ [A]) →
    2 * ascendingPairs angle (pre ++ A :: post) + post.length < fuel →
    ∃ sorted, ClockwiseSort angle eps (pre ++ A :: post).length fuel pre.length
        (pre ++ A :: post) = some sorted ∧
      sorted.Perm (pre ++ A :: post) ∧
      List.Chain' (fun a b => ¬ (angle a + eps < angle b)) sorted := by
  induction fuel with
  | zero => intro pre A post _ hf; exact absurd hf (Nat.not_lt_zero _)
  | succ fuel ih =>
    intro pre A post hch hf
    cases post with
    | nil =>
      refine ⟨pre ++ [A], ?_, List.Perm.refl _, hch⟩
      have : ¬ (pre.length + 1 < (pre ++ [A]).length) := by simp
      simp only [ClockwiseSort, this, if_false]
    | cons B post =>
      have hlt : pre.length + 1 < (pre ++ A :: B :: post).length := by simp
      by_cases hsw : angle A + eps < angle B
      · -- swap and bubble down
        have hAB : angle A < angle B := by linarith
        have hinv := ascendingPairs_swap angle pre A B post hAB
        have hlen : (pre ++ B :: A :: post).length = (pre ++ A :: B :: post).length := by simp
        have hstep : ClockwiseSort angle eps (pre ++ A :: B :: post).length (fuel + 1) pre.length
            (pre ++ A :: B :: post) =
            ClockwiseSort angle eps (pre ++ B :: A :: post).length fuel
              (if pre.length > 0 then pre.length - 1 else pre.length) (pre ++ B :: A :: post) := by
          rw [hlen]
          simp only [ClockwiseSort, hlt, if_true, getD_mid, getD_mid1, hsw, set_mid, set_mid1]
        rcases List.eq_nil_or_concat pre with hp | ⟨pre0, P, hp⟩
        · subst hp
          obtain ⟨sorted, hrun, hperm, hsorted⟩ := ih [] B (A :: post)
            (List.chain'_singleton B)
            (by simp only [List.nil_append, List.length_cons] at hinv hf ⊢; omega)
          refine ⟨sorted, ?_, hperm.trans (swap_perm [] A B post), hsorted⟩
          rw [hstep]
          simpa using hrun
        · rw [List.concat_eq_append] at hp
          subst hp
          have hch0 : List.Chain' (fun a b => ¬ (angle a + eps < angle b)) (pre0 ++ [P]) :=
            (List.chain'_append.mp hch).1
          have e : pre0 ++ P :: B :: A :: post = (pre0 ++ [P]) ++ B :: A :: post := by simp
          obtain ⟨sorted, hrun, hperm, hsorted⟩ := ih pre0 P (B :: A :: post) hch0
            (by
              rw [e]
              simp only [List.length_cons] at hf ⊢
              omega)
          refine ⟨sorted, ?_, ?_, hsorted⟩
          · rw [hstep]
            have hl : (pre0 ++ [P]).length > 0 := by simp
            simp only [hl, if_true]
            have : (pre0 ++ [P]).length - 1 = pre0.length := by simp
            rw [this, ← e]
            exact hrun
          · rw [e] at hperm
            exact hperm.trans (swap_perm (pre0 ++ [P]) A B post)
      · -- bubble up
        have e : pre ++ A :: B :: post = (pre ++ [A]) ++ B :: post := by simp
        obtain ⟨sorted, hrun, hperm, hsorted⟩ := ih (pre ++ [A]) B post
          (by
            rw [List.chain'_append]
            refine ⟨hch, List.chain'_singleton B, ?_⟩
            intro x hx y hy
            have hx' : x = A := by
              have : (pre ++ [A]).getLast? = some A := by simp
              rw [this] at hx
              exact (Option.some.inj hx).symm
            have hy' : y = B := (Option.some.inj hy).symm
            rw [hx', hy']
            exact hsw)
          (by
            rw [← e]
            simp only [List.length_cons] at hf
            omega)
        refine ⟨sorted, ?_, ?_, hsorted⟩
        · have hstep : ClockwiseSort angle eps (pre ++ A :: B :: post).length (fuel + 1)
              pre.length (pre ++ A :: B :: post) =
              ClockwiseSort angle eps (pre ++ A :: B :: post).length fuel (pre.length + 1)
                (pre ++ A :: B :: post) := by
            simp only [ClockwiseSort, hlt, if_true, getD_mid, getD_mid1, hsw, if_false]
          rw [hstep, e]
          have : (pre ++ [A]).length = pre.length + 1 := by simp
          rw [← this]
          exact hrun
        · rw [e]; exact hperm

/-! ### `ClockwiseOrder`: choosing the first seg -/

theorem ClockwiseScore_nonneg (doc : Document) (L : Level) (seg : Nat) :
    0 ≤ ClockwiseScore doc L seg := by
  unfold ClockwiseScore
  split_ifs <;> decide

theorem ClockwiseScore_real (doc : Document) (L : Level) (seg : Nat) :
    0 ≤ (L.lev_segs seg).linedef ↔ 2 ≤ ClockwiseScore doc L seg := by
  unfold ClockwiseScore
  by_cases h : (L.lev_segs seg).linedef < 0
  · rw [if_pos h]
    constructor
    · intro h'; omega
    · intro h'; exact absurd h' (by decide)
  · rw [if_neg h]
    constructor
    · intro _; split_ifs <;> decide
    · intro _; omega

theorem ClockwiseFirst_loop (doc : Document) (L : Level) (array : List Nat) (m : Nat) :
    ((List.range (m + 1)).foldl
      (fun (st : Nat × Int) (i : Nat) =>
        let cur_score := ClockwiseScore doc L (array.getD i 0)
        if cur_score > st.2 then (i, cur_score) else st) (0, -1)).1 < m + 1 ∧
    ((List.range (m + 1)).foldl
      (fun (st : Nat × Int) (i : Nat) =>
        let cur_score := ClockwiseScore doc L (array.getD i 0)
        if cur_score > st.2 then (i, cur_score) else st) (0, -1)).2 =
      ClockwiseScore doc L (array.getD ((List.range (m + 1)).foldl
        (fun (st : Nat × Int) (i : Nat) =>
          let cur_score := ClockwiseScore doc L (array.getD i 0)
          if cur_score > st.2 then (i, cur_score) else st) (0, -1)).1 0) ∧
    ∀ i, i < m + 1 → ClockwiseScore doc L (array.getD i 0) ≤
      ((List.range (m + 1)).foldl
        (fun (st : Nat × Int) (i : Nat) =>
          let cur_score := ClockwiseScore doc L (array.getD i 0)
          if cur_score > st.2 then (i, cur_score) else st) (0, -1)).2 := by
  induction m with
  | zero =>
    have h0 := ClockwiseScore_nonneg doc L (array.getD 0 0)
    have hgt : ClockwiseScore doc L (array.getD 0 0) > -1 := by omega
    have hr : List.range (0 + 1) = [0] := rfl
    rw [hr]
    simp only [List.foldl_cons, List.foldl_nil, hgt, if_true, zero_add]
    refine ⟨Nat.lt_succ_self 0, trivial, ?_⟩
    intro i hi
    have : i = 0 := by omega
    subst this; exact le_refl _
  | succ m ih =>
    rw [List.range_succ, List.foldl_append]
    simp only [List.foldl_cons, List.foldl_nil]
    generalize (List.range (m + 1)).foldl
      (fun (st : Nat × Int) (i : Nat) =>
        let cur_score := ClockwiseScore doc L (array.getD i 0)
        if cur_score > st.2 then (i, cur_score) else st) (0, -1) = st at ih
    obtain ⟨h1, h2, h3⟩ := ih
    by_cases hgt : ClockwiseScore doc L (array.getD (m + 1) 0) > st.2
    · simp only [hgt, if_true]
      refine ⟨Nat.lt_succ_self _, trivial, ?_⟩
      intro i hi
      rcases Nat.lt_succ_iff_lt_or_eq.mp hi with h | h
      · have := h3 i h; omega
      · subst h; exact le_refl _
    · simp only [hgt, if_false]
      refine ⟨by omega, h2, ?_⟩
      intro i hi
      rcases Nat.lt_succ_iff_lt_or_eq.mp hi with h | h
      · exact h3 i h
      · subst h; omega

theorem ClockwiseFirst_spec (doc : Document) (L : Level) (array : List Nat) (total : Nat)
    (ht : 0 < total) :
    (ClockwiseFirst doc L array total).1 < total ∧
    ∀ i, i < total → ClockwiseScore doc L (array.getD i 0) ≤
      ClockwiseScore doc L (array.getD (ClockwiseFirst doc L array total).1 0) := by
  obtain ⟨m, rfl⟩ : ∃ m, total = m + 1 := ⟨total - 1, by omega⟩
  obtain ⟨h1, h2, h3⟩ := ClockwiseFirst_loop doc L array m
  unfold ClockwiseFirst
  refine ⟨h1, ?_⟩
  intro i hi
  rw [← h2]
  exact h3 i hi

/-! ### `ClockwiseOrder`: the transfer back into the subsector -/

theorem map_rotate_eq (array : List Nat) (first : Nat) :
    (List.range array.length).map (fun i => array.getD ((i + first) % array.length) 0) =
      array.rotate first := by
  apply List.ext_getElem
  · simp
  · intro i h1 h2
    simp only [List.length_map, List.length_range] at h1
    simp only [List.getElem_map, List.getElem_range, List.getElem_rotate]
    have : (i + first) % array.length < array.length := Nat.mod_lt _ (by omega)
    rw [List.getD_eq_getElem _ _ this]

theorem range'_cons' (k n : Nat) (h : k < n) :
    List.range' k (n - k) = k :: List.range' (k + 1) (n - (k + 1)) := by
  have : n - k = (n - (k + 1)) + 1 := by omega
  rw [this, List.range'_succ]

theorem ClockwiseTransfer_spec (g_array : List Nat) (first total sub : Nat)
    (hnd : ((List.range total).map
      fun i => g_array.getD ((i + first) % total) 0).Nodup) (k : Nat) :
    ∀ (L : Level), k ≤ total →
    L.SubsecList sub ((List.range' k (total - k)).map
      fun i => g_array.getD ((i + first) % total) 0) →
    (ClockwiseTransfer g_array first total sub k L).SubsecList sub
      ((List.range total).map fun i => g_array.getD ((i + first) % total) 0) ∧
    L.SameButSegsOf (ClockwiseTransfer g_array first total sub k L) sub ∧
    (∀ s, ((ClockwiseTransfer g_array first total sub k L).lev_segs s).sansLinks =
      (L.lev_segs s).sansLinks) ∧
    (∀ s, ((ClockwiseTransfer g_array first total sub k L).lev_segs s).index =
      (L.lev_segs s).index) ∧
    (∀ s, s ∉ (List.range total).map (fun i => g_array.getD ((i + first) % total) 0) →
      (ClockwiseTransfer g_array first total sub k L).lev_segs s = L.lev_segs s) := by
  induction k with
  | zero =>
    intro L _ hl
    refine ⟨?_, SameButSegsOf_refl L sub, fun _ => rfl, fun _ => rfl, fun _ _ => rfl⟩
    simp only [ClockwiseTransfer]
    rw [List.range_eq_range']
    simpa using hl
  | succ k ih =>
    intro L hk hl
    have hkt : k < total := hk
    set g : Nat → Nat := fun i => g_array.getD ((i + first) % total) 0 with hg
    have hinj := (List.nodup_map_iff_inj_on (List.nodup_range total)).mp hnd
    have hgk : g k ∉ (List.range' (k + 1) (total - (k + 1))).map g := by
      intro hm
      rw [List.mem_map] at hm
      obtain ⟨j, hj, hjk⟩ := hm
      rw [List.mem_range'_1] at hj
      have := hinj j (List.mem_range.mpr (by omega)) k (List.mem_range.mpr hkt) hjk
      omega
    have hseg1 : ∀ j, ((ListAddSeg L (L.lev_subsecs sub).seg_list (g k)).1.modSubsec sub
        fun s => { s with seg_list :=
          (ListAddSeg L (L.lev_subsecs sub).seg_list (g k)).2 }).lev_segs j =
        if j = g k then { L.lev_segs (g k) with next := (L.lev_subsecs sub).seg_list }
        else L.lev_segs j := by
      intro j
      rw [modSubsec_lev_segs, ListAddSeg_apply]
    obtain ⟨h1, h2, h3, h4, h5⟩ := ih
      ((ListAddSeg L (L.lev_subsecs sub).seg_list (g k)).1.modSubsec sub
        fun s => { s with seg_list := (ListAddSeg L (L.lev_subsecs sub).seg_list (g k)).2 })
      (by omega)
      (by
        rw [range'_cons' k total hkt, List.map_cons]
        refine ⟨?_, ?_⟩
        · simp only [modSubsec_apply, eq_self_iff_true, if_true, ListAddSeg_snd]
        · show IsLinked _ _ _
          have hnx : ((ListAddSeg L (L.lev_subsecs sub).seg_list (g k)).1.modSubsec sub
              fun s => { s with seg_list :=
                (ListAddSeg L (L.lev_subsecs sub).seg_list (g k)).2 }).segNext (g k) =
              (L.lev_subsecs sub).seg_list := by
            unfold Level.segNext
            rw [hseg1, if_pos rfl]
          rw [hnx]
          refine (IsLinked_congr ?_).mpr hl
          intro a ha
          have hne : a ≠ g k := fun h => hgk (h ▸ ha)
          unfold Level.segNext
          rw [hseg1, if_neg hne])
    refine ⟨h1, ?_, ?_, ?_, ?_⟩
    · refine SameButSegsOf_trans ?_ h2
      refine SameButSegsOf_trans ?_ (SameButSegsOf_seg_list _ sub _)
      exact SameButSegsOf_modSeg L sub (g k) _
    · intro s
      have := h3 s
      rw [hseg1 s] at this
      show ((ClockwiseTransfer g_array first total sub k _).lev_segs s).sansLinks = _
      rw [this]
      split_ifs with h
      · subst h; rfl
      · rfl
    · intro s
      have := h4 s
      rw [hseg1 s] at this
      show ((ClockwiseTransfer g_array first total sub k _).lev_segs s).index = _
      rw [this]
      split_ifs with h
      · subst h; rfl
      · rfl
    · intro s hs
      have := h5 s hs
      rw [hseg1 s] at this
      show (ClockwiseTransfer g_array first total sub k _).lev_segs s = _
      rw [this]
      have hne : s ≠ g k := by
        intro h
        apply hs
        rw [List.mem_map]
        exact ⟨k, List.mem_range.mpr hkt, h.symm⟩
      rw [if_neg hne]

/-! ### `ClockwiseOrder` -/

/-- What `ClockwiseOrder` does to a subsector whose seg list is `l`: the array is sorted
into `sorted` and the list becomes `sorted` rotated to the chosen first seg. -/
theorem ClockwiseOrder_spec (UtilComputeAngle : ℚ → ℚ → ℚ) (eps : ℚ) (heps : 0 ≤ eps)
    (doc : Document) (L : Level) (sub : Nat) (l : List Nat) (hl : L.SubsecList sub l)
    (hlt : ∀ s ∈ l, s < L.num_segs) :
    ∃ L' sorted, ClockwiseOrder UtilComputeAngle eps doc L sub = some L' ∧
      sorted.Perm l ∧
      List.Chain' (fun a b => ¬ (ClockwiseAngle UtilComputeAngle L sub a + eps <
        ClockwiseAngle UtilComputeAngle L sub b)) sorted ∧
      L'.SubsecList sub (sorted.rotate (ClockwiseFirst doc L sorted l.length).1) ∧
      L.SameButSegsOf L' sub ∧
      (∀ s, (L'.lev_segs s).sansLinks = (L.lev_segs s).sansLinks) ∧
      (∀ s, (L'.lev_segs s).index = (L.lev_segs s).index) ∧
      (∀ s, s ∉ l → L'.lev_segs s = L.lev_segs s) := by
  have hnd : l.Nodup := IsLinked_nodup hl
  have hlen : l.length < L.num_segs + 1 := Nat.lt_succ_of_le (length_le_of_nodup_lt hnd hlt)
  have hcount := ClockwiseCount_spec (L.num_segs + 1) L _ l 0 hl hlen
  have hfill := ClockwiseFill_spec (L.num_segs + 1) L _ l [] hl hlen
  simp only [zero_add, List.nil_append] at hcount hfill
  have hsort : ∃ sorted, ClockwiseSort (ClockwiseAngle UtilComputeAngle L sub) eps l.length
      (l.length * l.length + 1) 0 l = some sorted ∧ sorted.Perm l ∧
      List.Chain' (fun a b => ¬ (ClockwiseAngle UtilComputeAngle L sub a + eps <
        ClockwiseAngle UtilComputeAngle L sub b)) sorted := by
    cases l with
    | nil =>
      refine ⟨[], ?_, List.Perm.refl _, List.chain'_nil⟩
      simp [ClockwiseSort]
    | cons A post =>
      have := ClockwiseSort_spec (ClockwiseAngle UtilComputeAngle L sub) eps heps
        ((A :: post).length * (A :: post).length + 1) [] A post (List.chain'_singleton A)
        (by
          have := ascendingPairs_le (ClockwiseAngle UtilComputeAngle L sub) (A :: post)
          simp only [List.nil_append, List.length_cons] at this ⊢
          omega)
      simpa using this
  obtain ⟨sorted, hrun, hperm, hsorted⟩ := hsort
  have hslen : sorted.length = l.length := hperm.length_eq
  have hmap := map_rotate_eq sorted (ClockwiseFirst doc L sorted l.length).1
  rw [hslen] at hmap
  have hsnd : ((List.range l.length).map fun i =>
      sorted.getD ((i + (ClockwiseFirst doc L sorted l.length).1) % l.length) 0).Nodup := by
    rw [hmap]
    exact ((List.rotate_perm sorted _).trans hperm).nodup_iff.mpr hnd
  obtain ⟨h1, h2, h3, h4, h5⟩ := ClockwiseTransfer_spec sorted
    (ClockwiseFirst doc L sorted l.length).1 l.length sub hsnd l.length
    (L.modSubsec sub fun s => { s with seg_list := none }) (le_refl _)
    (by
      show IsLinked _ _ _
      simp only [Nat.sub_self, List.range'_zero, List.map_nil, modSubsec_apply,
        eq_self_iff_true, if_true]
      exact IsLinked_nil.mpr rfl)
  rw [hmap] at h1 h5
  refine ⟨_, sorted, ?_, hperm, hsorted, h1, ?_, h3, h4, ?_⟩
  · simp only [ClockwiseOrder, hcount, hfill, Option.some_bind, ne_eq, not_true_eq_false,
      if_false, hrun]
  · exact SameButSegsOf_trans (SameButSegsOf_seg_list L sub none) h2
  · intro s hs
    apply h5 s
    intro hm
    exact hs (hperm.subset ((List.rotate_perm sorted _).subset hm))

/-- C12: `ClockwiseOrder` permutes and orders: the resulting seg list of a subsector
contains exactly the same segs as before (same multiset, same count), and it is a rotation
of an arrangement in which every seg's angle from the mid-point to its start is not
smaller than the next seg's angle by more than `ANG_EPSILON` (descending angles). -/
theorem ClockwiseOrder_permutes_and_orders (UtilComputeAngle : ℚ → ℚ → ℚ) (ANG_EPSILON : ℚ)
    (heps : 0 ≤ ANG_EPSILON) (doc : Document) (L : Level) (sub : Nat) (l : List Nat)
    (hl : L.SubsecList sub l) (hlt : ∀ s ∈ l, s < L.num_segs) :
    ∃ L' l', ClockwiseOrder UtilComputeAngle ANG_EPSILON doc L sub = some L' ∧
      L'.SubsecList sub l' ∧ l'.Perm l ∧ l'.length = l.length ∧
      (∃ sorted k, l' = sorted.rotate k ∧
        List.Chain' (fun a b => ClockwiseAngle UtilComputeAngle L' sub b ≤
          ClockwiseAngle UtilComputeAngle L' sub a + ANG_EPSILON) sorted) ∧
      (∀ s, (L'.lev_segs s).sansLinks = (L.lev_segs s).sansLinks) ∧
      (∀ s, (L'.lev_segs s).index = (L.lev_segs s).index) := by
  obtain ⟨L', sorted, hrun, hperm, hsorted, hlist, hsame, hsl, hidx, -⟩ :=
    ClockwiseOrder_spec UtilComputeAngle ANG_EPSILON heps doc L sub l hl hlt
  have hang : ∀ s, ClockwiseAngle UtilComputeAngle L' sub s =
      ClockwiseAngle UtilComputeAngle L sub s := by
    intro s
    obtain ⟨-, -, hv, -, -, -, hmx, hmy⟩ := hsame
    have hst : (L'.lev_segs s).start = (L.lev_segs s).start := by
      show (L'.lev_segs s).sansLinks.start = (L.lev_segs s).sansLinks.start
      rw [hsl s]
    unfold ClockwiseAngle
    rw [hv, hst, hmx, hmy]
  have hp : (sorted.rotate (ClockwiseFirst doc L sorted l.length).1).Perm l :=
    (List.rotate_perm sorted _).trans hperm
  refine ⟨L', _, hrun, hlist, hp, hp.length_eq, ⟨sorted, _, rfl, ?_⟩, hsl, hidx⟩
  refine List.Chain'.imp ?_ hsorted
  intro a b hab
  rw [hang a, hang b]
  exact not_lt.mp hab

/-- C13: after `ClockwiseOrder` the first seg of a non-empty subsector has the highest
preference score among all its segs (3 for a real seg of a non-self-referencing linedef,
2 for a real seg of a self-referencing linedef, 0 for a miniseg); in particular the first
seg is a real seg whenever the subsector contains any real seg. -/
theorem ClockwiseOrder_first_seg_is_preferred (UtilComputeAngle : ℚ → ℚ → ℚ)
    (ANG_EPSILON : ℚ) (heps : 0 ≤ ANG_EPSILON) (doc : Document) (L : Level) (sub : Nat)
    (l : List Nat) (hl : L.SubsecList sub l) (hlt : ∀ s ∈ l, s < L.num_segs) (hne : l ≠ []) :
    ∃ L' head, ClockwiseOrder UtilComputeAngle ANG_EPSILON doc L sub = some L' ∧
      (L'.lev_subsecs sub).seg_list = some head ∧ head ∈ l ∧
      (∀ s ∈ l, ClockwiseScore doc L' s ≤ ClockwiseScore doc L' head) ∧
      (ClockwiseScore doc L' head = 3 ∨ ClockwiseScore doc L' head = 2 ∨
        ClockwiseScore doc L' head = 0) ∧
      ((∃ s ∈ l, 0 ≤ (L'.lev_segs s).linedef) → 0 ≤ (L'.lev_segs head).linedef) := by
  obtain ⟨L', sorted, hrun, hperm, hsorted, hlist, hsame, hsl, hidx, -⟩ :=
    ClockwiseOrder_spec UtilComputeAngle ANG_EPSILON heps doc L sub l hl hlt
  have hslen : sorted.length = l.length := hperm.length_eq
  have hpos : 0 < l.length := List.length_pos.mpr hne
  obtain ⟨hf1, hf2⟩ := ClockwiseFirst_spec doc L sorted l.length hpos
  set first := (ClockwiseFirst doc L sorted l.length).1 with hfirst
  have hsc : ∀ s, ClockwiseScore doc L' s = ClockwiseScore doc L s := by
    intro s
    unfold ClockwiseScore
    rw [sansLinks_linedef (hsl s)]
  have hfs : first < sorted.length := by rw [hslen]; exact hf1
  have hrot : sorted.rotate first = sorted.drop first ++ sorted.take first :=
    List.rotate_eq_drop_append_take (le_of_lt hfs)
  have hdrop : sorted.drop first = sorted[first] :: sorted.drop (first + 1) :=
    List.drop_eq_getElem_cons hfs
  have hhead : (L'.lev_subsecs sub).seg_list = some sorted[first] := by
    have h := hlist
    rw [hrot, hdrop] at h
    exact h.1
  have hmemh : sorted[first] ∈ l := hperm.subset (List.getElem_mem hfs)
  have hmax : ∀ s ∈ l, ClockwiseScore doc L' s ≤ ClockwiseScore doc L' sorted[first] := by
    intro s hs
    have hs' : s ∈ sorted := hperm.symm.subset hs
    obtain ⟨i, hi, rfl⟩ := List.getElem_of_mem hs'
    rw [hsc, hsc]
    have := hf2 i (by rw [← hslen]; exact hi)
    rw [List.getD_eq_getElem _ _ hi, List.getD_eq_getElem _ _ hfs] at this
    exact this
  refine ⟨L', sorted[first], hrun, hhead, hmemh, hmax, ?_, ?_⟩
  · unfold ClockwiseScore
    split_ifs
    · exact Or.inr (Or.inr rfl)
    · exact Or.inr (Or.inl rfl)
    · exact Or.inl rfl
  · rintro ⟨s, hs, hreal⟩
    have h1 := (ClockwiseScore_real doc L' s).mp hreal
    have h2 := hmax s hs
    exact (ClockwiseScore_real doc L' sorted[first]).mpr (by omega)

theorem ClockwiseOrder_permutes_and_orders_witness :
    ∃ L' l', ClockwiseOrder diamondAngle (1 / 10000) demoDoc demoSubsec 0 = some L' ∧
      L'.SubsecList 0 l' ∧ l'.Perm [0, 1, 2] ∧ l'.length = [0, 1, 2].length ∧
      (∃ sorted k, l' = sorted.rotate k ∧
        List.Chain' (fun a b => ClockwiseAngle diamondAngle L' 0 b ≤
          ClockwiseAngle diamondAngle L' 0 a + 1 / 10000) sorted) ∧
      (∀ s, (L'.lev_segs s).sansLinks = (demoSubsec.lev_segs s).sansLinks) ∧
      (∀ s, (L'.lev_segs s).index = (demoSubsec.lev_segs s).index) :=
  ClockwiseOrder_permutes_and_orders diamondAngle (1 / 10000) (by decide!) demoDoc demoSubsec 0
    [0, 1, 2] (by decide) (by decide)

theorem ClockwiseOrder_first_seg_is_preferred_witness :
    ∃ L' head, ClockwiseOrder diamondAngle (1 / 10000) demoDoc demoSubsec 0 = some L' ∧
      (L'.lev_subsecs 0).seg_list = some head ∧ head ∈ [0, 1, 2] ∧
      (∀ s ∈ [0, 1, 2], ClockwiseScore demoDoc L' s ≤ ClockwiseScore demoDoc L' head) ∧
      (ClockwiseScore demoDoc L' head = 3 ∨ ClockwiseScore demoDoc L' head = 2 ∨
        ClockwiseScore demoDoc L' head = 0) ∧
      ((∃ s ∈ [0, 1, 2], 0 ≤ (L'.lev_segs s).linedef) → 0 ≤ (L'.lev_segs head).linedef) :=
  ClockwiseOrder_first_seg_is_preferred diamondAngle (1 / 10000) (by decide!) demoDoc
    demoSubsec 0 [0, 1, 2] (by decide) (by decide) (by decide)

/-! ### `RoundOffSubsector`: which segs are removed -/

theorem RoundOffSubsector_of_phase_index (I_ROUND : ℚ → Int)
    (place : vertex_t → vertex_t → ℚ × ℚ)
    (L Lc L2 : Level) (stc : roundoff_t) (sub : Nat) (l : List Nat) (kp : Nat → Bool)
    (hcount : RoundOffCount I_ROUND (L.num_segs + 1) L (L.lev_subsecs sub).seg_list
      { last_real_degen := none, real_total := 0, degen_total := 0 } = some (Lc, stc))
    (hresc : RoundOffRescue place Lc stc = some L2)
    (hl : L2.SubsecList sub l) (hlt : ∀ s ∈ l, s < L2.num_segs)
    (hkp : ∀ s ∈ l, (!(L2.lev_segs s).is_degenerate) = kp s) :
    ∀ L', RoundOffSubsector I_ROUND place L sub = some L' →
      L'.SubsecList sub (l.filter kp) ∧
      (∀ s, (L'.lev_segs s).sansLinks = (L2.lev_segs s).sansLinks) ∧
      (∀ s ∈ l, kp s = false → (L'.lev_segs s).index = 1 <<< 24) ∧
      (∀ s ∈ l, kp s = true → (L'.lev_segs s).index = -1) := by
  have hnd : l.Nodup := IsLinked_nodup hl
  have hlen : l.length < L2.num_segs + 1 := Nat.lt_succ_of_le (length_le_of_nodup_lt hnd hlt)
  obtain ⟨L1, nh, nt, hrun, hlist, hsame, hsl, hk1, hk2, -, -⟩ :=
    UnlinkLoop_spec (fun s => !s.is_degenerate) sub (L2.num_segs + 1) L2 [] l
      none none hl (IsLinked_nil.mpr rfl) rfl (by simpa using hnd) hlen
  have hrun' : RoundOffRemove sub (L2.num_segs + 1) L2 none none = some (L1, nh, nt) := by
    rw [RoundOffRemove_eq]; exact hrun
  simp only [List.nil_append] at hlist
  have hfl : l.filter (fun s => !(L2.lev_segs s).is_degenerate) = l.filter kp :=
    List.filter_congr hkp
  rw [hfl] at hlist
  intro L' hL'
  cases hnh : nh with
  | none =>
    simp only [RoundOffSubsector, hcount, Option.some_bind, hresc, hrun', hnh] at hL'
    exact Option.noConfusion hL'
  | some head =>
    simp only [RoundOffSubsector, hcount, Option.some_bind, hresc, hrun', hnh] at hL'
    have := Option.some.inj hL'
    subst this
    refine ⟨?_, hsl, ?_, ?_⟩
    · show IsLinked _ _ _
      simp only [modSubsec_apply, eq_self_iff_true, if_true, modSubsec_segNext]
      rw [hnh] at hlist
      exact hlist
    · intro s hs hk
      exact (hk2 s hs (by rw [hkp s hs]; exact hk)).1
    · intro s hs hk
      exact hk1 s hs (by rw [hkp s hs]; exact hk)

/-- C30: `RoundOffSubsector` removes exactly the degenerate segs: a seg is marked
`is_degenerate` iff `I_ROUND` of its start and end coordinates coincide in both x and y;
the resulting list consists of the segs not marked degenerate (plus the rescued one, if
any) in their original relative order, and every removed seg gets index `1 << 24`. -/
theorem RoundOffSubsector_removes_degenerate_segs (I_ROUND : ℚ → Int)
    (place : vertex_t → vertex_t → ℚ × ℚ) (L : Level) (sub : Nat) (l : List Nat)
    (hl : L.SubsecList sub l) (hlt : ∀ s ∈ l, s < L.num_segs)
    (hflag : ∀ s ∈ l, (L.lev_segs s).is_degenerate = false) :
    ∀ L', RoundOffSubsector I_ROUND place L sub = some L' →
      ∃ rescued : Option Nat,
        ((∃ s ∈ l, L.segReal s = true ∧ L.segRounds I_ROUND s = false) → rescued = none) ∧
        ((∀ s ∈ l, L.segReal s = true → L.segRounds I_ROUND s = true) →
          rescued = (l.filter fun s => L.segRounds I_ROUND s && L.segReal s).getLast?) ∧
        L'.SubsecList sub
          (l.filter fun s => !L.segRounds I_ROUND s || decide (rescued = some s)) ∧
        (∀ s ∈ l, (L'.lev_segs s).is_degenerate =
          (L.segRounds I_ROUND s && !decide (rescued = some s))) ∧
        (∀ s ∈ l, L.segRounds I_ROUND s = true → rescued ≠ some s →
          (L'.lev_segs s).index = 1 <<< 24) ∧
        (∀ s ∈ l, (L.segRounds I_ROUND s = false ∨ rescued = some s) →
          (L'.lev_segs s).index = -1) := by
  have hnd : l.Nodup := IsLinked_nodup hl
  have hlen : l.length < L.num_segs + 1 := Nat.lt_succ_of_le (length_le_of_nodup_lt hnd hlt)
  obtain ⟨Lc, stc, hcount, hlast, htot, hcseg, hcsub, hcv, hcn, hcnv, hcns⟩ :=
    RoundOffCount_spec I_ROUND (L.num_segs + 1) L [] l (L.lev_subsecs sub).seg_list
      { last_real_degen := none, real_total := 0, degen_total := 0 }
      (L.segRounds I_ROUND) L.segReal hl hlen (fun s _ => rfl) (fun s _ => rfl) rfl rfl
  simp only [List.nil_append] at hlast htot
  have hcnx : ∀ s, Lc.segNext s = L.segNext s := by
    intro s
    unfold Level.segNext
    rw [hcseg s]
    split_ifs <;> rfl
  have hcl : Lc.SubsecList sub l := by
    show IsLinked _ _ _
    rw [hcsub]
    exact (IsLinked_congr (fun a _ => hcnx a)).mpr hl
  have hcdeg : ∀ s ∈ l, (Lc.lev_segs s).is_degenerate = L.segRounds I_ROUND s := by
    intro s hs
    rw [hcseg s]
    by_cases hd : L.segRounds I_ROUND s = true
    · rw [if_pos ⟨hs, hd⟩, hd]
    · rw [if_neg (fun h => hd h.2), hflag s hs]
      cases h : L.segRounds I_ROUND s
      · rfl
      · exact absurd h hd
  intro L' hL'
  by_cases hex : ∃ s ∈ l, L.segReal s = true ∧ L.segRounds I_ROUND s = false
  · obtain ⟨s0, hs0, hs0r, hs0d⟩ := hex
    have hmem : s0 ∈ l.filter (fun s => !L.segRounds I_ROUND s && L.segReal s) := by
      rw [List.mem_filter]; exact ⟨hs0, by rw [hs0r, hs0d]; rfl⟩
    have htot0 : stc.real_total ≠ 0 := by
      rw [htot]
      have := List.length_pos_of_mem hmem
      omega
    have hresc : RoundOffRescue place Lc stc = some Lc := by
      simp only [RoundOffRescue, if_neg htot0]
    obtain ⟨h1, h2, h3, h4⟩ :=
      RoundOffSubsector_of_phase_index I_ROUND place L Lc Lc stc sub l
        (fun s => !L.segRounds I_ROUND s) hcount hresc hcl (by rw [hcn]; exact hlt)
        (fun s hs => by rw [hcdeg s hs]) L' hL'
    refine ⟨none, fun _ => rfl, ?_, ?_, ?_, ?_, ?_⟩
    · intro hall
      have := hall s0 hs0 hs0r
      rw [hs0d] at this; exact Bool.noConfusion this
    · simpa using h1
    · intro s hs
      rw [sansLinks_is_degenerate (h2 s), hcdeg s hs]; simp
    · intro s hs hr _
      exact h3 s hs (by simp [hr])
    · intro s hs hr
      rcases hr with hr | hr
      · exact h4 s hs (by simp [hr])
      · exact Option.noConfusion hr
  · have hall : ∀ s ∈ l, L.segReal s = true → L.segRounds I_ROUND s = true := by
      intro s hs hr
      by_contra hd
      apply hex
      refine ⟨s, hs, hr, ?_⟩
      cases h : L.segRounds I_ROUND s
      · rfl
      · exact absurd h hd
    have hnil : l.filter (fun s => !L.segRounds I_ROUND s && L.segReal s) = [] := by
      rw [filter_eq_nil_iff_forall]
      intro s hs
      cases hr : L.segReal s
      · simp
      · rw [hall s hs hr]; rfl
    have htot0 : stc.real_total = 0 := by rw [htot, hnil]; rfl
    cases hlr : (l.filter fun s => L.segRounds I_ROUND s && L.segReal s).getLast? with
    | none =>
      have hresc : RoundOffRescue place Lc stc = none := by
        simp only [RoundOffRescue, htot0, if_true, hlast, hlr]
      simp only [RoundOffSubsector, hcount, Option.some_bind, hresc, Option.none_bind] at hL'
      exact Option.noConfusion hL'
    | some r =>
      have hrmem : r ∈ l.filter (fun s => L.segRounds I_ROUND s && L.segReal s) :=
        List.mem_of_getLast?_eq_some hlr
      rw [List.mem_filter] at hrmem
      obtain ⟨hrl, hrp⟩ := hrmem
      have hrd : L.segRounds I_ROUND r = true := by
        cases h : L.segRounds I_ROUND r
        · rw [h] at hrp; exact Bool.noConfusion hrp
        · rfl
      have hresc : RoundOffRescue place Lc stc = some
          (((NewVertexDegenerate place Lc (Lc.lev_segs r).start (Lc.lev_segs r).end_).1.modSeg r
            fun s => { s with end_ := (NewVertexDegenerate place Lc (Lc.lev_segs r).start
              (Lc.lev_segs r).end_).2 }).modSeg r fun s => { s with is_degenerate := false }) := by
        simp only [RoundOffRescue, htot0, if_true, hlast, hlr]
      have h2seg : ∀ s, ((((NewVertexDegenerate place Lc (Lc.lev_segs r).start
            (Lc.lev_segs r).end_).1.modSeg r
            fun s => { s with end_ := (NewVertexDegenerate place Lc (Lc.lev_segs r).start
              (Lc.lev_segs r).end_).2 }).modSeg r
              fun s => { s with is_degenerate := false }).lev_segs s) =
          if s = r then { Lc.lev_segs r with end_ := Lc.num_vertices, is_degenerate := false }
          else Lc.lev_segs s := by
        intro s
        simp only [modSeg_apply, NewVertexDegenerate_lev_segs, NewVertexDegenerate_snd,
          eq_self_iff_true, if_true]
        split_ifs <;> rfl
      obtain ⟨h1, h2, h3, h4⟩ :=
        RoundOffSubsector_of_phase_index I_ROUND place L Lc _ stc sub l
          (fun s => !L.segRounds I_ROUND s || decide (s = r)) hcount hresc
          (by
            show IsLinked _ _ _
            simp only [modSeg_lev_subsecs, NewVertexDegenerate_lev_subsecs]
            refine (IsLinked_congr ?_).mpr hcl
            intro a _
            unfold Level.segNext
            rw [h2seg a]
            split_ifs with h
            · subst h; rfl
            · rfl)
          (by
            simp only [modSeg_num_segs, NewVertexDegenerate_num_segs]
            rw [hcn]; exact hlt)
          (by
            intro s hs
            rw [h2seg s]
            by_cases h : s = r
            · subst h
              rw [if_pos rfl]
              simp
            · rw [if_neg h, hcdeg s hs]
              simp [h])
          L' hL'
      have hdec : ∀ s, decide (some r = some s) = decide (s = r) := by
        intro s
        by_cases h : s = r
        · subst h; simp
        · have : ¬ (r = s) := fun h' => h h'.symm
          simp [h, this]
      refine ⟨some r, fun h => absurd h hex, fun _ => rfl, ?_, ?_, ?_, ?_⟩
      · have : l.filter (fun s => !L.segRounds I_ROUND s || decide (some r = some s)) =
            l.filter (fun s => !L.segRounds I_ROUND s || decide (s = r)) := by
          apply List.filter_congr
          intro s _
          rw [hdec s]
        rw [this]; exact h1
      · intro s hs
        rw [sansLinks_is_degenerate (h2 s), h2seg s, hdec s]
        by_cases h : s = r
        · subst h
          rw [if_pos rfl]
          simp
        · rw [if_neg h, hcdeg s hs]
          simp [h]
      · intro s hs hr hne
        have hsr : s ≠ r := fun h => hne (by rw [h])
        exact h3 s hs (by simp [hr, hsr])
      · intro s hs hr
        rcases hr with hr | hr
        · exact h4 s hs (by simp [hr])
        · have hsr : s = r := (Option.some.inj hr).symm
          exact h4 s hs (by simp [hsr])

theorem demoRounded_eq :
    RoundOffSubsector roundQ (fun a _ => (a.x + 1, a.y)) demoSubsec 0 = some demoRounded :=
  Option_eq_some_getD Level.empty (by decide!)

theorem RoundOffSubsector_removes_degenerate_segs_witness :
    ∃ rescued : Option Nat,
      ((∃ s ∈ [0, 1, 2], demoSubsec.segReal s = true ∧
          demoSubsec.segRounds roundQ s = false) → rescued = none) ∧
      ((∀ s ∈ [0, 1, 2], demoSubsec.segReal s = true →
          demoSubsec.segRounds roundQ s = true) →
        rescued = ([0, 1, 2].filter fun s =>
          demoSubsec.segRounds roundQ s && demoSubsec.segReal s).getLast?) ∧
      demoRounded.SubsecList 0
        ([0, 1, 2].filter fun s => !demoSubsec.segRounds roundQ s ||
          decide (rescued = some s)) ∧
      (∀ s ∈ [0, 1, 2], (demoRounded.lev_segs s).is_degenerate =
        (demoSubsec.segRounds roundQ s && !decide (rescued = some s))) ∧
      (∀ s ∈ [0, 1, 2], demoSubsec.segRounds roundQ s = true → rescued ≠ some s →
        (demoRounded.lev_segs s).index = 1 <<< 24) ∧
      (∀ s ∈ [0, 1, 2], (demoSubsec.segRounds roundQ s = false ∨ rescued = some s) →
        (demoRounded.lev_segs s).index = -1) :=
  RoundOffSubsector_removes_degenerate_segs roundQ (fun a _ => (a.x + 1, a.y)) demoSubsec 0
    [0, 1, 2] (by decide) (by decide) (by decide) demoRounded demoRounded_eq

/-! ### Quadtree construction -/

theorem quadtree_new_succ (fuel : Nat) (x1 y1 x2 y2 : Int) :
    quadtree_c.new (fuel + 1) x1 y1 x2 y2 =
      if x2 - x1 ≤ 320 ∧ y2 - y1 ≤ 320 then some (quadtree_c.leaf x1 y1 x2 y2 0 0 none)
      else if x2 - x1 ≥ y2 - y1 then
        (quadtree_c.new fuel x1 y1 (x1 + Int.tdiv (x2 - x1) 2) y2).bind fun s0 =>
        (quadtree_c.new fuel (x1 + Int.tdiv (x2 - x1) 2) y1 x2 y2).bind fun s1 =>
        some (quadtree_c.node x1 y1 x2 y2 0 0 none s0 s1)
      else
        (quadtree_c.new fuel x1 y1 x2 (y1 + Int.tdiv (y2 - y1) 2)).bind fun s0 =>
        (quadtree_c.new fuel x1 (y1 + Int.tdiv (y2 - y1) 2) x2 y2).bind fun s1 =>
        some (quadtree_c.node x1 y1 x2 y2 0 0 none s0 s1) := rfl

theorem tdiv_two (d : Int) (h : 0 ≤ d) : Int.tdiv d 2 = d / 2 :=
  Int.tdiv_eq_ediv h (by decide)

/-- The constructor returns a cell for the given box, with empty counters and list. -/
theorem quadtree_new_some (fuel : Nat) : ∀ (x1 y1 x2 y2 : Int),
    (x2 - x1).toNat + (y2 - y1).toNat < fuel →
    ∃ t, quadtree_c.new fuel x1 y1 x2 y2 = some t ∧ t.x1 = x1 ∧ t.y1 = y1 ∧ t.x2 = x2 ∧
      t.y2 = y2 ∧ t.real_num = 0 ∧ t.mini_num = 0 ∧ t.list = none := by
  induction fuel with
  | zero => intro x1 y1 x2 y2 hf; exact absurd hf (Nat.not_lt_zero _)
  | succ fuel ih =>
    intro x1 y1 x2 y2 hf
    rw [quadtree_new_succ]
    by_cases hleaf : x2 - x1 ≤ 320 ∧ y2 - y1 ≤ 320
    · rw [if_pos hleaf]
      exact ⟨_, rfl, rfl, rfl, rfl, rfl, rfl, rfl, rfl⟩
    · rw [if_neg hleaf]
      by_cases hx : x2 - x1 ≥ y2 - y1
      · rw [if_pos hx]
        have hdx : 320 < x2 - x1 := by
          by_contra h; apply hleaf; constructor <;> omega
        have hd := tdiv_two (x2 - x1) (by omega)
        obtain ⟨s0, e0, -⟩ := ih x1 y1 (x1 + Int.tdiv (x2 - x1) 2) y2 (by rw [hd]; omega)
        obtain ⟨s1, e1, -⟩ := ih (x1 + Int.tdiv (x2 - x1) 2) y1 x2 y2 (by rw [hd]; omega)
        rw [e0, e1]
        exact ⟨_, rfl, rfl, rfl, rfl, rfl, rfl, rfl, rfl⟩
      · rw [if_neg hx]
        have hdy : 320 < y2 - y1 := by
          by_contra h; apply hleaf; constructor <;> omega
        have hd := tdiv_two (y2 - y1) (by omega)
        obtain ⟨s0, e0, -⟩ := ih x1 y1 x2 (y1 + Int.tdiv (y2 - y1) 2) (by rw [hd]; omega)
        obtain ⟨s1, e1, -⟩ := ih x1 (y1 + Int.tdiv (y2 - y1) 2) x2 y2 (by rw [hd]; omega)
        rw [e0, e1]
        exact ⟨_, rfl, rfl, rfl, rfl, rfl, rfl, rfl, rfl⟩

/-- C28: quadtree construction: for every box, the constructed cell is a leaf (no
sub-cells) if and only if both `x2-x1 <= 320` and `y2-y1 <= 320`; otherwise it has exactly
two sub-cells that split the longer axis (the x axis when the sides are equal) at the
midpoint `x1+dx/2` (or `y1+dy/2`), sub-cell 0 holding the lower coordinates, and the two
sub-cell boxes together cover the parent's box; the recursive construction terminates. -/
theorem quadtree_new_leaf_or_two_halves (x1 y1 x2 y2 : Int) (fuel : Nat)
    (hf : (x2 - x1).toNat + (y2 - y1).toNat < fuel) :
    ∃ t, quadtree_c.new fuel x1 y1 x2 y2 = some t ∧
      t.x1 = x1 ∧ t.y1 = y1 ∧ t.x2 = x2 ∧ t.y2 = y2 ∧
      ((t.subs false = none ∧ t.subs true = none) ↔ (x2 - x1 ≤ 320 ∧ y2 - y1 ≤ 320)) ∧
      (¬ (x2 - x1 ≤ 320 ∧ y2 - y1 ≤ 320) →
        ∃ s0 s1, t.subs false = some s0 ∧ t.subs true = some s1 ∧
          (y2 - y1 ≤ x2 - x1 →
            quadtree_c.new (fuel - 1) x1 y1 (x1 + (x2 - x1) / 2) y2 = some s0 ∧
            quadtree_c.new (fuel - 1) (x1 + (x2 - x1) / 2) y1 x2 y2 = some s1 ∧
            s0.x1 = x1 ∧ s0.y1 = y1 ∧ s0.x2 = x1 + (x2 - x1) / 2 ∧ s0.y2 = y2 ∧
            s1.x1 = x1 + (x2 - x1) / 2 ∧ s1.y1 = y1 ∧ s1.x2 = x2 ∧ s1.y2 = y2) ∧
          (x2 - x1 < y2 - y1 →
            quadtree_c.new (fuel - 1) x1 y1 x2 (y1 + (y2 - y1) / 2) = some s0 ∧
            quadtree_c.new (fuel - 1) x1 (y1 + (y2 - y1) / 2) x2 y2 = some s1 ∧
            s0.x1 = x1 ∧ s0.y1 = y1 ∧ s0.x2 = x2 ∧ s0.y2 = y1 + (y2 - y1) / 2 ∧
            s1.x1 = x1 ∧ s1.y1 = y1 + (y2 - y1) / 2 ∧ s1.x2 = x2 ∧ s1.y2 = y2) ∧
          (∀ x y : ℚ, t.Inside x y → s0.Inside x y ∨ s1.Inside x y)) := by
  obtain ⟨fuel, rfl⟩ : ∃ k, fuel = k + 1 := ⟨fuel - 1, by omega⟩
  simp only [Nat.add_sub_cancel]
  rw [quadtree_new_succ]
  by_cases hleaf : x2 - x1 ≤ 320 ∧ y2 - y1 ≤ 320
  · rw [if_pos hleaf]
    refine ⟨_, rfl, rfl, rfl, rfl, rfl, ?_, fun h => absurd hleaf h⟩
    exact ⟨fun _ => hleaf, fun _ => ⟨rfl, rfl⟩⟩
  · rw [if_neg hleaf]
    by_cases hx : x2 - x1 ≥ y2 - y1
    · rw [if_pos hx]
      have hdx : 320 < x2 - x1 := by
        by_contra h; apply hleaf; constructor <;> omega
      have hd := tdiv_two (x2 - x1) (by omega)
      rw [hd]
      obtain ⟨s0, e0, a1, a2, a3, a4, -⟩ :=
        quadtree_new_some fuel x1 y1 (x1 + (x2 - x1) / 2) y2 (by omega)
      obtain ⟨s1, e1, b1, b2, b3, b4, -⟩ :=
        quadtree_new_some fuel (x1 + (x2 - x1) / 2) y1 x2 y2 (by omega)
      rw [e0, e1]
      refine ⟨_, rfl, rfl, rfl, rfl, rfl, ?_, ?_⟩
      · constructor
        · intro h; exact Option.noConfusion h.1
        · intro h; exact absurd h hleaf
      · intro _
        refine ⟨s0, s1, rfl, rfl, ?_, ?_, ?_⟩
        · intro _
          exact ⟨rfl, rfl, a1, a2, a3, a4, b1, b2, b3, b4⟩
        · intro h; omega
        · intro x y hin
          unfold quadtree_c.Inside at hin ⊢
          simp only [quadtree_c.x1, quadtree_c.x2, quadtree_c.y1, quadtree_c.y2] at hin
          rw [a1, a2, a3, a4, b1, b2, b3, b4]
          rcases le_total x ((x1 + (x2 - x1) / 2 : Int) : ℚ) with h | h
          · exact Or.inl ⟨hin.1, h, hin.2.2.1, hin.2.2.2⟩
          · exact Or.inr ⟨h, hin.2.1, hin.2.2.1, hin.2.2.2⟩
    · rw [if_neg hx]
      have hdy : 320 < y2 - y1 := by
        by_contra h; apply hleaf; constructor <;> omega
      have hd := tdiv_two (y2 - y1) (by omega)
      rw [hd]
      obtain ⟨s0, e0, a1, a2, a3, a4, -⟩ :=
        quadtree_new_some fuel x1 y1 x2 (y1 + (y2 - y1) / 2) (by omega)
      obtain ⟨s1, e1, b1, b2, b3, b4, -⟩ :=
        quadtree_new_some fuel x1 (y1 + (y2 - y1) / 2) x2 y2 (by omega)
      rw [e0, e1]
      refine ⟨_, rfl, rfl, rfl, rfl, rfl, ?_, ?_⟩
      · constructor
        · intro h; exact Option.noConfusion h.1
        · intro h; exact absurd h hleaf
      · intro _
        refine ⟨s0, s1, rfl, rfl, ?_, ?_, ?_⟩
        · intro h; omega
        · intro _
          exact ⟨rfl, rfl, a1, a2, a3, a4, b1, b2, b3, b4⟩
        · intro x y hin
          unfold quadtree_c.Inside at hin ⊢
          simp only [quadtree_c.x1, quadtree_c.x2, quadtree_c.y1, quadtree_c.y2] at hin
          rw [a1, a2, a3, a4, b1, b2, b3, b4]
          rcases le_total y ((y1 + (y2 - y1) / 2 : Int) : ℚ) with h | h
          · exact Or.inl ⟨hin.1, hin.2.1, hin.2.2.1, h⟩
          · exact Or.inr ⟨hin.1, hin.2.1, h, hin.2.2.2⟩

theorem quadtree_new_leaf_or_two_halves_witness :
    ∃ t, quadtree_c.new 741 0 0 640 100 = some t ∧
      t.x1 = 0 ∧ t.y1 = 0 ∧ t.x2 = 640 ∧ t.y2 = 100 ∧
      ((t.subs false = none ∧ t.subs true = none) ↔
        ((640 : Int) - 0 ≤ 320 ∧ (100 : Int) - 0 ≤ 320)) ∧
      (¬ ((640 : Int) - 0 ≤ 320 ∧ (100 : Int) - 0 ≤ 320) →
        ∃ s0 s1, t.subs false = some s0 ∧ t.subs true = some s1 ∧
          ((100 : Int) - 0 ≤ 640 - 0 →
            quadtree_c.new (741 - 1) 0 0 (0 + (640 - 0) / 2) 100 = some s0 ∧
            quadtree_c.new (741 - 1) (0 + (640 - 0) / 2) 0 640 100 = some s1 ∧
            s0.x1 = 0 ∧ s0.y1 = 0 ∧ s0.x2 = 0 + (640 - 0) / 2 ∧ s0.y2 = 100 ∧
            s1.x1 = 0 + (640 - 0) / 2 ∧ s1.y1 = 0 ∧ s1.x2 = 640 ∧ s1.y2 = 100) ∧
          ((640 : Int) - 0 < 100 - 0 →
            quadtree_c.new (741 - 1) 0 0 640 (0 + (100 - 0) / 2) = some s0 ∧
            quadtree_c.new (741 - 1) 0 (0 + (100 - 0) / 2) 640 100 = some s1 ∧
            s0.x1 = 0 ∧ s0.y1 = 0 ∧ s0.x2 = 640 ∧ s0.y2 = 0 + (100 - 0) / 2 ∧
            s1.x1 = 0 ∧ s1.y1 = 0 + (100 - 0) / 2 ∧ s1.x2 = 640 ∧ s1.y2 = 100) ∧
          (∀ x y : ℚ, t.Inside x y → s0.Inside x y ∨ s1.Inside x y)) :=
  quadtree_new_leaf_or_two_halves 0 0 640 100 741 (by decide)

/-! ### `FindLimits2` -/

theorem stretch_spec (b : bbox_t) (lx ly hx hy : Int) :
    (b.stretch lx ly hx hy).minx = min b.minx lx ∧ (b.stretch lx ly hx hy).miny = min b.miny ly ∧
    (b.stretch lx ly hx hy).maxx = max b.maxx hx ∧
    (b.stretch lx ly hx hy).maxy = max b.maxy hy := by
  unfold bbox_t.stretch
  by_cases h1 : lx < b.minx <;> by_cases h2 : ly < b.miny <;> by_cases h3 : hx > b.maxx <;>
    by_cases h4 : hy > b.maxy <;>
    simp only [h1, h2, h3, h4, if_true, if_false] <;>
    refine ⟨?_, ?_, ?_, ?_⟩ <;> omega

theorem FindLimits2Loop_spec (fuel : Nat) : ∀ (L : Level) (cur : Option Nat) (rest : List Nat)
    (b0 : bbox_t), IsLinked L.segNext cur rest → rest.length < fuel →
    ∃ b, FindLimits2Loop fuel L cur b0 = some b ∧
      b.minx ≤ b0.minx ∧ b.miny ≤ b0.miny ∧ b0.maxx ≤ b.maxx ∧ b0.maxy ≤ b.maxy ∧
      ∀ s ∈ rest,
        b.minx ≤ ⌊min (L.lev_vertices (L.lev_segs s).start).x
          (L.lev_vertices (L.lev_segs s).end_).x - 1 / 5⌋ ∧
        b.miny ≤ ⌊min (L.lev_vertices (L.lev_segs s).start).y
          (L.lev_vertices (L.lev_segs s).end_).y - 1 / 5⌋ ∧
        ⌈max (L.lev_vertices (L.lev_segs s).start).x
          (L.lev_vertices (L.lev_segs s).end_).x + 1 / 5⌉ ≤ b.maxx ∧
        ⌈max (L.lev_vertices (L.lev_segs s).start).y
          (L.lev_vertices (L.lev_segs s).end_).y + 1 / 5⌉ ≤ b.maxy := by
  induction fuel with
  | zero => intro L cur rest b0 _ hf; exact absurd hf (Nat.not_lt_zero _)
  | succ fuel ih =>
    intro L cur rest b0 hl hf
    cases rest with
    | nil =>
      have e : cur = none := hl
      subst e
      exact ⟨b0, rfl, le_refl _, le_refl _, le_refl _, le_refl _,
        fun s hs => absurd hs (List.not_mem_nil s)⟩
    | cons seg rest =>
      obtain ⟨e, hl'⟩ := hl
      subst e
      simp only [FindLimits2Loop]
      obtain ⟨b, hrun, m1, m2, m3, m4, hall⟩ := ih L (L.lev_segs seg).next rest
        (b0.stretch
          ⌊min (L.lev_vertices (L.lev_segs seg).start).x
            (L.lev_vertices (L.lev_segs seg).end_).x - 1 / 5⌋
          ⌊min (L.lev_vertices (L.lev_segs seg).start).y
            (L.lev_vertices (L.lev_segs seg).end_).y - 1 / 5⌋
          ⌈max (L.lev_vertices (L.lev_segs seg).start).x
            (L.lev_vertices (L.lev_segs seg).end_).x + 1 / 5⌉
          ⌈max (L.lev_vertices (L.lev_segs seg).start).y
            (L.lev_vertices (L.lev_segs seg).end_).y + 1 / 5⌉)
        hl' (by simp only [List.length_cons] at hf; omega)
      obtain ⟨s1, s2, s3, s4⟩ := stretch_spec b0
          ⌊min (L.lev_vertices (L.lev_segs seg).start).x
            (L.lev_vertices (L.lev_segs seg).end_).x - 1 / 5⌋
          ⌊min (L.lev_vertices (L.lev_segs seg).start).y
            (L.lev_vertices (L.lev_segs seg).end_).y - 1 / 5⌋
          ⌈max (L.lev_vertices (L.lev_segs seg).start).x
            (L.lev_vertices (L.lev_segs seg).end_).x + 1 / 5⌉
          ⌈max (L.lev_vertices (L.lev_segs seg).start).y
            (L.lev_vertices (L.lev_segs seg).end_).y + 1 / 5⌉
      rw [s1] at m1; rw [s2] at m2; rw [s3] at m3; rw [s4] at m4
      refine ⟨b, hrun, le_trans m1 (min_le_left _ _), le_trans m2 (min_le_left _ _),
        le_trans (le_max_left _ _) m3, le_trans (le_max_left _ _) m4, ?_⟩
      intro s hs
      rcases List.mem_cons.mp hs with h | h
      · subst h
        exact ⟨le_trans m1 (min_le_right _ _), le_trans m2 (min_le_right _ _),
          le_trans (le_max_right _ _) m3, le_trans (le_max_right _ _) m4⟩
      · exact hall s h

/-- C29: `FindLimits2` returns a box with no seg endpoint on its boundary: for every
non-empty seg list, every endpoint `(x, y)` of every seg satisfies `minx < x < maxx` and
`miny < y < maxy`; for the empty list the box is `(0,0)-(2,2)`. -/
theorem FindLimits2_box_is_strict (L : Level) (list : Option Nat) (l : List Nat)
    (hl : IsLinked L.segNext list l) (hlt : ∀ s ∈ l, s < L.num_segs) :
    ∃ b, FindLimits2 L list = some b ∧
      (l = [] → b = { minx := 0, miny := 0, maxx := 2, maxy := 2 }) ∧
      (∀ s ∈ l, ∀ v, (v = (L.lev_segs s).start ∨ v = (L.lev_segs s).end_) →
        (b.minx : ℚ) < (L.lev_vertices v).x ∧ (L.lev_vertices v).x < (b.maxx : ℚ) ∧
        (b.miny : ℚ) < (L.lev_vertices v).y ∧ (L.lev_vertices v).y < (b.maxy : ℚ)) := by
  cases l with
  | nil =>
    have e : list = none := hl
    subst e
    exact ⟨_, rfl, fun _ => rfl, fun s hs => absurd hs (List.not_mem_nil s)⟩
  | cons a l =>
    have hnd := IsLinked_nodup hl
    have hlen : (a :: l).length < L.num_segs + 1 :=
      Nat.lt_succ_of_le (length_le_of_nodup_lt hnd hlt)
    obtain ⟨b, hrun, -, -, -, -, hall⟩ := FindLimits2Loop_spec (L.num_segs + 1) L list (a :: l)
      { minx := SHRT_MAX, miny := SHRT_MAX, maxx := SHRT_MIN, maxy := SHRT_MIN } hl hlen
    have e : list = some a := hl.1
    refine ⟨b, ?_, fun h => List.noConfusion h, ?_⟩
    · rw [e] at hrun ⊢
      exact hrun
    · intro s hs v hv
      obtain ⟨h1, h2, h3, h4⟩ := hall s hs
      have f1 := Int.floor_le (min (L.lev_vertices (L.lev_segs s).start).x
          (L.lev_vertices (L.lev_segs s).end_).x - 1 / 5)
      have f2 := Int.floor_le (min (L.lev_vertices (L.lev_segs s).start).y
          (L.lev_vertices (L.lev_segs s).end_).y - 1 / 5)
      have f3 := Int.le_ceil (max (L.lev_vertices (L.lev_segs s).start).x
          (L.lev_vertices (L.lev_segs s).end_).x + 1 / 5)
      have f4 := Int.le_ceil (max (L.lev_vertices (L.lev_segs s).start).y
          (L.lev_vertices (L.lev_segs s).end_).y + 1 / 5)
      have g1 : (b.minx : ℚ) ≤ _ := Int.cast_le.mpr h1
      have g2 : (b.miny : ℚ) ≤ _ := Int.cast_le.mpr h2
      have g3 : _ ≤ (b.maxx : ℚ) := Int.cast_le.mpr h3
      have g4 : _ ≤ (b.maxy : ℚ) := Int.cast_le.mpr h4
      have a1 := min_le_left (L.lev_vertices (L.lev_segs s).start).x
        (L.lev_vertices (L.lev_segs s).end_).x
      have a2 := min_le_right (L.lev_vertices (L.lev_segs s).start).x
        (L.lev_vertices (L.lev_segs s).end_).x
      have a3 := min_le_left (L.lev_vertices (L.lev_segs s).start).y
        (L.lev_vertices (L.lev_segs s).end_).y
      have a4 := min_le_right (L.lev_vertices (L.lev_segs s).start).y
        (L.lev_vertices (L.lev_segs s).end_).y
      have c1 := le_max_left (L.lev_vertices (L.lev_segs s).start).x
        (L.lev_vertices (L.lev_segs s).end_).x
      have c2 := le_max_right (L.lev_vertices (L.lev_segs s).start).x
        (L.lev_vertices (L.lev_segs s).end_).x
      have c3 := le_max_left (L.lev_vertices (L.lev_segs s).start).y
        (L.lev_vertices (L.lev_segs s).end_).y
      have c4 := le_max_right (L.lev_vertices (L.lev_segs s).start).y
        (L.lev_vertices (L.lev_segs s).end_).y
      rcases hv with hv | hv
      · subst hv
        refine ⟨?_, ?_, ?_, ?_⟩ <;> linarith
      · subst hv
        refine ⟨?_, ?_, ?_, ?_⟩ <;> linarith

theorem FindLimits2_box_is_strict_witness :
    ∃ b, FindLimits2 demoSubsec (some 0) = some b ∧
      (([0, 1, 2] : List Nat) = [] → b = { minx := 0, miny := 0, maxx := 2, maxy := 2 }) ∧
      (∀ s ∈ [0, 1, 2], ∀ v,
        (v = (demoSubsec.lev_segs s).start ∨ v = (demoSubsec.lev_segs s).end_) →
        (b.minx : ℚ) < (demoSubsec.lev_vertices v).x ∧
        (demoSubsec.lev_vertices v).x < (b.maxx : ℚ) ∧
        (b.miny : ℚ) < (demoSubsec.lev_vertices v).y ∧
        (demoSubsec.lev_vertices v).y < (b.maxy : ℚ)) :=
  FindLimits2_box_is_strict demoSubsec (some 0) [0, 1, 2] (by decide) (by decide)

/-! ### Termination of the sorting loop, reachability of the round-off errors -/

/-- C40: the "double bubble" sort loop of `ClockwiseOrder` terminates for every array of
segs and every mid-point (every angle function): each swap happens only when
`angle1 + ANG_EPSILON < angle2` and strictly reduces the number of out-of-order pairs, so
the loop ends within `total * total` steps, even though the epsilon comparison is not
transitive. -/
theorem ClockwiseSort_terminates (angle : Nat → ℚ) (ANG_EPSILON : ℚ) (heps : 0 ≤ ANG_EPSILON)
    (array : List Nat) :
    (∃ sorted, ClockwiseSort angle ANG_EPSILON array.length (array.length * array.length + 1)
        0 array = some sorted ∧ sorted.Perm array) ∧
    (∀ (pre : List Nat) (A B : Nat) (post : List Nat), angle A + ANG_EPSILON < angle B →
      ascendingPairs angle (pre ++ B :: A :: post) + 1 =
        ascendingPairs angle (pre ++ A :: B :: post)) := by
  constructor
  · cases array with
    | nil =>
      refine ⟨[], ?_, List.Perm.refl _⟩
      simp [ClockwiseSort]
    | cons A post =>
      obtain ⟨sorted, hrun, hperm, -⟩ := ClockwiseSort_spec angle ANG_EPSILON heps
        ((A :: post).length * (A :: post).length + 1) [] A post (List.chain'_singleton A)
        (by
          have := ascendingPairs_le angle (A :: post)
          simp only [List.nil_append, List.length_cons] at this ⊢
          omega)
      exact ⟨sorted, by simpa using hrun, by simpa using hperm⟩
  · intro pre A B post h
    exact ascendingPairs_swap angle pre A B post (by linarith)

theorem ClockwiseSort_terminates_witness :
    (∃ sorted, ClockwiseSort (ClockwiseAngle diamondAngle demoSubsec 0) (1 / 10000)
        [0, 1, 2].length ([0, 1, 2].length * [0, 1, 2].length + 1) 0 [0, 1, 2] = some sorted ∧
        sorted.Perm [0, 1, 2]) ∧
    (∀ (pre : List Nat) (A B : Nat) (post : List Nat),
      ClockwiseAngle diamondAngle demoSubsec 0 A + 1 / 10000 <
        ClockwiseAngle diamondAngle demoSubsec 0 B →
      ascendingPairs (ClockwiseAngle diamondAngle demoSubsec 0) (pre ++ B :: A :: post) + 1 =
        ascendingPairs (ClockwiseAngle diamondAngle demoSubsec 0) (pre ++ A :: B :: post)) :=
  ClockwiseSort_terminates (ClockwiseAngle diamondAngle demoSubsec 0) (1 / 10000) (by decide!)
    [0, 1, 2]

/-- C39: in `RoundOffSubsector` the final "rounded off to being EMPTY" error is
unreachable: for every subsector whose segs all have `is_degenerate = false` on entry, if
the first check ("rounded off with NO real segs") does not fire then the rebuilt list is
non-empty. -/
theorem RoundOffSubsector_empty_error_unreachable (I_ROUND : ℚ → Int)
    (place : vertex_t → vertex_t → ℚ × ℚ) (L : Level) (sub : Nat) (l : List Nat)
    (hl : L.SubsecList sub l) (hlt : ∀ s ∈ l, s < L.num_segs)
    (hflag : ∀ s ∈ l, (L.lev_segs s).is_degenerate = false) :
    ∃ Lc stc, RoundOffCount I_ROUND (L.num_segs + 1) L (L.lev_subsecs sub).seg_list
        { last_real_degen := none, real_total := 0, degen_total := 0 } = some (Lc, stc) ∧
      ∀ L2, RoundOffRescue place Lc stc = some L2 →
        ∃ L3 new_head new_tail,
          RoundOffRemove sub (L2.num_segs + 1) L2 none none =
            some (L3, some new_head, new_tail) ∧
          ∃ L', RoundOffSubsector I_ROUND place L sub = some L' := by
  have hnd : l.Nodup := IsLinked_nodup hl
  have hlen : l.length < L.num_segs + 1 := Nat.lt_succ_of_le (length_le_of_nodup_lt hnd hlt)
  obtain ⟨Lc, stc, hcount, hlast, htot, hcseg, hcsub, hcv, hcn, hcnv, hcns⟩ :=
    RoundOffCount_spec I_ROUND (L.num_segs + 1) L [] l (L.lev_subsecs sub).seg_list
      { last_real_degen := none, real_total := 0, degen_total := 0 }
      (L.segRounds I_ROUND) L.segReal hl hlen (fun s _ => rfl) (fun s _ => rfl) rfl rfl
  simp only [List.nil_append] at hlast htot
  refine ⟨Lc, stc, hcount, ?_⟩
  have hcnx : ∀ s, Lc.segNext s = L.segNext s := by
    intro s
    unfold Level.segNext
    rw [hcseg s]
    split_ifs <;> rfl
  have hcl : Lc.SubsecList sub l := by
    show IsLinked _ _ _
    rw [hcsub]
    exact (IsLinked_congr (fun a _ => hcnx a)).mpr hl
  have hcdeg : ∀ s ∈ l, (Lc.lev_segs s).is_degenerate = L.segRounds I_ROUND s := by
    intro s hs
    rw [hcseg s]
    by_cases hd : L.segRounds I_ROUND s = true
    · rw [if_pos ⟨hs, hd⟩, hd]
    · rw [if_neg (fun h => hd h.2), hflag s hs]
      cases h : L.segRounds I_ROUND s
      · rfl
      · exact absurd h hd
  intro L2 hresc
  -- a seg of the list that the second pass keeps
  have hkeep : ∃ s ∈ l, (L2.lev_segs s).is_degenerate = false ∧
      L2.SubsecList sub l ∧ L2.num_segs = L.num_segs := by
    by_cases h0 : stc.real_total = 0
    · cases hlr : stc.last_real_degen with
      | none =>
        simp only [RoundOffRescue, h0, if_true, hlr] at hresc
        exact Option.noConfusion hresc
      | some r =>
        simp only [RoundOffRescue, h0, if_true, hlr] at hresc
        have := Option.some.inj hresc
        subst this
        have hrmem : r ∈ l.filter (fun s => L.segRounds I_ROUND s && L.segReal s) := by
          rw [hlast] at hlr
          exact List.mem_of_getLast?_eq_some hlr
        have hrl : r ∈ l := (List.mem_filter.mp hrmem).1
        refine ⟨r, hrl, ?_, ?_, ?_⟩
        · simp only [modSeg_apply, eq_self_iff_true, if_true]
        · show IsLinked _ _ _
          simp only [modSeg_lev_subsecs, NewVertexDegenerate_lev_subsecs]
          refine (IsLinked_congr ?_).mpr hcl
          intro a _
          unfold Level.segNext
          simp only [modSeg_apply, NewVertexDegenerate_lev_segs]
          split_ifs with h
          · subst h; rfl
          · rfl
        · simp only [modSeg_num_segs, NewVertexDegenerate_num_segs]
          exact hcn
    · simp only [RoundOffRescue, if_neg h0] at hresc
      have := Option.some.inj hresc
      subst this
      have hpos : 0 < (l.filter fun s => !L.segRounds I_ROUND s && L.segReal s).length := by
        rw [htot] at h0
        by_contra hz
        apply h0
        have : (l.filter fun s => !L.segRounds I_ROUND s && L.segReal s).length = 0 := by omega
        rw [this]; rfl
      obtain ⟨s0, hs0⟩ := List.exists_mem_of_length_pos hpos
      rw [List.mem_filter] at hs0
      obtain ⟨hs0l, hs0p⟩ := hs0
      refine ⟨s0, hs0l, ?_, hcl, hcn⟩
      rw [hcdeg s0 hs0l]
      cases h : L.segRounds I_ROUND s0
      · rfl
      · rw [h] at hs0p; exact Bool.noConfusion hs0p
  obtain ⟨s0, hs0l, hs0d, hl2, hn2⟩ := hkeep
  obtain ⟨L3, nh, nt, hrun, hlist, -, -⟩ := RoundOffRemove_phase sub L2 l
    (fun s => !(L2.lev_segs s).is_degenerate) hl2 (by rw [hn2]; exact hlt) (fun s _ => rfl)
  have hmem : s0 ∈ l.filter (fun s => !(L2.lev_segs s).is_degenerate) := by
    rw [List.mem_filter]; exact ⟨hs0l, by rw [hs0d]; rfl⟩
  cases hnh : nh with
  | none =>
    rw [hnh] at hlist
    have := IsLinked_none hlist
    rw [this] at hmem
    exact absurd hmem (List.not_mem_nil s0)
  | some head =>
    rw [hnh] at hrun
    refine ⟨L3, head, nt, hrun, ?_⟩
    have hne : l.filter (fun s => !(L2.lev_segs s).is_degenerate) ≠ [] := by
      intro h; rw [h] at hmem; exact absurd hmem (List.not_mem_nil s0)
    obtain ⟨L', hL', -⟩ := RoundOffSubsector_of_phase I_ROUND place L Lc L2 stc sub l
      (fun s => !(L2.lev_segs s).is_degenerate) hcount hresc hl2 (by rw [hn2]; exact hlt)
      (fun s _ => rfl) hne
    exact ⟨L', hL'⟩

theorem RoundOffSubsector_empty_error_unreachable_witness :
    ∃ Lc stc, RoundOffCount roundQ (demoSubsec.num_segs + 1) demoSubsec
        (demoSubsec.lev_subsecs 0).seg_list
        { last_real_degen := none, real_total := 0, degen_total := 0 } = some (Lc, stc) ∧
      ∀ L2, RoundOffRescue (fun a _ => (a.x + 1, a.y)) Lc stc = some L2 →
        ∃ L3 new_head new_tail,
          RoundOffRemove 0 (L2.num_segs + 1) L2 none none =
            some (L3, some new_head, new_tail) ∧
          ∃ L', RoundOffSubsector roundQ (fun a _ => (a.x + 1, a.y)) demoSubsec 0 = some L' :=
  RoundOffSubsector_empty_error_unreachable roundQ (fun a _ => (a.x + 1, a.y)) demoSubsec 0
    [0, 1, 2] (by decide) (by decide) (by decide)

/-! ### `RecomputeSeg` and the distance functions -/

/-- C37: `RecomputeSeg` makes the distance functions consistent with the seg's own
endpoints: for a seg of non-zero length (arithmetic exact: `hypot` returns the non-negative
root at the seg's delta and at the reversed delta), `RecomputeSeg` succeeds and afterwards
`PerpDist(start) = 0`, `PerpDist(end) = 0`, `ParallelDist(start) = 0`,
`ParallelDist(end) = p_length`, and for every point `PerpDist` of the recomputed reversed
seg is the negation of `PerpDist` of the seg. -/
theorem RecomputeSeg_distances_consistent (hypot : ℚ → ℚ → ℚ) (L : Level) (seg : Nat)
    (hlen : (L.lev_vertices (L.lev_segs seg).start).x ≠ (L.lev_vertices (L.lev_segs seg).end_).x ∨
      (L.lev_vertices (L.lev_segs seg).start).y ≠ (L.lev_vertices (L.lev_segs seg).end_).y)
    (hhyp : ∀ a b : ℚ,
      (a = (L.lev_vertices (L.lev_segs seg).end_).x - (L.lev_vertices (L.lev_segs seg).start).x ∧
       b = (L.lev_vertices (L.lev_segs seg).end_).y - (L.lev_vertices (L.lev_segs seg).start).y) ∨
      (a = (L.lev_vertices (L.lev_segs seg).start).x - (L.lev_vertices (L.lev_segs seg).end_).x ∧
       b = (L.lev_vertices (L.lev_segs seg).start).y - (L.lev_vertices (L.lev_segs seg).end_).y) →
      0 ≤ hypot a b ∧ hypot a b ^ 2 = a ^ 2 + b ^ 2) :
    ∃ L', RecomputeSeg hypot L seg = some L' ∧
      (L'.lev_segs seg).PerpDist (L.lev_vertices (L.lev_segs seg).start).x
        (L.lev_vertices (L.lev_segs seg).start).y = 0 ∧
      (L'.lev_segs seg).PerpDist (L.lev_vertices (L.lev_segs seg).end_).x
        (L.lev_vertices (L.lev_segs seg).end_).y = 0 ∧
      (L'.lev_segs seg).ParallelDist (L.lev_vertices (L.lev_segs seg).start).x
        (L.lev_vertices (L.lev_segs seg).start).y = 0 ∧
      (L'.lev_segs seg).ParallelDist (L.lev_vertices (L.lev_segs seg).end_).x
        (L.lev_vertices (L.lev_segs seg).end_).y = (L'.lev_segs seg).p_length ∧
      ∀ r : seg_t, r.start = (L.lev_segs seg).end_ → r.end_ = (L.lev_segs seg).start →
        ∀ x y : ℚ, (RecomputeFields hypot L r).PerpDist x y = -(L'.lev_segs seg).PerpDist x y := by
  set sx := (L.lev_vertices (L.lev_segs seg).start).x with hsx
  set sy := (L.lev_vertices (L.lev_segs seg).start).y with hsy
  set ex := (L.lev_vertices (L.lev_segs seg).end_).x with hex
  set ey := (L.lev_vertices (L.lev_segs seg).end_).y with hey
  obtain ⟨h0, hsq⟩ := hhyp (ex - sx) (ey - sy) (Or.inl ⟨rfl, rfl⟩)
  obtain ⟨h0r, hsqr⟩ := hhyp (sx - ex) (sy - ey) (Or.inr ⟨rfl, rfl⟩)
  have hpos2 : 0 < (ex - sx) ^ 2 + (ey - sy) ^ 2 := by
    rcases hlen with h | h
    · have : ex - sx ≠ 0 := fun h' => h (by linarith)
      have := pow_pos (abs_pos.mpr this) 2
      rw [sq_abs] at this
      nlinarith [sq_nonneg (ey - sy)]
    · have : ey - sy ≠ 0 := fun h' => h (by linarith)
      have := pow_pos (abs_pos.mpr this) 2
      rw [sq_abs] at this
      nlinarith [sq_nonneg (ex - sx)]
  have hpos : 0 < hypot (ex - sx) (ey - sy) := by
    rcases h0.lt_or_eq with h | h
    · exact h
    · rw [← h] at hsq; norm_num at hsq; linarith
  have hposr : 0 < hypot (sx - ex) (sy - ey) := by
    rcases h0r.lt_or_eq with h | h
    · exact h
    · rw [← h] at hsqr; norm_num at hsqr; nlinarith
  have heq : hypot (sx - ex) (sy - ey) = hypot (ex - sx) (ey - sy) := by
    have h2 : hypot (sx - ex) (sy - ey) ^ 2 = hypot (ex - sx) (ey - sy) ^ 2 := by
      rw [hsq, hsqr]; ring
    exact (pow_left_inj h0r h0 (by norm_num)).mp h2
  have hne : hypot (ex - sx) (ey - sy) ≠ 0 := ne_of_gt hpos
  have hget : (L.setSeg seg (RecomputeFields hypot L (L.lev_segs seg))).lev_segs seg =
      RecomputeFields hypot L (L.lev_segs seg) := by
    simp only [Level.setSeg, Function.update_same]
  refine ⟨L.setSeg seg (RecomputeFields hypot L (L.lev_segs seg)), ?_, ?_, ?_, ?_, ?_, ?_⟩
  · unfold RecomputeSeg
    simp only [RecomputeFields, ← hsx, ← hsy, ← hex, ← hey]
    rw [if_neg (not_le.mpr hpos)]
  · rw [hget]
    simp only [seg_t.PerpDist, RecomputeFields, ← hsx, ← hsy, ← hex, ← hey]
    rw [div_eq_zero_iff]; left; ring
  · rw [hget]
    simp only [seg_t.PerpDist, RecomputeFields, ← hsx, ← hsy, ← hex, ← hey]
    rw [div_eq_zero_iff]; left; ring
  · rw [hget]
    simp only [seg_t.ParallelDist, RecomputeFields, ← hsx, ← hsy, ← hex, ← hey]
    rw [div_eq_zero_iff]; left; ring
  · rw [hget]
    simp only [seg_t.ParallelDist, RecomputeFields, ← hsx, ← hsy, ← hex, ← hey]
    rw [div_eq_iff hne, ← sq, hsq]; ring
  · intro r hrs hre x y
    rw [hget]
    simp only [seg_t.PerpDist, RecomputeFields, hrs, hre, ← hsx, ← hsy, ← hex, ← hey]
    rw [heq, ← neg_div]
    congr 1
    ring

theorem RecomputeSeg_distances_consistent_witness :
    ∃ L', RecomputeSeg hypotQ demoCreated.1 0 = some L' ∧
      (L'.lev_segs 0).PerpDist (demoCreated.1.lev_vertices (demoCreated.1.lev_segs 0).start).x
        (demoCreated.1.lev_vertices (demoCreated.1.lev_segs 0).start).y = 0 ∧
      (L'.lev_segs 0).PerpDist (demoCreated.1.lev_vertices (demoCreated.1.lev_segs 0).end_).x
        (demoCreated.1.lev_vertices (demoCreated.1.lev_segs 0).end_).y = 0 ∧
      (L'.lev_segs 0).ParallelDist (demoCreated.1.lev_vertices (demoCreated.1.lev_segs 0).start).x
        (demoCreated.1.lev_vertices (demoCreated.1.lev_segs 0).start).y = 0 ∧
      (L'.lev_segs 0).ParallelDist (demoCreated.1.lev_vertices (demoCreated.1.lev_segs 0).end_).x
        (demoCreated.1.lev_vertices (demoCreated.1.lev_segs 0).end_).y = (L'.lev_segs 0).p_length ∧
      ∀ r : seg_t, r.start = (demoCreated.1.lev_segs 0).end_ →
        r.end_ = (demoCreated.1.lev_segs 0).start →
        ∀ x y : ℚ, (RecomputeFields hypotQ demoCreated.1 r).PerpDist x y =
          -(L'.lev_segs 0).PerpDist x y :=
  RecomputeSeg_distances_consistent hypotQ demoCreated.1 0 (Or.inl (by decide!))
    (by
      intro a b h
      rcases h with ⟨rfl, rfl⟩ | ⟨rfl, rfl⟩
      · decide!
      · decide!)

/-! ### `RoundOffBspTree` and the vertex coordinates -/

theorem VerticesKept_refl (L : Level) : VerticesKept L L := ⟨le_refl _, fun _ _ => rfl⟩

theorem VerticesKept_trans {L L' L'' : Level} (h : VerticesKept L L') (h' : VerticesKept L' L'') :
    VerticesKept L L'' :=
  ⟨le_trans h.1 h'.1, fun v hv => by rw [h'.2 v (lt_of_lt_of_le hv h.1), h.2 v hv]⟩

theorem VerticesKept_of_eq {L L' : Level} (hv : L'.lev_vertices = L.lev_vertices)
    (hn : L'.num_vertices = L.num_vertices) : VerticesKept L L' :=
  ⟨by rw [hn], fun v _ => by rw [hv]⟩

theorem RoundOffCount_vertices (I_ROUND : ℚ → Int) (fuel : Nat) :
    ∀ (L : Level) (seg : Option Nat) (st : roundoff_t) (r : Level × roundoff_t),
      RoundOffCount I_ROUND fuel L seg st = some r →
      r.1.lev_vertices = L.lev_vertices ∧ r.1.num_vertices = L.num_vertices := by
  induction fuel with
  | zero => intro L seg st r h; simp [RoundOffCount] at h
  | succ fuel ih =>
    intro L seg st r h
    cases seg with
    | none =>
      simp only [RoundOffCount] at h
      rw [← Option.some.inj h]; exact ⟨rfl, rfl⟩
    | some seg =>
      simp only [RoundOffCount] at h
      split_ifs at h
      all_goals
        have := ih _ _ _ _ h
        exact this

theorem RoundOffRemove_vertices (sub : Nat) (fuel : Nat) :
    ∀ (L : Level) (nh nt : Option Nat) (r : Level × Option Nat × Option Nat),
      RoundOffRemove sub fuel L nh nt = some r →
      r.1.lev_vertices = L.lev_vertices ∧ r.1.num_vertices = L.num_vertices := by
  induction fuel with
  | zero => intro L nh nt r h; simp [RoundOffRemove] at h
  | succ fuel ih =>
    intro L nh nt r h
    unfold RoundOffRemove at h
    cases hs : (L.lev_subsecs sub).seg_list with
    | none =>
      simp only [hs] at h
      rw [← Option.some.inj h]; exact ⟨rfl, rfl⟩
    | some seg =>
      simp only [hs] at h
      cases nt with
      | none =>
        split_ifs at h
        all_goals
          have := ih _ _ _ _ h
          exact this
      | some t =>
        split_ifs at h
        all_goals
          have := ih _ _ _ _ h
          exact this

theorem RenumberSubsecSegsLoop_vertices (sub : Nat) (fuel : Nat) :
    ∀ (L : Level) (n : Int) (seg : Option Nat) (r : Level × Int),
      RenumberSubsecSegsLoop sub fuel L n seg = some r →
      r.1.lev_vertices = L.lev_vertices ∧ r.1.num_vertices = L.num_vertices := by
  induction fuel with
  | zero => intro L n seg r h; simp [RenumberSubsecSegsLoop] at h
  | succ fuel ih =>
    intro L n seg r h
    cases seg with
    | none =>
      simp only [RenumberSubsecSegsLoop] at h
      rw [← Option.some.inj h]; exact ⟨rfl, rfl⟩
    | some seg =>
      simp only [RenumberSubsecSegsLoop] at h
      have := ih _ _ _ _ h
      exact this

theorem RoundOffRescue_vertices (place : vertex_t → vertex_t → ℚ × ℚ) (L L' : Level)
    (st : roundoff_t) (h : RoundOffRescue place L st = some L') : VerticesKept L L' := by
  unfold RoundOffRescue at h
  split_ifs at h
  · cases hl : st.last_real_degen with
    | none => rw [hl] at h; exact Option.noConfusion h
    | some r =>
      rw [hl] at h
      rw [← Option.some.inj h]
      refine ⟨Nat.le_succ _, ?_⟩
      intro v hv
      show Function.update (Function.update L.lev_vertices L.num_vertices vertex_t.zero)
        L.num_vertices _ v = _
      rw [Function.update_noteq (ne_of_lt hv), Function.update_noteq (ne_of_lt hv)]
  · rw [← Option.some.inj h]; exact VerticesKept_refl L

theorem RoundOffSubsector_vertices (I_ROUND : ℚ → Int) (place : vertex_t → vertex_t → ℚ × ℚ)
    (L L' : Level) (sub : Nat) (h : RoundOffSubsector I_ROUND place L sub = some L') :
    VerticesKept L L' := by
  unfold RoundOffSubsector at h
  rw [Option.bind_eq_some] at h
  obtain ⟨c, hc, h⟩ := h
  rw [Option.bind_eq_some] at h
  obtain ⟨L1, h1, h⟩ := h
  rw [Option.bind_eq_some] at h
  obtain ⟨st, h2, h⟩ := h
  obtain ⟨cv, cn⟩ := RoundOffCount_vertices I_ROUND _ _ _ _ _ hc
  obtain ⟨rv, rn⟩ := RoundOffRemove_vertices sub _ _ _ _ _ h2
  have hk := RoundOffRescue_vertices place _ _ _ h1
  cases hh : st.2.1 with
  | none => rw [hh] at h; exact Option.noConfusion h
  | some head =>
    rw [hh] at h
    rw [← Option.some.inj h]
    exact VerticesKept_trans (VerticesKept_of_eq cv cn)
      (VerticesKept_trans hk (VerticesKept_of_eq rv rn))

theorem RenumberSubsecSegs_vertices (L : Level) (n : Int) (sub : Nat) (r : Level × Int)
    (h : RenumberSubsecSegs L n sub = some r) : VerticesKept L r.1 := by
  obtain ⟨v, k⟩ := RenumberSubsecSegsLoop_vertices sub _ _ _ _ _ h
  exact VerticesKept_of_eq v k

theorem RoundOffBspTree_loop_vertices (I_ROUND : ℚ → Int) (place : vertex_t → vertex_t → ℚ × ℚ)
    (subs : List Nat) : ∀ (st r : Level × Int),
      subs.foldlM (fun (st : Level × Int) (i : Nat) =>
        (RoundOffSubsector I_ROUND place st.1 i).bind fun L1 => RenumberSubsecSegs L1 st.2 i)
        st = some r → VerticesKept st.1 r.1 := by
  induction subs with
  | nil =>
    intro st r h
    simp only [List.foldlM, pure] at h
    rw [← Option.some.inj h]; exact VerticesKept_refl _
  | cons i rest ih =>
    intro st r h
    simp only [List.foldlM, bind, Option.bind_eq_some] at h
    obtain ⟨st1, ⟨L1, hL1, hst1⟩, hr⟩ := h
    exact VerticesKept_trans (VerticesKept_trans (RoundOffSubsector_vertices I_ROUND place _ _ _ hL1)
      (RenumberSubsecSegs_vertices _ _ _ _ hst1)) (ih _ _ hr)

/-- C31 (as amended): `RoundOffBspTree` renumbers the new vertices but moves none: after a
call that returns, every vertex that existed before it has the `x` and `y` it had before
(fractional coordinates stay fractional) and has `is_new = false`; the new vertices get
indices contiguous from `num_old_vert`: the vertex `v` with `is_new = true` gets the index
`num_old_vert` plus the number of new vertices before it in `lev_vertices`, a vertex with
`is_new = false` keeps its index, and the `num_old_vert` that is returned has grown by the
number of new vertices. -/
theorem RoundOffBspTree_keeps_coordinates (I_ROUND : ℚ → Int)
    (place : vertex_t → vertex_t → ℚ × ℚ) (L : Level) (num_old_vert : Int)
    (r : Level × Int × Int) (h : RoundOffBspTree I_ROUND place L num_old_vert = some r) :
    (∀ v, v < L.num_vertices →
      (r.1.lev_vertices v).x = (L.lev_vertices v).x ∧
      (r.1.lev_vertices v).y = (L.lev_vertices v).y ∧
      (r.1.lev_vertices v).is_new = false ∧
      ((L.lev_vertices v).is_new = true →
        (r.1.lev_vertices v).index = num_old_vert + L.countNew v) ∧
      ((L.lev_vertices v).is_new = false →
        (r.1.lev_vertices v).index = (L.lev_vertices v).index)) ∧
    r.2.1 = num_old_vert + L.countNew L.num_vertices := by
  unfold RoundOffBspTree at h
  simp only [Option.map_eq_some'] at h
  obtain ⟨st, hst, hr⟩ := h
  have hk := RoundOffBspTree_loop_vertices I_ROUND place _ _ _ hst
  obtain ⟨h2, hn, hv⟩ := RoundOffVertices_loop L num_old_vert L.num_vertices
  constructor
  · intro v hlt
    have hlt' : v < (RoundOffVertices L num_old_vert).1.num_vertices := by
      show v < ((List.range L.num_vertices).foldl RoundOffVerticesStep
        (L, num_old_vert)).1.num_vertices
      rw [hn]; exact hlt
    have e1 : r.1.lev_vertices v = (RoundOffVertices L num_old_vert).1.lev_vertices v := by
      rw [← hr]; exact hk.2 v hlt'
    have e2 : (RoundOffVertices L num_old_vert).1.lev_vertices v = _ := hv v
    rw [e1, e2]
    by_cases hnew : (L.lev_vertices v).is_new = true
    · rw [if_pos ⟨hlt, hnew⟩]
      refine ⟨rfl, rfl, rfl, fun _ => rfl, fun hf => ?_⟩
      rw [hnew] at hf
      exact Bool.noConfusion hf
    · rw [if_neg (fun h => hnew h.2)]
      refine ⟨rfl, rfl, ?_, fun ht => absurd ht hnew, fun _ => rfl⟩
      cases hb : (L.lev_vertices v).is_new
      · rfl
      · exact absurd hb hnew
  · rw [← hr]
    exact h2

theorem demoRoundedTree_eq :
    RoundOffBspTree roundQ (fun a _ => (a.x + 1, a.y)) demoSplitVertex 3 = some demoRoundedTree :=
  Option_eq_some_getD _ (by decide!)

theorem RoundOffBspTree_keeps_coordinates_witness :
    ((demoRoundedTree.1.lev_vertices 2).x = (demoSplitVertex.lev_vertices 2).x ∧
      (demoRoundedTree.1.lev_vertices 2).y = (demoSplitVertex.lev_vertices 2).y ∧
      (demoRoundedTree.1.lev_vertices 2).is_new = false ∧
      ((demoSplitVertex.lev_vertices 2).is_new = true →
        (demoRoundedTree.1.lev_vertices 2).index = 3 + demoSplitVertex.countNew 2) ∧
      ((demoSplitVertex.lev_vertices 2).is_new = false →
        (demoRoundedTree.1.lev_vertices 2).index = (demoSplitVertex.lev_vertices 2).index)) ∧
    demoRoundedTree.2.1 = 3 + demoSplitVertex.countNew demoSplitVertex.num_vertices :=
  ⟨(RoundOffBspTree_keeps_coordinates roundQ (fun a _ => (a.x + 1, a.y)) demoSplitVertex 3
      demoRoundedTree demoRoundedTree_eq).1 2 (by decide),
    (RoundOffBspTree_keeps_coordinates roundQ (fun a _ => (a.x + 1, a.y)) demoSplitVertex 3
      demoRoundedTree demoRoundedTree_eq).2⟩

/-- C31 (counterexample): vertex 2 of `demoSplitVertex` has `is_new = true` and lies at
`(64, 1/4)`; `RoundOffBspTree` returns and the vertex still has `y = 1/4`, which is not an
integer. -/
theorem RoundOffBspTree_leaves_fraction :
    (demoSplitVertex.lev_vertices 2).is_new = true ∧
    RoundOffBspTree roundQ (fun a _ => (a.x + 1, a.y)) demoSplitVertex 3 = some demoRoundedTree ∧
    (demoRoundedTree.1.lev_vertices 2).y = 1 / 4 ∧
    ¬ ∃ n : Int, (n : ℚ) = (demoRoundedTree.1.lev_vertices 2).y := by
  have hy : (demoRoundedTree.1.lev_vertices 2).y = 1 / 4 := by decide!
  refine ⟨by decide!, Option_eq_some_getD _ (by decide!), hy, ?_⟩
  rintro ⟨n, hn⟩
  rw [hy] at hn
  have h4 : ((4 * n : Int) : ℚ) = ((1 : Int) : ℚ) := by push_cast; rw [hn]; norm_num
  have := Int.cast_injective h4
  omega

/-! ### `ConvertToList` and the `quad` pointer -/

theorem ConvertToListLoop_quad (fuel : Nat) :
    ∀ (L : Level) (list list_ptr : Option Nat) (r : Level × Option Nat),
      ConvertToListLoop fuel L list list_ptr = some r →
      ∀ s, (r.1.lev_segs s).quad = (L.lev_segs s).quad := by
  induction fuel with
  | zero => intro L list list_ptr r h; simp [ConvertToListLoop] at h
  | succ fuel ih =>
    intro L list list_ptr r h s
    cases list with
    | none =>
      simp only [ConvertToListLoop] at h
      rw [← Option.some.inj h]
    | some seg =>
      simp only [ConvertToListLoop] at h
      rw [ih _ _ _ _ h s]
      simp only [ListAddSeg, modSeg_apply]
      split_ifs with e
      · subst e; rfl
      · rfl

theorem ConvertToList_quad (tree : quadtree_c) :
    ∀ (L : Level) (list_ptr : Option Nat) (r : Level × Option Nat),
      tree.ConvertToList L list_ptr = some r →
      ∀ s, (r.1.lev_segs s).quad = (L.lev_segs s).quad := by
  induction tree with
  | leaf x1 y1 x2 y2 rn mn list =>
    intro L list_ptr r h
    exact ConvertToListLoop_quad _ _ _ _ _ h
  | node x1 y1 x2 y2 rn mn list sub0 sub1 ih0 ih1 =>
    intro L list_ptr r h s
    simp only [quadtree_c.ConvertToList, Option.bind_eq_some] at h
    obtain ⟨r1, h1, r0, h0, h2⟩ := h
    rw [ih1 _ _ _ h2 s, ih0 _ _ _ h0 s, ConvertToListLoop_quad _ _ _ _ _ h1 s]

/-- `CreateSubsector` writes no `quad` field: every seg keeps the quadtree pointer it had. -/
theorem CreateSubsector_quad (L : Level) (tree : quadtree_c) (r : Level × Nat)
    (h : CreateSubsector L tree = some r) :
    ∀ s, (r.1.lev_segs s).quad = (L.lev_segs s).quad := by
  intro s
  unfold CreateSubsector at h
  simp only [Option.bind_eq_some, Option.map_eq_some'] at h
  obtain ⟨c, hc, L3, h3, hr⟩ := h
  unfold DetermineMiddle at h3
  simp only [Option.map_eq_some'] at h3
  obtain ⟨st, -, hL3⟩ := h3
  rw [← hr, ← hL3]
  exact ConvertToList_quad tree _ _ _ hc s

/-- C32 (divergence): the two segs of `demoCreated` are put into a quadtree by
`TreeFromSegList` and poured into a subsector by `CreateSubsector`; both calls return, the
subsector's seg list holds the segs 1 and 0, and each of them still has `quad` pointing to
the root cell of the tree instead of `NULL`. -/
theorem CreateSubsector_leaves_quad_set :
    ((FindLimits2 demoCreated.1 demoCreated.2).bind fun bounds =>
      TreeFromSegList demoCreated.1 demoCreated.2 bounds) = some demoTree ∧
    CreateSubsector demoTree.2 demoTree.1 = some demoPoured ∧
    demoPoured.1.SubsecList demoPoured.2 [1, 0] ∧
    (demoPoured.1.lev_segs 0).quad = some [] ∧
    (demoPoured.1.lev_segs 1).quad = some [] := by
  refine ⟨Option_eq_some_getD _ (by decide!), Option_eq_some_getD _ (by decide!), ?_, ?_, ?_⟩
  · decide!
  · decide!
  · decide!

/-! ### `PickNodeWorker` and the cancellation flag -/

/-- C33 (divergence): the quadtree `demoWideTree` is not empty, its root has no seg of its
own and its `subs[0]` holds one real seg.  With the cancellation flag set,
`PickNodeWorker` on `subs[0]` returns `false`, yet `PickNodeWorker` on the root drops that
result and returns `true`. -/
theorem PickNodeWorker_drops_cancellation :
    TreeFromSegList demoWide (some 0) { minx := 0, miny := 0, maxx := 640, maxy := 100 } =
      some demoWideTree ∧
    demoWideTree.1.Empty = false ∧
    demoWideTree.1.list = none ∧
    (∃ sub0, demoWideTree.1.subs false = some sub0 ∧ sub0.list = some 0 ∧
      PickNodeWorker (1 / 128) 11 true demoDoc demoWideTree.2 demoWideTree.1 sub0
        (none, INT_MAX) = some (false, none, INT_MAX)) ∧
    PickNodeWorker (1 / 128) 11 true demoDoc demoWideTree.2 demoWideTree.1 demoWideTree.1
      (none, INT_MAX) = some (true, none, INT_MAX) := by
  refine ⟨Option_eq_some_getD _ (by decide!), by decide!, by decide!, ?_, by decide!⟩
  exact ⟨(demoWideTree.1.subs false).getD demoWideTree.1,
    Option_eq_some_getD _ (by decide!), by decide!, by decide!⟩

/-! ### The sign of `EvalPartition` -/

theorem truncQ_nonneg (q : ℚ) (h : 0 ≤ q) : 0 ≤ truncQ q := by
  unfold truncQ
  rw [if_pos h]
  exact Int.floor_nonneg.mpr h

theorem truncQ_penalty_nonneg (k : Int) (q : ℚ) (hk : 0 ≤ k) (hq : 1 ≤ q) :
    0 ≤ truncQ ((k : ℚ) * (q * q - 1)) := by
  apply truncQ_nonneg
  have hk' : (0 : ℚ) ≤ (k : ℚ) := by exact_mod_cast hk
  have : 0 ≤ q * q - 1 := by nlinarith
  exact mul_nonneg hk' this

theorem BumpLeft_cost (info : eval_info_t) (ld : Int) : (info.BumpLeft ld).cost = info.cost := by
  unfold eval_info_t.BumpLeft; split_ifs <;> rfl

theorem BumpRight_cost (info : eval_info_t) (ld : Int) : (info.BumpRight ld).cost = info.cost := by
  unfold eval_info_t.BumpRight; split_ifs <;> rfl

theorem one_le_div_of_pos_le {d : ℚ} (hd : 0 < d) (hle : d ≤ IFFY_LEN) : 1 ≤ IFFY_LEN / d := by
  rw [le_div_iff hd]; linarith

/-- The cost never goes down in the body of the loop of `EvalPartitionWorker`. -/
theorem EvalPartitionSeg_cost (DIST_EPSILON : ℚ) (factor : Int) (doc : Document)
    (part check : seg_t) (info : eval_info_t) (heps : 0 < DIST_EPSILON)
    (h4 : DIST_EPSILON ≤ IFFY_LEN) (hf : 0 ≤ factor) :
    info.cost ≤ (EvalPartitionSeg DIST_EPSILON factor doc part check info).cost := by
  have hP : (0 : Int) ≤ 40 * factor * PRECIOUS_MULTIPLY := by
    unfold PRECIOUS_MULTIPLY; positivity
  have hP2 : (0 : Int) ≤ 100 * factor * PRECIOUS_MULTIPLY := by
    unfold PRECIOUS_MULTIPLY; positivity
  have h100 : (0 : Int) ≤ 100 * factor := by positivity
  have h70 : (0 : Int) ≤ 70 * factor := by positivity
  have h140 : (0 : Int) ≤ 140 * factor := by positivity
  unfold EvalPartitionSeg
  cases hsame : decide (check.source_line = part.source_line)
  · simp only [Bool.false_eq_true, if_false]
    generalize part.PerpDist check.psx check.psy = a
    generalize part.PerpDist check.pex check.pey = b
    have key1 : info.cost ≤ (if |a| ≤ DIST_EPSILON ∨ |b| ≤ DIST_EPSILON then
        if IsPrecious doc check.linedef = true then
          { info with cost := info.cost + 40 * factor * PRECIOUS_MULTIPLY }
        else info
      else info).cost := by
      split_ifs
      · show info.cost ≤ info.cost + _; omega
      · exact le_refl _
      · exact le_refl _
    generalize (if |a| ≤ DIST_EPSILON ∨ |b| ≤ DIST_EPSILON then
        if IsPrecious doc check.linedef = true then
          { info with cost := info.cost + 40 * factor * PRECIOUS_MULTIPLY }
        else info
      else info) = info1 at key1 ⊢
    by_cases hline : |a| ≤ DIST_EPSILON ∧ |b| ≤ DIST_EPSILON
    · rw [if_pos hline]
      split_ifs
      · rw [BumpLeft_cost]
      · rw [BumpRight_cost]
    · rw [if_neg hline]
      by_cases hright : a > -DIST_EPSILON ∧ b > -DIST_EPSILON
      · rw [if_pos hright]
        by_cases hcont : (a ≥ IFFY_LEN ∧ b ≥ IFFY_LEN) ∨ (a ≤ DIST_EPSILON ∧ b ≥ IFFY_LEN) ∨
            (b ≤ DIST_EPSILON ∧ a ≥ IFFY_LEN)
        · rw [if_pos hcont, BumpRight_cost]; exact key1
        · rw [if_neg hcont]
          show info.cost ≤ (info1.BumpRight check.linedef).cost + _
          rw [BumpRight_cost]
          have hq : 1 ≤ (if a ≤ DIST_EPSILON ∨ b ≤ DIST_EPSILON then IFFY_LEN / max a b
              else IFFY_LEN / min a b) := by
            have hna : ¬ (a ≥ IFFY_LEN ∧ b ≥ IFFY_LEN) := fun h => hcont (Or.inl h)
            have hnb : ¬ (a ≤ DIST_EPSILON ∧ b ≥ IFFY_LEN) := fun h => hcont (Or.inr (Or.inl h))
            have hnc : ¬ (b ≤ DIST_EPSILON ∧ a ≥ IFFY_LEN) := fun h => hcont (Or.inr (Or.inr h))
            have hl : ¬ (a ≤ DIST_EPSILON ∧ b ≤ DIST_EPSILON) := by
              intro h; apply hline
              exact ⟨abs_le.mpr ⟨le_of_lt hright.1, h.1⟩, abs_le.mpr ⟨le_of_lt hright.2, h.2⟩⟩
            split_ifs with hs
            · apply one_le_div_of_pos_le
              · rcases hs with hs | hs
                · have : DIST_EPSILON < b := by
                    by_contra hb; exact hl ⟨hs, not_lt.mp hb⟩
                  exact lt_of_lt_of_le (lt_trans heps this) (le_max_right a b)
                · have : DIST_EPSILON < a := by
                    by_contra ha; exact hl ⟨not_lt.mp ha, hs⟩
                  exact lt_of_lt_of_le (lt_trans heps this) (le_max_left a b)
              · apply max_le
                · rcases hs with hs | hs
                  · linarith
                  · by_contra ha; exact hnc ⟨hs, le_of_lt (not_le.mp ha)⟩
                · rcases hs with hs | hs
                  · by_contra hb; exact hnb ⟨hs, le_of_lt (not_le.mp hb)⟩
                  · linarith
            · push_neg at hs
              apply one_le_div_of_pos_le
              · exact lt_min (lt_trans heps hs.1) (lt_trans heps hs.2)
              · by_contra hm
                rw [not_le, lt_min_iff] at hm
                exact hna ⟨le_of_lt hm.1, le_of_lt hm.2⟩
          have := truncQ_penalty_nonneg (100 * factor) _ h100 hq
          omega
      · rw [if_neg hright]
        by_cases hleft : a < DIST_EPSILON ∧ b < DIST_EPSILON
        · rw [if_pos hleft]
          by_cases hcont : (a ≤ -IFFY_LEN ∧ b ≤ -IFFY_LEN) ∨ (a ≥ -DIST_EPSILON ∧ b ≤ -IFFY_LEN) ∨
              (b ≥ -DIST_EPSILON ∧ a ≤ -IFFY_LEN)
          · rw [if_pos hcont, BumpLeft_cost]; exact key1
          · rw [if_neg hcont]
            show info.cost ≤ (info1.BumpLeft check.linedef).cost + _
            rw [BumpLeft_cost]
            have hq : 1 ≤ (if a ≥ -DIST_EPSILON ∨ b ≥ -DIST_EPSILON then IFFY_LEN / -(min a b)
                else IFFY_LEN / -(max a b)) := by
              have hna : ¬ (a ≤ -IFFY_LEN ∧ b ≤ -IFFY_LEN) := fun h => hcont (Or.inl h)
              have hnb : ¬ (a ≥ -DIST_EPSILON ∧ b ≤ -IFFY_LEN) :=
                fun h => hcont (Or.inr (Or.inl h))
              have hnc : ¬ (b ≥ -DIST_EPSILON ∧ a ≤ -IFFY_LEN) :=
                fun h => hcont (Or.inr (Or.inr h))
              have hl : ¬ (a ≥ -DIST_EPSILON ∧ b ≥ -DIST_EPSILON) := by
                intro h; apply hline
                exact ⟨abs_le.mpr ⟨h.1, le_of_lt hleft.1⟩, abs_le.mpr ⟨h.2, le_of_lt hleft.2⟩⟩
              split_ifs with hs
              · apply one_le_div_of_pos_le
                · rcases hs with hs | hs
                  · have : b < -DIST_EPSILON := by
                      by_contra hb; exact hl ⟨hs, not_lt.mp hb⟩
                    have := min_le_right a b
                    linarith
                  · have : a < -DIST_EPSILON := by
                      by_contra ha; exact hl ⟨not_lt.mp ha, hs⟩
                    have := min_le_left a b
                    linarith
                · have hmin : -IFFY_LEN ≤ min a b := by
                    apply le_min
                    · rcases hs with hs | hs
                      · linarith
                      · by_contra ha; exact hnc ⟨hs, le_of_lt (not_le.mp ha)⟩
                    · rcases hs with hs | hs
                      · by_contra hb; exact hnb ⟨hs, le_of_lt (not_le.mp hb)⟩
                      · linarith
                  linarith
              · push_neg at hs
                apply one_le_div_of_pos_le
                · have := max_lt hs.1 hs.2
                  linarith
                · by_contra hm
                  rw [not_le] at hm
                  have hm' : max a b < -IFFY_LEN := by linarith
                  rw [max_lt_iff] at hm'
                  exact hna ⟨le_of_lt hm'.1, le_of_lt hm'.2⟩
            have := truncQ_penalty_nonneg (70 * factor) _ h70 hq
            omega
        · rw [if_neg hleft]
          -- the split branch: one end is at least epsilon away on each side
          have hfa : DIST_EPSILON ≤ |a| ∧ DIST_EPSILON ≤ |b| := by
            rw [not_and_or, not_lt, not_lt] at hright hleft
            constructor
            · rcases hright with h | h
              · exact le_trans (by linarith) (neg_le_abs a)
              · rcases hleft with h' | h'
                · exact le_trans h' (le_abs_self a)
                · linarith
            · rcases hright with h | h
              · rcases hleft with h' | h'
                · linarith
                · exact le_trans h' (le_abs_self b)
              · exact le_trans (by linarith) (neg_le_abs b)
          have hq : (|a| < IFFY_LEN ∨ |b| < IFFY_LEN) → 1 ≤ IFFY_LEN / min |a| |b| := by
            intro hi
            apply one_le_div_of_pos_le
            · exact lt_min (lt_of_lt_of_le heps hfa.1) (lt_of_lt_of_le heps hfa.2)
            · rcases hi with hi | hi
              · exact le_trans (min_le_left _ _) (le_of_lt hi)
              · exact le_trans (min_le_right _ _) (le_of_lt hi)
          split_ifs with hi hp
          · show info.cost ≤ info1.cost + 100 * factor * PRECIOUS_MULTIPLY + _
            have := truncQ_penalty_nonneg (140 * factor) _ h140 (hq hi)
            omega
          · show info.cost ≤ info1.cost + 100 * factor + _
            have := truncQ_penalty_nonneg (140 * factor) _ h140 (hq hi)
            omega
          · show info.cost ≤ info1.cost + 100 * factor * PRECIOUS_MULTIPLY
            omega
          · show info.cost ≤ info1.cost + 100 * factor
            omega
  · simp only [if_true, abs_zero]
    rw [if_pos ⟨le_of_lt heps, le_of_lt heps⟩]
    split_ifs
    · rw [BumpLeft_cost]
    · rw [BumpRight_cost]

theorem BumpLeft_real (info : eval_info_t) (ld : Int) :
    info.real_left ≤ (info.BumpLeft ld).real_left ∧
      (info.BumpLeft ld).real_right = info.real_right := by
  unfold eval_info_t.BumpLeft
  split_ifs
  · exact ⟨by show info.real_left ≤ info.real_left + 1; omega, rfl⟩
  · exact ⟨le_refl _, rfl⟩

theorem BumpRight_real (info : eval_info_t) (ld : Int) :
    info.real_right ≤ (info.BumpRight ld).real_right ∧
      (info.BumpRight ld).real_left = info.real_left := by
  unfold eval_info_t.BumpRight
  split_ifs
  · exact ⟨by show info.real_right ≤ info.real_right + 1; omega, rfl⟩
  · exact ⟨le_refl _, rfl⟩

/-- The tallies of real segs never go down in the body of the loop. -/
theorem EvalPartitionSeg_real (DIST_EPSILON : ℚ) (factor : Int) (doc : Document)
    (part check : seg_t) (info : eval_info_t) :
    info.real_left ≤ (EvalPartitionSeg DIST_EPSILON factor doc part check info).real_left ∧
    info.real_right ≤ (EvalPartitionSeg DIST_EPSILON factor doc part check info).real_right := by
  have hL := fun i : eval_info_t => BumpLeft_real i check.linedef
  have hR := fun i : eval_info_t => BumpRight_real i check.linedef
  unfold EvalPartitionSeg
  simp only []
  generalize (if decide (check.source_line = part.source_line) = true then (0 : ℚ)
    else part.PerpDist check.psx check.psy) = a
  generalize (if decide (check.source_line = part.source_line) = true then (0 : ℚ)
    else part.PerpDist check.pex check.pey) = b
  generalize (if decide (check.source_line = part.source_line) = true then (0 : ℚ)
    else |a|) = fa
  generalize (if decide (check.source_line = part.source_line) = true then (0 : ℚ)
    else |b|) = fb
  have key1 : (if fa ≤ DIST_EPSILON ∨ fb ≤ DIST_EPSILON then
        if IsPrecious doc check.linedef = true then
          { info with cost := info.cost + 40 * factor * PRECIOUS_MULTIPLY }
        else info
      else info).real_left = info.real_left ∧
      (if fa ≤ DIST_EPSILON ∨ fb ≤ DIST_EPSILON then
        if IsPrecious doc check.linedef = true then
          { info with cost := info.cost + 40 * factor * PRECIOUS_MULTIPLY }
        else info
      else info).real_right = info.real_right := by
    split_ifs <;> exact ⟨rfl, rfl⟩
  generalize (if fa ≤ DIST_EPSILON ∨ fb ≤ DIST_EPSILON then
        if IsPrecious doc check.linedef = true then
          { info with cost := info.cost + 40 * factor * PRECIOUS_MULTIPLY }
        else info
      else info) = info1 at key1 ⊢
  obtain ⟨k1, k2⟩ := key1
  by_cases hline : fa ≤ DIST_EPSILON ∧ fb ≤ DIST_EPSILON
  · rw [if_pos hline]
    split_ifs
    · exact ⟨(hL info).1, by rw [(hL info).2]⟩
    · exact ⟨by rw [(hR info).2], (hR info).1⟩
  · rw [if_neg hline]
    by_cases hright : a > -DIST_EPSILON ∧ b > -DIST_EPSILON
    · rw [if_pos hright]
      have : info.real_left ≤ (info1.BumpRight check.linedef).real_left ∧
          info.real_right ≤ (info1.BumpRight check.linedef).real_right :=
        ⟨by rw [(hR info1).2, k1], by rw [← k2]; exact (hR info1).1⟩
      by_cases hcont : (a ≥ IFFY_LEN ∧ b ≥ IFFY_LEN) ∨ (a ≤ DIST_EPSILON ∧ b ≥ IFFY_LEN) ∨
          (b ≤ DIST_EPSILON ∧ a ≥ IFFY_LEN)
      · rw [if_pos hcont]; exact this
      · rw [if_neg hcont]; exact this
    · rw [if_neg hright]
      by_cases hleft : a < DIST_EPSILON ∧ b < DIST_EPSILON
      · rw [if_pos hleft]
        have : info.real_left ≤ (info1.BumpLeft check.linedef).real_left ∧
            info.real_right ≤ (info1.BumpLeft check.linedef).real_right :=
          ⟨by rw [← k1]; exact (hL info1).1, by rw [(hL info1).2, k2]⟩
        by_cases hcont : (a ≤ -IFFY_LEN ∧ b ≤ -IFFY_LEN) ∨ (a ≥ -DIST_EPSILON ∧ b ≤ -IFFY_LEN) ∨
            (b ≥ -DIST_EPSILON ∧ a ≤ -IFFY_LEN)
        · rw [if_pos hcont]; exact this
        · rw [if_neg hcont]; exact this
      · rw [if_neg hleft]
        by_cases hi : fa < IFFY_LEN ∨ fb < IFFY_LEN
        · rw [if_pos hi]
          by_cases hp : IsPrecious doc check.linedef = true
          · rw [if_pos hp]; exact ⟨le_of_eq k1.symm, le_of_eq k2.symm⟩
          · rw [if_neg hp]; exact ⟨le_of_eq k1.symm, le_of_eq k2.symm⟩
        · rw [if_neg hi]
          by_cases hp : IsPrecious doc check.linedef = true
          · rw [if_pos hp]; exact ⟨le_of_eq k1.symm, le_of_eq k2.symm⟩
          · rw [if_neg hp]; exact ⟨le_of_eq k1.symm, le_of_eq k2.symm⟩

theorem EvalPartitionLoop_mono (DIST_EPSILON : ℚ) (factor : Int) (doc : Document) (L : Level)
    (part : seg_t) (best_cost : Int) (heps : 0 < DIST_EPSILON) (h4 : DIST_EPSILON ≤ IFFY_LEN)
    (hf : 0 ≤ factor) (fuel : Nat) :
    ∀ (check : Option Nat) (info : eval_info_t) (r : Bool × eval_info_t),
      EvalPartitionLoop DIST_EPSILON factor doc L part best_cost fuel check info = some r →
      info.cost ≤ r.2.cost ∧ info.real_left ≤ r.2.real_left ∧
        info.real_right ≤ r.2.real_right := by
  induction fuel with
  | zero => intro check info r h; simp [EvalPartitionLoop] at h
  | succ fuel ih =>
    intro check info r h
    cases check with
    | none =>
      simp only [EvalPartitionLoop] at h
      rw [← Option.some.inj h]; exact ⟨le_refl _, le_refl _, le_refl _⟩
    | some c =>
      simp only [EvalPartitionLoop] at h
      split_ifs at h
      · rw [← Option.some.inj h]; exact ⟨le_refl _, le_refl _, le_refl _⟩
      · obtain ⟨h1, h2, h3⟩ := ih _ _ _ h
        have hc := EvalPartitionSeg_cost DIST_EPSILON factor doc part (L.lev_segs c) info heps h4 hf
        obtain ⟨hl, hr⟩ := EvalPartitionSeg_real DIST_EPSILON factor doc part (L.lev_segs c) info
        exact ⟨le_trans hc h1, le_trans hl h2, le_trans hr h3⟩

theorem EvalPartitionLoop_total (DIST_EPSILON : ℚ) (factor : Int) (doc : Document) (L : Level)
    (part : seg_t) (best_cost : Int) (fuel : Nat) :
    ∀ (check : Option Nat) (l : List Nat) (info : eval_info_t),
      IsLinked L.segNext check l → l.length < fuel →
      ∃ r, EvalPartitionLoop DIST_EPSILON factor doc L part best_cost fuel check info = some r := by
  induction fuel with
  | zero => intro check l info _ hlen; omega
  | succ fuel ih =>
    intro check l info hl hlen
    cases check with
    | none => exact ⟨_, rfl⟩
    | some c =>
      simp only [EvalPartitionLoop]
      split_ifs
      · exact ⟨_, rfl⟩
      · cases l with
        | nil => exact absurd hl (by simp [IsLinked, IsSeg])
        | cons a rest =>
          have hl' : IsLinked L.segNext (L.lev_segs c).next rest := by
            simp only [IsLinked, IsSeg] at hl
            obtain ⟨hh, ht⟩ := hl
            have hac : a = c := (Option.some.inj hh).symm
            subst hac
            exact ht
          exact ih _ rest _ hl' (by simp only [List.length_cons] at hlen; omega)

theorem segChain_spec (L : Level) (fuel : Nat) :
    ∀ (h : Option Nat) (l : List Nat), L.segChain fuel h = some l →
      IsLinked L.segNext h l ∧ l.length < fuel := by
  induction fuel with
  | zero => intro h l e; simp [Level.segChain] at e
  | succ fuel ih =>
    intro h l e
    cases h with
    | none =>
      simp only [Level.segChain] at e
      rw [← Option.some.inj e]
      exact ⟨rfl, Nat.succ_pos _⟩
    | some s =>
      simp only [Level.segChain, Option.map_eq_some'] at e
      obtain ⟨l', hl', rfl⟩ := e
      obtain ⟨h1, h2⟩ := ih _ _ hl'
      exact ⟨⟨rfl, h1⟩, by simp only [List.length_cons]; omega⟩

theorem ListOk_spec (L : Level) (list : Option Nat) (h : L.ListOk list = true) :
    ∃ l, IsLinked L.segNext list l ∧ l.length < L.num_segs + 1 ∧ ∀ s ∈ l, s < L.num_segs := by
  unfold Level.ListOk at h
  cases hc : L.segChain (L.num_segs + 1) list with
  | none => rw [hc] at h; exact Bool.noConfusion h
  | some l =>
    rw [hc] at h
    obtain ⟨h1, h2⟩ := segChain_spec L _ _ _ hc
    refine ⟨l, h1, h2, ?_⟩
    intro s hs
    have := List.all_eq_true.mp h s hs
    exact of_decide_eq_true this

theorem Proper_leaf {L : Level} {x1 y1 x2 y2 rn mn : Int} {list : Option Nat}
    (h : (quadtree_c.leaf x1 y1 x2 y2 rn mn list).Proper L = true) :
    0 ≤ rn ∧ 0 ≤ mn ∧ L.ListOk list = true := by
  simp only [quadtree_c.Proper, Bool.and_eq_true, decide_eq_true_eq] at h
  exact ⟨h.1.1, h.1.2, h.2⟩

theorem Proper_node {L : Level} {x1 y1 x2 y2 rn mn : Int} {list : Option Nat}
    {sub0 sub1 : quadtree_c}
    (h : (quadtree_c.node x1 y1 x2 y2 rn mn list sub0 sub1).Proper L = true) :
    0 ≤ rn ∧ 0 ≤ mn ∧ L.ListOk list = true ∧ sub0.Proper L = true ∧ sub1.Proper L = true := by
  simp only [quadtree_c.Proper, Bool.and_eq_true, decide_eq_true_eq] at h
  exact ⟨h.1.1.1.1, h.1.1.1.2, h.1.1.2, h.1.2, h.2⟩

/-- On a well-formed tree `EvalPartitionWorker` returns, and no tally or cost goes down. -/
theorem EvalPartitionWorker_spec (DIST_EPSILON : ℚ) (factor : Int) (doc : Document) (L : Level)
    (part : seg_t) (best_cost : Int) (heps : 0 < DIST_EPSILON) (h4 : DIST_EPSILON ≤ IFFY_LEN)
    (hf : 0 ≤ factor) (tree : quadtree_c) :
    tree.Proper L = true → ∀ info : eval_info_t,
      ∃ r, EvalPartitionWorker DIST_EPSILON factor doc L part best_cost tree info = some r ∧
        info.cost ≤ r.2.cost ∧ info.real_left ≤ r.2.real_left ∧
        info.real_right ≤ r.2.real_right := by
  induction tree with
  | leaf x1 y1 x2 y2 rn mn list =>
    intro hp info
    obtain ⟨hrn, hmn, hok⟩ := Proper_leaf hp
    obtain ⟨l, hl, hlen, -⟩ := ListOk_spec L list hok
    unfold EvalPartitionWorker
    cases (quadtree_c.leaf x1 y1 x2 y2 rn mn list).OnLineSide DIST_EPSILON part with
    | left => exact ⟨_, rfl, le_refl _, by show info.real_left ≤ info.real_left + rn; omega, le_refl _⟩
    | right =>
      exact ⟨_, rfl, le_refl _, le_refl _, by show info.real_right ≤ info.real_right + rn; omega⟩
    | neither =>
      obtain ⟨r, hr⟩ := EvalPartitionLoop_total DIST_EPSILON factor doc L part best_cost _ list l
        info hl hlen
      exact ⟨r, hr, EvalPartitionLoop_mono DIST_EPSILON factor doc L part best_cost heps h4 hf _ _
        _ _ hr⟩
  | node x1 y1 x2 y2 rn mn list sub0 sub1 ih0 ih1 =>
    intro hp info
    obtain ⟨hrn, hmn, hok, hp0, hp1⟩ := Proper_node hp
    obtain ⟨l, hl, hlen, -⟩ := ListOk_spec L list hok
    unfold EvalPartitionWorker
    cases (quadtree_c.node x1 y1 x2 y2 rn mn list sub0 sub1).OnLineSide DIST_EPSILON part with
    | left => exact ⟨_, rfl, le_refl _, by show info.real_left ≤ info.real_left + rn; omega, le_refl _⟩
    | right =>
      exact ⟨_, rfl, le_refl _, le_refl _, by show info.real_right ≤ info.real_right + rn; omega⟩
    | neither =>
      obtain ⟨r, hr⟩ := EvalPartitionLoop_total DIST_EPSILON factor doc L part best_cost _ list l
        info hl hlen
      obtain ⟨m1, m2, m3⟩ := EvalPartitionLoop_mono DIST_EPSILON factor doc L part best_cost heps
        h4 hf _ _ _ _ hr
      simp only [hr, Option.some_bind]
      by_cases hr1 : r.1 = true
      · rw [if_pos hr1]; exact ⟨_, rfl, m1, m2, m3⟩
      · rw [if_neg hr1]
        have h0 : ∃ r0, (if ¬ sub0.Empty = true then
            EvalPartitionWorker DIST_EPSILON factor doc L part best_cost sub0 r.2
            else some (false, r.2)) = some r0 ∧ r.2.cost ≤ r0.2.cost ∧
            r.2.real_left ≤ r0.2.real_left ∧ r.2.real_right ≤ r0.2.real_right := by
          split_ifs
          · exact ⟨_, rfl, le_refl _, le_refl _, le_refl _⟩
          · exact ih0 hp0 r.2
        obtain ⟨r0, hr0, n1, n2, n3⟩ := h0
        simp only [hr0, Option.some_bind]
        by_cases hr01 : r0.1 = true
        · rw [if_pos hr01]; exact ⟨_, rfl, le_trans m1 n1, le_trans m2 n2, le_trans m3 n3⟩
        · rw [if_neg hr01]
          split_ifs
          · exact ⟨_, rfl, le_trans m1 n1, le_trans m2 n2, le_trans m3 n3⟩
          · obtain ⟨r1, hr1, k1, k2, k3⟩ := ih1 hp1 r0.2
            exact ⟨r1, hr1, le_trans m1 (le_trans n1 k1), le_trans m2 (le_trans n2 k2),
              le_trans m3 (le_trans n3 k3)⟩

theorem ListOk_chain (L : Level) (list : Option Nat) (h : L.ListOk list = true) :
    ∃ l, L.segChain (L.num_segs + 1) list = some l ∧ IsLinked L.segNext list l ∧
      l.length < L.num_segs + 1 ∧ ∀ s ∈ l, s < L.num_segs := by
  unfold Level.ListOk at h
  cases hc : L.segChain (L.num_segs + 1) list with
  | none => rw [hc] at h; exact Bool.noConfusion h
  | some l =>
    rw [hc] at h
    obtain ⟨h1, h2⟩ := segChain_spec L _ _ _ hc
    refine ⟨l, rfl, h1, h2, ?_⟩
    intro s hs
    exact of_decide_eq_true (List.all_eq_true.mp h s hs)

theorem IsLinked_cons_some {nxt : Nat → Option Nat} {c : Nat} {l : List Nat}
    (h : IsLinked nxt (some c) l) : ∃ rest, l = c :: rest ∧ IsLinked nxt (nxt c) rest := by
  cases l with
  | nil => exact absurd h (by simp [IsLinked, IsSeg])
  | cons a rest =>
    simp only [IsLinked, IsSeg] at h
    obtain ⟨hh, ht⟩ := h
    have hac : a = c := (Option.some.inj hh).symm
    subst hac
    exact ⟨rest, rfl, ht⟩

theorem EvalPartitionWorker_total (DIST_EPSILON : ℚ) (factor : Int) (doc : Document) (L : Level)
    (part : seg_t) (best_cost : Int) (tree : quadtree_c) :
    tree.Proper L = true → ∀ info : eval_info_t,
      ∃ r, EvalPartitionWorker DIST_EPSILON factor doc L part best_cost tree info = some r := by
  induction tree with
  | leaf x1 y1 x2 y2 rn mn list =>
    intro hp info
    obtain ⟨-, -, hok⟩ := Proper_leaf hp
    obtain ⟨l, hl, hlen, -⟩ := ListOk_spec L list hok
    unfold EvalPartitionWorker
    cases (quadtree_c.leaf x1 y1 x2 y2 rn mn list).OnLineSide DIST_EPSILON part with
    | left => exact ⟨_, rfl⟩
    | right => exact ⟨_, rfl⟩
    | neither =>
      exact EvalPartitionLoop_total DIST_EPSILON factor doc L part best_cost _ list l info hl hlen
  | node x1 y1 x2 y2 rn mn list sub0 sub1 ih0 ih1 =>
    intro hp info
    obtain ⟨-, -, hok, hp0, hp1⟩ := Proper_node hp
    obtain ⟨l, hl, hlen, -⟩ := ListOk_spec L list hok
    unfold EvalPartitionWorker
    cases (quadtree_c.node x1 y1 x2 y2 rn mn list sub0 sub1).OnLineSide DIST_EPSILON part with
    | left => exact ⟨_, rfl⟩
    | right => exact ⟨_, rfl⟩
    | neither =>
      obtain ⟨r, hr⟩ := EvalPartitionLoop_total DIST_EPSILON factor doc L part best_cost _ list l
        info hl hlen
      simp only [hr, Option.some_bind]
      by_cases hr1 : r.1 = true
      · rw [if_pos hr1]; exact ⟨_, rfl⟩
      · rw [if_neg hr1]
        have h0 : ∃ r0, (if ¬ sub0.Empty = true then
            EvalPartitionWorker DIST_EPSILON factor doc L part best_cost sub0 r.2
            else some (false, r.2)) = some r0 := by
          split_ifs
          · exact ⟨_, rfl⟩
          · exact ih0 hp0 r.2
        obtain ⟨r0, hr0⟩ := h0
        simp only [hr0, Option.some_bind]
        by_cases hr01 : r0.1 = true
        · rw [if_pos hr01]; exact ⟨_, rfl⟩
        · rw [if_neg hr01]
          split_ifs
          · exact ⟨_, rfl⟩
          · exact ih1 hp1 r0.2

theorem EvalPartition_total (DIST_EPSILON : ℚ) (factor : Int) (doc : Document) (L : Level)
    (tree : quadtree_c) (part : seg_t) (best_cost : Int) (hp : tree.Proper L = true) :
    ∃ c, EvalPartition DIST_EPSILON factor doc L tree part best_cost = some c := by
  obtain ⟨r, hr⟩ := EvalPartitionWorker_total DIST_EPSILON factor doc L part best_cost tree hp
    eval_info_t.zero
  unfold EvalPartition
  rw [hr]
  exact ⟨_, rfl⟩

/-- The loop of `PickNodeWorker` returns, and keeps `*best` null or a real seg with the
property `P` that every seg of the list has. -/
theorem PickNodeLoop_spec (DIST_EPSILON : ℚ) (factor : Int) (cancelled : Bool) (doc : Document)
    (L : Level) (tree : quadtree_c) (hp : tree.Proper L = true) (P : Nat → Prop) (fuel : Nat) :
    ∀ (part : Option Nat) (l : List Nat) (st : Option Nat × Int),
      IsLinked L.segNext part l → l.length < fuel → (∀ s ∈ l, P s) →
      (∀ b, st.1 = some b → P b ∧ (L.lev_segs b).linedef ≥ 0) →
      ∃ r, PickNodeLoop DIST_EPSILON factor cancelled doc L tree fuel part st = some r ∧
        ∀ b, r.2.1 = some b → P b ∧ (L.lev_segs b).linedef ≥ 0 := by
  induction fuel with
  | zero => intro part l st _ hlen; omega
  | succ fuel ih =>
    intro part l st hl hlen hP hst
    cases part with
    | none => exact ⟨_, rfl, hst⟩
    | some p =>
      obtain ⟨rest, rfl, hrest⟩ := IsLinked_cons_some hl
      have hlen' : rest.length < fuel := by simp only [List.length_cons] at hlen; omega
      have hP' : ∀ s ∈ rest, P s := fun s hs => hP s (List.mem_cons_of_mem _ hs)
      simp only [PickNodeLoop]
      by_cases hc : cancelled = true
      · rw [if_pos hc]; exact ⟨_, rfl, hst⟩
      · rw [if_neg hc]
        by_cases hm : (L.lev_segs p).linedef < 0
        · rw [if_pos hm]; exact ih _ rest st hrest hlen' hP' hst
        · rw [if_neg hm]
          obtain ⟨c, hcost⟩ := EvalPartition_total DIST_EPSILON factor doc L tree (L.lev_segs p)
            st.2 hp
          simp only [hcost, Option.some_bind]
          split_ifs
          · exact ih _ rest st hrest hlen' hP' hst
          · refine ih _ rest (some p, c) hrest hlen' hP' ?_
            intro b hb
            have : p = b := Option.some.inj hb
            subst this
            exact ⟨hP p (List.mem_cons_self _ _), not_lt.mp hm⟩

theorem PickNodeWorker_spec (DIST_EPSILON : ℚ) (factor : Int) (cancelled : Bool) (doc : Document)
    (L : Level) (tree : quadtree_c) (hp : tree.Proper L = true) (P : Nat → Prop)
    (cell : quadtree_c) :
    cell.Proper L = true → (∀ s ∈ cell.Segs L, P s) → ∀ st : Option Nat × Int,
      (∀ b, st.1 = some b → P b ∧ (L.lev_segs b).linedef ≥ 0) →
      ∃ r, PickNodeWorker DIST_EPSILON factor cancelled doc L tree cell st = some r ∧
        ∀ b, r.2.1 = some b → P b ∧ (L.lev_segs b).linedef ≥ 0 := by
  induction cell with
  | leaf x1 y1 x2 y2 rn mn list =>
    intro hc hP st hst
    obtain ⟨-, -, hok⟩ := Proper_leaf hc
    obtain ⟨l, hch, hl, hlen, -⟩ := ListOk_chain L list hok
    simp only [quadtree_c.Segs, hch, Option.getD_some] at hP
    exact PickNodeLoop_spec DIST_EPSILON factor cancelled doc L tree hp P _ list l st hl hlen hP hst
  | node x1 y1 x2 y2 rn mn list sub0 sub1 ih0 ih1 =>
    intro hc hP st hst
    obtain ⟨-, -, hok, hp0, hp1⟩ := Proper_node hc
    obtain ⟨l, hch, hl, hlen, -⟩ := ListOk_chain L list hok
    simp only [quadtree_c.Segs, hch, Option.getD_some, List.mem_append] at hP
    obtain ⟨r, hr, hrb⟩ := PickNodeLoop_spec DIST_EPSILON factor cancelled doc L tree hp P _ list l
      st hl hlen (fun s hs => hP s (Or.inl (Or.inl hs))) hst
    simp only [PickNodeWorker, hr, Option.some_bind]
    by_cases hr1 : r.1 = true
    · rw [if_neg (not_not.mpr hr1)]
      have h0 : ∃ st0, (if ¬ sub0.Empty = true then
          (PickNodeWorker DIST_EPSILON factor cancelled doc L tree sub0 r.2).map fun r0 => r0.2
          else some r.2) = some st0 ∧ ∀ b, st0.1 = some b → P b ∧ (L.lev_segs b).linedef ≥ 0 := by
        split_ifs
        · exact ⟨_, rfl, hrb⟩
        · obtain ⟨r0, hr0, hb0⟩ := ih0 hp0 (fun s hs => hP s (Or.inl (Or.inr hs))) r.2 hrb
          exact ⟨r0.2, by rw [hr0]; rfl, hb0⟩
      obtain ⟨st0, hst0, hb0⟩ := h0
      simp only [hst0, Option.some_bind]
      have h1 : ∃ st1, (if ¬ sub1.Empty = true then
          (PickNodeWorker DIST_EPSILON factor cancelled doc L tree sub1 st0).map fun r1 => r1.2
          else some st0) = some st1 ∧ ∀ b, st1.1 = some b → P b ∧ (L.lev_segs b).linedef ≥ 0 := by
        split_ifs
        · exact ⟨_, rfl, hb0⟩
        · obtain ⟨r1, hr1', hb1⟩ := ih1 hp1 (fun s hs => hP s (Or.inr hs)) st0 hb0
          exact ⟨r1.2, by rw [hr1']; rfl, hb1⟩
      obtain ⟨st1, hst1, hb1⟩ := h1
      exact ⟨(true, st1), by rw [hst1]; rfl, hb1⟩
    · rw [if_pos hr1]
      exact ⟨_, rfl, hrb⟩

theorem EvaluateFastLoop_spec (L : Level) (mid_x mid_y : Int) (P : Nat → Prop) (fuel : Nat) :
    ∀ (part : Option Nat) (l : List Nat) (st : Option Nat × Option Nat),
      IsLinked L.segNext part l → l.length < fuel → (∀ s ∈ l, P s) →
      (∀ b, st.1 = some b ∨ st.2 = some b → P b ∧ (L.lev_segs b).linedef ≥ 0) →
      ∃ r, EvaluateFastLoop L mid_x mid_y fuel part st = some r ∧
        ∀ b, r.1 = some b ∨ r.2 = some b → P b ∧ (L.lev_segs b).linedef ≥ 0 := by
  induction fuel with
  | zero => intro part l st _ hlen; omega
  | succ fuel ih =>
    intro part l st hl hlen hP hst
    cases part with
    | none => exact ⟨_, rfl, hst⟩
    | some p =>
      obtain ⟨rest, rfl, hrest⟩ := IsLinked_cons_some hl
      have hlen' : rest.length < fuel := by simp only [List.length_cons] at hlen; omega
      have hP' : ∀ s ∈ rest, P s := fun s hs => hP s (List.mem_cons_of_mem _ hs)
      have hPp : P p := hP p (List.mem_cons_self _ _)
      simp only [EvaluateFastLoop]
      by_cases hm : (L.lev_segs p).linedef < 0
      · rw [if_pos hm]; exact ih _ rest st hrest hlen' hP' hst
      · rw [if_neg hm]
        have hgood : P p ∧ (L.lev_segs p).linedef ≥ 0 := ⟨hPp, not_lt.mp hm⟩
        have hH : ∀ b, (some p : Option Nat) = some b ∨ st.2 = some b →
            P b ∧ (L.lev_segs b).linedef ≥ 0 := by
          intro b hb
          rcases hb with hb | hb
          · have : p = b := Option.some.inj hb
            subst this; exact hgood
          · exact hst b (Or.inr hb)
        have hV : ∀ b, st.1 = some b ∨ (some p : Option Nat) = some b →
            P b ∧ (L.lev_segs b).linedef ≥ 0 := by
          intro b hb
          rcases hb with hb | hb
          · exact hst b (Or.inl hb)
          · have : p = b := Option.some.inj hb
            subst this; exact hgood
        by_cases hy : (L.lev_segs p).pdy = 0
        · rw [if_pos hy]
          cases h1 : st.1 with
          | none => exact ih _ rest (some p, st.2) hrest hlen' hP' hH
          | some best_H =>
            simp only []
            split_ifs
            · exact ih _ rest (some p, st.2) hrest hlen' hP' hH
            · exact ih _ rest st hrest hlen' hP' hst
        · rw [if_neg hy]
          by_cases hx : (L.lev_segs p).pdx = 0
          · rw [if_pos hx]
            cases h2 : st.2 with
            | none => exact ih _ rest (st.1, some p) hrest hlen' hP' hV
            | some best_V =>
              simp only []
              split_ifs
              · exact ih _ rest (st.1, some p) hrest hlen' hP' hV
              · exact ih _ rest st hrest hlen' hP' hst
          · rw [if_neg hx]; exact ih _ rest st hrest hlen' hP' hst

theorem EvaluateFastWorker_spec (L : Level) (mid_x mid_y : Int) (P : Nat → Prop)
    (cell : quadtree_c) :
    cell.Proper L = true → (∀ s ∈ cell.Segs L, P s) → ∀ st : Option Nat × Option Nat,
      (∀ b, st.1 = some b ∨ st.2 = some b → P b ∧ (L.lev_segs b).linedef ≥ 0) →
      ∃ r, EvaluateFastWorker L mid_x mid_y cell st = some r ∧
        ∀ b, r.1 = some b ∨ r.2 = some b → P b ∧ (L.lev_segs b).linedef ≥ 0 := by
  induction cell with
  | leaf x1 y1 x2 y2 rn mn list =>
    intro hc hP st hst
    obtain ⟨-, -, hok⟩ := Proper_leaf hc
    obtain ⟨l, hch, hl, hlen, -⟩ := ListOk_chain L list hok
    simp only [quadtree_c.Segs, hch, Option.getD_some] at hP
    exact EvaluateFastLoop_spec L mid_x mid_y P _ list l st hl hlen hP hst
  | node x1 y1 x2 y2 rn mn list sub0 sub1 ih0 ih1 =>
    intro hc hP st hst
    obtain ⟨-, -, hok, hp0, hp1⟩ := Proper_node hc
    obtain ⟨l, hch, hl, hlen, -⟩ := ListOk_chain L list hok
    simp only [quadtree_c.Segs, hch, Option.getD_some, List.mem_append] at hP
    obtain ⟨r, hr, hrb⟩ := EvaluateFastLoop_spec L mid_x mid_y P _ list l st hl hlen
      (fun s hs => hP s (Or.inl (Or.inl hs))) hst
    simp only [EvaluateFastWorker, hr, Option.some_bind]
    have h0 : ∃ r0, (if ¬ sub0.Empty = true then EvaluateFastWorker L mid_x mid_y sub0 r
        else some r) = some r0 ∧
        ∀ b, r0.1 = some b ∨ r0.2 = some b → P b ∧ (L.lev_segs b).linedef ≥ 0 := by
      split_ifs
      · exact ⟨_, rfl, hrb⟩
      · exact ih0 hp0 (fun s hs => hP s (Or.inl (Or.inr hs))) r hrb
    obtain ⟨r0, hr0, hb0⟩ := h0
    simp only [hr0, Option.some_bind]
    split_ifs
    · exact ⟨_, rfl, hb0⟩
    · exact ih1 hp1 (fun s hs => hP s (Or.inr hs)) r0 hb0

theorem FindFastSeg_spec (DIST_EPSILON : ℚ) (factor : Int) (doc : Document) (L : Level)
    (tree : quadtree_c) (hp : tree.Proper L = true) :
    ∃ res, FindFastSeg DIST_EPSILON factor doc L tree = some res ∧
      ∀ b, res = some b → b ∈ tree.Segs L ∧ (L.lev_segs b).linedef ≥ 0 := by
  obtain ⟨best, hbest, hb⟩ := EvaluateFastWorker_spec L (Int.tdiv (tree.x1 + tree.x2) 2)
    (Int.tdiv (tree.y1 + tree.y2) 2) (fun s => s ∈ tree.Segs L) tree hp (fun s hs => hs)
    (none, none) (by intro b hb; rcases hb with hb | hb <;> exact Option.noConfusion hb)
  unfold FindFastSeg
  simp only [hbest, Option.some_bind]
  have fin : ∀ H_cost V_cost : Int, ∃ res,
      (if H_cost < 0 ∧ V_cost < 0 then some none
        else if H_cost < 0 then some best.2
        else if V_cost < 0 then some best.1
        else some (if V_cost < H_cost then best.2 else best.1)) = some res ∧
      ∀ b, res = some b → b ∈ tree.Segs L ∧ (L.lev_segs b).linedef ≥ 0 := by
    intro H_cost V_cost
    split_ifs
    · exact ⟨none, rfl, fun b hb => Option.noConfusion hb⟩
    · exact ⟨_, rfl, fun b h => hb b (Or.inr h)⟩
    · exact ⟨_, rfl, fun b h => hb b (Or.inl h)⟩
    · exact ⟨_, rfl, fun b h => hb b (Or.inr h)⟩
    · exact ⟨_, rfl, fun b h => hb b (Or.inl h)⟩
  rcases h1 : best.1 with _ | bH
  · rcases h2 : best.2 with _ | bV
    · simp only [Option.some_bind]
      have := fin (-1) (-1)
      rw [h1, h2] at this
      exact this
    · simp only [Option.some_bind]
      obtain ⟨c, hc⟩ := EvalPartition_total DIST_EPSILON factor doc L tree (L.lev_segs bV)
        99999999 hp
      rw [hc]
      simp only [Option.some_bind]
      have := fin (-1) c
      rw [h1, h2] at this
      exact this
  · obtain ⟨cH, hcH⟩ := EvalPartition_total DIST_EPSILON factor doc L tree (L.lev_segs bH)
      99999999 hp
    rcases h2 : best.2 with _ | bV
    · simp only []
      rw [hcH]
      simp only [Option.some_bind]
      have := fin cH (-1)
      rw [h1, h2] at this
      exact this
    · simp only []
      obtain ⟨c, hc⟩ := EvalPartition_total DIST_EPSILON factor doc L tree (L.lev_segs bV)
        99999999 hp
      rw [hcH, hc]
      simp only [Option.some_bind]
      have := fin cH c
      rw [h1, h2] at this
      exact this

/-- C10: `PickNode` never returns a miniseg: in fast mode and in the full search alike, on
a well-formed tree `PickNode` returns, and a non-null result is a seg stored in the given
quadtree with `linedef >= 0`. -/
theorem PickNode_returns_real_seg (DIST_EPSILON : ℚ) (factor : Int) (fast cancelled : Bool)
    (doc : Document) (L : Level) (tree : quadtree_c) (hp : tree.Proper L = true) :
    ∃ res, PickNode DIST_EPSILON factor fast cancelled doc L tree = some res ∧
      ∀ b, res = some b → b ∈ tree.Segs L ∧ (L.lev_segs b).linedef ≥ 0 := by
  obtain ⟨r, hr, hrb⟩ := PickNodeWorker_spec DIST_EPSILON factor cancelled doc L tree hp
    (fun s => s ∈ tree.Segs L) tree hp (fun s hs => hs) (none, INT_MAX)
    (fun b hb => Option.noConfusion hb)
  have hfull : ∃ res, (PickNodeWorker DIST_EPSILON factor cancelled doc L tree tree
      (none, INT_MAX)).map (fun r => if ¬ r.1 = true then none else r.2.1) = some res ∧
      ∀ b, res = some b → b ∈ tree.Segs L ∧ (L.lev_segs b).linedef ≥ 0 := by
    rw [hr]
    refine ⟨if ¬ r.1 = true then none else r.2.1, rfl, ?_⟩
    intro b hb
    split_ifs at hb
    · exact hrb b hb
  unfold PickNode
  by_cases hf : fast = true ∧ tree.real_num ≥ SEG_FAST_THRESHHOLD
  · rw [if_pos hf]
    obtain ⟨res, hres, hgood⟩ := FindFastSeg_spec DIST_EPSILON factor doc L tree hp
    rw [hres]
    cases res with
    | none => exact hfull
    | some b => exact ⟨some b, rfl, hgood⟩
  · rw [if_neg hf]
    exact hfull

theorem PickNode_returns_real_seg_witness :
    ∃ res, PickNode (1 / 128) 11 false false demoThreeDoc demoThreeTree.2 demoThreeTree.1 =
        some res ∧
      ∀ b, res = some b →
        b ∈ demoThreeTree.1.Segs demoThreeTree.2 ∧ (demoThreeTree.2.lev_segs b).linedef ≥ 0 :=
  PickNode_returns_real_seg (1 / 128) 11 false false demoThreeDoc demoThreeTree.2 demoThreeTree.1
    (by decide!)

/-! ### The evaluator and the divider classify a seg alike -/

theorem SplitSegPartner_num_segs {hypot : ℚ → ℚ → ℚ} {L L' : Level} {S T V : Nat}
    (h : SplitSegPartner hypot L S T V = some L') : L'.num_segs = L.num_segs + 1 := by
  unfold SplitSegPartner at h
  simp only [Option.bind_eq_some] at h
  obtain ⟨L5, h5, L7, h7, hL'⟩ := h
  have e5 := (RecomputeSeg_frame h5).2.2
  have e7 := (RecomputeSeg_frame h7).2.2
  rw [← Option.some.inj hL']
  show L7.num_segs = _
  rw [e7]
  show L5.num_segs = _
  rw [e5]
  rfl

theorem SplitSeg_num_segs {hypot : ℚ → ℚ → ℚ} {L : Level} {S : Nat} {x y : ℚ}
    {r : Level × Nat} (h : SplitSeg hypot L S x y = some r) :
    r.2 = L.num_segs ∧ L.num_segs < r.1.num_segs := by
  unfold SplitSeg at h
  simp only [Option.bind_eq_some] at h
  obtain ⟨L4, h4, L6, h6, hr⟩ := h
  have e4 := (RecomputeSeg_frame h4).2.2
  have e6 := (RecomputeSeg_frame h6).2.2
  have n6 : L6.num_segs = L.num_segs + 1 := by
    rw [e6]
    show L4.num_segs = _
    rw [e4]
    rfl
  cases hp : (L6.lev_segs S).partner with
  | none =>
    rw [hp] at hr
    rw [← Option.some.inj hr]
    exact ⟨rfl, by show L.num_segs < L6.num_segs; omega⟩
  | some p =>
    rw [hp] at hr
    simp only [Option.map_eq_some'] at hr
    obtain ⟨L7, h7, hr⟩ := hr
    rw [← hr]
    have := SplitSegPartner_num_segs h7
    exact ⟨rfl, by show L.num_segs < L7.num_segs; omega⟩

theorem forceClosed_segs (L : Level) (cut : Nat) (fc : Int) :
    (forceClosed L cut fc).lev_segs = L.lev_segs ∧ (forceClosed L cut fc).num_segs = L.num_segs := by
  unfold forceClosed
  split_ifs <;> exact ⟨rfl, rfl⟩

theorem AddIntersectionMerge_segs (eps : ℚ) (vert : Nat) (along : ℚ) (ob oa : Bool) (fc : Int)
    (fuel : Nat) : ∀ (L : Level) (cut : Option Nat) (L' : Level),
      AddIntersectionMerge eps vert along ob oa fc fuel L cut = some (some L') →
      L'.lev_segs = L.lev_segs ∧ L'.num_segs = L.num_segs := by
  induction fuel with
  | zero => intro L cut L' h; simp [AddIntersectionMerge] at h
  | succ fuel ih =>
    intro L cut L' h
    cases cut with
    | none => simp [AddIntersectionMerge] at h
    | some c =>
      simp only [AddIntersectionMerge] at h
      split_ifs at h
      all_goals first
        | exact ih _ _ _ h
        | (have e := Option.some.inj (Option.some.inj h)
           rw [← e]
           exact forceClosed_segs _ _ _)

theorem NewIntersection_segs (L : Level) :
    (NewIntersection L).1.lev_segs = L.lev_segs ∧ (NewIntersection L).1.num_segs = L.num_segs := by
  unfold NewIntersection
  cases L.quick_alloc_cuts <;> exact ⟨rfl, rfl⟩

theorem AddIntersectionLink_segs (L : Level) (cut_list : Option Nat) (cut : Nat)
    (after : Option Nat) :
    (AddIntersectionLink L cut_list cut after).1.lev_segs = L.lev_segs ∧
      (AddIntersectionLink L cut_list cut after).1.num_segs = L.num_segs := by
  unfold AddIntersectionLink
  cases after with
  | none =>
    cases cut_list <;> exact ⟨rfl, rfl⟩
  | some a =>
    simp only []
    split <;> exact ⟨rfl, rfl⟩

/-- `AddIntersection` touches no seg. -/
theorem AddIntersection_segs {eps : ℚ} {VCO : Nat → ℚ → ℚ → Bool} {L : Level}
    {cut_list : Option Nat} {vert : Nat} {part : seg_t} {self_ref : Bool} {fc : Int}
    {r : Level × Option Nat}
    (h : AddIntersection eps VCO L cut_list vert part self_ref fc = some r) :
    r.1.lev_segs = L.lev_segs ∧ r.1.num_segs = L.num_segs := by
  unfold AddIntersection at h
  simp only [Option.bind_eq_some] at h
  obtain ⟨merged, hm, h⟩ := h
  cases merged with
  | some L' =>
    simp only [Option.some.injEq] at h
    rw [← h]
    exact AddIntersectionMerge_segs _ _ _ _ _ _ _ _ _ _ hm
  | none =>
    simp only [Option.bind_eq_some] at h
    obtain ⟨last, -, after, -, h⟩ := h
    rw [← Option.some.inj h]
    obtain ⟨e1, e2⟩ := AddIntersectionLink_segs
      ((NewIntersection L).1.modCut (NewIntersection L).2 fun c => { c with
        vertex := vert
        along_dist := part.ParallelDist (L.lev_vertices vert).x (L.lev_vertices vert).y
        self_ref := self_ref
        open_before := if fc = 1 then false else VCO vert (-part.pdx) (-part.pdy)
        open_after := if fc = 2 then false else VCO vert part.pdx part.pdy })
      cut_list (NewIntersection L).2 after
    obtain ⟨n1, n2⟩ := NewIntersection_segs L
    exact ⟨e1.trans n1, e2.trans n2⟩

theorem BumpLeft_tally (info : eval_info_t) (ld : Int) :
    (info.BumpLeft ld).real_left + (info.BumpLeft ld).mini_left =
        info.real_left + info.mini_left + 1 ∧
    (info.BumpLeft ld).real_right + (info.BumpLeft ld).mini_right =
        info.real_right + info.mini_right ∧
    (info.BumpLeft ld).splits = info.splits := by
  unfold eval_info_t.BumpLeft
  split_ifs
  · exact ⟨by show info.real_left + 1 + info.mini_left = _; omega, rfl, rfl⟩
  · exact ⟨by show info.real_left + (info.mini_left + 1) = _; omega, rfl, rfl⟩

theorem BumpRight_tally (info : eval_info_t) (ld : Int) :
    (info.BumpRight ld).real_left + (info.BumpRight ld).mini_left =
        info.real_left + info.mini_left ∧
    (info.BumpRight ld).real_right + (info.BumpRight ld).mini_right =
        info.real_right + info.mini_right + 1 ∧
    (info.BumpRight ld).splits = info.splits := by
  unfold eval_info_t.BumpRight
  split_ifs
  · exact ⟨rfl, by show info.real_right + 1 + info.mini_right = _; omega, rfl⟩
  · exact ⟨rfl, by show info.real_right + (info.mini_right + 1) = _; omega, rfl⟩

/-- What the body of the loop of `EvalPartitionWorker` does to the tallies, by the case
of the seg: it bumps the left tally, or the right tally, or the split count. -/
theorem EvalPartitionSeg_way (DIST_EPSILON : ℚ) (factor : Int) (doc : Document)
    (part check : seg_t) (info : eval_info_t) (a b : ℚ)
    (ha : a = if check.source_line = part.source_line then 0
      else part.PerpDist check.psx check.psy)
    (hb : b = if check.source_line = part.source_line then 0
      else part.PerpDist check.pex check.pey) :
    (((|a| ≤ DIST_EPSILON ∧ |b| ≤ DIST_EPSILON ∧
          check.pdx * part.pdx + check.pdy * part.pdy < 0) ∨
        (¬ (|a| ≤ DIST_EPSILON ∧ |b| ≤ DIST_EPSILON) ∧
          ¬ (a > -DIST_EPSILON ∧ b > -DIST_EPSILON) ∧ (a < DIST_EPSILON ∧ b < DIST_EPSILON))) ∧
      (EvalPartitionSeg DIST_EPSILON factor doc part check info).real_left +
          (EvalPartitionSeg DIST_EPSILON factor doc part check info).mini_left =
        info.real_left + info.mini_left + 1 ∧
      (EvalPartitionSeg DIST_EPSILON factor doc part check info).real_right +
          (EvalPartitionSeg DIST_EPSILON factor doc part check info).mini_right =
        info.real_right + info.mini_right ∧
      (EvalPartitionSeg DIST_EPSILON factor doc part check info).splits = info.splits) ∨
    (((|a| ≤ DIST_EPSILON ∧ |b| ≤ DIST_EPSILON ∧
          ¬ check.pdx * part.pdx + check.pdy * part.pdy < 0) ∨
        (¬ (|a| ≤ DIST_EPSILON ∧ |b| ≤ DIST_EPSILON) ∧
          (a > -DIST_EPSILON ∧ b > -DIST_EPSILON))) ∧
      (EvalPartitionSeg DIST_EPSILON factor doc part check info).real_left +
          (EvalPartitionSeg DIST_EPSILON factor doc part check info).mini_left =
        info.real_left + info.mini_left ∧
      (EvalPartitionSeg DIST_EPSILON factor doc part check info).real_right +
          (EvalPartitionSeg DIST_EPSILON factor doc part check info).mini_right =
        info.real_right + info.mini_right + 1 ∧
      (EvalPartitionSeg DIST_EPSILON factor doc part check info).splits = info.splits) ∨
    ((¬ (|a| ≤ DIST_EPSILON ∧ |b| ≤ DIST_EPSILON) ∧
        ¬ (a > -DIST_EPSILON ∧ b > -DIST_EPSILON) ∧ ¬ (a < DIST_EPSILON ∧ b < DIST_EPSILON)) ∧
      (EvalPartitionSeg DIST_EPSILON factor doc part check info).real_left +
          (EvalPartitionSeg DIST_EPSILON factor doc part check info).mini_left =
        info.real_left + info.mini_left ∧
      (EvalPartitionSeg DIST_EPSILON factor doc part check info).real_right +
          (EvalPartitionSeg DIST_EPSILON factor doc part check info).mini_right =
        info.real_right + info.mini_right ∧
      (EvalPartitionSeg DIST_EPSILON factor doc part check info).splits = info.splits + 1) := by
  have hL := fun i : eval_info_t => BumpLeft_tally i check.linedef
  have hR := fun i : eval_info_t => BumpRight_tally i check.linedef
  unfold EvalPartitionSeg
  simp only [decide_eq_true_eq]
  rw [← ha, ← hb]
  have hfa : (if check.source_line = part.source_line then (0 : ℚ) else |a|) = |a| := by
    split_ifs with hs
    · rw [ha, if_pos hs, abs_zero]
    · rfl
  have hfb : (if check.source_line = part.source_line then (0 : ℚ) else |b|) = |b| := by
    split_ifs with hs
    · rw [hb, if_pos hs, abs_zero]
    · rfl
  rw [hfa, hfb]
  have key1 : ∀ i1 : eval_info_t, i1 = (if |a| ≤ DIST_EPSILON ∨ |b| ≤ DIST_EPSILON then
        if IsPrecious doc check.linedef = true then
          { info with cost := info.cost + 40 * factor * PRECIOUS_MULTIPLY }
        else info
      else info) →
      i1.real_left = info.real_left ∧ i1.mini_left = info.mini_left ∧
      i1.real_right = info.real_right ∧ i1.mini_right = info.mini_right ∧
      i1.splits = info.splits := by
    intro i1 h
    rw [h]
    split_ifs <;> exact ⟨rfl, rfl, rfl, rfl, rfl⟩
  generalize hi1 : (if |a| ≤ DIST_EPSILON ∨ |b| ≤ DIST_EPSILON then
        if IsPrecious doc check.linedef = true then
          { info with cost := info.cost + 40 * factor * PRECIOUS_MULTIPLY }
        else info
      else info) = info1
  obtain ⟨k1, k2, k3, k4, k5⟩ := key1 info1 hi1.symm
  by_cases hline : |a| ≤ DIST_EPSILON ∧ |b| ≤ DIST_EPSILON
  · rw [if_pos hline]
    by_cases hd : check.pdx * part.pdx + check.pdy * part.pdy < 0
    · rw [if_pos hd]
      exact Or.inl ⟨Or.inl ⟨hline.1, hline.2, hd⟩, (hL info).1, (hL info).2.1, (hL info).2.2⟩
    · rw [if_neg hd]
      exact Or.inr (Or.inl ⟨Or.inl ⟨hline.1, hline.2, hd⟩, (hR info).1, (hR info).2.1,
        (hR info).2.2⟩)
  · rw [if_neg hline]
    by_cases hright : a > -DIST_EPSILON ∧ b > -DIST_EPSILON
    · rw [if_pos hright]
      have fL : (info1.BumpRight check.linedef).real_left +
          (info1.BumpRight check.linedef).mini_left = info.real_left + info.mini_left := by
        rw [(hR info1).1, k1, k2]
      have fR : (info1.BumpRight check.linedef).real_right +
          (info1.BumpRight check.linedef).mini_right = info.real_right + info.mini_right + 1 := by
        rw [(hR info1).2.1, k3, k4]
      have fS : (info1.BumpRight check.linedef).splits = info.splits := by
        rw [(hR info1).2.2, k5]
      refine Or.inr (Or.inl ⟨Or.inr ⟨hline, hright⟩, ?_, ?_, ?_⟩)
      · split_ifs <;> exact fL
      · split_ifs <;> exact fR
      · split_ifs <;> exact fS
    · rw [if_neg hright]
      by_cases hleft : a < DIST_EPSILON ∧ b < DIST_EPSILON
      · rw [if_pos hleft]
        have fL : (info1.BumpLeft check.linedef).real_left +
            (info1.BumpLeft check.linedef).mini_left = info.real_left + info.mini_left + 1 := by
          rw [(hL info1).1, k1, k2]
        have fR : (info1.BumpLeft check.linedef).real_right +
            (info1.BumpLeft check.linedef).mini_right = info.real_right + info.mini_right := by
          rw [(hL info1).2.1, k3, k4]
        have fS : (info1.BumpLeft check.linedef).splits = info.splits := by
          rw [(hL info1).2.2, k5]
        refine Or.inl ⟨Or.inr ⟨hline, hright, hleft⟩, ?_, ?_, ?_⟩
        · split_ifs <;> exact fL
        · split_ifs <;> exact fR
        · split_ifs <;> exact fS
      · rw [if_neg hleft]
        have fL : info1.real_left + info1.mini_left = info.real_left + info.mini_left := by
          rw [k1, k2]
        have fR : info1.real_right + info1.mini_right = info.real_right + info.mini_right := by
          rw [k3, k4]
        have fS : info1.splits + 1 = info.splits + 1 := by rw [k5]
        refine Or.inr (Or.inr ⟨⟨hline, hright, hleft⟩, ?_, ?_, ?_⟩)
        · split_ifs <;> exact fL
        · split_ifs <;> exact fR
        · split_ifs <;> exact fS

/-- Where `DivideOneSeg` puts the seg, by the case of the seg. -/
theorem DivideOneSeg_way {DIST_EPSILON : ℚ} {hypot : ℚ → ℚ → ℚ}
    {VertexCheckOpen : Nat → ℚ → ℚ → Bool} {doc : Document} {L : Level} {seg part : Nat}
    {left_list right_list cut_list : Option Nat}
    {r : Level × Option Nat × Option Nat × Option Nat}
    (h : DivideOneSeg DIST_EPSILON hypot VertexCheckOpen doc L seg part left_list right_list
      cut_list = some r) (a b : ℚ)
    (ha : a = if (L.lev_segs seg).source_line = (L.lev_segs part).source_line then 0
      else (L.lev_segs part).PerpDist (L.lev_segs seg).psx (L.lev_segs seg).psy)
    (hb : b = if (L.lev_segs seg).source_line = (L.lev_segs part).source_line then 0
      else (L.lev_segs part).PerpDist (L.lev_segs seg).pex (L.lev_segs seg).pey) :
    (((|a| ≤ DIST_EPSILON ∧ |b| ≤ DIST_EPSILON ∧
          (L.lev_segs seg).pdx * (L.lev_segs part).pdx +
            (L.lev_segs seg).pdy * (L.lev_segs part).pdy < 0) ∨
        (¬ (|a| ≤ DIST_EPSILON ∧ |b| ≤ DIST_EPSILON) ∧
          ¬ (a > -DIST_EPSILON ∧ b > -DIST_EPSILON) ∧ (a < DIST_EPSILON ∧ b < DIST_EPSILON))) →
      r.2.1 = some seg ∧ r.2.2.1 = right_list ∧ r.1.num_segs = L.num_segs) ∧
    (((|a| ≤ DIST_EPSILON ∧ |b| ≤ DIST_EPSILON ∧
          ¬ (L.lev_segs seg).pdx * (L.lev_segs part).pdx +
            (L.lev_segs seg).pdy * (L.lev_segs part).pdy < 0) ∨
        (¬ (|a| ≤ DIST_EPSILON ∧ |b| ≤ DIST_EPSILON) ∧
          (a > -DIST_EPSILON ∧ b > -DIST_EPSILON))) →
      r.2.2.1 = some seg ∧ r.2.1 = left_list ∧ r.1.num_segs = L.num_segs) ∧
    ((¬ (|a| ≤ DIST_EPSILON ∧ |b| ≤ DIST_EPSILON) ∧
        ¬ (a > -DIST_EPSILON ∧ b > -DIST_EPSILON) ∧ ¬ (a < DIST_EPSILON ∧ b < DIST_EPSILON)) →
      L.num_segs < r.1.num_segs) := by
  unfold DivideOneSeg at h
  simp only [] at h
  rw [← ha, ← hb] at h
  by_cases hline : |a| ≤ DIST_EPSILON ∧ |b| ≤ DIST_EPSILON
  · rw [if_pos hline] at h
    simp only [Option.bind_eq_some] at h
    obtain ⟨r1, h1, r2, h2, h⟩ := h
    obtain ⟨s1, n1⟩ := AddIntersection_segs h1
    obtain ⟨s2, n2⟩ := AddIntersection_segs h2
    rw [s2, s1] at h
    by_cases hd : (L.lev_segs seg).pdx * (L.lev_segs part).pdx +
        (L.lev_segs seg).pdy * (L.lev_segs part).pdy < 0
    · rw [if_pos hd] at h
      rw [← Option.some.inj h]
      refine ⟨fun _ => ⟨rfl, rfl, ?_⟩, ?_, ?_⟩
      · show r2.1.num_segs = _
        rw [n2, n1]
      · rintro (⟨-, -, hh⟩ | ⟨hh, -⟩)
        · exact absurd hd hh
        · exact absurd hline hh
      · rintro ⟨hh, -⟩; exact absurd hline hh
    · rw [if_neg hd] at h
      rw [← Option.some.inj h]
      refine ⟨?_, fun _ => ⟨rfl, rfl, ?_⟩, ?_⟩
      · rintro (⟨-, -, hh⟩ | ⟨hh, -⟩)
        · exact absurd hh hd
        · exact absurd hline hh
      · show r2.1.num_segs = _
        rw [n2, n1]
      · rintro ⟨hh, -⟩; exact absurd hline hh
  · rw [if_neg hline] at h
    by_cases hright : a > -DIST_EPSILON ∧ b > -DIST_EPSILON
    · rw [if_pos hright] at h
      simp only [Option.bind_eq_some] at h
      obtain ⟨r1, h1, h⟩ := h
      have n1 : r1.1.num_segs = L.num_segs := by
        split_ifs at h1
        all_goals first
          | exact (AddIntersection_segs h1).2
          | rw [← Option.some.inj h1]
      rw [← Option.some.inj h]
      refine ⟨?_, fun _ => ⟨rfl, rfl, n1⟩, ?_⟩
      · rintro (⟨h1', h2', -⟩ | ⟨-, hh, -⟩)
        · exact absurd ⟨h1', h2'⟩ hline
        · exact absurd hright hh
      · rintro ⟨-, hh, -⟩; exact absurd hright hh
    · rw [if_neg hright] at h
      by_cases hleft : a < DIST_EPSILON ∧ b < DIST_EPSILON
      · rw [if_pos hleft] at h
        simp only [Option.bind_eq_some] at h
        obtain ⟨r1, h1, h⟩ := h
        have n1 : r1.1.num_segs = L.num_segs := by
          split_ifs at h1
          all_goals first
            | exact (AddIntersection_segs h1).2
            | rw [← Option.some.inj h1]
        rw [← Option.some.inj h]
        refine ⟨fun _ => ⟨rfl, rfl, n1⟩, ?_, ?_⟩
        · rintro (⟨h1', h2', -⟩ | ⟨-, hh⟩)
          · exact absurd ⟨h1', h2'⟩ hline
          · exact absurd hh hright
        · rintro ⟨-, -, hh⟩; exact absurd hleft hh
      · rw [if_neg hleft] at h
        simp only [Option.bind_eq_some] at h
        obtain ⟨sp, hsp, r1, h1, h⟩ := h
        obtain ⟨-, nsp⟩ := SplitSeg_num_segs hsp
        have n1 := (AddIntersection_segs h1).2
        refine ⟨?_, ?_, fun _ => ?_⟩
        · rintro (⟨h1', h2', -⟩ | ⟨-, -, hh⟩)
          · exact absurd ⟨h1', h2'⟩ hline
          · exact absurd hh hleft
        · rintro (⟨h1', h2', -⟩ | ⟨-, hh⟩)
          · exact absurd ⟨h1', h2'⟩ hline
          · exact absurd hh hright
        · split_ifs at h
          · rw [← Option.some.inj h]
            show L.num_segs < r1.1.num_segs
            rw [n1]; exact nsp
          · rw [← Option.some.inj h]
            show L.num_segs < r1.1.num_segs
            rw [n1]; exact nsp

/-- C22: `EvalPartitionWorker` and `DivideOneSeg` follow the same logic.  For every
partition seg and every seg examined individually (a seg that is not yet the head of the
left or right list), whenever `DivideOneSeg` returns: the evaluator bumps the left tally
iff `DivideOneSeg` puts the unsplit seg on the left list, bumps the right tally iff it puts
the unsplit seg on the right list, and counts a split iff `DivideOneSeg` splits the seg
(allocates a new seg); the forced `a = b = 0` for equal `source_line` is part of both. -/
theorem EvalPartition_and_DivideOneSeg_agree (DIST_EPSILON : ℚ) (factor : Int)
    (hypot : ℚ → ℚ → ℚ) (VertexCheckOpen : Nat → ℚ → ℚ → Bool) (doc : Document) (L : Level)
    (seg part : Nat) (left_list right_list cut_list : Option Nat) (info : eval_info_t)
    (r : Level × Option Nat × Option Nat × Option Nat)
    (hl : left_list ≠ some seg) (hr : right_list ≠ some seg)
    (h : DivideOneSeg DIST_EPSILON hypot VertexCheckOpen doc L seg part left_list right_list
      cut_list = some r) :
    ((EvalPartitionSeg DIST_EPSILON factor doc (L.lev_segs part) (L.lev_segs seg) info).real_left +
        (EvalPartitionSeg DIST_EPSILON factor doc (L.lev_segs part) (L.lev_segs seg)
          info).mini_left = info.real_left + info.mini_left + 1 ↔
      r.2.1 = some seg ∧ r.1.num_segs = L.num_segs) ∧
    ((EvalPartitionSeg DIST_EPSILON factor doc (L.lev_segs part) (L.lev_segs seg) info).real_right +
        (EvalPartitionSeg DIST_EPSILON factor doc (L.lev_segs part) (L.lev_segs seg)
          info).mini_right = info.real_right + info.mini_right + 1 ↔
      r.2.2.1 = some seg ∧ r.1.num_segs = L.num_segs) ∧
    ((EvalPartitionSeg DIST_EPSILON factor doc (L.lev_segs part) (L.lev_segs seg) info).splits =
        info.splits + 1 ↔ L.num_segs < r.1.num_segs) := by
  obtain ⟨dL, dR, dS⟩ := DivideOneSeg_way h _ _ rfl rfl
  rcases EvalPartitionSeg_way DIST_EPSILON factor doc (L.lev_segs part) (L.lev_segs seg) info
    _ _ rfl rfl with ⟨c, eL, eR, eS⟩ | ⟨c, eL, eR, eS⟩ | ⟨c, eL, eR, eS⟩
  · obtain ⟨p1, p2, p3⟩ := dL c
    refine ⟨⟨fun _ => ⟨p1, p3⟩, fun _ => eL⟩, ⟨fun e => ?_, fun e => ?_⟩, ⟨fun e => ?_, fun e => ?_⟩⟩
    · rw [eR] at e; omega
    · exact absurd (p2 ▸ e.1) hr
    · rw [eS] at e; omega
    · omega
  · obtain ⟨p1, p2, p3⟩ := dR c
    refine ⟨⟨fun e => ?_, fun e => ?_⟩, ⟨fun _ => ⟨p1, p3⟩, fun _ => eR⟩, ⟨fun e => ?_, fun e => ?_⟩⟩
    · rw [eL] at e; omega
    · exact absurd (p2 ▸ e.1) hl
    · rw [eS] at e; omega
    · omega
  · have p := dS c
    refine ⟨⟨fun e => ?_, fun e => ?_⟩, ⟨fun e => ?_, fun e => ?_⟩, ⟨fun _ => p, fun _ => eS⟩⟩
    · rw [eL] at e; omega
    · omega
    · rw [eR] at e; omega
    · omega

theorem demoDivided_eq :
    DivideOneSeg (1 / 128) hypotQ (fun _ _ _ => false) demoCrossDoc demoCross 3 0 none none none =
      some demoDivided :=
  Option_eq_some_getD _ (by decide!)

theorem EvalPartition_and_DivideOneSeg_agree_witness :
    ((EvalPartitionSeg (1 / 128) 11 demoCrossDoc (demoCross.lev_segs 0) (demoCross.lev_segs 3)
          eval_info_t.zero).real_left +
        (EvalPartitionSeg (1 / 128) 11 demoCrossDoc (demoCross.lev_segs 0) (demoCross.lev_segs 3)
          eval_info_t.zero).mini_left =
          eval_info_t.zero.real_left + eval_info_t.zero.mini_left + 1 ↔
      demoDivided.2.1 = some 3 ∧ demoDivided.1.num_segs = demoCross.num_segs) ∧
    ((EvalPartitionSeg (1 / 128) 11 demoCrossDoc (demoCross.lev_segs 0) (demoCross.lev_segs 3)
          eval_info_t.zero).real_right +
        (EvalPartitionSeg (1 / 128) 11 demoCrossDoc (demoCross.lev_segs 0) (demoCross.lev_segs 3)
          eval_info_t.zero).mini_right =
          eval_info_t.zero.real_right + eval_info_t.zero.mini_right + 1 ↔
      demoDivided.2.2.1 = some 3 ∧ demoDivided.1.num_segs = demoCross.num_segs) ∧
    ((EvalPartitionSeg (1 / 128) 11 demoCrossDoc (demoCross.lev_segs 0) (demoCross.lev_segs 3)
          eval_info_t.zero).splits = eval_info_t.zero.splits + 1 ↔
      demoCross.num_segs < demoDivided.1.num_segs) :=
  EvalPartition_and_DivideOneSeg_agree (1 / 128) 11 hypotQ (fun _ _ _ => false) demoCrossDoc
    demoCross 3 0 none none none eval_info_t.zero demoDivided (by decide) (by decide)
    demoDivided_eq

/-! ### The split branch of `DivideOneSeg` -/

/-- In the split branch the two ends of the seg lie on opposite sides of the partition,
each at least `DIST_EPSILON` away. -/
theorem split_branch_opposite {eps a b : ℚ}
    (hright : ¬ (a > -eps ∧ b > -eps)) (hleft : ¬ (a < eps ∧ b < eps)) (heps : 0 < eps) :
    (a ≤ -eps ∧ eps ≤ b) ∨ (eps ≤ a ∧ b ≤ -eps) := by
  rw [not_and_or, not_lt, not_lt] at hright hleft
  rcases hright with h | h
  · rcases hleft with h' | h'
    · linarith
    · exact Or.inl ⟨h, h'⟩
  · rcases hleft with h' | h'
    · exact Or.inr ⟨h', h⟩
    · linarith

/-- C23: whenever `DivideOneSeg` reaches its split branch (`a` and `b` of opposite sign,
each of magnitude at least `DIST_EPSILON > 0`), the point `(x, y)` returned by
`ComputeIntersection` lies on the partition's infinite line (`part.PerpDist(x, y) = 0`) and
on the seg strictly between its start and end, in the horizontal/vertical cases and in the
general case alike (exact arithmetic: the precomputed fields of the partition are exact
and `pdx`, `pdy` of the seg are the differences of its end points). -/
theorem ComputeIntersection_on_line_and_inside (DIST_EPSILON : ℚ) (seg part : seg_t)
    (heps : 0 < DIST_EPSILON) (hpart : part.Exact)
    (hdx : seg.pdx = seg.pex - seg.psx) (hdy : seg.pdy = seg.pey - seg.psy)
    (hright : ¬ (part.PerpDist seg.psx seg.psy > -DIST_EPSILON ∧
      part.PerpDist seg.pex seg.pey > -DIST_EPSILON))
    (hleft : ¬ (part.PerpDist seg.psx seg.psy < DIST_EPSILON ∧
      part.PerpDist seg.pex seg.pey < DIST_EPSILON)) :
    part.PerpDist
        (ComputeIntersection seg part (part.PerpDist seg.psx seg.psy)
          (part.PerpDist seg.pex seg.pey)).1
        (ComputeIntersection seg part (part.PerpDist seg.psx seg.psy)
          (part.PerpDist seg.pex seg.pey)).2 = 0 ∧
    ∃ t : ℚ, 0 < t ∧ t < 1 ∧
      (ComputeIntersection seg part (part.PerpDist seg.psx seg.psy)
        (part.PerpDist seg.pex seg.pey)).1 = seg.psx + t * seg.pdx ∧
      (ComputeIntersection seg part (part.PerpDist seg.psx seg.psy)
        (part.PerpDist seg.pex seg.pey)).2 = seg.psy + t * seg.pdy := by
  obtain ⟨-, -, hlen, hsq, hperp, -⟩ := hpart
  have hlen0 : part.p_length ≠ 0 := ne_of_gt hlen
  generalize ha : part.PerpDist seg.psx seg.psy = a at *
  generalize hb : part.PerpDist seg.pex seg.pey = b at *
  have hopp := split_branch_opposite hright hleft heps
  have hab : a - b ≠ 0 := by
    rcases hopp with h | h <;> intro e <;> linarith
  -- the parameter of the crossing point
  have ht0 : 0 < a / (a - b) := by
    rcases hopp with h | h
    · exact div_pos_of_neg_of_neg (by linarith) (by linarith)
    · exact div_pos (by linarith) (by linarith)
  have ht1 : a / (a - b) < 1 := by
    rcases hopp with h | h
    · rw [div_lt_one_of_neg (by linarith)]; linarith
    · rw [div_lt_one (by linarith)]; linarith
  have haE : a * part.p_length = seg.psx * part.pdy - seg.psy * part.pdx + part.p_perp := by
    rw [← ha]; unfold seg_t.PerpDist; field_simp
  have hbE : b * part.p_length = seg.pex * part.pdy - seg.pey * part.pdx + part.p_perp := by
    rw [← hb]; unfold seg_t.PerpDist; field_simp
  have hex : seg.pex = seg.psx + seg.pdx := by rw [hdx]; ring
  have hey : seg.pey = seg.psy + seg.pdy := by rw [hdy]; ring
  -- the general formula: the point at parameter `a / (a - b)`
  have hgen : part.PerpDist (seg.psx + a / (a - b) * seg.pdx)
      (seg.psy + a / (a - b) * seg.pdy) = 0 := by
    unfold seg_t.PerpDist
    rw [div_eq_zero_iff]; left
    have e1 : (b - a) * part.p_length = seg.pdx * part.pdy - seg.pdy * part.pdx := by
      rw [sub_mul, hbE, haE, hex, hey]; ring
    have e2 : (seg.psx + a / (a - b) * seg.pdx) * part.pdy -
        (seg.psy + a / (a - b) * seg.pdy) * part.pdx + part.p_perp =
        a * part.p_length + a / (a - b) * (seg.pdx * part.pdy - seg.pdy * part.pdx) := by
      rw [haE]; ring
    rw [e2, ← e1]
    field_simp
    ring
  unfold ComputeIntersection
  by_cases h1 : part.pdy = 0 ∧ seg.pdx = 0
  · rw [if_pos h1]
    obtain ⟨hpy, hsx⟩ := h1
    have hpdx : part.pdx ≠ 0 := by
      intro e
      rw [e, hpy] at hsq
      have : part.p_length ^ 2 = 0 := by rw [hsq]; ring
      exact hlen0 (pow_eq_zero_iff (by norm_num) |>.mp this)
    have hy : part.psy = seg.psy + a / (a - b) * seg.pdy := by
      have e1 : (b - a) * part.p_length = - seg.pdy * part.pdx := by
        rw [sub_mul, hbE, haE, hex, hey, hsx, hpy]; ring
      have e0 : a * part.p_length = (part.psy - seg.psy) * part.pdx := by
        rw [haE, hperp, hpy]; ring
      have e3 : (a - b) * part.p_length = seg.pdy * part.pdx := by linarith
      have : a / (a - b) * seg.pdy = part.psy - seg.psy := by
        rw [div_mul_eq_mul_div, div_eq_iff hab]
        have h5 : a * seg.pdy * part.pdx * part.p_length =
            (part.psy - seg.psy) * (a - b) * part.pdx * part.p_length := by
          calc a * seg.pdy * part.pdx * part.p_length
              = a * part.p_length * (seg.pdy * part.pdx) := by ring
            _ = (part.psy - seg.psy) * part.pdx * ((a - b) * part.p_length) := by rw [e0, e3]
            _ = (part.psy - seg.psy) * (a - b) * part.pdx * part.p_length := by ring
        have h6 := mul_right_cancel₀ hlen0 h5
        exact mul_right_cancel₀ hpdx h6
      rw [this]; ring
    refine ⟨?_, a / (a - b), ht0, ht1, by simp only [hsx]; ring, hy⟩
    show part.PerpDist seg.psx part.psy = 0
    have := hgen
    rw [← hy, hsx, mul_zero, add_zero] at this
    exact this
  · rw [if_neg h1]
    by_cases h2 : part.pdx = 0 ∧ seg.pdy = 0
    · rw [if_pos h2]
      obtain ⟨hpx, hsy⟩ := h2
      have hpdy : part.pdy ≠ 0 := by
        intro e
        rw [e, hpx] at hsq
        have : part.p_length ^ 2 = 0 := by rw [hsq]; ring
        exact hlen0 (pow_eq_zero_iff (by norm_num) |>.mp this)
      have hx : part.psx = seg.psx + a / (a - b) * seg.pdx := by
        have e0 : a * part.p_length = (seg.psx - part.psx) * part.pdy := by
          rw [haE, hperp, hpx]; ring
        have e1 : (b - a) * part.p_length = seg.pdx * part.pdy := by
          rw [sub_mul, hbE, haE, hex, hey, hsy, hpx]; ring
        have e3 : (a - b) * part.p_length = - seg.pdx * part.pdy := by linarith
        have : a / (a - b) * seg.pdx = part.psx - seg.psx := by
          rw [div_mul_eq_mul_div, div_eq_iff hab]
          have h5 : a * seg.pdx * part.pdy * part.p_length =
              (part.psx - seg.psx) * (a - b) * part.pdy * part.p_length := by
            calc a * seg.pdx * part.pdy * part.p_length
                = - (a * part.p_length) * (- seg.pdx * part.pdy) := by ring
              _ = - ((seg.psx - part.psx) * part.pdy) * ((a - b) * part.p_length) := by
                  rw [e0, e3]
              _ = (part.psx - seg.psx) * (a - b) * part.pdy * part.p_length := by ring
          have h6 := mul_right_cancel₀ hlen0 h5
          exact mul_right_cancel₀ hpdy h6
        rw [this]; ring
      refine ⟨?_, a / (a - b), ht0, ht1, hx, by simp only [hsy]; ring⟩
      show part.PerpDist part.psx seg.psy = 0
      have := hgen
      rw [← hx, hsy, mul_zero, add_zero] at this
      exact this
    · rw [if_neg h2]
      have ex : (if seg.pdx = 0 then seg.psx else seg.psx + seg.pdx * (a / (a - b))) =
          seg.psx + a / (a - b) * seg.pdx := by
        split_ifs with h
        · rw [h]; ring
        · ring
      have ey : (if seg.pdy = 0 then seg.psy else seg.psy + seg.pdy * (a / (a - b))) =
          seg.psy + a / (a - b) * seg.pdy := by
        split_ifs with h
        · rw [h]; ring
        · ring
      simp only [ex, ey]
      exact ⟨hgen, a / (a - b), ht0, ht1, rfl, rfl⟩

theorem ComputeIntersection_on_line_and_inside_witness :
    (demoCross.lev_segs 0).PerpDist
        (ComputeIntersection (demoCross.lev_segs 3) (demoCross.lev_segs 0)
          ((demoCross.lev_segs 0).PerpDist (demoCross.lev_segs 3).psx (demoCross.lev_segs 3).psy)
          ((demoCross.lev_segs 0).PerpDist (demoCross.lev_segs 3).pex
            (demoCross.lev_segs 3).pey)).1
        (ComputeIntersection (demoCross.lev_segs 3) (demoCross.lev_segs 0)
          ((demoCross.lev_segs 0).PerpDist (demoCross.lev_segs 3).psx (demoCross.lev_segs 3).psy)
          ((demoCross.lev_segs 0).PerpDist (demoCross.lev_segs 3).pex
            (demoCross.lev_segs 3).pey)).2 = 0 ∧
    ∃ t : ℚ, 0 < t ∧ t < 1 ∧
      (ComputeIntersection (demoCross.lev_segs 3) (demoCross.lev_segs 0)
        ((demoCross.lev_segs 0).PerpDist (demoCross.lev_segs 3).psx (demoCross.lev_segs 3).psy)
        ((demoCross.lev_segs 0).PerpDist (demoCross.lev_segs 3).pex
          (demoCross.lev_segs 3).pey)).1 =
        (demoCross.lev_segs 3).psx + t * (demoCross.lev_segs 3).pdx ∧
      (ComputeIntersection (demoCross.lev_segs 3) (demoCross.lev_segs 0)
        ((demoCross.lev_segs 0).PerpDist (demoCross.lev_segs 3).psx (demoCross.lev_segs 3).psy)
        ((demoCross.lev_segs 0).PerpDist (demoCross.lev_segs 3).pex
          (demoCross.lev_segs 3).pey)).2 =
        (demoCross.lev_segs 3).psy + t * (demoCross.lev_segs 3).pdy :=
  ComputeIntersection_on_line_and_inside (1 / 128) (demoCross.lev_segs 3) (demoCross.lev_segs 0)
    (by decide!) (by decide!) (by decide!) (by decide!) (by decide!) (by decide!)

theorem AddIntersection_cuts_only {eps : ℚ} {VCO : Nat → ℚ → ℚ → Bool} {L : Level}
    {cut_list : Option Nat} {vert : Nat} {part : seg_t} {self_ref : Bool} {fc : Int}
    {r : Level × Option Nat}
    (h : AddIntersection eps VCO L cut_list vert part self_ref fc = some r) (s : Nat) :
    r.1.lev_segs s = L.lev_segs s := by
  rw [(AddIntersection_segs h).1]

/-- C24: when `DivideOneSeg` splits a seg (an allocated seg whose partner, if any, is
another allocated seg), each piece is routed by the sign of `a`: if `a < 0` the shortened
seg (start to new vertex) becomes the head of the left list and the new tail (new vertex
to end) the head of the right list, otherwise the shortened seg goes right and the tail
left; and the intersections are those of exactly one `AddIntersection` call, made at the
shared new vertex with `force_closed = 0`. -/
theorem DivideOneSeg_split_routing (DIST_EPSILON : ℚ) (hypot : ℚ → ℚ → ℚ)
    (VertexCheckOpen : Nat → ℚ → ℚ → Bool) (doc : Document) (L : Level) (seg part : Nat)
    (left_list right_list cut_list : Option Nat)
    (r : Level × Option Nat × Option Nat × Option Nat) (a b : ℚ)
    (hS : seg < L.num_segs)
    (hB : ∀ B ∈ (L.lev_segs seg).partner, B < L.num_segs ∧ B ≠ seg)
    (ha : a = if (L.lev_segs seg).source_line = (L.lev_segs part).source_line then 0
      else (L.lev_segs part).PerpDist (L.lev_segs seg).psx (L.lev_segs seg).psy)
    (hb : b = if (L.lev_segs seg).source_line = (L.lev_segs part).source_line then 0
      else (L.lev_segs part).PerpDist (L.lev_segs seg).pex (L.lev_segs seg).pey)
    (hline : ¬ (|a| ≤ DIST_EPSILON ∧ |b| ≤ DIST_EPSILON))
    (hright : ¬ (a > -DIST_EPSILON ∧ b > -DIST_EPSILON))
    (hleft : ¬ (a < DIST_EPSILON ∧ b < DIST_EPSILON))
    (h : DivideOneSeg DIST_EPSILON hypot VertexCheckOpen doc L seg part left_list right_list
      cut_list = some r) :
    (r.1.lev_segs seg).start = (L.lev_segs seg).start ∧
    (r.1.lev_segs seg).end_ = L.num_vertices ∧
    (r.1.lev_segs L.num_segs).start = L.num_vertices ∧
    (r.1.lev_segs L.num_segs).end_ = (L.lev_segs seg).end_ ∧
    (a < 0 → r.2.1 = some seg ∧ (r.1.lev_segs seg).next = left_list ∧
      r.2.2.1 = some L.num_segs ∧ (r.1.lev_segs L.num_segs).next = right_list) ∧
    (¬ a < 0 → r.2.2.1 = some seg ∧ (r.1.lev_segs seg).next = right_list ∧
      r.2.1 = some L.num_segs ∧ (r.1.lev_segs L.num_segs).next = left_list) ∧
    ∃ sp r1,
      SplitSeg hypot L seg (ComputeIntersection (L.lev_segs seg) (L.lev_segs part) a b).1
        (ComputeIntersection (L.lev_segs seg) (L.lev_segs part) a b).2 = some sp ∧
      AddIntersection DIST_EPSILON VertexCheckOpen sp.1 cut_list L.num_vertices
        (sp.1.lev_segs part)
        (if (L.lev_segs seg).linedef ≥ 0 then
          (doc.LineDefs.getD (L.lev_segs seg).linedef.toNat LineDef.zero).IsSelfRef doc
          else false) 0 = some r1 ∧
      r.2.2.2 = r1.2 ∧ r.1.cuts = r1.1.cuts ∧ r.1.num_cuts = r1.1.num_cuts ∧
      r.1.quick_alloc_cuts = r1.1.quick_alloc_cuts := by
  have hne : seg ≠ L.num_segs := Nat.ne_of_lt hS
  unfold DivideOneSeg at h
  simp only [] at h
  rw [← ha, ← hb, if_neg hline, if_neg hright, if_neg hleft] at h
  simp only [Option.bind_eq_some] at h
  obtain ⟨sp, hsp, r1, h1, h⟩ := h
  obtain ⟨L', T⟩ := sp
  obtain ⟨-, -, -, hT, p1, p2, p3, p4, -⟩ := SplitSeg_post hypot L L' seg T _ _ hS hB hsp
  simp only at h1 h
  rw [p2] at h1
  have c1 := AddIntersection_cuts_only h1
  subst hT
  by_cases hneg : a < 0
  · rw [if_pos hneg] at h
    have e := Option.some.inj h
    have fS : r.1.lev_segs seg = { L'.lev_segs seg with next := left_list } := by
      rw [← e]
      simp only [ListAddSeg, modSeg_apply, c1, eq_self_iff_true, if_true, if_neg hne]
    have fT : r.1.lev_segs L.num_segs = { L'.lev_segs L.num_segs with next := right_list } := by
      rw [← e]
      simp only [ListAddSeg, modSeg_apply, c1, eq_self_iff_true, if_true, if_neg (Ne.symm hne)]
    rw [fS, fT]
    refine ⟨p1, p2, p3, p4, fun _ => ⟨?_, rfl, ?_, rfl⟩, fun hh => absurd hneg hh,
      ⟨(L', L.num_segs), r1, hsp, h1, ?_, ?_, ?_, ?_⟩⟩
    all_goals rw [← e]
    all_goals rfl
  · rw [if_neg hneg] at h
    have e := Option.some.inj h
    have fS : r.1.lev_segs seg = { L'.lev_segs seg with next := right_list } := by
      rw [← e]
      simp only [ListAddSeg, modSeg_apply, c1, eq_self_iff_true, if_true, if_neg hne]
    have fT : r.1.lev_segs L.num_segs = { L'.lev_segs L.num_segs with next := left_list } := by
      rw [← e]
      simp only [ListAddSeg, modSeg_apply, c1, eq_self_iff_true, if_true, if_neg (Ne.symm hne)]
    rw [fS, fT]
    refine ⟨p1, p2, p3, p4, fun hh => absurd hh hneg, fun _ => ⟨?_, rfl, ?_, rfl⟩,
      ⟨(L', L.num_segs), r1, hsp, h1, ?_, ?_, ?_, ?_⟩⟩
    all_goals rw [← e]
    all_goals rfl

theorem DivideOneSeg_split_routing_witness :
    (demoDivided.1.lev_segs 3).start = (demoCross.lev_segs 3).start ∧
    (demoDivided.1.lev_segs 3).end_ = demoCross.num_vertices ∧
    (demoDivided.1.lev_segs demoCross.num_segs).start = demoCross.num_vertices ∧
    (demoDivided.1.lev_segs demoCross.num_segs).end_ = (demoCross.lev_segs 3).end_ ∧
    ((-50 : ℚ) < 0 → demoDivided.2.1 = some 3 ∧ (demoDivided.1.lev_segs 3).next = none ∧
      demoDivided.2.2.1 = some demoCross.num_segs ∧
      (demoDivided.1.lev_segs demoCross.num_segs).next = none) ∧
    (¬ (-50 : ℚ) < 0 → demoDivided.2.2.1 = some 3 ∧ (demoDivided.1.lev_segs 3).next = none ∧
      demoDivided.2.1 = some demoCross.num_segs ∧
      (demoDivided.1.lev_segs demoCross.num_segs).next = none) ∧
    ∃ sp r1,
      SplitSeg hypotQ demoCross 3
        (ComputeIntersection (demoCross.lev_segs 3) (demoCross.lev_segs 0) (-50) 50).1
        (ComputeIntersection (demoCross.lev_segs 3) (demoCross.lev_segs 0) (-50) 50).2 =
          some sp ∧
      AddIntersection (1 / 128) (fun _ _ _ => false) sp.1 none demoCross.num_vertices
        (sp.1.lev_segs 0)
        (if (demoCross.lev_segs 3).linedef ≥ 0 then
          (demoCrossDoc.LineDefs.getD (demoCross.lev_segs 3).linedef.toNat
            LineDef.zero).IsSelfRef demoCrossDoc
          else false) 0 = some r1 ∧
      demoDivided.2.2.2 = r1.2 ∧ demoDivided.1.cuts = r1.1.cuts ∧
      demoDivided.1.num_cuts = r1.1.num_cuts ∧
      demoDivided.1.quick_alloc_cuts = r1.1.quick_alloc_cuts :=
  DivideOneSeg_split_routing (1 / 128) hypotQ (fun _ _ _ => false) demoCrossDoc demoCross 3 0
    none none none demoDivided (-50) 50 (by decide) (by decide) (by decide!) (by decide!)
    (by decide!) (by decide!) (by decide!) demoDivided_eq

/-! ### Frame facts for intersection records -/

theorem modCut_apply (L : Level) (i j : Nat) (f : intersection_t → intersection_t) :
    (L.modCut i f).cuts j = if j = i then f (L.cuts i) else L.cuts j := by
  simp [Level.modCut, Level.setCut, Function.update_apply]

@[simp] theorem modCut_num_cuts (L : Level) (i : Nat) (f : intersection_t → intersection_t) :
    (L.modCut i f).num_cuts = L.num_cuts := rfl
@[simp] theorem modCut_quick (L : Level) (i : Nat) (f : intersection_t → intersection_t) :
    (L.modCut i f).quick_alloc_cuts = L.quick_alloc_cuts := rfl
@[simp] theorem modCut_lev_segs (L : Level) (i : Nat) (f : intersection_t → intersection_t) :
    (L.modCut i f).lev_segs = L.lev_segs := rfl
@[simp] theorem modCut_num_segs (L : Level) (i : Nat) (f : intersection_t → intersection_t) :
    (L.modCut i f).num_segs = L.num_segs := rfl
@[simp] theorem modCut_lev_vertices (L : Level) (i : Nat) (f : intersection_t → intersection_t) :
    (L.modCut i f).lev_vertices = L.lev_vertices := rfl

theorem SameCutsUpToFlags_refl (L : Level) : L.SameCutsUpToFlags L :=
  ⟨rfl, rfl, fun _ => ⟨rfl, rfl, rfl, rfl⟩⟩

theorem SameCutsUpToFlags_trans {L L' L'' : Level} (h1 : L.SameCutsUpToFlags L')
    (h2 : L'.SameCutsUpToFlags L'') : L.SameCutsUpToFlags L'' := by
  obtain ⟨a1, b1, c1⟩ := h1
  obtain ⟨a2, b2, c2⟩ := h2
  refine ⟨a2.trans a1, b2.trans b1, fun i => ?_⟩
  obtain ⟨p1, p2, p3, p4⟩ := c1 i
  obtain ⟨q1, q2, q3, q4⟩ := c2 i
  exact ⟨q1.trans p1, q2.trans p2, q3.trans p3, q4.trans p4⟩

theorem SameCutsUpToFlags_modCut (L : Level) (c : Nat) (f : intersection_t → intersection_t)
    (hf : ∀ x, (f x).next = x.next ∧ (f x).prev = x.prev ∧ (f x).along_dist = x.along_dist ∧
      (f x).vertex = x.vertex) : L.SameCutsUpToFlags (L.modCut c f) := by
  refine ⟨rfl, rfl, fun i => ?_⟩
  rw [modCut_apply]
  split_ifs with h
  · rw [h]; exact hf _
  · exact ⟨rfl, rfl, rfl, rfl⟩

theorem SameCutsUpToFlags_ite (L : Level) (p : Prop) [Decidable p] (c : Nat)
    (f : intersection_t → intersection_t)
    (hf : ∀ x, (f x).next = x.next ∧ (f x).prev = x.prev ∧ (f x).along_dist = x.along_dist ∧
      (f x).vertex = x.vertex) : L.SameCutsUpToFlags (if p then L.modCut c f else L) := by
  split_ifs
  · exact SameCutsUpToFlags_modCut L c f hf
  · exact SameCutsUpToFlags_refl L

theorem SameCutsUpToFlags_modCut2 (L : Level) (c : Nat) (f g : intersection_t → intersection_t)
    (hf : ∀ x, (f x).next = x.next ∧ (f x).prev = x.prev ∧ (f x).along_dist = x.along_dist ∧
      (f x).vertex = x.vertex)
    (hg : ∀ x, (g x).next = x.next ∧ (g x).prev = x.prev ∧ (g x).along_dist = x.along_dist ∧
      (g x).vertex = x.vertex) : L.SameCutsUpToFlags ((L.modCut c f).modCut c g) :=
  SameCutsUpToFlags_trans (SameCutsUpToFlags_modCut L c f hf)
    (SameCutsUpToFlags_modCut (L.modCut c f) c g hg)

theorem forceClosed_same (L : Level) (c : Nat) (fc : Int) :
    L.SameCutsUpToFlags (forceClosed L c fc) := by
  unfold forceClosed
  simp only
  split_ifs
  all_goals first
    | exact SameCutsUpToFlags_refl _
    | exact SameCutsUpToFlags_modCut _ _ _ (fun _ => ⟨rfl, rfl, rfl, rfl⟩)
    | exact SameCutsUpToFlags_modCut2 _ _ _ _ (fun _ => ⟨rfl, rfl, rfl, rfl⟩)
        (fun _ => ⟨rfl, rfl, rfl, rfl⟩)

theorem openMerge_same (L : Level) (c : Nat) (ob oa : Bool) :
    L.SameCutsUpToFlags
      (if oa = true then
        (if ob = true then L.modCut c fun c => { c with open_before := true } else L).modCut c
          fun c => { c with open_after := true }
       else (if ob = true then L.modCut c fun c => { c with open_before := true } else L)) := by
  split_ifs
  all_goals first
    | exact SameCutsUpToFlags_refl _
    | exact SameCutsUpToFlags_modCut _ _ _ (fun _ => ⟨rfl, rfl, rfl, rfl⟩)
    | exact SameCutsUpToFlags_modCut2 _ _ _ _ (fun _ => ⟨rfl, rfl, rfl, rfl⟩)
        (fun _ => ⟨rfl, rfl, rfl, rfl⟩)

/-- The merge loop of `AddIntersection` ends, and a merge changes flags only. -/
theorem AddIntersectionMerge_spec (eps : ℚ) (vert : Nat) (along : ℚ) (ob oa : Bool) (fc : Int)
    (fuel : Nat) : ∀ (L : Level) (cur : Option Nat) (l : List Nat),
      IsLinked (fun i => (L.cuts i).next) cur l → l.length < fuel →
      (∃ L', AddIntersectionMerge eps vert along ob oa fc fuel L cur = some (some L') ∧
        L.SameCutsUpToFlags L') ∨
      AddIntersectionMerge eps vert along ob oa fc fuel L cur = some none := by
  induction fuel with
  | zero => intro L cur l _ h; exact absurd h (Nat.not_lt_zero _)
  | succ fuel ih =>
    intro L cur l hl hlen
    cases l with
    | nil =>
      have : cur = none := hl
      subst this
      right; rfl
    | cons a l =>
      obtain ⟨h1, h2⟩ := hl
      subst h1
      simp only [AddIntersectionMerge]
      by_cases c1 : vert = (L.cuts a).vertex
      · rw [if_pos c1]
        left; exact ⟨_, rfl, forceClosed_same _ _ _⟩
      · rw [if_neg c1]
        by_cases c2 : |along - (L.cuts a).along_dist| < eps
        · rw [if_pos c2]
          left
          exact ⟨_, rfl, SameCutsUpToFlags_trans (openMerge_same L a ob oa)
            (forceClosed_same _ _ _)⟩
        · rw [if_neg c2]
          exact ih L _ l h2 (by simpa using hlen)

/-- The loop that looks for the last record finds it. -/
theorem AddIntersectionLast_spec (fuel : Nat) : ∀ (L : Level) (cur : Option Nat) (l : List Nat),
    IsLinked (fun i => (L.cuts i).next) cur l → l.length < fuel →
    AddIntersectionLast fuel L cur = some l.getLast? := by
  induction fuel with
  | zero => intro L cur l _ h; exact absurd h (Nat.not_lt_zero _)
  | succ fuel ih =>
    intro L cur l hl hlen
    cases l with
    | nil =>
      have : cur = none := hl
      subst this
      rfl
    | cons a l =>
      obtain ⟨h1, h2⟩ := hl
      subst h1
      cases l with
      | nil =>
        have h3 : (L.cuts a).next = none := h2
        simp only [AddIntersectionLast, h3, List.getLast?_singleton]
      | cons b l =>
        have h3 : (L.cuts a).next = some b := h2.1
        simp only [AddIntersectionLast, h3]
        rw [ih L (some b) (b :: l) (by rw [← h3]; exact h2) (by simpa using hlen)]
        simp [List.getLast?_cons_cons]

/-- The loop that walks back from the last record: it skips the records that lie
beyond the new one and stops at the first that does not. -/
theorem AddIntersectionBack_spec (along : ℚ) (fuel : Nat) :
    ∀ (L : Level) (cur : Option Nat) (r : List Nat),
    IsLinked (fun i => (L.cuts i).prev) cur r → r.length < fuel →
    ∃ skipped rest, AddIntersectionBack along fuel L cur = some rest.head? ∧
      r = skipped ++ rest ∧ (∀ c ∈ skipped, along < (L.cuts c).along_dist) ∧
      (∀ a ∈ rest.head?, ¬ along < (L.cuts a).along_dist) := by
  induction fuel with
  | zero => intro L cur l _ h; exact absurd h (Nat.not_lt_zero _)
  | succ fuel ih =>
    intro L cur r hr hlen
    cases r with
    | nil =>
      have : cur = none := hr
      subst this
      exact ⟨[], [], rfl, rfl, by simp, by simp⟩
    | cons a r =>
      obtain ⟨h1, h2⟩ := hr
      subst h1
      simp only [AddIntersectionBack]
      split_ifs with c1
      · obtain ⟨sk, rest, e1, e2, e3, e4⟩ := ih L _ r h2 (by simpa using hlen)
        refine ⟨a :: sk, rest, e1, by rw [e2]; rfl, ?_, e4⟩
        intro c hc
        rcases List.mem_cons.mp hc with rfl | hc
        · exact c1
        · exact e3 c hc
      · refine ⟨[], a :: r, rfl, rfl, by simp, ?_⟩
        intro b hb
        simp only [List.head?_cons, Option.mem_def, Option.some.injEq] at hb
        rw [← hb]; exact c1

/-! ### Inserting a record into a doubly linked list -/

theorem IsLinked_prev_cons {prv : Nat → Option Nat} {b : Nat} {l : List Nat}
    (h : IsLinked prv (b :: l).getLast? (b :: l).reverse) :
    IsSeg prv (b :: l).getLast? l.reverse (some b) ∧ prv b = none := by
  unfold IsLinked at h
  rw [List.reverse_cons] at h
  exact IsSeg_snoc.mp h

/-- Insertion in front of the list. -/
theorem insert_front {nxt prv nxt' prv' : Nat → Option Nat} {head : Option Nat} {l : List Nat}
    {cut : Nat} (hf : IsLinked nxt head l) (hb : IsLinked prv l.getLast? l.reverse)
    (hd : l.Nodup) (hc : cut ∉ l)
    (n1 : ∀ i, i ≠ cut → nxt' i = nxt i) (n2 : nxt' cut = head)
    (p1 : ∀ i, i ≠ cut → some i ≠ head → prv' i = prv i) (p2 : prv' cut = none)
    (p3 : ∀ h, head = some h → prv' h = some cut) :
    IsLinked nxt' (some cut) (cut :: l) ∧
    IsLinked prv' (cut :: l).getLast? (cut :: l).reverse := by
  constructor
  · refine ⟨rfl, ?_⟩
    rw [n2]
    exact (IsSeg_congr (fun a ha => n1 a (fun e => hc (e ▸ ha)))).mpr hf
  · cases l with
    | nil =>
      exact ⟨rfl, p2⟩
    | cons b l =>
      have hh : head = some b := hf.1
      obtain ⟨q1, q2⟩ := IsLinked_prev_cons hb
      unfold IsLinked
      rw [List.reverse_cons, IsSeg_snoc]
      refine ⟨?_, p2⟩
      rw [List.getLast?_cons_cons, List.reverse_cons, IsSeg_snoc]
      refine ⟨?_, p3 b hh⟩
      refine (IsSeg_congr ?_).mpr q1
      intro a ha
      have hal : a ∈ l := List.mem_reverse.mp ha
      have hab : a ≠ b := fun e => (List.nodup_cons.mp hd).1 (e ▸ hal)
      refine p1 a (fun e => hc (e ▸ List.mem_cons_of_mem _ hal)) ?_
      rw [hh]
      exact fun e => hab (Option.some.inj e)

/-- Insertion after the record `a`. -/
theorem insert_after {nxt prv nxt' prv' : Nat → Option Nat} {head : Option Nat}
    {p l2 : List Nat} {a cut : Nat} (hf : IsLinked nxt head (p ++ a :: l2))
    (hb : IsLinked prv (p ++ a :: l2).getLast? (p ++ a :: l2).reverse)
    (hd : (p ++ a :: l2).Nodup) (hc : cut ∉ p ++ a :: l2)
    (n1 : ∀ i, i ≠ cut → i ≠ a → nxt' i = nxt i) (n2 : nxt' cut = nxt a)
    (n3 : nxt' a = some cut)
    (p1 : ∀ i, i ≠ cut → some i ≠ nxt a → prv' i = prv i) (p2 : prv' cut = some a)
    (p3 : ∀ n, nxt a = some n → prv' n = some cut) :
    IsLinked nxt' head (p ++ a :: cut :: l2) ∧
    IsLinked prv' (p ++ a :: cut :: l2).getLast? (p ++ a :: cut :: l2).reverse := by
  have hca : cut ≠ a := fun e => hc (by rw [e]; simp)
  have hcp : cut ∉ p := fun e => hc (List.mem_append_left _ e)
  have hcl2 : cut ∉ l2 := fun e => hc (List.mem_append_right _ (List.mem_cons_of_mem _ e))
  have hd' := List.nodup_append.mp hd
  have hap : a ∉ p := fun e => hd'.2.2 e (List.mem_cons_self a l2)
  have hal2 : a ∉ l2 := (List.nodup_cons.mp hd'.2.1).1
  have hdl2 : l2.Nodup := (List.nodup_cons.mp hd'.2.1).2
  unfold IsLinked at hf
  rw [IsSeg_append] at hf
  obtain ⟨m, f1, f2, f3⟩ := hf
  subst f2
  have f3' : IsLinked nxt (nxt a) l2 := f3
  constructor
  · unfold IsLinked
    rw [IsSeg_append]
    refine ⟨some a, ?_, rfl, ?_⟩
    · exact (IsSeg_congr (fun i hi => n1 i (fun e => hcp (e ▸ hi)) (fun e => hap (e ▸ hi)))).mpr f1
    · rw [n3]
      refine ⟨rfl, ?_⟩
      rw [n2]
      exact (IsSeg_congr (fun i hi => n1 i (fun e => hcl2 (e ▸ hi))
        (fun e => hal2 (e ▸ hi)))).mpr f3
  · -- the old backward chain, split at `a`
    unfold IsLinked at hb
    have hrev : (p ++ a :: l2).reverse = l2.reverse ++ a :: p.reverse := by simp
    have hrev' : (p ++ a :: cut :: l2).reverse = l2.reverse ++ cut :: a :: p.reverse := by simp
    rw [hrev, IsSeg_append] at hb
    obtain ⟨m, b1, b2, b3⟩ := hb
    subst b2
    unfold IsLinked
    rw [hrev', IsSeg_append]
    have tail_ok : IsSeg prv' (some cut) (cut :: a :: p.reverse) none := by
      refine ⟨rfl, ?_⟩
      rw [p2]
      refine ⟨rfl, ?_⟩
      have hpa : prv' a = prv a := by
        refine p1 a (Ne.symm hca) ?_
        intro e
        have : a ∈ l2 := by
          have := IsSeg_head f3'
          rw [← e] at this
          exact List.mem_of_mem_head? this.symm
        exact hal2 this
      rw [hpa]
      refine (IsSeg_congr ?_).mpr b3
      intro i hi
      have hip : i ∈ p := List.mem_reverse.mp hi
      refine p1 i (fun e => hcp (e ▸ hip)) ?_
      intro e
      have : i ∈ l2 := by
        have := IsSeg_head f3'
        rw [← e] at this
        exact List.mem_of_mem_head? this.symm
      exact hd'.2.2 hip (List.mem_cons_of_mem _ this)
    cases l2 with
    | nil =>
      have hl : (p ++ [a, cut]).getLast? = some cut := by
        rw [show p ++ [a, cut] = (p ++ [a]) ++ [cut] by simp, List.getLast?_append]
        simp
      rw [hl]
      exact ⟨some cut, rfl, tail_ok⟩
    | cons b l2' =>
      have hnb : nxt a = some b := f3.1
      have hl : (p ++ a :: cut :: b :: l2').getLast? = (p ++ a :: b :: l2').getLast? := by
        rw [List.getLast?_append, List.getLast?_append]
        simp [List.getLast?_cons_cons]
      rw [hl]
      refine ⟨some cut, ?_, tail_ok⟩
      rw [List.reverse_cons, IsSeg_snoc] at b1 ⊢
      refine ⟨?_, p3 b hnb⟩
      refine (IsSeg_congr ?_).mpr b1.1
      intro i hi
      have hil : i ∈ l2' := List.mem_reverse.mp hi
      refine p1 i (fun e => hcl2 (e ▸ List.mem_cons_of_mem _ hil)) ?_
      rw [hnb]
      intro e
      have : i = b := Option.some.inj e
      exact (List.nodup_cons.mp hdl2).1 (this ▸ hil)

/-! ### `AddIntersection` keeps the list well linked and sorted -/

theorem CutInv_of_same {L L' : Level} {head : Option Nat} {l fl : List Nat}
    (hs : L.SameCutsUpToFlags L') (h : L.CutInv head l fl) : L'.CutInv head l fl := by
  obtain ⟨s1, s2, s3⟩ := hs
  obtain ⟨⟨c1, c2, c3, c4⟩, hsort, ⟨f1, f2, f3⟩, hdis⟩ := h
  refine ⟨⟨?_, ?_, c3, ?_⟩, ?_, ⟨?_, f2, ?_⟩, hdis⟩
  · exact (IsSeg_congr (fun a _ => (s3 a).1)).mpr c1
  · exact (IsSeg_congr (fun a _ => (s3 a).2.1)).mpr c2
  · intro c hc; rw [s1]; exact c4 c hc
  · unfold Level.CutsSorted at hsort ⊢
    refine hsort.imp ?_
    intro a b hab
    rw [(s3 a).2.2.1, (s3 b).2.2.1]; exact hab
  · rw [s2]; exact (IsSeg_congr (fun a _ => (s3 a).1)).mpr f1
  · intro c hc; rw [s1]; exact f3 c hc

/-! ### Merging into an existing intersection record -/

/-- The record after a merge by vertex: only `force_closed` is applied. -/
theorem forceClosed_apply (L : Level) (c : Nat) (fc : Int) (i : Nat) :
    (forceClosed L c fc).cuts i =
      if i = c then
        { L.cuts c with
          open_before := if fc = 1 then false else (L.cuts c).open_before
          open_after := if fc = 2 then false else (L.cuts c).open_after }
      else L.cuts i := by
  have h12 : ¬ ((1 : Int) = 2) := by decide
  have h21 : ¬ ((2 : Int) = 1) := by decide
  unfold forceClosed
  by_cases hi : i = c
  · subst hi
    by_cases h1 : fc = 1
    · subst h1
      simp only [h12, if_true, if_false, modCut_apply, eq_self_iff_true]
    · by_cases h2 : fc = 2
      · subst h2
        simp only [h21, if_true, if_false, modCut_apply, eq_self_iff_true]
      · simp only [h1, h2, if_false, eq_self_iff_true, if_true]
  · by_cases h1 : fc = 1
    · subst h1
      simp only [h12, if_true, if_false, modCut_apply, if_neg hi, eq_self_iff_true]
    · by_cases h2 : fc = 2
      · subst h2
        simp only [h21, if_true, if_false, modCut_apply, if_neg hi, eq_self_iff_true]
      · simp only [h1, h2, if_false, if_neg hi]

theorem forceClosed_frame (L : Level) (c : Nat) (fc : Int) :
    (forceClosed L c fc).num_cuts = L.num_cuts ∧
      (forceClosed L c fc).quick_alloc_cuts = L.quick_alloc_cuts := by
  unfold forceClosed
  split_ifs <;> exact ⟨rfl, rfl⟩

/-- The merge loop stops at the first record that has the vertex or lies within
`DIST_EPSILON`, and changes the flags of that record only. -/
theorem AddIntersectionMerge_hit (eps : ℚ) (vert : Nat) (along : ℚ) (ob oa : Bool) (fc : Int)
    (L : Level) (c : Nat) (post : List Nat)
    (hc : vert = (L.cuts c).vertex ∨ |along - (L.cuts c).along_dist| < eps) (fuel : Nat) :
    ∀ (pre : List Nat) (cur : Option Nat),
      IsLinked (fun i => (L.cuts i).next) cur (pre ++ c :: post) → pre.length < fuel →
      (∀ p ∈ pre, vert ≠ (L.cuts p).vertex ∧ ¬ |along - (L.cuts p).along_dist| < eps) →
      ∃ L', AddIntersectionMerge eps vert along ob oa fc fuel L cur = some (some L') ∧
        L'.num_cuts = L.num_cuts ∧ L'.quick_alloc_cuts = L.quick_alloc_cuts ∧
        L'.lev_vertices = L.lev_vertices ∧ L'.lev_segs = L.lev_segs ∧
        (∀ i, i ≠ c → L'.cuts i = L.cuts i) ∧
        L'.cuts c =
          { L.cuts c with
            open_before :=
              if fc = 1 then false
              else if vert = (L.cuts c).vertex then (L.cuts c).open_before
              else ((L.cuts c).open_before || ob)
            open_after :=
              if fc = 2 then false
              else if vert = (L.cuts c).vertex then (L.cuts c).open_after
              else ((L.cuts c).open_after || oa) } := by
  induction fuel with
  | zero => intro pre cur _ h; exact absurd h (Nat.not_lt_zero _)
  | succ fuel ih =>
    intro pre cur hl hlen hpre
    cases pre with
    | nil =>
      obtain ⟨h1, -⟩ := hl
      subst h1
      simp only [AddIntersectionMerge]
      by_cases c1 : vert = (L.cuts c).vertex
      · rw [if_pos c1]
        refine ⟨_, rfl, (forceClosed_frame _ _ _).1, (forceClosed_frame _ _ _).2, ?_, ?_, ?_, ?_⟩
        · unfold forceClosed; split_ifs <;> rfl
        · unfold forceClosed; split_ifs <;> rfl
        · intro i hi; rw [forceClosed_apply, if_neg hi]
        · rw [forceClosed_apply, if_pos rfl]
          simp only [c1, if_true]
      · rw [if_neg c1]
        have c2 : |along - (L.cuts c).along_dist| < eps := hc.resolve_left c1
        rw [if_pos c2]
        refine ⟨_, rfl, ?_, ?_, ?_, ?_, ?_, ?_⟩
        · rw [(forceClosed_frame _ _ _).1]; split_ifs <;> rfl
        · rw [(forceClosed_frame _ _ _).2]; split_ifs <;> rfl
        · unfold forceClosed; split_ifs <;> rfl
        · unfold forceClosed; split_ifs <;> rfl
        · intro i hi
          rw [forceClosed_apply, if_neg hi]
          split_ifs <;> simp only [modCut_apply, if_neg hi]
        · rw [forceClosed_apply, if_pos rfl]
          simp only [if_neg c1]
          cases ob <;> cases oa <;>
            simp only [Bool.false_eq_true, if_false, if_true, modCut_apply, eq_self_iff_true,
              Bool.or_false, Bool.or_true]
    | cons p pre =>
      obtain ⟨h1, h2⟩ := hl
      subst h1
      obtain ⟨n1, n2⟩ := hpre p (List.mem_cons_self _ _)
      simp only [AddIntersectionMerge]
      rw [if_neg n1, if_neg n2]
      exact ih pre _ h2 (by simp only [List.length_cons] at hlen; omega)
        (fun q hq => hpre q (List.mem_cons_of_mem _ hq))

/-- C25 (as amended): `AddIntersection` merges instead of duplicating.  When the first
record of the list that has the vertex or lies within `DIST_EPSILON` in `along_dist` is
`c`, the call returns with the same list (no record added, same head, same links) and only
the flags of `c` change: if `c` has the vertex, only `force_closed` is applied (1 sets
`open_before = false`, 2 sets `open_after = false`, the open flags are otherwise kept);
if `c` is another vertex within `DIST_EPSILON`, the flags become the OR of the old and the
new open-ness and then `force_closed` is applied. -/
theorem AddIntersection_merges (DIST_EPSILON : ℚ) (VertexCheckOpen : Nat → ℚ → ℚ → Bool)
    (L : Level) (cut_list : Option Nat) (vert : Nat) (part : seg_t) (self_ref : Bool)
    (force_closed : Int) (pre : List Nat) (c : Nat) (post : List Nat)
    (hl : IsLinked (fun i => (L.cuts i).next) cut_list (pre ++ c :: post))
    (hnd : (pre ++ c :: post).Nodup) (halloc : ∀ x ∈ pre ++ c :: post, x < L.num_cuts)
    (hpre : ∀ p ∈ pre, vert ≠ (L.cuts p).vertex ∧
      ¬ |part.ParallelDist (L.lev_vertices vert).x (L.lev_vertices vert).y -
          (L.cuts p).along_dist| < DIST_EPSILON)
    (hc : vert = (L.cuts c).vertex ∨
      |part.ParallelDist (L.lev_vertices vert).x (L.lev_vertices vert).y -
          (L.cuts c).along_dist| < DIST_EPSILON) :
    ∃ L', AddIntersection DIST_EPSILON VertexCheckOpen L cut_list vert part self_ref
        force_closed = some (L', cut_list) ∧
      L'.num_cuts = L.num_cuts ∧
      IsLinked (fun i => (L'.cuts i).next) cut_list (pre ++ c :: post) ∧
      (∀ i, i ≠ c → L'.cuts i = L.cuts i) ∧
      L'.cuts c =
        { L.cuts c with
          open_before :=
            if force_closed = 1 then false
            else if vert = (L.cuts c).vertex then (L.cuts c).open_before
            else ((L.cuts c).open_before || VertexCheckOpen vert (-part.pdx) (-part.pdy))
          open_after :=
            if force_closed = 2 then false
            else if vert = (L.cuts c).vertex then (L.cuts c).open_after
            else ((L.cuts c).open_after || VertexCheckOpen vert part.pdx part.pdy) } := by
  have hlen : pre.length < L.num_cuts + 1 := by
    have := length_le_of_nodup_lt hnd halloc
    simp only [List.length_append, List.length_cons] at this
    omega
  obtain ⟨L', hm, hn, -, -, -, hother, hrec⟩ := AddIntersectionMerge_hit DIST_EPSILON vert
    (part.ParallelDist (L.lev_vertices vert).x (L.lev_vertices vert).y)
    (if force_closed = 1 then false else VertexCheckOpen vert (-part.pdx) (-part.pdy))
    (if force_closed = 2 then false else VertexCheckOpen vert part.pdx part.pdy)
    force_closed L c post hc (L.num_cuts + 1) pre cut_list hl hlen hpre
  have hrec' : L'.cuts c =
      { L.cuts c with
        open_before :=
          if force_closed = 1 then false
          else if vert = (L.cuts c).vertex then (L.cuts c).open_before
          else ((L.cuts c).open_before || VertexCheckOpen vert (-part.pdx) (-part.pdy))
        open_after :=
          if force_closed = 2 then false
          else if vert = (L.cuts c).vertex then (L.cuts c).open_after
          else ((L.cuts c).open_after || VertexCheckOpen vert part.pdx part.pdy) } := by
    rw [hrec]
    by_cases h1 : force_closed = 1
    · rw [if_pos h1, if_pos h1]
      by_cases h2 : force_closed = 2
      · rw [if_pos h2, if_pos h2]
      · rw [if_neg h2, if_neg h2, if_neg h2]
    · rw [if_neg h1, if_neg h1, if_neg h1]
      by_cases h2 : force_closed = 2
      · rw [if_pos h2, if_pos h2]
      · rw [if_neg h2, if_neg h2, if_neg h2]
  refine ⟨L', ?_, hn, ?_, hother, hrec'⟩
  · unfold AddIntersection
    simp only [hm, Option.some_bind]
  · refine (IsLinked_congr ?_).mpr hl
    intro a _
    by_cases ha : a = c
    · rw [ha, hrec']
    · rw [hother a ha]

theorem AddIntersection_merges_witness :
    ∃ L', AddIntersection (1 / 128) (fun _ _ _ => true) demoCutA.1 demoCutA.2 0
        (demoCutA.1.lev_segs 0) false 0 = some (L', demoCutA.2) ∧
      L'.num_cuts = demoCutA.1.num_cuts ∧
      IsLinked (fun i => (L'.cuts i).next) demoCutA.2 ([] ++ 0 :: []) ∧
      (∀ i, i ≠ 0 → L'.cuts i = demoCutA.1.cuts i) ∧
      L'.cuts 0 =
        { demoCutA.1.cuts 0 with
          open_before :=
            if (0 : Int) = 1 then false
            else if 0 = (demoCutA.1.cuts 0).vertex then (demoCutA.1.cuts 0).open_before
            else ((demoCutA.1.cuts 0).open_before ||
              (fun _ _ _ => true) 0 (-(demoCutA.1.lev_segs 0).pdx) (-(demoCutA.1.lev_segs 0).pdy))
          open_after :=
            if (0 : Int) = 2 then false
            else if 0 = (demoCutA.1.cuts 0).vertex then (demoCutA.1.cuts 0).open_after
            else ((demoCutA.1.cuts 0).open_after ||
              (fun _ _ _ => true) 0 (demoCutA.1.lev_segs 0).pdx (demoCutA.1.lev_segs 0).pdy) } :=
  AddIntersection_merges (1 / 128) (fun _ _ _ => true) demoCutA.1 demoCutA.2 0
    (demoCutA.1.lev_segs 0) false 0 [] 0 [] (by decide!) (by decide) (by decide!)
    (by intro p hp; exact absurd hp (List.not_mem_nil p)) (Or.inl (by decide!))

/-- C25 (counterexample): vertex 0 is recorded with `force_closed = 2`, which leaves one
record with `open_after = false`; a second `AddIntersection` for the same vertex, with
`force_closed = 0` and the vertex open in every direction, merges into that record (no
record is added) and leaves `open_after = false`, not the OR `false || true`. -/
theorem AddIntersection_vertex_merge_keeps_flags :
    AddIntersection (1 / 128) (fun _ _ _ => true) demoThree none 0 (demoThree.lev_segs 0)
      false 2 = some demoCutA ∧
    AddIntersection (1 / 128) (fun _ _ _ => true) demoCutA.1 demoCutA.2 0
      (demoCutA.1.lev_segs 0) false 0 = some demoCutB ∧
    demoCutA.2 = some 0 ∧ demoCutB.2 = some 0 ∧
    (demoCutA.1.cuts 0).vertex = 0 ∧ (demoCutA.1.cuts 0).next = none ∧
    demoCutB.1.num_cuts = demoCutA.1.num_cuts ∧ (demoCutB.1.cuts 0).next = none ∧
    (demoCutA.1.cuts 0).open_after = false ∧
    (demoCutB.1.cuts 0).open_after = false ∧
    ((demoCutA.1.cuts 0).open_after || true) = true := by
  refine ⟨Option_eq_some_getD _ (by decide!), Option_eq_some_getD _ (by decide!), ?_, ?_, ?_, ?_,
    ?_, ?_, ?_, ?_, ?_⟩ <;> decide!

/-! ### Where `AddSeg` attaches a seg -/

theorem cellAt_nil (t : quadtree_c) : t.cellAt [] = some t := by
  cases t <;> rfl

theorem segChain_of_linked (L : Level) (fuel : Nat) :
    ∀ (h : Option Nat) (l : List Nat), IsLinked L.segNext h l → l.length < fuel →
      L.segChain fuel h = some l := by
  induction fuel with
  | zero => intro h l _ hlen; omega
  | succ fuel ih =>
    intro h l hl hlen
    cases h with
    | none => rw [IsLinked_none hl]; rfl
    | some s =>
      obtain ⟨rest, rfl, hrest⟩ := IsLinked_some hl
      simp only [Level.segChain]
      have := ih (L.lev_segs s).next rest hrest
        (by simp only [List.length_cons] at hlen; omega)
      rw [this]
      rfl

/-- A proper list: the chain from `list` is `l`, all of it allocated. -/
theorem ListOk_iff (L : Level) (list : Option Nat) :
    L.ListOk list = true ↔ ∃ l, IsLinked L.segNext list l ∧ ∀ s ∈ l, s < L.num_segs := by
  constructor
  · intro h
    obtain ⟨l, hl, -, ha⟩ := ListOk_spec L list h
    exact ⟨l, hl, ha⟩
  · rintro ⟨l, hl, ha⟩
    have hlen : l.length < L.num_segs + 1 :=
      Nat.lt_succ_of_le (length_le_of_nodup_lt (IsLinked_nodup hl) ha)
    unfold Level.ListOk
    rw [segChain_of_linked L _ _ _ hl hlen]
    exact List.all_eq_true.mpr (fun s hs => decide_eq_true (ha s hs))

theorem chain_of_linked (L : Level) (list : Option Nat) (l : List Nat)
    (hl : IsLinked L.segNext list l) (ha : ∀ s ∈ l, s < L.num_segs) :
    (L.segChain (L.num_segs + 1) list).getD [] = l := by
  have hlen : l.length < L.num_segs + 1 :=
    Nat.lt_succ_of_le (length_le_of_nodup_lt (IsLinked_nodup hl) ha)
  rw [segChain_of_linked L _ _ _ hl hlen]
  rfl

theorem countReal_congr (L L' : Level) (l : List Nat)
    (h : ∀ x ∈ l, (L'.lev_segs x).linedef = (L.lev_segs x).linedef) :
    L'.countReal l = L.countReal l ∧ L'.countMini l = L.countMini l := by
  unfold Level.countReal Level.countMini
  constructor
  · congr 2
    apply List.filter_congr
    intro x hx
    rw [h x hx]
  · congr 2
    apply List.filter_congr
    intro x hx
    rw [h x hx]

theorem countReal_cons (L : Level) (s : Nat) (l : List Nat) :
    L.countReal (s :: l) = L.countReal l + (if (L.lev_segs s).linedef ≥ 0 then 1 else 0) ∧
    L.countMini (s :: l) = L.countMini l + (if (L.lev_segs s).linedef ≥ 0 then 0 else 1) := by
  unfold Level.countReal Level.countMini
  by_cases h : (L.lev_segs s).linedef ≥ 0
  · have h' : ¬ (L.lev_segs s).linedef < 0 := not_lt.mpr h
    simp [List.filter_cons, h, h']
  · have h' : (L.lev_segs s).linedef < 0 := not_le.mp h
    simp [List.filter_cons, h, h']

/-- A tree that does not hold the seg `s` looks the same in a level that differs at `s`
only. -/
theorem tree_congr (L L' : Level) (s : Nat) (hn : L'.num_segs = L.num_segs)
    (hseg : ∀ x, x ≠ s → L'.lev_segs x = L.lev_segs x) (u : quadtree_c) :
    u.Proper L = true → s ∉ u.Segs L →
      u.Segs L' = u.Segs L ∧ u.Proper L' = true ∧ u.Counted L' = u.Counted L := by
  have cell : ∀ list : Option Nat, L.ListOk list = true →
      s ∉ (L.segChain (L.num_segs + 1) list).getD [] →
      (L'.segChain (L'.num_segs + 1) list).getD [] = (L.segChain (L.num_segs + 1) list).getD [] ∧
      L'.ListOk list = true ∧
      L'.countReal ((L.segChain (L.num_segs + 1) list).getD []) =
        L.countReal ((L.segChain (L.num_segs + 1) list).getD []) ∧
      L'.countMini ((L.segChain (L.num_segs + 1) list).getD []) =
        L.countMini ((L.segChain (L.num_segs + 1) list).getD []) := by
    intro list hok hs
    obtain ⟨l, hl, ha⟩ := (ListOk_iff L list).mp hok
    rw [chain_of_linked L list l hl ha] at hs ⊢
    have hne : ∀ x ∈ l, x ≠ s := fun x hx e => hs (e ▸ hx)
    have hl' : IsLinked L'.segNext list l := by
      refine (IsLinked_congr ?_).mpr hl
      intro a ha'
      show (L'.lev_segs a).next = (L.lev_segs a).next
      rw [hseg a (hne a ha')]
    have ha' : ∀ x ∈ l, x < L'.num_segs := fun x hx => by rw [hn]; exact ha x hx
    obtain ⟨c1, c2⟩ := countReal_congr L L' l (fun x hx => by rw [hseg x (hne x hx)])
    exact ⟨chain_of_linked L' list l hl' ha', (ListOk_iff L' list).mpr ⟨l, hl', ha'⟩, c1, c2⟩
  induction u with
  | leaf x1 y1 x2 y2 rn mn list =>
    intro hp hs
    obtain ⟨-, -, hok⟩ := Proper_leaf hp
    simp only [quadtree_c.Segs] at hs
    obtain ⟨e1, e2, e3, e4⟩ := cell list hok hs
    refine ⟨?_, ?_, ?_⟩
    · simp only [quadtree_c.Segs]; exact e1
    · simp only [quadtree_c.Proper, Bool.and_eq_true, decide_eq_true_eq] at hp ⊢
      exact ⟨hp.1, e2⟩
    · simp only [quadtree_c.Counted, e1, e3, e4]
  | node x1 y1 x2 y2 rn mn list sub0 sub1 ih0 ih1 =>
    intro hp hs
    obtain ⟨-, -, hok, hp0, hp1⟩ := Proper_node hp
    simp only [quadtree_c.Segs, List.mem_append, not_or] at hs
    obtain ⟨⟨hs1, hs2⟩, hs3⟩ := hs
    obtain ⟨e1, e2, e3, e4⟩ := cell list hok hs1
    obtain ⟨a1, a2, a3⟩ := ih0 hp0 hs2
    obtain ⟨b1, b2, b3⟩ := ih1 hp1 hs3
    refine ⟨?_, ?_, ?_⟩
    · simp only [quadtree_c.Segs, e1, a1, b1]
    · simp only [quadtree_c.Proper, Bool.and_eq_true, decide_eq_true_eq] at hp ⊢
      exact ⟨⟨⟨hp.1.1.1, e2⟩, a2⟩, b2⟩
    · simp only [quadtree_c.Counted, e1, e3, e4, a3, b3]

/-- Linking a fresh seg in front of a proper list gives a proper list. -/
theorem cell_add (L L' : Level) (s : Nat) (list : Option Nat)
    (hn : L'.num_segs = L.num_segs) (hs : s < L.num_segs)
    (hseg : ∀ x, x ≠ s → L'.lev_segs x = L.lev_segs x)
    (hnext : (L'.lev_segs s).next = list)
    (hld : (L'.lev_segs s).linedef = (L.lev_segs s).linedef)
    (hok : L.ListOk list = true) (hfresh : s ∉ (L.segChain (L.num_segs + 1) list).getD []) :
    (L'.segChain (L'.num_segs + 1) (some s)).getD [] =
        s :: (L.segChain (L.num_segs + 1) list).getD [] ∧
    L'.ListOk (some s) = true ∧
    L'.countReal (s :: (L.segChain (L.num_segs + 1) list).getD []) =
      L.countReal ((L.segChain (L.num_segs + 1) list).getD []) +
        (if (L.lev_segs s).linedef ≥ 0 then 1 else 0) ∧
    L'.countMini (s :: (L.segChain (L.num_segs + 1) list).getD []) =
      L.countMini ((L.segChain (L.num_segs + 1) list).getD []) +
        (if (L.lev_segs s).linedef ≥ 0 then 0 else 1) := by
  obtain ⟨l, hl, ha⟩ := (ListOk_iff L list).mp hok
  rw [chain_of_linked L list l hl ha] at hfresh ⊢
  have hne : ∀ x ∈ l, x ≠ s := fun x hx e => hfresh (e ▸ hx)
  have hl' : IsLinked L'.segNext list l := by
    refine (IsLinked_congr ?_).mpr hl
    intro a ha'
    show (L'.lev_segs a).next = (L.lev_segs a).next
    rw [hseg a (hne a ha')]
  have hl2 : IsLinked L'.segNext (some s) (s :: l) := by
    refine ⟨rfl, ?_⟩
    show IsSeg L'.segNext (L'.lev_segs s).next l none
    rw [hnext]; exact hl'
  have ha2 : ∀ x ∈ s :: l, x < L'.num_segs := by
    intro x hx
    rw [hn]
    rcases List.mem_cons.mp hx with e | e
    · rw [e]; exact hs
    · exact ha x e
  obtain ⟨c1, c2⟩ := countReal_congr L L' l (fun x hx => by rw [hseg x (hne x hx)])
  obtain ⟨d1, d2⟩ := countReal_cons L' s l
  refine ⟨chain_of_linked L' (some s) (s :: l) hl2 ha2,
    (ListOk_iff L' (some s)).mpr ⟨s :: l, hl2, ha2⟩, ?_, ?_⟩
  · rw [d1, c1, hld]
  · rw [d2, c2, hld]

theorem bump_fields (t : quadtree_c) (ld : Int) :
    (t.bump ld).real_num = t.real_num + (if ld ≥ 0 then 1 else 0) ∧
    (t.bump ld).mini_num = t.mini_num + (if ld ≥ 0 then 0 else 1) := by
  cases t <;> simp only [quadtree_c.bump] <;> split_ifs <;>
    simp [quadtree_c.real_num, quadtree_c.mini_num]

/-- What `AddSeg` of a fresh, allocated seg does to a well-formed tree. -/
theorem AddSeg_inv (t : quadtree_c) :
    ∀ (this : List Bool) (L : Level) (s : Nat), s < L.num_segs → t.Proper L = true →
      s ∉ t.Segs L →
      (t.AddSeg this L s).2.num_segs = L.num_segs ∧
      (t.AddSeg this L s).2.lev_vertices = L.lev_vertices ∧
      (∀ x, x ≠ s → (t.AddSeg this L s).2.lev_segs x = L.lev_segs x) ∧
      ((t.AddSeg this L s).2.lev_segs s).linedef = (L.lev_segs s).linedef ∧
      ((t.AddSeg this L s).2.lev_segs s).start = (L.lev_segs s).start ∧
      ((t.AddSeg this L s).2.lev_segs s).end_ = (L.lev_segs s).end_ ∧
      (t.AddSeg this L s).1.Proper (t.AddSeg this L s).2 = true ∧
      ((t.AddSeg this L s).1.Segs (t.AddSeg this L s).2).Perm (s :: t.Segs L) ∧
      (t.Counted L = true → (t.AddSeg this L s).1.Counted (t.AddSeg this L s).2 = true) ∧
      (t.AddSeg this L s).1.real_num =
        t.real_num + (if (L.lev_segs s).linedef ≥ 0 then 1 else 0) ∧
      (t.AddSeg this L s).1.mini_num =
        t.mini_num + (if (L.lev_segs s).linedef ≥ 0 then 0 else 1) := by
  induction t with
  | leaf x1 y1 x2 y2 rn mn list =>
    intro this L s hs hp hfresh
    obtain ⟨hrn, hmn, hok⟩ := Proper_leaf hp
    simp only [quadtree_c.Segs] at hfresh
    have hseg : ∀ x, x ≠ s →
        ((quadtree_c.leaf x1 y1 x2 y2 rn mn list).AddSeg this L s).2.lev_segs x = L.lev_segs x := by
      intro x hx
      simp only [quadtree_c.AddSeg, ListAddSeg, modSeg_apply, if_neg hx]
    have hsame : ((quadtree_c.leaf x1 y1 x2 y2 rn mn list).AddSeg this L s).2.lev_segs s =
        { L.lev_segs s with next := list, quad := some this } := by
      simp only [quadtree_c.AddSeg, ListAddSeg, modSeg_apply, eq_self_iff_true, if_true,
        quadtree_c.bump]
      split_ifs <;> rfl
    have htree : ((quadtree_c.leaf x1 y1 x2 y2 rn mn list).AddSeg this L s).1 =
        quadtree_c.leaf x1 y1 x2 y2 (rn + (if (L.lev_segs s).linedef ≥ 0 then 1 else 0))
          (mn + (if (L.lev_segs s).linedef ≥ 0 then 0 else 1)) (some s) := by
      simp only [quadtree_c.AddSeg, quadtree_c.bump, ListAddSeg]
      split_ifs <;> simp [quadtree_c.setList]
    have hnum : ((quadtree_c.leaf x1 y1 x2 y2 rn mn list).AddSeg this L s).2.num_segs =
        L.num_segs := rfl
    have hvert : ((quadtree_c.leaf x1 y1 x2 y2 rn mn list).AddSeg this L s).2.lev_vertices =
        L.lev_vertices := rfl
    rw [htree]
    generalize ((quadtree_c.leaf x1 y1 x2 y2 rn mn list).AddSeg this L s).2 = L'
      at hseg hsame hnum hvert ⊢
    obtain ⟨e1, e2, e3, e4⟩ := cell_add L L' s list hnum hs hseg (by rw [hsame]) (by rw [hsame])
      hok hfresh
    refine ⟨hnum, hvert, hseg, by rw [hsame], by rw [hsame], by rw [hsame], ?_, ?_, ?_, rfl, rfl⟩
    · simp only [quadtree_c.Proper, Bool.and_eq_true, decide_eq_true_eq]
      refine ⟨⟨?_, ?_⟩, e2⟩
      · split_ifs <;> omega
      · split_ifs <;> omega
    · simp only [quadtree_c.Segs]
      rw [e1]
    · intro hc
      simp only [quadtree_c.Counted, Bool.and_eq_true, decide_eq_true_eq] at hc ⊢
      rw [e1, e3, e4, ← hc.1, ← hc.2]
      exact ⟨rfl, rfl⟩
  | node x1 y1 x2 y2 rn mn list sub0 sub1 ih0 ih1 =>
    intro this L s hs hp hfresh
    obtain ⟨hrn, hmn, hok, hp0, hp1⟩ := Proper_node hp
    simp only [quadtree_c.Segs, List.mem_append, not_or] at hfresh
    obtain ⟨⟨hf1, hf2⟩, hf3⟩ := hfresh
    cases hw : quadtree_c.AddSegWay x1 y1 x2 y2 sub0 sub1 L s with
    | none =>
      have htree : ((quadtree_c.node x1 y1 x2 y2 rn mn list sub0 sub1).AddSeg this L s).1 =
          quadtree_c.node x1 y1 x2 y2 (rn + (if (L.lev_segs s).linedef ≥ 0 then 1 else 0))
            (mn + (if (L.lev_segs s).linedef ≥ 0 then 0 else 1)) (some s) sub0 sub1 := by
        simp only [quadtree_c.AddSeg, hw, ListAddSeg]
        split_ifs <;> simp
      have hseg : ∀ x, x ≠ s →
          ((quadtree_c.node x1 y1 x2 y2 rn mn list sub0 sub1).AddSeg this L s).2.lev_segs x =
            L.lev_segs x := by
        intro x hx
        simp only [quadtree_c.AddSeg, hw, ListAddSeg, modSeg_apply, if_neg hx]
      have hsame : ((quadtree_c.node x1 y1 x2 y2 rn mn list sub0 sub1).AddSeg this L s).2.lev_segs
          s = { L.lev_segs s with next := list, quad := some this } := by
        simp only [quadtree_c.AddSeg, hw, ListAddSeg, modSeg_apply, eq_self_iff_true, if_true]
      have hnum : ((quadtree_c.node x1 y1 x2 y2 rn mn list sub0 sub1).AddSeg this L s).2.num_segs =
          L.num_segs := by
        simp only [quadtree_c.AddSeg, hw, ListAddSeg, modSeg_num_segs]
      have hvert : ((quadtree_c.node x1 y1 x2 y2 rn mn list sub0 sub1).AddSeg this L
          s).2.lev_vertices = L.lev_vertices := by
        simp only [quadtree_c.AddSeg, hw, ListAddSeg]
        rfl
      generalize ((quadtree_c.node x1 y1 x2 y2 rn mn list sub0 sub1).AddSeg this L s).2 = L'
        at hseg hsame hnum hvert ⊢
      obtain ⟨e1, e2, e3, e4⟩ := cell_add L L' s list hnum hs hseg (by rw [hsame])
        (by rw [hsame]) hok hf1
      obtain ⟨a1, a2, a3⟩ := tree_congr L L' s hnum hseg sub0 hp0 hf2
      obtain ⟨b1, b2, b3⟩ := tree_congr L L' s hnum hseg sub1 hp1 hf3
      rw [htree]
      refine ⟨hnum, hvert, hseg, by rw [hsame], by rw [hsame], by rw [hsame], ?_, ?_, ?_, rfl, rfl⟩
      · simp only [quadtree_c.Proper, Bool.and_eq_true, decide_eq_true_eq]
        refine ⟨⟨⟨⟨?_, ?_⟩, e2⟩, a2⟩, b2⟩
        · split_ifs <;> omega
        · split_ifs <;> omega
      · simp only [quadtree_c.Segs]
        rw [e1, a1, b1]
        exact List.Perm.refl _
      · intro hc
        simp only [quadtree_c.Counted, Bool.and_eq_true, decide_eq_true_eq] at hc ⊢
        rw [e1, e3, e4, a3, b3]
        refine ⟨⟨⟨?_, ?_⟩, hc.1.2⟩, hc.2⟩
        · rw [hc.1.1.1]; ring
        · rw [hc.1.1.2]; ring
    | some w =>
      cases w with
      | true =>
        obtain ⟨i1, i2, i3, i4, i5, i6, i7, i8, i9, i10, i11⟩ :=
          ih1 (this ++ [true]) L s hs hp1 hf3
        have htree : ((quadtree_c.node x1 y1 x2 y2 rn mn list sub0 sub1).AddSeg this L s).1 =
            quadtree_c.node x1 y1 x2 y2 (rn + (if (L.lev_segs s).linedef ≥ 0 then 1 else 0))
              (mn + (if (L.lev_segs s).linedef ≥ 0 then 0 else 1)) list sub0
              (sub1.AddSeg (this ++ [true]) L s).1 := by
          simp only [quadtree_c.AddSeg, hw]
          split_ifs <;> simp
        have hlev : ((quadtree_c.node x1 y1 x2 y2 rn mn list sub0 sub1).AddSeg this L s).2 =
            (sub1.AddSeg (this ++ [true]) L s).2 := by
          simp only [quadtree_c.AddSeg, hw]
        rw [htree, hlev]
        generalize (sub1.AddSeg (this ++ [true]) L s).2 = L' at *
        generalize (sub1.AddSeg (this ++ [true]) L s).1 = sub1' at *
        have hcell := tree_congr L L' s i1 i3 (quadtree_c.leaf x1 y1 x2 y2 rn mn list)
          (by simp only [quadtree_c.Proper, Bool.and_eq_true, decide_eq_true_eq]
              exact ⟨⟨hrn, hmn⟩, hok⟩)
          (by simp only [quadtree_c.Segs]; exact hf1)
        obtain ⟨c1, c2, c3⟩ := hcell
        simp only [quadtree_c.Segs] at c1
        obtain ⟨-, -, c2'⟩ := Proper_leaf c2
        obtain ⟨a1, a2, a3⟩ := tree_congr L L' s i1 i3 sub0 hp0 hf2
        have hcr := countReal_congr L L' ((L.segChain (L.num_segs + 1) list).getD [])
          (fun x hx => by rw [i3 x (fun e => hf1 (e ▸ hx))])
        refine ⟨i1, i2, i3, i4, i5, i6, ?_, ?_, ?_, rfl, rfl⟩
        · simp only [quadtree_c.Proper, Bool.and_eq_true, decide_eq_true_eq]
          refine ⟨⟨⟨⟨?_, ?_⟩, c2'⟩, a2⟩, i7⟩
          · split_ifs <;> omega
          · split_ifs <;> omega
        · simp only [quadtree_c.Segs]
          rw [c1, a1]
          have : (s :: ((L.segChain (L.num_segs + 1) list).getD [] ++ sub0.Segs L ++
              sub1.Segs L)).Perm
              ((L.segChain (L.num_segs + 1) list).getD [] ++ sub0.Segs L ++ s :: sub1.Segs L) :=
            (List.perm_middle).symm
          exact (List.Perm.append_left _ i8).trans this.symm
        · intro hc
          simp only [quadtree_c.Counted, Bool.and_eq_true, decide_eq_true_eq] at hc ⊢
          rw [c1, hcr.1, hcr.2, a3, i10, i11]
          refine ⟨⟨⟨?_, ?_⟩, hc.1.2⟩, i9 hc.2⟩
          · rw [hc.1.1.1]; ring
          · rw [hc.1.1.2]; ring
      | false =>
        obtain ⟨i1, i2, i3, i4, i5, i6, i7, i8, i9, i10, i11⟩ :=
          ih0 (this ++ [false]) L s hs hp0 hf2
        have htree : ((quadtree_c.node x1 y1 x2 y2 rn mn list sub0 sub1).AddSeg this L s).1 =
            quadtree_c.node x1 y1 x2 y2 (rn + (if (L.lev_segs s).linedef ≥ 0 then 1 else 0))
              (mn + (if (L.lev_segs s).linedef ≥ 0 then 0 else 1)) list
              (sub0.AddSeg (this ++ [false]) L s).1 sub1 := by
          simp only [quadtree_c.AddSeg, hw]
          split_ifs <;> simp
        have hlev : ((quadtree_c.node x1 y1 x2 y2 rn mn list sub0 sub1).AddSeg this L s).2 =
            (sub0.AddSeg (this ++ [false]) L s).2 := by
          simp only [quadtree_c.AddSeg, hw]
        rw [htree, hlev]
        generalize (sub0.AddSeg (this ++ [false]) L s).2 = L' at *
        generalize (sub0.AddSeg (this ++ [false]) L s).1 = sub0' at *
        have hcell := tree_congr L L' s i1 i3 (quadtree_c.leaf x1 y1 x2 y2 rn mn list)
          (by simp only [quadtree_c.Proper, Bool.and_eq_true, decide_eq_true_eq]
              exact ⟨⟨hrn, hmn⟩, hok⟩)
          (by simp only [quadtree_c.Segs]; exact hf1)
        obtain ⟨c1, c2, c3⟩ := hcell
        simp only [quadtree_c.Segs] at c1
        obtain ⟨-, -, c2'⟩ := Proper_leaf c2
        obtain ⟨b1, b2, b3⟩ := tree_congr L L' s i1 i3 sub1 hp1 hf3
        have hcr := countReal_congr L L' ((L.segChain (L.num_segs + 1) list).getD [])
          (fun x hx => by rw [i3 x (fun e => hf1 (e ▸ hx))])
        refine ⟨i1, i2, i3, i4, i5, i6, ?_, ?_, ?_, rfl, rfl⟩
        · simp only [quadtree_c.Proper, Bool.and_eq_true, decide_eq_true_eq]
          refine ⟨⟨⟨⟨?_, ?_⟩, c2'⟩, i7⟩, b2⟩
          · split_ifs <;> omega
          · split_ifs <;> omega
        · simp only [quadtree_c.Segs]
          rw [c1, b1]
          have h1 : (((L.segChain (L.num_segs + 1) list).getD [] ++ sub0'.Segs L')).Perm
              ((L.segChain (L.num_segs + 1) list).getD [] ++ s :: sub0.Segs L) :=
            List.Perm.append_left _ i8
          have h2 : ((L.segChain (L.num_segs + 1) list).getD [] ++ s :: sub0.Segs L).Perm
              (s :: ((L.segChain (L.num_segs + 1) list).getD [] ++ sub0.Segs L)) :=
            List.perm_middle
          exact ((h1.trans h2).append_right _)
        · intro hc
          simp only [quadtree_c.Counted, Bool.and_eq_true, decide_eq_true_eq] at hc ⊢
          rw [c1, hcr.1, hcr.2, b3, i10, i11]
          refine ⟨⟨⟨?_, ?_⟩, i9 hc.1.2⟩, hc.2⟩
          · rw [hc.1.1.1]; ring
          · rw [hc.1.1.2]; ring

/-! ### Count consistency of the quadtree -/

/-- The constructor makes a well-formed, empty, count-consistent tree of two-halves
boxes, in every level. -/
theorem quadtree_new_inv (L : Level) (fuel : Nat) :
    ∀ (x1 y1 x2 y2 : Int) (t : quadtree_c), quadtree_c.new fuel x1 y1 x2 y2 = some t →
      t.Proper L = true ∧ t.Counted L = true ∧ t.Boxed = true ∧ t.Segs L = [] ∧
      t.x1 = x1 ∧ t.y1 = y1 ∧ t.x2 = x2 ∧ t.y2 = y2 ∧ t.real_num = 0 ∧ t.mini_num = 0 := by
  have hchain : (L.segChain (L.num_segs + 1) none).getD [] = [] := rfl
  have hok : L.ListOk none = true := rfl
  induction fuel with
  | zero => intro x1 y1 x2 y2 t h; simp [quadtree_c.new] at h
  | succ fuel ih =>
    intro x1 y1 x2 y2 t h
    rw [quadtree_new_succ] at h
    by_cases hleaf : x2 - x1 ≤ 320 ∧ y2 - y1 ≤ 320
    · rw [if_pos hleaf] at h
      rw [← Option.some.inj h]
      refine ⟨?_, ?_, rfl, ?_, rfl, rfl, rfl, rfl, rfl, rfl⟩
      · simp only [quadtree_c.Proper, hok]; rfl
      · simp only [quadtree_c.Counted, hchain]; rfl
      · simp only [quadtree_c.Segs, hchain]
    · rw [if_neg hleaf] at h
      by_cases hwide : x2 - x1 ≥ y2 - y1
      · rw [if_pos hwide] at h
        simp only [Option.bind_eq_some] at h
        obtain ⟨s0, h0, s1, h1, ht⟩ := h
        obtain ⟨a1, a2, a3, a4, a5, a6, a7, a8, a9, a10⟩ := ih _ _ _ _ s0 h0
        obtain ⟨b1, b2, b3, b4, b5, b6, b7, b8, b9, b10⟩ := ih _ _ _ _ s1 h1
        rw [← Option.some.inj ht]
        refine ⟨?_, ?_, ?_, ?_, rfl, rfl, rfl, rfl, rfl, rfl⟩
        · simp only [quadtree_c.Proper, hok, a1, b1]; rfl
        · simp only [quadtree_c.Counted, hchain, a2, b2, a9, a10, b9, b10]; rfl
        · simp only [quadtree_c.Boxed, a3, b3, a5, a6, a7, a8, b5, b6, b7, b8, if_pos hwide]
          simp
        · simp only [quadtree_c.Segs, hchain, a4, b4, List.append_nil]
      · rw [if_neg hwide] at h
        simp only [Option.bind_eq_some] at h
        obtain ⟨s0, h0, s1, h1, ht⟩ := h
        obtain ⟨a1, a2, a3, a4, a5, a6, a7, a8, a9, a10⟩ := ih _ _ _ _ s0 h0
        obtain ⟨b1, b2, b3, b4, b5, b6, b7, b8, b9, b10⟩ := ih _ _ _ _ s1 h1
        rw [← Option.some.inj ht]
        refine ⟨?_, ?_, ?_, ?_, rfl, rfl, rfl, rfl, rfl, rfl⟩
        · simp only [quadtree_c.Proper, hok, a1, b1]; rfl
        · simp only [quadtree_c.Counted, hchain, a2, b2, a9, a10, b9, b10]; rfl
        · simp only [quadtree_c.Boxed, a3, b3, a5, a6, a7, a8, b5, b6, b7, b8, if_neg hwide]
          simp
        · simp only [quadtree_c.Segs, hchain, a4, b4, List.append_nil]

/-- `AddSeg` writes to the seg it adds only. -/
theorem AddSeg_frame (t : quadtree_c) : ∀ (this : List Bool) (L : Level) (s : Nat),
    (t.AddSeg this L s).2.num_segs = L.num_segs ∧
    ∀ x, x ≠ s → (t.AddSeg this L s).2.lev_segs x = L.lev_segs x := by
  induction t with
  | leaf x1 y1 x2 y2 rn mn list =>
    intro this L s
    refine ⟨rfl, fun x hx => ?_⟩
    simp only [quadtree_c.AddSeg, ListAddSeg, modSeg_apply, if_neg hx]
  | node x1 y1 x2 y2 rn mn list sub0 sub1 ih0 ih1 =>
    intro this L s
    cases hw : quadtree_c.AddSegWay x1 y1 x2 y2 sub0 sub1 L s with
    | none =>
      refine ⟨by simp only [quadtree_c.AddSeg, hw, ListAddSeg, modSeg_num_segs], fun x hx => ?_⟩
      simp only [quadtree_c.AddSeg, hw, ListAddSeg, modSeg_apply, if_neg hx]
    | some w =>
      cases w with
      | true =>
        simp only [quadtree_c.AddSeg, hw]
        exact ih1 _ L s
      | false =>
        simp only [quadtree_c.AddSeg, hw]
        exact ih0 _ L s

/-- `AddList` is `AddSeg` for each seg of the list, in list order. -/
theorem AddList_eq_foldl (this : List Bool) (ss : List Nat) :
    ∀ (fuel : Nat) (t : quadtree_c) (L : Level) (list : Option Nat),
      IsLinked L.segNext list ss → ss.length < fuel →
      quadtree_c.AddList this fuel t L list =
        some (ss.foldl (fun (st : quadtree_c × Level) (s : Nat) => st.1.AddSeg this st.2 s)
          (t, L)) := by
  induction ss with
  | nil =>
    intro fuel t L list hl hlen
    have hnone : list = none := hl
    subst hnone
    cases fuel with
    | zero => omega
    | succ fuel => rfl
  | cons s rest ih =>
    intro fuel t L list hl hlen
    have hnd := IsLinked_nodup hl
    obtain ⟨h1, h2⟩ := hl
    subst h1
    cases fuel with
    | zero => omega
    | succ fuel =>
      simp only [quadtree_c.AddList, List.foldl_cons]
      apply ih
      · refine (IsLinked_congr ?_).mpr h2
        intro a ha
        show ((t.AddSeg this L s).2.lev_segs a).next = (L.lev_segs a).next
        rw [(AddSeg_frame t this L s).2 a (fun e => (List.nodup_cons.mp hnd).1 (e ▸ ha))]
      · simp only [List.length_cons] at hlen; omega

/-- A sequence of `AddSeg` calls for distinct, allocated segs that are not in the tree
keeps the tree well formed and count-consistent. -/
theorem AddSegs_inv (this : List Bool) (ss : List Nat) :
    ∀ (t : quadtree_c) (L : Level), t.Proper L = true → t.Counted L = true → ss.Nodup →
      (∀ s ∈ ss, s < L.num_segs) → (∀ s ∈ ss, s ∉ t.Segs L) →
      (ss.foldl (fun (st : quadtree_c × Level) (s : Nat) => st.1.AddSeg this st.2 s)
          (t, L)).1.Proper
        (ss.foldl (fun (st : quadtree_c × Level) (s : Nat) => st.1.AddSeg this st.2 s)
          (t, L)).2 = true ∧
      (ss.foldl (fun (st : quadtree_c × Level) (s : Nat) => st.1.AddSeg this st.2 s)
          (t, L)).1.Counted
        (ss.foldl (fun (st : quadtree_c × Level) (s : Nat) => st.1.AddSeg this st.2 s)
          (t, L)).2 = true ∧
      (ss.foldl (fun (st : quadtree_c × Level) (s : Nat) => st.1.AddSeg this st.2 s)
          (t, L)).1.real_num = t.real_num + L.countReal ss ∧
      (ss.foldl (fun (st : quadtree_c × Level) (s : Nat) => st.1.AddSeg this st.2 s)
          (t, L)).1.mini_num = t.mini_num + L.countMini ss := by
  induction ss with
  | nil =>
    intro t L hp hc _ _ _
    exact ⟨hp, hc, by simp [Level.countReal], by simp [Level.countMini]⟩
  | cons s rest ih =>
    intro t L hp hc hnd hal hfresh
    obtain ⟨i1, i2, i3, i4, i5, i6, i7, i8, i9, i10, i11⟩ :=
      AddSeg_inv t this L s (hal s (List.mem_cons_self _ _)) hp
        (hfresh s (List.mem_cons_self _ _))
    obtain ⟨hs, hnd'⟩ := List.nodup_cons.mp hnd
    simp only [List.foldl_cons]
    obtain ⟨j1, j2, j3, j4⟩ := ih (t.AddSeg this L s).1 (t.AddSeg this L s).2 i7 (i9 hc) hnd'
      (fun x hx => by rw [i1]; exact hal x (List.mem_cons_of_mem _ hx))
      (fun x hx hmem => by
        have := i8.subset hmem
        rcases List.mem_cons.mp this with e | e
        · exact hs (e ▸ hx)
        · exact hfresh x (List.mem_cons_of_mem _ hx) e)
    obtain ⟨c1, c2⟩ := countReal_congr L (t.AddSeg this L s).2 rest
      (fun x hx => by rw [i3 x (fun e => hs (e ▸ hx))])
    obtain ⟨d1, d2⟩ := countReal_cons L s rest
    refine ⟨j1, j2, ?_, ?_⟩
    · rw [j3, i10, c1, d1]; ring
    · rw [j4, i11, c2, d2]; ring

/-- C5: count consistency.  The constructor makes a tree in which every cell's `real_num`
is the number of real segs (`linedef >= 0`) in its own list plus the `real_num` of its
two children, and `mini_num` likewise for minisegs; any sequence of `AddSeg` calls for
distinct allocated segs that are not yet in the tree, and `AddList` for a list of such
segs (which is that sequence of `AddSeg` calls), keeps it so; the root counts go up by the
number of real and mini segs added. -/
theorem quadtree_counts_consistent (this : List Bool) (t : quadtree_c) (L : Level)
    (ss : List Nat) (hp : t.Proper L = true) (hc : t.Counted L = true) (hnd : ss.Nodup)
    (hal : ∀ s ∈ ss, s < L.num_segs) (hfresh : ∀ s ∈ ss, s ∉ t.Segs L) :
    (ss.foldl (fun (st : quadtree_c × Level) (s : Nat) => st.1.AddSeg this st.2 s)
        (t, L)).1.Counted
      (ss.foldl (fun (st : quadtree_c × Level) (s : Nat) => st.1.AddSeg this st.2 s)
        (t, L)).2 = true ∧
    (ss.foldl (fun (st : quadtree_c × Level) (s : Nat) => st.1.AddSeg this st.2 s)
        (t, L)).1.real_num = t.real_num + L.countReal ss ∧
    (ss.foldl (fun (st : quadtree_c × Level) (s : Nat) => st.1.AddSeg this st.2 s)
        (t, L)).1.mini_num = t.mini_num + L.countMini ss ∧
    (∀ list, IsLinked L.segNext list ss →
      quadtree_c.AddList this (L.num_segs + 1) t L list =
        some (ss.foldl (fun (st : quadtree_c × Level) (s : Nat) => st.1.AddSeg this st.2 s)
          (t, L))) ∧
    (∀ (L0 : Level) (fuel : Nat) (x1 y1 x2 y2 : Int) (t0 : quadtree_c),
      quadtree_c.new fuel x1 y1 x2 y2 = some t0 →
      t0.Proper L0 = true ∧ t0.Counted L0 = true ∧ t0.Segs L0 = [] ∧
        t0.real_num = 0 ∧ t0.mini_num = 0) := by
  obtain ⟨-, j2, j3, j4⟩ := AddSegs_inv this ss t L hp hc hnd hal hfresh
  refine ⟨j2, j3, j4, ?_, ?_⟩
  · intro list hl
    exact AddList_eq_foldl this ss _ t L list hl
      (Nat.lt_succ_of_le (length_le_of_nodup_lt hnd hal))
  · intro L0 fuel x1 y1 x2 y2 t0 h0
    obtain ⟨a1, a2, -, a4, -, -, -, -, a9, a10⟩ := quadtree_new_inv L0 fuel x1 y1 x2 y2 t0 h0
    exact ⟨a1, a2, a4, a9, a10⟩

theorem quadtree_counts_consistent_witness :
    ([0, 1, 2].foldl (fun (st : quadtree_c × Level) (s : Nat) => st.1.AddSeg [] st.2 s)
        (demoTouchRoot, demoThree)).1.Counted
      ([0, 1, 2].foldl (fun (st : quadtree_c × Level) (s : Nat) => st.1.AddSeg [] st.2 s)
        (demoTouchRoot, demoThree)).2 = true ∧
    ([0, 1, 2].foldl (fun (st : quadtree_c × Level) (s : Nat) => st.1.AddSeg [] st.2 s)
        (demoTouchRoot, demoThree)).1.real_num =
      demoTouchRoot.real_num + demoThree.countReal [0, 1, 2] ∧
    ([0, 1, 2].foldl (fun (st : quadtree_c × Level) (s : Nat) => st.1.AddSeg [] st.2 s)
        (demoTouchRoot, demoThree)).1.mini_num =
      demoTouchRoot.mini_num + demoThree.countMini [0, 1, 2] ∧
    (∀ list, IsLinked demoThree.segNext list [0, 1, 2] →
      quadtree_c.AddList [] (demoThree.num_segs + 1) demoTouchRoot demoThree list =
        some ([0, 1, 2].foldl
          (fun (st : quadtree_c × Level) (s : Nat) => st.1.AddSeg [] st.2 s)
          (demoTouchRoot, demoThree))) ∧
    (∀ (L0 : Level) (fuel : Nat) (x1 y1 x2 y2 : Int) (t0 : quadtree_c),
      quadtree_c.new fuel x1 y1 x2 y2 = some t0 →
      t0.Proper L0 = true ∧ t0.Counted L0 = true ∧ t0.Segs L0 = [] ∧
        t0.real_num = 0 ∧ t0.mini_num = 0) :=
  quadtree_counts_consistent [] demoTouchRoot demoThree [0, 1, 2] (by decide!) (by decide!)
    (by decide) (by decide) (by decide!)

/-! ### The containment invariant of `AddSeg` -/

/-- `AddSeg` keeps the box of the cell it is called on and bumps one of its counters. -/
theorem AddSeg_root (t : quadtree_c) (this : List Bool) (L : Level) (s : Nat) :
    (t.AddSeg this L s).1.x1 = t.x1 ∧ (t.AddSeg this L s).1.y1 = t.y1 ∧
    (t.AddSeg this L s).1.x2 = t.x2 ∧ (t.AddSeg this L s).1.y2 = t.y2 ∧
    (t.AddSeg this L s).1.real_num =
      t.real_num + (if (L.lev_segs s).linedef ≥ 0 then 1 else 0) ∧
    (t.AddSeg this L s).1.mini_num =
      t.mini_num + (if (L.lev_segs s).linedef ≥ 0 then 0 else 1) := by
  cases t with
  | leaf x1 y1 x2 y2 rn mn list =>
    simp only [quadtree_c.AddSeg, quadtree_c.bump, ListAddSeg]
    split_ifs <;> simp [quadtree_c.setList, quadtree_c.x1, quadtree_c.y1, quadtree_c.x2,
      quadtree_c.y2, quadtree_c.real_num, quadtree_c.mini_num]
  | node x1 y1 x2 y2 rn mn list sub0 sub1 =>
    cases hw : quadtree_c.AddSegWay x1 y1 x2 y2 sub0 sub1 L s with
    | none =>
      simp only [quadtree_c.AddSeg, hw, ListAddSeg]
      split_ifs <;> simp [quadtree_c.x1, quadtree_c.y1, quadtree_c.x2,
        quadtree_c.y2, quadtree_c.real_num, quadtree_c.mini_num]
    | some w =>
      cases w <;> simp only [quadtree_c.AddSeg, hw] <;>
        split_ifs <;> simp [quadtree_c.x1, quadtree_c.y1, quadtree_c.x2,
          quadtree_c.y2, quadtree_c.real_num, quadtree_c.mini_num]

theorem Boxed_node {x1 y1 x2 y2 rn mn : Int} {list : Option Nat} {sub0 sub1 : quadtree_c}
    (h : (quadtree_c.node x1 y1 x2 y2 rn mn list sub0 sub1).Boxed = true) :
    sub0.x1 = x1 ∧ sub0.y1 = y1 ∧ sub1.x2 = x2 ∧ sub1.y2 = y2 ∧
    (x2 - x1 ≥ y2 - y1 → sub0.y2 = y2 ∧ sub1.y1 = y1 ∧ sub0.x2 = sub1.x1) ∧
    (¬ x2 - x1 ≥ y2 - y1 → sub0.x2 = x2 ∧ sub1.x1 = x1 ∧ sub0.y2 = sub1.y1) ∧
    sub0.Boxed = true ∧ sub1.Boxed = true := by
  simp only [quadtree_c.Boxed, Bool.and_eq_true, decide_eq_true_eq] at h
  obtain ⟨⟨⟨⟨⟨⟨a1, a2⟩, a3⟩, a4⟩, a5⟩, a6⟩, a7⟩ := h
  refine ⟨a1, a2, a3, a4, ?_, ?_, a6, a7⟩
  · intro hw
    rw [if_pos hw] at a5
    simp only [Bool.and_eq_true, decide_eq_true_eq] at a5
    exact ⟨a5.1.1, a5.1.2, a5.2⟩
  · intro hw
    rw [if_neg hw] at a5
    simp only [Bool.and_eq_true, decide_eq_true_eq] at a5
    exact ⟨a5.1.1, a5.1.2, a5.2⟩

/-- A seg inside a cell that passes a strict test of `AddSeg` lies inside the sub-cell it
is sent to. -/
theorem AddSegWay_inside {x1 y1 x2 y2 rn mn : Int} {list : Option Nat}
    {sub0 sub1 : quadtree_c} {L : Level} {s : Nat} {w : Bool}
    (hb : (quadtree_c.node x1 y1 x2 y2 rn mn list sub0 sub1).Boxed = true)
    (hw : quadtree_c.AddSegWay x1 y1 x2 y2 sub0 sub1 L s = some w)
    (h1 : (quadtree_c.node x1 y1 x2 y2 rn mn list sub0 sub1).Inside
      (L.lev_vertices (L.lev_segs s).start).x (L.lev_vertices (L.lev_segs s).start).y)
    (h2 : (quadtree_c.node x1 y1 x2 y2 rn mn list sub0 sub1).Inside
      (L.lev_vertices (L.lev_segs s).end_).x (L.lev_vertices (L.lev_segs s).end_).y) :
    (if w then sub1 else sub0).Inside
      (L.lev_vertices (L.lev_segs s).start).x (L.lev_vertices (L.lev_segs s).start).y ∧
    (if w then sub1 else sub0).Inside
      (L.lev_vertices (L.lev_segs s).end_).x (L.lev_vertices (L.lev_segs s).end_).y := by
  obtain ⟨b1, b2, b3, b4, bw, bt, -, -⟩ := Boxed_node hb
  unfold quadtree_c.Inside at h1 h2 ⊢
  simp only [quadtree_c.x1, quadtree_c.y1, quadtree_c.x2, quadtree_c.y2] at h1 h2
  unfold quadtree_c.AddSegWay at hw
  simp only [] at hw
  generalize (L.lev_vertices (L.lev_segs s).start).x = sx at *
  generalize (L.lev_vertices (L.lev_segs s).start).y = sy at *
  generalize (L.lev_vertices (L.lev_segs s).end_).x = ex at *
  generalize (L.lev_vertices (L.lev_segs s).end_).y = ey at *
  by_cases hwide : x2 - x1 ≥ y2 - y1
  · obtain ⟨c1, c2, c3⟩ := bw hwide
    rw [if_pos hwide] at hw
    split_ifs at hw with k1 k2
    · rw [← Option.some.inj hw]
      simp only [if_true]
      rw [b3, b4, c2]
      have := lt_min_iff.mp k1
      exact ⟨⟨le_of_lt this.1, h1.2.1, h1.2.2.1, h1.2.2.2⟩,
        ⟨le_of_lt this.2, h2.2.1, h2.2.2.1, h2.2.2.2⟩⟩
    · rw [← Option.some.inj hw]
      simp only [Bool.false_eq_true, if_false]
      rw [b1, b2, c1]
      have := max_lt_iff.mp k2
      exact ⟨⟨h1.1, le_of_lt this.1, h1.2.2.1, h1.2.2.2⟩,
        ⟨h2.1, le_of_lt this.2, h2.2.2.1, h2.2.2.2⟩⟩
  · obtain ⟨c1, c2, c3⟩ := bt hwide
    rw [if_neg hwide] at hw
    split_ifs at hw with k1 k2
    · rw [← Option.some.inj hw]
      simp only [if_true]
      rw [b3, b4, c2]
      have := lt_min_iff.mp k1
      exact ⟨⟨h1.1, h1.2.1, le_of_lt this.1, h1.2.2.2⟩,
        ⟨h2.1, h2.2.1, le_of_lt this.2, h2.2.2.2⟩⟩
    · rw [← Option.some.inj hw]
      simp only [Bool.false_eq_true, if_false]
      rw [b1, b2, c1]
      have := max_lt_iff.mp k2
      exact ⟨⟨h1.1, h1.2.1, h1.2.2.1, le_of_lt this.1⟩,
        ⟨h2.1, h2.2.1, h2.2.2.1, le_of_lt this.2⟩⟩

/-- The descent of `AddSeg`: the cell the seg is attached to and its ancestors. -/
theorem AddSeg_path (t : quadtree_c) :
    ∀ (this : List Bool) (L : Level) (s : Nat), t.Boxed = true →
      t.Inside (L.lev_vertices (L.lev_segs s).start).x (L.lev_vertices (L.lev_segs s).start).y →
      t.Inside (L.lev_vertices (L.lev_segs s).end_).x (L.lev_vertices (L.lev_segs s).end_).y →
      ∃ path cell', ((t.AddSeg this L s).2.lev_segs s).quad = some (this ++ path) ∧
        (t.AddSeg this L s).1.cellAt path = some cell' ∧ cell'.list = some s ∧
        ∀ k, k ≤ path.length →
          ∃ anc anc', t.cellAt (path.take k) = some anc ∧
            (t.AddSeg this L s).1.cellAt (path.take k) = some anc' ∧
            anc'.Inside (L.lev_vertices (L.lev_segs s).start).x
              (L.lev_vertices (L.lev_segs s).start).y ∧
            anc'.Inside (L.lev_vertices (L.lev_segs s).end_).x
              (L.lev_vertices (L.lev_segs s).end_).y ∧
            anc'.real_num = anc.real_num + (if (L.lev_segs s).linedef ≥ 0 then 1 else 0) ∧
            anc'.mini_num = anc.mini_num + (if (L.lev_segs s).linedef ≥ 0 then 0 else 1) := by
  have root : ∀ (t : quadtree_c) (this : List Bool) (L : Level) (s : Nat),
      t.Inside (L.lev_vertices (L.lev_segs s).start).x (L.lev_vertices (L.lev_segs s).start).y →
      t.Inside (L.lev_vertices (L.lev_segs s).end_).x (L.lev_vertices (L.lev_segs s).end_).y →
      ∃ anc anc', t.cellAt [] = some anc ∧ (t.AddSeg this L s).1.cellAt [] = some anc' ∧
        anc'.Inside (L.lev_vertices (L.lev_segs s).start).x
          (L.lev_vertices (L.lev_segs s).start).y ∧
        anc'.Inside (L.lev_vertices (L.lev_segs s).end_).x
          (L.lev_vertices (L.lev_segs s).end_).y ∧
        anc'.real_num = anc.real_num + (if (L.lev_segs s).linedef ≥ 0 then 1 else 0) ∧
        anc'.mini_num = anc.mini_num + (if (L.lev_segs s).linedef ≥ 0 then 0 else 1) := by
    intro t this L s h1 h2
    obtain ⟨r1, r2, r3, r4, r5, r6⟩ := AddSeg_root t this L s
    refine ⟨t, _, cellAt_nil t, cellAt_nil _, ?_, ?_, r5, r6⟩
    · unfold quadtree_c.Inside at h1 ⊢; rw [r1, r2, r3, r4]; exact h1
    · unfold quadtree_c.Inside at h2 ⊢; rw [r1, r2, r3, r4]; exact h2
  induction t with
  | leaf x1 y1 x2 y2 rn mn list =>
    intro this L s hb h1 h2
    refine ⟨[], _, ?_, cellAt_nil _, ?_, ?_⟩
    · simp only [quadtree_c.AddSeg, modSeg_apply, eq_self_iff_true, if_true, List.append_nil]
    · simp only [quadtree_c.AddSeg, quadtree_c.bump]
      split_ifs <;> rfl
    · intro k hk
      have : k = 0 := Nat.le_zero.mp hk
      subst this
      exact root _ this L s h1 h2
  | node x1 y1 x2 y2 rn mn list sub0 sub1 ih0 ih1 =>
    intro this L s hb h1 h2
    cases hw : quadtree_c.AddSegWay x1 y1 x2 y2 sub0 sub1 L s with
    | none =>
      refine ⟨[], _, ?_, cellAt_nil _, ?_, ?_⟩
      · simp only [quadtree_c.AddSeg, hw, modSeg_apply, eq_self_iff_true, if_true,
          List.append_nil]
      · simp only [quadtree_c.AddSeg, hw]
        rfl
      · intro k hk
        have : k = 0 := Nat.le_zero.mp hk
        subst this
        exact root _ this L s h1 h2
    | some w =>
      obtain ⟨-, -, -, -, -, -, hb0, hb1⟩ := Boxed_node hb
      obtain ⟨in1, in2⟩ := AddSegWay_inside hb hw h1 h2
      cases w with
      | true =>
        simp only [if_true] at in1 in2
        obtain ⟨path, cell', hq, hc', hl', hanc⟩ := ih1 (this ++ [true]) L s hb1 in1 in2
        have htree : ((quadtree_c.node x1 y1 x2 y2 rn mn list sub0 sub1).AddSeg this L s).1.cellAt
            (true :: path) = some cell' := by
          simp only [quadtree_c.AddSeg, hw, quadtree_c.cellAt, if_true]
          exact hc'
        refine ⟨true :: path, cell', ?_, htree, hl', ?_⟩
        · simp only [quadtree_c.AddSeg, hw]
          rw [hq, List.append_assoc]; rfl
        · intro k hk
          cases k with
          | zero => exact root _ this L s h1 h2
          | succ k =>
            obtain ⟨anc, anc', a1, a2, a3, a4, a5, a6⟩ := hanc k (by simpa using hk)
            refine ⟨anc, anc', ?_, ?_, a3, a4, a5, a6⟩
            · simp only [List.take_succ_cons, quadtree_c.cellAt, if_true]; exact a1
            · simp only [List.take_succ_cons, quadtree_c.AddSeg, hw, quadtree_c.cellAt, if_true]
              exact a2
      | false =>
        simp only [Bool.false_eq_true, if_false] at in1 in2
        obtain ⟨path, cell', hq, hc', hl', hanc⟩ := ih0 (this ++ [false]) L s hb0 in1 in2
        have htree : ((quadtree_c.node x1 y1 x2 y2 rn mn list sub0 sub1).AddSeg this L s).1.cellAt
            (false :: path) = some cell' := by
          simp only [quadtree_c.AddSeg, hw, quadtree_c.cellAt, Bool.false_eq_true, if_false]
          exact hc'
        refine ⟨false :: path, cell', ?_, htree, hl', ?_⟩
        · simp only [quadtree_c.AddSeg, hw]
          rw [hq, List.append_assoc]; rfl
        · intro k hk
          cases k with
          | zero => exact root _ this L s h1 h2
          | succ k =>
            obtain ⟨anc, anc', a1, a2, a3, a4, a5, a6⟩ := hanc k (by simpa using hk)
            refine ⟨anc, anc', ?_, ?_, a3, a4, a5, a6⟩
            · simp only [List.take_succ_cons, quadtree_c.cellAt, Bool.false_eq_true, if_false]
              exact a1
            · simp only [List.take_succ_cons, quadtree_c.AddSeg, hw, quadtree_c.cellAt,
                Bool.false_eq_true, if_false]
              exact a2

/-- C27: containment invariant.  After `AddSeg(s)` of an allocated seg that is not yet in
the (well-formed, two-halves) tree whose root box contains both end points of `s`: `s` is
on the list of exactly one cell (it occurs once among the segs of the tree), `s.quad` is
that cell and `s` is the head of its list, and both end points of `s` lie inside the box
of that cell and of every ancestor, each of whose counters (`real_num` for a real seg,
`mini_num` for a miniseg) was incremented exactly once. -/
theorem AddSeg_containment (t : quadtree_c) (this : List Bool) (L : Level) (s : Nat)
    (hs : s < L.num_segs) (hp : t.Proper L = true) (hb : t.Boxed = true)
    (hfresh : s ∉ t.Segs L)
    (h1 : t.Inside (L.lev_vertices (L.lev_segs s).start).x
      (L.lev_vertices (L.lev_segs s).start).y)
    (h2 : t.Inside (L.lev_vertices (L.lev_segs s).end_).x
      (L.lev_vertices (L.lev_segs s).end_).y) :
    ((t.AddSeg this L s).1.Segs (t.AddSeg this L s).2).count s = 1 ∧
    ∃ path cell', ((t.AddSeg this L s).2.lev_segs s).quad = some (this ++ path) ∧
      (t.AddSeg this L s).1.cellAt path = some cell' ∧ cell'.list = some s ∧
      ∀ k, k ≤ path.length →
        ∃ anc anc', t.cellAt (path.take k) = some anc ∧
          (t.AddSeg this L s).1.cellAt (path.take k) = some anc' ∧
          anc'.Inside (L.lev_vertices (L.lev_segs s).start).x
            (L.lev_vertices (L.lev_segs s).start).y ∧
          anc'.Inside (L.lev_vertices (L.lev_segs s).end_).x
            (L.lev_vertices (L.lev_segs s).end_).y ∧
          anc'.real_num = anc.real_num + (if (L.lev_segs s).linedef ≥ 0 then 1 else 0) ∧
          anc'.mini_num = anc.mini_num + (if (L.lev_segs s).linedef ≥ 0 then 0 else 1) := by
  obtain ⟨-, -, -, -, -, -, -, i8, -, -, -⟩ := AddSeg_inv t this L s hs hp hfresh
  refine ⟨?_, AddSeg_path t this L s hb h1 h2⟩
  rw [i8.count_eq, List.count_cons_self, List.count_eq_zero_of_not_mem hfresh]

theorem AddSeg_containment_witness :
    ((demoTouchRoot.AddSeg [] demoWide 0).1.Segs (demoTouchRoot.AddSeg [] demoWide 0).2).count 0
      = 1 ∧
    ∃ path cell', (((demoTouchRoot.AddSeg [] demoWide 0).2.lev_segs 0).quad = some ([] ++ path)) ∧
      (demoTouchRoot.AddSeg [] demoWide 0).1.cellAt path = some cell' ∧ cell'.list = some 0 ∧
      ∀ k, k ≤ path.length →
        ∃ anc anc', demoTouchRoot.cellAt (path.take k) = some anc ∧
          (demoTouchRoot.AddSeg [] demoWide 0).1.cellAt (path.take k) = some anc' ∧
          anc'.Inside (demoWide.lev_vertices (demoWide.lev_segs 0).start).x
            (demoWide.lev_vertices (demoWide.lev_segs 0).start).y ∧
          anc'.Inside (demoWide.lev_vertices (demoWide.lev_segs 0).end_).x
            (demoWide.lev_vertices (demoWide.lev_segs 0).end_).y ∧
          anc'.real_num = anc.real_num + (if (demoWide.lev_segs 0).linedef ≥ 0 then 1 else 0) ∧
          anc'.mini_num = anc.mini_num + (if (demoWide.lev_segs 0).linedef ≥ 0 then 0 else 1) :=
  AddSeg_containment demoTouchRoot [] demoWide 0 (by decide) (by decide!) (by decide!)
    (by decide!) (by decide!) (by decide!)

namespace ajbsp

/-! ## Raw delete and insert -/

theorem insertIdx_eraseIdx_getD {α : Type} (d : α) :
    ∀ (l : List α) (i : Nat), i < l.length → (l.eraseIdx i).insertIdx i (l.getD i d) = l := by
  intro l
  induction l with
  | nil => intro i h; simp at h
  | cons a l ih =>
    intro i h
    cases i with
    | zero => simp [List.insertIdx]
    | succ i =>
      have hi : i < l.length := by simpa using h
      simp only [List.eraseIdx_cons_succ, List.insertIdx_succ_cons, List.getD_cons_succ]
      rw [ih i hi]

theorem refUp_refDown (n r : Int) (h : r ≠ n) : refUp n (refDown n r) = r := by
  unfold refUp refDown
  split_ifs <;> omega

theorem map_eq_self {α : Type} (f : α → α) (l : List α) (h : ∀ a ∈ l, f a = a) :
    l.map f = l := by
  induction l with
  | nil => rfl
  | cons a l ih =>
    simp only [List.map_cons]
    rw [h a (List.mem_cons_self _ _), ih (fun b hb => h b (List.mem_cons_of_mem _ hb))]

theorem RawDeleteVertex_RawInsertVertex (doc : Document) (n : Int)
    (hn : 0 ≤ n ∧ n < (doc.Vertices.length : Int))
    (hfree : ∀ L ∈ doc.LineDefs, L.start ≠ n ∧ L.end_ ≠ n) :
    ∃ d p, RawDeleteVertex doc n = some (d, p) ∧ RawInsertVertex d n p = some doc := by
  have hlt : n.toNat < doc.Vertices.length := by omega
  refine ⟨_, _, by unfold RawDeleteVertex; rw [if_pos hn], ?_⟩
  have hlen : ((doc.Vertices.eraseIdx n.toNat).length : Int) = doc.Vertices.length - 1 := by
    rw [List.length_eraseIdx, if_pos hlt]; omega
  have hins := insertIdx_eraseIdx_getD Vertex.zero doc.Vertices n.toNat hlt
  unfold RawInsertVertex
  simp only []
  rw [if_pos (by rw [hlen]; omega), hins]
  by_cases hlast : n + 1 < (doc.Vertices.length : Int)
  · rw [if_pos hlast, if_pos (by rw [hlen]; omega), List.map_map]
    rw [map_eq_self _ _ (by
      intro L hL
      show ({ ({ L with start := refDown n L.start, end_ := refDown n L.end_ } : LineDef) with
        start := refUp n (refDown n L.start), end_ := refUp n (refDown n L.end_) } : LineDef) = L
      rw [refUp_refDown _ _ (hfree L hL).1, refUp_refDown _ _ (hfree L hL).2])]
  · rw [if_neg hlast, if_neg (by rw [hlen]; omega)]

theorem RawDeleteSideDef_RawInsertSideDef (doc : Document) (n : Int)
    (hn : 0 ≤ n ∧ n < (doc.SideDefs.length : Int))
    (hfree : ∀ L ∈ doc.LineDefs, L.right ≠ n ∧ L.left ≠ n) :
    ∃ d p, RawDeleteSideDef doc n = some (d, p) ∧ RawInsertSideDef d n p = some doc := by
  have hlt : n.toNat < doc.SideDefs.length := by omega
  refine ⟨_, _, by unfold RawDeleteSideDef; rw [if_pos hn], ?_⟩
  have hlen : ((doc.SideDefs.eraseIdx n.toNat).length : Int) = doc.SideDefs.length - 1 := by
    rw [List.length_eraseIdx, if_pos hlt]; omega
  have hins := insertIdx_eraseIdx_getD SideDef.zero doc.SideDefs n.toNat hlt
  unfold RawInsertSideDef
  simp only []
  rw [if_pos (by rw [hlen]; omega), hins]
  by_cases hlast : n + 1 < (doc.SideDefs.length : Int)
  · rw [if_pos hlast, if_pos (by rw [hlen]; omega), List.map_map]
    rw [map_eq_self _ _ (by
      intro L hL
      show ({ ({ L with right := refDown n L.right, left := refDown n L.left } : LineDef) with
        right := refUp n (refDown n L.right), left := refUp n (refDown n L.left) } : LineDef) = L
      rw [refUp_refDown _ _ (hfree L hL).1, refUp_refDown _ _ (hfree L hL).2])]
  · rw [if_neg hlast, if_neg (by rw [hlen]; omega)]

theorem RawDeleteSector_RawInsertSector (doc : Document) (n : Int)
    (hn : 0 ≤ n ∧ n < (doc.Sectors.length : Int))
    (hfree : ∀ S ∈ doc.SideDefs, S.sector ≠ n) :
    ∃ d p, RawDeleteSector doc n = some (d, p) ∧ RawInsertSector d n p = some doc := by
  have hlt : n.toNat < doc.Sectors.length := by omega
  refine ⟨_, _, by unfold RawDeleteSector; rw [if_pos hn], ?_⟩
  have hlen : ((doc.Sectors.eraseIdx n.toNat).length : Int) = doc.Sectors.length - 1 := by
    rw [List.length_eraseIdx, if_pos hlt]; omega
  have hins := insertIdx_eraseIdx_getD Sector.zero doc.Sectors n.toNat hlt
  unfold RawInsertSector
  simp only []
  rw [if_pos (by rw [hlen]; omega), hins]
  by_cases hlast : n + 1 < (doc.Sectors.length : Int)
  · rw [if_pos hlast, if_pos (by rw [hlen]; omega), List.map_map]
    rw [map_eq_self _ _ (by
      intro S hS
      show ({ ({ S with sector := refDown n S.sector } : SideDef) with
        sector := refUp n (refDown n S.sector) } : SideDef) = S
      rw [refUp_refDown _ _ (hfree S hS)])]
  · rw [if_neg hlast, if_neg (by rw [hlen]; omega)]

end ajbsp

namespace ajbsp

/-- C35: raw delete and insert are inverse on references.  For a valid vertex index `n`
that no linedef references, `RawDeleteVertex` at `n` succeeds and `RawInsertVertex` at `n`
with the returned object gives back the whole document (the vertex array and the start and
end of every linedef included); likewise `RawDeleteSideDef` / `RawInsertSideDef` when no
linedef has `n` as right or left, and `RawDeleteSector` / `RawInsertSector` when no sidedef
has `n` as sector. -/
theorem RawDelete_RawInsert_inverse (doc : Document) (n : Int) :
    ((0 ≤ n ∧ n < (doc.Vertices.length : Int)) →
      (∀ L ∈ doc.LineDefs, L.start ≠ n ∧ L.end_ ≠ n) →
      ∃ d p, RawDeleteVertex doc n = some (d, p) ∧ RawInsertVertex d n p = some doc) ∧
    ((0 ≤ n ∧ n < (doc.SideDefs.length : Int)) →
      (∀ L ∈ doc.LineDefs, L.right ≠ n ∧ L.left ≠ n) →
      ∃ d p, RawDeleteSideDef doc n = some (d, p) ∧ RawInsertSideDef d n p = some doc) ∧
    ((0 ≤ n ∧ n < (doc.Sectors.length : Int)) →
      (∀ S ∈ doc.SideDefs, S.sector ≠ n) →
      ∃ d p, RawDeleteSector doc n = some (d, p) ∧ RawInsertSector d n p = some doc) :=
  ⟨RawDeleteVertex_RawInsertVertex doc n, RawDeleteSideDef_RawInsertSideDef doc n,
    RawDeleteSector_RawInsertSector doc n⟩

/-- In the demo document, index 1 is valid and unreferenced for vertices, sidedefs and
sectors, and deleting and re-inserting it restores the document. -/
theorem RawDelete_RawInsert_inverse_witness :
    ((0 ≤ (1 : Int) ∧ (1 : Int) < (demoBasisDoc.Vertices.length : Int)) ∧
      (∀ L ∈ demoBasisDoc.LineDefs, L.start ≠ 1 ∧ L.end_ ≠ 1) ∧
      ∃ d p, RawDeleteVertex demoBasisDoc 1 = some (d, p) ∧
        RawInsertVertex d 1 p = some demoBasisDoc) ∧
    ((0 ≤ (1 : Int) ∧ (1 : Int) < (demoBasisDoc.SideDefs.length : Int)) ∧
      (∀ L ∈ demoBasisDoc.LineDefs, L.right ≠ 1 ∧ L.left ≠ 1) ∧
      ∃ d p, RawDeleteSideDef demoBasisDoc 1 = some (d, p) ∧
        RawInsertSideDef d 1 p = some demoBasisDoc) ∧
    ((0 ≤ (1 : Int) ∧ (1 : Int) < (demoBasisDoc.Sectors.length : Int)) ∧
      (∀ S ∈ demoBasisDoc.SideDefs, S.sector ≠ 1) ∧
      ∃ d p, RawDeleteSector demoBasisDoc 1 = some (d, p) ∧
        RawInsertSector d 1 p = some demoBasisDoc) :=
  ⟨⟨by decide, by decide,
      (RawDelete_RawInsert_inverse demoBasisDoc 1).1 (by decide) (by decide)⟩,
    ⟨by decide, by decide,
      (RawDelete_RawInsert_inverse demoBasisDoc 1).2.1 (by decide) (by decide)⟩,
    ⟨by decide, by decide,
      (RawDelete_RawInsert_inverse demoBasisDoc 1).2.2 (by decide) (by decide)⟩⟩

end ajbsp

namespace ajbsp

/-! ## Edit operations are reversible -/

theorem eraseIdx_insertIdx_self {α : Type} (a : α) :
    ∀ (l : List α) (i : Nat), i ≤ l.length → (l.insertIdx i a).eraseIdx i = l := by
  intro l
  induction l with
  | nil => intro i h; have : i = 0 := by simpa using h
           subst this; simp [List.insertIdx]
  | cons b l ih =>
    intro i h
    cases i with
    | zero => simp [List.insertIdx]
    | succ i =>
      have hi : i ≤ l.length := by simpa using h
      simp only [List.insertIdx_succ_cons, List.eraseIdx_cons_succ]
      rw [ih i hi]

theorem getD_insertIdx_self {α : Type} (a d : α) :
    ∀ (l : List α) (i : Nat), i ≤ l.length → (l.insertIdx i a).getD i d = a := by
  intro l
  induction l with
  | nil => intro i h; have : i = 0 := by simpa using h
           subst this; simp [List.insertIdx]
  | cons b l ih =>
    intro i h
    cases i with
    | zero => simp [List.insertIdx]
    | succ i =>
      have hi : i ≤ l.length := by simpa using h
      simp only [List.insertIdx_succ_cons, List.getD_cons_succ]
      exact ih i hi

theorem refDown_refUp (n r : Int) : refDown n (refUp n r) = r := by
  unfold refUp refDown
  split_ifs <;> omega

theorem refUp_ne (n r : Int) : refUp n r ≠ n := by
  unfold refUp
  split_ifs <;> omega

theorem length_insertIdx_int {α : Type} (l : List α) (n : Int) (a : α)
    (hn : 0 ≤ n ∧ n ≤ (l.length : Int)) :
    ((l.insertIdx n.toNat a).length : Int) = l.length + 1 := by
  rw [List.length_insertIdx _ _ (by omega)]; push_cast; rfl

theorem RawInsertThing_RawDeleteThing (doc d : Document) (n : Int) (p : Thing)
    (h : RawInsertThing doc n p = some d) : RawDeleteThing d n = some (doc, p) := by
  unfold RawInsertThing at h
  split_ifs at h with hn
  have hd := Option.some.inj h
  subst hd
  have hlen := length_insertIdx_int doc.Things n p hn
  unfold RawDeleteThing
  simp only []
  rw [if_pos (by rw [hlen]; omega), eraseIdx_insertIdx_self _ _ _ (by omega),
    getD_insertIdx_self _ _ _ _ (by omega)]

theorem RawInsertLineDef_RawDeleteLineDef (doc d : Document) (n : Int) (p : LineDef)
    (h : RawInsertLineDef doc n p = some d) : RawDeleteLineDef d n = some (doc, p) := by
  unfold RawInsertLineDef at h
  split_ifs at h with hn
  have hd := Option.some.inj h
  subst hd
  have hlen := length_insertIdx_int doc.LineDefs n p hn
  unfold RawDeleteLineDef
  simp only []
  rw [if_pos (by rw [hlen]; omega), eraseIdx_insertIdx_self _ _ _ (by omega),
    getD_insertIdx_self _ _ _ _ (by omega)]

theorem RawInsertVertex_RawDeleteVertex (doc d : Document) (n : Int) (p : Vertex)
    (h : RawInsertVertex doc n p = some d) : RawDeleteVertex d n = some (doc, p) := by
  unfold RawInsertVertex at h
  split_ifs at h with hn
  have hd := Option.some.inj h
  subst hd
  have hlen := length_insertIdx_int doc.Vertices n p hn
  unfold RawDeleteVertex
  simp only []
  rw [if_pos (by rw [hlen]; omega), eraseIdx_insertIdx_self _ _ _ (by omega),
    getD_insertIdx_self _ _ _ _ (by omega), hlen]
  by_cases hlast : n + 1 < (doc.Vertices.length : Int) + 1
  · rw [if_pos hlast, if_pos (by omega), List.map_map]
    rw [map_eq_self _ _ (by
      intro L _
      show ({ ({ L with start := refUp n L.start, end_ := refUp n L.end_ } : LineDef) with
        start := refDown n (refUp n L.start), end_ := refDown n (refUp n L.end_) } : LineDef)
        = L
      rw [refDown_refUp, refDown_refUp])]
  · rw [if_neg hlast, if_neg (by omega)]

theorem RawInsertSideDef_RawDeleteSideDef (doc d : Document) (n : Int) (p : SideDef)
    (h : RawInsertSideDef doc n p = some d) : RawDeleteSideDef d n = some (doc, p) := by
  unfold RawInsertSideDef at h
  split_ifs at h with hn
  have hd := Option.some.inj h
  subst hd
  have hlen := length_insertIdx_int doc.SideDefs n p hn
  unfold RawDeleteSideDef
  simp only []
  rw [if_pos (by rw [hlen]; omega), eraseIdx_insertIdx_self _ _ _ (by omega),
    getD_insertIdx_self _ _ _ _ (by omega), hlen]
  by_cases hlast : n + 1 < (doc.SideDefs.length : Int) + 1
  · rw [if_pos hlast, if_pos (by omega), List.map_map]
    rw [map_eq_self _ _ (by
      intro L _
      show ({ ({ L with right := refUp n L.right, left := refUp n L.left } : LineDef) with
        right := refDown n (refUp n L.right), left := refDown n (refUp n L.left) } : LineDef)
        = L
      rw [refDown_refUp, refDown_refUp])]
  · rw [if_neg hlast, if_neg (by omega)]

theorem RawInsertSector_RawDeleteSector (doc d : Document) (n : Int) (p : Sector)
    (h : RawInsertSector doc n p = some d) : RawDeleteSector d n = some (doc, p) := by
  unfold RawInsertSector at h
  split_ifs at h with hn
  have hd := Option.some.inj h
  subst hd
  have hlen := length_insertIdx_int doc.Sectors n p hn
  unfold RawDeleteSector
  simp only []
  rw [if_pos (by rw [hlen]; omega), eraseIdx_insertIdx_self _ _ _ (by omega),
    getD_insertIdx_self _ _ _ _ (by omega), hlen]
  by_cases hlast : n + 1 < (doc.Sectors.length : Int) + 1
  · rw [if_pos hlast, if_pos (by omega), List.map_map]
    rw [map_eq_self _ _ (by
      intro S _
      show ({ ({ S with sector := refUp n S.sector } : SideDef) with
        sector := refDown n (refUp n S.sector) } : SideDef) = S
      rw [refDown_refUp])]
  · rw [if_neg hlast, if_neg (by omega)]

theorem RawInsert_RawDelete (doc d : Document) (t : ObjType) (n : Int) (p : Obj)
    (h : RawInsert doc t n p = some d) : RawDelete d t n = some (doc, p) := by
  cases t <;> cases p <;> simp only [RawInsert] at h <;> first
    | exact absurd h (by simp)
    | skip
  · simp only [RawDelete, RawInsertThing_RawDeleteThing _ _ _ _ h, Option.map_some']
  · simp only [RawDelete, RawInsertLineDef_RawDeleteLineDef _ _ _ _ h, Option.map_some']
  · simp only [RawDelete, RawInsertSideDef_RawDeleteSideDef _ _ _ _ h, Option.map_some']
  · simp only [RawDelete, RawInsertVertex_RawDeleteVertex _ _ _ _ h, Option.map_some']
  · simp only [RawDelete, RawInsertSector_RawDeleteSector _ _ _ _ h, Option.map_some']

theorem RawDeleteThing_RawInsertThing (doc : Document) (n : Int) (d : Document) (p : Thing)
    (h : RawDeleteThing doc n = some (d, p)) : RawInsertThing d n p = some doc := by
  unfold RawDeleteThing at h
  split_ifs at h with hn
  have hd := Option.some.inj h
  have hlt : n.toNat < doc.Things.length := by omega
  have hlen : ((doc.Things.eraseIdx n.toNat).length : Int) = doc.Things.length - 1 := by
    rw [List.length_eraseIdx, if_pos hlt]; omega
  rw [← (Prod.mk.inj hd).1, ← (Prod.mk.inj hd).2]
  unfold RawInsertThing
  simp only []
  rw [if_pos (by rw [hlen]; omega), insertIdx_eraseIdx_getD _ _ _ hlt]

theorem RawDeleteLineDef_RawInsertLineDef (doc : Document) (n : Int) (d : Document)
    (p : LineDef) (h : RawDeleteLineDef doc n = some (d, p)) :
    RawInsertLineDef d n p = some doc := by
  unfold RawDeleteLineDef at h
  split_ifs at h with hn
  have hd := Option.some.inj h
  have hlt : n.toNat < doc.LineDefs.length := by omega
  have hlen : ((doc.LineDefs.eraseIdx n.toNat).length : Int) = doc.LineDefs.length - 1 := by
    rw [List.length_eraseIdx, if_pos hlt]; omega
  rw [← (Prod.mk.inj hd).1, ← (Prod.mk.inj hd).2]
  unfold RawInsertLineDef
  simp only []
  rw [if_pos (by rw [hlen]; omega), insertIdx_eraseIdx_getD _ _ _ hlt]

theorem RawDelete_valid (doc d : Document) (t : ObjType) (n : Int) (p : Obj)
    (h : RawDelete doc t n = some (d, p)) : 0 ≤ n ∧ n < doc.NumObjects t := by
  cases t <;> simp only [RawDelete, RawDeleteThing, RawDeleteLineDef, RawDeleteSideDef,
    RawDeleteVertex, RawDeleteSector, Document.NumObjects] at h ⊢ <;>
    split_ifs at h with hn <;> first | exact hn | exact absurd h (by simp)

theorem RawDelete_RawInsert (doc d : Document) (t : ObjType) (n : Int) (p : Obj)
    (hfree : doc.Unreferenced t n)
    (h : RawDelete doc t n = some (d, p)) : RawInsert d t n p = some doc := by
  have hv := RawDelete_valid doc d t n p h
  cases t
  · simp only [RawDelete, Option.map_eq_some'] at h
    obtain ⟨r, hr, he⟩ := h
    obtain ⟨rfl, rfl⟩ := Prod.mk.inj he
    exact RawDeleteThing_RawInsertThing doc n r.1 r.2 hr
  · simp only [RawDelete, Option.map_eq_some'] at h
    obtain ⟨r, hr, he⟩ := h
    obtain ⟨rfl, rfl⟩ := Prod.mk.inj he
    exact RawDeleteLineDef_RawInsertLineDef doc n r.1 r.2 hr
  · simp only [RawDelete, Option.map_eq_some'] at h
    obtain ⟨r, hr, he⟩ := h
    obtain ⟨rfl, rfl⟩ := Prod.mk.inj he
    obtain ⟨d1, p1, h1, h2⟩ := RawDeleteSideDef_RawInsertSideDef doc n hv hfree
    rw [hr] at h1
    obtain ⟨rfl, rfl⟩ := Prod.mk.inj (Option.some.inj h1)
    exact h2
  · simp only [RawDelete, Option.map_eq_some'] at h
    obtain ⟨r, hr, he⟩ := h
    obtain ⟨rfl, rfl⟩ := Prod.mk.inj he
    obtain ⟨d1, p1, h1, h2⟩ := RawDeleteVertex_RawInsertVertex doc n hv hfree
    rw [hr] at h1
    obtain ⟨rfl, rfl⟩ := Prod.mk.inj (Option.some.inj h1)
    exact h2
  · simp only [RawDelete, Option.map_eq_some'] at h
    obtain ⟨r, hr, he⟩ := h
    obtain ⟨rfl, rfl⟩ := Prod.mk.inj he
    obtain ⟨d1, p1, h1, h2⟩ := RawDeleteSector_RawInsertSector doc n hv hfree
    rw [hr] at h1
    obtain ⟨rfl, rfl⟩ := Prod.mk.inj (Option.some.inj h1)
    exact h2

end ajbsp

namespace ajbsp

theorem Thing_field_swap (x : Thing) (f : Nat) (v old : Int) (h : x.getField f = some old) :
    (x.setField f v).getField f = some v ∧ (x.setField f v).setField f old = x := by
  cases x
  rcases f with _ | _ | _ | _ | _ | _ | _ | _ | _ | _ | _ | _ | _ | f <;>
    first
      | (cases h; exact ⟨rfl, rfl⟩)
      | exact absurd h (by simp [Thing.getField])

theorem Vertex_field_swap (x : Vertex) (f : Nat) (v old : Int) (h : x.getField f = some old) :
    (x.setField f v).getField f = some v ∧ (x.setField f v).setField f old = x := by
  cases x
  rcases f with _ | _ | f <;>
    first
      | (cases h; exact ⟨rfl, rfl⟩)
      | exact absurd h (by simp [Vertex.getField])

theorem Sector_field_swap (x : Sector) (f : Nat) (v old : Int) (h : x.getField f = some old) :
    (x.setField f v).getField f = some v ∧ (x.setField f v).setField f old = x := by
  cases x
  rcases f with _ | _ | _ | _ | _ | _ | _ | f <;>
    first
      | (cases h; exact ⟨rfl, rfl⟩)
      | exact absurd h (by simp [Sector.getField])

theorem SideDef_field_swap (x : SideDef) (f : Nat) (v old : Int)
    (h : x.getField f = some old) :
    (x.setField f v).getField f = some v ∧ (x.setField f v).setField f old = x := by
  cases x
  rcases f with _ | _ | _ | _ | _ | _ | f <;>
    first
      | (cases h; exact ⟨rfl, rfl⟩)
      | exact absurd h (by simp [SideDef.getField])

theorem LineDef_field_swap (x : LineDef) (f : Nat) (v old : Int)
    (h : x.getField f = some old) :
    (x.setField f v).getField f = some v ∧ (x.setField f v).setField f old = x := by
  cases x
  rcases f with _ | _ | _ | _ | _ | _ | _ | _ | _ | _ | _ | f <;>
    first
      | (cases h; exact ⟨rfl, rfl⟩)
      | exact absurd h (by simp [LineDef.getField])

theorem set_swap_back {α : Type} (l : List α) (i : Nat) (d a : α) (hi : i < l.length) :
    (l.set i a).getD i d = a ∧ (l.set i a).set i (l.getD i d) = l := by
  constructor
  · rw [List.getD_eq_getElem _ _ (by simpa using hi)]
    exact List.getElem_set_self _
  · rw [List.set_set, List.getD_eq_getElem _ _ hi]
    apply List.ext_getElem
    · simp
    · intro n h1 h2
      rw [List.getElem_set]
      split_ifs with h
      · subst h; rfl
      · rfl

end ajbsp

namespace ajbsp

theorem RawChange_RawChange (doc d : Document) (t : ObjType) (n : Int) (f : Nat)
    (v old : Int) (h : RawChange doc t n f v = some (d, old)) :
    RawChange d t n f old = some (doc, v) := by
  cases t
  · simp only [RawChange] at h ⊢
    split_ifs at h with hn
    simp only [Option.map_eq_some'] at h
    obtain ⟨o, ho, he⟩ := h
    obtain ⟨rfl, rfl⟩ := Prod.mk.inj he
    have hlt : n.toNat < doc.Things.length := by omega
    have hs := set_swap_back doc.Things n.toNat Thing.zero
      ((doc.Things.getD n.toNat Thing.zero).setField f v) hlt
    have hf := Thing_field_swap _ f v o ho
    simp only []
    rw [if_pos (by rw [List.length_set]; exact hn), hs.1, hf.1, hf.2, hs.2]
    rfl
  · simp only [RawChange] at h ⊢
    split_ifs at h with hn
    simp only [Option.map_eq_some'] at h
    obtain ⟨o, ho, he⟩ := h
    obtain ⟨rfl, rfl⟩ := Prod.mk.inj he
    have hlt : n.toNat < doc.LineDefs.length := by omega
    have hs := set_swap_back doc.LineDefs n.toNat LineDef.zero
      ((doc.LineDefs.getD n.toNat LineDef.zero).setField f v) hlt
    have hf := LineDef_field_swap _ f v o ho
    simp only []
    rw [if_pos (by rw [List.length_set]; exact hn), hs.1, hf.1, hf.2, hs.2]
    rfl
  · simp only [RawChange] at h ⊢
    split_ifs at h with hn
    simp only [Option.map_eq_some'] at h
    obtain ⟨o, ho, he⟩ := h
    obtain ⟨rfl, rfl⟩ := Prod.mk.inj he
    have hlt : n.toNat < doc.SideDefs.length := by omega
    have hs := set_swap_back doc.SideDefs n.toNat SideDef.zero
      ((doc.SideDefs.getD n.toNat SideDef.zero).setField f v) hlt
    have hf := SideDef_field_swap _ f v o ho
    simp only []
    rw [if_pos (by rw [List.length_set]; exact hn), hs.1, hf.1, hf.2, hs.2]
    rfl
  · simp only [RawChange] at h ⊢
    split_ifs at h with hn
    simp only [Option.map_eq_some'] at h
    obtain ⟨o, ho, he⟩ := h
    obtain ⟨rfl, rfl⟩ := Prod.mk.inj he
    have hlt : n.toNat < doc.Vertices.length := by omega
    have hs := set_swap_back doc.Vertices n.toNat Vertex.zero
      ((doc.Vertices.getD n.toNat Vertex.zero).setField f v) hlt
    have hf := Vertex_field_swap _ f v o ho
    simp only []
    rw [if_pos (by rw [List.length_set]; exact hn), hs.1, hf.1, hf.2, hs.2]
    rfl
  · simp only [RawChange] at h ⊢
    split_ifs at h with hn
    simp only [Option.map_eq_some'] at h
    obtain ⟨o, ho, he⟩ := h
    obtain ⟨rfl, rfl⟩ := Prod.mk.inj he
    have hlt : n.toNat < doc.Sectors.length := by omega
    have hs := set_swap_back doc.Sectors n.toNat Sector.zero
      ((doc.Sectors.getD n.toNat Sector.zero).setField f v) hlt
    have hf := Sector_field_swap _ f v o ho
    simp only []
    rw [if_pos (by rw [List.length_set]; exact hn), hs.1, hf.1, hf.2, hs.2]
    rfl

/-- An operation that `Apply` turns back: applying the reversed operation to the new
document gives the operation and the document back. -/
theorem Apply_change_rev (op op1 : edit_op_c) (doc doc1 : Document)
    (ha : op.action = OpAction.OP_CHANGE) (h : op.Apply doc = some (op1, doc1)) :
    op1.Apply doc1 = some (op, doc) := by
  unfold edit_op_c.Apply at h
  rw [ha] at h
  simp only [Option.map_eq_some'] at h
  obtain ⟨r, hr, he⟩ := h
  obtain ⟨rfl, rfl⟩ := Prod.mk.inj he
  have := RawChange_RawChange doc r.1 op.objtype op.objnum op.field op.value r.2 hr
  unfold edit_op_c.Apply
  simp only [ha, this, Option.map_some']
  cases op
  simp only at ha
  subst ha
  rfl

theorem Apply_insert_rev (op op1 : edit_op_c) (doc doc1 : Document)
    (ha : op.action = OpAction.OP_INSERT) (h : op.Apply doc = some (op1, doc1)) :
    op1.Apply doc1 = some (op, doc) := by
  unfold edit_op_c.Apply at h
  rw [ha] at h
  rcases hp : op.ptr with _ | p
  · rw [hp] at h; exact absurd h (by simp)
  · rw [hp] at h
    simp only [Option.map_eq_some'] at h
    obtain ⟨r, hr, he⟩ := h
    obtain ⟨rfl, rfl⟩ := Prod.mk.inj he
    have := RawInsert_RawDelete doc r op.objtype op.objnum p hr
    unfold edit_op_c.Apply
    simp only [this, Option.map_some']
    cases op
    simp only at ha hp
    subst ha; subst hp
    rfl

theorem Apply_delete_rev (op op1 : edit_op_c) (doc doc1 : Document)
    (ha : op.action = OpAction.OP_DELETE) (hp : op.ptr = none)
    (hfree : doc.Unreferenced op.objtype op.objnum)
    (h : op.Apply doc = some (op1, doc1)) :
    op1.Apply doc1 = some (op, doc) := by
  unfold edit_op_c.Apply at h
  rw [ha] at h
  simp only [Option.map_eq_some'] at h
  obtain ⟨r, hr, he⟩ := h
  obtain ⟨rfl, rfl⟩ := Prod.mk.inj he
  have := RawDelete_RawInsert doc r.1 op.objtype op.objnum r.2 hfree hr
  unfold edit_op_c.Apply
  simp only [this, Option.map_some']
  cases op
  simp only at ha hp
  subst ha; subst hp
  rfl

end ajbsp

namespace ajbsp

/-! ## Undo groups -/

theorem ApplyForward_snoc (x : edit_op_c) :
    ∀ (l : List edit_op_c) (d : Document),
      ApplyForward (l ++ [x]) d =
        (ApplyForward l d).bind fun q =>
          (x.Apply q.2).map fun r => (q.1 ++ [r.1], r.2) := by
  intro l
  induction l with
  | nil =>
    intro d
    simp only [List.nil_append, ApplyForward, Option.some_bind]
    cases x.Apply d <;> simp [ApplyForward]
  | cons a l ih =>
    intro d
    simp only [List.cons_append, ApplyForward]
    cases ha : a.Apply d with
    | none => simp
    | some r =>
      simp only [Option.some_bind]
      have e : ApplyForward (l.append [x]) r.2 = _ := ih r.2
      rw [e]
      cases ApplyForward l r.2 with
      | none => simp
      | some q =>
        simp only [Option.some_bind, Option.map_some']
        cases x.Apply q.2 <;> simp

theorem ApplyBackward_snoc (x : edit_op_c) :
    ∀ (l : List edit_op_c) (d : Document),
      ApplyBackward (l ++ [x]) d =
        (x.Apply d).bind fun r =>
          (ApplyBackward l r.2).map fun q => (q.1 ++ [r.1], q.2) := by
  intro l
  induction l with
  | nil =>
    intro d
    simp only [List.nil_append, ApplyBackward, Option.some_bind]
    cases x.Apply d <;> simp
  | cons a l ih =>
    intro d
    simp only [List.cons_append, ApplyBackward]
    have e : ApplyBackward (l.append [x]) d = _ := ih d
    rw [e]
    cases x.Apply d with
    | none => simp
    | some r =>
      simp only [Option.some_bind]
      cases ApplyBackward l r.2 with
      | none => simp
      | some q =>
        simp only [Option.some_bind, Option.map_some']
        cases a.Apply q.2 <;> simp

/-- Adding a reversible operation to the current group keeps the group reversible. -/
theorem Add_Apply_recorded (doc0 : Document) (st st1 : Basis) (op : edit_op_c)
    (hrec : st.Recorded doc0) (h : st.Add_Apply op = some st1)
    (hrev : ∀ op1 doc1, op.Apply st.doc = some (op1, doc1) →
      op1.Apply doc1 = some (op, st.doc)) :
    st1.Recorded doc0 := by
  obtain ⟨grp, ops0, hg, hb, hf⟩ := hrec
  unfold Basis.Add_Apply at h
  rw [hg] at h
  simp only [Option.map_eq_some'] at h
  obtain ⟨r, hr, he⟩ := h
  subst he
  have hr1 : op.Apply st.doc = some (r.1, r.2) := hr
  have h2 := hrev r.1 r.2 hr1
  refine ⟨_, ops0 ++ [op], rfl, ?_, ?_⟩
  · show ApplyBackward (grp.ops ++ [r.1]) r.2 = _
    rw [ApplyBackward_snoc, h2]
    simp only [Option.some_bind, hb, Option.map_some']
  · show ApplyForward (ops0 ++ [op]) doc0 = some (grp.ops ++ [r.1], r.2)
    rw [ApplyForward_snoc, hf]
    simp only [Option.some_bind, hr, Option.map_some']

theorem Add_Apply_doc (st st1 : Basis) (op : edit_op_c) (h : st.Add_Apply op = some st1) :
    ∃ op1, op.Apply st.doc = some (op1, st1.doc) ∧ st1.undo_history = st.undo_history ∧
      st1.redo_future = st.redo_future ∧ ∃ grp, st.cur_group = some grp ∧
        st1.cur_group = some { grp with ops := grp.ops ++ [op1] } := by
  unfold Basis.Add_Apply at h
  rcases hg : st.cur_group with _ | grp
  · rw [hg] at h; exact absurd h (by simp)
  · rw [hg] at h
    simp only [Option.map_eq_some'] at h
    obtain ⟨r, hr, he⟩ := h
    subst he
    exact ⟨r.1, hr, rfl, rfl, grp, rfl, rfl⟩

theorem BA_Change_recorded (doc0 : Document) (st st1 : Basis) (t : ObjType) (n : Int)
    (f : Nat) (v : Int) (hrec : st.Recorded doc0) (h : BA_Change st t n f v = some st1) :
    st1.Recorded doc0 :=
  Add_Apply_recorded doc0 st st1 _ hrec h (fun op1 doc1 ha => Apply_change_rev _ op1 _ doc1 rfl ha)

theorem BA_New_recorded (doc0 : Document) (st : Basis) (t : ObjType) (r : Basis × Int)
    (hrec : st.Recorded doc0) (h : BA_New st t = some r) : r.1.Recorded doc0 := by
  unfold BA_New at h
  simp only [Option.map_eq_some'] at h
  obtain ⟨st1, h1, he⟩ := h
  subst he
  exact Add_Apply_recorded doc0 st st1 _ hrec h1
    (fun op1 doc1 ha => Apply_insert_rev _ op1 _ doc1 rfl ha)

end ajbsp

namespace ajbsp

/-! ## The loops of `BA_Delete` -/

theorem mem_drop_cases {α : Type} (d : α) (l : List α) (n : Nat) (a : α)
    (h : a ∈ l.drop n) : a = l.getD n d ∨ a ∈ l.drop (n + 1) := by
  by_cases hn : n < l.length
  · rw [List.drop_eq_getElem_cons hn, List.mem_cons] at h
    rw [List.getD_eq_getElem _ _ hn]
    exact h
  · rw [List.drop_eq_nil_of_le (by omega)] at h
    exact absurd h (List.not_mem_nil _)

theorem drop_succ_set {α : Type} (l : List α) (n : Nat) (x : α) :
    (l.set n x).drop (n + 1) = l.drop (n + 1) := by
  rw [List.drop_set, if_pos (by omega)]

theorem drop_eraseIdx_self {α : Type} :
    ∀ (l : List α) (n : Nat), (l.eraseIdx n).drop n = l.drop (n + 1) := by
  intro l
  induction l with
  | nil => intro n; simp
  | cons a l ih =>
    intro n
    cases n with
    | zero => simp
    | succ n => simp only [List.eraseIdx_cons_succ, List.drop_succ_cons]; exact ih n

theorem getD_set_self {α : Type} (l : List α) (n : Nat) (x d : α) (hn : n < l.length) :
    (l.set n x).getD n d = x := by
  rw [List.getD_eq_getElem _ _ (by simpa using hn)]
  exact List.getElem_set_self _

/-- What a successful `BA_ChangeLD` does to the document. -/
theorem BA_ChangeLD_doc (st st1 : Basis) (line : Int) (f : Nat) (v : Int)
    (h : BA_ChangeLD st line f v = some st1) :
    (0 ≤ line ∧ line < (st.doc.LineDefs.length : Int)) ∧
    st1.doc.LineDefs = st.doc.LineDefs.set line.toNat (LineDef.setField
        (st.doc.LineDefs.getD line.toNat LineDef.zero) f v) ∧
    st1.doc.Vertices = st.doc.Vertices ∧ st1.doc.SideDefs = st.doc.SideDefs ∧
    st1.doc.Sectors = st.doc.Sectors ∧ st1.doc.Things = st.doc.Things := by
  unfold BA_ChangeLD at h
  split_ifs at h with h1 h2
  obtain ⟨op1, ha, -⟩ := Add_Apply_doc st st1 _ h
  simp only [edit_op_c.Apply, RawChange, if_pos h1, Option.map_eq_some'] at ha
  obtain ⟨r, ⟨o, -, hr⟩, he⟩ := ha
  subst hr
  have hdoc := (Prod.mk.inj he).2
  simp only at hdoc
  rw [← hdoc]
  exact ⟨h1, rfl, rfl, rfl, rfl, rfl⟩

theorem BA_ChangeLD_recorded (doc0 : Document) (st st1 : Basis) (line : Int) (f : Nat)
    (v : Int) (hrec : st.Recorded doc0) (h : BA_ChangeLD st line f v = some st1) :
    st1.Recorded doc0 := by
  unfold BA_ChangeLD at h
  split_ifs at h with h1 h2
  exact BA_Change_recorded doc0 st st1 _ _ _ _ hrec h

/-- The unbinding loop of `BA_Delete`: an invariant that `BA_ChangeLD` keeps is kept, only
linedefs change, and afterwards no linedef has `objnum` as right or left. -/
theorem BA_DeleteUnbind_spec (I : Basis → Prop) (objnum : Int) (hne : objnum ≠ -1)
    (hI : ∀ (st : Basis) (m : Nat) (f : Nat) (st1 : Basis),
      (f = LineDef.F_RIGHT ∨ f = LineDef.F_LEFT) →
      BA_ChangeLD st m f (-1) = some st1 → I st → I st1) :
    ∀ (n : Nat) (st st1 : Basis), BA_DeleteUnbind objnum n st = some st1 → I st →
      (∀ L ∈ st.doc.LineDefs.drop n, L.right ≠ objnum ∧ L.left ≠ objnum) →
      I st1 ∧ (∀ L ∈ st1.doc.LineDefs, L.right ≠ objnum ∧ L.left ≠ objnum) ∧
      st1.doc.Vertices = st.doc.Vertices ∧ st1.doc.SideDefs = st.doc.SideDefs ∧
      st1.doc.Sectors = st.doc.Sectors ∧ st1.doc.Things = st.doc.Things ∧
      st1.doc.LineDefs.length = st.doc.LineDefs.length := by
  intro n
  induction n with
  | zero =>
    intro st st1 h hi hd
    have := Option.some.inj h
    subst this
    exact ⟨hi, by simpa using hd, rfl, rfl, rfl, rfl, rfl⟩
  | succ n ih =>
    intro st st1 h hi hd
    simp only [BA_DeleteUnbind, Option.bind_eq_some] at h
    obtain ⟨sa, ha, sb, hb, hrest⟩ := h
    -- the first change
    have fa : I sa ∧ sa.doc.Vertices = st.doc.Vertices ∧ sa.doc.SideDefs = st.doc.SideDefs ∧
        sa.doc.Sectors = st.doc.Sectors ∧ sa.doc.Things = st.doc.Things ∧
        sa.doc.LineDefs.length = st.doc.LineDefs.length ∧
        sa.doc.LineDefs.drop (n + 1) = st.doc.LineDefs.drop (n + 1) ∧
        (sa.doc.LineDefs.getD n LineDef.zero).right ≠ objnum ∧
        (sa.doc.LineDefs.getD n LineDef.zero).left =
          (st.doc.LineDefs.getD n LineDef.zero).left := by
      split_ifs at ha with hc
      · obtain ⟨hv, hl, e1, e2, e3, e4⟩ := BA_ChangeLD_doc _ _ _ _ _ ha
        have hn : n < st.doc.LineDefs.length := by omega
        rw [Int.toNat_ofNat] at hl
        rw [hl]
        refine ⟨hI _ _ _ _ (Or.inl rfl) ha hi, e1, e2, e3, e4, List.length_set _ _ _,
          drop_succ_set _ _ _, ?_, ?_⟩
        · rw [getD_set_self _ _ _ _ hn]
          exact fun e => hne e.symm
        · rw [getD_set_self _ _ _ _ hn]
          rfl
      · have := Option.some.inj ha
        subst this
        exact ⟨hi, rfl, rfl, rfl, rfl, rfl, rfl, hc, rfl⟩
    -- the second change
    have fb : I sb ∧ sb.doc.Vertices = sa.doc.Vertices ∧ sb.doc.SideDefs = sa.doc.SideDefs ∧
        sb.doc.Sectors = sa.doc.Sectors ∧ sb.doc.Things = sa.doc.Things ∧
        sb.doc.LineDefs.length = sa.doc.LineDefs.length ∧
        sb.doc.LineDefs.drop (n + 1) = sa.doc.LineDefs.drop (n + 1) ∧
        (sb.doc.LineDefs.getD n LineDef.zero).left ≠ objnum ∧
        (sb.doc.LineDefs.getD n LineDef.zero).right =
          (sa.doc.LineDefs.getD n LineDef.zero).right := by
      split_ifs at hb with hc
      · obtain ⟨hv, hl, e1, e2, e3, e4⟩ := BA_ChangeLD_doc _ _ _ _ _ hb
        have hn : n < sa.doc.LineDefs.length := by omega
        rw [Int.toNat_ofNat] at hl
        rw [hl]
        refine ⟨hI _ _ _ _ (Or.inr rfl) hb fa.1, e1, e2, e3, e4, List.length_set _ _ _,
          drop_succ_set _ _ _, ?_, ?_⟩
        · rw [getD_set_self _ _ _ _ hn]
          exact fun e => hne e.symm
        · rw [getD_set_self _ _ _ _ hn]
          rfl
      · have := Option.some.inj hb
        subst this
        exact ⟨fa.1, rfl, rfl, rfl, rfl, rfl, rfl, hc, rfl⟩
    obtain ⟨ia, va, sda, sca, tha, lena, dra, ra, la⟩ := fa
    obtain ⟨ib, vb, sdb, scb, thb, lenb, drb, lb, rb⟩ := fb
    have hd2 : ∀ L ∈ sb.doc.LineDefs.drop n, L.right ≠ objnum ∧ L.left ≠ objnum := by
      intro L hL
      rcases mem_drop_cases LineDef.zero _ _ _ hL with e | hm
      · subst e
        exact ⟨by rw [rb]; exact ra, lb⟩
      · rw [drb, dra] at hm
        exact hd L hm
    obtain ⟨i1, h1, v1, sd1, sc1, th1, len1⟩ := ih sb st1 hrest ib hd2
    exact ⟨i1, h1, by rw [v1, vb, va], by rw [sd1, sdb, sda], by rw [sc1, scb, sca],
      by rw [th1, thb, tha], by rw [len1, lenb, lena]⟩

end ajbsp

namespace ajbsp

/-- The loop of `BA_Delete` over the linedefs of a vertex: an invariant that the recursive
call keeps is kept, and afterwards no linedef has `objnum` as start or end. -/
theorem BA_DeleteLines_spec (I : Basis → Prop)
    (del : Basis → ObjType → Int → Option Basis) (objnum : Int)
    (hdel : ∀ (st : Basis) (m : Nat) (st1 : Basis),
      del st ObjType.linedefs m = some st1 → I st →
      I st1 ∧ st1.doc.LineDefs = st.doc.LineDefs.eraseIdx m) :
    ∀ (n : Nat) (st st1 : Basis), BA_DeleteLines del objnum n st = some st1 → I st →
      (∀ L ∈ st.doc.LineDefs.drop n, L.start ≠ objnum ∧ L.end_ ≠ objnum) →
      I st1 ∧ (∀ L ∈ st1.doc.LineDefs, L.start ≠ objnum ∧ L.end_ ≠ objnum) := by
  intro n
  induction n with
  | zero =>
    intro st st1 h hi hd
    have := Option.some.inj h
    subst this
    exact ⟨hi, by simpa using hd⟩
  | succ n ih =>
    intro st st1 h hi hd
    simp only [BA_DeleteLines, Option.bind_eq_some] at h
    obtain ⟨sa, ha, hrest⟩ := h
    split_ifs at ha with hc
    · obtain ⟨ia, la⟩ := hdel st n sa ha hi
      refine ih sa st1 hrest ia ?_
      rw [la, drop_eraseIdx_self]
      exact hd
    · have := Option.some.inj ha
      subst this
      refine ih _ st1 hrest hi ?_
      intro L hL
      rcases mem_drop_cases LineDef.zero _ _ _ hL with e | hm
      · subst e
        exact ⟨fun e => hc (Or.inl e), fun e => hc (Or.inr e)⟩
      · exact hd L hm

/-- The loop of `BA_Delete` over the sidedefs of a sector: an invariant that the recursive
call keeps is kept, and afterwards no sidedef has `objnum` as sector. -/
theorem BA_DeleteSides_spec (I : Basis → Prop)
    (del : Basis → ObjType → Int → Option Basis) (objnum : Int)
    (hdel : ∀ (st : Basis) (m : Nat) (st1 : Basis),
      del st ObjType.sidedefs m = some st1 → I st →
      I st1 ∧ st1.doc.SideDefs = st.doc.SideDefs.eraseIdx m) :
    ∀ (n : Nat) (st st1 : Basis), BA_DeleteSides del objnum n st = some st1 → I st →
      (∀ S ∈ st.doc.SideDefs.drop n, S.sector ≠ objnum) →
      I st1 ∧ (∀ S ∈ st1.doc.SideDefs, S.sector ≠ objnum) := by
  intro n
  induction n with
  | zero =>
    intro st st1 h hi hd
    have := Option.some.inj h
    subst this
    exact ⟨hi, by simpa using hd⟩
  | succ n ih =>
    intro st st1 h hi hd
    simp only [BA_DeleteSides, Option.bind_eq_some] at h
    obtain ⟨sa, ha, hrest⟩ := h
    split_ifs at ha with hc
    · obtain ⟨ia, la⟩ := hdel st n sa ha hi
      refine ih sa st1 hrest ia ?_
      rw [la, drop_eraseIdx_self]
      exact hd
    · have := Option.some.inj ha
      subst this
      refine ih _ st1 hrest hi ?_
      intro S hS
      rcases mem_drop_cases SideDef.zero _ _ _ hS with e | hm
      · subst e
        exact hc
      · exact hd S hm

/-- What the final operation of `BA_Delete` does to the document. -/
theorem Add_Apply_delete_doc (st st1 : Basis) (t : ObjType) (n : Int)
    (h : st.Add_Apply { action := OpAction.OP_DELETE, objtype := t, field := 0,
                        objnum := n, ptr := none, value := 0 } = some st1) :
    ∃ p, RawDelete st.doc t n = some (st1.doc, p) := by
  obtain ⟨op1, ha, -⟩ := Add_Apply_doc st st1 _ h
  simp only [edit_op_c.Apply, Option.map_eq_some'] at ha
  obtain ⟨r, hr, he⟩ := ha
  refine ⟨r.2, ?_⟩
  rw [hr, ← (Prod.mk.inj he).2]

theorem RawDelete_linedefs_doc (doc d : Document) (n : Int) (p : Obj)
    (h : RawDelete doc ObjType.linedefs n = some (d, p)) :
    d.LineDefs = doc.LineDefs.eraseIdx n.toNat ∧ d.Vertices = doc.Vertices ∧
    d.SideDefs = doc.SideDefs ∧ d.Sectors = doc.Sectors ∧ d.Things = doc.Things := by
  simp only [RawDelete, RawDeleteLineDef, Option.map_eq_some'] at h
  obtain ⟨r, hr, he⟩ := h
  split_ifs at hr with hn
  have := Option.some.inj hr
  subst this
  rw [← (Prod.mk.inj he).1]
  exact ⟨rfl, rfl, rfl, rfl, rfl⟩

theorem RawDelete_sidedefs_doc (doc d : Document) (n : Int) (p : Obj)
    (h : RawDelete doc ObjType.sidedefs n = some (d, p)) :
    d.SideDefs = doc.SideDefs.eraseIdx n.toNat ∧ d.Vertices = doc.Vertices ∧
    d.Sectors = doc.Sectors ∧ d.Things = doc.Things := by
  simp only [RawDelete, RawDeleteSideDef, Option.map_eq_some'] at h
  obtain ⟨r, hr, he⟩ := h
  split_ifs at hr with hn hlast <;>
  · have := Option.some.inj hr
    subst this
    rw [← (Prod.mk.inj he).1]
    exact ⟨rfl, rfl, rfl, rfl⟩

/-- The invariant lemma of `BA_Delete`: a property of the basis that is kept by unbinding a
linedef side and by the raw deletion of an unreferenced object is kept by `BA_Delete`;
for a linedef or a sidedef, the object array loses entry `objnum`. -/
theorem BA_Delete_inv (I : Basis → Prop)
    (hC : ∀ (st : Basis) (m : Nat) (f : Nat) (st1 : Basis),
      (f = LineDef.F_RIGHT ∨ f = LineDef.F_LEFT) →
      BA_ChangeLD st m f (-1) = some st1 → I st → I st1)
    (hD : ∀ (st : Basis) (t : ObjType) (n : Int) (st1 : Basis),
      st.doc.Unreferenced t n →
      st.Add_Apply { action := OpAction.OP_DELETE, objtype := t, field := 0,
                     objnum := n, ptr := none, value := 0 } = some st1 → I st → I st1) :
    ∀ (fuel : Nat) (st : Basis) (t : ObjType) (n : Int) (st1 : Basis),
      BA_Delete fuel st t n = some st1 → I st →
      I st1 ∧ (t = ObjType.linedefs → st1.doc.LineDefs = st.doc.LineDefs.eraseIdx n.toNat) ∧
        (t = ObjType.sidedefs → st1.doc.SideDefs = st.doc.SideDefs.eraseIdx n.toNat) := by
  intro fuel
  induction fuel with
  | zero => intro st t n st1 h; exact absurd h (by simp [BA_Delete])
  | succ fuel ih =>
    intro st t n st1 h hi
    simp only [BA_Delete] at h
    split_ifs at h with hg
    simp only [Option.bind_eq_some] at h
    obtain ⟨sa, ha, hfin⟩ := h
    obtain ⟨p, hp⟩ := Add_Apply_delete_doc sa st1 t n hfin
    have hv := RawDelete_valid _ _ _ _ _ hp
    cases t with
    | things =>
      have := Option.some.inj ha
      subst this
      exact ⟨hD st ObjType.things n st1 trivial hfin hi, fun e => absurd e (by decide),
        fun e => absurd e (by decide)⟩
    | linedefs =>
      have := Option.some.inj ha
      subst this
      exact ⟨hD st ObjType.linedefs n st1 trivial hfin hi, fun _ => (RawDelete_linedefs_doc _ _ _ _ hp).1,
        fun e => absurd e (by decide)⟩
    | sidedefs =>
      simp only at ha
      obtain ⟨ia, hfree, -, sda, -⟩ := BA_DeleteUnbind_spec I n (by omega) hC _ st sa ha hi
        (by rw [List.drop_length]; intro L hL; exact absurd hL (List.not_mem_nil _))
      refine ⟨hD sa ObjType.sidedefs n st1 hfree hfin ia, fun e => absurd e (by decide),
        fun _ => ?_⟩
      rw [(RawDelete_sidedefs_doc _ _ _ _ hp).1, sda]
    | vertices =>
      simp only at ha
      obtain ⟨ia, hfree⟩ := BA_DeleteLines_spec I (BA_Delete fuel) n
        (fun s m s1 hs his => by
          obtain ⟨i1, l1, -⟩ := ih s ObjType.linedefs m s1 hs his
          have := l1 rfl
          rw [Int.toNat_ofNat] at this
          exact ⟨i1, this⟩) _ st sa ha hi
        (by rw [List.drop_length]; intro L hL; exact absurd hL (List.not_mem_nil _))
      exact ⟨hD sa ObjType.vertices n st1 hfree hfin ia, fun e => absurd e (by decide),
        fun e => absurd e (by decide)⟩
    | sectors =>
      simp only at ha
      obtain ⟨ia, hfree⟩ := BA_DeleteSides_spec I (BA_Delete fuel) n
        (fun s m s1 hs his => by
          obtain ⟨i1, -, l1⟩ := ih s ObjType.sidedefs m s1 hs his
          have := l1 rfl
          rw [Int.toNat_ofNat] at this
          exact ⟨i1, this⟩) _ st sa ha hi
        (by rw [List.drop_length]; intro S hS; exact absurd hS (List.not_mem_nil _))
      exact ⟨hD sa ObjType.sectors n st1 hfree hfin ia, fun e => absurd e (by decide),
        fun e => absurd e (by decide)⟩

end ajbsp

namespace ajbsp

/-! ## Undo and redo of a group -/

theorem BA_Delete_recorded (doc0 : Document) (fuel : Nat) (st : Basis) (t : ObjType)
    (n : Int) (st1 : Basis) (h : BA_Delete fuel st t n = some st1) (hrec : st.Recorded doc0) :
    st1.Recorded doc0 :=
  (BA_Delete_inv (fun s => s.Recorded doc0)
    (fun s m f s1 _ hs hr => BA_ChangeLD_recorded doc0 s s1 m f (-1) hr hs)
    (fun s t1 n1 s1 hfree hs hr => Add_Apply_recorded doc0 s s1 _ hr hs
      (fun op1 doc1 ha => Apply_delete_rev _ op1 _ doc1 rfl rfl hfree ha))
    fuel st t n st1 h hrec).1

theorem runAll_recorded (doc0 : Document) (fuel : Nat) :
    ∀ (calls : List BA_Call) (st st1 : Basis), BA_Call.runAll fuel calls st = some st1 →
      st.Recorded doc0 → st1.Recorded doc0 := by
  intro calls
  induction calls with
  | nil =>
    intro st st1 h hr
    have := Option.some.inj h
    subst this
    exact hr
  | cons c cs ih =>
    intro st st1 h hr
    simp only [BA_Call.runAll, Option.bind_eq_some] at h
    obtain ⟨sa, ha, hrest⟩ := h
    refine ih sa st1 hrest ?_
    cases c with
    | new t =>
      simp only [BA_Call.run, Option.map_eq_some'] at ha
      obtain ⟨r, hr1, he⟩ := ha
      subst he
      exact BA_New_recorded doc0 st t r hr hr1
    | delete t n => exact BA_Delete_recorded doc0 fuel st t n sa ha hr
    | change t n f v => exact BA_Change_recorded doc0 st sa t n f v hr ha

theorem BA_Begin_recorded (st0 st1 : Basis) (h : BA_Begin st0 = some st1) :
    st1.Recorded st0.doc ∧ st1.undo_history = st0.undo_history := by
  unfold BA_Begin at h
  rcases hg : st0.cur_group with _ | g
  · rw [hg] at h
    have := Option.some.inj h
    subst this
    exact ⟨⟨_, [], rfl, rfl, rfl⟩, rfl⟩
  · rw [hg] at h; exact absurd h (by simp)

/-- The group that `BA_End` files undoes to the document at `BA_Begin` and redoes to the
state at `BA_End`. -/
theorem BA_End_Undo_Redo (doc0 : Document) (st2 st3 : Basis) (hrec : st2.Recorded doc0)
    (hE : BA_End st2 = some st3)
    (hops : ∃ grp, st2.cur_group = some grp ∧ grp.ops ≠ []) :
    ∃ st4, BA_Undo st3 = some (true, st4) ∧ st4.doc = doc0 ∧
      BA_Redo st4 = some (true, st3) := by
  obtain ⟨grp, ops0, hg, hb, hf⟩ := hrec
  obtain ⟨grp1, hg1, hne⟩ := hops
  rw [hg] at hg1
  have := Option.some.inj hg1
  subst this
  unfold BA_End at hE
  rw [hg] at hE
  have hemp : grp.ops.isEmpty = false := by
    cases hgo : grp.ops with
    | nil => exact absurd hgo hne
    | cons a l => rfl
  simp only [hemp] at hE
  have h3 := Option.some.inj hE
  simp only [Bool.false_eq_true, if_false] at h3
  subst h3
  have hun : BA_Undo { st2 with undo_history := { grp with dir := -1 } :: st2.undo_history,
                                cur_group := none } =
      some (true, { doc := doc0, cur_group := none, undo_history := st2.undo_history,
                    redo_future := { ops := ops0, dir := 1 } :: st2.redo_future }) := by
    simp only [BA_Undo, undo_group_c.ReApply]
    rw [if_neg (by decide), hb]
    rfl
  refine ⟨_, hun, rfl, ?_⟩
  simp only [BA_Redo, undo_group_c.ReApply]
  rw [if_pos (by decide), hf]
  rfl

end ajbsp

namespace ajbsp

/-- C34: undo restores the document.  For every sequence of `BA_New` / `BA_Delete` /
`BA_Change` calls that runs between `BA_Begin` and `BA_End` and records at least one
operation, the following `BA_Undo` returns true and leaves the document (the five object
arrays with every field of every object) as it was at `BA_Begin`, and a `BA_Redo` right
after it returns true and restores exactly the state at `BA_End`. -/
theorem BA_Undo_restores_document (fuel : Nat) (calls : List BA_Call)
    (st0 st1 st2 st3 : Basis)
    (hB : BA_Begin st0 = some st1)
    (hR : BA_Call.runAll fuel calls st1 = some st2)
    (hE : BA_End st2 = some st3)
    (hops : ∃ grp, st2.cur_group = some grp ∧ grp.ops ≠ []) :
    ∃ st4, BA_Undo st3 = some (true, st4) ∧ st4.doc = st0.doc ∧
      BA_Redo st4 = some (true, st3) :=
  BA_End_Undo_Redo st0.doc st2 st3
    (runAll_recorded st0.doc fuel calls st1 st2 hR (BA_Begin_recorded st0 st1 hB).1) hE hops

/-- The demo group (a new vertex, a change, the deletion of a sector with its sidedefs and
of a vertex with its linedef) changes the document, and undo and redo restore it. -/
theorem BA_Undo_restores_document_witness :
    BA_Begin demoBasis0 = some demoBasis1 ∧
    BA_Call.runAll 3 demoCalls demoBasis1 = some demoBasis2 ∧
    BA_End demoBasis2 = some demoBasis3 ∧
    demoBasis3.doc ≠ demoBasis0.doc ∧
    ∃ st4, BA_Undo demoBasis3 = some (true, st4) ∧ st4.doc = demoBasis0.doc ∧
      BA_Redo st4 = some (true, demoBasis3) :=
  ⟨Option_eq_some_getD _ (by decide), Option_eq_some_getD _ (by decide),
    Option_eq_some_getD _ (by decide), by decide,
    BA_Undo_restores_document 3 demoCalls demoBasis0 demoBasis1 demoBasis2 demoBasis3
      (Option_eq_some_getD _ (by decide)) (Option_eq_some_getD _ (by decide))
      (Option_eq_some_getD _ (by decide))
      ⟨demoBasis2.cur_group.getD { ops := [], dir := 0 },
        Option_eq_some_getD _ (by decide), by decide⟩⟩

end ajbsp

namespace ajbsp

/-! ## `BA_Delete` keeps the references valid -/

theorem refDown_valid (n r len : Int) (hn : 0 ≤ n ∧ n < len) (hr : 0 ≤ r ∧ r < len)
    (hne : r ≠ n) : 0 ≤ refDown n r ∧ refDown n r < len - 1 := by
  unfold refDown
  split_ifs <;> omega

theorem refDown_valid_opt (n r len : Int) (hn : 0 ≤ n ∧ n < len)
    (hr : r = -1 ∨ (0 ≤ r ∧ r < len)) (hne : r ≠ n) :
    refDown n r = -1 ∨ (0 ≤ refDown n r ∧ refDown n r < len - 1) := by
  unfold refDown
  split_ifs <;> omega

theorem length_eraseIdx_int {α : Type} (l : List α) (n : Int)
    (hn : 0 ≤ n ∧ n < (l.length : Int)) :
    ((l.eraseIdx n.toNat).length : Int) = l.length - 1 := by
  rw [List.length_eraseIdx, if_pos (by omega)]; omega

theorem mem_eraseIdx {α : Type} (l : List α) (n : Nat) (a : α) (h : a ∈ l.eraseIdx n) :
    a ∈ l :=
  (List.eraseIdx_sublist l n).subset h

/-- The raw deletion of an unreferenced object keeps the references valid. -/
theorem RawDelete_valid_refs (doc d : Document) (t : ObjType) (n : Int) (p : Obj)
    (hfree : doc.Unreferenced t n) (h : RawDelete doc t n = some (d, p))
    (hv : doc.RefsValid) : d.RefsValid := by
  have hn := RawDelete_valid doc d t n p h
  obtain ⟨hL, hS⟩ := hv
  cases t with
  | things =>
    simp only [RawDelete, RawDeleteThing, Option.map_eq_some'] at h
    obtain ⟨r, hr, he⟩ := h
    split_ifs at hr
    have := Option.some.inj hr
    subst this
    rw [← (Prod.mk.inj he).1]
    exact ⟨hL, hS⟩
  | linedefs =>
    simp only [RawDelete, RawDeleteLineDef, Option.map_eq_some'] at h
    obtain ⟨r, hr, he⟩ := h
    split_ifs at hr
    have := Option.some.inj hr
    subst this
    rw [← (Prod.mk.inj he).1]
    exact ⟨fun L hm => hL L (mem_eraseIdx _ _ _ hm), hS⟩
  | sidedefs =>
    simp only [Document.NumObjects] at hn
    have hlen := length_eraseIdx_int doc.SideDefs n hn
    simp only [RawDelete, RawDeleteSideDef, Option.map_eq_some'] at h
    obtain ⟨r, hr, he⟩ := h
    split_ifs at hr with hlast
    · have := Option.some.inj hr
      subst this
      rw [← (Prod.mk.inj he).1]
      refine ⟨?_, fun S hm => hS S (mem_eraseIdx _ _ _ hm)⟩
      intro L hm
      simp only [List.mem_map] at hm
      obtain ⟨L0, hm0, rfl⟩ := hm
      obtain ⟨a, b, c, e⟩ := hL L0 hm0
      have f := hfree L0 hm0
      simp only [hlen]
      exact ⟨a, b, refDown_valid_opt _ _ _ hn c f.1, refDown_valid_opt _ _ _ hn e f.2⟩
    · have := Option.some.inj hr
      subst this
      rw [← (Prod.mk.inj he).1]
      refine ⟨?_, fun S hm => hS S (mem_eraseIdx _ _ _ hm)⟩
      intro L hm
      obtain ⟨a, b, c, e⟩ := hL L hm
      have f := hfree L hm
      simp only [hlen]
      rw [hlen] at hlast
      exact ⟨a, b, by omega, by omega⟩
  | vertices =>
    simp only [Document.NumObjects] at hn
    have hlen := length_eraseIdx_int doc.Vertices n hn
    simp only [RawDelete, RawDeleteVertex, Option.map_eq_some'] at h
    obtain ⟨r, hr, he⟩ := h
    split_ifs at hr with hlast
    · have := Option.some.inj hr
      subst this
      rw [← (Prod.mk.inj he).1]
      refine ⟨?_, hS⟩
      intro L hm
      simp only [List.mem_map] at hm
      obtain ⟨L0, hm0, rfl⟩ := hm
      obtain ⟨a, b, c, e⟩ := hL L0 hm0
      have f := hfree L0 hm0
      simp only [hlen]
      exact ⟨refDown_valid _ _ _ hn a f.1, refDown_valid _ _ _ hn b f.2, c, e⟩
    · have := Option.some.inj hr
      subst this
      rw [← (Prod.mk.inj he).1]
      refine ⟨?_, hS⟩
      intro L hm
      obtain ⟨a, b, c, e⟩ := hL L hm
      have f := hfree L hm
      simp only [hlen]
      rw [hlen] at hlast
      exact ⟨by omega, by omega, c, e⟩
  | sectors =>
    simp only [Document.NumObjects] at hn
    have hlen := length_eraseIdx_int doc.Sectors n hn
    simp only [RawDelete, RawDeleteSector, Option.map_eq_some'] at h
    obtain ⟨r, hr, he⟩ := h
    split_ifs at hr with hlast
    · have := Option.some.inj hr
      subst this
      rw [← (Prod.mk.inj he).1]
      refine ⟨fun L hm => ?_, ?_⟩
      · have := hL L hm
        simpa only [List.length_map] using this
      · intro S hm
        simp only [List.mem_map] at hm
        obtain ⟨S0, hm0, rfl⟩ := hm
        have a := hS S0 hm0
        have f := hfree S0 hm0
        simp only [hlen]
        exact refDown_valid _ _ _ hn a f
    · have := Option.some.inj hr
      subst this
      rw [← (Prod.mk.inj he).1]
      refine ⟨fun L hm => hL L hm, ?_⟩
      intro S hm
      have a := hS S hm
      have f := hfree S hm
      simp only [hlen]
      rw [hlen] at hlast
      omega

end ajbsp

namespace ajbsp

theorem LineDef_setField_side (L : LineDef) (f : Nat)
    (hf : f = LineDef.F_RIGHT ∨ f = LineDef.F_LEFT) :
    (L.setField f (-1)).start = L.start ∧ (L.setField f (-1)).end_ = L.end_ ∧
    ((L.setField f (-1)).right = -1 ∨ (L.setField f (-1)).right = L.right) ∧
    ((L.setField f (-1)).left = -1 ∨ (L.setField f (-1)).left = L.left) := by
  rcases hf with rfl | rfl
  · exact ⟨rfl, rfl, Or.inl rfl, Or.inr rfl⟩
  · exact ⟨rfl, rfl, Or.inr rfl, Or.inl rfl⟩

/-- Unbinding a side of a linedef keeps the references valid. -/
theorem BA_ChangeLD_valid_refs (st st1 : Basis) (m : Nat) (f : Nat)
    (hf : f = LineDef.F_RIGHT ∨ f = LineDef.F_LEFT)
    (h : BA_ChangeLD st m f (-1) = some st1) (hv : st.doc.RefsValid) :
    st1.doc.RefsValid := by
  obtain ⟨hm, hl, e1, e2, e3, e4⟩ := BA_ChangeLD_doc _ _ _ _ _ h
  rw [Int.toNat_ofNat] at hl
  have hlt : m < st.doc.LineDefs.length := by omega
  obtain ⟨hL, hS⟩ := hv
  refine ⟨?_, ?_⟩
  · intro L hL1
    rw [hl] at hL1
    rw [e1, e2]
    rcases List.mem_or_eq_of_mem_set hL1 with hin | rfl
    · exact hL L hin
    · have hmem : st.doc.LineDefs.getD m LineDef.zero ∈ st.doc.LineDefs := by
        rw [List.getD_eq_getElem _ _ hlt]
        exact List.getElem_mem _
      obtain ⟨a, b, c, e⟩ := hL _ hmem
      obtain ⟨s1, s2, s3, s4⟩ := LineDef_setField_side (st.doc.LineDefs.getD m LineDef.zero) f hf
      rw [s1, s2]
      refine ⟨a, b, ?_, ?_⟩
      · rcases s3 with s | s
        · exact Or.inl s
        · rw [s]; exact c
      · rcases s4 with s | s
        · exact Or.inl s
        · rw [s]; exact e
  · intro S hS1
    rw [e2] at hS1
    rw [e3]
    exact hS S hS1

/-- `BA_Delete` keeps the references valid, whenever it returns. -/
theorem BA_Delete_valid_refs (fuel : Nat) (st : Basis) (t : ObjType) (n : Int) (st1 : Basis)
    (h : BA_Delete fuel st t n = some st1) (hv : st.doc.RefsValid) : st1.doc.RefsValid :=
  (BA_Delete_inv (fun s => s.doc.RefsValid)
    (fun s m f s1 hf hs hr => BA_ChangeLD_valid_refs s s1 m f hf hs hr)
    (fun s t1 n1 s1 hfree hs hr => by
      obtain ⟨p, hp⟩ := Add_Apply_delete_doc s s1 t1 n1 hs
      exact RawDelete_valid_refs _ _ _ _ _ hfree hp hr)
    fuel st t n st1 h hv).1

/-! ### `BA_Delete` returns -/

theorem RawDelete_total (doc : Document) (t : ObjType) (n : Int)
    (hv : 0 ≤ n ∧ n < doc.NumObjects t) : ∃ r, RawDelete doc t n = some r := by
  cases t <;> simp only [Document.NumObjects] at hv <;>
    simp only [RawDelete, RawDeleteThing, RawDeleteLineDef, RawDeleteSideDef, RawDeleteVertex,
      RawDeleteSector, if_pos hv, Option.map_some'] <;> exact ⟨_, rfl⟩

theorem Add_Apply_delete_total (st : Basis) (t : ObjType) (n : Int)
    (hg : st.cur_group.isSome = true) (hv : 0 ≤ n ∧ n < st.doc.NumObjects t) :
    ∃ st1, st.Add_Apply { action := OpAction.OP_DELETE, objtype := t, field := 0,
                          objnum := n, ptr := none, value := 0 } = some st1 := by
  obtain ⟨r, hr⟩ := RawDelete_total st.doc t n hv
  rcases hc : st.cur_group with _ | grp
  · rw [hc] at hg; exact absurd hg (by simp)
  · simp only [Basis.Add_Apply, hc, edit_op_c.Apply, hr, Option.map_some']
    exact ⟨_, rfl⟩

theorem Add_Apply_group (st st1 : Basis) (op : edit_op_c) (h : st.Add_Apply op = some st1) :
    st1.cur_group.isSome = true := by
  obtain ⟨op1, -, -, -, grp, -, hg⟩ := Add_Apply_doc st st1 op h
  rw [hg]; rfl

theorem BA_ChangeLD_total (st : Basis) (m : Nat) (f : Nat) (v : Int)
    (hg : st.cur_group.isSome = true) (hm : m < st.doc.LineDefs.length)
    (hf : f = LineDef.F_RIGHT ∨ f = LineDef.F_LEFT) :
    ∃ st1, BA_ChangeLD st m f v = some st1 := by
  rcases hc : st.cur_group with _ | grp
  · rw [hc] at hg; exact absurd hg (by simp)
  · have hv : (m : Int) ≥ 0 ∧ (m : Int) < (st.doc.LineDefs.length : Int) := by omega
    rcases hf with rfl | rfl
    · simp only [BA_ChangeLD, BA_Change, Basis.Add_Apply, hc, edit_op_c.Apply, RawChange]
      rw [if_neg (not_not.mpr hv), if_neg (by decide), if_pos hv]
      exact ⟨_, rfl⟩
    · simp only [BA_ChangeLD, BA_Change, Basis.Add_Apply, hc, edit_op_c.Apply, RawChange]
      rw [if_neg (not_not.mpr hv), if_neg (by decide), if_pos hv]
      exact ⟨_, rfl⟩

theorem BA_ChangeLD_group (st st1 : Basis) (line : Int) (f : Nat) (v : Int)
    (h : BA_ChangeLD st line f v = some st1) : st1.cur_group.isSome = true := by
  unfold BA_ChangeLD at h
  split_ifs at h
  exact Add_Apply_group _ _ _ h

end ajbsp

namespace ajbsp

theorem BA_DeleteUnbind_total (objnum : Int) :
    ∀ (n : Nat) (st : Basis), st.cur_group.isSome = true → n ≤ st.doc.LineDefs.length →
      ∃ st1, BA_DeleteUnbind objnum n st = some st1 := by
  intro n
  induction n with
  | zero => intro st _ _; exact ⟨st, rfl⟩
  | succ n ih =>
    intro st hg hn
    have hlt : n < st.doc.LineDefs.length := by omega
    -- the first change
    have fa : ∃ sa, (if (st.doc.LineDefs.getD n LineDef.zero).right = objnum then
          BA_ChangeLD st n LineDef.F_RIGHT (-1) else some st) = some sa ∧
        sa.cur_group.isSome = true ∧ sa.doc.LineDefs.length = st.doc.LineDefs.length := by
      split_ifs with hc
      · obtain ⟨sa, ha⟩ := BA_ChangeLD_total st n LineDef.F_RIGHT (-1) hg hlt (Or.inl rfl)
        refine ⟨sa, ha, BA_ChangeLD_group _ _ _ _ _ ha, ?_⟩
        rw [(BA_ChangeLD_doc _ _ _ _ _ ha).2.1, List.length_set]
      · exact ⟨st, rfl, hg, rfl⟩
    obtain ⟨sa, ha, ga, la⟩ := fa
    have fb : ∃ sb, (if (sa.doc.LineDefs.getD n LineDef.zero).left = objnum then
          BA_ChangeLD sa n LineDef.F_LEFT (-1) else some sa) = some sb ∧
        sb.cur_group.isSome = true ∧ sb.doc.LineDefs.length = sa.doc.LineDefs.length := by
      split_ifs with hc
      · obtain ⟨sb, hb⟩ := BA_ChangeLD_total sa n LineDef.F_LEFT (-1) ga (by omega)
          (Or.inr rfl)
        refine ⟨sb, hb, BA_ChangeLD_group _ _ _ _ _ hb, ?_⟩
        rw [(BA_ChangeLD_doc _ _ _ _ _ hb).2.1, List.length_set]
      · exact ⟨sa, rfl, ga, rfl⟩
    obtain ⟨sb, hb, gb, lb⟩ := fb
    obtain ⟨st1, h1⟩ := ih sb gb (by omega)
    refine ⟨st1, ?_⟩
    simp only [BA_DeleteUnbind]
    rw [ha, Option.some_bind, hb, Option.some_bind, h1]

theorem BA_DeleteLines_total (del : Basis → ObjType → Int → Option Basis) (objnum : Int)
    (hdel : ∀ (st : Basis) (m : Nat), st.cur_group.isSome = true →
      m < st.doc.LineDefs.length →
      ∃ st1, del st ObjType.linedefs m = some st1 ∧ st1.cur_group.isSome = true ∧
        st1.doc.LineDefs = st.doc.LineDefs.eraseIdx m ∧
        st1.doc.Vertices = st.doc.Vertices) :
    ∀ (n : Nat) (st : Basis), st.cur_group.isSome = true → n ≤ st.doc.LineDefs.length →
      ∃ st1, BA_DeleteLines del objnum n st = some st1 ∧ st1.cur_group.isSome = true ∧
        st1.doc.Vertices = st.doc.Vertices := by
  intro n
  induction n with
  | zero => intro st hg _; exact ⟨st, rfl, hg, rfl⟩
  | succ n ih =>
    intro st hg hn
    have hlt : n < st.doc.LineDefs.length := by omega
    simp only [BA_DeleteLines]
    split_ifs with hc
    · obtain ⟨sa, ha, ga, la, va⟩ := hdel st n hg hlt
      obtain ⟨st1, h1, g1, v1⟩ := ih sa ga (by
        rw [la, List.length_eraseIdx, if_pos hlt]; omega)
      exact ⟨st1, by rw [ha, Option.some_bind, h1], g1, by rw [v1, va]⟩
    · obtain ⟨st1, h1, g1, v1⟩ := ih st hg (by omega)
      exact ⟨st1, by rw [Option.some_bind, h1], g1, v1⟩

theorem BA_DeleteSides_total (del : Basis → ObjType → Int → Option Basis) (objnum : Int)
    (hdel : ∀ (st : Basis) (m : Nat), st.cur_group.isSome = true →
      m < st.doc.SideDefs.length →
      ∃ st1, del st ObjType.sidedefs m = some st1 ∧ st1.cur_group.isSome = true ∧
        st1.doc.SideDefs = st.doc.SideDefs.eraseIdx m ∧
        st1.doc.Sectors = st.doc.Sectors) :
    ∀ (n : Nat) (st : Basis), st.cur_group.isSome = true → n ≤ st.doc.SideDefs.length →
      ∃ st1, BA_DeleteSides del objnum n st = some st1 ∧ st1.cur_group.isSome = true ∧
        st1.doc.Sectors = st.doc.Sectors := by
  intro n
  induction n with
  | zero => intro st hg _; exact ⟨st, rfl, hg, rfl⟩
  | succ n ih =>
    intro st hg hn
    have hlt : n < st.doc.SideDefs.length := by omega
    simp only [BA_DeleteSides]
    split_ifs with hc
    · obtain ⟨sa, ha, ga, la, va⟩ := hdel st n hg hlt
      obtain ⟨st1, h1, g1, v1⟩ := ih sa ga (by
        rw [la, List.length_eraseIdx, if_pos hlt]; omega)
      exact ⟨st1, by rw [ha, Option.some_bind, h1], g1, by rw [v1, va]⟩
    · obtain ⟨st1, h1, g1, v1⟩ := ih st hg (by omega)
      exact ⟨st1, by rw [Option.some_bind, h1], g1, v1⟩

theorem isNone_of_isSome {α : Type} (o : Option α) (h : o.isSome = true) :
    ¬ (o.isNone = true) := by
  cases o with
  | none => exact absurd h (by simp)
  | some a => simp

theorem BA_Delete_linedefs_total (fuel : Nat) (st : Basis) (m : Nat)
    (hg : st.cur_group.isSome = true) (hm : m < st.doc.LineDefs.length) :
    ∃ st1, BA_Delete (fuel + 1) st ObjType.linedefs m = some st1 ∧
      st1.cur_group.isSome = true ∧ st1.doc.LineDefs = st.doc.LineDefs.eraseIdx m ∧
      st1.doc.Vertices = st.doc.Vertices := by
  obtain ⟨st1, h1⟩ := Add_Apply_delete_total st ObjType.linedefs m hg
    (by simp only [Document.NumObjects]; omega)
  obtain ⟨p, hp⟩ := Add_Apply_delete_doc st st1 _ _ h1
  obtain ⟨l1, v1, -⟩ := RawDelete_linedefs_doc _ _ _ _ hp
  rw [Int.toNat_ofNat] at l1
  refine ⟨st1, ?_, Add_Apply_group _ _ _ h1, l1, v1⟩
  simp only [BA_Delete]
  rw [if_neg (isNone_of_isSome _ hg), Option.some_bind, h1]

theorem BA_Delete_sidedefs_total (fuel : Nat) (st : Basis) (m : Nat)
    (hg : st.cur_group.isSome = true) (hm : m < st.doc.SideDefs.length) :
    ∃ st1, BA_Delete (fuel + 1) st ObjType.sidedefs m = some st1 ∧
      st1.cur_group.isSome = true ∧ st1.doc.SideDefs = st.doc.SideDefs.eraseIdx m ∧
      st1.doc.Sectors = st.doc.Sectors := by
  obtain ⟨sa, ha⟩ := BA_DeleteUnbind_total m st.doc.LineDefs.length st hg (le_refl _)
  obtain ⟨ga, -, -, sda, sca, -⟩ := BA_DeleteUnbind_spec (fun s => s.cur_group.isSome = true) m
    (by omega) (fun s k f s1 _ hs _ => BA_ChangeLD_group _ _ _ _ _ hs) _ st sa ha hg
    (by rw [List.drop_length]; intro L hL; exact absurd hL (List.not_mem_nil _))
  obtain ⟨st1, h1⟩ := Add_Apply_delete_total sa ObjType.sidedefs m ga
    (by simp only [Document.NumObjects]; rw [sda]; omega)
  obtain ⟨p, hp⟩ := Add_Apply_delete_doc sa st1 _ _ h1
  obtain ⟨l1, -, s1, -⟩ := RawDelete_sidedefs_doc _ _ _ _ hp
  rw [Int.toNat_ofNat] at l1
  refine ⟨st1, ?_, Add_Apply_group _ _ _ h1, by rw [l1, sda], by rw [s1, sca]⟩
  simp only [BA_Delete]
  rw [if_neg (isNone_of_isSome _ hg), ha, Option.some_bind, h1]

theorem BA_Delete_vertices_eq (fuel : Nat) (st : Basis) (n : Int) :
    BA_Delete (fuel + 1) st ObjType.vertices n =
      if st.cur_group.isNone then none
      else (BA_DeleteLines (BA_Delete fuel) n st.doc.LineDefs.length st).bind fun st1 =>
        st1.Add_Apply { action := OpAction.OP_DELETE, objtype := ObjType.vertices, field := 0,
                        objnum := n, ptr := none, value := 0 } := rfl

theorem BA_Delete_sectors_eq (fuel : Nat) (st : Basis) (n : Int) :
    BA_Delete (fuel + 1) st ObjType.sectors n =
      if st.cur_group.isNone then none
      else (BA_DeleteSides (BA_Delete fuel) n st.doc.SideDefs.length st).bind fun st1 =>
        st1.Add_Apply { action := OpAction.OP_DELETE, objtype := ObjType.sectors, field := 0,
                        objnum := n, ptr := none, value := 0 } := rfl

/-- With a group open and a valid object number, `BA_Delete` returns (a recursion bound of
two is enough: a sector deletes sidedefs, a vertex deletes linedefs). -/
theorem BA_Delete_total (fuel : Nat) (st : Basis) (t : ObjType) (n : Int)
    (hfuel : 2 ≤ fuel) (hg : st.cur_group.isSome = true)
    (hv : 0 ≤ n ∧ n < st.doc.NumObjects t) : ∃ st1, BA_Delete fuel st t n = some st1 := by
  obtain ⟨k, rfl⟩ : ∃ k, fuel = k + 2 := ⟨fuel - 2, by omega⟩
  have hnat : ((n.toNat : Nat) : Int) = n := Int.toNat_of_nonneg hv.1
  cases t with
  | things =>
    obtain ⟨st1, h1⟩ := Add_Apply_delete_total st ObjType.things n hg hv
    refine ⟨st1, ?_⟩
    simp only [BA_Delete]
    rw [if_neg (isNone_of_isSome _ hg), Option.some_bind, h1]
  | linedefs =>
    simp only [Document.NumObjects] at hv
    obtain ⟨st1, h1, -⟩ := BA_Delete_linedefs_total (k + 1) st n.toNat hg (by omega)
    rw [hnat] at h1
    exact ⟨st1, h1⟩
  | sidedefs =>
    simp only [Document.NumObjects] at hv
    obtain ⟨st1, h1, -⟩ := BA_Delete_sidedefs_total (k + 1) st n.toNat hg (by omega)
    rw [hnat] at h1
    exact ⟨st1, h1⟩
  | vertices =>
    obtain ⟨sa, ha, ga, va⟩ := BA_DeleteLines_total (BA_Delete (k + 1)) n
      (fun s m hs hm => BA_Delete_linedefs_total k s m hs hm) st.doc.LineDefs.length st hg
      (le_refl _)
    obtain ⟨st1, h1⟩ := Add_Apply_delete_total sa ObjType.vertices n ga
      (by simp only [Document.NumObjects] at hv ⊢; rw [va]; exact hv)
    refine ⟨st1, ?_⟩
    rw [BA_Delete_vertices_eq, if_neg (isNone_of_isSome _ hg), ha, Option.some_bind, h1]
  | sectors =>
    obtain ⟨sa, ha, ga, va⟩ := BA_DeleteSides_total (BA_Delete (k + 1)) n
      (fun s m hs hm => BA_Delete_sidedefs_total k s m hs hm) st.doc.SideDefs.length st hg
      (le_refl _)
    obtain ⟨st1, h1⟩ := Add_Apply_delete_total sa ObjType.sectors n ga
      (by simp only [Document.NumObjects] at hv ⊢; rw [va]; exact hv)
    refine ⟨st1, ?_⟩
    rw [BA_Delete_sectors_eq, if_neg (isNone_of_isSome _ hg), ha, Option.some_bind, h1]

end ajbsp

namespace ajbsp

/-- C20: `BA_Delete` keeps the document's references valid.  With a group open, a valid
object number and a recursion bound of at least two, `BA_Delete` returns, and if before
the call every linedef's start and end is a valid vertex index, its right and left are -1
or a valid sidedef index, and every sidedef's sector is a valid sector index, then the same
holds for the document it leaves, for every object type. -/
theorem BA_Delete_keeps_references_valid (fuel : Nat) (st : Basis) (t : ObjType) (n : Int)
    (hfuel : 2 ≤ fuel) (hg : st.cur_group.isSome = true)
    (hv : 0 ≤ n ∧ n < st.doc.NumObjects t) (hvalid : st.doc.RefsValid) :
    ∃ st1, BA_Delete fuel st t n = some st1 ∧ st1.doc.RefsValid := by
  obtain ⟨st1, h1⟩ := BA_Delete_total fuel st t n hfuel hg hv
  exact ⟨st1, h1, BA_Delete_valid_refs fuel st t n st1 h1 hvalid⟩

/-- In the demo basis with a group open, deleting sector 0 (to which sidedefs 0 and 1 are
bound, sidedef 0 being the right side of the linedef) returns and leaves valid references. -/
theorem BA_Delete_keeps_references_valid_witness :
    demoBasis1.cur_group.isSome = true ∧
    (0 ≤ (0 : Int) ∧ (0 : Int) < demoBasis1.doc.NumObjects ObjType.sectors) ∧
    demoBasis1.doc.RefsValid ∧
    ∃ st1, BA_Delete 2 demoBasis1 ObjType.sectors 0 = some st1 ∧ st1.doc.RefsValid :=
  ⟨by decide, by decide, by unfold Document.RefsValid; decide,
    BA_Delete_keeps_references_valid 2 demoBasis1 ObjType.sectors 0 (le_refl 2) (by decide)
      (by decide) (by unfold Document.RefsValid; decide)⟩

end ajbsp

/-- What "link it in" does to the records. -/
theorem AddIntersectionLink_facts (L1 : Level) (head : Option Nat) (cut : Nat)
    (after : Option Nat) (nxtA : Option Nat)
    (hnx : nxtA = match after with
      | some a => (L1.cuts a).next
      | none => head)
    (ha : ∀ a ∈ after, a ≠ cut) (hn : ∀ n ∈ nxtA, n ≠ cut ∧ ∀ a ∈ after, n ≠ a) :
    (AddIntersectionLink L1 head cut after).2 = (if after = none then some cut else head) ∧
    (AddIntersectionLink L1 head cut after).1.num_cuts = L1.num_cuts ∧
    (AddIntersectionLink L1 head cut after).1.quick_alloc_cuts = L1.quick_alloc_cuts ∧
    (∀ i, ((AddIntersectionLink L1 head cut after).1.cuts i).along_dist =
      (L1.cuts i).along_dist ∧
      ((AddIntersectionLink L1 head cut after).1.cuts i).vertex = (L1.cuts i).vertex) ∧
    ((AddIntersectionLink L1 head cut after).1.cuts cut).next = nxtA ∧
    (∀ a ∈ after, ((AddIntersectionLink L1 head cut after).1.cuts a).next = some cut) ∧
    (∀ i, i ≠ cut → (∀ a ∈ after, i ≠ a) →
      ((AddIntersectionLink L1 head cut after).1.cuts i).next = (L1.cuts i).next) ∧
    ((AddIntersectionLink L1 head cut after).1.cuts cut).prev = after ∧
    (∀ n ∈ nxtA, ((AddIntersectionLink L1 head cut after).1.cuts n).prev = some cut) ∧
    (∀ i, i ≠ cut → some i ≠ nxtA →
      ((AddIntersectionLink L1 head cut after).1.cuts i).prev = (L1.cuts i).prev) := by
  cases after with
  | none =>
    simp only at hnx
    subst hnx
    cases nxtA with
    | none =>
      simp only [AddIntersectionLink, modCut_apply, modCut_num_cuts, modCut_quick, if_true]
      refine ⟨trivial, trivial, trivial, ?_, ?_, ?_, ?_, ?_, ?_, ?_⟩
      all_goals intros
      all_goals try split_ifs
      all_goals first
        | rfl
        | trivial
        | contradiction
        | (subst_vars; rfl)
        | (simp_all; done)
    | some h =>
      have hhc : h ≠ cut := (hn h rfl).1
      simp only [AddIntersectionLink, modCut_apply, modCut_num_cuts, modCut_quick, if_true,
        if_neg hhc, if_neg hhc.symm]
      refine ⟨trivial, trivial, trivial, ?_, ?_, ?_, ?_, ?_, ?_, ?_⟩
      all_goals intros
      all_goals try split_ifs
      all_goals first
        | rfl
        | trivial
        | contradiction
        | (subst_vars; rfl)
        | (simp_all; done)
  | some a =>
    simp only at hnx
    have hac : a ≠ cut := ha a rfl
    cases hna : (L1.cuts a).next with
    | none =>
      rw [hna] at hnx
      subst hnx
      simp only [AddIntersectionLink, modCut_apply, modCut_num_cuts, modCut_quick, if_true,
        if_neg hac, if_neg hac.symm, hna]
      refine ⟨by simp, trivial, trivial, ?_, ?_, ?_, ?_, ?_, ?_, ?_⟩
      all_goals intros
      all_goals try split_ifs
      all_goals first
        | rfl
        | trivial
        | contradiction
        | (subst_vars; rfl)
        | (simp_all; done)
    | some n =>
      rw [hna] at hnx
      subst hnx
      obtain ⟨hnc, hna'⟩ := hn n rfl
      have hnA : n ≠ a := hna' a rfl
      simp only [AddIntersectionLink, modCut_apply, modCut_num_cuts, modCut_quick, if_true,
        if_neg hac, if_neg hac.symm, hna, if_neg hnc, if_neg hnc.symm, if_neg hnA,
        if_neg hnA.symm]
      refine ⟨by simp, trivial, trivial, ?_, ?_, ?_, ?_, ?_, ?_, ?_⟩
      all_goals intros
      all_goals try split_ifs
      all_goals first
        | rfl
        | trivial
        | contradiction
        | (subst_vars; rfl)
        | (simp_all; done)

/-! ### `AddIntersection` on a well-formed list -/

theorem pairwise_insert_mid {α : Type} {R : α → α → Prop} {pre post : List α} {c : α}
    (h : (pre ++ post).Pairwise R) (h1 : ∀ x ∈ pre, R x c) (h2 : ∀ x ∈ post, R c x) :
    (pre ++ c :: post).Pairwise R := by
  rw [List.pairwise_append] at h ⊢
  obtain ⟨a, b, d⟩ := h
  refine ⟨a, List.pairwise_cons.mpr ⟨h2, b⟩, ?_⟩
  intro x hx y hy
  rcases List.mem_cons.mp hy with rfl | hy
  · exact h1 x hx
  · exact d x hx y hy

theorem nodup_insert_mid {pre post : List Nat} {c : Nat}
    (h : (pre ++ post).Nodup) (hc : c ∉ pre ++ post) : (pre ++ c :: post).Nodup := by
  refine pairwise_insert_mid h ?_ ?_
  · intro x hx e; exact hc (e ▸ List.mem_append_left _ hx)
  · intro x hx e; exact hc (e ▸ List.mem_append_right _ hx)

theorem mem_insert_mid {pre post : List Nat} {c x : Nat} :
    x ∈ pre ++ c :: post ↔ x = c ∨ x ∈ pre ++ post := by
  simp only [List.mem_append, List.mem_cons]
  tauto

/-- The merge loop that ends without a hit has met no record with the vertex and none
within `eps`. -/
theorem AddIntersectionMerge_miss (eps : ℚ) (vert : Nat) (along : ℚ) (ob oa : Bool) (fc : Int)
    (fuel : Nat) : ∀ (L : Level) (cur : Option Nat) (l : List Nat),
      IsLinked (fun i => (L.cuts i).next) cur l →
      AddIntersectionMerge eps vert along ob oa fc fuel L cur = some none →
      ∀ c ∈ l, vert ≠ (L.cuts c).vertex ∧ ¬ |along - (L.cuts c).along_dist| < eps := by
  induction fuel with
  | zero => intro L cur l _ h; exact absurd h (by simp [AddIntersectionMerge])
  | succ fuel ih =>
    intro L cur l hl h
    cases l with
    | nil => intro c hc; exact absurd hc (List.not_mem_nil _)
    | cons a l =>
      obtain ⟨h1, h2⟩ := hl
      subst h1
      simp only [AddIntersectionMerge] at h
      by_cases c1 : vert = (L.cuts a).vertex
      · rw [if_pos c1] at h; exact absurd h (by simp)
      · rw [if_neg c1] at h
        by_cases c2 : |along - (L.cuts a).along_dist| < eps
        · rw [if_pos c2] at h; exact absurd h (by simp)
        · rw [if_neg c2] at h
          intro c hc
          rcases List.mem_cons.mp hc with rfl | hc
          · exact ⟨c1, c2⟩
          · exact ih L _ l h2 h c hc

/-- What `NewIntersection` gives on a level with a well-formed free list: a record that is
on neither list, with all other records untouched. -/
theorem NewIntersection_spec (L : Level) (l fl : List Nat)
    (hfree : L.FreeCuts fl) (hlt : ∀ c ∈ l, c < L.num_cuts) (hdis : ∀ c ∈ l, c ∉ fl) :
    ∃ fl1, (NewIntersection L).1.FreeCuts fl1 ∧
      (NewIntersection L).2 ∉ l ∧ (NewIntersection L).2 ∉ fl1 ∧
      (NewIntersection L).2 < (NewIntersection L).1.num_cuts ∧
      L.num_cuts ≤ (NewIntersection L).1.num_cuts ∧
      (∀ i, i ≠ (NewIntersection L).2 → (NewIntersection L).1.cuts i = L.cuts i) ∧
      (NewIntersection L).1.lev_vertices = L.lev_vertices ∧
      (∀ c ∈ l, c ∉ fl1) := by
  obtain ⟨f1, f2, f3⟩ := hfree
  rcases hq : L.quick_alloc_cuts with _ | cut
  · have e : NewIntersection L =
        ({ L with cuts := Function.update L.cuts L.num_cuts intersection_t.zero,
                  num_cuts := L.num_cuts + 1 }, L.num_cuts) := by
      unfold NewIntersection; rw [hq]
    rw [e]
    rw [hq] at f1
    have hfl : fl = [] := by
      cases fl with
      | nil => rfl
      | cons a fl => exact absurd f1.1 (by simp)
    refine ⟨[], ⟨hq, List.nodup_nil, fun c hc => absurd hc (List.not_mem_nil _)⟩, ?_,
      List.not_mem_nil _, Nat.lt_succ_self _, Nat.le_succ _, ?_, rfl,
      fun c _ => List.not_mem_nil _⟩
    · intro hm; exact absurd (hlt _ hm) (lt_irrefl _)
    · intro i hi
      have hi1 : i ≠ L.num_cuts := hi
      show Function.update L.cuts L.num_cuts intersection_t.zero i = L.cuts i
      exact Function.update_noteq hi1 _ _
  · have e : NewIntersection L = ({ L with quick_alloc_cuts := (L.cuts cut).next }, cut) := by
      unfold NewIntersection; rw [hq]
    rw [e]
    rw [hq] at f1
    cases fl with
    | nil => exact absurd f1 (by simp [IsLinked, IsSeg])
    | cons a fl =>
      obtain ⟨g1, g2⟩ := f1
      have hac : cut = a := Option.some.inj g1
      subst hac
      refine ⟨fl, ⟨g2, (List.nodup_cons.mp f2).2,
        fun c hc => f3 c (List.mem_cons_of_mem _ hc)⟩, ?_, (List.nodup_cons.mp f2).1,
        f3 _ (List.mem_cons_self _ _), le_refl _, fun i _ => rfl, rfl,
        fun c hc hm => hdis c hc (List.mem_cons_of_mem _ hm)⟩
      intro hm
      exact hdis _ hm (List.mem_cons_self _ _)

/-- The common end of an insertion: once the new record `cut` is linked in between `pre`
and `post`, the list is again well formed, ascending and separated. -/
theorem AddIntersection_finish (L L2 : Level) (pre post fl1 : List Nat) (cut : Nat)
    (head1 : Option Nat) (eps : ℚ) (part : seg_t) (along : ℚ) (vert : Nat)
    (hlink : IsLinked (fun i => (L2.cuts i).next) head1 (pre ++ cut :: post) ∧
      IsLinked (fun i => (L2.cuts i).prev) (pre ++ cut :: post).getLast?
        (pre ++ cut :: post).reverse)
    (hnd : (pre ++ post).Nodup) (hcl : cut ∉ pre ++ post)
    (hlt : ∀ c ∈ pre ++ post, c < L2.num_cuts) (hclt : cut < L2.num_cuts)
    (hsort : L.CutsSorted (pre ++ post)) (hap : L.CutsApart eps (pre ++ post))
    (hal : L.CutsAlong part (pre ++ post))
    (hsame : ∀ i, i ≠ cut → (L2.cuts i).along_dist = (L.cuts i).along_dist ∧
      (L2.cuts i).vertex = (L.cuts i).vertex)
    (hcut : (L2.cuts cut).along_dist = along ∧ (L2.cuts cut).vertex = vert)
    (hvs : L2.lev_vertices = L.lev_vertices)
    (halong : along = part.ParallelDist (L.lev_vertices vert).x (L.lev_vertices vert).y)
    (hpre : ∀ x ∈ pre, (L.cuts x).along_dist ≤ along)
    (hpost : ∀ x ∈ post, along < (L.cuts x).along_dist)
    (hmiss : ∀ c ∈ pre ++ post, vert ≠ (L.cuts c).vertex ∧
      ¬ |along - (L.cuts c).along_dist| < eps)
    (hfree : L2.FreeCuts fl1) (hcf : cut ∉ fl1) (hdis : ∀ c ∈ pre ++ post, c ∉ fl1) :
    L2.CutInv head1 (pre ++ cut :: post) fl1 ∧ L2.CutsApart eps (pre ++ cut :: post) ∧
      L2.CutsAlong part (pre ++ cut :: post) := by
  have hne : ∀ x ∈ pre ++ post, x ≠ cut := fun x hx e => hcl (e ▸ hx)
  have hpre_in : ∀ x ∈ pre, x ∈ pre ++ post := fun x hx => List.mem_append_left _ hx
  have hpost_in : ∀ x ∈ post, x ∈ pre ++ post := fun x hx => List.mem_append_right _ hx
  refine ⟨⟨⟨hlink.1, hlink.2, nodup_insert_mid hnd hcl, ?_⟩, ?_, hfree, ?_⟩, ?_, ?_⟩
  · intro c hc
    rcases mem_insert_mid.mp hc with rfl | hc
    · exact hclt
    · exact hlt c hc
  · -- ascending
    unfold Level.CutsSorted at hsort ⊢
    refine pairwise_insert_mid (hsort.imp_of_mem ?_) ?_ ?_
    · intro a b ha hb hab
      rw [(hsame a (hne a ha)).1, (hsame b (hne b hb)).1]; exact hab
    · intro x hx
      rw [(hsame x (hne x (hpre_in x hx))).1, hcut.1]; exact hpre x hx
    · intro x hx
      rw [(hsame x (hne x (hpost_in x hx))).1, hcut.1]; exact le_of_lt (hpost x hx)
  · intro c hc
    rcases mem_insert_mid.mp hc with rfl | hc
    · exact hcf
    · exact hdis c hc
  · -- separated
    unfold Level.CutsApart at hap ⊢
    refine pairwise_insert_mid (hap.imp_of_mem ?_) ?_ ?_
    · intro a b ha hb hab
      rw [(hsame a (hne a ha)).1, (hsame b (hne b hb)).1, (hsame a (hne a ha)).2,
        (hsame b (hne b hb)).2]
      exact hab
    · intro x hx
      have hx1 := hpre_in x hx
      obtain ⟨m1, m2⟩ := hmiss x hx1
      rw [(hsame x (hne x hx1)).1, (hsame x (hne x hx1)).2, hcut.1, hcut.2]
      refine ⟨fun e => m1 e.symm, ?_⟩
      rw [abs_sub_comm]
      exact not_lt.mp m2
    · intro x hx
      have hx1 := hpost_in x hx
      obtain ⟨m1, m2⟩ := hmiss x hx1
      rw [(hsame x (hne x hx1)).1, (hsame x (hne x hx1)).2, hcut.1, hcut.2]
      exact ⟨m1, not_lt.mp m2⟩
  · -- along the partition
    intro c hc
    rw [hvs]
    rcases mem_insert_mid.mp hc with rfl | hc
    · rw [hcut.1, hcut.2]; exact halong
    · rw [(hsame c (hne c hc)).1, (hsame c (hne c hc)).2]
      exact hal c hc

theorem AddIntersectionMerge_vertices (eps : ℚ) (vert : Nat) (along : ℚ) (ob oa : Bool)
    (fc : Int) (fuel : Nat) : ∀ (L : Level) (cur : Option Nat) (L' : Level),
      AddIntersectionMerge eps vert along ob oa fc fuel L cur = some (some L') →
      L'.lev_vertices = L.lev_vertices := by
  induction fuel with
  | zero => intro L cur L' h; exact absurd h (by simp [AddIntersectionMerge])
  | succ fuel ih =>
    intro L cur L' h
    cases cur with
    | none => exact absurd h (by simp [AddIntersectionMerge])
    | some c =>
      simp only [AddIntersectionMerge] at h
      by_cases c1 : vert = (L.cuts c).vertex
      · rw [if_pos c1] at h
        have := Option.some.inj (Option.some.inj h)
        subst this
        unfold forceClosed; split_ifs <;> rfl
      · rw [if_neg c1] at h
        by_cases c2 : |along - (L.cuts c).along_dist| < eps
        · rw [if_pos c2] at h
          have := Option.some.inj (Option.some.inj h)
          subst this
          unfold forceClosed; split_ifs <;> rfl
        · rw [if_neg c2] at h
          exact ih L _ L' h

theorem AddIntersectionLink_vertices (L1 : Level) (head : Option Nat) (cut : Nat)
    (after : Option Nat) :
    (AddIntersectionLink L1 head cut after).1.lev_vertices = L1.lev_vertices := by
  unfold AddIntersectionLink
  cases after with
  | none => cases head <;> rfl
  | some a =>
    simp only
    split <;> rfl

/-- The insertion part of `AddIntersection`, after the merge loop found nothing and
`NewIntersection` gave the record `cut`. -/
theorem AddIntersection_insert (eps : ℚ) (L Lr : Level) (head : Option Nat)
    (l fl1 : List Nat) (cut vert : Nat) (part : seg_t) (along : ℚ) (sr ob oa : Bool)
    (hlist : L.CutList head l) (hsort : L.CutsSorted l) (hap : L.CutsApart eps l)
    (hal : L.CutsAlong part l)
    (halong : along = part.ParallelDist (L.lev_vertices vert).x (L.lev_vertices vert).y)
    (hmiss : ∀ c ∈ l, vert ≠ (L.cuts c).vertex ∧ ¬ |along - (L.cuts c).along_dist| < eps)
    (hf1 : Lr.FreeCuts fl1) (hcl : cut ∉ l) (hcf : cut ∉ fl1) (hclt : cut < Lr.num_cuts)
    (hle : L.num_cuts ≤ Lr.num_cuts) (hframe : ∀ i, i ≠ cut → Lr.cuts i = L.cuts i)
    (hvr : Lr.lev_vertices = L.lev_vertices) (hdis1 : ∀ c ∈ l, c ∉ fl1)
    (L1 : Level)
    (hL1 : L1 = Lr.modCut cut fun c => { c with
      vertex := vert, along_dist := along, self_ref := sr,
      open_before := ob, open_after := oa }) :
    ∃ L2 head1 l1,
      ((AddIntersectionLast (L1.num_cuts + 1) L1 head).bind fun last =>
        (AddIntersectionBack (L1.cuts cut).along_dist (L1.num_cuts + 1) L1 last).bind
          fun after => some (AddIntersectionLink L1 head cut after)) = some (L2, head1) ∧
      L2.CutInv head1 l1 fl1 ∧ L2.CutsApart eps l1 ∧ L2.CutsAlong part l1 ∧
      L2.lev_vertices = L.lev_vertices := by
  obtain ⟨c1, c2, c3, c4⟩ := hlist
  have hne : ∀ x ∈ l, x ≠ cut := fun x hx e => hcl (e ▸ hx)
  -- the records of the level with the new record filled in
  have h1same : ∀ i, i ≠ cut → L1.cuts i = L.cuts i := by
    intro i hi
    rw [hL1, modCut_apply, if_neg hi, hframe i hi]
  have h1cut : (L1.cuts cut).along_dist = along ∧ (L1.cuts cut).vertex = vert := by
    rw [hL1, modCut_apply, if_pos rfl]
    exact ⟨rfl, rfl⟩
  have h1next : ∀ i, (L1.cuts i).next = (Lr.cuts i).next := by
    intro i
    rw [hL1, modCut_apply]
    split_ifs with h
    · subst h; rfl
    · rfl
  have h1num : L1.num_cuts = Lr.num_cuts := by rw [hL1]; rfl
  have h1quick : L1.quick_alloc_cuts = Lr.quick_alloc_cuts := by rw [hL1]; rfl
  have h1vs : L1.lev_vertices = L.lev_vertices := by rw [hL1]; exact hvr
  have hfwd : IsLinked (fun i => (L1.cuts i).next) head l :=
    (IsSeg_congr (fun a ha => by rw [h1same a (hne a ha)])).mpr c1
  have hbwd : IsLinked (fun i => (L1.cuts i).prev) l.getLast? l.reverse :=
    (IsSeg_congr (fun a ha => by
      rw [h1same a (hne a (List.mem_reverse.mp ha))])).mpr c2
  have hlen : l.length < L1.num_cuts + 1 := by
    have := length_le_of_nodup_lt c3 c4
    omega
  have hlast := AddIntersectionLast_spec (L1.num_cuts + 1) L1 head l hfwd hlen
  obtain ⟨skipped, rest, e1, e2, e3, e4⟩ :=
    AddIntersectionBack_spec (L1.cuts cut).along_dist (L1.num_cuts + 1) L1 l.getLast?
      l.reverse hbwd (by simpa using hlen)
  rw [hlast, Option.some_bind, e1, Option.some_bind]
  rw [h1cut.1] at e3 e4
  have hl : l = rest.reverse ++ skipped.reverse := by
    have := congrArg List.reverse e2
    simpa using this
  have hpost : ∀ x ∈ skipped.reverse, along < (L.cuts x).along_dist := by
    intro x hx
    have hxl : x ∈ l := by rw [hl]; exact List.mem_append_right _ hx
    rw [← h1same x (hne x hxl)]
    exact e3 x (List.mem_reverse.mp hx)
  have hlt1 : ∀ c ∈ l, c < L1.num_cuts := fun c hc => by
    have := c4 c hc
    omega
  cases rest with
  | nil =>
    -- in front of the list
    have hl0 : l = skipped.reverse := by simpa using hl
    obtain ⟨k1, k2, k3, k4, k5, -, k7, k8, k9, k10⟩ :=
      AddIntersectionLink_facts L1 head cut none head rfl
        (fun a ha => absurd ha (by simp))
        (fun n hn => ⟨by
          have : head = l.head? := IsSeg_head hfwd
          rw [this] at hn
          exact hne n (List.mem_of_mem_head? hn), fun a ha => absurd ha (by simp)⟩)
    have hins := @insert_front _ _
      (fun i => ((AddIntersectionLink L1 head cut none).1.cuts i).next)
      (fun i => ((AddIntersectionLink L1 head cut none).1.cuts i).prev) _ _ _
      hfwd hbwd c3 hcl
      (fun i hi => k7 i hi (fun a ha => absurd ha (by simp)))
      k5 (fun i hi hh => k10 i hi hh) k8 (fun h hh => k9 h (by rw [hh]; rfl))
    have hhead : (AddIntersectionLink L1 head cut none).2 = some cut := by
      rw [k1]; rfl
    refine ⟨(AddIntersectionLink L1 head cut none).1, some cut, [] ++ cut :: l,
      by rw [← hhead]; rfl, ?_⟩
    have hfin := AddIntersection_finish L (AddIntersectionLink L1 head cut none).1 [] l fl1
      cut (some cut) eps part along vert hins c3 hcl
      (fun c hc => by rw [k2]; exact hlt1 c hc) (by rw [k2, h1num]; exact hclt)
      hsort hap hal
      (fun i hi => by rw [(k4 i).1, (k4 i).2, h1same i hi]; exact ⟨rfl, rfl⟩)
      (by rw [(k4 cut).1, (k4 cut).2]; exact h1cut)
      (by rw [AddIntersectionLink_vertices]; exact h1vs) halong
      (fun x hx => absurd hx (List.not_mem_nil _))
      (fun x hx => hpost x (by rw [← hl0]; exact hx)) hmiss
      ⟨by
        rw [k3, h1quick]
        refine (IsSeg_congr (fun i hi => ?_)).mpr hf1.1
        show ((AddIntersectionLink L1 head cut none).1.cuts i).next = (Lr.cuts i).next
        rw [k7 i (fun e => hcf (e ▸ hi)) (fun a ha => absurd ha (by simp)), h1next],
       hf1.2.1, fun c hc => by rw [k2, h1num]; exact hf1.2.2 c hc⟩
      hcf hdis1
    exact ⟨hfin.1, hfin.2.1, hfin.2.2, by rw [AddIntersectionLink_vertices]; exact h1vs⟩
  | cons a rest1 =>
    -- after the record `a`
    have hl1 : l = rest1.reverse ++ a :: skipped.reverse := by
      rw [hl]; simp
    have hal1 : a ∈ l := by rw [hl1]; simp
    have hac : a ≠ cut := hne a hal1
    have hd1 : (rest1.reverse ++ a :: skipped.reverse).Nodup := hl1 ▸ c3
    have hfwd1 : IsLinked (fun i => (L1.cuts i).next) head
        (rest1.reverse ++ a :: skipped.reverse) := hl1 ▸ hfwd
    have hbwd1 : IsLinked (fun i => (L1.cuts i).prev)
        (rest1.reverse ++ a :: skipped.reverse).getLast?
        (rest1.reverse ++ a :: skipped.reverse).reverse := hl1 ▸ hbwd
    have hcl1 : cut ∉ rest1.reverse ++ a :: skipped.reverse := hl1 ▸ hcl
    -- the record after `a`
    have hnext : (L1.cuts a).next = skipped.reverse.head? := by
      have h0 := hfwd1
      unfold IsLinked at h0
      rw [IsSeg_append] at h0
      obtain ⟨m, -, h2⟩ := h0
      exact IsSeg_head (l := skipped.reverse) h2.2
    have hnmem : ∀ n, (L1.cuts a).next = some n → n ∈ skipped.reverse := by
      intro n hn
      rw [hnext] at hn
      exact List.mem_of_mem_head? hn
    obtain ⟨k1, k2, k3, k4, k5, k6, k7, k8, k9, k10⟩ :=
      AddIntersectionLink_facts L1 head cut (some a) (L1.cuts a).next rfl
        (fun b hb => by
          have : a = b := Option.some.inj hb
          rw [← this]; exact hac)
        (fun n hn => by
          have hn1 : n ∈ skipped.reverse := hnmem n hn
          have hnl : n ∈ l := by rw [hl1]; simp [hn1]
          refine ⟨hne n hnl, fun b hb => ?_⟩
          have : a = b := Option.some.inj hb
          rw [← this]
          intro e
          have hd2 := (List.nodup_append.mp hd1).2.1
          exact (List.nodup_cons.mp hd2).1 (e ▸ hn1))
    have hins := @insert_after _ _
      (fun i => ((AddIntersectionLink L1 head cut (some a)).1.cuts i).next)
      (fun i => ((AddIntersectionLink L1 head cut (some a)).1.cuts i).prev) _ _ _ _ _
      hfwd1 hbwd1 hd1 hcl1
      (fun i hi hia => k7 i hi (fun b hb => by
        have : a = b := Option.some.inj hb
        rw [← this]; exact hia))
      k5 (k6 a rfl) (fun i hi hh => k10 i hi hh) k8 (fun n hn => k9 n hn)
    have hhead : (AddIntersectionLink L1 head cut (some a)).2 = head := by
      rw [k1]; rfl
    have happ : (rest1.reverse ++ [a]) ++ cut :: skipped.reverse =
        rest1.reverse ++ a :: cut :: skipped.reverse := by simp
    have happ0 : (rest1.reverse ++ [a]) ++ skipped.reverse = l := by rw [hl1]; simp
    refine ⟨(AddIntersectionLink L1 head cut (some a)).1, head,
      (rest1.reverse ++ [a]) ++ cut :: skipped.reverse, by rw [← hhead]; rfl, ?_⟩
    have hpre : ∀ x ∈ rest1.reverse ++ [a], (L.cuts x).along_dist ≤ along := by
      have ha1 : (L.cuts a).along_dist ≤ along := by
        have := e4 a rfl
        rw [h1same a hac] at this
        exact not_lt.mp this
      intro x hx
      rcases List.mem_append.mp hx with hx | hx
      · have hs := hsort
        unfold Level.CutsSorted at hs
        rw [hl1, List.pairwise_append] at hs
        exact le_trans (hs.2.2 x hx a (List.mem_cons_self _ _)) ha1
      · have : x = a := by simpa using hx
        rw [this]; exact ha1
    have hfin := AddIntersection_finish L (AddIntersectionLink L1 head cut (some a)).1
      (rest1.reverse ++ [a]) skipped.reverse fl1 cut head eps part along vert
      (by rw [happ]; exact hins) (by rw [happ0]; exact c3) (by rw [happ0]; exact hcl)
      (fun c hc => by rw [k2]; exact hlt1 c (happ0 ▸ hc)) (by rw [k2, h1num]; exact hclt)
      (by rw [happ0]; exact hsort) (by rw [happ0]; exact hap) (by rw [happ0]; exact hal)
      (fun i hi => by rw [(k4 i).1, (k4 i).2, h1same i hi]; exact ⟨rfl, rfl⟩)
      (by rw [(k4 cut).1, (k4 cut).2]; exact h1cut)
      (by rw [AddIntersectionLink_vertices]; exact h1vs) halong hpre hpost
      (by rw [happ0]; exact hmiss)
      ⟨by
        rw [k3, h1quick]
        refine (IsSeg_congr (fun i hi => ?_)).mpr hf1.1
        show ((AddIntersectionLink L1 head cut (some a)).1.cuts i).next = (Lr.cuts i).next
        rw [k7 i (fun e => hcf (e ▸ hi)) (fun b hb => by
          have : a = b := Option.some.inj hb
          rw [← this]
          intro e
          exact hdis1 a hal1 (e ▸ hi)), h1next],
       hf1.2.1, fun c hc => by rw [k2, h1num]; exact hf1.2.2 c hc⟩
      hcf (by rw [happ0]; exact hdis1)
    exact ⟨hfin.1, hfin.2.1, hfin.2.2, by rw [AddIntersectionLink_vertices]; exact h1vs⟩

/-- One call of `AddIntersection` on a well-formed, ascending, separated list returns and
leaves such a list. -/
theorem AddIntersection_step (eps : ℚ) (VertexCheckOpen : Nat → ℚ → ℚ → Bool) (L : Level)
    (head : Option Nat) (l fl : List Nat) (vert : Nat) (part : seg_t) (sr : Bool) (fc : Int)
    (hinv : L.CutInv head l fl) (hap : L.CutsApart eps l) (hal : L.CutsAlong part l) :
    ∃ L1 head1 l1 fl1,
      AddIntersection eps VertexCheckOpen L head vert part sr fc = some (L1, head1) ∧
      L1.CutInv head1 l1 fl1 ∧ L1.CutsApart eps l1 ∧ L1.CutsAlong part l1 ∧
      L1.lev_vertices = L.lev_vertices := by
  obtain ⟨hlist, hsort, hfree, hdis⟩ := hinv
  have hlen : l.length < L.num_cuts + 1 :=
    Nat.lt_succ_of_le (length_le_of_nodup_lt hlist.2.2.1 hlist.2.2.2)
  have key : ∀ (ob oa : Bool) (along : ℚ),
      along = part.ParallelDist (L.lev_vertices vert).x (L.lev_vertices vert).y →
      ∃ L1 head1 l1 fl1,
        ((AddIntersectionMerge eps vert along ob oa fc (L.num_cuts + 1) L head).bind
          fun merged =>
            match merged with
            | some L' => some (L', head)
            | none =>
              (AddIntersectionLast (((NewIntersection L).1.modCut (NewIntersection L).2
                  fun c => { c with vertex := vert, along_dist := along, self_ref := sr,
                                    open_before := ob, open_after := oa }).num_cuts + 1)
                ((NewIntersection L).1.modCut (NewIntersection L).2
                  fun c => { c with vertex := vert, along_dist := along, self_ref := sr,
                                    open_before := ob, open_after := oa }) head).bind
              fun last =>
              (AddIntersectionBack
                (((NewIntersection L).1.modCut (NewIntersection L).2
                  fun c => { c with vertex := vert, along_dist := along, self_ref := sr,
                                    open_before := ob, open_after := oa }).cuts
                  (NewIntersection L).2).along_dist
                (((NewIntersection L).1.modCut (NewIntersection L).2
                  fun c => { c with vertex := vert, along_dist := along, self_ref := sr,
                                    open_before := ob, open_after := oa }).num_cuts + 1)
                ((NewIntersection L).1.modCut (NewIntersection L).2
                  fun c => { c with vertex := vert, along_dist := along, self_ref := sr,
                                    open_before := ob, open_after := oa }) last).bind
              fun after =>
              some (AddIntersectionLink
                ((NewIntersection L).1.modCut (NewIntersection L).2
                  fun c => { c with vertex := vert, along_dist := along, self_ref := sr,
                                    open_before := ob, open_after := oa })
                head (NewIntersection L).2 after)) = some (L1, head1) ∧
        L1.CutInv head1 l1 fl1 ∧ L1.CutsApart eps l1 ∧ L1.CutsAlong part l1 ∧
        L1.lev_vertices = L.lev_vertices := by
    intro ob oa along halong
    rcases AddIntersectionMerge_spec eps vert along ob oa fc (L.num_cuts + 1) L head l
      hlist.1 hlen with ⟨L', hm, hs⟩ | hm
    · -- merged with an existing record
      have hv := AddIntersectionMerge_vertices eps vert along ob oa fc _ L head L' hm
      rw [hm]
      refine ⟨L', head, l, fl, rfl, CutInv_of_same hs ⟨hlist, hsort, hfree, hdis⟩, ?_, ?_, hv⟩
      · unfold Level.CutsApart at hap ⊢
        refine hap.imp ?_
        intro a b hab
        rw [(hs.2.2 a).2.2.1, (hs.2.2 b).2.2.1, (hs.2.2 a).2.2.2, (hs.2.2 b).2.2.2]
        exact hab
      · intro c hc
        rw [hv, (hs.2.2 c).2.2.1, (hs.2.2 c).2.2.2]
        exact hal c hc
    · -- a new record
      have hmiss := AddIntersectionMerge_miss eps vert along ob oa fc _ L head l hlist.1 hm
      obtain ⟨fl1, hf1, hcl, hcf, hclt, hle, hframe, hvr, hdis1⟩ :=
        NewIntersection_spec L l fl hfree hlist.2.2.2 hdis
      rw [hm]
      obtain ⟨L2, head1, l1, h1, h2, h3, h4, h5⟩ :=
        AddIntersection_insert eps L (NewIntersection L).1 head l fl1 (NewIntersection L).2
          vert part along sr ob oa hlist hsort hap hal halong hmiss hf1 hcl hcf hclt hle
          hframe hvr hdis1 _ rfl
      exact ⟨L2, head1, l1, fl1, h1, h2, h3, h4, h5⟩
  exact key _ _ _ rfl

/-- A sequence of `AddIntersection` calls for one partition on a well-formed, ascending,
separated list returns and leaves such a list. -/
theorem AddIntersections_inv (eps : ℚ) (VertexCheckOpen : Nat → ℚ → ℚ → Bool)
    (part : seg_t) : ∀ (calls : List (Nat × Bool × Int)) (L : Level) (head : Option Nat)
      (l fl : List Nat), L.CutInv head l fl → L.CutsApart eps l → L.CutsAlong part l →
      ∃ L1 head1 l1 fl1,
        AddIntersections eps VertexCheckOpen part calls L head = some (L1, head1) ∧
        L1.CutInv head1 l1 fl1 ∧ L1.CutsApart eps l1 ∧ L1.CutsAlong part l1 ∧
        L1.lev_vertices = L.lev_vertices := by
  intro calls
  induction calls with
  | nil =>
    intro L head l fl h1 h2 h3
    exact ⟨L, head, l, fl, rfl, h1, h2, h3, rfl⟩
  | cons call rest ih =>
    intro L head l fl h1 h2 h3
    obtain ⟨La, heada, la, fla, ea, a1, a2, a3, a4⟩ :=
      AddIntersection_step eps VertexCheckOpen L head l fl call.1 part call.2.1 call.2.2
        h1 h2 h3
    obtain ⟨Lb, headb, lb, flb, eb, b1, b2, b3, b4⟩ := ih La heada la fla a1 a2 a3
    refine ⟨Lb, headb, lb, flb, ?_, b1, b2, b3, by rw [b4, a4]⟩
    simp only [AddIntersections]
    rw [ea, Option.some_bind, eb]

/-- In a linked list whose records are pairwise related, each record is related to its
successor. -/
theorem pairwise_next {nxt : Nat → Option Nat} {R : Nat → Nat → Prop} {head : Option Nat}
    {l : List Nat} (hl : IsLinked nxt head l) (hp : l.Pairwise R) (a n : Nat) (ha : a ∈ l)
    (hn : nxt a = some n) : R a n := by
  obtain ⟨p, post, rfl⟩ := List.append_of_mem ha
  unfold IsLinked at hl
  rw [IsSeg_append] at hl
  obtain ⟨m, -, h2⟩ := hl
  have h3 : nxt a = post.head? := IsSeg_head (l := post) h2.2
  rw [hn] at h3
  have hmem : n ∈ post := List.mem_of_mem_head? h3.symm
  rw [List.pairwise_append] at hp
  exact (List.pairwise_cons.mp hp.2.1).1 n hmem

/-- C6: the intersection list stays sorted.  Starting from an empty list (and a well-formed
free list), any sequence of `AddIntersection` calls for one partition returns, and leaves a
list whose `next` links give the records `l`, whose `prev` links give `l` backwards, and
which is in ascending `along_dist` order; so for no record `cur` of the list with a
successor `next` is `next.along_dist - cur.along_dist < -0.01`, the "Bad order in
intersect list" test of `AddMinisegs`. -/
theorem AddIntersection_keeps_list_sorted (eps : ℚ)
    (VertexCheckOpen : Nat → ℚ → ℚ → Bool) (part : seg_t)
    (calls : List (Nat × Bool × Int)) (L : Level) (fl : List Nat) (hfree : L.FreeCuts fl) :
    ∃ L1 head1 l1,
      AddIntersections eps VertexCheckOpen part calls L none = some (L1, head1) ∧
      L1.CutList head1 l1 ∧ L1.CutsSorted l1 ∧
      ∀ cur ∈ l1, ∀ next, (L1.cuts cur).next = some next →
        ¬ ((L1.cuts next).along_dist - (L1.cuts cur).along_dist < -(1 / 100)) := by
  obtain ⟨L1, head1, l1, fl1, e, ⟨hlist, hsort, -, -⟩, -, -, -⟩ :=
    AddIntersections_inv eps VertexCheckOpen part calls L none [] fl
      ⟨⟨rfl, rfl, List.nodup_nil, fun c hc => absurd hc (List.not_mem_nil _)⟩,
        List.Pairwise.nil, hfree, fun c hc => absurd hc (List.not_mem_nil _)⟩
      List.Pairwise.nil (fun c hc => absurd hc (List.not_mem_nil _))
  refine ⟨L1, head1, l1, e, hlist, hsort, ?_⟩
  intro cur hcur next hnext hbad
  have hle : (L1.cuts cur).along_dist ≤ (L1.cuts next).along_dist :=
    pairwise_next hlist.1 hsort cur next hcur hnext
  linarith

/-- Three calls on the level of three vertical segs, with seg 0 as the partition: the
vertices 1, 0 and 3 (the last merges with the record of vertex 1). -/
theorem AddIntersection_keeps_list_sorted_witness :
    demoThree.FreeCuts [] ∧
    ∃ L1 head1 l1,
      AddIntersections (1 / 128) (fun _ _ _ => true) (demoThree.lev_segs 0)
        [(1, false, 0), (0, false, 0), (3, false, 0)] demoThree none = some (L1, head1) ∧
      L1.CutList head1 l1 ∧ L1.CutsSorted l1 ∧
      ∀ cur ∈ l1, ∀ next, (L1.cuts cur).next = some next →
        ¬ ((L1.cuts next).along_dist - (L1.cuts cur).along_dist < -(1 / 100)) :=
  ⟨by decide, AddIntersection_keeps_list_sorted (1 / 128) (fun _ _ _ => true)
    (demoThree.lev_segs 0) [(1, false, 0), (0, false, 0), (3, false, 0)] demoThree []
    (by decide)⟩

/-! ### `AddMinisegs` -/

/-- `AddMinisegPair` returns when the two vertices differ in position (so that neither
`RecomputeSeg` meets a zero length). -/
theorem AddMinisegPair_total (hypot : ℚ → ℚ → ℚ)
    (hpos : ∀ dx dy : ℚ, (dx ≠ 0 ∨ dy ≠ 0) → 0 < hypot dx dy) (L : Level)
    (part cur next : Nat) (left_list right_list : Option Nat) (hpart : part < L.num_segs)
    (hdiff : L.PairApart (cur, next)) :
    ∃ r, AddMinisegPair hypot L part cur next left_list right_list = some r := by
  have hne : L.num_segs ≠ L.num_segs + 1 := by omega
  have hp1 : part ≠ L.num_segs := Nat.ne_of_lt hpart
  have hp2 : part ≠ L.num_segs + 1 := by omega
  unfold AddMinisegPair
  lift_lets
  extract_lets r1 seg r2 buddy L1 L2 L3 L4 L5 L6 L7
  have hseg : seg = L.num_segs := rfl
  have hbud : buddy = L.num_segs + 1 := rfl
  have h2 : ∀ j, r2.1.lev_segs j = if j = L.num_segs + 1 then seg_t.zero
      else if j = L.num_segs then seg_t.zero else L.lev_segs j := by
    intro j; simp [r2, r1, Function.update_apply]
  have h6 : ∀ j, L6.lev_segs j =
      if j = L.num_segs then
        { seg_t.zero with partner := some (L.num_segs + 1),
                          start := (L.cuts cur).vertex, end_ := (L.cuts next).vertex,
                          index := -1, linedef := -1 }
      else if j = L.num_segs + 1 then
        { seg_t.zero with partner := some L.num_segs,
                          start := (L.cuts next).vertex, end_ := (L.cuts cur).vertex,
                          index := -1, linedef := -1 }
      else L.lev_segs j := by
    intro j
    simp only [L6, L5, L4, L3, L2, L1, modSeg_apply, modSeg_cuts, h2, hseg, hbud,
      if_neg hne, if_neg hne.symm, if_true]
    split_ifs <;> rfl
  have h7 : ∀ j, L7.lev_segs j =
      if j = L.num_segs then
        { seg_t.zero with partner := some (L.num_segs + 1),
                          start := (L.cuts cur).vertex, end_ := (L.cuts next).vertex,
                          index := -1, linedef := -1,
                          source_line := (L.lev_segs part).linedef }
      else if j = L.num_segs + 1 then
        { seg_t.zero with partner := some L.num_segs,
                          start := (L.cuts next).vertex, end_ := (L.cuts cur).vertex,
                          index := -1, linedef := -1,
                          source_line := (L.lev_segs part).linedef }
      else L.lev_segs j := by
    intro j
    simp only [L7, modSeg_apply, h6, hseg, hbud, if_neg hne, if_neg hne.symm, if_true,
      if_neg hp1, if_neg hp2]
    split_ifs <;> rfl
  have hv7 : L7.lev_vertices = L.lev_vertices := by
    simp only [L7, L6, L5, L4, L3, L2, L1, modSeg_lev_vertices, r2, NewSeg_fst_lev_vertices, r1]
  have hd1 : (L.lev_vertices (L.cuts next).vertex).x - (L.lev_vertices (L.cuts cur).vertex).x ≠ 0
      ∨ (L.lev_vertices (L.cuts next).vertex).y - (L.lev_vertices (L.cuts cur).vertex).y ≠ 0 := by
    rcases hdiff with h | h
    · exact Or.inl (sub_ne_zero.mpr (Ne.symm h))
    · exact Or.inr (sub_ne_zero.mpr (Ne.symm h))
  have hd2 : (L.lev_vertices (L.cuts cur).vertex).x - (L.lev_vertices (L.cuts next).vertex).x ≠ 0
      ∨ (L.lev_vertices (L.cuts cur).vertex).y - (L.lev_vertices (L.cuts next).vertex).y ≠ 0 := by
    rcases hdiff with h | h
    · exact Or.inl (sub_ne_zero.mpr h)
    · exact Or.inr (sub_ne_zero.mpr h)
  have e8 := @RecomputeSeg_of_pos hypot L7 seg (by
    rw [hseg, h7, if_pos rfl, RecomputeFields_congr hypot hv7]
    exact hpos _ _ hd1)
  have key : ∀ X : seg_t, 0 < (RecomputeFields hypot (L7.setSeg seg X)
      ((L7.setSeg seg X).lev_segs buddy)).p_length := by
    intro X
    have hv8 : (L7.setSeg seg X).lev_vertices = L.lev_vertices := by
      rw [setSeg_lev_vertices]; exact hv7
    rw [RecomputeFields_congr hypot hv8, setSeg_apply, hbud, hseg, if_neg hne.symm, h7,
      if_neg hne.symm, if_pos rfl]
    exact hpos _ _ hd2
  have e9 := @RecomputeSeg_of_pos hypot
    (L7.setSeg seg (RecomputeFields hypot L7 (L7.lev_segs seg))) buddy (key _)
  rw [e8, Option.some_bind, e9, Option.some_bind]
  exact ⟨_, rfl⟩

theorem openPairs_cons_cons (L : Level) (c n : Nat) (rest : List Nat) :
    L.openPairs (c :: n :: rest) =
      if (L.cuts c).open_after = true ∧ (L.cuts n).open_before = true then
        (c, n) :: L.openPairs (n :: rest)
      else L.openPairs (n :: rest) := rfl

theorem openPairs_congr (L L' : Level) (h : L'.cuts = L.cuts) (l : List Nat) :
    L'.openPairs l = L.openPairs l := by
  induction l with
  | nil => rfl
  | cons c l ih =>
    cases l with
    | nil => rfl
    | cons n rest =>
      rw [openPairs_cons_cons, openPairs_cons_cons, ih, h]

theorem RecomputeFields_keeps (hypot : ℚ → ℚ → ℚ) (L : Level) (s : seg_t) :
    (RecomputeFields hypot L s).next = s.next ∧
    (RecomputeFields hypot L s).start = s.start ∧
    (RecomputeFields hypot L s).end_ = s.end_ ∧
    (RecomputeFields hypot L s).partner = s.partner ∧
    (RecomputeFields hypot L s).linedef = s.linedef ∧
    (RecomputeFields hypot L s).index = s.index ∧
    (RecomputeFields hypot L s).source_line = s.source_line :=
  ⟨rfl, rfl, rfl, rfl, rfl, rfl, rfl⟩

theorem bool_both (a b : Bool) (h1 : (a || b) = true) (h2 : a = b) :
    a = true ∧ b = true := by
  cases a <;> cases b <;> simp_all

/-- The loop of `AddMinisegs` over an ascending list: it returns, leaves the intersection
records and the old segs alone, and creates one miniseg pair for each adjacent pair of
records with `open_after` and `open_before` both true, each prepended to the lists. -/
theorem AddMinisegsLoop_spec (hypot : ℚ → ℚ → ℚ)
    (hpos : ∀ dx dy : ℚ, (dx ≠ 0 ∨ dy ≠ 0) → 0 < hypot dx dy) (part : Nat) (fuel : Nat) :
    ∀ (L : Level) (cur : Option Nat) (l : List Nat) (left right : Option Nat),
      IsLinked (fun i => (L.cuts i).next) cur l → l.length < fuel → L.CutsSorted l →
      part < L.num_segs → (∀ cn ∈ L.openPairs l, L.PairApart cn) →
      ∃ L1 left1 right1, ∃ segs : List (Nat × Nat),
        AddMinisegsLoop hypot part fuel L cur left right = some (L1, left1, right1) ∧
        L1.cuts = L.cuts ∧ L1.num_cuts = L.num_cuts ∧
        L1.quick_alloc_cuts = L.quick_alloc_cuts ∧
        L1.lev_vertices = L.lev_vertices ∧
        L1.num_segs = L.num_segs + 2 * segs.length ∧
        (∀ i, i < L.num_segs → L1.lev_segs i = L.lev_segs i) ∧
        List.Forall₂ (fun sb cn =>
          L1.MinisegPair part sb ((L.cuts cn.1).vertex, (L.cuts cn.2).vertex))
          segs (L.openPairs l) ∧
        IsSeg L1.segNext right1 (segs.map Prod.fst).reverse right ∧
        IsSeg L1.segNext left1 (segs.map Prod.snd).reverse left ∧
        (∀ sb ∈ segs, L.num_segs ≤ sb.1 ∧ L.num_segs ≤ sb.2 ∧ sb.1 ≠ sb.2) := by
  induction fuel with
  | zero => intro L cur l _ _ _ h; exact absurd h (Nat.not_lt_zero _)
  | succ fuel ih =>
    intro L cur l left right hl hlen hsort hpart hdiff
    cases l with
    | nil =>
      have : cur = none := hl
      subst this
      exact ⟨L, left, right, [], rfl, rfl, rfl, rfl, rfl, rfl, fun _ _ => rfl,
        List.Forall₂.nil, rfl, rfl, fun sb h => absurd h (List.not_mem_nil _)⟩
    | cons c l1 =>
      obtain ⟨h1, h2⟩ := hl
      subst h1
      cases l1 with
      | nil =>
        have h3 : (L.cuts c).next = none := h2
        refine ⟨L, left, right, [], ?_, rfl, rfl, rfl, rfl, rfl, fun _ _ => rfl,
          List.Forall₂.nil, rfl, rfl, fun sb h => absurd h (List.not_mem_nil _)⟩
        simp only [AddMinisegsLoop, h3]
      | cons n rest =>
        have hnext : (L.cuts c).next = some n := h2.1
        have hl2 : IsLinked (fun i => (L.cuts i).next) (some n) (n :: rest) :=
          ⟨rfl, h2.2⟩
        have hlen2 : (n :: rest).length < fuel := by
          simp only [List.length_cons] at hlen ⊢
          omega
        have hsort2 : L.CutsSorted (n :: rest) := (List.pairwise_cons.mp hsort).2
        have hord : ¬ ((L.cuts n).along_dist - (L.cuts c).along_dist < -(1 / 100)) := by
          have := (List.pairwise_cons.mp hsort).1 n (List.mem_cons_self _ _)
          intro hbad
          linarith
        simp only [AddMinisegsLoop, hnext]
        rw [if_neg hord]
        by_cases hAB : (L.cuts c).open_after = true ∧ (L.cuts n).open_before = true
        · -- a miniseg pair
          obtain ⟨hA, hB⟩ := hAB
          rw [openPairs_cons_cons, if_pos ⟨hA, hB⟩] at hdiff
          obtain ⟨st, hst⟩ := AddMinisegPair_total hypot hpos L part c n left right hpart
            (hdiff (c, n) (List.mem_cons_self _ _))
          obtain ⟨La, la, ra⟩ := st
          obtain ⟨p1, p2, p3, p4, p5, p6, p7, p8, p9, p10⟩ := AddMinisegPair_post hpart hst
          have hstep : (if ¬ ((L.cuts c).open_after || (L.cuts n).open_before) = true then
                AddMinisegsLoop hypot part fuel L (some n) left right
              else if (L.cuts c).open_after ≠ (L.cuts n).open_before then
                AddMinisegsLoop hypot part fuel L (some n) left right
              else
                (AddMinisegPair hypot L part c n left right).bind fun st =>
                  AddMinisegsLoop hypot part fuel st.1 (st.1.cuts c).next st.2.1 st.2.2) =
              AddMinisegsLoop hypot part fuel La (some n) la ra := by
            rw [hA, hB, if_neg (by decide), if_neg (by decide), hst, Option.some_bind]
            show AddMinisegsLoop hypot part fuel La (La.cuts c).next la ra = _
            rw [p4, hnext]
          rw [hstep]
          obtain ⟨L1, left1, right1, segs, e, q1, q2, q3, q4, q5, q6, q7, q8, q9, q10⟩ :=
            ih La (some n) (n :: rest) la ra (by rw [p4]; exact hl2) hlen2
              (by unfold Level.CutsSorted at hsort2 ⊢; rw [p4]; exact hsort2)
              (by omega)
              (by
                intro cn hcn
                rw [openPairs_congr L La p4] at hcn
                unfold Level.PairApart
                rw [p4, p7]
                exact hdiff cn (List.mem_cons_of_mem _ hcn))
          have hs1 : L1.lev_segs L.num_segs = La.lev_segs L.num_segs := q6 _ (by omega)
          have hs2 : L1.lev_segs (L.num_segs + 1) = La.lev_segs (L.num_segs + 1) :=
            q6 _ (by omega)
          have hk1 := RecomputeFields_keeps hypot L
            { seg_t.zero with next := right, partner := some (L.num_segs + 1),
                              start := (L.cuts c).vertex, end_ := (L.cuts n).vertex,
                              index := -1, linedef := -1,
                              source_line := (L.lev_segs part).linedef }
          have hk2 := RecomputeFields_keeps hypot L
            { seg_t.zero with next := left, partner := some L.num_segs,
                              start := (L.cuts n).vertex, end_ := (L.cuts c).vertex,
                              index := -1, linedef := -1,
                              source_line := (L.lev_segs part).linedef }
          rw [← p9] at hk1
          rw [← p10] at hk2
          rw [← hs1] at hk1
          rw [← hs2] at hk2
          have hpartseg : L1.lev_segs part = L.lev_segs part := by
            rw [q6 part (by omega), p8 part (by omega) (by omega)]
          refine ⟨L1, left1, right1, (L.num_segs, L.num_segs + 1) :: segs, e, by rw [q1, p4],
            by rw [q2, p5], by rw [q3, p6], by rw [q4, p7], ?_, ?_, ?_, ?_, ?_, ?_⟩
          · rw [q5, p3]; simp only [List.length_cons]; omega
          · intro i hi
            rw [q6 i (by omega), p8 i (by omega) (by omega)]
          · rw [openPairs_cons_cons, if_pos ⟨hA, hB⟩]
            refine List.Forall₂.cons ?_ ?_
            · unfold Level.MinisegPair
              rw [hpartseg]
              exact ⟨hk1.2.1, hk1.2.2.1, hk2.2.1, hk2.2.2.1, hk1.2.2.2.1, hk2.2.2.2.1,
                hk1.2.2.2.2.1, hk2.2.2.2.2.1, hk1.2.2.2.2.2.1, hk2.2.2.2.2.2.1,
                hk1.2.2.2.2.2.2, hk2.2.2.2.2.2.2⟩
            · rw [openPairs_congr L La p4] at q7
              refine q7.imp ?_
              intro sb cn h
              rw [p4] at h
              exact h
          · simp only [List.map_cons, List.reverse_cons]
            rw [IsSeg_snoc]
            refine ⟨by rw [p2] at q8; exact q8, ?_⟩
            show (L1.lev_segs L.num_segs).next = right
            exact hk1.1
          · simp only [List.map_cons, List.reverse_cons]
            rw [IsSeg_snoc]
            refine ⟨by rw [p1] at q9; exact q9, ?_⟩
            show (L1.lev_segs (L.num_segs + 1)).next = left
            exact hk2.1
          · intro sb hsb
            rcases List.mem_cons.mp hsb with rfl | hsb
            · exact ⟨le_refl _, by simp, by simp⟩
            · obtain ⟨a, b, c⟩ := q10 sb hsb
              exact ⟨by omega, by omega, c⟩
        · -- no pair here
          have hstep : (if ¬ ((L.cuts c).open_after || (L.cuts n).open_before) = true then
                AddMinisegsLoop hypot part fuel L (some n) left right
              else if (L.cuts c).open_after ≠ (L.cuts n).open_before then
                AddMinisegsLoop hypot part fuel L (some n) left right
              else
                (AddMinisegPair hypot L part c n left right).bind fun st =>
                  AddMinisegsLoop hypot part fuel st.1 (st.1.cuts c).next st.2.1 st.2.2) =
              AddMinisegsLoop hypot part fuel L (some n) left right := by
            by_cases g1 : ((L.cuts c).open_after || (L.cuts n).open_before) = true
            · rw [if_neg (not_not.mpr g1)]
              have g2 : (L.cuts c).open_after ≠ (L.cuts n).open_before :=
                fun e => hAB (bool_both _ _ g1 e)
              rw [if_pos g2]
            · rw [if_pos g1]
          rw [hstep]
          rw [openPairs_cons_cons, if_neg hAB] at hdiff ⊢
          exact ih L (some n) (n :: rest) left right hl2 hlen2 hsort2 hpart hdiff

theorem AddMinisegsFree_total (fuel : Nat) :
    ∀ (l : List Nat) (L : Level) (cur : Option Nat),
      IsLinked (fun i => (L.cuts i).next) cur l → l.Nodup → l.length < fuel →
      ∃ L1, AddMinisegsFree fuel L cur = some L1 := by
  induction fuel with
  | zero => intro l L cur _ _ h; exact absurd h (Nat.not_lt_zero _)
  | succ fuel ih =>
    intro l L cur hl hd hlen
    cases l with
    | nil =>
      have : cur = none := hl
      subst this
      exact ⟨L, rfl⟩
    | cons c rest =>
      obtain ⟨h1, h2⟩ := hl
      subst h1
      simp only [AddMinisegsFree]
      refine ih rest _ _ ?_ (List.nodup_cons.mp hd).2 (by
        simp only [List.length_cons] at hlen; omega)
      refine (IsSeg_congr (fun i hi => ?_)).mpr h2
      have hic : i ≠ c := fun e => (List.nodup_cons.mp hd).1 (e ▸ hi)
      show (((L.modCut c fun x => { x with next := L.quick_alloc_cuts }).cuts i)).next =
        (L.cuts i).next
      rw [modCut_apply, if_neg hic]

theorem MinisegPair_congr {L L' : Level} (h : L'.lev_segs = L.lev_segs) (part : Nat)
    (sb v : Nat × Nat) (hp : L.MinisegPair part sb v) : L'.MinisegPair part sb v := by
  unfold Level.MinisegPair at hp ⊢
  rw [h]
  exact hp

/-- `AddMinisegs` on a well-formed, ascending intersection list whose open gaps join
vertices at different positions: it returns, creates exactly one miniseg pair for each
adjacent pair of records with `open_after` and `open_before` both true, prepends the segs
to the right list and the buddies to the left list, and leaves the old segs alone. -/
theorem AddMinisegs_spec (hypot : ℚ → ℚ → ℚ)
    (hpos : ∀ dx dy : ℚ, (dx ≠ 0 ∨ dy ≠ 0) → 0 < hypot dx dy) (L : Level)
    (cut_list : Option Nat) (l : List Nat) (part : Nat) (left right : Option Nat)
    (hlist : L.CutList cut_list l) (hsort : L.CutsSorted l) (hpart : part < L.num_segs)
    (hdiff : ∀ cn ∈ L.openPairs l, L.PairApart cn) :
    ∃ L1 left1 right1, ∃ segs : List (Nat × Nat),
      AddMinisegs hypot L cut_list part left right = some (L1, left1, right1) ∧
      L1.lev_vertices = L.lev_vertices ∧
      L1.num_segs = L.num_segs + 2 * segs.length ∧
      (∀ i, i < L.num_segs → L1.lev_segs i = L.lev_segs i) ∧
      List.Forall₂ (fun sb cn =>
        L1.MinisegPair part sb ((L.cuts cn.1).vertex, (L.cuts cn.2).vertex))
        segs (L.openPairs l) ∧
      IsSeg L1.segNext right1 (segs.map Prod.fst).reverse right ∧
      IsSeg L1.segNext left1 (segs.map Prod.snd).reverse left ∧
      (∀ sb ∈ segs, L.num_segs ≤ sb.1 ∧ L.num_segs ≤ sb.2 ∧ sb.1 ≠ sb.2) := by
  obtain ⟨c1, c2, c3, c4⟩ := hlist
  cases cut_list with
  | none =>
    have hl : l = [] := by
      cases l with
      | nil => rfl
      | cons a l => exact absurd c1.1 (by simp)
    subst hl
    exact ⟨L, left, right, [], rfl, rfl, rfl, fun _ _ => rfl, List.Forall₂.nil, rfl, rfl,
      fun sb h => absurd h (List.not_mem_nil _)⟩
  | some h =>
    have hlen : l.length < L.num_cuts + 1 := Nat.lt_succ_of_le (length_le_of_nodup_lt c3 c4)
    obtain ⟨La, la, ra, segs, e, q1, q2, q3, q4, q5, q6, q7, q8, q9, q10⟩ :=
      AddMinisegsLoop_spec hypot hpos part (L.num_cuts + 1) L (some h) l left right c1 hlen
        hsort hpart hdiff
    obtain ⟨Lb, eb⟩ := AddMinisegsFree_total (La.num_cuts + 1) l La (some h)
      (by rw [q1]; exact c1) c3 (by rw [q2]; exact hlen)
    obtain ⟨f1, f2, f3⟩ := AddMinisegsFree_segs _ _ _ _ eb
    have hnext : Lb.segNext = La.segNext := by
      funext i
      unfold Level.segNext
      rw [f1]
    refine ⟨Lb, la, ra, segs, ?_, by rw [f3, q4], by rw [f2, q5],
      fun i hi => by rw [f1]; exact q6 i hi, ?_, by rw [hnext]; exact q8,
      by rw [hnext]; exact q9, q10⟩
    · simp only [AddMinisegs]
      rw [e, Option.some_bind, eb]
      rfl
    · exact q7.imp (fun sb cn hp => MinisegPair_congr f1 part sb _ hp)

theorem demoHypot_pos (dx dy : ℚ) (h : dx ≠ 0 ∨ dy ≠ 0) : 0 < demoHypot dx dy := by
  unfold demoHypot
  rcases h with h | h
  · exact add_pos_of_pos_of_nonneg (abs_pos.mpr h) (abs_nonneg _)
  · exact add_pos_of_nonneg_of_pos (abs_nonneg _) (abs_pos.mpr h)

/-- C7: `AddMinisegs` creates a miniseg pair for an adjacent pair `(C, N)` of the cut list
if and only if `C.open_after` and `N.open_before` are both true.  On a well-formed,
ascending list whose open gaps join vertices at different positions (so that no
`BugError` is met) it returns; the created pairs `segs` correspond one to one, in order,
to the adjacent pairs with both flags true; each pair is a seg from `C.vertex` to
`N.vertex` and a buddy from `N.vertex` to `C.vertex`, partners of each other, both with
`linedef = -1`, `index = -1` and `source_line = part.linedef`; exactly these segs are
created; the segs are prepended to the right list and the buddies to the left list, and
the segs already on the two lists are kept. -/
theorem AddMinisegs_creates_pairs_for_open_gaps (hypot : ℚ → ℚ → ℚ)
    (hpos : ∀ dx dy : ℚ, (dx ≠ 0 ∨ dy ≠ 0) → 0 < hypot dx dy) (L : Level)
    (cut_list : Option Nat) (l : List Nat) (part : Nat) (left right : Option Nat)
    (ll rl : List Nat)
    (hlist : L.CutList cut_list l) (hsort : L.CutsSorted l) (hpart : part < L.num_segs)
    (hdiff : ∀ cn ∈ L.openPairs l, L.PairApart cn)
    (hleft : IsLinked L.segNext left ll) (hright : IsLinked L.segNext right rl)
    (hll : ∀ s ∈ ll, s < L.num_segs) (hrl : ∀ s ∈ rl, s < L.num_segs) :
    ∃ L1 left1 right1, ∃ segs : List (Nat × Nat),
      AddMinisegs hypot L cut_list part left right = some (L1, left1, right1) ∧
      List.Forall₂ (fun sb cn =>
        L1.MinisegPair part sb ((L.cuts cn.1).vertex, (L.cuts cn.2).vertex))
        segs (L.openPairs l) ∧
      L1.num_segs = L.num_segs + 2 * segs.length ∧
      (∀ i, i < L.num_segs → L1.lev_segs i = L.lev_segs i) ∧
      IsLinked L1.segNext right1 ((segs.map Prod.fst).reverse ++ rl) ∧
      IsLinked L1.segNext left1 ((segs.map Prod.snd).reverse ++ ll) := by
  obtain ⟨L1, left1, right1, segs, e, -, q2, q3, q4, q5, q6, -⟩ :=
    AddMinisegs_spec hypot hpos L cut_list l part left right hlist hsort hpart hdiff
  refine ⟨L1, left1, right1, segs, e, q4, q2, q3, ?_, ?_⟩
  · unfold IsLinked
    rw [IsSeg_append]
    refine ⟨right, q5, (IsSeg_congr (fun a ha => ?_)).mpr hright⟩
    unfold Level.segNext
    rw [q3 a (hrl a ha)]
  · unfold IsLinked
    rw [IsSeg_append]
    refine ⟨left, q6, (IsSeg_congr (fun a ha => ?_)).mpr hleft⟩
    unfold Level.segNext
    rw [q3 a (hll a ha)]

/-- On the demo level with the records of the vertices 0 and 1, both open, `AddMinisegs`
for the partition seg 0 with the right list `0, 1, 2` and an empty left list creates one
pair. -/
theorem AddMinisegs_creates_pairs_for_open_gaps_witness :
    demoCuts.1.CutList demoCuts.2 [1, 0] ∧ demoCuts.1.CutsSorted [1, 0] ∧
    0 < demoCuts.1.num_segs ∧ demoCuts.1.openPairs [1, 0] = [(1, 0)] ∧
    ∃ L1 left1 right1, ∃ segs : List (Nat × Nat),
      AddMinisegs demoHypot demoCuts.1 demoCuts.2 0 none (some 0) =
        some (L1, left1, right1) ∧
      List.Forall₂ (fun sb cn =>
        L1.MinisegPair 0 sb ((demoCuts.1.cuts cn.1).vertex, (demoCuts.1.cuts cn.2).vertex))
        segs (demoCuts.1.openPairs [1, 0]) ∧
      L1.num_segs = demoCuts.1.num_segs + 2 * segs.length ∧
      (∀ i, i < demoCuts.1.num_segs → L1.lev_segs i = demoCuts.1.lev_segs i) ∧
      IsLinked L1.segNext right1 ((segs.map Prod.fst).reverse ++ [0, 1, 2]) ∧
      IsLinked L1.segNext left1 ((segs.map Prod.snd).reverse ++ []) :=
  ⟨by decide!, by decide!, by decide!, by decide!,
    AddMinisegs_creates_pairs_for_open_gaps demoHypot demoHypot_pos demoCuts.1 demoCuts.2
      [1, 0] 0 none (some 0) [] [0, 1, 2] (by decide!) (by decide!) (by decide!)
      (by decide!) (by decide!) (by decide!) (by decide!) (by decide!)⟩

/-- Two points whose distances along a partition of exact length differ by at least
`eps` are at least `eps` apart. -/
theorem along_gap (part : seg_t) (hlen : 0 < part.p_length)
    (hex : part.p_length ^ 2 = part.pdx ^ 2 + part.pdy ^ 2) (x1 y1 x2 y2 eps : ℚ)
    (heps : 0 ≤ eps) (h : eps ≤ |part.ParallelDist x1 y1 - part.ParallelDist x2 y2|) :
    eps ^ 2 ≤ (x1 - x2) ^ 2 + (y1 - y2) ^ 2 := by
  have hne : part.p_length ≠ 0 := ne_of_gt hlen
  have hd : part.ParallelDist x1 y1 - part.ParallelDist x2 y2 =
      ((x1 - x2) * part.pdx + (y1 - y2) * part.pdy) / part.p_length := by
    unfold seg_t.ParallelDist
    field_simp
    ring
  rw [hd] at h
  have h1 : eps ^ 2 ≤ (((x1 - x2) * part.pdx + (y1 - y2) * part.pdy) / part.p_length) ^ 2 := by
    rw [← sq_abs (((x1 - x2) * part.pdx + (y1 - y2) * part.pdy) / part.p_length)]
    exact pow_le_pow_left heps h 2
  have h2 : (((x1 - x2) * part.pdx + (y1 - y2) * part.pdy) / part.p_length) ^ 2 *
      part.p_length ^ 2 = ((x1 - x2) * part.pdx + (y1 - y2) * part.pdy) ^ 2 := by
    field_simp
  have cs : ((x1 - x2) * part.pdx + (y1 - y2) * part.pdy) ^ 2 ≤
      ((x1 - x2) ^ 2 + (y1 - y2) ^ 2) * part.p_length ^ 2 := by
    rw [hex]
    nlinarith [sq_nonneg ((x1 - x2) * part.pdy - (y1 - y2) * part.pdx)]
  have hl2 : 0 < part.p_length ^ 2 := by positivity
  have h3 : (((x1 - x2) * part.pdx + (y1 - y2) * part.pdy) / part.p_length) ^ 2 ≤
      (x1 - x2) ^ 2 + (y1 - y2) ^ 2 := by
    rw [← h2] at cs
    exact le_of_mul_le_mul_right cs hl2
  exact le_trans h1 h3

theorem AddIntersections_segs (eps : ℚ) (VertexCheckOpen : Nat → ℚ → ℚ → Bool)
    (part : seg_t) : ∀ (calls : List (Nat × Bool × Int)) (L : Level) (head : Option Nat)
      (r : Level × Option Nat),
      AddIntersections eps VertexCheckOpen part calls L head = some r →
      r.1.lev_segs = L.lev_segs ∧ r.1.num_segs = L.num_segs := by
  intro calls
  induction calls with
  | nil =>
    intro L head r h
    have := Option.some.inj h
    subst this
    exact ⟨rfl, rfl⟩
  | cons call rest ih =>
    intro L head r h
    simp only [AddIntersections, Option.bind_eq_some] at h
    obtain ⟨st, h1, h2⟩ := h
    obtain ⟨a1, a2⟩ := AddIntersection_segs h1
    obtain ⟨b1, b2⟩ := ih st.1 st.2 r h2
    exact ⟨by rw [b1, a1], by rw [b2, a2]⟩

theorem openPairs_mem (L : Level) : ∀ (l : List Nat) (cn : Nat × Nat), l.Nodup →
    cn ∈ L.openPairs l → cn.1 ∈ l ∧ cn.2 ∈ l ∧ cn.1 ≠ cn.2 := by
  intro l
  induction l with
  | nil => intro cn _ h; exact absurd h (List.not_mem_nil _)
  | cons c l ih =>
    intro cn hd h
    cases l with
    | nil => exact absurd h (List.not_mem_nil _)
    | cons n rest =>
      rw [openPairs_cons_cons] at h
      have hrest : cn ∈ L.openPairs (n :: rest) → cn.1 ∈ c :: n :: rest ∧
          cn.2 ∈ c :: n :: rest ∧ cn.1 ≠ cn.2 := by
        intro hm
        obtain ⟨a, b, e⟩ := ih cn (List.nodup_cons.mp hd).2 hm
        exact ⟨List.mem_cons_of_mem _ a, List.mem_cons_of_mem _ b, e⟩
      split_ifs at h with hc
      · rcases List.mem_cons.mp h with rfl | hm
        · refine ⟨List.mem_cons_self _ _, List.mem_cons_of_mem _ (List.mem_cons_self _ _), ?_⟩
          intro e
          exact (List.nodup_cons.mp hd).1 (by
            show c ∈ n :: rest
            have : c = n := e
            rw [this]; exact List.mem_cons_self _ _)
        · exact hrest hm
      · exact hrest h

/-- In a separated list, any two different records have different vertices and lie at
least `eps` apart along the partition. -/
theorem CutsApart_apply (L : Level) (eps : ℚ) (l : List Nat) (h : L.CutsApart eps l)
    (a b : Nat) (ha : a ∈ l) (hb : b ∈ l) (hab : a ≠ b) :
    (L.cuts a).vertex ≠ (L.cuts b).vertex ∧
      eps ≤ |(L.cuts a).along_dist - (L.cuts b).along_dist| := by
  unfold Level.CutsApart at h
  have hsym : ∀ x y : Nat, ((L.cuts x).vertex ≠ (L.cuts y).vertex ∧
      eps ≤ |(L.cuts x).along_dist - (L.cuts y).along_dist|) →
      ((L.cuts y).vertex ≠ (L.cuts x).vertex ∧
      eps ≤ |(L.cuts y).along_dist - (L.cuts x).along_dist|) := by
    intro x y hxy
    exact ⟨fun e => hxy.1 e.symm, by rw [abs_sub_comm]; exact hxy.2⟩
  exact List.Pairwise.forall (fun x y hxy => hsym x y hxy) h ha hb hab

theorem forall2_and_right {α β : Type} {R : α → β → Prop} {P : β → Prop} :
    ∀ {l1 : List α} {l2 : List β}, List.Forall₂ R l1 l2 → (∀ b ∈ l2, P b) →
      List.Forall₂ (fun a b => R a b ∧ P b) l1 l2 := by
  intro l1 l2 h
  induction h with
  | nil => intro _; exact List.Forall₂.nil
  | cons hp _ ih =>
    intro hm
    exact List.Forall₂.cons ⟨hp, hm _ (List.mem_cons_self _ _)⟩
      (ih (fun b hb => hm b (List.mem_cons_of_mem _ hb)))

theorem BuildNodes_cancelled_eq (DIST_EPSILON : ℚ) (factor : Int) (fast : Bool)
    (hypot : ℚ → ℚ → ℚ) (VertexCheckOpen : Nat → ℚ → ℚ → Bool) (doc : Document)
    (cancelled : Nat → Bool) (fuel : Nat) (L : Level) (clock : Nat) (list : Option Nat)
    (depth : Int) (h : cancelled clock = true) :
    BuildNodes DIST_EPSILON factor fast hypot VertexCheckOpen doc cancelled (fuel + 1) L clock
        list depth =
      some { ret := build_result_e.BUILD_Cancelled, L := L, clock := clock + 1,
             bounds := none, N := none, S := none } := by
  simp only [BuildNodes, h, if_true]

theorem modNode_apply (L : Level) (i j : Nat) (f : node_t → node_t) :
    (L.modNode i f).lev_nodes j = if j = i then f (L.lev_nodes i) else L.lev_nodes j := by
  simp [Level.modNode, Level.setNode, Function.update_apply]

/-- C8: cancellation.  If the cancelled flag is set when `BuildNodes` is entered, it
returns `BUILD_Cancelled` with `*N = NULL`, `*S = NULL`, and the level as it was (no node,
no subsector, no quadtree); and when the left recursion of a `BuildNodes` call returns a
result other than `BUILD_OK`, the call returns that result with only the left child of its
node written: the right child is as it was, and no node or subsector is created after the
left recursion. -/
theorem BuildNodes_cancellation (DIST_EPSILON : ℚ) (factor : Int) (fast : Bool)
    (hypot : ℚ → ℚ → ℚ) (VertexCheckOpen : Nat → ℚ → ℚ → Bool) (doc : Document)
    (cancelled : Nat → Bool) (fuel : Nat) (L : Level) (clock : Nat)
    (list lefts rights : Option Nat) (depth : Int) (node : Nat) (bounds : bbox_t) :
    (cancelled clock = true →
      BuildNodes DIST_EPSILON factor fast hypot VertexCheckOpen doc cancelled (fuel + 1) L
          clock list depth =
        some { ret := build_result_e.BUILD_Cancelled, L := L, clock := clock + 1,
               bounds := none, N := none, S := none }) ∧
    (∀ lo, BuildNodes DIST_EPSILON factor fast hypot VertexCheckOpen doc cancelled fuel L
          clock lefts (depth + 1) = some lo →
      lo.ret ≠ build_result_e.BUILD_OK →
      ∃ out, BuildNodesChildren
          (BuildNodes DIST_EPSILON factor fast hypot VertexCheckOpen doc cancelled fuel)
          L clock node lefts rights depth bounds = some out ∧
        out.ret = lo.ret ∧ out.N = some node ∧ out.S = none ∧
        out.L = (lo.L.modNode node fun n =>
          { n with l := { bounds := lo.bounds.getD n.l.bounds, node := lo.N,
                          subsec := lo.S } }) ∧
        out.L.num_nodes = lo.L.num_nodes ∧ out.L.num_subsecs = lo.L.num_subsecs ∧
        (out.L.lev_nodes node).r = (lo.L.lev_nodes node).r) := by
  refine ⟨BuildNodes_cancelled_eq DIST_EPSILON factor fast hypot VertexCheckOpen doc cancelled
    fuel L clock list depth, ?_⟩
  intro lo hlo hret
  refine ⟨{ ret := lo.ret,
            L := lo.L.modNode node fun n =>
              { n with l := { bounds := lo.bounds.getD n.l.bounds, node := lo.N,
                              subsec := lo.S } },
            clock := lo.clock, bounds := some bounds, N := some node, S := none },
    ?_, rfl, rfl, rfl, rfl, rfl, rfl, ?_⟩
  · unfold BuildNodesChildren
    rw [hlo, Option.some_bind]
    simp only []
    rw [if_pos hret]
  · simp only [modNode_apply, if_true]

/-- With the flag always set: a call returns at once, and a call whose left recursion is
cancelled hands that result up. -/
theorem BuildNodes_cancellation_witness :
    (BuildNodes (1 / 128) 11 false demoHypot (fun _ _ _ => true) demoThreeDoc
        (fun _ => true) 2 demoThree 0 (some 0) 0 =
      some { ret := build_result_e.BUILD_Cancelled, L := demoThree, clock := 1,
             bounds := none, N := none, S := none }) ∧
    ∃ lo, BuildNodes (1 / 128) 11 false demoHypot (fun _ _ _ => true) demoThreeDoc
        (fun _ => true) 1 demoThree 0 (some 0) (0 + 1) = some lo ∧
      lo.ret ≠ build_result_e.BUILD_OK ∧
      ∃ out, BuildNodesChildren
          (BuildNodes (1 / 128) 11 false demoHypot (fun _ _ _ => true) demoThreeDoc
            (fun _ => true) 1)
          demoThree 0 0 (some 0) (some 1) 0 bbox_t.zero = some out ∧
        out.ret = lo.ret ∧ out.N = some 0 ∧ out.S = none ∧
        out.L = (lo.L.modNode 0 fun n =>
          { n with l := { bounds := lo.bounds.getD n.l.bounds, node := lo.N,
                          subsec := lo.S } }) ∧
        out.L.num_nodes = lo.L.num_nodes ∧ out.L.num_subsecs = lo.L.num_subsecs ∧
        (out.L.lev_nodes 0).r = (lo.L.lev_nodes 0).r :=
  ⟨(BuildNodes_cancellation (1 / 128) 11 false demoHypot (fun _ _ _ => true) demoThreeDoc
      (fun _ => true) 1 demoThree 0 (some 0) (some 0) (some 1) 0 0 bbox_t.zero).1 rfl,
    _, rfl, by decide,
    (BuildNodes_cancellation (1 / 128) 11 false demoHypot (fun _ _ _ => true) demoThreeDoc
      (fun _ => true) 1 demoThree 0 (some 0) (some 0) (some 1) 0 0 bbox_t.zero).2 _ rfl
      (by decide)⟩

/-! ### The builder leaves existing nodes alone -/

theorem SameNodes_refl (L : Level) : L.SameNodes L := ⟨rfl, rfl⟩

theorem SameNodes_trans {L L1 L2 : Level} (h1 : L.SameNodes L1) (h2 : L1.SameNodes L2) :
    L.SameNodes L2 := ⟨h2.1.trans h1.1, h2.2.trans h1.2⟩

theorem SameNodes_modSeg (L : Level) (i : Nat) (f : seg_t → seg_t) :
    L.SameNodes (L.modSeg i f) := ⟨rfl, rfl⟩

theorem SameNodes_setSeg (L : Level) (i : Nat) (s : seg_t) :
    L.SameNodes (L.setSeg i s) := ⟨rfl, rfl⟩

theorem SameNodes_modCut (L : Level) (i : Nat) (f : intersection_t → intersection_t) :
    L.SameNodes (L.modCut i f) := ⟨rfl, rfl⟩

theorem SameNodes_modSubsec (L : Level) (i : Nat) (f : subsec_t → subsec_t) :
    L.SameNodes (L.modSubsec i f) := ⟨rfl, rfl⟩

theorem modSeg_lev_nodes (L : Level) (i : Nat) (f : seg_t → seg_t) :
    (L.modSeg i f).lev_nodes = L.lev_nodes := rfl

theorem modSeg_num_nodes (L : Level) (i : Nat) (f : seg_t → seg_t) :
    (L.modSeg i f).num_nodes = L.num_nodes := rfl

theorem NewSeg_fst_lev_nodes (L : Level) : (NewSeg L).1.lev_nodes = L.lev_nodes := rfl

theorem NewSeg_fst_num_nodes (L : Level) : (NewSeg L).1.num_nodes = L.num_nodes := rfl

theorem SameNodes_NewSeg (L : Level) : L.SameNodes (NewSeg L).1 := ⟨rfl, rfl⟩

theorem SameNodes_NewSubsec (L : Level) : L.SameNodes (NewSubsec L).1 := ⟨rfl, rfl⟩

theorem SameNodes_NewVertexFromSplitSeg (L : Level) (s : Nat) (x y : ℚ) :
    L.SameNodes (NewVertexFromSplitSeg L s x y).1 := ⟨rfl, rfl⟩

theorem SameNodes_ListAddSeg (L : Level) (list : Option Nat) (seg : Nat) :
    L.SameNodes (ListAddSeg L list seg).1 := ⟨rfl, rfl⟩

theorem SameNodes_NewIntersection (L : Level) : L.SameNodes (NewIntersection L).1 := by
  unfold NewIntersection
  cases L.quick_alloc_cuts <;> exact ⟨rfl, rfl⟩

theorem SameNodes_RecomputeSeg {hypot : ℚ → ℚ → ℚ} {L L' : Level} {seg : Nat}
    (h : RecomputeSeg hypot L seg = some L') : L.SameNodes L' := by
  rw [(RecomputeSeg_eq_some h).1]
  exact ⟨rfl, rfl⟩

theorem SameNodes_SplitSegPartner {hypot : ℚ → ℚ → ℚ} {L L' : Level} {S T V : Nat}
    (h : SplitSegPartner hypot L S T V = some L') : L.SameNodes L' := by
  unfold SplitSegPartner at h
  simp only [Option.bind_eq_some] at h
  obtain ⟨L5, h5, L7, h7, hL'⟩ := h
  have e5 := SameNodes_RecomputeSeg h5
  have e7 := SameNodes_RecomputeSeg h7
  rw [← Option.some.inj hL']
  constructor
  · show L7.lev_nodes = _
    rw [e7.1]
    show L5.lev_nodes = _
    rw [e5.1]
    rfl
  · show L7.num_nodes = _
    rw [e7.2]
    show L5.num_nodes = _
    rw [e5.2]
    rfl

theorem SameNodes_SplitSeg {hypot : ℚ → ℚ → ℚ} {L : Level} {S : Nat} {x y : ℚ}
    {r : Level × Nat} (h : SplitSeg hypot L S x y = some r) : L.SameNodes r.1 := by
  unfold SplitSeg at h
  simp only [Option.bind_eq_some] at h
  obtain ⟨L4, h4, L6, h6, hr⟩ := h
  have e4 := SameNodes_RecomputeSeg h4
  have e6 := SameNodes_RecomputeSeg h6
  have n6 : L.SameNodes L6 := by
    constructor
    · rw [e6.1]
      show L4.lev_nodes = _
      rw [e4.1]
      rfl
    · rw [e6.2]
      show L4.num_nodes = _
      rw [e4.2]
      rfl
  cases hp : (L6.lev_segs S).partner with
  | none =>
    rw [hp] at hr
    rw [← Option.some.inj hr]
    exact n6
  | some p =>
    rw [hp] at hr
    simp only [Option.map_eq_some'] at hr
    obtain ⟨L7, h7, hr⟩ := hr
    rw [← hr]
    exact SameNodes_trans n6 (SameNodes_SplitSegPartner h7)

theorem SameNodes_forceClosed (L : Level) (cut : Nat) (fc : Int) :
    L.SameNodes (forceClosed L cut fc) := by
  unfold forceClosed
  split_ifs <;> exact ⟨rfl, rfl⟩

theorem SameNodes_AddIntersectionMerge (eps : ℚ) (vert : Nat) (along : ℚ) (ob oa : Bool)
    (fc : Int) (fuel : Nat) : ∀ (L : Level) (cut : Option Nat) (L' : Level),
      AddIntersectionMerge eps vert along ob oa fc fuel L cut = some (some L') →
      L.SameNodes L' := by
  induction fuel with
  | zero => intro L cut L' h; simp [AddIntersectionMerge] at h
  | succ fuel ih =>
    intro L cut L' h
    cases cut with
    | none => simp [AddIntersectionMerge] at h
    | some c =>
      simp only [AddIntersectionMerge] at h
      by_cases c1 : vert = (L.cuts c).vertex
      · rw [if_pos c1] at h
        rw [← Option.some.inj (Option.some.inj h)]
        exact SameNodes_forceClosed _ _ _
      · rw [if_neg c1] at h
        by_cases c2 : |along - (L.cuts c).along_dist| < eps
        · rw [if_pos c2] at h
          rw [← Option.some.inj (Option.some.inj h)]
          refine SameNodes_trans ?_ (SameNodes_forceClosed _ _ _)
          split_ifs <;> exact ⟨rfl, rfl⟩
        · rw [if_neg c2] at h
          exact ih L _ L' h

theorem SameNodes_AddIntersectionLink (L : Level) (cut_list : Option Nat) (cut : Nat)
    (after : Option Nat) : L.SameNodes (AddIntersectionLink L cut_list cut after).1 := by
  unfold AddIntersectionLink
  cases after with
  | none => cases cut_list <;> exact ⟨rfl, rfl⟩
  | some a =>
    simp only []
    split <;> exact ⟨rfl, rfl⟩

theorem SameNodes_AddIntersection {eps : ℚ} {VCO : Nat → ℚ → ℚ → Bool} {L : Level}
    {cut_list : Option Nat} {vert : Nat} {part : seg_t} {self_ref : Bool} {fc : Int}
    {r : Level × Option Nat}
    (h : AddIntersection eps VCO L cut_list vert part self_ref fc = some r) :
    L.SameNodes r.1 := by
  unfold AddIntersection at h
  simp only [Option.bind_eq_some] at h
  obtain ⟨merged, hm, h⟩ := h
  cases merged with
  | some L' =>
    simp only [Option.some.injEq] at h
    rw [← h]
    exact SameNodes_AddIntersectionMerge _ _ _ _ _ _ _ _ _ _ hm
  | none =>
    simp only [Option.bind_eq_some] at h
    obtain ⟨last, -, after, -, h⟩ := h
    rw [← Option.some.inj h]
    obtain ⟨e1, e2⟩ := SameNodes_AddIntersectionLink
      ((NewIntersection L).1.modCut (NewIntersection L).2 fun c => { c with
        vertex := vert
        along_dist := part.ParallelDist (L.lev_vertices vert).x (L.lev_vertices vert).y
        self_ref := self_ref
        open_before := if fc = 1 then false else VCO vert (-part.pdx) (-part.pdy)
        open_after := if fc = 2 then false else VCO vert part.pdx part.pdy })
      cut_list (NewIntersection L).2 after
    obtain ⟨n1, n2⟩ := SameNodes_NewIntersection L
    exact ⟨e1.trans n1, e2.trans n2⟩

theorem SameNodes_DivideOneSeg {eps : ℚ} {hypot : ℚ → ℚ → ℚ} {VCO : Nat → ℚ → ℚ → Bool}
    {doc : Document} {L : Level} {seg part : Nat} {ll rl cl : Option Nat}
    {r : Level × Option Nat × Option Nat × Option Nat}
    (h : DivideOneSeg eps hypot VCO doc L seg part ll rl cl = some r) : L.SameNodes r.1 := by
  obtain ⟨a, ha⟩ : ∃ a : ℚ, a =
      if (L.lev_segs seg).source_line = (L.lev_segs part).source_line then 0
      else (L.lev_segs part).PerpDist (L.lev_segs seg).psx (L.lev_segs seg).psy := ⟨_, rfl⟩
  obtain ⟨b, hb⟩ : ∃ b : ℚ, b =
      if (L.lev_segs seg).source_line = (L.lev_segs part).source_line then 0
      else (L.lev_segs part).PerpDist (L.lev_segs seg).pex (L.lev_segs seg).pey := ⟨_, rfl⟩
  unfold DivideOneSeg at h
  simp only [] at h
  rw [← ha, ← hb] at h
  by_cases c1 : |a| ≤ eps ∧ |b| ≤ eps
  · -- on the same line
    rw [if_pos c1] at h
    simp only [Option.bind_eq_some] at h
    obtain ⟨r1, h1, r2, h2, h⟩ := h
    have n2 := SameNodes_trans (SameNodes_AddIntersection h1) (SameNodes_AddIntersection h2)
    split_ifs at h
    · rw [← Option.some.inj h]
      exact ⟨n2.1, n2.2⟩
    · rw [← Option.some.inj h]
      exact ⟨n2.1, n2.2⟩
  · rw [if_neg c1] at h
    by_cases c2 : a > -eps ∧ b > -eps
    · -- right side
      rw [if_pos c2] at h
      simp only [Option.bind_eq_some] at h
      obtain ⟨r1, h1, h⟩ := h
      have n1 : L.SameNodes r1.1 := by
        split_ifs at h1
        all_goals first
          | exact SameNodes_AddIntersection h1
          | (rw [← Option.some.inj h1]; exact SameNodes_refl _)
      rw [← Option.some.inj h]
      exact ⟨n1.1, n1.2⟩
    · rw [if_neg c2] at h
      by_cases c3 : a < eps ∧ b < eps
      · -- left side
        rw [if_pos c3] at h
        simp only [Option.bind_eq_some] at h
        obtain ⟨r1, h1, h⟩ := h
        have n1 : L.SameNodes r1.1 := by
          split_ifs at h1
          all_goals first
            | exact SameNodes_AddIntersection h1
            | (rw [← Option.some.inj h1]; exact SameNodes_refl _)
        rw [← Option.some.inj h]
        exact ⟨n1.1, n1.2⟩
      · -- split
        rw [if_neg c3] at h
        simp only [Option.bind_eq_some] at h
        obtain ⟨sp, hs, r1, h1, h⟩ := h
        have n1 := SameNodes_trans (SameNodes_SplitSeg hs) (SameNodes_AddIntersection h1)
        split_ifs at h
        · rw [← Option.some.inj h]
          exact ⟨n1.1, n1.2⟩
        · rw [← Option.some.inj h]
          exact ⟨n1.1, n1.2⟩

theorem SameNodes_SeparateSegsLoop {eps : ℚ} {hypot : ℚ → ℚ → ℚ} {VCO : Nat → ℚ → ℚ → Bool}
    {doc : Document} {part : Nat} (fuel : Nat) :
    ∀ (L : Level) (list : Option Nat) (st : Option Nat × Option Nat × Option Nat)
      (r : Level × Option Nat × Option Nat × Option Nat),
      SeparateSegsLoop eps hypot VCO doc part fuel L list st = some r → L.SameNodes r.1 := by
  induction fuel with
  | zero => intro L list st r h; simp [SeparateSegsLoop] at h
  | succ fuel ih =>
    intro L list st r h
    cases list with
    | none =>
      simp only [SeparateSegsLoop] at h
      rw [← Option.some.inj h]
      exact SameNodes_refl _
    | some seg =>
      simp only [SeparateSegsLoop, Option.bind_eq_some] at h
      obtain ⟨r1, h1, h2⟩ := h
      exact SameNodes_trans (SameNodes_trans (SameNodes_modSeg _ _ _) (SameNodes_DivideOneSeg h1))
        (ih _ _ _ _ h2)

theorem SameNodes_SeparateSegs {eps : ℚ} {hypot : ℚ → ℚ → ℚ} {VCO : Nat → ℚ → ℚ → Bool}
    {doc : Document} {part : Nat} (fuel : Nat) (t : quadtree_c) :
    ∀ (L : Level) (st : Option Nat × Option Nat × Option Nat)
      (r : Level × Option Nat × Option Nat × Option Nat),
      SeparateSegs eps hypot VCO doc part fuel t L st = some r → L.SameNodes r.1 := by
  induction t with
  | leaf x1 y1 x2 y2 rn mn list =>
    intro L st r h
    simp only [SeparateSegs] at h
    exact SameNodes_SeparateSegsLoop _ _ _ _ _ h
  | node x1 y1 x2 y2 rn mn list sub0 sub1 ih0 ih1 =>
    intro L st r h
    simp only [SeparateSegs, Option.bind_eq_some] at h
    obtain ⟨r1, h1, r2, h2, h3⟩ := h
    exact SameNodes_trans (SameNodes_trans (SameNodes_SeparateSegsLoop _ _ _ _ _ h1)
      (ih0 _ _ _ h2)) (ih1 _ _ _ h3)

theorem SameNodes_AddMinisegPair {hypot : ℚ → ℚ → ℚ} {L : Level} {part cur next : Nat}
    {ll rl : Option Nat} {r : Level × Option Nat × Option Nat}
    (h : AddMinisegPair hypot L part cur next ll rl = some r) : L.SameNodes r.1 := by
  unfold AddMinisegPair at h
  simp only [Option.bind_eq_some] at h
  obtain ⟨L8, h8, L9, h9, h⟩ := h
  have e8 := SameNodes_RecomputeSeg h8
  have e9 := SameNodes_RecomputeSeg h9
  obtain ⟨rL, rr⟩ := r
  have hr := congrArg Prod.fst (Option.some.inj h)
  simp only at hr
  rw [← hr]
  refine SameNodes_trans ?_ (SameNodes_trans e8 (SameNodes_trans e9
    (SameNodes_trans (SameNodes_ListAddSeg _ _ _) (SameNodes_ListAddSeg _ _ _))))
  constructor
  · simp only [modSeg_lev_nodes, NewSeg_fst_lev_nodes]
  · simp only [modSeg_num_nodes, NewSeg_fst_num_nodes]

theorem SameNodes_AddMinisegsLoop {hypot : ℚ → ℚ → ℚ} {part : Nat} (fuel : Nat) :
    ∀ (L : Level) (cur ll rl : Option Nat) (r : Level × Option Nat × Option Nat),
      AddMinisegsLoop hypot part fuel L cur ll rl = some r → L.SameNodes r.1 := by
  induction fuel with
  | zero => intro L cur ll rl r h; simp [AddMinisegsLoop] at h
  | succ fuel ih =>
    intro L cur ll rl r h
    cases cur with
    | none =>
      simp only [AddMinisegsLoop] at h
      rw [← Option.some.inj h]
      exact SameNodes_refl _
    | some cur =>
      simp only [AddMinisegsLoop] at h
      cases hn : (L.cuts cur).next with
      | none =>
        rw [hn] at h
        simp only at h
        rw [← Option.some.inj h]
        exact SameNodes_refl _
      | some next =>
        rw [hn] at h
        simp only at h
        split_ifs at h
        all_goals first
          | exact ih _ _ _ _ _ h
          | (simp only [Option.bind_eq_some] at h
             obtain ⟨st, h1, h2⟩ := h
             exact SameNodes_trans (SameNodes_AddMinisegPair h1) (ih _ _ _ _ _ h2))

theorem SameNodes_AddMinisegsFree (fuel : Nat) :
    ∀ (L : Level) (cur : Option Nat) (L' : Level),
      AddMinisegsFree fuel L cur = some L' → L.SameNodes L' := by
  induction fuel with
  | zero => intro L cur L' h; simp [AddMinisegsFree] at h
  | succ fuel ih =>
    intro L cur L' h
    cases cur with
    | none =>
      simp only [AddMinisegsFree] at h
      rw [← Option.some.inj h]
      exact SameNodes_refl _
    | some cur =>
      simp only [AddMinisegsFree] at h
      have := ih _ _ _ h
      exact ⟨this.1, this.2⟩

theorem SameNodes_AddMinisegs {hypot : ℚ → ℚ → ℚ} {L : Level} {cut_list : Option Nat}
    {part : Nat} {ll rl : Option Nat} {r : Level × Option Nat × Option Nat}
    (h : AddMinisegs hypot L cut_list part ll rl = some r) : L.SameNodes r.1 := by
  unfold AddMinisegs at h
  cases cut_list with
  | none =>
    simp only at h
    rw [← Option.some.inj h]
    exact SameNodes_refl _
  | some c =>
    simp only [Option.bind_eq_some, Option.map_eq_some'] at h
    obtain ⟨st, h1, L', h2, h3⟩ := h
    rw [← h3]
    exact SameNodes_trans (SameNodes_AddMinisegsLoop _ _ _ _ _ _ h1)
      (SameNodes_AddMinisegsFree _ _ _ _ h2)

theorem SameNodes_AddSeg (t : quadtree_c) : ∀ (this : List Bool) (L : Level) (s : Nat),
    L.SameNodes (t.AddSeg this L s).2 := by
  induction t with
  | leaf x1 y1 x2 y2 rn mn list =>
    intro this L s
    exact ⟨rfl, rfl⟩
  | node x1 y1 x2 y2 rn mn list sub0 sub1 ih0 ih1 =>
    intro this L s
    cases hw : quadtree_c.AddSegWay x1 y1 x2 y2 sub0 sub1 L s with
    | none =>
      simp only [quadtree_c.AddSeg, hw]
      exact ⟨rfl, rfl⟩
    | some w =>
      cases w with
      | true =>
        simp only [quadtree_c.AddSeg, hw]
        exact ih1 _ L s
      | false =>
        simp only [quadtree_c.AddSeg, hw]
        exact ih0 _ L s

theorem SameNodes_AddList (this : List Bool) (fuel : Nat) :
    ∀ (t : quadtree_c) (L : Level) (list : Option Nat) (r : quadtree_c × Level),
      quadtree_c.AddList this fuel t L list = some r → L.SameNodes r.2 := by
  induction fuel with
  | zero => intro t L list r h; simp [quadtree_c.AddList] at h
  | succ fuel ih =>
    intro t L list r h
    cases list with
    | none =>
      simp only [quadtree_c.AddList] at h
      rw [← Option.some.inj h]
      exact SameNodes_refl _
    | some seg =>
      simp only [quadtree_c.AddList] at h
      exact SameNodes_trans (SameNodes_AddSeg t this L seg) (ih _ _ _ _ h)

theorem SameNodes_TreeFromSegList {L : Level} {list : Option Nat} {bounds : bbox_t}
    {r : quadtree_c × Level} (h : TreeFromSegList L list bounds = some r) :
    L.SameNodes r.2 := by
  unfold TreeFromSegList at h
  simp only [Option.bind_eq_some] at h
  obtain ⟨t, -, h2⟩ := h
  exact SameNodes_AddList _ _ _ _ _ _ h2

theorem SameNodes_ConvertToListLoop (fuel : Nat) :
    ∀ (L : Level) (list lp : Option Nat) (r : Level × Option Nat),
      ConvertToListLoop fuel L list lp = some r → L.SameNodes r.1 := by
  induction fuel with
  | zero => intro L list lp r h; simp [ConvertToListLoop] at h
  | succ fuel ih =>
    intro L list lp r h
    cases list with
    | none =>
      simp only [ConvertToListLoop] at h
      rw [← Option.some.inj h]
      exact SameNodes_refl _
    | some seg =>
      simp only [ConvertToListLoop] at h
      exact SameNodes_trans (SameNodes_ListAddSeg L lp seg) (ih _ _ _ _ h)

theorem SameNodes_ConvertToList (t : quadtree_c) :
    ∀ (L : Level) (lp : Option Nat) (r : Level × Option Nat),
      t.ConvertToList L lp = some r → L.SameNodes r.1 := by
  induction t with
  | leaf x1 y1 x2 y2 rn mn list =>
    intro L lp r h
    simp only [quadtree_c.ConvertToList] at h
    exact SameNodes_ConvertToListLoop _ _ _ _ _ h
  | node x1 y1 x2 y2 rn mn list sub0 sub1 ih0 ih1 =>
    intro L lp r h
    simp only [quadtree_c.ConvertToList, Option.bind_eq_some] at h
    obtain ⟨r1, h1, r2, h2, h3⟩ := h
    exact SameNodes_trans (SameNodes_trans (SameNodes_ConvertToListLoop _ _ _ _ _ h1)
      (ih0 _ _ _ h2)) (ih1 _ _ _ h3)

theorem SameNodes_DetermineMiddle {L L' : Level} {sub : Nat}
    (h : DetermineMiddle L sub = some L') : L.SameNodes L' := by
  unfold DetermineMiddle at h
  simp only [Option.map_eq_some'] at h
  obtain ⟨st, -, h2⟩ := h
  rw [← h2]
  exact ⟨rfl, rfl⟩

theorem SameNodes_CreateSubsector {L : Level} {tree : quadtree_c} {r : Level × Nat}
    (h : CreateSubsector L tree = some r) : L.SameNodes r.1 := by
  unfold CreateSubsector at h
  simp only [Option.bind_eq_some, Option.map_eq_some'] at h
  obtain ⟨c, h1, L3, h2, h3⟩ := h
  rw [← h3]
  have e1 := SameNodes_ConvertToList _ _ _ _ h1
  have e2 := SameNodes_DetermineMiddle h2
  constructor
  · show L3.lev_nodes = _
    rw [e2.1]
    show c.1.lev_nodes = _
    rw [e1.1]
    rfl
  · show L3.num_nodes = _
    rw [e2.2]
    show c.1.num_nodes = _
    rw [e1.2]
    rfl

/-! ### The shape of the result of `BuildNodes` -/

theorem NodesKept_refl (L : Level) : L.NodesKept L := ⟨le_refl _, fun _ _ => rfl⟩

theorem NodesKept_trans {L L1 L2 : Level} (h1 : L.NodesKept L1) (h2 : L1.NodesKept L2) :
    L.NodesKept L2 :=
  ⟨le_trans h1.1 h2.1, fun i hi => (h2.2 i (lt_of_lt_of_le hi h1.1)).trans (h1.2 i hi)⟩

theorem NodesKept_of_SameNodes {L L' : Level} (h : L.SameNodes L') : L.NodesKept L' :=
  ⟨le_of_eq h.2.symm, fun i _ => by rw [h.1]⟩

theorem modNode_num_nodes (L : Level) (i : Nat) (f : node_t → node_t) :
    (L.modNode i f).num_nodes = L.num_nodes := rfl

/-- The two recursive calls at the end of `BuildNodes`: the node gets two children, the
older nodes stay. -/
theorem BuildNodesChildren_spec
    (rec : Level → Nat → Option Nat → Int → Option BuildOut)
    (hrec : ∀ L clock list depth out, rec L clock list depth = some out →
      L.NodesKept out.L ∧ (out.ret = build_result_e.BUILD_OK → out.OneOf))
    (L : Level) (clock node : Nat) (lefts rights : Option Nat) (depth : Int) (bounds : bbox_t)
    (out : BuildOut) (hnode : node < L.num_nodes)
    (h : BuildNodesChildren rec L clock node lefts rights depth bounds = some out) :
    L.num_nodes ≤ out.L.num_nodes ∧
    (∀ i, i < L.num_nodes → i ≠ node → out.L.lev_nodes i = L.lev_nodes i) ∧
    out.N = some node ∧ out.S = none ∧
    (out.ret = build_result_e.BUILD_OK →
      (out.L.lev_nodes node).l.OneOf ∧ (out.L.lev_nodes node).r.OneOf) := by
  unfold BuildNodesChildren at h
  simp only [Option.bind_eq_some] at h
  obtain ⟨lo, hlo, h⟩ := h
  obtain ⟨k1, o1⟩ := hrec _ _ _ _ _ hlo
  by_cases hret : lo.ret = build_result_e.BUILD_OK
  · rw [if_neg (not_not.mpr hret)] at h
    simp only [Option.map_eq_some'] at h
    obtain ⟨ro, hro, h⟩ := h
    obtain ⟨k2, o2⟩ := hrec _ _ _ _ _ hro
    have hn1 : node < (lo.L.modNode node fun n =>
        { n with l := { bounds := lo.bounds.getD n.l.bounds, node := lo.N,
                        subsec := lo.S } }).num_nodes := by
      rw [modNode_num_nodes]
      exact lt_of_lt_of_le hnode k1.1
    rw [← h]
    refine ⟨?_, ?_, rfl, rfl, ?_⟩
    · show L.num_nodes ≤ ro.L.num_nodes
      exact le_trans k1.1 k2.1
    · intro i hi hne
      dsimp only
      rw [modNode_apply, if_neg hne, k2.2 i (lt_of_lt_of_le hi k1.1), modNode_apply, if_neg hne,
        k1.2 i hi]
    · intro hr
      have hr' : ro.ret = build_result_e.BUILD_OK := hr
      constructor
      · dsimp only
        rw [modNode_apply, if_pos rfl]
        show (ro.L.lev_nodes node).l.OneOf
        rw [k2.2 node hn1, modNode_apply, if_pos rfl]
        exact o1 hret
      · dsimp only
        rw [modNode_apply, if_pos rfl]
        exact o2 hr'
  · rw [if_pos hret] at h
    rw [← Option.some.inj h]
    refine ⟨k1.1, ?_, rfl, rfl, fun hr => absurd hr hret⟩
    intro i hi hne
    dsimp only
    rw [modNode_apply, if_neg hne, k1.2 i hi]

/-! ### The segs of a new subsector -/

theorem SameButSegs_refl (L : Level) : L.SameButSegs L := rfl

theorem SameButSegs_trans {L L1 L2 : Level} (h1 : L.SameButSegs L1) (h2 : L1.SameButSegs L2) :
    L.SameButSegs L2 := by
  unfold Level.SameButSegs at *
  calc L2 = { L1 with lev_segs := L2.lev_segs } := h2
    _ = { L with lev_segs := L2.lev_segs } := by rw [h1]

theorem SameButSegs_modSeg (L : Level) (i : Nat) (f : seg_t → seg_t) :
    L.SameButSegs (L.modSeg i f) := rfl

theorem SameButSegs_num_segs {L L' : Level} (h : L.SameButSegs L') :
    L'.num_segs = L.num_segs := by
  unfold Level.SameButSegs at h
  rw [h]

theorem SameButSegs_num_subsecs {L L' : Level} (h : L.SameButSegs L') :
    L'.num_subsecs = L.num_subsecs := by
  unfold Level.SameButSegs at h
  rw [h]

theorem SameButSegs_lev_subsecs {L L' : Level} (h : L.SameButSegs L') :
    L'.lev_subsecs = L.lev_subsecs := by
  unfold Level.SameButSegs at h
  rw [h]

theorem AddSeg_sameButSegs (t : quadtree_c) : ∀ (this : List Bool) (L : Level) (s : Nat),
    L.SameButSegs (t.AddSeg this L s).2 := by
  induction t with
  | leaf x1 y1 x2 y2 rn mn list =>
    intro this L s
    rfl
  | node x1 y1 x2 y2 rn mn list sub0 sub1 ih0 ih1 =>
    intro this L s
    cases hw : quadtree_c.AddSegWay x1 y1 x2 y2 sub0 sub1 L s with
    | none =>
      simp only [quadtree_c.AddSeg, hw]
      rfl
    | some w =>
      cases w with
      | true =>
        simp only [quadtree_c.AddSeg, hw]
        exact ih1 _ L s
      | false =>
        simp only [quadtree_c.AddSeg, hw]
        exact ih0 _ L s

/-- A sequence of `AddSeg` calls for distinct, allocated segs that are not in the tree
leaves a well-formed tree that holds these segs and the ones it held. -/
theorem AddSegs_perm (this : List Bool) (ss : List Nat) :
    ∀ (t : quadtree_c) (L : Level), t.Proper L = true → ss.Nodup →
      (∀ s ∈ ss, s < L.num_segs) → (∀ s ∈ ss, s ∉ t.Segs L) →
      (ss.foldl (fun (st : quadtree_c × Level) (s : Nat) => st.1.AddSeg this st.2 s)
          (t, L)).1.Proper
        (ss.foldl (fun (st : quadtree_c × Level) (s : Nat) => st.1.AddSeg this st.2 s)
          (t, L)).2 = true ∧
      ((ss.foldl (fun (st : quadtree_c × Level) (s : Nat) => st.1.AddSeg this st.2 s)
          (t, L)).1.Segs
        (ss.foldl (fun (st : quadtree_c × Level) (s : Nat) => st.1.AddSeg this st.2 s)
          (t, L)).2).Perm (ss ++ t.Segs L) ∧
      L.SameButSegs
        (ss.foldl (fun (st : quadtree_c × Level) (s : Nat) => st.1.AddSeg this st.2 s)
          (t, L)).2 := by
  induction ss with
  | nil =>
    intro t L hp _ _ _
    exact ⟨hp, List.Perm.refl _, SameButSegs_refl L⟩
  | cons s rest ih =>
    intro t L hp hnd hal hfresh
    obtain ⟨i1, -, -, -, -, -, i7, i8, -, -, -⟩ :=
      AddSeg_inv t this L s (hal s (List.mem_cons_self _ _)) hp
        (hfresh s (List.mem_cons_self _ _))
    obtain ⟨hs, hnd'⟩ := List.nodup_cons.mp hnd
    simp only [List.foldl_cons]
    obtain ⟨j1, j2, j3⟩ := ih (t.AddSeg this L s).1 (t.AddSeg this L s).2 i7 hnd'
      (fun x hx => by rw [i1]; exact hal x (List.mem_cons_of_mem _ hx))
      (fun x hx hmem => by
        have := i8.subset hmem
        rcases List.mem_cons.mp this with e | e
        · exact hs (e ▸ hx)
        · exact hfresh x (List.mem_cons_of_mem _ hx) e)
    refine ⟨j1, ?_, SameButSegs_trans (AddSeg_sameButSegs t this L s) j3⟩
    refine j2.trans ?_
    refine ((List.Perm.append_left rest i8).trans ?_)
    show (rest ++ s :: t.Segs L).Perm (s :: rest ++ t.Segs L)
    exact List.perm_middle

/-- `TreeFromSegList` on a list of allocated segs: the tree is well formed and holds the
segs of the list; only segs are written. -/
theorem TreeFromSegList_spec {L : Level} {list : Option Nat} {bounds : bbox_t}
    {tl : quadtree_c × Level} (ss : List Nat) (hl : IsLinked L.segNext list ss)
    (ha : ∀ s ∈ ss, s < L.num_segs) (h : TreeFromSegList L list bounds = some tl) :
    tl.1.Proper tl.2 = true ∧ (tl.1.Segs tl.2).Perm ss ∧ L.SameButSegs tl.2 := by
  unfold TreeFromSegList at h
  simp only [Option.bind_eq_some] at h
  obtain ⟨tree, hnew, hadd⟩ := h
  obtain ⟨a1, -, -, a4, -⟩ := quadtree_new_inv L _ _ _ _ _ tree hnew
  have hnd := IsLinked_nodup hl
  rw [AddList_eq_foldl [] ss _ tree L list hl
    (Nat.lt_succ_of_le (length_le_of_nodup_lt hnd ha))] at hadd
  obtain ⟨j1, j2, j3⟩ := AddSegs_perm [] ss tree L a1 hnd ha
    (fun s _ hmem => by rw [a4] at hmem; exact List.not_mem_nil _ hmem)
  rw [← Option.some.inj hadd]
  refine ⟨j1, ?_, j3⟩
  rw [a4, List.append_nil] at j2
  exact j2

/-- A tree that holds none of the segs of `S` looks the same in a level that differs at
segs of `S` only. -/
theorem tree_congr_set (L L' : Level) (S : List Nat) (hn : L'.num_segs = L.num_segs)
    (hseg : ∀ x, x ∉ S → L'.lev_segs x = L.lev_segs x) (u : quadtree_c) :
    u.Proper L = true → (∀ x ∈ u.Segs L, x ∉ S) →
      u.Segs L' = u.Segs L ∧ u.Proper L' = true := by
  have cell : ∀ list : Option Nat, L.ListOk list = true →
      (∀ x ∈ (L.segChain (L.num_segs + 1) list).getD [], x ∉ S) →
      (L'.segChain (L'.num_segs + 1) list).getD [] = (L.segChain (L.num_segs + 1) list).getD [] ∧
      L'.ListOk list = true := by
    intro list hok hs
    obtain ⟨l, hl, ha⟩ := (ListOk_iff L list).mp hok
    rw [chain_of_linked L list l hl ha] at hs ⊢
    have hl' : IsLinked L'.segNext list l := by
      refine (IsLinked_congr ?_).mpr hl
      intro a ha'
      show (L'.lev_segs a).next = (L.lev_segs a).next
      rw [hseg a (hs a ha')]
    have ha' : ∀ x ∈ l, x < L'.num_segs := fun x hx => by rw [hn]; exact ha x hx
    exact ⟨chain_of_linked L' list l hl' ha', (ListOk_iff L' list).mpr ⟨l, hl', ha'⟩⟩
  induction u with
  | leaf x1 y1 x2 y2 rn mn list =>
    intro hp hs
    obtain ⟨-, -, hok⟩ := Proper_leaf hp
    simp only [quadtree_c.Segs] at hs
    obtain ⟨e1, e2⟩ := cell list hok hs
    refine ⟨?_, ?_⟩
    · simp only [quadtree_c.Segs]; exact e1
    · simp only [quadtree_c.Proper, Bool.and_eq_true, decide_eq_true_eq] at hp ⊢
      exact ⟨hp.1, e2⟩
  | node x1 y1 x2 y2 rn mn list sub0 sub1 ih0 ih1 =>
    intro hp hs
    obtain ⟨-, -, hok, hp0, hp1⟩ := Proper_node hp
    simp only [quadtree_c.Segs, List.mem_append] at hs
    obtain ⟨e1, e2⟩ := cell list hok (fun x hx => hs x (Or.inl (Or.inl hx)))
    obtain ⟨a1, a2⟩ := ih0 hp0 (fun x hx => hs x (Or.inl (Or.inr hx)))
    obtain ⟨b1, b2⟩ := ih1 hp1 (fun x hx => hs x (Or.inr hx))
    refine ⟨?_, ?_⟩
    · simp only [quadtree_c.Segs, e1, a1, b1]
    · simp only [quadtree_c.Proper, Bool.and_eq_true, decide_eq_true_eq] at hp ⊢
      exact ⟨⟨⟨hp.1.1.1, e2⟩, a2⟩, b2⟩

/-- The loop of `ConvertToList` moves the segs of the cell's list to the front of the
target list, one by one. -/
theorem ConvertToListLoop_spec (l : List Nat) :
    ∀ (fuel : Nat) (L : Level) (list lp : Option Nat) (acc : List Nat),
      IsLinked L.segNext list l → IsLinked L.segNext lp acc → (∀ x ∈ l, x ∉ acc) →
      l.length < fuel →
      ∃ r, ConvertToListLoop fuel L list lp = some r ∧
        IsLinked r.1.segNext r.2 (l.reverse ++ acc) ∧ L.SameButSegs r.1 ∧
        ∀ x, x ∉ l → r.1.lev_segs x = L.lev_segs x := by
  induction l with
  | nil =>
    intro fuel L list lp acc hl hacc _ hlen
    have hnone : list = none := hl
    subst hnone
    cases fuel with
    | zero => simp at hlen
    | succ fuel =>
      exact ⟨(L, lp), rfl, by simpa using hacc, SameButSegs_refl L, fun _ _ => rfl⟩
  | cons s rest ih =>
    intro fuel L list lp acc hl hacc hdis hlen
    have hnd := IsLinked_nodup hl
    obtain ⟨hs, -⟩ := List.nodup_cons.mp hnd
    obtain ⟨h1, h2⟩ := hl
    subst h1
    cases fuel with
    | zero => simp at hlen
    | succ fuel =>
      have hsacc : s ∉ acc := hdis s (List.mem_cons_self _ _)
      have hseg : ∀ x, x ≠ s → (ListAddSeg L lp s).1.lev_segs x = L.lev_segs x := by
        intro x hx
        simp only [ListAddSeg, modSeg_apply, if_neg hx]
      have hnext : (ListAddSeg L lp s).1.segNext s = lp := by
        show ((ListAddSeg L lp s).1.lev_segs s).next = lp
        simp only [ListAddSeg, modSeg_apply, if_true]
      have hrest : IsLinked (ListAddSeg L lp s).1.segNext (L.lev_segs s).next rest := by
        refine (IsLinked_congr ?_).mpr h2
        intro a ha
        show ((ListAddSeg L lp s).1.lev_segs a).next = (L.lev_segs a).next
        rw [hseg a (fun e => hs (e ▸ ha))]
      have hacc' : IsLinked (ListAddSeg L lp s).1.segNext (some s) (s :: acc) := by
        refine ⟨rfl, ?_⟩
        rw [hnext]
        refine (IsLinked_congr ?_).mpr hacc
        intro a ha
        show ((ListAddSeg L lp s).1.lev_segs a).next = (L.lev_segs a).next
        rw [hseg a (fun e => hsacc (e ▸ ha))]
      obtain ⟨r, hr, c1, c2, c3⟩ := ih fuel (ListAddSeg L lp s).1 (L.lev_segs s).next
        (some s) (s :: acc) hrest hacc'
        (fun x hx hmem => by
          rcases List.mem_cons.mp hmem with e | e
          · exact hs (e ▸ hx)
          · exact hdis x (List.mem_cons_of_mem _ hx) e)
        (by simp only [List.length_cons] at hlen; omega)
      refine ⟨r, ?_, ?_, SameButSegs_trans (SameButSegs_modSeg _ _ _) c2, ?_⟩
      · simp only [ConvertToListLoop]
        exact hr
      · simpa using c1
      · intro x hx
        have hx1 : x ≠ s := fun e => hx (e ▸ List.mem_cons_self _ _)
        have hx2 : x ∉ rest := fun e => hx (List.mem_cons_of_mem _ e)
        rw [c3 x hx2, hseg x hx1]

/-- `ConvertToList` on a well-formed tree without repeated segs: the target list gets all
segs of the tree in front. -/
theorem ConvertToList_spec (t : quadtree_c) :
    ∀ (L : Level) (lp : Option Nat) (acc : List Nat), t.Proper L = true →
      (t.Segs L).Nodup → IsLinked L.segNext lp acc → (∀ x ∈ t.Segs L, x ∉ acc) →
      ∃ r l, t.ConvertToList L lp = some r ∧ IsLinked r.1.segNext r.2 l ∧
        l.Perm (t.Segs L ++ acc) ∧ L.SameButSegs r.1 ∧
        ∀ x, x ∉ t.Segs L → r.1.lev_segs x = L.lev_segs x := by
  induction t with
  | leaf x1 y1 x2 y2 rn mn list =>
    intro L lp acc hp hnd hacc hdis
    obtain ⟨-, -, hok⟩ := Proper_leaf hp
    obtain ⟨l, hl, ha⟩ := (ListOk_iff L list).mp hok
    simp only [quadtree_c.Segs] at hnd hdis ⊢
    rw [chain_of_linked L list l hl ha] at hnd hdis ⊢
    obtain ⟨r, hr, c1, c2, c3⟩ := ConvertToListLoop_spec l (L.num_segs + 1) L list lp acc hl
      hacc hdis (Nat.lt_succ_of_le (length_le_of_nodup_lt hnd ha))
    refine ⟨r, l.reverse ++ acc, ?_, c1, ?_, c2, c3⟩
    · simp only [quadtree_c.ConvertToList]
      exact hr
    · exact List.Perm.append_right acc (List.reverse_perm l)
  | node x1 y1 x2 y2 rn mn list sub0 sub1 ih0 ih1 =>
    intro L lp acc hp hnd hacc hdis
    obtain ⟨-, -, hok, hp0, hp1⟩ := Proper_node hp
    obtain ⟨l, hl, ha⟩ := (ListOk_iff L list).mp hok
    simp only [quadtree_c.Segs] at hnd hdis ⊢
    rw [chain_of_linked L list l hl ha] at hnd hdis ⊢
    have hnd1 : (l ++ sub0.Segs L).Nodup := (List.nodup_append.mp hnd).1
    have hd01 : ∀ x ∈ l ++ sub0.Segs L, x ∉ sub1.Segs L := fun x hx h1 =>
      (List.nodup_append.mp hnd).2.2 hx h1
    have hd0 : ∀ x ∈ l, x ∉ sub0.Segs L := fun x hx h0 =>
      (List.nodup_append.mp hnd1).2.2 hx h0
    obtain ⟨r, hr, c1, c2, c3⟩ := ConvertToListLoop_spec l (L.num_segs + 1) L list lp acc hl
      hacc (fun x hx => hdis x (List.mem_append_left _ (List.mem_append_left _ hx)))
      (Nat.lt_succ_of_le (length_le_of_nodup_lt (List.nodup_append.mp hnd1).1 ha))
    -- the first sub-cell, in the level after the loop
    obtain ⟨s0, p0⟩ := tree_congr_set L r.1 l (SameButSegs_num_segs c2) c3 sub0 hp0
      (fun x hx hl' => hd0 x hl' hx)
    obtain ⟨s1, p1⟩ := tree_congr_set L r.1 l (SameButSegs_num_segs c2) c3 sub1 hp1
      (fun x hx hl' => hd01 x (List.mem_append_left _ hl') hx)
    obtain ⟨r0, l0, hr0, d1, d2, d3, d4⟩ := ih0 r.1 r.2 (l.reverse ++ acc) p0
      (by rw [s0]; exact (List.nodup_append.mp hnd1).2.1) c1
      (by
        rw [s0]
        intro x hx hmem
        rcases List.mem_append.mp hmem with e | e
        · exact hd0 x (List.mem_reverse.mp e) hx
        · exact hdis x (List.mem_append_left _ (List.mem_append_right _ hx)) e)
    rw [s0] at d2 d4
    -- the second sub-cell, in the level after the first
    obtain ⟨s2, p2⟩ := tree_congr_set r.1 r0.1 (sub0.Segs L) (SameButSegs_num_segs d3) d4 sub1
      p1 (by
        rw [s1]
        intro x hx h0
        exact hd01 x (List.mem_append_right _ h0) hx)
    rw [s1] at s2
    obtain ⟨r1, l1, hr1, e1, e2, e3, e4⟩ := ih1 r0.1 r0.2 l0 p2
      (by rw [s2]; exact (List.nodup_append.mp hnd).2.1) d1
      (by
        rw [s2]
        intro x hx hmem
        have := d2.subset hmem
        rcases List.mem_append.mp this with e | e
        · exact hd01 x (List.mem_append_right _ e) hx
        · rcases List.mem_append.mp e with e | e
          · exact hd01 x (List.mem_append_left _ (List.mem_reverse.mp e)) hx
          · exact hdis x (List.mem_append_right _ hx) e)
    rw [s2] at e2 e4
    refine ⟨r1, l1, ?_, e1, ?_, SameButSegs_trans c2 (SameButSegs_trans d3 e3), ?_⟩
    · simp only [quadtree_c.ConvertToList, hr, Option.some_bind, hr0, hr1]
    · refine e2.trans ?_
      refine (List.Perm.append_left _ d2).trans ?_
      -- sub1 ++ (sub0 ++ (l.reverse ++ acc)) ~ (l ++ sub0 ++ sub1) ++ acc
      have q1 : (sub1.Segs L ++ (sub0.Segs L ++ (l.reverse ++ acc))).Perm
          ((l.reverse ++ acc) ++ sub0.Segs L ++ sub1.Segs L) := by
        refine List.perm_append_comm.trans ?_
        exact List.Perm.append_right _ List.perm_append_comm
      refine q1.trans ?_
      have q2 : (l.reverse ++ acc ++ sub0.Segs L ++ sub1.Segs L).Perm
          (l ++ (acc ++ sub0.Segs L ++ sub1.Segs L)) := by
        simp only [List.append_assoc]
        exact List.Perm.append_right _ (List.reverse_perm l)
      refine q2.trans ?_
      have q3 : (acc ++ sub0.Segs L ++ sub1.Segs L).Perm (sub0.Segs L ++ sub1.Segs L ++ acc) := by
        rw [List.append_assoc]
        exact List.perm_append_comm
      refine (List.Perm.append_left l q3).trans ?_
      simp only [List.append_assoc]
      exact List.Perm.refl _
    · intro x hx
      have hx1 : x ∉ l := fun e => hx (List.mem_append_left _ (List.mem_append_left _ e))
      have hx2 : x ∉ sub0.Segs L := fun e =>
        hx (List.mem_append_left _ (List.mem_append_right _ e))
      have hx3 : x ∉ sub1.Segs L := fun e => hx (List.mem_append_right _ e)
      rw [e4 x hx3, d4 x hx2, c3 x hx1]

/-! ### `CreateSubsector` and the cases of `BuildNodes` -/

theorem SameButSegs_AddList (this : List Bool) (fuel : Nat) :
    ∀ (t : quadtree_c) (L : Level) (list : Option Nat) (r : quadtree_c × Level),
      quadtree_c.AddList this fuel t L list = some r → L.SameButSegs r.2 := by
  induction fuel with
  | zero => intro t L list r h; simp [quadtree_c.AddList] at h
  | succ fuel ih =>
    intro t L list r h
    cases list with
    | none =>
      simp only [quadtree_c.AddList] at h
      rw [← Option.some.inj h]
      exact SameButSegs_refl _
    | some seg =>
      simp only [quadtree_c.AddList] at h
      exact SameButSegs_trans (AddSeg_sameButSegs t this L seg) (ih _ _ _ _ h)

theorem SameButSegs_TreeFromSegList {L : Level} {list : Option Nat} {bounds : bbox_t}
    {r : quadtree_c × Level} (h : TreeFromSegList L list bounds = some r) :
    L.SameButSegs r.2 := by
  unfold TreeFromSegList at h
  simp only [Option.bind_eq_some] at h
  obtain ⟨t, -, h2⟩ := h
  exact SameButSegs_AddList _ _ _ _ _ _ h2

theorem SameButSegs_ListAddSeg (L : Level) (lp : Option Nat) (seg : Nat) :
    L.SameButSegs (ListAddSeg L lp seg).1 := rfl

theorem SameButSegs_ConvertToListLoop (fuel : Nat) :
    ∀ (L : Level) (list lp : Option Nat) (r : Level × Option Nat),
      ConvertToListLoop fuel L list lp = some r → L.SameButSegs r.1 := by
  induction fuel with
  | zero => intro L list lp r h; simp [ConvertToListLoop] at h
  | succ fuel ih =>
    intro L list lp r h
    cases list with
    | none =>
      simp only [ConvertToListLoop] at h
      rw [← Option.some.inj h]
      exact SameButSegs_refl _
    | some seg =>
      simp only [ConvertToListLoop] at h
      exact SameButSegs_trans (SameButSegs_ListAddSeg L lp seg) (ih _ _ _ _ h)

theorem SameButSegs_ConvertToList (t : quadtree_c) :
    ∀ (L : Level) (lp : Option Nat) (r : Level × Option Nat),
      t.ConvertToList L lp = some r → L.SameButSegs r.1 := by
  induction t with
  | leaf x1 y1 x2 y2 rn mn list =>
    intro L lp r h
    simp only [quadtree_c.ConvertToList] at h
    exact SameButSegs_ConvertToListLoop _ _ _ _ _ h
  | node x1 y1 x2 y2 rn mn list sub0 sub1 ih0 ih1 =>
    intro L lp r h
    simp only [quadtree_c.ConvertToList, Option.bind_eq_some] at h
    obtain ⟨r1, h1, r2, h2, h3⟩ := h
    exact SameButSegs_trans (SameButSegs_trans (SameButSegs_ConvertToListLoop _ _ _ _ _ h1)
      (ih0 _ _ _ h2)) (ih1 _ _ _ h3)

/-- What `CreateSubsector` returns, written out. -/
theorem CreateSubsector_eq {L : Level} {tree : quadtree_c} {r : Level × Nat}
    (h : CreateSubsector L tree = some r) :
    ∃ (c : Level × Option Nat) (st : ℚ × ℚ × Int), tree.ConvertToList
        ((NewSubsec L).1.modSubsec L.num_subsecs fun s =>
          { s with index := ((NewSubsec L).1.num_subsecs : Int) - 1 }) none = some c ∧
      r.2 = L.num_subsecs ∧
      r.1 = ((c.1.modSubsec L.num_subsecs fun s => { s with seg_list := c.2 }).modSubsec
          L.num_subsecs fun s => { s with mid_x := st.1 / st.2.2 }).modSubsec L.num_subsecs
          fun s => { s with mid_y := st.2.1 / st.2.2 } := by
  unfold CreateSubsector DetermineMiddle at h
  simp only [Option.bind_eq_some, Option.map_eq_some'] at h
  obtain ⟨c, h1, L3, ⟨st, -, h2⟩, h3⟩ := h
  have hlp : (((NewSubsec L).1.modSubsec (NewSubsec L).2 fun s =>
      { s with index := ((NewSubsec L).1.num_subsecs : Int) - 1 }).lev_subsecs
        (NewSubsec L).2).seg_list = none := by
    simp [modSubsec_apply, NewSubsec, subsec_t.zero]
  rw [hlp] at h1
  refine ⟨c, st, h1, ?_, ?_⟩
  · rw [← h3]
    rfl
  · rw [← h3, ← h2]
    rfl

/-- `CreateSubsector`: the subsector is a new one; on a well-formed tree without repeated
segs, its list holds the segs of the tree. -/
theorem CreateSubsector_spec {L : Level} {tree : quadtree_c} {r : Level × Nat}
    (h : CreateSubsector L tree = some r) :
    r.2 = L.num_subsecs ∧ r.1.num_subsecs = L.num_subsecs + 1 ∧
    (tree.Proper L = true → (tree.Segs L).Nodup →
      ∃ l, r.1.SubsecList r.2 l ∧ l.Perm (tree.Segs L)) := by
  obtain ⟨c, st, h1, h2, h3⟩ := CreateSubsector_eq h
  have hf := SameButSegs_ConvertToList _ _ _ _ h1
  refine ⟨h2, ?_, ?_⟩
  · rw [h3]
    simp only [modSubsec_num_subsecs]
    rw [SameButSegs_num_subsecs hf]
    rfl
  · intro hp hnd
    obtain ⟨s1, p1⟩ := tree_congr_set L
      ((NewSubsec L).1.modSubsec L.num_subsecs fun s =>
        { s with index := ((NewSubsec L).1.num_subsecs : Int) - 1 }) [] rfl (fun _ _ => rfl)
      tree hp (fun _ _ hm => List.not_mem_nil _ hm)
    obtain ⟨rc, l, hrc, c1, c2, -, -⟩ := ConvertToList_spec tree _ none [] p1
      (by rw [s1]; exact hnd) (IsLinked_nil.mpr rfl) (fun _ _ hm => List.not_mem_nil _ hm)
    rw [h1] at hrc
    have e := Option.some.inj hrc
    subst e
    rw [s1, List.append_nil] at c2
    refine ⟨l, ?_, c2⟩
    rw [h2, h3]
    unfold Level.SubsecList
    simp only [modSubsec_segNext, modSubsec_apply, if_true]
    exact c1

/-! ### The result of `BuildNodes` -/

theorem setNode_num_nodes (L : Level) (i : Nat) (n : node_t) :
    (L.setNode i n).num_nodes = L.num_nodes := rfl

theorem setNode_apply (L : Level) (i j : Nat) (n : node_t) :
    (L.setNode i n).lev_nodes j = if j = i then n else L.lev_nodes j := by
  simp [Level.setNode, Function.update_apply]

/-- The ways through `BuildNodes`: cancelled at entry, a subsector for a convex list, or
a new node whose children come from the two recursive calls. -/
theorem BuildNodes_cases (DIST_EPSILON : ℚ) (factor : Int) (fast : Bool)
    (hypot : ℚ → ℚ → ℚ) (VertexCheckOpen : Nat → ℚ → ℚ → Bool) (doc : Document)
    (cancelled : Nat → Bool) (fuel : Nat) (L : Level) (clock : Nat) (list : Option Nat)
    (depth : Int) (out : BuildOut)
    (h : BuildNodes DIST_EPSILON factor fast hypot VertexCheckOpen doc cancelled (fuel + 1) L
      clock list depth = some out) :
    (cancelled clock = true ∧ out.ret = build_result_e.BUILD_Cancelled ∧ out.L = L) ∨
    (cancelled clock = false ∧
      ∃ bounds tl part, FindLimits2 L list = some bounds ∧
        TreeFromSegList L list bounds = some tl ∧
        PickNode DIST_EPSILON factor fast (cancelled (clock + 1)) doc tl.2 tl.1 = some part ∧
        ((part = none ∧ ∃ r, CreateSubsector tl.2 tl.1 = some r ∧
            out.L = r.1 ∧ out.N = none ∧ out.S = some r.2) ∨
         (part ≠ none ∧ ∃ L0 lefts rights, tl.2.num_nodes < L0.num_nodes ∧
            (∀ i, i < tl.2.num_nodes → L0.lev_nodes i = tl.2.lev_nodes i) ∧
            BuildNodesChildren
              (BuildNodes DIST_EPSILON factor fast hypot VertexCheckOpen doc cancelled fuel)
              L0 (clock + 2) tl.2.num_nodes lefts rights depth bounds = some out))) := by
  simp only [BuildNodes] at h
  by_cases hc : cancelled clock = true
  · rw [if_pos hc] at h
    rw [← Option.some.inj h]
    exact Or.inl ⟨hc, rfl, rfl⟩
  · rw [if_neg hc] at h
    simp only [Option.bind_eq_some] at h
    obtain ⟨bounds, hb, tl, htl, part, hpart, h⟩ := h
    refine Or.inr ⟨by simpa using hc, bounds, tl, part, hb, htl, hpart, ?_⟩
    cases part with
    | none =>
      simp only [Option.map_eq_some'] at h
      obtain ⟨r, hr, hout⟩ := h
      rw [← hout]
      exact Or.inl ⟨rfl, r, hr, rfl, rfl, rfl⟩
    | some p =>
      refine Or.inr ⟨fun e => Option.noConfusion e, ?_⟩
      simp only [Option.bind_eq_some] at h
      obtain ⟨s, hs, h⟩ := h
      split_ifs at h with c1 c2
      simp only [Option.bind_eq_some] at h
      obtain ⟨m, hm, nd, hnd, h⟩ := h
      have f1 := SameNodes_SeparateSegs _ _ _ _ _ hs
      have f2 := SameNodes_AddMinisegs hm
      refine ⟨_, _, _, ?_, ?_, h⟩
      · rw [setNode_num_nodes, f2.2, f1.2]
        exact Nat.lt_succ_self _
      · intro i hi
        rw [setNode_apply, if_neg (show i ≠ (NewNode tl.2).2 from Nat.ne_of_lt hi), f2.1, f1.1]
        show Function.update tl.2.lev_nodes tl.2.num_nodes node_t.zero i = _
        rw [Function.update_noteq (Nat.ne_of_lt hi)]

/-- Every call of `BuildNodes` that returns leaves the older nodes alone; one that returns
`BUILD_OK` has set exactly one of `*N` and `*S`. -/
theorem BuildNodes_shape (DIST_EPSILON : ℚ) (factor : Int) (fast : Bool)
    (hypot : ℚ → ℚ → ℚ) (VertexCheckOpen : Nat → ℚ → ℚ → Bool) (doc : Document)
    (cancelled : Nat → Bool) (fuel : Nat) :
    ∀ (L : Level) (clock : Nat) (list : Option Nat) (depth : Int) (out : BuildOut),
      BuildNodes DIST_EPSILON factor fast hypot VertexCheckOpen doc cancelled fuel L clock list
        depth = some out →
      L.NodesKept out.L ∧ (out.ret = build_result_e.BUILD_OK → out.OneOf) := by
  induction fuel with
  | zero => intro L clock list depth out h; simp [BuildNodes] at h
  | succ fuel ih =>
    intro L clock list depth out h
    rcases BuildNodes_cases DIST_EPSILON factor fast hypot VertexCheckOpen doc cancelled fuel L
      clock list depth out h with ⟨-, hr, hL⟩ | ⟨-, bounds, tl, part, -, htl, -, hcase⟩
    · rw [hL]
      refine ⟨NodesKept_refl L, fun hok => ?_⟩
      rw [hr] at hok
      exact build_result_e.noConfusion hok
    · have ft := SameNodes_TreeFromSegList htl
      rcases hcase with ⟨-, r, hr, hL, hN, hS⟩ | ⟨-, L0, lefts, rights, hlt, hkeep, hch⟩
      · rw [hL]
        refine ⟨NodesKept_of_SameNodes (SameNodes_trans ft (SameNodes_CreateSubsector hr)),
          fun _ => Or.inr ⟨hN, by rw [hS]; rfl⟩⟩
      · obtain ⟨k1, k2, k3, k4, -⟩ := BuildNodesChildren_spec _ ih L0 (clock + 2)
          tl.2.num_nodes lefts rights depth bounds out hlt hch
        refine ⟨⟨?_, ?_⟩, fun _ => Or.inl ⟨by rw [k3]; rfl, k4⟩⟩
        · rw [← ft.2]
          exact le_trans (Nat.le_of_lt hlt) k1
        · intro i hi
          rw [← ft.2] at hi
          rw [k2 i (lt_trans hi hlt) (Nat.ne_of_lt hi), hkeep i hi, ft.1]

/-- C9: whenever `BuildNodes` returns `BUILD_OK`, exactly one of `*N` and `*S` is
non-null.  When `PickNode` (on the quadtree built from the list with the bounds of
`FindLimits2`) found no partition, `*N` is `NULL` and `*S` is a new subsector, the one
allocated by this call, and for an input list of allocated segs its seg list holds
exactly the segs of the input list; otherwise `*S` is `NULL` and `*N` is a new node, the
one allocated by this call, each of whose two children again has exactly one of `node`
and `subsec` non-null. -/
theorem BuildNodes_returns_node_or_subsector (DIST_EPSILON : ℚ) (factor : Int) (fast : Bool)
    (hypot : ℚ → ℚ → ℚ) (VertexCheckOpen : Nat → ℚ → ℚ → Bool) (doc : Document)
    (cancelled : Nat → Bool) (fuel : Nat) (L : Level) (clock : Nat) (list : Option Nat)
    (depth : Int) (out : BuildOut)
    (h : BuildNodes DIST_EPSILON factor fast hypot VertexCheckOpen doc cancelled fuel L clock
      list depth = some out)
    (hret : out.ret = build_result_e.BUILD_OK) :
    out.OneOf ∧
    ∃ bounds tl part, FindLimits2 L list = some bounds ∧
      TreeFromSegList L list bounds = some tl ∧
      PickNode DIST_EPSILON factor fast (cancelled (clock + 1)) doc tl.2 tl.1 = some part ∧
      (part = none →
        out.N = none ∧ out.S = some L.num_subsecs ∧
        out.L.num_subsecs = L.num_subsecs + 1 ∧
        ∀ ss, IsLinked L.segNext list ss → (∀ s ∈ ss, s < L.num_segs) →
          ∃ l, out.L.SubsecList L.num_subsecs l ∧ l.Perm ss) ∧
      (part ≠ none →
        out.S = none ∧ out.N = some L.num_nodes ∧ L.num_nodes < out.L.num_nodes ∧
        (out.L.lev_nodes L.num_nodes).l.OneOf ∧ (out.L.lev_nodes L.num_nodes).r.OneOf) := by
  refine ⟨(BuildNodes_shape DIST_EPSILON factor fast hypot VertexCheckOpen doc cancelled fuel L
    clock list depth out h).2 hret, ?_⟩
  cases fuel with
  | zero => simp [BuildNodes] at h
  | succ fuel =>
    rcases BuildNodes_cases DIST_EPSILON factor fast hypot VertexCheckOpen doc cancelled fuel L
      clock list depth out h with ⟨-, hr, -⟩ | ⟨-, bounds, tl, part, hb, htl, hpart, hcase⟩
    · rw [hr] at hret
      exact build_result_e.noConfusion hret
    · refine ⟨bounds, tl, part, hb, htl, hpart, ?_⟩
      have ft := SameNodes_TreeFromSegList htl
      have fs := SameButSegs_TreeFromSegList htl
      rcases hcase with ⟨hnone, r, hr, hL, hN, hS⟩ | ⟨hsome, L0, lefts, rights, hlt, -, hch⟩
      · refine ⟨fun _ => ?_, fun hne => absurd hnone hne⟩
        obtain ⟨c1, c2, c3⟩ := CreateSubsector_spec hr
        rw [SameButSegs_num_subsecs fs] at c1 c2
        refine ⟨hN, by rw [hS, c1], by rw [hL, c2], ?_⟩
        intro ss hl ha
        obtain ⟨t1, t2, -⟩ := TreeFromSegList_spec ss hl ha htl
        obtain ⟨l, q1, q2⟩ := c3 t1 (t2.nodup_iff.mpr (IsLinked_nodup hl))
        rw [c1] at q1
        exact ⟨l, by rw [hL]; exact q1, q2.trans t2⟩
      · refine ⟨fun hn => absurd hn hsome, fun _ => ?_⟩
        obtain ⟨k1, -, k3, k4, k5⟩ := BuildNodesChildren_spec _
          (BuildNodes_shape DIST_EPSILON factor fast hypot VertexCheckOpen doc cancelled fuel)
          L0 (clock + 2) tl.2.num_nodes lefts rights depth bounds out hlt hch
        rw [ft.2] at k3 k5 hlt
        exact ⟨k4, k3, lt_of_lt_of_le hlt k1, k5 hret⟩

/-- On the three walls of `demoThree` the call returns node 0, whose children are node 1
and subsector 2; on the list of the single seg 2 it returns subsector 0. -/
theorem BuildNodes_returns_node_or_subsector_witness :
    (demoBuilt.OneOf ∧
      ∃ bounds tl part, FindLimits2 demoThree (some 0) = some bounds ∧
        TreeFromSegList demoThree (some 0) bounds = some tl ∧
        PickNode (1 / 128) 11 false false demoThreeDoc tl.2 tl.1 = some part ∧
        (part = none →
          demoBuilt.N = none ∧ demoBuilt.S = some demoThree.num_subsecs ∧
          demoBuilt.L.num_subsecs = demoThree.num_subsecs + 1 ∧
          ∀ ss, IsLinked demoThree.segNext (some 0) ss → (∀ s ∈ ss, s < demoThree.num_segs) →
            ∃ l, demoBuilt.L.SubsecList demoThree.num_subsecs l ∧ l.Perm ss) ∧
        (part ≠ none →
          demoBuilt.S = none ∧ demoBuilt.N = some demoThree.num_nodes ∧
          demoThree.num_nodes < demoBuilt.L.num_nodes ∧
          (demoBuilt.L.lev_nodes demoThree.num_nodes).l.OneOf ∧
          (demoBuilt.L.lev_nodes demoThree.num_nodes).r.OneOf)) ∧
    (demoBuiltLeaf.OneOf ∧
      ∃ bounds tl part, FindLimits2 demoThree (some 2) = some bounds ∧
        TreeFromSegList demoThree (some 2) bounds = some tl ∧
        PickNode (1 / 128) 11 false false demoThreeDoc tl.2 tl.1 = some part ∧
        (part = none →
          demoBuiltLeaf.N = none ∧ demoBuiltLeaf.S = some demoThree.num_subsecs ∧
          demoBuiltLeaf.L.num_subsecs = demoThree.num_subsecs + 1 ∧
          ∀ ss, IsLinked demoThree.segNext (some 2) ss → (∀ s ∈ ss, s < demoThree.num_segs) →
            ∃ l, demoBuiltLeaf.L.SubsecList demoThree.num_subsecs l ∧ l.Perm ss) ∧
        (part ≠ none →
          demoBuiltLeaf.S = none ∧ demoBuiltLeaf.N = some demoThree.num_nodes ∧
          demoThree.num_nodes < demoBuiltLeaf.L.num_nodes ∧
          (demoBuiltLeaf.L.lev_nodes demoThree.num_nodes).l.OneOf ∧
          (demoBuiltLeaf.L.lev_nodes demoThree.num_nodes).r.OneOf)) :=
  ⟨BuildNodes_returns_node_or_subsector (1 / 128) 11 false demoHypot (fun _ _ _ => false)
      demoThreeDoc (fun _ => false) 5 demoThree 0 (some 0) 0 demoBuilt
      (Option_eq_some_getD _ (by decide!)) (by decide!),
    BuildNodes_returns_node_or_subsector (1 / 128) 11 false demoHypot (fun _ _ _ => false)
      demoThreeDoc (fun _ => false) 5 demoThree 0 (some 2) 0 demoBuiltLeaf
      (Option_eq_some_getD _ (by decide!)) (by decide!)⟩

/-! ### `RenumberSubsecSegs` -/

theorem RenumberSubsecSegsLoop_spec (sub : Nat) (l : List Nat) :
    ∀ (fuel : Nat) (L : Level) (n : Int) (cur : Option Nat),
      IsLinked L.segNext cur l → l.Nodup → l.length < fuel →
      ∃ L', RenumberSubsecSegsLoop sub fuel L n cur = some (L', n + l.length) ∧
        (∀ k, k < l.length → (L'.lev_segs (l.getD k 0)).index = n + k) ∧
        (L'.lev_subsecs sub).seg_count = (L.lev_subsecs sub).seg_count + l.length ∧
        (L'.lev_subsecs sub).seg_list = (L.lev_subsecs sub).seg_list ∧
        (L'.lev_subsecs sub).index = (L.lev_subsecs sub).index ∧
        (∀ s, L'.segNext s = L.segNext s) ∧
        (∀ s, s ∉ l → L'.lev_segs s = L.lev_segs s) ∧
        L'.num_segs = L.num_segs ∧ L'.num_subsecs = L.num_subsecs ∧
        (∀ j, j ≠ sub → L'.lev_subsecs j = L.lev_subsecs j) := by
  induction l with
  | nil =>
    intro fuel L n cur hl _ hlen
    have hnone : cur = none := hl
    subst hnone
    cases fuel with
    | zero => simp at hlen
    | succ fuel =>
      refine ⟨L, ?_, ?_, ?_, rfl, rfl, fun _ => rfl, fun _ _ => rfl, rfl, rfl, fun _ _ => rfl⟩
      · simp [RenumberSubsecSegsLoop]
      · intro k hk; simp at hk
      · simp
  | cons a rest ih =>
    intro fuel L n cur hl hnd hlen
    obtain ⟨ha, hnd'⟩ := List.nodup_cons.mp hnd
    obtain ⟨h1, h2⟩ := hl
    subst h1
    cases fuel with
    | zero => simp at hlen
    | succ fuel =>
      have hnx : ∀ s, ((L.modSeg a fun s => { s with index := n }).modSubsec sub fun s =>
          { s with seg_count := s.seg_count + 1 }).segNext s = L.segNext s := by
        intro s
        rw [modSubsec_segNext, segNext_modSeg]
        split_ifs with e
        · rw [e]; rfl
        · rfl
      obtain ⟨L', hr, c1, c2, c3, c4, c5, c6, c7, c8, c9⟩ := ih fuel
        ((L.modSeg a fun s => { s with index := n }).modSubsec sub fun s =>
          { s with seg_count := s.seg_count + 1 }) (n + 1) (L.lev_segs a).next
        ((IsLinked_congr (fun s _ => hnx s)).mpr h2) hnd'
        (by simp only [List.length_cons] at hlen; omega)
      refine ⟨L', ?_, ?_, ?_, ?_, ?_, ?_, ?_, ?_, ?_, ?_⟩
      · simp only [RenumberSubsecSegsLoop]
        have e : (((L.modSeg a fun s => { s with index := n }).modSubsec sub fun s =>
            { s with seg_count := s.seg_count + 1 }).lev_segs a).next = (L.lev_segs a).next := by
          simp [modSeg_apply]
        rw [e, hr]
        simp only [List.length_cons]
        push_cast
        congr 2
        ring
      · intro k hk
        cases k with
        | zero =>
          simp only [List.getD_cons_zero]
          rw [c6 a ha]
          simp [modSeg_apply]
        | succ k =>
          simp only [List.getD_cons_succ]
          rw [c1 k (by simp only [List.length_cons] at hk; omega)]
          push_cast
          ring
      · rw [c2]
        simp only [modSubsec_apply, if_true, List.length_cons]
        push_cast
        show (L.lev_subsecs sub).seg_count + 1 + (rest.length : Int) = _
        ring
      · rw [c3]
        simp [modSubsec_apply]
      · rw [c4]
        simp [modSubsec_apply]
      · intro s
        rw [c5 s, hnx s]
      · intro s hs
        have hs1 : s ≠ a := fun e => hs (e ▸ List.mem_cons_self _ _)
        have hs2 : s ∉ rest := fun e => hs (List.mem_cons_of_mem _ e)
        rw [c6 s hs2]
        simp [modSeg_apply, hs1]
      · rw [c7]; rfl
      · rw [c8]; rfl
      · intro j hj
        rw [c9 j hj]
        simp [modSubsec_apply, hj]

/-- `RenumberSubsecSegs` on a subsector with the seg list `l`: the segs get the indices
`n, n + 1, ...` in list order, `seg_count` is the length of the list, and the counter
grows by it.  Nothing else is written. -/
theorem RenumberSubsecSegs_spec (L : Level) (n : Int) (sub : Nat) (l : List Nat)
    (hl : L.SubsecList sub l) (hlt : ∀ s ∈ l, s < L.num_segs) :
    ∃ L', RenumberSubsecSegs L n sub = some (L', n + l.length) ∧
      L'.SubsecList sub l ∧
      (∀ k, k < l.length → (L'.lev_segs (l.getD k 0)).index = n + k) ∧
      (L'.lev_subsecs sub).seg_count = l.length ∧
      (L'.lev_subsecs sub).index = (L.lev_subsecs sub).index ∧
      (∀ s, L'.segNext s = L.segNext s) ∧
      (∀ s, s ∉ l → L'.lev_segs s = L.lev_segs s) ∧
      L'.num_segs = L.num_segs ∧ L'.num_subsecs = L.num_subsecs ∧
      (∀ j, j ≠ sub → L'.lev_subsecs j = L.lev_subsecs j) := by
  have hnd := IsLinked_nodup hl
  have hl1 : IsLinked (L.modSubsec sub fun s => { s with seg_count := 0 }).segNext
      ((L.modSubsec sub fun s => { s with seg_count := 0 }).lev_subsecs sub).seg_list l := by
    rw [modSubsec_segNext]
    simp only [modSubsec_apply, if_true]
    exact hl
  obtain ⟨L', hr, c1, c2, c3, c4, c5, c6, c7, c8, c9⟩ := RenumberSubsecSegsLoop_spec sub l
    ((L.modSubsec sub fun s => { s with seg_count := 0 }).num_segs + 1)
    (L.modSubsec sub fun s => { s with seg_count := 0 }) n _ hl1 hnd
    (Nat.lt_succ_of_le (length_le_of_nodup_lt hnd hlt))
  refine ⟨L', hr, ?_, c1, ?_, ?_, c5, c6, c7, c8, ?_⟩
  · show IsLinked _ _ _
    rw [c3]
    simp only [modSubsec_apply, if_true]
    exact (IsLinked_congr (fun s _ => c5 s)).mpr hl
  · rw [c2]
    simp [modSubsec_apply]
  · rw [c4]
    simp [modSubsec_apply]
  · intro j hj
    rw [c9 j hj]
    simp [modSubsec_apply, hj]

/-! ### Index density: one subsector after the other -/

theorem mem_subsecWalk {ls : Nat → List Nat} {s : Nat} :
    ∀ {i : Nat}, s ∈ subsecWalk ls i → ∃ j, j < i ∧ s ∈ ls j
  | 0, h => absurd h (List.not_mem_nil _)
  | i + 1, h => by
    rcases List.mem_append.mp h with h | h
    · obtain ⟨j, hj, hs⟩ := mem_subsecWalk h
      exact ⟨j, Nat.lt_succ_of_lt hj, hs⟩
    · exact ⟨i, Nat.lt_succ_self i, h⟩

theorem subsecWalk_congr {ls ls' : Nat → List Nat} :
    ∀ (i : Nat), (∀ j, j < i → ls' j = ls j) → subsecWalk ls' i = subsecWalk ls i
  | 0, _ => rfl
  | i + 1, h => by
    show subsecWalk ls' i ++ ls' i = subsecWalk ls i ++ ls i
    rw [subsecWalk_congr i (fun j hj => h j (Nat.lt_succ_of_lt hj)), h i (Nat.lt_succ_self i)]

/-- What a pass may do to subsector `i` before its segs are renumbered: it leaves a list
of segs taken from the old list, and writes to these segs and to the subsector only. -/
theorem density_step (op : Level → Nat → Option Level)
    (hop : ∀ (L : Level) (i : Nat) (l : List Nat) (L' : Level), L.SubsecList i l →
      (∀ s ∈ l, s < L.num_segs) → op L i = some L' →
      ∃ l', L'.SubsecList i l' ∧ (∀ s ∈ l', s ∈ l) ∧ L'.num_segs = L.num_segs ∧
        L'.num_subsecs = L.num_subsecs ∧ (∀ j, j ≠ i → L'.lev_subsecs j = L.lev_subsecs j) ∧
        (L'.lev_subsecs i).index = (L.lev_subsecs i).index ∧
        (∀ s, s ∉ l → L'.lev_segs s = L.lev_segs s))
    (L : Level) (ls : Nat → List Nat) (i : Nat) (n : Int) (r : Level × Int)
    (hi : i < L.num_subsecs) (hls : L.SubsecLists ls) (hap : L.SubsecsApart ls)
    (hidx : L.SubsecIndexed) (hd : L.DenseUpTo ls i n)
    (hstep : (op L i).bind (fun L1 => RenumberSubsecSegs L1 n i) = some r) :
    ∃ ls', (∀ j, ∀ s ∈ ls' j, s ∈ ls j) ∧ r.1.num_subsecs = L.num_subsecs ∧
      r.1.SubsecLists ls' ∧ r.1.SubsecsApart ls' ∧ r.1.SubsecIndexed ∧
      r.1.DenseUpTo ls' (i + 1) r.2 := by
  simp only [Option.bind_eq_some] at hstep
  obtain ⟨L1, h1, h2⟩ := hstep
  obtain ⟨l', a1, a2, a3, a4, a5, a6, a7⟩ := hop L i (ls i) L1 (hls i hi) (hap.1 i hi) h1
  obtain ⟨L2, hr, b1, b2, b3, b4, b5, b6, b7, b8, b9⟩ := RenumberSubsecSegs_spec L1 n i l' a1
    (fun s hs => by rw [a3]; exact hap.1 i hi s (a2 s hs))
  rw [hr] at h2
  have e := Option.some.inj h2
  subst e
  -- a seg of another subsector is as it was
  have hother : ∀ j, j < L.num_subsecs → j ≠ i → ∀ s ∈ ls j, L2.lev_segs s = L.lev_segs s := by
    intro j hj hne s hs
    have hsl : s ∉ ls i := hap.2 j i hj hi hne s hs
    rw [b6 s (fun h => hsl (a2 s h)), a7 s hsl]
  have hsub : ∀ j, j ≠ i → L2.lev_subsecs j = L.lev_subsecs j := by
    intro j hne
    rw [b9 j hne, a5 j hne]
  refine ⟨Function.update ls i l', ?_, ?_, ?_, ?_, ?_, ?_⟩
  · intro j s hs
    by_cases hj : j = i
    · subst hj
      rw [Function.update_same] at hs
      exact a2 s hs
    · rw [Function.update_noteq hj] at hs
      exact hs
  · show L2.num_subsecs = _
    rw [b8, a4]
  · intro j hj
    have hj' : j < L.num_subsecs := by
      have : L2.num_subsecs = L.num_subsecs := by rw [b8, a4]
      rw [← this]; exact hj
    by_cases hji : j = i
    · subst hji
      rw [Function.update_same]
      exact b1
    · rw [Function.update_noteq hji]
      show IsLinked _ _ _
      rw [hsub j hji]
      refine (IsLinked_congr ?_).mpr (hls j hj')
      intro s hs
      show (L2.lev_segs s).next = (L.lev_segs s).next
      rw [hother j hj' hji s hs]
  · have hN : L2.num_subsecs = L.num_subsecs := by rw [b8, a4]
    have hS : L2.num_segs = L.num_segs := by rw [b7, a3]
    constructor
    · intro j hj s hs
      rw [hN] at hj
      rw [hS]
      by_cases hji : j = i
      · subst hji
        rw [Function.update_same] at hs
        exact hap.1 j hj s (a2 s hs)
      · rw [Function.update_noteq hji] at hs
        exact hap.1 j hj s hs
    · intro j1 j2 h1' h2' hne s hs hs2
      rw [hN] at h1' h2'
      have m1 : s ∈ ls j1 := by
        by_cases hji : j1 = i
        · subst hji
          rw [Function.update_same] at hs
          exact a2 s hs
        · rw [Function.update_noteq hji] at hs
          exact hs
      have m2 : s ∈ ls j2 := by
        by_cases hji : j2 = i
        · subst hji
          rw [Function.update_same] at hs2
          exact a2 s hs2
        · rw [Function.update_noteq hji] at hs2
          exact hs2
      exact hap.2 j1 j2 h1' h2' hne s m1 m2
  · intro j hj
    have hj' : j < L.num_subsecs := by
      have : L2.num_subsecs = L.num_subsecs := by rw [b8, a4]
      rw [← this]; exact hj
    by_cases hji : j = i
    · subst hji
      show (L2.lev_subsecs j).index = _
      rw [b4, a6]
      exact hidx j hj'
    · show (L2.lev_subsecs j).index = _
      rw [hsub j hji]
      exact hidx j hj'
  · obtain ⟨d1, d2, d3⟩ := hd
    have hw : subsecWalk (Function.update ls i l') i = subsecWalk ls i :=
      subsecWalk_congr i (fun j hj => Function.update_noteq (Nat.ne_of_lt hj) _ _)
    have hw1 : subsecWalk (Function.update ls i l') (i + 1) = subsecWalk ls i ++ l' := by
      show subsecWalk (Function.update ls i l') i ++ Function.update ls i l' i = _
      rw [hw, Function.update_same]
    refine ⟨?_, ?_, ?_⟩
    · intro k hk
      rw [hw1] at hk ⊢
      by_cases hlt : k < (subsecWalk ls i).length
      · rw [List.getD_append _ _ _ _ hlt]
        have hmem : (subsecWalk ls i).getD k 0 ∈ subsecWalk ls i := by
          rw [List.getD_eq_getElem _ _ hlt]
          exact List.getElem_mem _
        obtain ⟨j, hj, hs⟩ := mem_subsecWalk hmem
        rw [hother j (lt_trans hj hi) (Nat.ne_of_lt hj) _ hs]
        exact d1 k hlt
      · have hge : (subsecWalk ls i).length ≤ k := Nat.le_of_not_lt hlt
        rw [List.getD_append_right _ _ _ _ hge]
        rw [List.length_append] at hk
        rw [b2 _ (by omega), d3]
        push_cast [hge]
        omega
    · intro j hj
      by_cases hji : j = i
      · subst hji
        rw [Function.update_same]
        exact b3
      · rw [Function.update_noteq hji, hsub j hji]
        exact d2 j (by omega)
    · show n + (l'.length : Int) = _
      rw [hw1, List.length_append, d3]
      push_cast
      ring

/-- A pass that handles the subsectors `0, 1, ...` one after the other, each by a local
operation followed by `RenumberSubsecSegs`, leaves the indices dense. -/
theorem density_fold (op : Level → Nat → Option Level)
    (step : Level × Int → Nat → Option (Level × Int))
    (hop : ∀ (L : Level) (i : Nat) (l : List Nat) (L' : Level), L.SubsecList i l →
      (∀ s ∈ l, s < L.num_segs) → op L i = some L' →
      ∃ l', L'.SubsecList i l' ∧ (∀ s ∈ l', s ∈ l) ∧ L'.num_segs = L.num_segs ∧
        L'.num_subsecs = L.num_subsecs ∧ (∀ j, j ≠ i → L'.lev_subsecs j = L.lev_subsecs j) ∧
        (L'.lev_subsecs i).index = (L.lev_subsecs i).index ∧
        (∀ s, s ∉ l → L'.lev_segs s = L.lev_segs s))
    (hstep : ∀ (st : Level × Int) (i : Nat) (r : Level × Int), step st i = some r →
      (op st.1 i).bind (fun L1 => RenumberSubsecSegs L1 st.2 i) = some r)
    (L0 : Level) (ls0 : Nat → List Nat) (hls : L0.SubsecLists ls0) (hap : L0.SubsecsApart ls0)
    (hidx : L0.SubsecIndexed) :
    ∀ (m : Nat), m ≤ L0.num_subsecs → ∀ (r : Level × Int),
      (List.range m).foldlM step (L0, 0) = some r →
      ∃ ls, (∀ j, ∀ s ∈ ls j, s ∈ ls0 j) ∧ r.1.num_subsecs = L0.num_subsecs ∧
        r.1.SubsecLists ls ∧ r.1.SubsecsApart ls ∧ r.1.SubsecIndexed ∧
        r.1.DenseUpTo ls m r.2 := by
  intro m
  induction m with
  | zero =>
    intro _ r h
    simp only [List.range_zero, List.foldlM_nil, pure] at h
    rw [← Option.some.inj h]
    refine ⟨ls0, fun _ _ hs => hs, rfl, hls, hap, hidx, ?_, ?_, ?_⟩
    · intro k hk
      exact absurd hk (Nat.not_lt_zero _)
    · intro j hj
      exact absurd hj (Nat.not_lt_zero _)
    · rfl
  | succ m ih =>
    intro hm r h
    rw [List.range_succ, List.foldlM_append] at h
    simp only [List.foldlM_cons, List.foldlM_nil, bind, Option.bind_eq_some, pure] at h
    obtain ⟨st, hst, r', hr', hrr⟩ := h
    have e := Option.some.inj hrr
    subst e
    obtain ⟨ls, c1, c2, c3, c4, c5, c6⟩ := ih (Nat.le_of_succ_le hm) st hst
    obtain ⟨ls', d1, d2, d3, d4, d5, d6⟩ := density_step op hop st.1 ls m st.2 r'
      (by rw [c2]; exact hm) c3 c4 c5 c6 (hstep st m r' hr')
    exact ⟨ls', fun j s hs => c1 j s (d1 j s hs), by rw [d2, c2], d3, d4, d5, d6⟩

/-! ### The three passes are local to the subsector they handle -/

theorem ClockwiseOrder_local (UtilComputeAngle : ℚ → ℚ → ℚ) (eps : ℚ) (heps : 0 ≤ eps)
    (doc : Document) (L : Level) (i : Nat) (l : List Nat) (L' : Level)
    (hl : L.SubsecList i l) (hlt : ∀ s ∈ l, s < L.num_segs)
    (h : ClockwiseOrder UtilComputeAngle eps doc L i = some L') :
    ∃ l', L'.SubsecList i l' ∧ (∀ s ∈ l', s ∈ l) ∧ L'.num_segs = L.num_segs ∧
      L'.num_subsecs = L.num_subsecs ∧ (∀ j, j ≠ i → L'.lev_subsecs j = L.lev_subsecs j) ∧
      (L'.lev_subsecs i).index = (L.lev_subsecs i).index ∧
      (∀ s, s ∉ l → L'.lev_segs s = L.lev_segs s) := by
  obtain ⟨L1, sorted, hr, hperm, -, hlist, hsame, -, -, hframe⟩ :=
    ClockwiseOrder_spec UtilComputeAngle eps heps doc L i l hl hlt
  rw [hr] at h
  have e := Option.some.inj h
  subst e
  exact ⟨_, hlist, fun s hs => hperm.subset ((List.rotate_perm _ _).subset hs), hsame.1,
    hsame.2.1, hsame.2.2.2.2.1, hsame.2.2.2.2.2.1, hframe⟩

/-- The unlinking loop followed by the assignment of the new head to the subsector. -/
theorem UnlinkLoop_local (keep : seg_t → Bool) (L : Level) (i : Nat) (l : List Nat)
    (L' : Level) (hl : L.SubsecList i l) (hlt : ∀ s ∈ l, s < L.num_segs)
    (h : (UnlinkLoop keep i (L.num_segs + 1) L none none).bind (fun st =>
      match st.2.1 with
      | none => none
      | some new_head => some (st.1.modSubsec i fun s => { s with seg_list := some new_head }))
        = some L') :
    ∃ l', L'.SubsecList i l' ∧ (∀ s ∈ l', s ∈ l) ∧ L'.num_segs = L.num_segs ∧
      L'.num_subsecs = L.num_subsecs ∧ (∀ j, j ≠ i → L'.lev_subsecs j = L.lev_subsecs j) ∧
      (L'.lev_subsecs i).index = (L.lev_subsecs i).index ∧
      (∀ s, s ∉ l → L'.lev_segs s = L.lev_segs s) := by
  have hnd : l.Nodup := IsLinked_nodup hl
  have hlen : l.length < L.num_segs + 1 := Nat.lt_succ_of_le (length_le_of_nodup_lt hnd hlt)
  obtain ⟨L1, nh, nt, hrun, hlist, hsame, -, -, -, -, hframe⟩ :=
    UnlinkLoop_spec keep i (L.num_segs + 1) L [] l none none hl (IsLinked_nil.mpr rfl) rfl
      (by simpa using hnd) hlen
  simp only [List.nil_append] at hlist
  rw [hrun, Option.some_bind] at h
  cases hnh : nh with
  | none =>
    rw [hnh] at h
    exact Option.noConfusion h
  | some head =>
    rw [hnh] at h hlist
    have e := Option.some.inj h
    subst e
    refine ⟨l.filter fun s => keep (L.lev_segs s), ?_, fun s hs => (List.mem_filter.mp hs).1,
      hsame.1, hsame.2.1, ?_, ?_, ?_⟩
    · show IsLinked _ _ _
      simp only [modSubsec_apply, if_true, modSubsec_segNext]
      exact hlist
    · intro j hj
      simp only [modSubsec_apply, if_neg hj]
      exact hsame.2.2.2.2.1 j hj
    · simp only [modSubsec_apply, if_true]
      exact hsame.2.2.2.2.2.1
    · intro s hs
      simp only [modSubsec_lev_segs]
      exact hframe s (List.not_mem_nil s) hs

theorem NormaliseSubsector_local (L : Level) (i : Nat) (l : List Nat) (L' : Level)
    (hl : L.SubsecList i l) (hlt : ∀ s ∈ l, s < L.num_segs)
    (h : NormaliseSubsector L i = some L') :
    ∃ l', L'.SubsecList i l' ∧ (∀ s ∈ l', s ∈ l) ∧ L'.num_segs = L.num_segs ∧
      L'.num_subsecs = L.num_subsecs ∧ (∀ j, j ≠ i → L'.lev_subsecs j = L.lev_subsecs j) ∧
      (L'.lev_subsecs i).index = (L.lev_subsecs i).index ∧
      (∀ s, s ∉ l → L'.lev_segs s = L.lev_segs s) := by
  unfold NormaliseSubsector at h
  rw [NormaliseSubsectorLoop_eq] at h
  exact UnlinkLoop_local _ L i l L' hl hlt h

theorem RoundOffSubsector_local (I_ROUND : ℚ → Int) (place : vertex_t → vertex_t → ℚ × ℚ)
    (L : Level) (i : Nat) (l : List Nat) (L' : Level)
    (hl : L.SubsecList i l) (hlt : ∀ s ∈ l, s < L.num_segs)
    (h : RoundOffSubsector I_ROUND place L i = some L') :
    ∃ l', L'.SubsecList i l' ∧ (∀ s ∈ l', s ∈ l) ∧ L'.num_segs = L.num_segs ∧
      L'.num_subsecs = L.num_subsecs ∧ (∀ j, j ≠ i → L'.lev_subsecs j = L.lev_subsecs j) ∧
      (L'.lev_subsecs i).index = (L.lev_subsecs i).index ∧
      (∀ s, s ∉ l → L'.lev_segs s = L.lev_segs s) := by
  have hnd : l.Nodup := IsLinked_nodup hl
  have hlen : l.length < L.num_segs + 1 := Nat.lt_succ_of_le (length_le_of_nodup_lt hnd hlt)
  obtain ⟨Lc, stc, hcount, hlast, -, hcseg, hcsub, -, hcn, -, hcns⟩ :=
    RoundOffCount_spec I_ROUND (L.num_segs + 1) L [] l (L.lev_subsecs i).seg_list
      { last_real_degen := none, real_total := 0, degen_total := 0 }
      (L.segRounds I_ROUND) L.segReal hl hlen (fun s _ => rfl) (fun s _ => rfl) rfl rfl
  simp only [List.nil_append] at hlast
  unfold RoundOffSubsector at h
  rw [hcount, Option.some_bind] at h
  rw [Option.bind_eq_some] at h
  obtain ⟨L2, hresc, h⟩ := h
  rw [RoundOffRemove_eq] at h
  -- the level after the rescue: the list is as it was, only segs of the list are written
  have hcnx : ∀ s, Lc.segNext s = L.segNext s := by
    intro s
    unfold Level.segNext
    rw [hcseg s]
    split_ifs <;> rfl
  have h2 : L2.num_segs = L.num_segs ∧ L2.num_subsecs = L.num_subsecs ∧
      L2.lev_subsecs = L.lev_subsecs ∧ (∀ s, L2.segNext s = L.segNext s) ∧
      (∀ s, s ∉ l → L2.lev_segs s = L.lev_segs s) := by
    have hcframe : ∀ s, s ∉ l → Lc.lev_segs s = L.lev_segs s := by
      intro s hs
      rw [hcseg s, if_neg (fun hh => hs hh.1)]
    unfold RoundOffRescue at hresc
    split_ifs at hresc
    · cases hlr : stc.last_real_degen with
      | none => rw [hlr] at hresc; exact Option.noConfusion hresc
      | some r =>
        rw [hlr] at hresc
        have hrl : r ∈ l := by
          rw [hlast] at hlr
          exact (List.mem_filter.mp (List.mem_of_getLast?_eq_some hlr)).1
        rw [← Option.some.inj hresc]
        refine ⟨?_, ?_, ?_, ?_, ?_⟩
        · simp only [modSeg_num_segs, NewVertexDegenerate_num_segs]
          exact hcn
        · simp only [modSeg_num_subsecs]
          exact hcns
        · simp only [modSeg_lev_subsecs, NewVertexDegenerate_lev_subsecs]
          exact hcsub
        · intro s
          rw [← hcnx s]
          unfold Level.segNext
          simp only [modSeg_apply, NewVertexDegenerate_lev_segs]
          split_ifs with e
          · rw [e]
          · rfl
        · intro s hs
          have hsr : s ≠ r := fun e => hs (e ▸ hrl)
          simp only [modSeg_apply, NewVertexDegenerate_lev_segs, if_neg hsr]
          exact hcframe s hs
    · rw [← Option.some.inj hresc]
      exact ⟨hcn, hcns, hcsub, hcnx, hcframe⟩
  obtain ⟨e1, e2, e3, e4, e5⟩ := h2
  have hl2 : L2.SubsecList i l := by
    show IsLinked _ _ _
    rw [e3]
    exact (IsLinked_congr (fun s _ => e4 s)).mpr hl
  obtain ⟨l', c1, c2, c3, c4, c5, c6, c7⟩ := UnlinkLoop_local _ L2 i l L' hl2
    (fun s hs => by rw [e1]; exact hlt s hs) h
  refine ⟨l', c1, c2, by rw [c3, e1], by rw [c4, e2], ?_, ?_, ?_⟩
  · intro j hj
    rw [c5 j hj, e3]
  · rw [c6, e3]
  · intro s hs
    rw [c7 s hs, e5 s hs]

/-! ### The builder keeps the subsectors it has made -/

theorem SameSubsecs_refl (L : Level) : L.SameSubsecs L := ⟨rfl, rfl⟩

theorem SameSubsecs_trans {L L1 L2 : Level} (h1 : L.SameSubsecs L1) (h2 : L1.SameSubsecs L2) :
    L.SameSubsecs L2 := ⟨h2.1.trans h1.1, h2.2.trans h1.2⟩

theorem SameSubsecs_modSeg (L : Level) (i : Nat) (f : seg_t → seg_t) :
    L.SameSubsecs (L.modSeg i f) := ⟨rfl, rfl⟩

theorem SameSubsecs_setSeg (L : Level) (i : Nat) (s : seg_t) :
    L.SameSubsecs (L.setSeg i s) := ⟨rfl, rfl⟩

theorem SameSubsecs_modCut (L : Level) (i : Nat) (f : intersection_t → intersection_t) :
    L.SameSubsecs (L.modCut i f) := ⟨rfl, rfl⟩

theorem NewSeg_fst_lev_subsecs (L : Level) : (NewSeg L).1.lev_subsecs = L.lev_subsecs := rfl

theorem NewSeg_fst_num_subsecs (L : Level) : (NewSeg L).1.num_subsecs = L.num_subsecs := rfl

theorem SameSubsecs_NewSeg (L : Level) : L.SameSubsecs (NewSeg L).1 := ⟨rfl, rfl⟩

theorem SameSubsecs_NewVertexFromSplitSeg (L : Level) (s : Nat) (x y : ℚ) :
    L.SameSubsecs (NewVertexFromSplitSeg L s x y).1 := ⟨rfl, rfl⟩

theorem SameSubsecs_ListAddSeg (L : Level) (list : Option Nat) (seg : Nat) :
    L.SameSubsecs (ListAddSeg L list seg).1 := ⟨rfl, rfl⟩

theorem SameSubsecs_NewIntersection (L : Level) : L.SameSubsecs (NewIntersection L).1 := by
  unfold NewIntersection
  cases L.quick_alloc_cuts <;> exact ⟨rfl, rfl⟩

theorem SameSubsecs_RecomputeSeg {hypot : ℚ → ℚ → ℚ} {L L' : Level} {seg : Nat}
    (h : RecomputeSeg hypot L seg = some L') : L.SameSubsecs L' := by
  rw [(RecomputeSeg_eq_some h).1]
  exact ⟨rfl, rfl⟩

theorem SameSubsecs_SplitSegPartner {hypot : ℚ → ℚ → ℚ} {L L' : Level} {S T V : Nat}
    (h : SplitSegPartner hypot L S T V = some L') : L.SameSubsecs L' := by
  unfold SplitSegPartner at h
  simp only [Option.bind_eq_some] at h
  obtain ⟨L5, h5, L7, h7, hL'⟩ := h
  have e5 := SameSubsecs_RecomputeSeg h5
  have e7 := SameSubsecs_RecomputeSeg h7
  rw [← Option.some.inj hL']
  constructor
  · show L7.lev_subsecs = _
    rw [e7.1]
    show L5.lev_subsecs = _
    rw [e5.1]
    rfl
  · show L7.num_subsecs = _
    rw [e7.2]
    show L5.num_subsecs = _
    rw [e5.2]
    rfl

theorem SameSubsecs_SplitSeg {hypot : ℚ → ℚ → ℚ} {L : Level} {S : Nat} {x y : ℚ}
    {r : Level × Nat} (h : SplitSeg hypot L S x y = some r) : L.SameSubsecs r.1 := by
  unfold SplitSeg at h
  simp only [Option.bind_eq_some] at h
  obtain ⟨L4, h4, L6, h6, hr⟩ := h
  have e4 := SameSubsecs_RecomputeSeg h4
  have e6 := SameSubsecs_RecomputeSeg h6
  have n6 : L.SameSubsecs L6 := by
    constructor
    · rw [e6.1]
      show L4.lev_subsecs = _
      rw [e4.1]
      rfl
    · rw [e6.2]
      show L4.num_subsecs = _
      rw [e4.2]
      rfl
  cases hp : (L6.lev_segs S).partner with
  | none =>
    rw [hp] at hr
    rw [← Option.some.inj hr]
    exact n6
  | some p =>
    rw [hp] at hr
    simp only [Option.map_eq_some'] at hr
    obtain ⟨L7, h7, hr⟩ := hr
    rw [← hr]
    exact SameSubsecs_trans n6 (SameSubsecs_SplitSegPartner h7)

theorem SameSubsecs_forceClosed (L : Level) (cut : Nat) (fc : Int) :
    L.SameSubsecs (forceClosed L cut fc) := by
  unfold forceClosed
  split_ifs <;> exact ⟨rfl, rfl⟩

theorem SameSubsecs_AddIntersectionMerge (eps : ℚ) (vert : Nat) (along : ℚ) (ob oa : Bool)
    (fc : Int) (fuel : Nat) : ∀ (L : Level) (cut : Option Nat) (L' : Level),
      AddIntersectionMerge eps vert along ob oa fc fuel L cut = some (some L') →
      L.SameSubsecs L' := by
  induction fuel with
  | zero => intro L cut L' h; simp [AddIntersectionMerge] at h
  | succ fuel ih =>
    intro L cut L' h
    cases cut with
    | none => simp [AddIntersectionMerge] at h
    | some c =>
      simp only [AddIntersectionMerge] at h
      by_cases c1 : vert = (L.cuts c).vertex
      · rw [if_pos c1] at h
        rw [← Option.some.inj (Option.some.inj h)]
        exact SameSubsecs_forceClosed _ _ _
      · rw [if_neg c1] at h
        by_cases c2 : |along - (L.cuts c).along_dist| < eps
        · rw [if_pos c2] at h
          rw [← Option.some.inj (Option.some.inj h)]
          refine SameSubsecs_trans ?_ (SameSubsecs_forceClosed _ _ _)
          split_ifs <;> exact ⟨rfl, rfl⟩
        · rw [if_neg c2] at h
          exact ih L _ L' h

theorem SameSubsecs_AddIntersectionLink (L : Level) (cut_list : Option Nat) (cut : Nat)
    (after : Option Nat) : L.SameSubsecs (AddIntersectionLink L cut_list cut after).1 := by
  unfold AddIntersectionLink
  cases after with
  | none => cases cut_list <;> exact ⟨rfl, rfl⟩
  | some a =>
    simp only []
    split <;> exact ⟨rfl, rfl⟩

theorem SameSubsecs_AddIntersection {eps : ℚ} {VCO : Nat → ℚ → ℚ → Bool} {L : Level}
    {cut_list : Option Nat} {vert : Nat} {part : seg_t} {self_ref : Bool} {fc : Int}
    {r : Level × Option Nat}
    (h : AddIntersection eps VCO L cut_list vert part self_ref fc = some r) :
    L.SameSubsecs r.1 := by
  unfold AddIntersection at h
  simp only [Option.bind_eq_some] at h
  obtain ⟨merged, hm, h⟩ := h
  cases merged with
  | some L' =>
    simp only [Option.some.injEq] at h
    rw [← h]
    exact SameSubsecs_AddIntersectionMerge _ _ _ _ _ _ _ _ _ _ hm
  | none =>
    simp only [Option.bind_eq_some] at h
    obtain ⟨last, -, after, -, h⟩ := h
    rw [← Option.some.inj h]
    obtain ⟨e1, e2⟩ := SameSubsecs_AddIntersectionLink
      ((NewIntersection L).1.modCut (NewIntersection L).2 fun c => { c with
        vertex := vert
        along_dist := part.ParallelDist (L.lev_vertices vert).x (L.lev_vertices vert).y
        self_ref := self_ref
        open_before := if fc = 1 then false else VCO vert (-part.pdx) (-part.pdy)
        open_after := if fc = 2 then false else VCO vert part.pdx part.pdy })
      cut_list (NewIntersection L).2 after
    obtain ⟨n1, n2⟩ := SameSubsecs_NewIntersection L
    exact ⟨e1.trans n1, e2.trans n2⟩

theorem SameSubsecs_DivideOneSeg {eps : ℚ} {hypot : ℚ → ℚ → ℚ} {VCO : Nat → ℚ → ℚ → Bool}
    {doc : Document} {L : Level} {seg part : Nat} {ll rl cl : Option Nat}
    {r : Level × Option Nat × Option Nat × Option Nat}
    (h : DivideOneSeg eps hypot VCO doc L seg part ll rl cl = some r) : L.SameSubsecs r.1 := by
  obtain ⟨a, ha⟩ : ∃ a : ℚ, a =
      if (L.lev_segs seg).source_line = (L.lev_segs part).source_line then 0
      else (L.lev_segs part).PerpDist (L.lev_segs seg).psx (L.lev_segs seg).psy := ⟨_, rfl⟩
  obtain ⟨b, hb⟩ : ∃ b : ℚ, b =
      if (L.lev_segs seg).source_line = (L.lev_segs part).source_line then 0
      else (L.lev_segs part).PerpDist (L.lev_segs seg).pex (L.lev_segs seg).pey := ⟨_, rfl⟩
  unfold DivideOneSeg at h
  simp only [] at h
  rw [← ha, ← hb] at h
  by_cases c1 : |a| ≤ eps ∧ |b| ≤ eps
  · -- on the same line
    rw [if_pos c1] at h
    simp only [Option.bind_eq_some] at h
    obtain ⟨r1, h1, r2, h2, h⟩ := h
    have n2 := SameSubsecs_trans (SameSubsecs_AddIntersection h1) (SameSubsecs_AddIntersection h2)
    split_ifs at h
    · rw [← Option.some.inj h]
      exact ⟨n2.1, n2.2⟩
    · rw [← Option.some.inj h]
      exact ⟨n2.1, n2.2⟩
  · rw [if_neg c1] at h
    by_cases c2 : a > -eps ∧ b > -eps
    · -- right side
      rw [if_pos c2] at h
      simp only [Option.bind_eq_some] at h
      obtain ⟨r1, h1, h⟩ := h
      have n1 : L.SameSubsecs r1.1 := by
        split_ifs at h1
        all_goals first
          | exact SameSubsecs_AddIntersection h1
          | (rw [← Option.some.inj h1]; exact SameSubsecs_refl _)
      rw [← Option.some.inj h]
      exact ⟨n1.1, n1.2⟩
    · rw [if_neg c2] at h
      by_cases c3 : a < eps ∧ b < eps
      · -- left side
        rw [if_pos c3] at h
        simp only [Option.bind_eq_some] at h
        obtain ⟨r1, h1, h⟩ := h
        have n1 : L.SameSubsecs r1.1 := by
          split_ifs at h1
          all_goals first
            | exact SameSubsecs_AddIntersection h1
            | (rw [← Option.some.inj h1]; exact SameSubsecs_refl _)
        rw [← Option.some.inj h]
        exact ⟨n1.1, n1.2⟩
      · -- split
        rw [if_neg c3] at h
        simp only [Option.bind_eq_some] at h
        obtain ⟨sp, hs, r1, h1, h⟩ := h
        have n1 := SameSubsecs_trans (SameSubsecs_SplitSeg hs) (SameSubsecs_AddIntersection h1)
        split_ifs at h
        · rw [← Option.some.inj h]
          exact ⟨n1.1, n1.2⟩
        · rw [← Option.some.inj h]
          exact ⟨n1.1, n1.2⟩

theorem SameSubsecs_SeparateSegsLoop {eps : ℚ} {hypot : ℚ → ℚ → ℚ} {VCO : Nat → ℚ → ℚ → Bool}
    {doc : Document} {part : Nat} (fuel : Nat) :
    ∀ (L : Level) (list : Option Nat) (st : Option Nat × Option Nat × Option Nat)
      (r : Level × Option Nat × Option Nat × Option Nat),
      SeparateSegsLoop eps hypot VCO doc part fuel L list st = some r → L.SameSubsecs r.1 := by
  induction fuel with
  | zero => intro L list st r h; simp [SeparateSegsLoop] at h
  | succ fuel ih =>
    intro L list st r h
    cases list with
    | none =>
      simp only [SeparateSegsLoop] at h
      rw [← Option.some.inj h]
      exact SameSubsecs_refl _
    | some seg =>
      simp only [SeparateSegsLoop, Option.bind_eq_some] at h
      obtain ⟨r1, h1, h2⟩ := h
      exact SameSubsecs_trans (SameSubsecs_trans (SameSubsecs_modSeg _ _ _) (SameSubsecs_DivideOneSeg h1))
        (ih _ _ _ _ h2)

theorem SameSubsecs_SeparateSegs {eps : ℚ} {hypot : ℚ → ℚ → ℚ} {VCO : Nat → ℚ → ℚ → Bool}
    {doc : Document} {part : Nat} (fuel : Nat) (t : quadtree_c) :
    ∀ (L : Level) (st : Option Nat × Option Nat × Option Nat)
      (r : Level × Option Nat × Option Nat × Option Nat),
      SeparateSegs eps hypot VCO doc part fuel t L st = some r → L.SameSubsecs r.1 := by
  induction t with
  | leaf x1 y1 x2 y2 rn mn list =>
    intro L st r h
    simp only [SeparateSegs] at h
    exact SameSubsecs_SeparateSegsLoop _ _ _ _ _ h
  | node x1 y1 x2 y2 rn mn list sub0 sub1 ih0 ih1 =>
    intro L st r h
    simp only [SeparateSegs, Option.bind_eq_some] at h
    obtain ⟨r1, h1, r2, h2, h3⟩ := h
    exact SameSubsecs_trans (SameSubsecs_trans (SameSubsecs_SeparateSegsLoop _ _ _ _ _ h1)
      (ih0 _ _ _ h2)) (ih1 _ _ _ h3)

theorem SameSubsecs_AddMinisegPair {hypot : ℚ → ℚ → ℚ} {L : Level} {part cur next : Nat}
    {ll rl : Option Nat} {r : Level × Option Nat × Option Nat}
    (h : AddMinisegPair hypot L part cur next ll rl = some r) : L.SameSubsecs r.1 := by
  unfold AddMinisegPair at h
  simp only [Option.bind_eq_some] at h
  obtain ⟨L8, h8, L9, h9, h⟩ := h
  have e8 := SameSubsecs_RecomputeSeg h8
  have e9 := SameSubsecs_RecomputeSeg h9
  obtain ⟨rL, rr⟩ := r
  have hr := congrArg Prod.fst (Option.some.inj h)
  simp only at hr
  rw [← hr]
  refine SameSubsecs_trans ?_ (SameSubsecs_trans e8 (SameSubsecs_trans e9
    (SameSubsecs_trans (SameSubsecs_ListAddSeg _ _ _) (SameSubsecs_ListAddSeg _ _ _))))
  constructor
  · simp only [modSeg_lev_subsecs, NewSeg_fst_lev_subsecs]
  · simp only [modSeg_num_subsecs, NewSeg_fst_num_subsecs]

theorem SameSubsecs_AddMinisegsLoop {hypot : ℚ → ℚ → ℚ} {part : Nat} (fuel : Nat) :
    ∀ (L : Level) (cur ll rl : Option Nat) (r : Level × Option Nat × Option Nat),
      AddMinisegsLoop hypot part fuel L cur ll rl = some r → L.SameSubsecs r.1 := by
  induction fuel with
  | zero => intro L cur ll rl r h; simp [AddMinisegsLoop] at h
  | succ fuel ih =>
    intro L cur ll rl r h
    cases cur with
    | none =>
      simp only [AddMinisegsLoop] at h
      rw [← Option.some.inj h]
      exact SameSubsecs_refl _
    | some cur =>
      simp only [AddMinisegsLoop] at h
      cases hn : (L.cuts cur).next with
      | none =>
        rw [hn] at h
        simp only at h
        rw [← Option.some.inj h]
        exact SameSubsecs_refl _
      | some next =>
        rw [hn] at h
        simp only at h
        split_ifs at h
        all_goals first
          | exact ih _ _ _ _ _ h
          | (simp only [Option.bind_eq_some] at h
             obtain ⟨st, h1, h2⟩ := h
             exact SameSubsecs_trans (SameSubsecs_AddMinisegPair h1) (ih _ _ _ _ _ h2))

theorem SameSubsecs_AddMinisegsFree (fuel : Nat) :
    ∀ (L : Level) (cur : Option Nat) (L' : Level),
      AddMinisegsFree fuel L cur = some L' → L.SameSubsecs L' := by
  induction fuel with
  | zero => intro L cur L' h; simp [AddMinisegsFree] at h
  | succ fuel ih =>
    intro L cur L' h
    cases cur with
    | none =>
      simp only [AddMinisegsFree] at h
      rw [← Option.some.inj h]
      exact SameSubsecs_refl _
    | some cur =>
      simp only [AddMinisegsFree] at h
      have := ih _ _ _ h
      exact ⟨this.1, this.2⟩

theorem SameSubsecs_AddMinisegs {hypot : ℚ → ℚ → ℚ} {L : Level} {cut_list : Option Nat}
    {part : Nat} {ll rl : Option Nat} {r : Level × Option Nat × Option Nat}
    (h : AddMinisegs hypot L cut_list part ll rl = some r) : L.SameSubsecs r.1 := by
  unfold AddMinisegs at h
  cases cut_list with
  | none =>
    simp only at h
    rw [← Option.some.inj h]
    exact SameSubsecs_refl _
  | some c =>
    simp only [Option.bind_eq_some, Option.map_eq_some'] at h
    obtain ⟨st, h1, L', h2, h3⟩ := h
    rw [← h3]
    exact SameSubsecs_trans (SameSubsecs_AddMinisegsLoop _ _ _ _ _ _ h1)
      (SameSubsecs_AddMinisegsFree _ _ _ _ h2)


theorem SubsecIndexed_of_SameSubsecs {L L' : Level} (h : L.SameSubsecs L')
    (hi : L.SubsecIndexed) : L'.SubsecIndexed := by
  intro j hj
  rw [h.1]
  rw [h.2] at hj
  exact hi j hj

theorem SameSubsecs_of_SameButSegs {L L' : Level} (h : L.SameButSegs L') :
    L.SameSubsecs L' :=
  ⟨SameButSegs_lev_subsecs h, SameButSegs_num_subsecs h⟩

/-- `CreateSubsector` gives the new subsector its position as index. -/
theorem CreateSubsector_indexed {L : Level} {tree : quadtree_c} {r : Level × Nat}
    (h : CreateSubsector L tree = some r) (hi : L.SubsecIndexed) :
    r.1.SubsecIndexed ∧ (r.1.lev_subsecs r.2).index = (r.2 : Int) := by
  obtain ⟨c, st, h1, h2, h3⟩ := CreateSubsector_eq h
  have hf := SameButSegs_ConvertToList _ _ _ _ h1
  have hN := SameButSegs_num_subsecs hf
  have hS := SameButSegs_lev_subsecs hf
  have key : ∀ j, j < L.num_subsecs + 1 → (r.1.lev_subsecs j).index = (j : Int) := by
    intro j hj
    rw [h3]
    simp only [modSubsec_apply]
    rw [hS]
    by_cases hjn : j = L.num_subsecs
    · subst hjn
      simp [modSubsec_apply, NewSubsec]
    · have hlt : j < L.num_subsecs := by omega
      simp only [if_neg hjn, modSubsec_apply]
      show (Function.update L.lev_subsecs L.num_subsecs subsec_t.zero j).index = _
      rw [Function.update_noteq hjn]
      exact hi j hlt
  constructor
  · intro j hj
    apply key
    rw [h3] at hj
    simp only [modSubsec_num_subsecs] at hj
    rw [hN] at hj
    exact hj
  · rw [h2]
    exact key _ (Nat.lt_succ_self _)

/-- The steps of a call of `BuildNodes` that is not cancelled at entry. -/
theorem BuildNodes_unfold (DIST_EPSILON : ℚ) (factor : Int) (fast : Bool)
    (hypot : ℚ → ℚ → ℚ) (VertexCheckOpen : Nat → ℚ → ℚ → Bool) (doc : Document)
    (cancelled : Nat → Bool) (fuel : Nat) (L : Level) (clock : Nat) (list : Option Nat)
    (depth : Int) (out : BuildOut)
    (h : BuildNodes DIST_EPSILON factor fast hypot VertexCheckOpen doc cancelled (fuel + 1) L
      clock list depth = some out) :
    (cancelled clock = true ∧ out.L = L) ∨
    ∃ bounds tl part, FindLimits2 L list = some bounds ∧
      TreeFromSegList L list bounds = some tl ∧
      PickNode DIST_EPSILON factor fast (cancelled (clock + 1)) doc tl.2 tl.1 = some part ∧
      ((part = none ∧ ∃ r, CreateSubsector tl.2 tl.1 = some r ∧ out.L = r.1) ∨
       (∃ p s m nd, part = some p ∧
          SeparateSegs DIST_EPSILON hypot VertexCheckOpen doc p (fuel + 1) tl.1 (NewNode tl.2).1
            (none, none, none) = some s ∧
          s.2.1 ≠ none ∧ s.2.2.1 ≠ none ∧
          AddMinisegs hypot s.1 s.2.2.2 p s.2.1 s.2.2.1 = some m ∧
          node_t.SetPartition doc (m.1.lev_nodes (NewNode tl.2).2) (m.1.lev_segs p) = some nd ∧
          BuildNodesChildren
            (BuildNodes DIST_EPSILON factor fast hypot VertexCheckOpen doc cancelled fuel)
            (m.1.setNode (NewNode tl.2).2 nd) (clock + 2) (NewNode tl.2).2 m.2.1 m.2.2 depth
            bounds = some out)) := by
  simp only [BuildNodes] at h
  by_cases hc : cancelled clock = true
  · rw [if_pos hc] at h
    rw [← Option.some.inj h]
    exact Or.inl ⟨hc, rfl⟩
  · rw [if_neg hc] at h
    simp only [Option.bind_eq_some] at h
    obtain ⟨bounds, hb, tl, htl, part, hpart, h⟩ := h
    refine Or.inr ⟨bounds, tl, part, hb, htl, hpart, ?_⟩
    cases part with
    | none =>
      simp only [Option.map_eq_some'] at h
      obtain ⟨r, hr, hout⟩ := h
      rw [← hout]
      exact Or.inl ⟨rfl, r, hr, rfl⟩
    | some p =>
      simp only [Option.bind_eq_some] at h
      obtain ⟨s, hs, h⟩ := h
      split_ifs at h with c1 c2
      simp only [Option.bind_eq_some] at h
      obtain ⟨m, hm, nd, hnd, h⟩ := h
      exact Or.inr ⟨p, s, m, nd, rfl, hs, c2, c1, hm, hnd, h⟩

theorem BuildNodesChildren_subsecs
    (rec : Level → Nat → Option Nat → Int → Option BuildOut) (P : Level → Prop)
    (hP : ∀ (L : Level) (i : Nat) (f : node_t → node_t), P L → P (L.modNode i f))
    (hrec : ∀ L clock list depth out, rec L clock list depth = some out → P L → P out.L)
    (L : Level) (clock node : Nat) (lefts rights : Option Nat) (depth : Int) (bounds : bbox_t)
    (out : BuildOut)
    (h : BuildNodesChildren rec L clock node lefts rights depth bounds = some out)
    (hL : P L) : P out.L := by
  unfold BuildNodesChildren at h
  simp only [Option.bind_eq_some] at h
  obtain ⟨lo, hlo, h⟩ := h
  have p1 := hrec _ _ _ _ _ hlo hL
  split_ifs at h with hret
  · rw [← Option.some.inj h]
    dsimp only
    exact hP _ _ _ p1
  · simp only [Option.map_eq_some'] at h
    obtain ⟨ro, hro, h⟩ := h
    rw [← h]
    dsimp only
    exact hP _ _ _ (hrec _ _ _ _ _ hro (hP _ _ _ p1))

/-- `BuildNodes` keeps every subsector's index equal to its position. -/
theorem BuildNodes_indexed (DIST_EPSILON : ℚ) (factor : Int) (fast : Bool)
    (hypot : ℚ → ℚ → ℚ) (VertexCheckOpen : Nat → ℚ → ℚ → Bool) (doc : Document)
    (cancelled : Nat → Bool) (fuel : Nat) :
    ∀ (L : Level) (clock : Nat) (list : Option Nat) (depth : Int) (out : BuildOut),
      BuildNodes DIST_EPSILON factor fast hypot VertexCheckOpen doc cancelled fuel L clock list
        depth = some out → L.SubsecIndexed → out.L.SubsecIndexed := by
  induction fuel with
  | zero => intro L clock list depth out h; simp [BuildNodes] at h
  | succ fuel ih =>
    intro L clock list depth out h hi
    rcases BuildNodes_unfold DIST_EPSILON factor fast hypot VertexCheckOpen doc cancelled fuel L
      clock list depth out h with ⟨-, hL⟩ | ⟨bounds, tl, part, -, htl, -, hcase⟩
    · rw [hL]; exact hi
    · have h1 := SubsecIndexed_of_SameSubsecs
        (SameSubsecs_of_SameButSegs (SameButSegs_TreeFromSegList htl)) hi
      rcases hcase with ⟨-, r, hr, hL⟩ | ⟨p, s, m, nd, -, hs, -, -, hm, -, hch⟩
      · rw [hL]
        exact (CreateSubsector_indexed hr h1).1
      · have f1 := SameSubsecs_SeparateSegs _ _ _ _ _ hs
        have f2 := SameSubsecs_AddMinisegs hm
        have h2 : (m.1.setNode (NewNode tl.2).2 nd).SubsecIndexed :=
          SubsecIndexed_of_SameSubsecs f2 (SubsecIndexed_of_SameSubsecs f1 h1)
        exact BuildNodesChildren_subsecs _ Level.SubsecIndexed (fun _ _ _ hp => hp) ih _ _ _ _ _
          _ _ _ hch h2

/-! ### Index density after the passes over the BSP tree -/

theorem RoundOffVertices_segs (l : List Nat) : ∀ (st : Level × Int),
    (l.foldl RoundOffVerticesStep st).1.lev_segs = st.1.lev_segs ∧
    (l.foldl RoundOffVerticesStep st).1.num_segs = st.1.num_segs ∧
    (l.foldl RoundOffVerticesStep st).1.lev_subsecs = st.1.lev_subsecs ∧
    (l.foldl RoundOffVerticesStep st).1.num_subsecs = st.1.num_subsecs := by
  induction l with
  | nil => intro st; exact ⟨rfl, rfl, rfl, rfl⟩
  | cons a rest ih =>
    intro st
    simp only [List.foldl_cons]
    obtain ⟨h1, h2, h3, h4⟩ := ih (RoundOffVerticesStep st a)
    have e : (RoundOffVerticesStep st a).1.lev_segs = st.1.lev_segs ∧
        (RoundOffVerticesStep st a).1.num_segs = st.1.num_segs ∧
        (RoundOffVerticesStep st a).1.lev_subsecs = st.1.lev_subsecs ∧
        (RoundOffVerticesStep st a).1.num_subsecs = st.1.num_subsecs := by
      unfold RoundOffVerticesStep
      split_ifs
      · exact ⟨rfl, rfl, rfl, rfl⟩
      · exact ⟨rfl, rfl, rfl, rfl⟩
    exact ⟨h1.trans e.1, h2.trans e.2.1, h3.trans e.2.2.1, h4.trans e.2.2.2⟩

theorem demoBuilt_subsecs : demoBuilt.L.num_subsecs = 3 := by decide!

theorem demoBuilt_lists : demoBuilt.L.SubsecLists demoLists := by
  unfold Level.SubsecLists
  decide!

theorem demoBuilt_apart : demoBuilt.L.SubsecsApart demoLists := by
  constructor
  · decide!
  · intro j1 j2 h1 h2 hne s hs hs2
    rw [demoBuilt_subsecs] at h1 h2
    interval_cases j1 <;> interval_cases j2 <;> simp [demoLists] at hs hs2 hne <;> omega

theorem demoBuilt_indexed : demoBuilt.L.SubsecIndexed := by
  unfold Level.SubsecIndexed
  decide!

/-- The loop under two thresholds: if it finishes under the lower one, it finishes with
the same tally under the higher one; if it leaves early under the lower one, the cost
under the higher one is above the lower threshold. -/
theorem EvalPartitionLoop_threshold (DIST_EPSILON : ℚ) (factor : Int) (doc : Document)
    (L : Level) (part : seg_t) (B B' : Int) (hBB : B ≤ B') (heps : 0 < DIST_EPSILON)
    (h4 : DIST_EPSILON ≤ IFFY_LEN) (hf : 0 ≤ factor) (fuel : Nat) :
    ∀ (check : Option Nat) (info : eval_info_t) (rB rB' : Bool × eval_info_t),
      EvalPartitionLoop DIST_EPSILON factor doc L part B fuel check info = some rB →
      EvalPartitionLoop DIST_EPSILON factor doc L part B' fuel check info = some rB' →
      (rB.1 = false → rB' = rB) ∧ (rB.1 = true → B < rB'.2.cost) := by
  induction fuel with
  | zero => intro check info rB rB' h; simp [EvalPartitionLoop] at h
  | succ fuel ih =>
    intro check info rB rB' h h'
    cases check with
    | none =>
      simp only [EvalPartitionLoop] at h h'
      rw [← Option.some.inj h, ← Option.some.inj h']
      exact ⟨fun _ => rfl, fun e => Bool.noConfusion e⟩
    | some c =>
      simp only [EvalPartitionLoop] at h h'
      by_cases hB : info.cost > B
      · rw [if_pos hB] at h
        rw [← Option.some.inj h]
        refine ⟨fun e => Bool.noConfusion e, fun _ => ?_⟩
        by_cases hB' : info.cost > B'
        · rw [if_pos hB'] at h'
          rw [← Option.some.inj h']
          exact hB
        · rw [if_neg hB'] at h'
          have m := (EvalPartitionLoop_mono DIST_EPSILON factor doc L part B' heps h4 hf fuel _ _
            _ h').1
          have m2 := EvalPartitionSeg_cost DIST_EPSILON factor doc part (L.lev_segs c) info heps
            h4 hf
          exact lt_of_lt_of_le hB (le_trans m2 m)
      · rw [if_neg hB] at h
        have hB' : ¬ info.cost > B' := fun e => hB (lt_of_le_of_lt hBB e)
        rw [if_neg hB'] at h'
        exact ih _ _ _ _ h h'

theorem EvalPartitionWorker_mono (DIST_EPSILON : ℚ) (factor : Int) (doc : Document)
    (L : Level) (part : seg_t) (B : Int) (heps : 0 < DIST_EPSILON)
    (h4 : DIST_EPSILON ≤ IFFY_LEN) (hf : 0 ≤ factor) (cell : quadtree_c)
    (hp : cell.Proper L = true) (info : eval_info_t) (r : Bool × eval_info_t)
    (h : EvalPartitionWorker DIST_EPSILON factor doc L part B cell info = some r) :
    info.cost ≤ r.2.cost := by
  obtain ⟨r', hr', hc, -, -⟩ := EvalPartitionWorker_spec DIST_EPSILON factor doc L part B heps h4
    hf cell hp info
  rw [h] at hr'
  rw [Option.some.inj hr']
  exact hc

/-- The worker under two thresholds (see `EvalPartitionLoop_threshold`). -/
theorem EvalPartitionWorker_threshold (DIST_EPSILON : ℚ) (factor : Int) (doc : Document)
    (L : Level) (part : seg_t) (B B' : Int) (hBB : B ≤ B') (heps : 0 < DIST_EPSILON)
    (h4 : DIST_EPSILON ≤ IFFY_LEN) (hf : 0 ≤ factor) (cell : quadtree_c) :
    cell.Proper L = true → ∀ (info : eval_info_t) (rB rB' : Bool × eval_info_t),
      EvalPartitionWorker DIST_EPSILON factor doc L part B cell info = some rB →
      EvalPartitionWorker DIST_EPSILON factor doc L part B' cell info = some rB' →
      (rB.1 = false → rB' = rB) ∧ (rB.1 = true → B < rB'.2.cost) := by
  induction cell with
  | leaf x1 y1 x2 y2 rn mn list =>
    intro hp info rB rB' h h'
    unfold EvalPartitionWorker at h h'
    cases hs : (quadtree_c.leaf x1 y1 x2 y2 rn mn list).OnLineSide DIST_EPSILON part with
    | left =>
      rw [hs] at h h'
      simp only at h h'
      rw [← Option.some.inj h, ← Option.some.inj h']
      exact ⟨fun _ => rfl, fun e => Bool.noConfusion e⟩
    | right =>
      rw [hs] at h h'
      simp only at h h'
      rw [← Option.some.inj h, ← Option.some.inj h']
      exact ⟨fun _ => rfl, fun e => Bool.noConfusion e⟩
    | neither =>
      rw [hs] at h h'
      simp only at h h'
      exact EvalPartitionLoop_threshold DIST_EPSILON factor doc L part B B' hBB heps h4 hf _ _ _
        _ _ h h'
  | node x1 y1 x2 y2 rn mn list sub0 sub1 ih0 ih1 =>
    intro hp info rB rB' h h'
    obtain ⟨-, -, -, hp0, hp1⟩ := Proper_node hp
    unfold EvalPartitionWorker at h h'
    cases hs : (quadtree_c.node x1 y1 x2 y2 rn mn list sub0 sub1).OnLineSide DIST_EPSILON
        part with
    | left =>
      rw [hs] at h h'
      simp only at h h'
      rw [← Option.some.inj h, ← Option.some.inj h']
      exact ⟨fun _ => rfl, fun e => Bool.noConfusion e⟩
    | right =>
      rw [hs] at h h'
      simp only at h h'
      rw [← Option.some.inj h, ← Option.some.inj h']
      exact ⟨fun _ => rfl, fun e => Bool.noConfusion e⟩
    | neither =>
      rw [hs] at h h'
      simp only [Option.bind_eq_some] at h h'
      obtain ⟨rl, hl, h⟩ := h
      obtain ⟨rl', hl', h'⟩ := h'
      obtain ⟨t1, t2⟩ := EvalPartitionLoop_threshold DIST_EPSILON factor doc L part B B' hBB heps h4
        hf _ _ _ _ _ hl hl'
      -- what the higher threshold does from the tally after the loop
      have after' : rl'.2.cost ≤ rB'.2.cost := by
        by_cases c1 : rl'.1 = true
        · rw [if_pos c1] at h'
          rw [← Option.some.inj h']
        · rw [if_neg c1] at h'
          simp only [Option.bind_eq_some] at h'
          obtain ⟨r0', hr0', h'⟩ := h'
          have m0 : rl'.2.cost ≤ r0'.2.cost := by
            split_ifs at hr0'
            · rw [← Option.some.inj hr0']
            · exact EvalPartitionWorker_mono DIST_EPSILON factor doc L part B' heps h4 hf sub0
                hp0 _ _ hr0'
          split_ifs at h'
          · rw [← Option.some.inj h']; exact m0
          · rw [← Option.some.inj h']; exact m0
          · exact le_trans m0 (EvalPartitionWorker_mono DIST_EPSILON factor doc L part B' heps
              h4 hf sub1 hp1 _ _ h')
      by_cases hrl : rl.1 = true
      · rw [if_pos hrl] at h
        rw [← Option.some.inj h]
        exact ⟨fun e => Bool.noConfusion e, fun _ => lt_of_lt_of_le (t2 hrl) after'⟩
      · have hrlf : rl.1 = false := by
          cases hb : rl.1
          · rfl
          · exact absurd hb hrl
        have e := t1 hrlf
        subst e
        rw [if_neg hrl] at h h'
        simp only [Option.bind_eq_some] at h h'
        obtain ⟨r0, hr0, h⟩ := h
        obtain ⟨r0', hr0', h'⟩ := h'
        have s0 : (r0.1 = false → r0' = r0) ∧ (r0.1 = true → B < r0'.2.cost) := by
          by_cases he : sub0.Empty = true
          · rw [if_neg (not_not.mpr he)] at hr0 hr0'
            rw [← Option.some.inj hr0, ← Option.some.inj hr0']
            exact ⟨fun _ => rfl, fun e => Bool.noConfusion e⟩
          · rw [if_pos he] at hr0 hr0'
            exact ih0 hp0 _ _ _ hr0 hr0'
        have after0 : r0'.2.cost ≤ rB'.2.cost := by
          split_ifs at h'
          · rw [← Option.some.inj h']
          · rw [← Option.some.inj h']
          · exact EvalPartitionWorker_mono DIST_EPSILON factor doc L part B' heps h4 hf sub1 hp1
              _ _ h'
        by_cases hr0t : r0.1 = true
        · rw [if_pos hr0t] at h
          rw [← Option.some.inj h]
          exact ⟨fun e => Bool.noConfusion e, fun _ => lt_of_lt_of_le (s0.2 hr0t) after0⟩
        · have hr0f : r0.1 = false := by
            cases hb : r0.1
            · rfl
            · exact absurd hb hr0t
          have e := s0.1 hr0f
          subst e
          rw [if_neg hr0t] at h h'
          by_cases he : sub1.Empty = true
          · rw [if_neg (not_not.mpr he)] at h h'
            rw [← Option.some.inj h, ← Option.some.inj h']
            exact ⟨fun _ => rfl, fun e => Bool.noConfusion e⟩
          · rw [if_pos he] at h h'
            exact ih1 hp1 _ _ _ h h'

/-- `EvalPartition` under a threshold `B` and without early-out (threshold `B'` above
`B`): the candidate is turned down under `B` exactly when its cost without early-out is
negative or not below `B`, and otherwise the two costs are equal. -/
theorem EvalPartition_threshold (DIST_EPSILON : ℚ) (factor : Int) (doc : Document)
    (L : Level) (tree : quadtree_c) (part : seg_t) (B B' : Int) (hBB : B ≤ B')
    (heps : 0 < DIST_EPSILON) (h4 : DIST_EPSILON ≤ IFFY_LEN) (hf : 0 ≤ factor)
    (hp : tree.Proper L = true) (cB cM : Int)
    (hB : EvalPartition DIST_EPSILON factor doc L tree part B = some cB)
    (hM : EvalPartition DIST_EPSILON factor doc L tree part B' = some cM) :
    ((cB < 0 ∨ cB ≥ B) ↔ (cM < 0 ∨ cM ≥ B)) ∧ (¬ (cB < 0 ∨ cB ≥ B) → cB = cM) := by
  unfold EvalPartition at hB hM
  simp only [Option.map_eq_some'] at hB hM
  obtain ⟨rB, hrB, hB⟩ := hB
  obtain ⟨rM, hrM, hM⟩ := hM
  obtain ⟨t1, t2⟩ := EvalPartitionWorker_threshold DIST_EPSILON factor doc L part B B' hBB heps h4
    hf tree hp _ _ _ hrB hrM
  by_cases hr : rB.1 = true
  · -- early-out under `B`
    rw [if_pos hr] at hB
    have hlt := t2 hr
    have hcM : cM < 0 ∨ cM ≥ B := by
      rw [← hM]
      have a1 := abs_nonneg (rM.2.real_left - rM.2.real_right)
      have a2 := abs_nonneg (rM.2.mini_left - rM.2.mini_right)
      have key : B ≤ rM.2.cost + 100 * |rM.2.real_left - rM.2.real_right| +
          50 * |rM.2.mini_left - rM.2.mini_right| := by linarith
      have key25 : B ≤ rM.2.cost + 100 * |rM.2.real_left - rM.2.real_right| +
          50 * |rM.2.mini_left - rM.2.mini_right| + 25 := by linarith
      split_ifs
      · left; decide
      · left; decide
      · right; exact key25
      · right; exact key
    have hcB : cB < 0 ∨ cB ≥ B := by
      left
      rw [← hB]
      decide
    exact ⟨⟨fun _ => hcM, fun _ => hcB⟩, fun hn => absurd hcB hn⟩
  · have hrf : rB.1 = false := by
      cases hb : rB.1
      · rfl
      · exact absurd hb hr
    have e := t1 hrf
    subst e
    have hc : cB = cM := by rw [← hB, ← hM]
    rw [hc]
    exact ⟨Iff.rfl, fun _ => rfl⟩

/-- What `PickNode` knows after the real segs `done` have been tried, in terms of the
cost `fc` without early-out: `*best` is the first seg of `done` with the least
non-negative cost, which is `*best_cost`; or it is null and no seg had a cost from 0 up
to `INT_MAX - 1`. -/
theorem PickNodeLoop_best (DIST_EPSILON : ℚ) (factor : Int) (doc : Document)
    (L : Level) (tree : quadtree_c) (heps : 0 < DIST_EPSILON) (h4 : DIST_EPSILON ≤ IFFY_LEN)
    (hf : 0 ≤ factor) (hp : tree.Proper L = true) (fc : Nat → Int)
    (hfc : ∀ s, EvalPartition DIST_EPSILON factor doc L tree (L.lev_segs s) INT_MAX =
      some (fc s)) (fuel : Nat) :
    ∀ (part : Option Nat) (l : List Nat) (st : Option Nat × Int) (done : List Nat),
      IsLinked L.segNext part l → l.length < fuel → st.2 ≤ INT_MAX →
      (st.1 = none → st.2 = INT_MAX ∧ ∀ s ∈ done, fc s < 0 ∨ INT_MAX ≤ fc s) →
      (∀ b, st.1 = some b → st.2 = fc b ∧ 0 ≤ fc b ∧ fc b < INT_MAX ∧
        ∃ pre post, done = pre ++ b :: post ∧
        (∀ s ∈ pre, fc s < 0 ∨ fc b < fc s) ∧ (∀ s ∈ post, fc s < 0 ∨ fc b ≤ fc s)) →
      ∃ r, PickNodeLoop DIST_EPSILON factor false doc L tree fuel part st = some (true, r) ∧
        r.2 ≤ INT_MAX ∧
        (r.1 = none → r.2 = INT_MAX ∧
          ∀ s ∈ done ++ l.filter (fun s => decide ((L.lev_segs s).linedef ≥ 0)),
            fc s < 0 ∨ INT_MAX ≤ fc s) ∧
        (∀ b, r.1 = some b → r.2 = fc b ∧ 0 ≤ fc b ∧ fc b < INT_MAX ∧ ∃ pre post,
          done ++ l.filter (fun s => decide ((L.lev_segs s).linedef ≥ 0)) = pre ++ b :: post ∧
          (∀ s ∈ pre, fc s < 0 ∨ fc b < fc s) ∧ (∀ s ∈ post, fc s < 0 ∨ fc b ≤ fc s)) := by
  induction fuel with
  | zero => intro part l st done _ hlen; omega
  | succ fuel ih =>
    intro part l st done hl hlen hle hnone hsome
    cases part with
    | none =>
      have hnil : l = [] := IsLinked_none hl
      subst hnil
      refine ⟨st, rfl, hle, ?_, ?_⟩
      · simpa using hnone
      · simpa using hsome
    | some p =>
      obtain ⟨rest, rfl, hrest⟩ := IsLinked_cons_some hl
      have hlen' : rest.length < fuel := by simp only [List.length_cons] at hlen; omega
      simp only [PickNodeLoop, Bool.false_eq_true, if_false]
      by_cases hm : (L.lev_segs p).linedef < 0
      · -- a miniseg is no candidate
        rw [if_pos hm]
        have hfil : (p :: rest).filter (fun s => decide ((L.lev_segs s).linedef ≥ 0)) =
            rest.filter (fun s => decide ((L.lev_segs s).linedef ≥ 0)) := by
          rw [List.filter_cons_of_neg]
          simp only [decide_eq_true_eq, not_le]
          exact hm
        rw [hfil]
        exact ih _ rest st done hrest hlen' hle hnone hsome
      · rw [if_neg hm]
        have hfil : (p :: rest).filter (fun s => decide ((L.lev_segs s).linedef ≥ 0)) =
            p :: rest.filter (fun s => decide ((L.lev_segs s).linedef ≥ 0)) := by
          rw [List.filter_cons_of_pos]
          simp only [decide_eq_true_eq]
          exact not_lt.mp hm
        have happ : done ++ (p :: rest).filter (fun s => decide ((L.lev_segs s).linedef ≥ 0)) =
            (done ++ [p]) ++ rest.filter (fun s => decide ((L.lev_segs s).linedef ≥ 0)) := by
          rw [hfil]
          simp
        rw [happ]
        obtain ⟨c, hcost⟩ := EvalPartition_total DIST_EPSILON factor doc L tree (L.lev_segs p)
          st.2 hp
        obtain ⟨k1, k2⟩ := EvalPartition_threshold DIST_EPSILON factor doc L tree (L.lev_segs p)
          st.2 INT_MAX hle heps h4 hf hp c (fc p) hcost (hfc p)
        simp only [hcost, Option.some_bind]
        by_cases hrej : c < 0 ∨ c ≥ st.2
        · -- seg unsuitable or too costly
          rw [if_pos hrej]
          have hfull := k1.mp hrej
          refine ih _ rest st (done ++ [p]) hrest hlen' hle ?_ ?_
          · intro hn
            obtain ⟨e1, e2⟩ := hnone hn
            refine ⟨e1, ?_⟩
            intro s hs
            rcases List.mem_append.mp hs with hs | hs
            · exact e2 s hs
            · rw [List.mem_singleton.mp hs]
              rw [e1] at hfull
              exact hfull
          · intro b hb
            obtain ⟨e1, e2, e2', pre, post, e3, e4, e5⟩ := hsome b hb
            refine ⟨e1, e2, e2', pre, post ++ [p], ?_, e4, ?_⟩
            · rw [e3]; simp
            · intro s hs
              rcases List.mem_append.mp hs with hs | hs
              · exact e5 s hs
              · rw [List.mem_singleton.mp hs]
                rw [e1] at hfull
                exact hfull
        · -- a new better choice
          rw [if_neg hrej]
          have hceq := k2 hrej
          rw [not_or] at hrej
          obtain ⟨r1, r2⟩ := hrej
          have hc0 : 0 ≤ c := not_lt.mp r1
          have hclt : c < st.2 := not_le.mp r2
          refine ih _ rest (some p, c) (done ++ [p]) hrest hlen' (le_trans (le_of_lt hclt) hle)
            (fun e => Option.noConfusion e) ?_
          intro b hb
          have hpb : p = b := Option.some.inj hb
          subst hpb
          refine ⟨hceq, by rw [← hceq]; exact hc0,
            by rw [← hceq]; exact lt_of_lt_of_le hclt hle, done, [], rfl, ?_, fun s hs =>
            absurd hs (List.not_mem_nil s)⟩
          intro s hs
          rw [← hceq]
          cases hst1 : st.1 with
          | none =>
            obtain ⟨e1, e2⟩ := hnone hst1
            rcases e2 s hs with e | e
            · exact Or.inl e
            · right
              rw [e1] at hclt
              exact lt_of_lt_of_le hclt e
          | some b0 =>
            obtain ⟨e1, e2, -, pre, post, e3, e4, e5⟩ := hsome b0 hst1
            rw [e1] at hclt
            rw [e3] at hs
            rcases List.mem_append.mp hs with hs | hs
            · rcases e4 s hs with e | e
              · exact Or.inl e
              · exact Or.inr (lt_trans hclt e)
            · rcases List.mem_cons.mp hs with hs | hs
              · rw [hs]
                exact Or.inr hclt
              · rcases e5 s hs with e | e
                · exact Or.inl e
                · exact Or.inr (lt_of_lt_of_le hclt e)

theorem countReal_append (L : Level) (a b : List Nat) :
    L.countReal (a ++ b) = L.countReal a + L.countReal b ∧
    L.countMini (a ++ b) = L.countMini a + L.countMini b := by
  unfold Level.countReal Level.countMini
  simp only [List.filter_append, List.length_append]
  push_cast
  exact ⟨rfl, rfl⟩

theorem countReal_add_countMini (L : Level) (l : List Nat) :
    L.countReal l + L.countMini l = (l.length : Int) := by
  induction l with
  | nil => simp [Level.countReal, Level.countMini]
  | cons a rest ih =>
    obtain ⟨h1, h2⟩ := countReal_cons L a rest
    rw [h1, h2, List.length_cons]
    push_cast
    split_ifs <;> omega

/-- In a count-consistent tree the counters of a cell count the segs of its subtree. -/
theorem Counted_total (L : Level) (t : quadtree_c) :
    t.Counted L = true →
      t.real_num = L.countReal (t.Segs L) ∧ t.mini_num = L.countMini (t.Segs L) := by
  induction t with
  | leaf x1 y1 x2 y2 rn mn list =>
    intro h
    simp only [quadtree_c.Counted, Bool.and_eq_true, decide_eq_true_eq] at h
    exact ⟨h.1, h.2⟩
  | node x1 y1 x2 y2 rn mn list sub0 sub1 ih0 ih1 =>
    intro h
    simp only [quadtree_c.Counted, Bool.and_eq_true, decide_eq_true_eq] at h
    obtain ⟨⟨⟨h1, h2⟩, h3⟩, h4⟩ := h
    obtain ⟨a1, a2⟩ := ih0 h3
    obtain ⟨b1, b2⟩ := ih1 h4
    simp only [quadtree_c.Segs, quadtree_c.real_num, quadtree_c.mini_num]
    rw [(countReal_append L _ _).1, (countReal_append L _ _).1, (countReal_append L _ _).2,
      (countReal_append L _ _).2, ← a1, ← a2, ← b1, ← b2]
    exact ⟨h1, h2⟩

/-- An empty cell of a count-consistent tree holds no seg. -/
theorem Empty_segs (L : Level) (t : quadtree_c) (hc : t.Counted L = true)
    (he : t.Empty = true) : t.Segs L = [] := by
  obtain ⟨h1, h2⟩ := Counted_total L t hc
  have h3 := countReal_add_countMini L (t.Segs L)
  unfold quadtree_c.Empty at he
  have h4 : t.real_num + t.mini_num = 0 := by simpa using he
  rw [h1, h2, h3] at h4
  have : (t.Segs L).length = 0 := by omega
  exact List.length_eq_zero.mp this

theorem Counted_node {L : Level} {x1 y1 x2 y2 rn mn : Int} {list : Option Nat}
    {sub0 sub1 : quadtree_c}
    (h : (quadtree_c.node x1 y1 x2 y2 rn mn list sub0 sub1).Counted L = true) :
    sub0.Counted L = true ∧ sub1.Counted L = true := by
  simp only [quadtree_c.Counted, Bool.and_eq_true, decide_eq_true_eq] at h
  exact ⟨h.1.2, h.2⟩

theorem PickNodeLoop_pick (DIST_EPSILON : ℚ) (factor : Int) (doc : Document)
    (L : Level) (tree : quadtree_c) (heps : 0 < DIST_EPSILON) (h4 : DIST_EPSILON ≤ IFFY_LEN)
    (hf : 0 ≤ factor) (hp : tree.Proper L = true) (fc : Nat → Int)
    (hfc : ∀ s, EvalPartition DIST_EPSILON factor doc L tree (L.lev_segs s) INT_MAX =
      some (fc s)) (list : Option Nat) (hok : L.ListOk list = true)
    (st : Option Nat × Int) (done : List Nat) (hst : PickBest fc done st) :
    ∃ r, PickNodeLoop DIST_EPSILON factor false doc L tree (L.num_segs + 1) list st =
        some (true, r) ∧
      PickBest fc (done ++ ((L.segChain (L.num_segs + 1) list).getD []).filter
        (fun s => decide ((L.lev_segs s).linedef ≥ 0))) r := by
  obtain ⟨l, hch, hl, hlen, -⟩ := ListOk_chain L list hok
  rw [hch, Option.getD_some]
  obtain ⟨r, hr, c1, c2, c3⟩ := PickNodeLoop_best DIST_EPSILON factor doc L tree heps h4 hf hp fc
    hfc _ list l st done hl hlen hst.1 hst.2.1 hst.2.2
  exact ⟨r, hr, c1, c2, c3⟩

/-- `PickNodeWorker` with the flag clear tries the real segs of the cell in traversal
order. -/
theorem PickNodeWorker_pick (DIST_EPSILON : ℚ) (factor : Int) (doc : Document)
    (L : Level) (tree : quadtree_c) (heps : 0 < DIST_EPSILON) (h4 : DIST_EPSILON ≤ IFFY_LEN)
    (hf : 0 ≤ factor) (hp : tree.Proper L = true) (fc : Nat → Int)
    (hfc : ∀ s, EvalPartition DIST_EPSILON factor doc L tree (L.lev_segs s) INT_MAX =
      some (fc s)) (cell : quadtree_c) :
    cell.Proper L = true → cell.Counted L = true →
    ∀ (st : Option Nat × Int) (done : List Nat), PickBest fc done st →
      ∃ r, PickNodeWorker DIST_EPSILON factor false doc L tree cell st = some (true, r) ∧
        PickBest fc (done ++ cell.RealSegs L) r := by
  induction cell with
  | leaf x1 y1 x2 y2 rn mn list =>
    intro hc _ st done hst
    obtain ⟨-, -, hok⟩ := Proper_leaf hc
    exact PickNodeLoop_pick DIST_EPSILON factor doc L tree heps h4 hf hp fc hfc list hok st done
      hst
  | node x1 y1 x2 y2 rn mn list sub0 sub1 ih0 ih1 =>
    intro hc hcnt st done hst
    obtain ⟨-, -, hok, hp0, hp1⟩ := Proper_node hc
    obtain ⟨hc0, hc1⟩ := Counted_node hcnt
    obtain ⟨r, hr, hb⟩ := PickNodeLoop_pick DIST_EPSILON factor doc L tree heps h4 hf hp fc hfc
      list hok st done hst
    have h0 : ∃ st0, (if ¬ sub0.Empty = true then
        (PickNodeWorker DIST_EPSILON factor false doc L tree sub0 r).map fun r0 => r0.2
        else some r) = some st0 ∧
        PickBest fc (done ++ ((L.segChain (L.num_segs + 1) list).getD []).filter
          (fun s => decide ((L.lev_segs s).linedef ≥ 0)) ++ sub0.RealSegs L) st0 := by
      by_cases he : sub0.Empty = true
      · rw [if_neg (not_not.mpr he)]
        refine ⟨r, rfl, ?_⟩
        unfold quadtree_c.RealSegs
        rw [Empty_segs L sub0 hc0 he]
        simpa using hb
      · rw [if_pos he]
        obtain ⟨r0, hr0, hb0⟩ := ih0 hp0 hc0 r _ hb
        exact ⟨r0, by rw [hr0]; rfl, hb0⟩
    obtain ⟨st0, hst0, hb0⟩ := h0
    have h1 : ∃ st1, (if ¬ sub1.Empty = true then
        (PickNodeWorker DIST_EPSILON factor false doc L tree sub1 st0).map fun r1 => r1.2
        else some st0) = some st1 ∧
        PickBest fc (done ++ ((L.segChain (L.num_segs + 1) list).getD []).filter
          (fun s => decide ((L.lev_segs s).linedef ≥ 0)) ++ sub0.RealSegs L ++
          sub1.RealSegs L) st1 := by
      by_cases he : sub1.Empty = true
      · rw [if_neg (not_not.mpr he)]
        refine ⟨st0, rfl, ?_⟩
        unfold quadtree_c.RealSegs at hb0 ⊢
        rw [Empty_segs L sub1 hc1 he]
        simpa using hb0
      · rw [if_pos he]
        obtain ⟨r1, hr1, hb1⟩ := ih1 hp1 hc1 st0 _ hb0
        exact ⟨r1, by rw [hr1]; rfl, hb1⟩
    obtain ⟨st1, hst1, hb1⟩ := h1
    refine ⟨st1, ?_, ?_⟩
    · simp only [PickNodeWorker, hr, Option.some_bind, not_true_eq_false, if_false, hst0, hst1,
        Option.map_some']
    · have e : done ++ (quadtree_c.node x1 y1 x2 y2 rn mn list sub0 sub1).RealSegs L =
          done ++ ((L.segChain (L.num_segs + 1) list).getD []).filter
            (fun s => decide ((L.lev_segs s).linedef ≥ 0)) ++ sub0.RealSegs L ++
            sub1.RealSegs L := by
        unfold quadtree_c.RealSegs
        simp only [quadtree_c.Segs, List.filter_append, List.append_assoc]
      rw [e]
      exact hb1

theorem fullCost_eq (DIST_EPSILON : ℚ) (factor : Int) (doc : Document) (L : Level)
    (tree : quadtree_c) (hp : tree.Proper L = true) (s : Nat) :
    EvalPartition DIST_EPSILON factor doc L tree (L.lev_segs s) INT_MAX =
      some (fullCost DIST_EPSILON factor doc L tree s) := by
  obtain ⟨c, hc⟩ := EvalPartition_total DIST_EPSILON factor doc L tree (L.lev_segs s) INT_MAX hp
  unfold fullCost
  rw [hc]
  rfl

theorem SameGeom_refl (L : Level) : L.SameGeom L := fun _ => rfl

theorem SameGeom_fields {s s' : seg_t} (h : s.SameGeom s') :
    s'.source_line = s.source_line ∧ s'.psx = s.psx ∧ s'.psy = s.psy ∧ s'.pex = s.pex ∧
    s'.pey = s.pey ∧ s'.pdx = s.pdx ∧ s'.pdy = s.pdy ∧ s'.p_length = s.p_length ∧
    s'.p_perp = s.p_perp ∧ s'.linedef = s.linedef ∧ s'.partner = s.partner := by
  unfold seg_t.SameGeom at h
  have e1 := congrArg seg_t.source_line h
  have e2 := congrArg seg_t.psx h
  have e3 := congrArg seg_t.psy h
  have e4 := congrArg seg_t.pex h
  have e5 := congrArg seg_t.pey h
  have e6 := congrArg seg_t.pdx h
  have e7 := congrArg seg_t.pdy h
  have e8 := congrArg seg_t.p_length h
  have e9 := congrArg seg_t.p_perp h
  have e10 := congrArg seg_t.linedef h
  have e11 := congrArg seg_t.partner h
  exact ⟨e1, e2, e3, e4, e5, e6, e7, e8, e9, e10, e11⟩

theorem SameGeom_trans {L L1 L2 : Level} (h1 : L.SameGeom L1) (h2 : L1.SameGeom L2) :
    L.SameGeom L2 := by
  intro i
  have a := h1 i
  have b := h2 i
  unfold seg_t.SameGeom at a b ⊢
  rw [← a]
  rw [← b]

theorem SameGeom_way {L L' : Level} (h : L.SameGeom L') (eps : ℚ) (part seg : Nat) :
    (L'.GoesLeft eps part seg ↔ L.GoesLeft eps part seg) ∧
    (L'.GoesRight eps part seg ↔ L.GoesRight eps part seg) := by
  obtain ⟨p1, p2, p3, p4, p5, p6, p7, p8, p9, -, -⟩ := SameGeom_fields (h part)
  obtain ⟨s1, s2, s3, s4, s5, s6, s7, s8, s9, -, -⟩ := SameGeom_fields (h seg)
  have ea : L'.perpA part seg = L.perpA part seg := by
    unfold Level.perpA seg_t.PerpDist
    rw [p1, p6, p7, p8, p9, s1, s2, s3]
  have eb : L'.perpB part seg = L.perpB part seg := by
    unfold Level.perpB seg_t.PerpDist
    rw [p1, p6, p7, p8, p9, s1, s4, s5]
  unfold Level.GoesLeft Level.GoesRight
  rw [ea, eb, p6, p7, s6, s7]
  exact ⟨Iff.rfl, Iff.rfl⟩

theorem ListAddSeg_fst_segs (L : Level) (lp : Option Nat) (s x : Nat) (hx : x ≠ s) :
    (ListAddSeg L lp s).1.lev_segs x = L.lev_segs x := by
  simp only [ListAddSeg, modSeg_apply, if_neg hx]

theorem ListAddSeg_fst_geom (L : Level) (lp : Option Nat) (s : Nat) :
    (L.lev_segs s).SameGeom ((ListAddSeg L lp s).1.lev_segs s) := by
  simp only [ListAddSeg, modSeg_apply, if_true]
  rfl

theorem ListAddSeg_fst_num_segs (L : Level) (lp : Option Nat) (s : Nat) :
    (ListAddSeg L lp s).1.num_segs = L.num_segs := rfl

/-- What `DivideOneSeg` does to the two lists: a list that holds a seg keeps holding one;
and either both lists hold a seg afterwards, or the seg went to one list whole, by the
tests `GoesLeft` and `GoesRight`, and only its link `next` was written. -/
theorem DivideOneSeg_sides {DIST_EPSILON : ℚ} {hypot : ℚ → ℚ → ℚ}
    {VertexCheckOpen : Nat → ℚ → ℚ → Bool} {doc : Document} {L : Level} {seg part : Nat}
    {left_list right_list cut_list : Option Nat}
    {r : Level × Option Nat × Option Nat × Option Nat}
    (h : DivideOneSeg DIST_EPSILON hypot VertexCheckOpen doc L seg part left_list right_list
      cut_list = some r) :
    (left_list ≠ none → r.2.1 ≠ none) ∧ (right_list ≠ none → r.2.2.1 ≠ none) ∧
    ((r.2.1 ≠ none ∧ r.2.2.1 ≠ none) ∨
      ((∀ x, x ≠ seg → r.1.lev_segs x = L.lev_segs x) ∧
        (L.lev_segs seg).SameGeom (r.1.lev_segs seg) ∧ r.1.num_segs = L.num_segs ∧
        (L.GoesLeft DIST_EPSILON part seg → r.2.1 ≠ none) ∧
        (L.GoesRight DIST_EPSILON part seg → r.2.2.1 ≠ none))) := by
  obtain ⟨a, ha⟩ : ∃ a : ℚ, a = L.perpA part seg := ⟨_, rfl⟩
  obtain ⟨b, hb⟩ : ∃ b : ℚ, b = L.perpB part seg := ⟨_, rfl⟩
  unfold Level.GoesLeft Level.GoesRight
  rw [← ha, ← hb]
  unfold Level.perpA at ha
  unfold Level.perpB at hb
  unfold DivideOneSeg at h
  simp only [] at h
  rw [← ha, ← hb] at h
  have hsome : ∀ x : Nat, (some x : Option Nat) ≠ none := fun x e => Option.noConfusion e
  by_cases hline : |a| ≤ DIST_EPSILON ∧ |b| ≤ DIST_EPSILON
  · rw [if_pos hline] at h
    simp only [Option.bind_eq_some] at h
    obtain ⟨r1, h1, r2, h2, h⟩ := h
    obtain ⟨s1, n1⟩ := AddIntersection_segs h1
    obtain ⟨s2, n2⟩ := AddIntersection_segs h2
    rw [s2, s1] at h
    have fr : ∀ (lp : Option Nat) (x : Nat), x ≠ seg →
        (ListAddSeg r2.1 lp seg).1.lev_segs x = L.lev_segs x := by
      intro lp x hx
      rw [ListAddSeg_fst_segs _ _ _ _ hx, s2, s1]
    have fg : ∀ lp : Option Nat,
        (L.lev_segs seg).SameGeom ((ListAddSeg r2.1 lp seg).1.lev_segs seg) := by
      intro lp
      have := ListAddSeg_fst_geom r2.1 lp seg
      rw [s2, s1] at this
      exact this
    have fn : ∀ lp : Option Nat, (ListAddSeg r2.1 lp seg).1.num_segs = L.num_segs := by
      intro lp
      rw [ListAddSeg_fst_num_segs, n2, n1]
    by_cases hd : (L.lev_segs seg).pdx * (L.lev_segs part).pdx +
        (L.lev_segs seg).pdy * (L.lev_segs part).pdy < 0
    · rw [if_pos hd] at h
      rw [← Option.some.inj h]
      refine ⟨fun _ => hsome _, fun hr => hr, Or.inr ⟨fr _, fg _, fn _, fun _ => hsome _, ?_⟩⟩
      rintro (⟨-, -, hh⟩ | ⟨hh, -⟩)
      · exact absurd hd hh
      · exact absurd hline hh
    · rw [if_neg hd] at h
      rw [← Option.some.inj h]
      refine ⟨fun hl => hl, fun _ => hsome _, Or.inr ⟨fr _, fg _, fn _, ?_, fun _ => hsome _⟩⟩
      rintro (⟨-, -, hh⟩ | ⟨hh, -⟩)
      · exact absurd hh hd
      · exact absurd hline hh
  · rw [if_neg hline] at h
    by_cases hright : a > -DIST_EPSILON ∧ b > -DIST_EPSILON
    · rw [if_pos hright] at h
      simp only [Option.bind_eq_some] at h
      obtain ⟨r1, h1, h⟩ := h
      have n1 : r1.1.lev_segs = L.lev_segs ∧ r1.1.num_segs = L.num_segs := by
        split_ifs at h1
        all_goals first
          | exact AddIntersection_segs h1
          | (rw [← Option.some.inj h1]; exact ⟨rfl, rfl⟩)
      rw [← Option.some.inj h]
      refine ⟨fun hl => hl, fun _ => hsome _, Or.inr ⟨?_, ?_, ?_, ?_, fun _ => hsome _⟩⟩
      · intro x hx
        rw [ListAddSeg_fst_segs _ _ _ _ hx, n1.1]
      · have := ListAddSeg_fst_geom r1.1 right_list seg
        rw [n1.1] at this
        exact this
      · rw [ListAddSeg_fst_num_segs, n1.2]
      · rintro (⟨h1', h2', -⟩ | ⟨-, hh, -⟩)
        · exact absurd ⟨h1', h2'⟩ hline
        · exact absurd hright hh
    · rw [if_neg hright] at h
      by_cases hleft : a < DIST_EPSILON ∧ b < DIST_EPSILON
      · rw [if_pos hleft] at h
        simp only [Option.bind_eq_some] at h
        obtain ⟨r1, h1, h⟩ := h
        have n1 : r1.1.lev_segs = L.lev_segs ∧ r1.1.num_segs = L.num_segs := by
          split_ifs at h1
          all_goals first
            | exact AddIntersection_segs h1
            | (rw [← Option.some.inj h1]; exact ⟨rfl, rfl⟩)
        rw [← Option.some.inj h]
        refine ⟨fun _ => hsome _, fun hr => hr, Or.inr ⟨?_, ?_, ?_, fun _ => hsome _, ?_⟩⟩
        · intro x hx
          rw [ListAddSeg_fst_segs _ _ _ _ hx, n1.1]
        · have := ListAddSeg_fst_geom r1.1 left_list seg
          rw [n1.1] at this
          exact this
        · rw [ListAddSeg_fst_num_segs, n1.2]
        · rintro (⟨h1', h2', -⟩ | ⟨-, hh⟩)
          · exact absurd ⟨h1', h2'⟩ hline
          · exact absurd hh hright
      · rw [if_neg hleft] at h
        simp only [Option.bind_eq_some] at h
        obtain ⟨sp, hsp, r1, h1, h⟩ := h
        split_ifs at h
        · rw [← Option.some.inj h]
          exact ⟨fun _ => hsome _, fun _ => hsome _, Or.inl ⟨hsome _, hsome _⟩⟩
        · rw [← Option.some.inj h]
          exact ⟨fun _ => hsome _, fun _ => hsome _, Or.inl ⟨hsome _, hsome _⟩⟩

/-- A list of `SeparateSegs` that holds a seg keeps holding one during the walk. -/
theorem SeparateSegsLoop_mono (eps : ℚ) (hypot : ℚ → ℚ → ℚ) (VCO : Nat → ℚ → ℚ → Bool)
    (doc : Document) (part : Nat) : ∀ (fuel : Nat) (L : Level) (list : Option Nat)
      (st r : _), SeparateSegsLoop eps hypot VCO doc part fuel L list st = some r →
      (st.1 ≠ none → r.2.1 ≠ none) ∧ (st.2.1 ≠ none → r.2.2.1 ≠ none) := by
  intro fuel
  induction fuel with
  | zero =>
    intro L list st r h
    simp [SeparateSegsLoop] at h
  | succ fuel ih =>
    intro L list st r h
    cases list with
    | none =>
      simp only [SeparateSegsLoop] at h
      rw [← Option.some.inj h]
      exact ⟨fun e => e, fun e => e⟩
    | some seg =>
      simp only [SeparateSegsLoop, Option.bind_eq_some] at h
      obtain ⟨r1, h1, h2⟩ := h
      obtain ⟨a1, a2, -⟩ := DivideOneSeg_sides h1
      obtain ⟨b1, b2⟩ := ih _ _ _ _ h2
      exact ⟨fun e => b1 (a1 e), fun e => b2 (a2 e)⟩

theorem SeparateSegs_mono (eps : ℚ) (hypot : ℚ → ℚ → ℚ) (VCO : Nat → ℚ → ℚ → Bool)
    (doc : Document) (part fuel : Nat) (t : quadtree_c) : ∀ (L : Level)
      (st r : _), SeparateSegs eps hypot VCO doc part fuel t L st = some r →
      (st.1 ≠ none → r.2.1 ≠ none) ∧ (st.2.1 ≠ none → r.2.2.1 ≠ none) := by
  induction t with
  | leaf x1 y1 x2 y2 rn mn list =>
    intro L st r h
    simp only [SeparateSegs] at h
    exact SeparateSegsLoop_mono eps hypot VCO doc part fuel L list st r h
  | node x1 y1 x2 y2 rn mn list sub0 sub1 ih0 ih1 =>
    intro L st r h
    simp only [SeparateSegs, Option.bind_eq_some] at h
    obtain ⟨r1, h1, r2, h2, h3⟩ := h
    obtain ⟨a1, a2⟩ := SeparateSegsLoop_mono eps hypot VCO doc part fuel L list st r1 h1
    obtain ⟨b1, b2⟩ := ih0 _ _ _ h2
    obtain ⟨c1, c2⟩ := ih1 _ _ _ h3
    exact ⟨fun e => c1 (b1 (a1 e)), fun e => c2 (b2 (a2 e))⟩

theorem SameGeom_modSeg_quad (L : Level) (s : Nat) (q : Option (List Bool)) :
    L.SameGeom (L.modSeg s fun x => { x with quad := q }) := by
  intro i
  rw [modSeg_apply]
  split_ifs with e
  · rw [e]; rfl
  · rfl

/-- The loop of `SeparateSegs` over a linked list. -/
theorem SeparateSegsLoop_sides (eps : ℚ) (hypot : ℚ → ℚ → ℚ) (VCO : Nat → ℚ → ℚ → Bool)
    (doc : Document) (part : Nat) (l : List Nat) :
    ∀ (fuel : Nat) (L : Level) (list : Option Nat) (st r : _),
      IsLinked L.segNext list l →
      SeparateSegsLoop eps hypot VCO doc part fuel L list st = some r →
      SidesKept eps part l L r := by
  induction l with
  | nil =>
    intro fuel L list st r hl h
    have hnone : list = none := hl
    subst hnone
    cases fuel with
    | zero => simp [SeparateSegsLoop] at h
    | succ fuel =>
      simp only [SeparateSegsLoop] at h
      rw [← Option.some.inj h]
      refine Or.inr ⟨fun _ _ => rfl, SameGeom_refl L, rfl, ?_, ?_⟩
      · rintro ⟨x, hx, -⟩; exact absurd hx (List.not_mem_nil _)
      · rintro ⟨x, hx, -⟩; exact absurd hx (List.not_mem_nil _)
  | cons s rest ih =>
    intro fuel L list st r hl h
    have hnd := IsLinked_nodup hl
    obtain ⟨hs, -⟩ := List.nodup_cons.mp hnd
    obtain ⟨h1, h2⟩ := hl
    subst h1
    cases fuel with
    | zero => simp [SeparateSegsLoop] at h
    | succ fuel =>
      simp only [SeparateSegsLoop, Option.bind_eq_some] at h
      obtain ⟨r1, hd, hrest⟩ := h
      obtain ⟨m1, m2⟩ := SeparateSegsLoop_mono eps hypot VCO doc part fuel _ _ _ _ hrest
      obtain ⟨-, -, hside⟩ := DivideOneSeg_sides hd
      rcases hside with hboth | ⟨f1, f2, f3, f4, f5⟩
      · exact Or.inl ⟨m1 hboth.1, m2 hboth.2⟩
      · have g0 := SameGeom_modSeg_quad L s none
        have hseg : ∀ x, x ≠ s → r1.1.lev_segs x = L.lev_segs x := by
          intro x hx
          rw [f1 x hx, modSeg_apply, if_neg hx]
        have g1 : L.SameGeom r1.1 := by
          refine SameGeom_trans g0 ?_
          intro i
          by_cases e : i = s
          · rw [e]; exact f2
          · rw [f1 i e]; rfl
        have hl1 : IsLinked r1.1.segNext (L.lev_segs s).next rest := by
          refine (IsLinked_congr ?_).mpr h2
          intro a ha
          show (r1.1.lev_segs a).next = (L.lev_segs a).next
          rw [hseg a (fun e => hs (e ▸ ha))]
        rcases ih fuel r1.1 _ _ r hl1 hrest with hboth | ⟨k1, k2, k3, k4, k5⟩
        · exact Or.inl hboth
        · refine Or.inr ⟨?_, SameGeom_trans g1 k2, ?_, ?_, ?_⟩
          · intro x hx
            have hx1 : x ≠ s := fun e => hx (e ▸ List.mem_cons_self _ _)
            have hx2 : x ∉ rest := fun e => hx (List.mem_cons_of_mem _ e)
            rw [k1 x hx2, hseg x hx1]
          · rw [k3, f3]; rfl
          · rintro ⟨x, hx, hg⟩
            rcases List.mem_cons.mp hx with e | e
            · subst e
              exact m1 (f4 ((SameGeom_way g0 eps part x).1.mpr hg))
            · exact k4 ⟨x, e, (SameGeom_way g1 eps part x).1.mpr hg⟩
          · rintro ⟨x, hx, hg⟩
            rcases List.mem_cons.mp hx with e | e
            · subst e
              exact m2 (f5 ((SameGeom_way g0 eps part x).2.mpr hg))
            · exact k5 ⟨x, e, (SameGeom_way g1 eps part x).2.mpr hg⟩

theorem SidesKept_both {eps : ℚ} {part : Nat} {S : List Nat} {L : Level} {r : _}
    (h : r.2.1 ≠ none ∧ r.2.2.1 ≠ none) : SidesKept eps part S L r := Or.inl h

/-- `SeparateSegs` over a well-formed tree without repeated segs. -/
theorem SeparateSegs_sides (eps : ℚ) (hypot : ℚ → ℚ → ℚ) (VCO : Nat → ℚ → ℚ → Bool)
    (doc : Document) (part fuel : Nat) (t : quadtree_c) :
    ∀ (L : Level) (st r : _), t.Proper L = true → (t.Segs L).Nodup →
      SeparateSegs eps hypot VCO doc part fuel t L st = some r →
      SidesKept eps part (t.Segs L) L r := by
  induction t with
  | leaf x1 y1 x2 y2 rn mn list =>
    intro L st r hp hnd h
    obtain ⟨-, -, hok⟩ := Proper_leaf hp
    obtain ⟨l, hl, ha⟩ := (ListOk_iff L list).mp hok
    simp only [quadtree_c.Segs]
    rw [chain_of_linked L list l hl ha]
    simp only [SeparateSegs] at h
    exact SeparateSegsLoop_sides eps hypot VCO doc part l fuel L list st r hl h
  | node x1 y1 x2 y2 rn mn list sub0 sub1 ih0 ih1 =>
    intro L st r hp hnd h
    obtain ⟨-, -, hok, hp0, hp1⟩ := Proper_node hp
    obtain ⟨l, hl, ha⟩ := (ListOk_iff L list).mp hok
    simp only [quadtree_c.Segs] at hnd ⊢
    rw [chain_of_linked L list l hl ha] at hnd ⊢
    have hnd1 : (l ++ sub0.Segs L).Nodup := (List.nodup_append.mp hnd).1
    have hd01 : ∀ x ∈ l ++ sub0.Segs L, x ∉ sub1.Segs L := fun x hx h1 =>
      (List.nodup_append.mp hnd).2.2 hx h1
    have hd0 : ∀ x ∈ l, x ∉ sub0.Segs L := fun x hx h0 =>
      (List.nodup_append.mp hnd1).2.2 hx h0
    simp only [SeparateSegs, Option.bind_eq_some] at h
    obtain ⟨r1, h1, r2, h2, h3⟩ := h
    obtain ⟨m2a, m2b⟩ := SeparateSegs_mono eps hypot VCO doc part fuel sub0 _ _ _ h2
    obtain ⟨m3a, m3b⟩ := SeparateSegs_mono eps hypot VCO doc part fuel sub1 _ _ _ h3
    rcases SeparateSegsLoop_sides eps hypot VCO doc part l fuel L list st r1 hl h1 with
      hboth | ⟨a1, a2, a3, a4, a5⟩
    · exact Or.inl ⟨m3a (m2a hboth.1), m3b (m2b hboth.2)⟩
    obtain ⟨s0, p0⟩ := tree_congr_set L r1.1 l a3 a1 sub0 hp0 (fun x hx hl' => hd0 x hl' hx)
    obtain ⟨s1, p1⟩ := tree_congr_set L r1.1 l a3 a1 sub1 hp1
      (fun x hx hl' => hd01 x (List.mem_append_left _ hl') hx)
    rcases ih0 r1.1 r1.2 r2 p0 (by rw [s0]; exact (List.nodup_append.mp hnd1).2.1) h2 with
      hboth | ⟨b1, b2, b3, b4, b5⟩
    · exact Or.inl ⟨m3a hboth.1, m3b hboth.2⟩
    rw [s0] at b1 b4 b5
    obtain ⟨s2, p2⟩ := tree_congr_set r1.1 r2.1 (sub0.Segs L) b3 b1 sub1 p1 (by
      rw [s1]
      intro x hx h0
      exact hd01 x (List.mem_append_right _ h0) hx)
    rw [s1] at s2
    rcases ih1 r2.1 r2.2 r p2 (by rw [s2]; exact (List.nodup_append.mp hnd).2.1) h3 with
      hboth | ⟨c1, c2, c3, c4, c5⟩
    · exact Or.inl hboth
    rw [s2] at c1 c4 c5
    have g2 : L.SameGeom r2.1 := SameGeom_trans a2 b2
    refine Or.inr ⟨?_, SameGeom_trans g2 c2, ?_, ?_, ?_⟩
    · intro x hx
      have hx1 : x ∉ l := fun e => hx (List.mem_append_left _ (List.mem_append_left _ e))
      have hx2 : x ∉ sub0.Segs L := fun e =>
        hx (List.mem_append_left _ (List.mem_append_right _ e))
      have hx3 : x ∉ sub1.Segs L := fun e => hx (List.mem_append_right _ e)
      rw [c1 x hx3, b1 x hx2, a1 x hx1]
    · rw [c3, b3, a3]
    · rintro ⟨x, hx, hg⟩
      rcases List.mem_append.mp hx with e | e
      · rcases List.mem_append.mp e with e | e
        · exact m3a (m2a (a4 ⟨x, e, hg⟩))
        · exact m3a (b4 ⟨x, e, (SameGeom_way a2 eps part x).1.mpr hg⟩)
      · exact c4 ⟨x, e, (SameGeom_way g2 eps part x).1.mpr hg⟩
    · rintro ⟨x, hx, hg⟩
      rcases List.mem_append.mp hx with e | e
      · rcases List.mem_append.mp e with e | e
        · exact m3b (m2b (a5 ⟨x, e, hg⟩))
        · exact m3b (b5 ⟨x, e, (SameGeom_way a2 eps part x).2.mpr hg⟩)
      · exact c5 ⟨x, e, (SameGeom_way g2 eps part x).2.mpr hg⟩

/-! ### A seg counted on the left goes to the left list -/

/-- The body of the loop of `EvalPartitionWorker` changes the tally of real segs on the
left only for a seg that the tests of `DivideOneSeg` send to the left list. -/
theorem EvalPartitionSeg_left (DIST_EPSILON : ℚ) (factor : Int) (doc : Document) (L : Level)
    (p x : Nat) (info : eval_info_t)
    (hne : (EvalPartitionSeg DIST_EPSILON factor doc (L.lev_segs p) (L.lev_segs x) info).real_left
      ≠ info.real_left) : L.GoesLeft DIST_EPSILON p x := by
  obtain ⟨a, ha⟩ : ∃ a : ℚ, a = L.perpA p x := ⟨_, rfl⟩
  obtain ⟨b, hb⟩ : ∃ b : ℚ, b = L.perpB p x := ⟨_, rfl⟩
  unfold Level.GoesLeft
  rw [← ha, ← hb]
  unfold Level.perpA at ha
  unfold Level.perpB at hb
  generalize L.lev_segs p = part at ha hb hne ⊢
  generalize L.lev_segs x = check at ha hb hne ⊢
  have hR := fun i : eval_info_t => (BumpRight_real i check.linedef).2
  unfold EvalPartitionSeg at hne
  simp only [decide_eq_true_eq] at hne
  rw [← ha, ← hb] at hne
  have hfa : (if check.source_line = part.source_line then (0 : ℚ) else |a|) = |a| := by
    split_ifs with hs
    · rw [ha, if_pos hs, abs_zero]
    · rfl
  have hfb : (if check.source_line = part.source_line then (0 : ℚ) else |b|) = |b| := by
    split_ifs with hs
    · rw [hb, if_pos hs, abs_zero]
    · rfl
  rw [hfa, hfb] at hne
  have key1 : ∀ i1 : eval_info_t, i1 = (if |a| ≤ DIST_EPSILON ∨ |b| ≤ DIST_EPSILON then
        if IsPrecious doc check.linedef = true then
          { info with cost := info.cost + 40 * factor * PRECIOUS_MULTIPLY }
        else info
      else info) → i1.real_left = info.real_left := by
    intro i1 h
    rw [h]
    split_ifs <;> rfl
  generalize hi1 : (if |a| ≤ DIST_EPSILON ∨ |b| ≤ DIST_EPSILON then
        if IsPrecious doc check.linedef = true then
          { info with cost := info.cost + 40 * factor * PRECIOUS_MULTIPLY }
        else info
      else info) = info1 at hne
  have k1 := key1 info1 hi1.symm
  by_cases hline : |a| ≤ DIST_EPSILON ∧ |b| ≤ DIST_EPSILON
  · rw [if_pos hline] at hne
    by_cases hd : check.pdx * part.pdx + check.pdy * part.pdy < 0
    · exact Or.inl ⟨hline.1, hline.2, hd⟩
    · rw [if_neg hd] at hne
      exact absurd (hR info) hne
  · rw [if_neg hline] at hne
    by_cases hright : a > -DIST_EPSILON ∧ b > -DIST_EPSILON
    · rw [if_pos hright] at hne
      have e : (info1.BumpRight check.linedef).real_left = info.real_left := by
        rw [hR info1, k1]
      exfalso
      apply hne
      split_ifs <;> exact e
    · rw [if_neg hright] at hne
      by_cases hleft : a < DIST_EPSILON ∧ b < DIST_EPSILON
      · exact Or.inr ⟨hline, hright, hleft⟩
      · rw [if_neg hleft] at hne
        exfalso
        apply hne
        split_ifs <;> exact k1

/-- The loop of `EvalPartitionWorker` over a linked list changes the tally of real segs on
the left only if a seg of the list goes to the left list. -/
theorem EvalPartitionLoop_left (DIST_EPSILON : ℚ) (factor : Int) (doc : Document) (L : Level)
    (p : Nat) (best_cost : Int) (fuel : Nat) :
    ∀ (check : Option Nat) (l : List Nat) (info : eval_info_t) (r : Bool × eval_info_t),
      IsLinked L.segNext check l →
      EvalPartitionLoop DIST_EPSILON factor doc L (L.lev_segs p) best_cost fuel check info =
        some r →
      r.2.real_left ≠ info.real_left → ∃ x ∈ l, L.GoesLeft DIST_EPSILON p x := by
  induction fuel with
  | zero => intro check l info r _ h; simp [EvalPartitionLoop] at h
  | succ fuel ih =>
    intro check l info r hl h hne
    cases check with
    | none =>
      simp only [EvalPartitionLoop] at h
      rw [← Option.some.inj h] at hne
      exact absurd rfl hne
    | some c =>
      obtain ⟨rest, rfl, hrest⟩ := IsLinked_cons_some hl
      simp only [EvalPartitionLoop] at h
      split_ifs at h
      · rw [← Option.some.inj h] at hne
        exact absurd rfl hne
      · by_cases e : (EvalPartitionSeg DIST_EPSILON factor doc (L.lev_segs p) (L.lev_segs c)
            info).real_left = info.real_left
        · rw [← e] at hne
          obtain ⟨x, hx, hg⟩ := ih _ rest _ r hrest h hne
          exact ⟨x, List.mem_cons_of_mem _ hx, hg⟩
        · exact ⟨c, List.mem_cons_self _ _,
            EvalPartitionSeg_left DIST_EPSILON factor doc L p c info e⟩

/-! ### `AddSeg` keeps the containment invariant -/

theorem Holds_all {L : Level} {t : quadtree_c} (h : t.Holds L) :
    ∀ s ∈ t.Segs L, t.InsideSeg L s := by
  cases t with
  | leaf x1 y1 x2 y2 rn mn list => exact h
  | node x1 y1 x2 y2 rn mn list sub0 sub1 => exact h.1

theorem InsideSeg_box {t u : quadtree_c} {L : Level} {s : Nat} (e1 : u.x1 = t.x1)
    (e2 : u.y1 = t.y1) (e3 : u.x2 = t.x2) (e4 : u.y2 = t.y2) (h : t.InsideSeg L s) :
    u.InsideSeg L s := by
  unfold quadtree_c.InsideSeg quadtree_c.Inside at h ⊢
  rw [e1, e2, e3, e4]
  exact h

theorem InsideSeg_congr {t : quadtree_c} {L L' : Level} {s : Nat}
    (hv : L'.lev_vertices = L.lev_vertices) (h1 : (L'.lev_segs s).start = (L.lev_segs s).start)
    (h2 : (L'.lev_segs s).end_ = (L.lev_segs s).end_) (h : t.InsideSeg L s) :
    t.InsideSeg L' s := by
  unfold quadtree_c.InsideSeg at h ⊢
  rw [hv, h1, h2]
  exact h

/-- A tree that does not hold the seg `s` keeps the containment invariant in a level that
differs at `s` only. -/
theorem Holds_congr (L L' : Level) (s : Nat) (hn : L'.num_segs = L.num_segs)
    (hseg : ∀ x, x ≠ s → L'.lev_segs x = L.lev_segs x)
    (hv : L'.lev_vertices = L.lev_vertices) (u : quadtree_c) :
    u.Proper L = true → s ∉ u.Segs L → u.Holds L → u.Holds L' := by
  induction u with
  | leaf x1 y1 x2 y2 rn mn list =>
    intro hp hs hh
    obtain ⟨e1, -, -⟩ := tree_congr L L' s hn hseg _ hp hs
    show ∀ x ∈ (quadtree_c.leaf x1 y1 x2 y2 rn mn list).Segs L', _
    rw [e1]
    intro x hx
    have hxs : x ≠ s := fun e => hs (e ▸ hx)
    exact InsideSeg_congr hv (by rw [hseg x hxs]) (by rw [hseg x hxs]) (hh x hx)
  | node x1 y1 x2 y2 rn mn list sub0 sub1 ih0 ih1 =>
    intro hp hs hh
    obtain ⟨e1, -, -⟩ := tree_congr L L' s hn hseg _ hp hs
    obtain ⟨-, -, -, hp0, hp1⟩ := Proper_node hp
    have hs' := hs
    simp only [quadtree_c.Segs, List.mem_append, not_or] at hs'
    obtain ⟨⟨-, hs2⟩, hs3⟩ := hs'
    refine ⟨?_, ih0 hp0 hs2 hh.2.1, ih1 hp1 hs3 hh.2.2⟩
    rw [e1]
    intro x hx
    have hxs : x ≠ s := fun e => hs (e ▸ hx)
    exact InsideSeg_congr hv (by rw [hseg x hxs]) (by rw [hseg x hxs]) (hh.1 x hx)

/-- `AddSeg` writes the links `next` and `quad` only. -/
theorem AddSeg_geom (t : quadtree_c) : ∀ (this : List Bool) (L : Level) (s : Nat),
    L.SameGeom (t.AddSeg this L s).2 := by
  induction t with
  | leaf x1 y1 x2 y2 rn mn list =>
    intro this L s i
    simp only [quadtree_c.AddSeg, ListAddSeg, modSeg_apply]
    split_ifs with e
    · rw [e]; rfl
    · rfl
  | node x1 y1 x2 y2 rn mn list sub0 sub1 ih0 ih1 =>
    intro this L s
    cases hw : quadtree_c.AddSegWay x1 y1 x2 y2 sub0 sub1 L s with
    | none =>
      intro i
      simp only [quadtree_c.AddSeg, hw, ListAddSeg, modSeg_apply]
      split_ifs with e
      · rw [e]; rfl
      · rfl
    | some w =>
      cases w with
      | true =>
        simp only [quadtree_c.AddSeg, hw]
        exact ih1 _ L s
      | false =>
        simp only [quadtree_c.AddSeg, hw]
        exact ih0 _ L s

/-- `AddSeg` of a fresh seg whose end points lie in the box of the cell keeps the
two-halves boxes and the containment invariant. -/
theorem AddSeg_holds (t : quadtree_c) :
    ∀ (this : List Bool) (L : Level) (s : Nat), s < L.num_segs → t.Proper L = true →
      s ∉ t.Segs L → t.Boxed = true → t.Holds L → t.InsideSeg L s →
      (t.AddSeg this L s).1.Boxed = true ∧ (t.AddSeg this L s).1.Holds (t.AddSeg this L s).2 := by
  induction t with
  | leaf x1 y1 x2 y2 rn mn list =>
    intro this L s hs hp hfresh hb hh hin
    obtain ⟨w1, w2, w3, -, w5, w6, -, w8, -, -, -⟩ := AddSeg_inv _ this L s hs hp hfresh
    obtain ⟨r1, r2, r3, r4, -, -⟩ := AddSeg_root (quadtree_c.leaf x1 y1 x2 y2 rn mn list) this L s
    have hleaf : ∃ rn' mn' list', ((quadtree_c.leaf x1 y1 x2 y2 rn mn list).AddSeg this L s).1 =
        quadtree_c.leaf x1 y1 x2 y2 rn' mn' list' := by
      simp only [quadtree_c.AddSeg, quadtree_c.bump]
      split_ifs <;> exact ⟨_, _, _, rfl⟩
    obtain ⟨rn', mn', list', htree⟩ := hleaf
    rw [htree] at w8 ⊢
    refine ⟨rfl, ?_⟩
    intro x hx
    have hstart : ∀ y, ((((quadtree_c.leaf x1 y1 x2 y2 rn mn list).AddSeg this L s).2).lev_segs
        y).start = (L.lev_segs y).start ∧
        ((((quadtree_c.leaf x1 y1 x2 y2 rn mn list).AddSeg this L s).2).lev_segs y).end_ =
          (L.lev_segs y).end_ := by
      intro y
      by_cases e : y = s
      · rw [e]; exact ⟨w5, w6⟩
      · rw [w3 y e]; exact ⟨rfl, rfl⟩
    refine InsideSeg_congr w2 (hstart x).1 (hstart x).2 ?_
    rcases List.mem_cons.mp (w8.subset hx) with e | e
    · rw [e]
      exact InsideSeg_box rfl rfl rfl rfl hin
    · exact InsideSeg_box rfl rfl rfl rfl (hh x e)
  | node x1 y1 x2 y2 rn mn list sub0 sub1 ih0 ih1 =>
    intro this L s hs hp hfresh hb hh hin
    obtain ⟨w1, w2, w3, -, w5, w6, -, w8, -, -, -⟩ := AddSeg_inv _ this L s hs hp hfresh
    obtain ⟨hrn, hmn, hok, hp0, hp1⟩ := Proper_node hp
    obtain ⟨b1, b2, b3, b4, bw, bt, hb0, hb1⟩ := Boxed_node hb
    have hb' := hb
    simp only [quadtree_c.Boxed, Bool.and_eq_true, decide_eq_true_eq] at hb'
    have hfresh' := hfresh
    simp only [quadtree_c.Segs, List.mem_append, not_or] at hfresh'
    obtain ⟨⟨hf1, hf2⟩, hf3⟩ := hfresh'
    have hstart : ∀ y, ((((quadtree_c.node x1 y1 x2 y2 rn mn list sub0 sub1).AddSeg this L
        s).2).lev_segs y).start = (L.lev_segs y).start ∧
        ((((quadtree_c.node x1 y1 x2 y2 rn mn list sub0 sub1).AddSeg this L s).2).lev_segs
          y).end_ = (L.lev_segs y).end_ := by
      intro y
      by_cases e : y = s
      · rw [e]; exact ⟨w5, w6⟩
      · rw [w3 y e]; exact ⟨rfl, rfl⟩
    have hall : ∀ (u : quadtree_c), u.x1 = x1 → u.y1 = y1 → u.x2 = x2 → u.y2 = y2 →
        ∀ x ∈ ((quadtree_c.node x1 y1 x2 y2 rn mn list sub0 sub1).AddSeg this L s).1.Segs
          ((quadtree_c.node x1 y1 x2 y2 rn mn list sub0 sub1).AddSeg this L s).2,
        u.InsideSeg ((quadtree_c.node x1 y1 x2 y2 rn mn list sub0 sub1).AddSeg this L s).2 x := by
      intro u e1 e2 e3 e4 x hx
      refine InsideSeg_congr w2 (hstart x).1 (hstart x).2 ?_
      rcases List.mem_cons.mp (w8.subset hx) with e | e
      · rw [e]
        exact @InsideSeg_box (quadtree_c.node x1 y1 x2 y2 rn mn list sub0 sub1) u L s e1 e2 e3
          e4 hin
      · exact @InsideSeg_box (quadtree_c.node x1 y1 x2 y2 rn mn list sub0 sub1) u L x e1 e2 e3
          e4 (hh.1 x e)
    cases hw : quadtree_c.AddSegWay x1 y1 x2 y2 sub0 sub1 L s with
    | none =>
      have htree : ((quadtree_c.node x1 y1 x2 y2 rn mn list sub0 sub1).AddSeg this L s).1 =
          quadtree_c.node x1 y1 x2 y2 (rn + (if (L.lev_segs s).linedef ≥ 0 then 1 else 0))
            (mn + (if (L.lev_segs s).linedef ≥ 0 then 0 else 1)) (some s) sub0 sub1 := by
        simp only [quadtree_c.AddSeg, hw, ListAddSeg]
        split_ifs <;> simp
      rw [htree] at hall ⊢
      refine ⟨?_, hall _ rfl rfl rfl rfl, ?_, ?_⟩
      · simp only [quadtree_c.Boxed, Bool.and_eq_true, decide_eq_true_eq]
        exact hb'
      · exact Holds_congr L _ s w1 w3 w2 sub0 hp0 hf2 hh.2.1
      · exact Holds_congr L _ s w1 w3 w2 sub1 hp1 hf3 hh.2.2
    | some w =>
      obtain ⟨k1, k2⟩ := AddSegWay_inside hb hw hin.1 hin.2
      cases w with
      | true =>
        simp only [if_true] at k1 k2
        obtain ⟨j1, j2⟩ := ih1 (this ++ [true]) L s hs hp1 hf3 hb1 hh.2.2 ⟨k1, k2⟩
        obtain ⟨r1, r2, r3, r4, -, -⟩ := AddSeg_root sub1 (this ++ [true]) L s
        have htree : ((quadtree_c.node x1 y1 x2 y2 rn mn list sub0 sub1).AddSeg this L s).1 =
            quadtree_c.node x1 y1 x2 y2 (rn + (if (L.lev_segs s).linedef ≥ 0 then 1 else 0))
              (mn + (if (L.lev_segs s).linedef ≥ 0 then 0 else 1)) list sub0
              (sub1.AddSeg (this ++ [true]) L s).1 := by
          simp only [quadtree_c.AddSeg, hw]
          split_ifs <;> simp
        have hlev : ((quadtree_c.node x1 y1 x2 y2 rn mn list sub0 sub1).AddSeg this L s).2 =
            (sub1.AddSeg (this ++ [true]) L s).2 := by
          simp only [quadtree_c.AddSeg, hw]
        rw [htree] at hall ⊢
        rw [hlev] at hall w1 w2 w3 ⊢
        refine ⟨?_, hall _ rfl rfl rfl rfl, ?_, j2⟩
        · simp only [quadtree_c.Boxed, Bool.and_eq_true, decide_eq_true_eq]
          rw [r1, r2, r3, r4, j1]
          exact ⟨⟨⟨⟨⟨⟨hb'.1.1.1.1.1.1, hb'.1.1.1.1.1.2⟩, hb'.1.1.1.1.2⟩, hb'.1.1.1.2⟩,
            hb'.1.1.2⟩, hb'.1.2⟩, rfl⟩
        · exact Holds_congr L _ s w1 w3 w2 sub0 hp0 hf2 hh.2.1
      | false =>
        simp only [Bool.false_eq_true, if_false] at k1 k2
        obtain ⟨j1, j2⟩ := ih0 (this ++ [false]) L s hs hp0 hf2 hb0 hh.2.1 ⟨k1, k2⟩
        obtain ⟨r1, r2, r3, r4, -, -⟩ := AddSeg_root sub0 (this ++ [false]) L s
        have htree : ((quadtree_c.node x1 y1 x2 y2 rn mn list sub0 sub1).AddSeg this L s).1 =
            quadtree_c.node x1 y1 x2 y2 (rn + (if (L.lev_segs s).linedef ≥ 0 then 1 else 0))
              (mn + (if (L.lev_segs s).linedef ≥ 0 then 0 else 1)) list
              (sub0.AddSeg (this ++ [false]) L s).1 sub1 := by
          simp only [quadtree_c.AddSeg, hw]
          split_ifs <;> simp
        have hlev : ((quadtree_c.node x1 y1 x2 y2 rn mn list sub0 sub1).AddSeg this L s).2 =
            (sub0.AddSeg (this ++ [false]) L s).2 := by
          simp only [quadtree_c.AddSeg, hw]
        rw [htree] at hall ⊢
        rw [hlev] at hall w1 w2 w3 ⊢
        refine ⟨?_, hall _ rfl rfl rfl rfl, j2, ?_⟩
        · simp only [quadtree_c.Boxed, Bool.and_eq_true, decide_eq_true_eq]
          rw [r1, r2, r3, r4, j1]
          exact ⟨⟨⟨⟨⟨⟨hb'.1.1.1.1.1.1, hb'.1.1.1.1.1.2⟩, hb'.1.1.1.1.2⟩, hb'.1.1.1.2⟩,
            hb'.1.1.2⟩, rfl⟩, hb'.2⟩
        · exact Holds_congr L _ s w1 w3 w2 sub1 hp1 hf3 hh.2.2

/-! ### The tree of `TreeFromSegList` -/

/-- The box of `FindLimits2` holds the end points of every seg of the list. -/
theorem FindLimits2_inside (L : Level) (list : Option Nat) (l : List Nat)
    (hl : IsLinked L.segNext list l) (hlt : ∀ s ∈ l, s < L.num_segs) (b : bbox_t)
    (hb : FindLimits2 L list = some b) (t : quadtree_c) (e1 : t.x1 = b.minx)
    (e2 : t.y1 = b.miny) (e3 : t.x2 = b.maxx) (e4 : t.y2 = b.maxy) :
    ∀ s ∈ l, t.InsideSeg L s := by
  cases l with
  | nil => intro s hs; exact absurd hs (List.not_mem_nil s)
  | cons a l =>
    have hnd := IsLinked_nodup hl
    have hlen : (a :: l).length < L.num_segs + 1 :=
      Nat.lt_succ_of_le (length_le_of_nodup_lt hnd hlt)
    obtain ⟨b', hrun, -, -, -, -, hall⟩ := FindLimits2Loop_spec (L.num_segs + 1) L list (a :: l)
      { minx := SHRT_MAX, miny := SHRT_MAX, maxx := SHRT_MIN, maxy := SHRT_MIN } hl hlen
    have e : list = some a := hl.1
    rw [e] at hb hrun
    have hbb : b' = b := by
      have : FindLimits2 L (some a) = some b' := hrun
      rw [hb] at this
      exact (Option.some.inj this).symm
    subst hbb
    intro s hs
    obtain ⟨h1, h2, h3, h4⟩ := hall s hs
    have f1 := Int.floor_le (min (L.lev_vertices (L.lev_segs s).start).x
        (L.lev_vertices (L.lev_segs s).end_).x - 1 / 5)
    have f2 := Int.floor_le (min (L.lev_vertices (L.lev_segs s).start).y
        (L.lev_vertices (L.lev_segs s).end_).y - 1 / 5)
    have f3 := Int.le_ceil (max (L.lev_vertices (L.lev_segs s).start).x
        (L.lev_vertices (L.lev_segs s).end_).x + 1 / 5)
    have f4 := Int.le_ceil (max (L.lev_vertices (L.lev_segs s).start).y
        (L.lev_vertices (L.lev_segs s).end_).y + 1 / 5)
    have g1 : (b'.minx : ℚ) ≤ _ := Int.cast_le.mpr h1
    have g2 : (b'.miny : ℚ) ≤ _ := Int.cast_le.mpr h2
    have g3 : _ ≤ (b'.maxx : ℚ) := Int.cast_le.mpr h3
    have g4 : _ ≤ (b'.maxy : ℚ) := Int.cast_le.mpr h4
    have a1 := min_le_left (L.lev_vertices (L.lev_segs s).start).x
      (L.lev_vertices (L.lev_segs s).end_).x
    have a2 := min_le_right (L.lev_vertices (L.lev_segs s).start).x
      (L.lev_vertices (L.lev_segs s).end_).x
    have a3 := min_le_left (L.lev_vertices (L.lev_segs s).start).y
      (L.lev_vertices (L.lev_segs s).end_).y
    have a4 := min_le_right (L.lev_vertices (L.lev_segs s).start).y
      (L.lev_vertices (L.lev_segs s).end_).y
    have c1 := le_max_left (L.lev_vertices (L.lev_segs s).start).x
      (L.lev_vertices (L.lev_segs s).end_).x
    have c2 := le_max_right (L.lev_vertices (L.lev_segs s).start).x
      (L.lev_vertices (L.lev_segs s).end_).x
    have c3 := le_max_left (L.lev_vertices (L.lev_segs s).start).y
      (L.lev_vertices (L.lev_segs s).end_).y
    have c4 := le_max_right (L.lev_vertices (L.lev_segs s).start).y
      (L.lev_vertices (L.lev_segs s).end_).y
    unfold quadtree_c.InsideSeg quadtree_c.Inside
    rw [e1, e2, e3, e4]
    refine ⟨⟨?_, ?_, ?_, ?_⟩, ⟨?_, ?_, ?_, ?_⟩⟩ <;> linarith

/-- A tree without segs has the containment invariant. -/
theorem Holds_of_empty (L : Level) (t : quadtree_c) : t.Segs L = [] → t.Holds L := by
  induction t with
  | leaf x1 y1 x2 y2 rn mn list =>
    intro h s hs
    rw [h] at hs
    exact absurd hs (List.not_mem_nil _)
  | node x1 y1 x2 y2 rn mn list sub0 sub1 ih0 ih1 =>
    intro h
    have h' := h
    simp only [quadtree_c.Segs, List.append_eq_nil] at h'
    refine ⟨?_, ih0 h'.1.2, ih1 h'.2⟩
    intro s hs
    rw [h] at hs
    exact absurd hs (List.not_mem_nil _)

/-- A sequence of `AddSeg` calls for distinct, allocated segs that are not in the tree and
whose end points lie in the box of the root keeps the two-halves boxes and the containment
invariant, and writes links only. -/
theorem AddSegs_holds (this : List Bool) (ss : List Nat) :
    ∀ (t : quadtree_c) (L : Level), t.Proper L = true → t.Boxed = true → t.Holds L →
      ss.Nodup → (∀ s ∈ ss, s < L.num_segs) → (∀ s ∈ ss, s ∉ t.Segs L) →
      (∀ s ∈ ss, t.InsideSeg L s) →
      (ss.foldl (fun (st : quadtree_c × Level) (s : Nat) => st.1.AddSeg this st.2 s)
          (t, L)).1.Boxed = true ∧
      (ss.foldl (fun (st : quadtree_c × Level) (s : Nat) => st.1.AddSeg this st.2 s)
          (t, L)).1.Holds
        (ss.foldl (fun (st : quadtree_c × Level) (s : Nat) => st.1.AddSeg this st.2 s)
          (t, L)).2 ∧
      L.SameGeom
        (ss.foldl (fun (st : quadtree_c × Level) (s : Nat) => st.1.AddSeg this st.2 s)
          (t, L)).2 := by
  induction ss with
  | nil =>
    intro t L _ hb hh _ _ _ _
    exact ⟨hb, hh, SameGeom_refl L⟩
  | cons s rest ih =>
    intro t L hp hb hh hnd hal hfresh hin
    obtain ⟨i1, i2, i3, -, -, -, i7, i8, -, -, -⟩ :=
      AddSeg_inv t this L s (hal s (List.mem_cons_self _ _)) hp
        (hfresh s (List.mem_cons_self _ _))
    obtain ⟨k1, k2⟩ := AddSeg_holds t this L s (hal s (List.mem_cons_self _ _)) hp
      (hfresh s (List.mem_cons_self _ _)) hb hh (hin s (List.mem_cons_self _ _))
    obtain ⟨r1, r2, r3, r4, -, -⟩ := AddSeg_root t this L s
    obtain ⟨hs, hnd'⟩ := List.nodup_cons.mp hnd
    simp only [List.foldl_cons]
    obtain ⟨j1, j2, j3⟩ := ih (t.AddSeg this L s).1 (t.AddSeg this L s).2 i7 k1 k2 hnd'
      (fun x hx => by rw [i1]; exact hal x (List.mem_cons_of_mem _ hx))
      (fun x hx hmem => by
        have := i8.subset hmem
        rcases List.mem_cons.mp this with e | e
        · exact hs (e ▸ hx)
        · exact hfresh x (List.mem_cons_of_mem _ hx) e)
      (fun x hx => by
        have hxs : x ≠ s := fun e => hs (e ▸ hx)
        refine InsideSeg_congr i2 (by rw [i3 x hxs]) (by rw [i3 x hxs]) ?_
        exact @InsideSeg_box t _ L x r1 r2 r3 r4 (hin x (List.mem_cons_of_mem _ hx)))
    exact ⟨j1, j2, SameGeom_trans (AddSeg_geom t this L s) j3⟩

/-- `TreeFromSegList` on a list of allocated segs, with the box of `FindLimits2`: the tree
is well formed, count-consistent and holds the segs of the list, each inside the box of
its cell and of the cells above; only the links of segs are written. -/
theorem TreeFromSegList_holds {L : Level} {list : Option Nat} {bounds : bbox_t}
    {tl : quadtree_c × Level} (ss : List Nat) (hl : IsLinked L.segNext list ss)
    (ha : ∀ s ∈ ss, s < L.num_segs) (hb : FindLimits2 L list = some bounds)
    (h : TreeFromSegList L list bounds = some tl) :
    tl.1.Proper tl.2 = true ∧ (tl.1.Segs tl.2).Perm ss ∧ L.SameButSegs tl.2 ∧
    tl.1.Counted tl.2 = true ∧ tl.1.Holds tl.2 ∧ L.SameGeom tl.2 := by
  obtain ⟨p1, p2, p3⟩ := TreeFromSegList_spec ss hl ha h
  unfold TreeFromSegList at h
  simp only [Option.bind_eq_some] at h
  obtain ⟨tree, hnew, hadd⟩ := h
  obtain ⟨a1, a2, a3, a4, a5, a6, a7, a8, -, -⟩ := quadtree_new_inv L _ _ _ _ _ tree hnew
  have hnd := IsLinked_nodup hl
  rw [AddList_eq_foldl [] ss _ tree L list hl
    (Nat.lt_succ_of_le (length_le_of_nodup_lt hnd ha))] at hadd
  have hfresh : ∀ s ∈ ss, s ∉ tree.Segs L := fun s _ hmem => by
    rw [a4] at hmem; exact List.not_mem_nil _ hmem
  have hh : tree.Holds L := Holds_of_empty L tree a4
  obtain ⟨-, c2, -, -⟩ := AddSegs_inv [] ss tree L a1 a2 hnd ha hfresh
  obtain ⟨-, j2, j3⟩ := AddSegs_holds [] ss tree L a1 a3 hh hnd ha hfresh
    (FindLimits2_inside L list ss hl ha bounds hb tree a5 a6 a7 a8)
  rw [← Option.some.inj hadd]
  exact ⟨by rw [← Option.some.inj hadd] at p1; exact p1,
    by rw [← Option.some.inj hadd] at p2; exact p2,
    by rw [← Option.some.inj hadd] at p3; exact p3, c2, j2, j3⟩

/-! ### A partition that is accepted has a seg that goes to the left list -/

theorem countReal_pos_mem (L : Level) (l : List Nat) (h : L.countReal l ≠ 0) :
    ∃ x ∈ l, (L.lev_segs x).linedef ≥ 0 := by
  unfold Level.countReal at h
  have hne : (l.filter fun s => decide ((L.lev_segs s).linedef ≥ 0)) ≠ [] := by
    intro e
    rw [e] at h
    exact h rfl
  obtain ⟨x, hx⟩ := List.exists_mem_of_ne_nil _ hne
  obtain ⟨h1, h2⟩ := List.mem_filter.mp hx
  exact ⟨x, h1, of_decide_eq_true h2⟩

/-- The whole-cell shortcut of `EvalPartitionWorker` for the left side: the cell has real
segs, each of them lies beyond the partition line, and a seg that lies beyond the line
goes to the left list unless it is a piece of the partition's linedef. -/
theorem OnLineSide_left_seg (DIST_EPSILON : ℚ) (L : Level) (p : Nat)
    (heps : 0 ≤ DIST_EPSILON) (h4 : DIST_EPSILON < IFFY_LEN) (hex : (L.lev_segs p).Exact)
    (t : quadtree_c) (hc : t.Counted L = true) (hh : t.Holds L)
    (hrec : ∀ x ∈ t.Segs L, L.Recomputed x) (hone : ∀ x ∈ t.Segs L, L.OneLine x p)
    (hside : t.OnLineSide DIST_EPSILON (L.lev_segs p) = Side.left) (hrn : t.real_num ≠ 0) :
    ∃ x ∈ t.Segs L, L.GoesLeft DIST_EPSILON p x := by
  obtain ⟨c1, -⟩ := Counted_total L t hc
  rw [c1] at hrn
  obtain ⟨x, hx, -⟩ := countReal_pos_mem L _ hrn
  refine ⟨x, hx, ?_⟩
  obtain ⟨i1, i2⟩ := Holds_all hh x hx
  obtain ⟨q1, q2, q3, q4, -⟩ := hrec x hx
  unfold quadtree_c.Inside at i1 i2
  rw [← q1, ← q2] at i1
  rw [← q3, ← q4] at i2
  have d1 := OnLineSide_left_sound DIST_EPSILON heps t (L.lev_segs p) hex hside _ _
    i1.1 i1.2.1 i1.2.2.1 i1.2.2.2
  have d2 := OnLineSide_left_sound DIST_EPSILON heps t (L.lev_segs p) hex hside _ _
    i2.1 i2.2.1 i2.2.2.1 i2.2.2.2
  have hsl : (L.lev_segs x).source_line ≠ (L.lev_segs p).source_line := by
    intro e
    obtain ⟨z1, -⟩ := hone x hx e
    rw [z1] at d1
    linarith
  have ea : L.perpA p x = (L.lev_segs p).PerpDist (L.lev_segs x).psx (L.lev_segs x).psy := by
    unfold Level.perpA
    rw [if_neg hsl]
  have eb : L.perpB p x = (L.lev_segs p).PerpDist (L.lev_segs x).pex (L.lev_segs x).pey := by
    unfold Level.perpB
    rw [if_neg hsl]
  unfold Level.GoesLeft
  rw [ea, eb]
  refine Or.inr ⟨?_, ?_, ?_, ?_⟩
  · rintro ⟨k, -⟩
    have := (abs_le.mp k).1
    linarith
  · rintro ⟨k, -⟩
    have k' : -DIST_EPSILON < (L.lev_segs p).PerpDist (L.lev_segs x).psx (L.lev_segs x).psy := k
    linarith
  · linarith
  · linarith

/-- `EvalPartitionWorker` changes the tally of real segs on the left only if a seg of the
cell or below goes to the left list. -/
theorem EvalPartitionWorker_left (DIST_EPSILON : ℚ) (factor : Int) (doc : Document)
    (L : Level) (p : Nat) (best_cost : Int) (heps : 0 ≤ DIST_EPSILON)
    (h4 : DIST_EPSILON < IFFY_LEN) (hex : (L.lev_segs p).Exact) (t : quadtree_c) :
    t.Proper L = true → t.Counted L = true → t.Holds L →
      (∀ x ∈ t.Segs L, L.Recomputed x) → (∀ x ∈ t.Segs L, L.OneLine x p) →
      ∀ (info : eval_info_t) (r : Bool × eval_info_t),
        EvalPartitionWorker DIST_EPSILON factor doc L (L.lev_segs p) best_cost t info = some r →
        r.2.real_left ≠ info.real_left → ∃ x ∈ t.Segs L, L.GoesLeft DIST_EPSILON p x := by
  induction t with
  | leaf x1 y1 x2 y2 rn mn list =>
    intro hp hc hh hrec hone info r h hne
    obtain ⟨hrn, hmn, hok⟩ := Proper_leaf hp
    obtain ⟨l, hch, hl, hlen, -⟩ := ListOk_chain L list hok
    unfold EvalPartitionWorker at h
    cases hside : (quadtree_c.leaf x1 y1 x2 y2 rn mn list).OnLineSide DIST_EPSILON
        (L.lev_segs p) with
    | left =>
      rw [hside] at h
      simp only [] at h
      rw [← Option.some.inj h] at hne
      refine OnLineSide_left_seg DIST_EPSILON L p heps h4 hex _ hc hh hrec hone hside ?_
      intro e
      apply hne
      show info.real_left + rn = info.real_left
      have : rn = 0 := e
      omega
    | right =>
      rw [hside] at h
      simp only [] at h
      rw [← Option.some.inj h] at hne
      exact absurd rfl hne
    | neither =>
      rw [hside] at h
      simp only [] at h
      obtain ⟨x, hx, hg⟩ := EvalPartitionLoop_left DIST_EPSILON factor doc L p best_cost _ list
        l info r hl h hne
      refine ⟨x, ?_, hg⟩
      simp only [quadtree_c.Segs, hch, Option.getD_some]
      exact hx
  | node x1 y1 x2 y2 rn mn list sub0 sub1 ih0 ih1 =>
    intro hp hc hh hrec hone info r h hne
    obtain ⟨hrn, hmn, hok, hp0, hp1⟩ := Proper_node hp
    obtain ⟨hc0, hc1⟩ := Counted_node hc
    obtain ⟨l, hch, hl, hlen, -⟩ := ListOk_chain L list hok
    have hsegs : (quadtree_c.node x1 y1 x2 y2 rn mn list sub0 sub1).Segs L =
        l ++ sub0.Segs L ++ sub1.Segs L := by
      simp only [quadtree_c.Segs, hch, Option.getD_some]
    have hm0 : ∀ x ∈ sub0.Segs L,
        x ∈ (quadtree_c.node x1 y1 x2 y2 rn mn list sub0 sub1).Segs L := by
      intro x hx
      rw [hsegs]
      exact List.mem_append_left _ (List.mem_append_right _ hx)
    have hm1 : ∀ x ∈ sub1.Segs L,
        x ∈ (quadtree_c.node x1 y1 x2 y2 rn mn list sub0 sub1).Segs L := by
      intro x hx
      rw [hsegs]
      exact List.mem_append_right _ hx
    unfold EvalPartitionWorker at h
    cases hside : (quadtree_c.node x1 y1 x2 y2 rn mn list sub0 sub1).OnLineSide DIST_EPSILON
        (L.lev_segs p) with
    | left =>
      rw [hside] at h
      simp only [] at h
      rw [← Option.some.inj h] at hne
      refine OnLineSide_left_seg DIST_EPSILON L p heps h4 hex _ hc hh hrec hone hside ?_
      intro e
      apply hne
      show info.real_left + rn = info.real_left
      have : rn = 0 := e
      omega
    | right =>
      rw [hside] at h
      simp only [] at h
      rw [← Option.some.inj h] at hne
      exact absurd rfl hne
    | neither =>
      rw [hside] at h
      simp only [Option.bind_eq_some] at h
      obtain ⟨r1, h1, h⟩ := h
      rw [hsegs]
      have own : r1.2.real_left ≠ info.real_left →
          ∃ x ∈ l ++ sub0.Segs L ++ sub1.Segs L, L.GoesLeft DIST_EPSILON p x := by
        intro hn
        obtain ⟨x, hx, hg⟩ := EvalPartitionLoop_left DIST_EPSILON factor doc L p best_cost _
          list l info r1 hl h1 hn
        exact ⟨x, List.mem_append_left _ (List.mem_append_left _ hx), hg⟩
      have s0 : ∀ (i : eval_info_t) (r0 : Bool × eval_info_t),
          EvalPartitionWorker DIST_EPSILON factor doc L (L.lev_segs p) best_cost sub0 i =
            some r0 → r0.2.real_left ≠ i.real_left →
          ∃ x ∈ l ++ sub0.Segs L ++ sub1.Segs L, L.GoesLeft DIST_EPSILON p x := by
        intro i r0 hr0 hn
        obtain ⟨x, hx, hg⟩ := ih0 hp0 hc0 hh.2.1 (fun x hx => hrec x (hm0 x hx))
          (fun x hx => hone x (hm0 x hx)) i r0 hr0 hn
        exact ⟨x, List.mem_append_left _ (List.mem_append_right _ hx), hg⟩
      have s1 : ∀ (i : eval_info_t) (r0 : Bool × eval_info_t),
          EvalPartitionWorker DIST_EPSILON factor doc L (L.lev_segs p) best_cost sub1 i =
            some r0 → r0.2.real_left ≠ i.real_left →
          ∃ x ∈ l ++ sub0.Segs L ++ sub1.Segs L, L.GoesLeft DIST_EPSILON p x := by
        intro i r0 hr0 hn
        obtain ⟨x, hx, hg⟩ := ih1 hp1 hc1 hh.2.2 (fun x hx => hrec x (hm1 x hx))
          (fun x hx => hone x (hm1 x hx)) i r0 hr0 hn
        exact ⟨x, List.mem_append_right _ hx, hg⟩
      by_cases e1 : r1.2.real_left = info.real_left
      · rw [← e1] at hne
        by_cases hr1 : r1.1 = true
        · rw [if_pos hr1] at h
          rw [← Option.some.inj h] at hne
          exact absurd rfl hne
        · rw [if_neg hr1] at h
          simp only [Option.bind_eq_some] at h
          obtain ⟨r0, h0, h⟩ := h
          by_cases e0 : r0.2.real_left = r1.2.real_left
          · rw [← e0] at hne
            by_cases hr01 : r0.1 = true
            · rw [if_pos hr01] at h
              rw [← Option.some.inj h] at hne
              exact absurd rfl hne
            · rw [if_neg hr01] at h
              split_ifs at h
              · rw [← Option.some.inj h] at hne
                exact absurd rfl hne
              · exact s1 _ _ h hne
          · split_ifs at h0
            · rw [← Option.some.inj h0] at e0
              exact absurd rfl e0
            · exact s0 _ _ h0 e0
      · exact own e1

/-- A candidate that `EvalPartition` accepts has a seg in the tree that goes to the left
list. -/
theorem Accepted_left (DIST_EPSILON : ℚ) (factor : Int) (doc : Document) (L : Level)
    (p : Nat) (heps : 0 ≤ DIST_EPSILON) (h4 : DIST_EPSILON < IFFY_LEN)
    (hex : (L.lev_segs p).Exact) (t : quadtree_c) (hp : t.Proper L = true)
    (hc : t.Counted L = true) (hh : t.Holds L) (hrec : ∀ x ∈ t.Segs L, L.Recomputed x)
    (hone : ∀ x ∈ t.Segs L, L.OneLine x p) (hacc : Accepted DIST_EPSILON factor doc L t p) :
    ∃ x ∈ t.Segs L, L.GoesLeft DIST_EPSILON p x := by
  obtain ⟨bc, c, hcost, hpos⟩ := hacc
  unfold EvalPartition at hcost
  simp only [Option.map_eq_some'] at hcost
  obtain ⟨r, hr, hrc⟩ := hcost
  refine EvalPartitionWorker_left DIST_EPSILON factor doc L p bc heps h4 hex t hp hc hh hrec
    hone eval_info_t.zero r hr ?_
  intro e
  have e' : r.2.real_left = 0 := e
  by_cases hr1 : r.1 = true
  · rw [if_pos hr1] at hrc
    omega
  · rw [if_neg hr1, if_pos (Or.inl e')] at hrc
    omega

/-! ### `PickNode` returns an accepted partition -/

theorem PickNodeLoop_accepted (DIST_EPSILON : ℚ) (factor : Int) (cancelled : Bool)
    (doc : Document) (L : Level) (tree : quadtree_c) (fuel : Nat) :
    ∀ (part : Option Nat) (st : Option Nat × Int) (r : Bool × Option Nat × Int),
      PickNodeLoop DIST_EPSILON factor cancelled doc L tree fuel part st = some r →
      (∀ b, st.1 = some b → Accepted DIST_EPSILON factor doc L tree b) →
      ∀ b, r.2.1 = some b → Accepted DIST_EPSILON factor doc L tree b := by
  induction fuel with
  | zero => intro part st r h; simp [PickNodeLoop] at h
  | succ fuel ih =>
    intro part st r h hst
    cases part with
    | none =>
      simp only [PickNodeLoop] at h
      rw [← Option.some.inj h]
      exact hst
    | some p =>
      simp only [PickNodeLoop] at h
      by_cases hc : cancelled = true
      · rw [if_pos hc] at h
        rw [← Option.some.inj h]
        exact hst
      · rw [if_neg hc] at h
        by_cases hm : (L.lev_segs p).linedef < 0
        · rw [if_pos hm] at h
          exact ih _ _ _ h hst
        · rw [if_neg hm] at h
          simp only [Option.bind_eq_some] at h
          obtain ⟨cost, hcost, h⟩ := h
          by_cases hbad : cost < 0 ∨ cost ≥ st.2
          · rw [if_pos hbad] at h
            exact ih _ _ _ h hst
          · rw [if_neg hbad] at h
            refine ih _ _ _ h ?_
            intro b hb
            have e : p = b := Option.some.inj hb
            subst e
            exact ⟨st.2, cost, hcost, not_lt.mp (fun k => hbad (Or.inl k))⟩

theorem PickNodeWorker_accepted (DIST_EPSILON : ℚ) (factor : Int) (cancelled : Bool)
    (doc : Document) (L : Level) (tree : quadtree_c) (cell : quadtree_c) :
    ∀ (st : Option Nat × Int) (r : Bool × Option Nat × Int),
      PickNodeWorker DIST_EPSILON factor cancelled doc L tree cell st = some r →
      (∀ b, st.1 = some b → Accepted DIST_EPSILON factor doc L tree b) →
      ∀ b, r.2.1 = some b → Accepted DIST_EPSILON factor doc L tree b := by
  induction cell with
  | leaf x1 y1 x2 y2 rn mn list =>
    intro st r h hst
    simp only [PickNodeWorker] at h
    exact PickNodeLoop_accepted DIST_EPSILON factor cancelled doc L tree _ _ _ _ h hst
  | node x1 y1 x2 y2 rn mn list sub0 sub1 ih0 ih1 =>
    intro st r h hst
    simp only [PickNodeWorker, Option.bind_eq_some] at h
    obtain ⟨r1, h1, h⟩ := h
    have a1 := PickNodeLoop_accepted DIST_EPSILON factor cancelled doc L tree _ _ _ _ h1 hst
    by_cases hr1 : r1.1 = true
    · simp only [hr1, not_true_eq_false, if_false, Option.bind_eq_some,
        Option.map_eq_some'] at h
      obtain ⟨st0, h0, st1, h2, hr⟩ := h
      have a2 : ∀ b, st0.1 = some b → Accepted DIST_EPSILON factor doc L tree b := by
        split_ifs at h0
        · rw [← Option.some.inj h0]
          exact a1
        · simp only [Option.map_eq_some'] at h0
          obtain ⟨r0, hr0, e⟩ := h0
          rw [← e]
          exact ih0 _ _ hr0 a1
      have a3 : ∀ b, st1.1 = some b → Accepted DIST_EPSILON factor doc L tree b := by
        split_ifs at h2
        · rw [← Option.some.inj h2]
          exact a2
        · simp only [Option.map_eq_some'] at h2
          obtain ⟨r0, hr0, e⟩ := h2
          rw [← e]
          exact ih1 _ _ hr0 a2
      rw [← hr]
      exact a3
    · rw [if_pos hr1] at h
      rw [← Option.some.inj h]
      exact a1

theorem FindFastSeg_accepted (DIST_EPSILON : ℚ) (factor : Int) (doc : Document) (L : Level)
    (tree : quadtree_c) (res : Option Nat)
    (h : FindFastSeg DIST_EPSILON factor doc L tree = some res) :
    ∀ b, res = some b → Accepted DIST_EPSILON factor doc L tree b := by
  unfold FindFastSeg at h
  simp only [Option.bind_eq_some] at h
  obtain ⟨best, -, H_cost, hH, V_cost, hV, h⟩ := h
  have aH : ¬ H_cost < 0 → ∀ b, best.1 = some b → Accepted DIST_EPSILON factor doc L tree b := by
    intro hn b hb
    rw [hb] at hH
    exact ⟨99999999, H_cost, hH, not_lt.mp hn⟩
  have aV : ¬ V_cost < 0 → ∀ b, best.2 = some b → Accepted DIST_EPSILON factor doc L tree b := by
    intro hn b hb
    rw [hb] at hV
    exact ⟨99999999, V_cost, hV, not_lt.mp hn⟩
  intro b hb
  split_ifs at h with k1 k2 k3 k4
  · rw [← Option.some.inj h] at hb
    exact Option.noConfusion hb
  · rw [← Option.some.inj h] at hb
    exact aV (fun k => k1 ⟨k2, k⟩) b hb
  · rw [← Option.some.inj h] at hb
    exact aH k2 b hb
  · rw [← Option.some.inj h] at hb
    exact aV k3 b hb
  · rw [← Option.some.inj h] at hb
    exact aH k2 b hb

/-- A seg that `PickNode` returns passes `EvalPartition`. -/
theorem PickNode_accepted (DIST_EPSILON : ℚ) (factor : Int) (fast cancelled : Bool)
    (doc : Document) (L : Level) (tree : quadtree_c) (p : Nat)
    (h : PickNode DIST_EPSILON factor fast cancelled doc L tree = some (some p)) :
    Accepted DIST_EPSILON factor doc L tree p := by
  unfold PickNode at h
  simp only [Option.bind_eq_some] at h
  obtain ⟨best, hbest, h⟩ := h
  have hfull : (PickNodeWorker DIST_EPSILON factor cancelled doc L tree tree
      (none, INT_MAX)).map (fun r => if ¬ r.1 = true then none else r.2.1) = some (some p) →
      Accepted DIST_EPSILON factor doc L tree p := by
    intro hw
    simp only [Option.map_eq_some'] at hw
    obtain ⟨r, hr, e⟩ := hw
    split_ifs at e
    exact PickNodeWorker_accepted DIST_EPSILON factor cancelled doc L tree tree _ _ hr
      (fun b hb => Option.noConfusion hb) p e
  cases best with
  | none => exact hfull h
  | some b =>
    have e : b = p := Option.some.inj (Option.some.inj h)
    subst e
    split_ifs at hbest
    · exact FindFastSeg_accepted DIST_EPSILON factor doc L tree _ hbest b rfl
    · exact Option.noConfusion (Option.some.inj hbest)

/-! ### Both lists of `SeparateSegs` hold a seg -/

theorem Recomputed_congr {L L' : Level} (hv : L'.lev_vertices = L.lev_vertices)
    (hg : L.SameGeom L') (x : Nat) (h : L.Recomputed x) : L'.Recomputed x := by
  have e := hg x
  unfold seg_t.SameGeom at e
  unfold Level.Recomputed seg_t.Exact at h ⊢
  rw [← e] at h
  rw [hv]
  exact h

theorem OneLine_congr {L L' : Level} (hg : L.SameGeom L') (x p : Nat) (h : L.OneLine x p) :
    L'.OneLine x p := by
  obtain ⟨p1, -, -, -, -, p6, p7, p8, p9, -, -⟩ := SameGeom_fields (hg p)
  obtain ⟨s1, s2, s3, s4, s5, -, -, -, -, -, -⟩ := SameGeom_fields (hg x)
  unfold Level.OneLine seg_t.PerpDist at h ⊢
  rw [p1, p6, p7, p8, p9, s1, s2, s3, s4, s5]
  exact h

/-- The partition seg itself goes to the right list. -/
theorem GoesRight_self (DIST_EPSILON : ℚ) (heps : 0 ≤ DIST_EPSILON) (L : Level) (p : Nat) :
    L.GoesRight DIST_EPSILON p p := by
  have ea : L.perpA p p = 0 := by
    unfold Level.perpA
    rw [if_pos rfl]
  have eb : L.perpB p p = 0 := by
    unfold Level.perpB
    rw [if_pos rfl]
  unfold Level.GoesRight
  rw [ea, eb, abs_zero]
  refine Or.inl ⟨heps, heps, ?_⟩
  have := add_nonneg (mul_self_nonneg (L.lev_segs p).pdx) (mul_self_nonneg (L.lev_segs p).pdy)
  exact not_lt.mpr this

/-- A seg that `PickNode` returns is stored in the tree. -/
theorem PickNode_mem (DIST_EPSILON : ℚ) (factor : Int) (fast cancelled : Bool)
    (doc : Document) (L : Level) (tree : quadtree_c) (hp : tree.Proper L = true) (p : Nat)
    (h : PickNode DIST_EPSILON factor fast cancelled doc L tree = some (some p)) :
    p ∈ tree.Segs L := by
  obtain ⟨r, hr, hrb⟩ := PickNodeWorker_spec DIST_EPSILON factor cancelled doc L tree hp
    (fun s => s ∈ tree.Segs L) tree hp (fun s hs => hs) (none, INT_MAX)
    (fun b hb => Option.noConfusion hb)
  unfold PickNode at h
  simp only [Option.bind_eq_some] at h
  obtain ⟨best, hbest, h⟩ := h
  cases best with
  | none =>
    simp only [] at h
    rw [hr] at h
    simp only [Option.map_some'] at h
    have e := Option.some.inj h
    split_ifs at e
    exact (hrb p e).1
  | some b =>
    have e : b = p := Option.some.inj (Option.some.inj h)
    subst e
    split_ifs at hbest
    · obtain ⟨res, hres, hgood⟩ := FindFastSeg_spec DIST_EPSILON factor doc L tree hp
      rw [hres] at hbest
      exact (hgood b (Option.some.inj hbest)).1
    · exact Option.noConfusion (Option.some.inj hbest)

